import Mathlib

/-!
# Red-black tree of `ft::RBT` (src/containers/utils/RBT.hpp)

Shallow embedding of the pointer-based red-black tree.  Memory is an explicit
heap of node cells addressed by natural numbers; `none : Ptr` is `ft_nullptr`.
A read or write through `ft_nullptr` or through a cell that is not allocated
is undefined behaviour in C++ and is modelled by the result `none`.
Loops carry a fuel counter; the public operations run them with the number of
cells handed out by the allocator so far, and a loop that exhausts it yields
`none` as well.
-/

namespace FtContainers

/-- Colour tag of a node: the two values `RED_NODE` (1) and `BLACK_NODE` (0)
that the `color` field ever holds. -/
inductive Color where
  | RED_NODE
  | BLACK_NODE
  deriving DecidableEq, Repr

open Color

/-- Node pointer; `none` is `ft_nullptr`. -/
abbrev Ptr := Option Nat

/-- Cell of `struct RBT_Node`: `val` is the key/value pair, then the colour
and the three links. -/
structure RBT_Node (K V : Type) where
  val : K × V
  color : Color
  parent : Ptr
  left : Ptr
  right : Ptr
  deriving DecidableEq, Repr

/-- State of `class RBT`: `_root`, the address of the sentinel `_null`, the
memory, and the allocator (a counter of the cells handed out). -/
structure RBT (K V : Type) where
  root : Ptr
  null : Nat
  heap : Nat → Option (RBT_Node K V)
  next : Nat

variable {K V : Type}

/-- Sequencing of two steps of which the first may be undefined. -/
@[noinline] def andThen {α β : Type} (x : Option α) (f : α → Option β) : Option β :=
  match x with
  | none => none
  | some a => f a

/-- Result of running a piece of the C++ code: `some r` when it returns `r`,
`none` when it dereferences an invalid pointer or runs out of fuel. -/
def Exec (α : Type) : Type := Option α

instance : Monad Exec where
  pure := fun a => some a
  bind := andThen

/-- Memory with the cell at `a` replaced. -/
def setCell (h : Nat → Option (RBT_Node K V)) (a : Nat) (c : Option (RBT_Node K V)) :
    Nat → Exec (RBT_Node K V) :=
  fun b => if b = a then c else h b

namespace RBT

/-- Dereference `p`: the node stored there, `none` for `ft_nullptr` or a
cell that is not allocated. -/
def get (t : RBT K V) (p : Ptr) : Exec (RBT_Node K V) :=
  match p with
  | none => none
  | some a => t.heap a

/-- Read `p->val.first`. -/
def key (t : RBT K V) (p : Ptr) : Exec K := do
  let n ← t.get p
  pure n.val.1
/-- Read `p->color`. -/
def color (t : RBT K V) (p : Ptr) : Exec Color := do
  let n ← t.get p
  pure n.color
/-- Read `p->parent`. -/
def parent (t : RBT K V) (p : Ptr) : Exec Ptr := do
  let n ← t.get p
  pure n.parent
/-- Read `p->left`. -/
def left (t : RBT K V) (p : Ptr) : Exec Ptr := do
  let n ← t.get p
  pure n.left
/-- Read `p->right`. -/
def right (t : RBT K V) (p : Ptr) : Exec Ptr := do
  let n ← t.get p
  pure n.right

/-- Write through `p`: replace the node at `p` by `f` of it. -/
def modify (t : RBT K V) (p : Ptr) (f : RBT_Node K V → RBT_Node K V) : Exec (RBT K V) :=
  match p with
  | none => none
  | some a =>
    match t.heap a with
    | none => none
    | some n => some { t with heap := setCell t.heap a (some (f n)) }

/-- Assignment `p->color = c`. -/
def setColor (t : RBT K V) (p : Ptr) (c : Color) : Exec (RBT K V) :=
  t.modify p (fun n => { n with color := c })
/-- Assignment `p->parent = q`. -/
def setParent (t : RBT K V) (p q : Ptr) : Exec (RBT K V) :=
  t.modify p (fun n => { n with parent := q })
/-- Assignment `p->left = q`. -/
def setLeft (t : RBT K V) (p q : Ptr) : Exec (RBT K V) :=
  t.modify p (fun n => { n with left := q })
/-- Assignment `p->right = q`. -/
def setRight (t : RBT K V) (p q : Ptr) : Exec (RBT K V) :=
  t.modify p (fun n => { n with right := q })

/-- Allocate one cell and construct `n` in it (`_alloc.allocate(1)` followed
by `_alloc.construct`): the allocator hands out the next unused address. -/
def allocate (t : RBT K V) (n : RBT_Node K V) : RBT K V × Ptr :=
  ({ t with heap := setCell t.heap t.next (some n), next := t.next + 1 }, some t.next)

/-- Destroy and release the cell at `p` (`_alloc.destroy` followed by
`_alloc.deallocate`). -/
def deallocate (t : RBT K V) (p : Ptr) : Exec (RBT K V) :=
  match p with
  | none => none
  | some a =>
    match t.heap a with
    | none => none
    | some _ => some { t with heap := setCell t.heap a none }

/-- Constructor `RBT::RBT`: the sentinel is allocated BLACK with three null
links and is the root. -/
def new [Inhabited K] [Inhabited V] : RBT K V :=
  let t0 : RBT K V := { root := none, null := 0, heap := fun _ => none, next := 0 }
  let r := t0.allocate { val := default, color := BLACK_NODE, parent := none, left := none, right := none }
  { r.1 with root := r.2, null := 0 }

/-- Accessor `getRoot`. -/
def getRoot (t : RBT K V) : Ptr := t.root
/-- Accessor `getNull`. -/
def getNull (t : RBT K V) : Ptr := some t.null

/-- Loop of `min(pointer)`. -/
def minLoop (t : RBT K V) : Nat → Ptr → Exec Ptr
  | 0, _ => none
  | fuel + 1, s => do
    let l ← t.left s
    if l ≠ some t.null then minLoop t fuel l else pure s

/-- Loop of `max(pointer)`. -/
def maxLoop (t : RBT K V) : Nat → Ptr → Exec Ptr
  | 0, _ => none
  | fuel + 1, s => do
    let r ← t.right s
    if r ≠ some t.null then maxLoop t fuel r else pure s

/-- Private `min(pointer s)`. -/
def minFrom (t : RBT K V) (s : Ptr) : Exec Ptr := minLoop t t.next s
/-- Private `max(pointer s)`. -/
def maxFrom (t : RBT K V) (s : Ptr) : Exec Ptr := maxLoop t t.next s
/-- Public `min()`. -/
def min (t : RBT K V) : Exec Ptr := t.minFrom t.root
/-- Public `max()`. -/
def max (t : RBT K V) : Exec Ptr := t.maxFrom t.root

variable [LinearOrder K]

/-- Recursion of `searchTreeHelper(node, key)`; only `key.first` is compared. -/
def searchTreeHelper (t : RBT K V) : Nat → Ptr → K × V → Exec Ptr
  | 0, _, _ => none
  | fuel + 1, node, key =>
    if node = some t.null then some node
    else do
      let nk ← t.key node
      if key.1 = nk then pure node
      else if key.1 < nk then do
        let l ← t.left node
        searchTreeHelper t fuel l key
      else do
        let r ← t.right node
        searchTreeHelper t fuel r key

/-- Public `searchTree(key)`. -/
def searchTree (t : RBT K V) (key : K × V) : Exec Ptr :=
  searchTreeHelper t t.next t.root key

/-- Function `leftRotate(s)`. -/
def leftRotate (t : RBT K V) (s : Ptr) : Exec (RBT K V) := do
  let tmp ← t.right s
  let tl ← t.left tmp
  let t ← t.setRight s tl
  let tl ← t.left tmp
  let t ← if tl ≠ some t.null then t.setParent tl s else pure t
  let sp ← t.parent s
  let t ← t.setParent tmp sp
  let sp ← t.parent s
  let t ←
    if sp = none then pure { t with root := tmp }
    else do
      let spl ← t.left sp
      if s = spl then t.setLeft sp tmp else t.setRight sp tmp
  let t ← t.setLeft tmp s
  t.setParent s tmp

/-- Function `rightRotate(x)`. -/
def rightRotate (t : RBT K V) (x : Ptr) : Exec (RBT K V) := do
  let y ← t.left x
  let yr ← t.right y
  let t ← t.setLeft x yr
  let yr ← t.right y
  let t ← if yr ≠ some t.null then t.setParent yr x else pure t
  let xp ← t.parent x
  let t ← t.setParent y xp
  let xp ← t.parent x
  let t ←
    if xp = none then pure { t with root := y }
    else do
      let xpr ← t.right xp
      if x = xpr then t.setRight xp y else t.setLeft xp y
  let t ← t.setRight y x
  t.setParent x y

/-- Body of one iteration of the `while` loop of `fixInsert`, up to the
`if (k == _root) break;` test: the new state and the new cursor `k`. -/
def fixInsertBody (t : RBT K V) (k : Ptr) : Exec (RBT K V × Ptr) := do
  let kp ← t.parent k
  let kpp ← t.parent kp
  let kppr ← t.right kpp
  if kp = kppr then
    let u ← t.left kpp
    let uc ← t.color u
    if uc = RED_NODE then
      let t ← t.setColor u BLACK_NODE
      let kp ← t.parent k
      let t ← t.setColor kp BLACK_NODE
      let kp ← t.parent k
      let kpp ← t.parent kp
      let t ← t.setColor kpp RED_NODE
      let kp ← t.parent k
      let kpp ← t.parent kp
      pure (t, kpp)
    else
      let kp ← t.parent k
      let kpl ← t.left kp
      let r ←
        if k = kpl then do
          let t1 ← t.rightRotate kp
          pure (t1, kp)
        else pure (t, k)
      let t := r.1
      let k := r.2
      let kp ← t.parent k
      let t ← t.setColor kp BLACK_NODE
      let kp ← t.parent k
      let kpp ← t.parent kp
      let t ← t.setColor kpp RED_NODE
      let kp ← t.parent k
      let kpp ← t.parent kp
      let t ← t.leftRotate kpp
      pure (t, k)
  else
    let u ← t.right kpp
    let uc ← t.color u
    if uc = RED_NODE then
      let t ← t.setColor u BLACK_NODE
      let kp ← t.parent k
      let t ← t.setColor kp BLACK_NODE
      let kp ← t.parent k
      let kpp ← t.parent kp
      let t ← t.setColor kpp RED_NODE
      let kp ← t.parent k
      let kpp ← t.parent kp
      pure (t, kpp)
    else
      let kp ← t.parent k
      let kpr ← t.right kp
      let r ←
        if k = kpr then do
          let t1 ← t.leftRotate kp
          pure (t1, kp)
        else pure (t, k)
      let t := r.1
      let k := r.2
      let kp ← t.parent k
      let t ← t.setColor kp BLACK_NODE
      let kp ← t.parent k
      let kpp ← t.parent kp
      let t ← t.setColor kpp RED_NODE
      let kp ← t.parent k
      let kpp ← t.parent kp
      let t ← t.rightRotate kpp
      pure (t, k)

/-- Function `fixInsert(k)`: the loop, then `_root->color = BLACK_NODE`. -/
def fixInsert : Nat → RBT K V → Ptr → Exec (RBT K V)
  | 0, _, _ => none
  | fuel + 1, t, k => do
    let kp ← t.parent k
    let c ← t.color kp
    if c = RED_NODE then
      let r ← fixInsertBody t k
      if r.2 = r.1.root then r.1.setColor r.1.root BLACK_NODE
      else fixInsert fuel r.1 r.2
    else t.setColor t.root BLACK_NODE

/-- Descent loop of `insert`: from `(y, x)` down to the sentinel.  The result
is the last node visited and whether a node with the key of `s` was met. -/
def insertLoop (t : RBT K V) (s : Ptr) : Nat → Ptr → Ptr → Exec (Ptr × Bool)
  | 0, _, _ => none
  | fuel + 1, y, x =>
    if x ≠ some t.null then do
      let sk ← t.key s
      let xk ← t.key x
      if sk < xk then do
        let l ← t.left x
        insertLoop t s fuel x l
      else if sk > xk then do
        let r ← t.right x
        insertLoop t s fuel x r
      else pure (x, true)
    else pure (y, false)

/-- Function `insert(key)`.  The result is the new state, the node `y` that
the returned iterator is built on, and the `bool` of the returned pair. -/
def insert (t : RBT K V) (key : K × V) : Exec (RBT K V × Ptr × Bool) := do
  let a := t.allocate
    { val := key, color := RED_NODE, parent := none, left := some t.null, right := some t.null }
  let t := a.1
  let s := a.2
  let r ← insertLoop t s t.next none t.root
  let y := r.1
  if r.2 then
    let t ← t.deallocate s
    pure (t, y, false)
  else
    let t ← t.setParent s y
    let t ←
      if y = none then pure { t with root := s }
      else do
        let sk ← t.key s
        let yk ← t.key y
        if sk < yk then t.setLeft y s else t.setRight y s
    let sp ← t.parent s
    if sp = none then
      let t ← t.setColor s BLACK_NODE
      pure (t, y, true)
    else
      let spp ← t.parent sp
      if spp = none then pure (t, y, true)
      else
        let t ← fixInsert t.next t s
        pure (t, y, true)

/-- Body of one iteration of the `while` loop of `fixDelete`: the new state
and the new cursor `x`. -/
def fixDeleteBody (t : RBT K V) (x : Ptr) : Exec (RBT K V × Ptr) := do
  let xp ← t.parent x
  let xpl ← t.left xp
  if x = xpl then
    let s ← t.right xp
    let sc ← t.color s
    let r ←
      if sc = RED_NODE then do
        let t ← t.setColor s BLACK_NODE
        let xp ← t.parent x
        let t ← t.setColor xp RED_NODE
        let xp ← t.parent x
        let t ← t.leftRotate xp
        let xp ← t.parent x
        let s ← t.right xp
        pure (t, s)
      else pure (t, s)
    let t := r.1
    let s := r.2
    let sl ← t.left s
    let slc ← t.color sl
    let both ←
      if slc = BLACK_NODE then do
        let sr ← t.right s
        let src ← t.color sr
        pure (decide (src = BLACK_NODE))
      else pure false
    if both then
      let t ← t.setColor s RED_NODE
      let xp ← t.parent x
      pure (t, xp)
    else
      let sr ← t.right s
      let src ← t.color sr
      let r ←
        if src = BLACK_NODE then do
          let sl ← t.left s
          let t ← t.setColor sl BLACK_NODE
          let t ← t.setColor s RED_NODE
          let t ← t.rightRotate s
          let xp ← t.parent x
          let s ← t.right xp
          pure (t, s)
        else pure (t, s)
      let t := r.1
      let s := r.2
      let xp ← t.parent x
      let xpc ← t.color xp
      let t ← t.setColor s xpc
      let xp ← t.parent x
      let t ← t.setColor xp BLACK_NODE
      let sr ← t.right s
      let t ← t.setColor sr BLACK_NODE
      let xp ← t.parent x
      let t ← t.leftRotate xp
      pure (t, t.root)
  else
    let s ← t.left xp
    let sc ← t.color s
    let r ←
      if sc = RED_NODE then do
        let t ← t.setColor s BLACK_NODE
        let xp ← t.parent x
        let t ← t.setColor xp RED_NODE
        let xp ← t.parent x
        let t ← t.rightRotate xp
        let xp ← t.parent x
        let s ← t.left xp
        pure (t, s)
      else pure (t, s)
    let t := r.1
    let s := r.2
    let sl ← t.left s
    let slc ← t.color sl
    let both ←
      if slc = BLACK_NODE then do
        let sr ← t.right s
        let src ← t.color sr
        pure (decide (src = BLACK_NODE))
      else pure false
    if both then
      let t ← t.setColor s RED_NODE
      let xp ← t.parent x
      pure (t, xp)
    else
      let sl ← t.left s
      let slc ← t.color sl
      let r ←
        if slc = BLACK_NODE then do
          let sr ← t.right s
          let t ← t.setColor sr BLACK_NODE
          let t ← t.setColor s RED_NODE
          let t ← t.leftRotate s
          let xp ← t.parent x
          let s ← t.left xp
          pure (t, s)
        else pure (t, s)
      let t := r.1
      let s := r.2
      let xp ← t.parent x
      let xpc ← t.color xp
      let t ← t.setColor s xpc
      let xp ← t.parent x
      let t ← t.setColor xp BLACK_NODE
      let sl ← t.left s
      let t ← t.setColor sl BLACK_NODE
      let xp ← t.parent x
      let t ← t.rightRotate xp
      pure (t, t.root)

/-- Function `fixDelete(x)`: the loop, then `x->color = BLACK_NODE`. -/
def fixDelete : Nat → RBT K V → Ptr → Exec (RBT K V)
  | 0, _, _ => none
  | fuel + 1, t, x =>
    if x ≠ t.root then do
      let c ← t.color x
      if c = BLACK_NODE then
        let r ← fixDeleteBody t x
        fixDelete fuel r.1 r.2
      else t.setColor x BLACK_NODE
    else t.setColor x BLACK_NODE

/-- Function `rbTransplant(u, v)`. -/
def rbTransplant (t : RBT K V) (u v : Ptr) : Exec (RBT K V) := do
  let up ← t.parent u
  let t ←
    if up = none then pure { t with root := v }
    else do
      let upl ← t.left up
      if u = upl then t.setLeft up v else t.setRight up v
  let up ← t.parent u
  t.setParent v up

/-- Lookup loop of `deleteNodeHelper`: from `node` down to the sentinel,
remembering in `z` the node whose key equals `key.first`. -/
def deleteLoop (t : RBT K V) (key : K × V) : Nat → Ptr → Ptr → Exec Ptr
  | 0, _, _ => none
  | fuel + 1, node, z =>
    if node ≠ some t.null then do
      let nk ← t.key node
      let z := if nk = key.1 then node else z
      if nk ≤ key.1 then do
        let r ← t.right node
        deleteLoop t key fuel r z
      else do
        let l ← t.left node
        deleteLoop t key fuel l z
    else pure z

/-- Function `deleteNodeHelper(node, key)`. -/
def deleteNodeHelper (t : RBT K V) (node : Ptr) (key : K × V) : Exec (RBT K V) := do
  let z ← deleteLoop t key t.next node (some t.null)
  if z = some t.null then pure t
  else
    let zc ← t.color z
    let zl ← t.left z
    let r ←
      if zl = some t.null then do
        let x ← t.right z
        let zr ← t.right z
        let t ← t.rbTransplant z zr
        pure (t, x, zc)
      else do
        let zr ← t.right z
        if zr = some t.null then do
          let x ← t.left z
          let zl ← t.left z
          let t ← t.rbTransplant z zl
          pure (t, x, zc)
        else do
          let zr ← t.right z
          let y ← t.minFrom zr
          let yc ← t.color y
          let x ← t.right y
          let yp ← t.parent y
          let t ←
            if yp = z then t.setParent x y
            else do
              let yr ← t.right y
              let t ← t.rbTransplant y yr
              let zr ← t.right z
              let t ← t.setRight y zr
              let yr ← t.right y
              t.setParent yr y
          let t ← t.rbTransplant z y
          let zl ← t.left z
          let t ← t.setLeft y zl
          let yl ← t.left y
          let t ← t.setParent yl y
          let zc ← t.color z
          let t ← t.setColor y zc
          pure (t, x, yc)
    let t := r.1
    let x := r.2.1
    let y_original_color := r.2.2
    let t ← t.deallocate z
    if y_original_color = BLACK_NODE then fixDelete t.next t x
    else pure t

/-- Relinking step of `deleteNodeHelper` for the node `z` found by the lookup
loop, from `y = z` to the release of `z`: the new state, the node `x` that
took the place of the removed node, and `y_original_color`. -/
def deleteSplice (t : RBT K V) (z : Ptr) : Exec (RBT K V × Ptr × Color) := do
  let zc ← t.color z
  let zl ← t.left z
  let r ←
    if zl = some t.null then do
      let x ← t.right z
      let zr ← t.right z
      let t ← t.rbTransplant z zr
      pure (t, x, zc)
    else do
      let zr ← t.right z
      if zr = some t.null then do
        let x ← t.left z
        let zl ← t.left z
        let t ← t.rbTransplant z zl
        pure (t, x, zc)
      else do
        let zr ← t.right z
        let y ← t.minFrom zr
        let yc ← t.color y
        let x ← t.right y
        let yp ← t.parent y
        let t ←
          if yp = z then t.setParent x y
          else do
            let yr ← t.right y
            let t ← t.rbTransplant y yr
            let zr ← t.right z
            let t ← t.setRight y zr
            let yr ← t.right y
            t.setParent yr y
        let t ← t.rbTransplant z y
        let zl ← t.left z
        let t ← t.setLeft y zl
        let yl ← t.left y
        let t ← t.setParent yl y
        let zc ← t.color z
        let t ← t.setColor y zc
        pure (t, x, yc)
  let t := r.1
  let x := r.2.1
  let y_original_color := r.2.2
  let t ← t.deallocate z
  pure (t, x, y_original_color)

/-- Body of the loop of `fixDelete` for a cursor that is a left child, after
the `if (s->color == RED_NODE)` block, with the sibling `s` it leaves. -/
def fixDeleteLeft (t : RBT K V) (x s : Ptr) : Exec (RBT K V × Ptr) := do
  let sl ← t.left s
  let slc ← t.color sl
  let both ←
    if slc = BLACK_NODE then do
      let sr ← t.right s
      let src ← t.color sr
      pure (decide (src = BLACK_NODE))
    else pure false
  if both then
    let t ← t.setColor s RED_NODE
    let xp ← t.parent x
    pure (t, xp)
  else
    let sr ← t.right s
    let src ← t.color sr
    let r ←
      if src = BLACK_NODE then do
        let sl ← t.left s
        let t ← t.setColor sl BLACK_NODE
        let t ← t.setColor s RED_NODE
        let t ← t.rightRotate s
        let xp ← t.parent x
        let s ← t.right xp
        pure (t, s)
      else pure (t, s)
    let t := r.1
    let s := r.2
    let xp ← t.parent x
    let xpc ← t.color xp
    let t ← t.setColor s xpc
    let xp ← t.parent x
    let t ← t.setColor xp BLACK_NODE
    let sr ← t.right s
    let t ← t.setColor sr BLACK_NODE
    let xp ← t.parent x
    let t ← t.leftRotate xp
    pure (t, t.root)

/-- Body of the loop of `fixDelete` for a cursor that is a right child, after
the `if (s->color == RED_NODE)` block, with the sibling `s` it leaves. -/
def fixDeleteRight (t : RBT K V) (x s : Ptr) : Exec (RBT K V × Ptr) := do
  let sl ← t.left s
  let slc ← t.color sl
  let both ←
    if slc = BLACK_NODE then do
      let sr ← t.right s
      let src ← t.color sr
      pure (decide (src = BLACK_NODE))
    else pure false
  if both then
    let t ← t.setColor s RED_NODE
    let xp ← t.parent x
    pure (t, xp)
  else
    let sl ← t.left s
    let slc ← t.color sl
    let r ←
      if slc = BLACK_NODE then do
        let sr ← t.right s
        let t ← t.setColor sr BLACK_NODE
        let t ← t.setColor s RED_NODE
        let t ← t.leftRotate s
        let xp ← t.parent x
        let s ← t.left xp
        pure (t, s)
      else pure (t, s)
    let t := r.1
    let s := r.2
    let xp ← t.parent x
    let xpc ← t.color xp
    let t ← t.setColor s xpc
    let xp ← t.parent x
    let t ← t.setColor xp BLACK_NODE
    let sl ← t.left s
    let t ← t.setColor sl BLACK_NODE
    let xp ← t.parent x
    let t ← t.rightRotate xp
    pure (t, t.root)

/-- Public `deleteNode(key)`. -/
def deleteNode (t : RBT K V) (key : K × V) : Exec (RBT K V) :=
  t.deleteNodeHelper t.root key

end RBT

/-! ## The tree denoted by a state -/

/-- Binary tree read off the memory: every node with its address, colour and
key/value pair; `nil` stands for a link to the sentinel. -/
inductive Tree (K V : Type) where
  | nil : Tree K V
  | node (a : Nat) (c : Color) (l : Tree K V) (kv : K × V) (r : Tree K V) : Tree K V
  deriving DecidableEq, Repr

namespace Tree

/-- In-order sequence of the key/value pairs. -/
def inorder : Tree K V → List (K × V)
  | nil => []
  | node _ _ l kv r => inorder l ++ kv :: inorder r

/-- In-order sequence of the keys. -/
def keys (T : Tree K V) : List K := T.inorder.map Prod.fst

/-- Addresses of the nodes, in in-order. -/
def addrs : Tree K V → List Nat
  | nil => []
  | node a _ l _ r => addrs l ++ a :: addrs r

/-- Number of nodes. -/
def size : Tree K V → Nat
  | nil => 0
  | node _ _ l _ r => size l + size r + 1

/-- Number of nodes on the longest path from the root to a sentinel link. -/
def height : Tree K V → Nat
  | nil => 0
  | node _ _ l _ r => max (height l) (height r) + 1

/-- Colour of the root; a link to the sentinel counts as BLACK. -/
def rootColor : Tree K V → Color
  | nil => BLACK_NODE
  | node _ c _ _ _ => c

/-- Invariant 2: no RED node has a RED child. -/
def noRedRed : Tree K V → Prop
  | nil => True
  | node _ c l _ r =>
    (c = RED_NODE → rootColor l = BLACK_NODE ∧ rootColor r = BLACK_NODE) ∧ noRedRed l ∧ noRedRed r

/-- Number of BLACK nodes on the leftmost path to a sentinel link. -/
def bh : Tree K V → Nat
  | nil => 0
  | node _ c l _ _ => bh l + (if c = BLACK_NODE then 1 else 0)

/-- Invariant 3: every path from a node to a descendant sentinel link passes
through the same number of BLACK nodes. -/
def balanced : Tree K V → Prop
  | nil => True
  | node _ _ l _ r => bh l = bh r ∧ balanced l ∧ balanced r

/-- BST ordering: the keys are strictly ascending in in-order, so every key
of a left subtree is less and every key of a right subtree is greater. -/
def BST [LT K] (T : Tree K V) : Prop := T.keys.Pairwise (fun a b => a < b)

instance decNoRedRed : (T : Tree K V) → Decidable (noRedRed T)
  | nil => isTrue trivial
  | node _ c l _ r =>
    have := decNoRedRed l
    have := decNoRedRed r
    inferInstanceAs (Decidable
      ((c = RED_NODE → rootColor l = BLACK_NODE ∧ rootColor r = BLACK_NODE) ∧ noRedRed l ∧ noRedRed r))

instance decBalanced : (T : Tree K V) → Decidable (balanced T)
  | nil => isTrue trivial
  | node _ _ l _ r =>
    have := decBalanced l
    have := decBalanced r
    inferInstanceAs (Decidable (bh l = bh r ∧ balanced l ∧ balanced r))

instance decBST [LT K] [DecidableRel (fun a b : K => a < b)] (T : Tree K V) : Decidable (BST T) :=
  inferInstanceAs (Decidable (T.keys.Pairwise (fun a b => a < b)))

end Tree

open Tree in
/-- Read the tree below `p` off the memory, requiring every node's parent
link to be `par`, the node it is reached from. -/
def toTree (t : RBT K V) : Nat → Ptr → Ptr → Option (Tree K V)
  | 0, _, _ => none
  | fuel + 1, p, par =>
    if p = some t.null then some nil
    else
      match p with
      | none => none
      | some a =>
        match t.heap a with
        | none => none
        | some n =>
          if n.parent = par then
            match toTree t fuel n.left p, toTree t fuel n.right p with
            | some l, some r => some (node a n.color l n.val r)
            | _, _ => none
          else none

namespace RBT

/-- Tree denoted by the state: what is reachable from `_root` through the
left and right links, provided the parent links are consistent with them and
the root has parent `ft_nullptr`. -/
def tree (t : RBT K V) : Option (Tree K V) := toTree t t.next t.root none

/-- Invariant 4 as the code can observe it: the sentinel cell is allocated
and BLACK. -/
def sentinelBlack (t : RBT K V) : Prop :=
  ∃ n, t.heap t.null = some n ∧ n.color = BLACK_NODE

/-- Invariants 1 to 4 of the data model. -/
def RedBlack (t : RBT K V) : Prop :=
  ∃ T, t.tree = some T ∧ T.rootColor = BLACK_NODE ∧ T.noRedRed ∧ T.balanced ∧ t.sentinelBlack

/-- BST ordering with consistent parent links: the state denotes a tree and
its keys are strictly ascending in in-order. -/
def Ordered [LT K] (t : RBT K V) : Prop :=
  ∃ T, t.tree = some T ∧ T.BST

/-- The allocator has handed out the sentinel and every node of the tree. -/
def Allocated (t : RBT K V) : Prop :=
  t.null < t.next ∧ ∀ T, t.tree = some T → ∀ a ∈ T.addrs, a < t.next

/-- Well-formed tree: BST ordering, consistent parent links, invariants 1 to
4, all of it in cells the allocator has handed out. -/
def WF [LT K] (t : RBT K V) : Prop :=
  t.Allocated ∧ t.Ordered ∧ t.RedBlack

/-- In-order sequence of the key/value pairs of the tree of a state
(empty when the state denotes no tree). -/
def inorder (t : RBT K V) : List (K × V) :=
  match t.tree with
  | some T => T.inorder
  | none => []

/-- In-order sequence of the keys of the tree of a state. -/
def keys (t : RBT K V) : List K := t.inorder.map Prod.fst

/-- Insert the listed pairs one after another. -/
def insertAll [LinearOrder K] (t : RBT K V) : List (K × V) → Exec (RBT K V)
  | [] => pure t
  | kv :: rest => do
    let r ← t.insert kv
    insertAll r.1 rest

/-- Delete the listed keys one after another. -/
def deleteAll [LinearOrder K] (t : RBT K V) : List (K × V) → Exec (RBT K V)
  | [] => pure t
  | kv :: rest => do
    let r ← t.deleteNode kv
    deleteAll r rest

end RBT

/-! ## Trees with a hole -/

/-- One step of a path from a node up to the root: the parent node with its
other subtree.  `L`: the hole is the left child; `R`: the hole is the right
child. -/
inductive Frame (K V : Type) where
  | L (a : Nat) (c : Color) (kv : K × V) (r : Tree K V) : Frame K V
  | R (a : Nat) (c : Color) (l : Tree K V) (kv : K × V) : Frame K V

namespace Frame

/-- Address of the parent node. -/
def addr : Frame K V → Nat
  | L a _ _ _ => a
  | R a _ _ _ => a

/-- Colour of the parent node. -/
def color : Frame K V → Color
  | L _ c _ _ => c
  | R _ c _ _ => c

/-- The parent node with `x` put in the hole. -/
def fill : Frame K V → Tree K V → Tree K V
  | L a c kv r, x => Tree.node a c x kv r
  | R a c l kv, x => Tree.node a c l kv x

end Frame

/-- The whole tree: `x` put in the hole of the path `ctx` (innermost frame
first). -/
def plug (x : Tree K V) : List (Frame K V) → Tree K V
  | [] => x
  | f :: rest => plug (f.fill x) rest

/-- Parent pointer of the hole: `ft_nullptr` at the root. -/
def ctxPar : List (Frame K V) → Ptr
  | [] => none
  | f :: _ => some f.addr

/-- Pointer that designates the root of `T`: the sentinel for `nil`. -/
def Tree.ptr (nl : Nat) : Tree K V → Ptr
  | Tree.nil => some nl
  | Tree.node a _ _ _ _ => some a

/-- The memory `h` holds the tree `T` below a node `par`: every node of `T`
is a cell other than the sentinel with the key/value pair, colour and links of
its place in `T`. -/
def Repr (h : Nat → Option (RBT_Node K V)) (nl : Nat) : Ptr → Tree K V → Prop
  | _, Tree.nil => True
  | par, Tree.node a c l kv r =>
    a ≠ nl ∧
    h a = some { val := kv, color := c, parent := par, left := l.ptr nl, right := r.ptr nl } ∧
    Repr h nl (some a) l ∧ Repr h nl (some a) r

/-- The memory `h` holds the path `ctx` above a hole whose pointer is
`child`. -/
def ReprCtx (h : Nat → Option (RBT_Node K V)) (nl : Nat) : Ptr → List (Frame K V) → Prop
  | _, [] => True
  | child, Frame.L a c kv r :: rest =>
    a ≠ nl ∧
    h a = some { val := kv, color := c, parent := ctxPar rest, left := child, right := r.ptr nl } ∧
    Repr h nl (some a) r ∧ ReprCtx h nl (some a) rest
  | child, Frame.R a c l kv :: rest =>
    a ≠ nl ∧
    h a = some { val := kv, color := c, parent := ctxPar rest, left := l.ptr nl, right := child } ∧
    Repr h nl (some a) l ∧ ReprCtx h nl (some a) rest

/-- Pointer to the root of the whole tree, from the pointer of the hole. -/
def ctxRoot (child : Ptr) : List (Frame K V) → Ptr
  | [] => child
  | f :: rest => ctxRoot (some f.addr) rest

/-- Addresses of the nodes of a path, its subtrees included. -/
def ctxAddrs : List (Frame K V) → List Nat
  | [] => []
  | Frame.L a _ _ r :: rest => a :: r.addrs ++ ctxAddrs rest
  | Frame.R a _ l _ :: rest => a :: l.addrs ++ ctxAddrs rest

/-- In-order sequence to the left of the hole. -/
def ctxPre : List (Frame K V) → List (K × V)
  | [] => []
  | Frame.L _ _ _ _ :: rest => ctxPre rest
  | Frame.R _ _ l kv :: rest => ctxPre rest ++ (l.inorder ++ [kv])

/-- In-order sequence to the right of the hole. -/
def ctxPost : List (Frame K V) → List (K × V)
  | [] => []
  | Frame.L _ _ kv r :: rest => kv :: r.inorder ++ ctxPost rest
  | Frame.R _ _ _ _ :: rest => ctxPost rest

/-- Balance of a path whose hole expects black-height `n`. -/
def ctxBal : Nat → List (Frame K V) → Prop
  | _, [] => True
  | n, Frame.L _ c _ r :: rest =>
    r.balanced ∧ n = r.bh ∧ ctxBal (n + (if c = BLACK_NODE then 1 else 0)) rest
  | n, Frame.R _ c l _ :: rest =>
    l.balanced ∧ l.bh = n ∧ ctxBal (n + (if c = BLACK_NODE then 1 else 0)) rest

/-- Absence of RED-RED pairs on a path whose hole is filled with a tree of
root colour `cc`. -/
def ctxNRR : Color → List (Frame K V) → Prop
  | _, [] => True
  | cc, Frame.L _ c _ r :: rest =>
    (c = RED_NODE → cc = BLACK_NODE ∧ r.rootColor = BLACK_NODE) ∧ r.noRedRed ∧ ctxNRR c rest
  | cc, Frame.R _ c l _ :: rest =>
    (c = RED_NODE → l.rootColor = BLACK_NODE ∧ cc = BLACK_NODE) ∧ l.noRedRed ∧ ctxNRR c rest

/-- Colour of the root of the whole tree, from the root colour of the hole. -/
def ctxRootColor (cc : Color) : List (Frame K V) → Color
  | [] => cc
  | f :: rest => ctxRootColor f.color rest

/-- Nodes of a tree in in-order, each with its address. -/
def Tree.nodes : Tree K V → List (Nat × (K × V))
  | Tree.nil => []
  | Tree.node a _ l kv r => Tree.nodes l ++ (a, kv) :: Tree.nodes r

/-- Nodes to the left of the hole of a path, in in-order. -/
def ctxPreN : List (Frame K V) → List (Nat × (K × V))
  | [] => []
  | Frame.L _ _ _ _ :: rest => ctxPreN rest
  | Frame.R a _ l kv :: rest => ctxPreN rest ++ (l.nodes ++ [(a, kv)])

/-- Nodes to the right of the hole of a path, in in-order. -/
def ctxPostN : List (Frame K V) → List (Nat × (K × V))
  | [] => []
  | Frame.L a _ kv r :: rest => (a, kv) :: r.nodes ++ ctxPostN rest
  | Frame.R _ _ _ _ :: rest => ctxPostN rest

/-- Descent from the root of a subtree towards `key`, as the loops of
`insert`, `searchTreeHelper` and `deleteNodeHelper` perform it: the subtree
where it stops (`nil`, or the node with that key) and the path to it. -/
def Tree.find [LinearOrder K] (key : K) : Tree K V → List (Frame K V) → Tree K V × List (Frame K V)
  | Tree.nil, ctx => (Tree.nil, ctx)
  | Tree.node a c l kv r, ctx =>
    if key < kv.1 then Tree.find key l (Frame.L a c kv r :: ctx)
    else if kv.1 < key then Tree.find key r (Frame.R a c l kv :: ctx)
    else (Tree.node a c l kv r, ctx)

/-- The key lies strictly between what is to the left and what is to the
right of the hole of a path. -/
def ctxBounded [LT K] (key : K) (ctx : List (Frame K V)) : Prop :=
  (∀ x ∈ ctxPre ctx, x.1 < key) ∧ (∀ x ∈ ctxPost ctx, key < x.1)

/-- The parent node of a frame with another colour. -/
def Frame.recolor (c : Color) : Frame K V → Frame K V
  | Frame.L a _ kv r => Frame.L a c kv r
  | Frame.R a _ l kv => Frame.R a c l kv

/-- The tree with its root coloured BLACK. -/
def Tree.blacken : Tree K V → Tree K V
  | Tree.nil => Tree.nil
  | Tree.node a _ l kv r => Tree.node a BLACK_NODE l kv r

/-- Loop invariant of `fixInsert` at the cursor `S` below the path `ctx`: the
cursor is a RED node, the only possible RED-RED pair is the cursor with its
parent, black-heights are uniform, and the root is BLACK and is not the
cursor. -/
structure InsInv (S : Tree K V) (ctx : List (Frame K V)) : Prop where
  red : S.rootColor = RED_NODE
  nrr : S.noRedRed
  bal : S.balanced
  nonempty : ctx ≠ []
  rootBlack : ctxRootColor RED_NODE ctx = BLACK_NODE
  cnrr : ctxNRR BLACK_NODE ctx
  cbal : ctxBal S.bh ctx

/-- Descent along the left links, as the loop of `min(pointer)` performs it:
the leftmost node of the subtree and the path to it. -/
def Tree.minPath : Tree K V → List (Frame K V) → Tree K V × List (Frame K V)
  | Tree.nil, ctx => (Tree.nil, ctx)
  | Tree.node a c Tree.nil kv r, ctx => (Tree.node a c Tree.nil kv r, ctx)
  | Tree.node a c (Tree.node b cb bl kb br) kv r, ctx =>
    Tree.minPath (Tree.node b cb bl kb br) (Frame.L a c kv r :: ctx)

/-- Loop invariant of `fixDelete` at the cursor `X` below the path `ctx`: the
paths through the cursor lack one BLACK node, a RED-RED pair can only be the
cursor with its parent or with one of its children, and the root is BLACK
unless it is the cursor. -/
structure DelInv (X : Tree K V) (ctx : List (Frame K V)) : Prop where
  nrr : X.blacken.noRedRed
  bal : X.balanced
  rootBlack : ctx ≠ [] → ctxRootColor RED_NODE ctx = BLACK_NODE
  cnrr : ctxNRR BLACK_NODE ctx
  cbal : ctxBal (X.bh + 1) ctx

/-- The state `t` holds the tree `T`: the root pointer designates it, the
memory holds it with consistent parent links, and no node occurs twice. -/
structure Shape (t : RBT K V) (T : Tree K V) : Prop where
  root : t.root = T.ptr t.null
  repr : Repr t.heap t.null none T
  nodup : T.addrs.Nodup

/-- What the operations on the links of real nodes leave alone: the sentinel
cell and the allocator. -/
structure Same (t t' : RBT K V) : Prop where
  null : t'.null = t.null
  next : t'.next = t.next
  cell : t'.heap t.null = t.heap t.null

/-! ## Sequences of calls -/

/-- One call of the public interface that changes the tree. -/
inductive Op (K V : Type) where
  | ins : K × V → Op K V
  | del : K × V → Op K V

/-- Run the listed calls of `insert` and `deleteNode` one after another. -/
def RBT.run [LinearOrder K] (t : RBT K V) : List (Op K V) → Exec (RBT K V)
  | [] => pure t
  | Op.ins kv :: rest => do
    let r ← t.insert kv
    RBT.run r.1 rest
  | Op.del kv :: rest => do
    let r ← t.deleteNode kv
    RBT.run r rest

/-! ## Reachability through the links -/

/-- Follow the links from `p` along `path` (`false` for `left`, `true` for
`right`); no link is followed out of the sentinel. -/
def RBT.walk (t : RBT K V) : List Bool → Ptr → Exec Ptr
  | [], p => pure p
  | d :: ds, p =>
    if p = some t.null then none
    else do
      let q ← if d then t.right p else t.left p
      RBT.walk t ds q

/-- The cell `a` is a node reachable from `_root`. -/
def RBT.Reach (t : RBT K V) (a : Nat) : Prop :=
  a ≠ t.null ∧ ∃ path, t.walk path t.root = some (some a)

/-- Every reachable node has as left and right link the sentinel or a reachable
node whose parent link points back to it, and no node is reached along two
paths. -/
def RBT.LinksConsistent (t : RBT K V) : Prop :=
  (∀ a, t.Reach a → ∃ l r, t.left (some a) = some l ∧ t.right (some a) = some r ∧
    (l = some t.null ∨ ∃ b, l = some b ∧ t.Reach b ∧ t.parent (some b) = some (some a)) ∧
    (r = some t.null ∨ ∃ b, r = some b ∧ t.Reach b ∧ t.parent (some b) = some (some a))) ∧
  (∀ a p q, a ≠ t.null → t.walk p t.root = some (some a) → t.walk q t.root = some (some a) →
    p = q)

/-- Subtree reached from the root of a tree along a path. -/
def Tree.sub : Tree K V → List Bool → Option (Tree K V)
  | T, [] => some T
  | Tree.nil, _ :: _ => none
  | Tree.node _ _ l _ r, d :: ds => Tree.sub (if d then r else l) ds

/-! ## The state of the repair loops -/

/-- The other subtree of the parent node of a frame: the sibling of the
hole. -/
def Frame.sibling : Frame K V → Tree K V
  | Frame.L _ _ _ r => r
  | Frame.R _ _ l _ => l

/-- Number of parent links from `p` up to the node whose parent link is
`ft_nullptr`. -/
def RBT.depth (t : RBT K V) : Nat → Ptr → Exec Nat
  | 0, _ => none
  | fuel + 1, p => do
    let q ← t.parent p
    if q = none then pure 0
    else do
      let d ← RBT.depth t fuel q
      pure (d + 1)

/-- State of the loop of `fixInsert` at the test of its condition, with the
cursor `k`: the memory holds a tree, the sentinel is BLACK, and the invariant
of the loop holds at the node `k`. -/
def RBT.FixInsertInv (t : RBT K V) (k : Ptr) : Prop :=
  t.sentinelBlack ∧ ∃ S ctx, Shape t (plug S ctx) ∧ InsInv S ctx ∧ k = S.ptr t.null

/-- State of the loop of `fixDelete` at the test of its condition, with the
cursor `x`: the memory holds a tree, the sentinel is BLACK, the invariant of
the loop holds at `x`, and when `x` is the sentinel its parent link designates
the node below which a BLACK node is missing. -/
def RBT.FixDeleteInv (t : RBT K V) (x : Ptr) : Prop :=
  t.sentinelBlack ∧ ∃ X ctx, Shape t (plug X ctx) ∧ DelInv X ctx ∧ x = X.ptr t.null ∧
    (X = Tree.nil → ctx ≠ [] → t.parent (some t.null) = some (ctxPar ctx))

/-- The end of an iteration of `fixInsert` with a BLACK uncle, from the cursor
`k`: `k->parent->color = BLACK_NODE; k->parent->parent->color = RED_NODE;`
and the rotation of `k->parent->parent`, to the left when `toLeft` holds. -/
def RBT.fixInsertTail (t : RBT K V) (k : Ptr) (toLeft : Bool) : Exec (RBT K V × Ptr) := do
  let kp ← t.parent k
  let t ← t.setColor kp BLACK_NODE
  let kp ← t.parent k
  let kpp ← t.parent kp
  let t ← t.setColor kpp RED_NODE
  let kp ← t.parent k
  let kpp ← t.parent kp
  let t ← if toLeft then t.leftRotate kpp else t.rightRotate kpp
  pure (t, k)

/-- The two states agree except for the left, right and parent link of the
sentinel. -/
def RBT.SameButSentinelLinks (t u : RBT K V) : Prop :=
  u.root = t.root ∧ u.null = t.null ∧ u.next = t.next ∧
  (∀ a, a ≠ t.null → u.heap a = t.heap a) ∧
  ∃ n m, t.heap t.null = some n ∧ u.heap t.null = some m ∧ m.color = n.color ∧ m.val = n.val

/-! ## The code with its assumptions on pointers as assertions -/

/-- Pointer `p` designates a real node: it is not `ft_nullptr`, it is not the
sentinel, and its cell is allocated. -/
def RBT.isNode (t : RBT K V) (p : Ptr) : Bool :=
  match p with
  | none => false
  | some a => decide (a ≠ t.null) && (t.heap a).isSome

/-- Assertion that `p` designates a real node; a failed assertion is
undefined behaviour. -/
def RBT.assertNode (t : RBT K V) (p : Ptr) : Exec Unit :=
  if t.isNode p then pure () else none

/-- Function `leftRotate(s)` with the assertion that the child it promotes,
`s->right`, is a real node. -/
def RBT.leftRotateChecked (t : RBT K V) (s : Ptr) : Exec (RBT K V) := do
  let tmp ← t.right s
  t.assertNode tmp
  t.leftRotate s

/-- Function `rightRotate(x)` with the assertion that the child it promotes,
`x->left`, is a real node. -/
def RBT.rightRotateChecked (t : RBT K V) (x : Ptr) : Exec (RBT K V) := do
  let y ← t.left x
  t.assertNode y
  t.rightRotate x

/-- Body of the loop of `fixInsert` with assertions: `k->parent` and
`k->parent->parent` are real nodes wherever they are dereferenced, and every
rotation promotes a real node. -/
def RBT.fixInsertBodyChecked (t : RBT K V) (k : Ptr) : Exec (RBT K V × Ptr) := do
  let kp ← t.parent k
  t.assertNode kp
  let kpp ← t.parent kp
  t.assertNode kpp
  let kppr ← t.right kpp
  if kp = kppr then
    let u ← t.left kpp
    let uc ← t.color u
    if uc = RED_NODE then
      let t ← t.setColor u BLACK_NODE
      let kp ← t.parent k
      let t ← t.setColor kp BLACK_NODE
      let kp ← t.parent k
      let kpp ← t.parent kp
      let t ← t.setColor kpp RED_NODE
      let kp ← t.parent k
      let kpp ← t.parent kp
      pure (t, kpp)
    else
      let kp ← t.parent k
      let kpl ← t.left kp
      let r ←
        if k = kpl then do
          let t1 ← t.rightRotateChecked kp
          pure (t1, kp)
        else pure (t, k)
      let t := r.1
      let k := r.2
      let kp ← t.parent k
      t.assertNode kp
      let t ← t.setColor kp BLACK_NODE
      let kp ← t.parent k
      let kpp ← t.parent kp
      t.assertNode kpp
      let t ← t.setColor kpp RED_NODE
      let kp ← t.parent k
      let kpp ← t.parent kp
      let t ← t.leftRotateChecked kpp
      pure (t, k)
  else
    let u ← t.right kpp
    let uc ← t.color u
    if uc = RED_NODE then
      let t ← t.setColor u BLACK_NODE
      let kp ← t.parent k
      let t ← t.setColor kp BLACK_NODE
      let kp ← t.parent k
      let kpp ← t.parent kp
      let t ← t.setColor kpp RED_NODE
      let kp ← t.parent k
      let kpp ← t.parent kp
      pure (t, kpp)
    else
      let kp ← t.parent k
      let kpr ← t.right kp
      let r ←
        if k = kpr then do
          let t1 ← t.leftRotateChecked kp
          pure (t1, kp)
        else pure (t, k)
      let t := r.1
      let k := r.2
      let kp ← t.parent k
      t.assertNode kp
      let t ← t.setColor kp BLACK_NODE
      let kp ← t.parent k
      let kpp ← t.parent kp
      t.assertNode kpp
      let t ← t.setColor kpp RED_NODE
      let kp ← t.parent k
      let kpp ← t.parent kp
      let t ← t.rightRotateChecked kpp
      pure (t, k)

/-- Function `fixInsert(k)` with assertions: `k->parent` is a real node where
the condition of the loop reads its colour, and the body is
`fixInsertBodyChecked`. -/
def RBT.fixInsertChecked : Nat → RBT K V → Ptr → Exec (RBT K V)
  | 0, _, _ => none
  | fuel + 1, t, k => do
    let kp ← t.parent k
    t.assertNode kp
    let c ← t.color kp
    if c = RED_NODE then
      let r ← RBT.fixInsertBodyChecked t k
      if r.2 = r.1.root then r.1.setColor r.1.root BLACK_NODE
      else RBT.fixInsertChecked fuel r.1 r.2
    else t.setColor t.root BLACK_NODE

/-- Function `insert(key)` with the assertions of `fixInsertChecked`. -/
def RBT.insertChecked [LinearOrder K] (t : RBT K V) (key : K × V) :
    Exec (RBT K V × Ptr × Bool) := do
  let a := t.allocate
    { val := key, color := RED_NODE, parent := none, left := some t.null, right := some t.null }
  let t := a.1
  let s := a.2
  let r ← RBT.insertLoop t s t.next none t.root
  let y := r.1
  if r.2 then
    let t ← t.deallocate s
    pure (t, y, false)
  else
    let t ← t.setParent s y
    let t ←
      if y = none then pure { t with root := s }
      else do
        let sk ← t.key s
        let yk ← t.key y
        if sk < yk then t.setLeft y s else t.setRight y s
    let sp ← t.parent s
    if sp = none then
      let t ← t.setColor s BLACK_NODE
      pure (t, y, true)
    else
      let spp ← t.parent sp
      if spp = none then pure (t, y, true)
      else
        let t ← RBT.fixInsertChecked t.next t s
        pure (t, y, true)

/-- Function `fixDeleteLeft` with assertions: the sibling is a real node
where its links are read again, and every rotation promotes a real node. -/
def RBT.fixDeleteLeftChecked (t : RBT K V) (x s : Ptr) : Exec (RBT K V × Ptr) := do
  t.assertNode s
  let sl ← t.left s
  let slc ← t.color sl
  let both ←
    if slc = BLACK_NODE then do
      let sr ← t.right s
      let src ← t.color sr
      pure (decide (src = BLACK_NODE))
    else pure false
  if both then
    let t ← t.setColor s RED_NODE
    let xp ← t.parent x
    pure (t, xp)
  else
    let sr ← t.right s
    let src ← t.color sr
    let r ←
      if src = BLACK_NODE then do
        let sl ← t.left s
        let t ← t.setColor sl BLACK_NODE
        let t ← t.setColor s RED_NODE
        let t ← t.rightRotateChecked s
        let xp ← t.parent x
        t.assertNode xp
        let s ← t.right xp
        t.assertNode s
        pure (t, s)
      else pure (t, s)
    let t := r.1
    let s := r.2
    let xp ← t.parent x
    t.assertNode xp
    let xpc ← t.color xp
    let t ← t.setColor s xpc
    let xp ← t.parent x
    let t ← t.setColor xp BLACK_NODE
    let sr ← t.right s
    let t ← t.setColor sr BLACK_NODE
    let xp ← t.parent x
    let t ← t.leftRotateChecked xp
    pure (t, t.root)

/-- Function `fixDeleteRight` with assertions, the mirror image of
`fixDeleteLeftChecked`. -/
def RBT.fixDeleteRightChecked (t : RBT K V) (x s : Ptr) : Exec (RBT K V × Ptr) := do
  t.assertNode s
  let sl ← t.left s
  let slc ← t.color sl
  let both ←
    if slc = BLACK_NODE then do
      let sr ← t.right s
      let src ← t.color sr
      pure (decide (src = BLACK_NODE))
    else pure false
  if both then
    let t ← t.setColor s RED_NODE
    let xp ← t.parent x
    pure (t, xp)
  else
    let sl ← t.left s
    let slc ← t.color sl
    let r ←
      if slc = BLACK_NODE then do
        let sr ← t.right s
        let t ← t.setColor sr BLACK_NODE
        let t ← t.setColor s RED_NODE
        let t ← t.leftRotateChecked s
        let xp ← t.parent x
        t.assertNode xp
        let s ← t.left xp
        t.assertNode s
        pure (t, s)
      else pure (t, s)
    let t := r.1
    let s := r.2
    let xp ← t.parent x
    t.assertNode xp
    let xpc ← t.color xp
    let t ← t.setColor s xpc
    let xp ← t.parent x
    let t ← t.setColor xp BLACK_NODE
    let sl ← t.left s
    let t ← t.setColor sl BLACK_NODE
    let xp ← t.parent x
    let t ← t.rightRotateChecked xp
    pure (t, t.root)

/-- Body of the loop of `fixDelete` with assertions: `x->parent` and the
sibling `s` are real nodes (the sibling also after the rotation that follows
a RED sibling), and every rotation promotes a real node. -/
def RBT.fixDeleteBodyChecked (t : RBT K V) (x : Ptr) : Exec (RBT K V × Ptr) := do
  let xp ← t.parent x
  t.assertNode xp
  let xpl ← t.left xp
  if x = xpl then
    let s ← t.right xp
    t.assertNode s
    let sc ← t.color s
    let r ←
      if sc = RED_NODE then do
        let t ← t.setColor s BLACK_NODE
        let xp ← t.parent x
        let t ← t.setColor xp RED_NODE
        let xp ← t.parent x
        let t ← t.leftRotateChecked xp
        let xp ← t.parent x
        t.assertNode xp
        let s ← t.right xp
        pure (t, s)
      else pure (t, s)
    r.1.fixDeleteLeftChecked x r.2
  else
    let s ← t.left xp
    t.assertNode s
    let sc ← t.color s
    let r ←
      if sc = RED_NODE then do
        let t ← t.setColor s BLACK_NODE
        let xp ← t.parent x
        let t ← t.setColor xp RED_NODE
        let xp ← t.parent x
        let t ← t.rightRotateChecked xp
        let xp ← t.parent x
        t.assertNode xp
        let s ← t.left xp
        pure (t, s)
      else pure (t, s)
    r.1.fixDeleteRightChecked x r.2

/-- Function `fixDelete(x)` with the assertions of `fixDeleteBodyChecked`. -/
def RBT.fixDeleteChecked : Nat → RBT K V → Ptr → Exec (RBT K V)
  | 0, _, _ => none
  | fuel + 1, t, x =>
    if x ≠ t.root then do
      let c ← t.color x
      if c = BLACK_NODE then
        let r ← RBT.fixDeleteBodyChecked t x
        RBT.fixDeleteChecked fuel r.1 r.2
      else t.setColor x BLACK_NODE
    else t.setColor x BLACK_NODE

/-- Function `deleteNode(key)` with the assertions of `fixDeleteChecked`: the
lookup, the relinking step, and the repair. -/
def RBT.deleteNodeChecked [LinearOrder K] (t : RBT K V) (key : K × V) : Exec (RBT K V) := do
  let z ← t.deleteLoop key t.next t.root (some t.null)
  if z = some t.null then pure t
  else do
    let r ← t.deleteSplice z
    if r.2.2 = BLACK_NODE then RBT.fixDeleteChecked r.1.next r.1 r.2.1 else pure r.1

/-! ## What a call leaves alone -/

/-- Every cell of `t'` holds the key/value pair it holds in `t`, and the same
cells are allocated. -/
def RBT.KeepsVals (t t' : RBT K V) : Prop :=
  ∀ q, (t'.heap q).map (fun n => n.val) = (t.heap q).map (fun n => n.val)

/-! ## A concrete state -/

/-- The state after inserting the keys 10, 20 and 30 (each with value 0) into
an empty tree: the sentinel is cell 0, the nodes are cells 1 to 3. -/
def demo : RBT Nat Nat :=
  { root := some 2
    null := 0
    next := 4
    heap := fun a =>
      if a = 0 then some ⟨(0, 0), BLACK_NODE, none, none, none⟩
      else if a = 1 then some ⟨(10, 0), RED_NODE, some 2, some 0, some 0⟩
      else if a = 2 then some ⟨(20, 0), BLACK_NODE, none, some 1, some 3⟩
      else if a = 3 then some ⟨(30, 0), RED_NODE, some 2, some 0, some 0⟩
      else none }

/-- The tree that `demo` denotes. -/
def demoTree : Tree Nat Nat :=
  Tree.node 2 BLACK_NODE (Tree.node 1 RED_NODE Tree.nil (10, 0) Tree.nil) (20, 0)
    (Tree.node 3 RED_NODE Tree.nil (30, 0) Tree.nil)

/-- The state in which `insert(30)` calls `fixInsert` on the tree of the keys
10 and 20: the new node, cell 3, is the right child of the RED node 20, which
is the right child of the root 10; the uncle is the sentinel. -/
def lineState : RBT Nat Nat :=
  { root := some 1
    null := 0
    next := 4
    heap := fun a =>
      if a = 0 then some ⟨(0, 0), BLACK_NODE, none, none, none⟩
      else if a = 1 then some ⟨(10, 0), BLACK_NODE, none, some 0, some 2⟩
      else if a = 2 then some ⟨(20, 0), RED_NODE, some 1, some 0, some 3⟩
      else if a = 3 then some ⟨(30, 0), RED_NODE, some 2, some 0, some 0⟩
      else none }

/-- The tree that `lineState` holds. -/
def lineTree : Tree Nat Nat :=
  Tree.node 1 BLACK_NODE Tree.nil (10, 0)
    (Tree.node 2 RED_NODE Tree.nil (20, 0) (Tree.node 3 RED_NODE Tree.nil (30, 0) Tree.nil))

/-- A well-formed tree whose node 10 has a RED sibling: the root 20 (cell 2,
BLACK) has the children 10 (cell 1, BLACK) and 40 (cell 4, RED), and 40 has
the BLACK children 30 (cell 3) and 50 (cell 5); the sentinel is cell 0. -/
def fanState : RBT Nat Nat :=
  { root := some 2
    null := 0
    next := 6
    heap := fun a =>
      if a = 0 then some ⟨(0, 0), BLACK_NODE, none, none, none⟩
      else if a = 1 then some ⟨(10, 0), BLACK_NODE, some 2, some 0, some 0⟩
      else if a = 2 then some ⟨(20, 0), BLACK_NODE, none, some 1, some 4⟩
      else if a = 3 then some ⟨(30, 0), BLACK_NODE, some 4, some 0, some 0⟩
      else if a = 4 then some ⟨(40, 0), RED_NODE, some 2, some 3, some 5⟩
      else if a = 5 then some ⟨(50, 0), BLACK_NODE, some 4, some 0, some 0⟩
      else none }

/-- The tree that `fanState` holds. -/
def fanTree : Tree Nat Nat :=
  Tree.node 2 BLACK_NODE (Tree.node 1 BLACK_NODE Tree.nil (10, 0) Tree.nil) (20, 0)
    (Tree.node 4 RED_NODE (Tree.node 3 BLACK_NODE Tree.nil (30, 0) Tree.nil) (40, 0)
      (Tree.node 5 BLACK_NODE Tree.nil (50, 0) Tree.nil))

/-- The state in which `deleteNode(10)` on `fanState` calls `fixDelete`: the
state after the relinking step for the node 10 (cell 1). -/
def fanSpliced : RBT Nat Nat :=
  match fanState.deleteSplice (some 1) with
  | some r => r.1
  | none => fanState

/-- The state `demo` with other values in the left, right and parent link of
the sentinel. -/
def demoDirty : RBT Nat Nat :=
  { root := some 2
    null := 0
    next := 4
    heap := fun a =>
      if a = 0 then some ⟨(0, 0), BLACK_NODE, some 3, some 1, some 2⟩
      else if a = 1 then some ⟨(10, 0), RED_NODE, some 2, some 0, some 0⟩
      else if a = 2 then some ⟨(20, 0), BLACK_NODE, none, some 1, some 3⟩
      else if a = 3 then some ⟨(30, 0), RED_NODE, some 2, some 0, some 0⟩
      else none }

end FtContainers

namespace FtContainers

open Color Tree

variable {K V : Type}

/-! ## Sequencing -/

@[simp] theorem Exec.some_bind {α β : Type} (a : α) (f : α → Exec β) :
    @bind Exec _ α β (some a) f = f a := rfl

@[simp] theorem Exec.none_bind {α β : Type} (f : α → Exec β) :
    @bind Exec _ α β none f = none := rfl

@[simp] theorem Exec.pure_eq {α : Type} (a : α) : @pure Exec _ α a = some a := rfl

theorem Exec.bind_eq_some {α β : Type} {x : Exec α} {f : α → Exec β} {b : β}
    (h : @bind Exec _ α β x f = some b) : ∃ a, x = some a ∧ f a = some b := by
  cases x with
  | none => exact absurd h (by intro h'; cases h')
  | some a => exact ⟨a, rfl, h⟩

/-! ## Memory cells -/

@[simp] theorem setCell_same (h : Nat → Option (RBT_Node K V)) (a : Nat) (c) :
    setCell h a c a = c := by simp [setCell]

theorem setCell_other (h : Nat → Option (RBT_Node K V)) {a b : Nat} (c) (hne : b ≠ a) :
    setCell h a c b = h b := by simp [setCell, hne]

/-! ## Trees with a hole -/

@[simp] theorem Tree.ptr_nil (nl : Nat) : (Tree.nil : Tree K V).ptr nl = some nl := rfl
@[simp] theorem Tree.ptr_node (nl a : Nat) (c : Color) (l r : Tree K V) (kv : K × V) :
    (Tree.node a c l kv r).ptr nl = some a := rfl
@[simp] theorem Tree.rootColor_nil : (Tree.nil : Tree K V).rootColor = BLACK_NODE := rfl
@[simp] theorem Tree.rootColor_node (a : Nat) (c : Color) (l r : Tree K V) (kv : K × V) :
    (Tree.node a c l kv r).rootColor = c := rfl
@[simp] theorem Frame.addr_L (a : Nat) (c : Color) (kv : K × V) (r : Tree K V) :
    (Frame.L a c kv r).addr = a := rfl
@[simp] theorem Frame.addr_R (a : Nat) (c : Color) (l : Tree K V) (kv : K × V) :
    (Frame.R a c l kv).addr = a := rfl
@[simp] theorem Frame.color_L (a : Nat) (c : Color) (kv : K × V) (r : Tree K V) :
    (Frame.L a c kv r).color = c := rfl
@[simp] theorem Frame.color_R (a : Nat) (c : Color) (l : Tree K V) (kv : K × V) :
    (Frame.R a c l kv).color = c := rfl
@[simp] theorem Frame.fill_L (a : Nat) (c : Color) (kv : K × V) (r x : Tree K V) :
    (Frame.L a c kv r).fill x = Tree.node a c x kv r := rfl
@[simp] theorem Frame.fill_R (a : Nat) (c : Color) (l x : Tree K V) (kv : K × V) :
    (Frame.R a c l kv).fill x = Tree.node a c l kv x := rfl
@[simp] theorem ctxPar_nil : ctxPar ([] : List (Frame K V)) = none := rfl
@[simp] theorem ctxPar_cons (f : Frame K V) (rest : List (Frame K V)) :
    ctxPar (f :: rest) = some f.addr := rfl
@[simp] theorem ctxRoot_nil (p : Ptr) : ctxRoot p ([] : List (Frame K V)) = p := rfl
@[simp] theorem ctxRoot_cons (p : Ptr) (f : Frame K V) (rest : List (Frame K V)) :
    ctxRoot p (f :: rest) = ctxRoot (some f.addr) rest := rfl
@[simp] theorem ctxRootColor_nil (c : Color) : ctxRootColor c ([] : List (Frame K V)) = c := rfl
@[simp] theorem ctxRootColor_cons (c : Color) (f : Frame K V) (rest : List (Frame K V)) :
    ctxRootColor c (f :: rest) = ctxRootColor f.color rest := rfl

@[simp] theorem plug_nil (x : Tree K V) : plug x [] = x := rfl
@[simp] theorem plug_cons (x : Tree K V) (f : Frame K V) (rest) :
    plug x (f :: rest) = plug (f.fill x) rest := rfl

theorem inorder_plug (x : Tree K V) (ctx : List (Frame K V)) :
    (plug x ctx).inorder = ctxPre ctx ++ x.inorder ++ ctxPost ctx := by
  induction ctx generalizing x with
  | nil => simp [plug, ctxPre, ctxPost]
  | cons f rest ih =>
    cases f <;> simp [plug, ih, Frame.fill, Tree.inorder, ctxPre, ctxPost, List.append_assoc]

theorem addrs_plug (x : Tree K V) (ctx : List (Frame K V)) :
    (plug x ctx).addrs.Perm (x.addrs ++ ctxAddrs ctx) := by
  induction ctx generalizing x with
  | nil => simp [plug, ctxAddrs]
  | cons f rest ih =>
    cases f with
    | L a c kv r =>
      refine (ih _).trans ?_
      simp only [Frame.fill, Tree.addrs, ctxAddrs, List.append_assoc, List.cons_append]
      exact List.Perm.refl _
    | R a c l kv =>
      refine (ih _).trans ?_
      simp only [Frame.fill, Tree.addrs, ctxAddrs]
      rw [List.perm_iff_count]
      intro b
      simp only [List.count_append, List.count_cons]
      omega

theorem nodup_plug (x : Tree K V) (ctx : List (Frame K V)) :
    (plug x ctx).addrs.Nodup ↔ (x.addrs ++ ctxAddrs ctx).Nodup :=
  (addrs_plug x ctx).nodup_iff

theorem mem_addrs_plug (x : Tree K V) (ctx : List (Frame K V)) (a : Nat) :
    a ∈ (plug x ctx).addrs ↔ a ∈ x.addrs ∨ a ∈ ctxAddrs ctx := by
  rw [(addrs_plug x ctx).mem_iff, List.mem_append]

theorem balanced_plug (x : Tree K V) (ctx : List (Frame K V)) :
    (plug x ctx).balanced ↔ x.balanced ∧ ctxBal x.bh ctx := by
  induction ctx generalizing x with
  | nil => simp [plug, ctxBal]
  | cons f rest ih =>
    cases f with
    | L a c kv r =>
      simp only [plug, ih, Frame.fill, Tree.balanced, Tree.bh, ctxBal]
      tauto
    | R a c l kv =>
      simp only [plug, ih, Frame.fill, Tree.balanced, Tree.bh, ctxBal]
      constructor
      · rintro ⟨⟨h1, h2, h3⟩, h4⟩
        exact ⟨h3, h2, h1, h1 ▸ h4⟩
      · rintro ⟨h3, h2, h1, h4⟩
        exact ⟨⟨h1, h2, h3⟩, h1 ▸ h4⟩

theorem noRedRed_plug (x : Tree K V) (ctx : List (Frame K V)) :
    (plug x ctx).noRedRed ↔ x.noRedRed ∧ ctxNRR x.rootColor ctx := by
  induction ctx generalizing x with
  | nil => simp [plug, ctxNRR]
  | cons f rest ih =>
    cases f <;> simp only [plug, ih, Frame.fill, Tree.noRedRed, Tree.rootColor, ctxNRR] <;> tauto

theorem rootColor_plug (x : Tree K V) (ctx : List (Frame K V)) :
    (plug x ctx).rootColor = ctxRootColor x.rootColor ctx := by
  induction ctx generalizing x with
  | nil => rfl
  | cons f rest ih => cases f <;> exact ih _

theorem ptr_plug (nl : Nat) (x : Tree K V) (ctx : List (Frame K V)) :
    (plug x ctx).ptr nl = ctxRoot (x.ptr nl) ctx := by
  induction ctx generalizing x with
  | nil => rfl
  | cons f rest ih => cases f <;> exact ih _

theorem Repr_plug (h : Nat → Option (RBT_Node K V)) (nl : Nat) (x : Tree K V)
    (ctx : List (Frame K V)) :
    Repr h nl none (plug x ctx) ↔ Repr h nl (ctxPar ctx) x ∧ ReprCtx h nl (x.ptr nl) ctx := by
  induction ctx generalizing x with
  | nil => simp [plug, ReprCtx, ctxPar]
  | cons f rest ih =>
    cases f <;> simp only [plug, ih, Frame.fill, Repr, ReprCtx, ctxPar, Frame.addr, Tree.ptr_node] <;> tauto

/-! ## Frame rules -/

theorem Repr_congr {h h' : Nat → Option (RBT_Node K V)} {nl : Nat} {par : Ptr} {T : Tree K V}
    (hh : ∀ a ∈ T.addrs, h' a = h a) : Repr h' nl par T ↔ Repr h nl par T := by
  induction T generalizing par with
  | nil => simp [Repr]
  | node a c l kv r ihl ihr =>
    simp only [Tree.addrs, List.mem_append, List.mem_cons] at hh
    simp only [Repr]
    rw [hh a (Or.inr (Or.inl rfl)), ihl (fun b hb => hh b (Or.inl hb)),
      ihr (fun b hb => hh b (Or.inr (Or.inr hb)))]

theorem ReprCtx_congr {h h' : Nat → Option (RBT_Node K V)} {nl : Nat} {child : Ptr}
    {ctx : List (Frame K V)}
    (hh : ∀ a ∈ ctxAddrs ctx, h' a = h a) : ReprCtx h' nl child ctx ↔ ReprCtx h nl child ctx := by
  induction ctx generalizing child with
  | nil => simp [ReprCtx]
  | cons f rest ih =>
    cases f with
    | L a c kv r =>
      simp only [ctxAddrs, List.mem_append, List.mem_cons, List.cons_append] at hh
      simp only [ReprCtx]
      rw [hh a (Or.inl rfl), Repr_congr (fun b hb => hh b (Or.inr (Or.inl hb))),
        ih (fun b hb => hh b (Or.inr (Or.inr hb)))]
    | R a c l kv =>
      simp only [ctxAddrs, List.mem_append, List.mem_cons, List.cons_append] at hh
      simp only [ReprCtx]
      rw [hh a (Or.inl rfl), Repr_congr (fun b hb => hh b (Or.inr (Or.inl hb))),
        ih (fun b hb => hh b (Or.inr (Or.inr hb)))]

@[simp] theorem Repr_setCell {h : Nat → Option (RBT_Node K V)} {nl : Nat} {par : Ptr}
    {T : Tree K V} {a : Nat} {c} (ha : a ∉ T.addrs) :
    Repr (setCell h a c) nl par T ↔ Repr h nl par T :=
  Repr_congr (fun _ hb => setCell_other h c (fun e => ha (e ▸ hb)))

@[simp] theorem ReprCtx_setCell {h : Nat → Option (RBT_Node K V)} {nl : Nat} {child : Ptr}
    {ctx : List (Frame K V)} {a : Nat} {c} (ha : a ∉ ctxAddrs ctx) :
    ReprCtx (setCell h a c) nl child ctx ↔ ReprCtx h nl child ctx :=
  ReprCtx_congr (fun _ hb => setCell_other h c (fun e => ha (e ▸ hb)))

/-- Changing the parent link of the root of a represented tree. -/
theorem Repr_reparent {h : Nat → Option (RBT_Node K V)} {nl : Nat} {par par' : Ptr}
    {a : Nat} {c : Color} {l r : Tree K V} {kv : K × V}
    (hr : Repr h nl par (node a c l kv r)) (hnd : (node a c l kv r).addrs.Nodup) :
    Repr (setCell h a (some ⟨kv, c, par', l.ptr nl, r.ptr nl⟩)) nl par' (node a c l kv r) := by
  simp only [Tree.addrs, List.nodup_append, List.nodup_cons, List.mem_cons, not_or] at hnd
  obtain ⟨h1, ⟨h2, h3⟩, h4⟩ := hnd
  have hl : a ∉ l.addrs := fun hm => h4 hm (List.mem_cons_self _ _)
  obtain ⟨n1, n2, n3, n4⟩ := hr
  exact ⟨n1, by simp, by simpa [Repr_setCell hl] using n3, by simpa [Repr_setCell h2] using n4⟩

end FtContainers

set_option linter.unusedTactic false
set_option linter.unreachableTactic false
set_option linter.unusedVariables false

namespace FtContainers

open Color Tree

variable {K V : Type}

/-! ## Reads and writes on a known cell -/

namespace RBT

@[simp] theorem get_some (t : RBT K V) (a : Nat) : t.get (some a) = t.heap a := rfl
@[simp] theorem get_none (t : RBT K V) : t.get none = none := rfl

theorem key_of {t : RBT K V} {a : Nat} {n : RBT_Node K V} (h : t.heap a = some n) :
    t.key (some a) = some n.val.1 := by simp [RBT.key, h]
theorem color_of {t : RBT K V} {a : Nat} {n : RBT_Node K V} (h : t.heap a = some n) :
    t.color (some a) = some n.color := by simp [RBT.color, h]
theorem parent_of {t : RBT K V} {a : Nat} {n : RBT_Node K V} (h : t.heap a = some n) :
    t.parent (some a) = some n.parent := by simp [RBT.parent, h]
theorem left_of {t : RBT K V} {a : Nat} {n : RBT_Node K V} (h : t.heap a = some n) :
    t.left (some a) = some n.left := by simp [RBT.left, h]
theorem right_of {t : RBT K V} {a : Nat} {n : RBT_Node K V} (h : t.heap a = some n) :
    t.right (some a) = some n.right := by simp [RBT.right, h]

theorem modify_of {t : RBT K V} {a : Nat} {n : RBT_Node K V} (h : t.heap a = some n)
    (f : RBT_Node K V → RBT_Node K V) :
    t.modify (some a) f = some { t with heap := setCell t.heap a (some (f n)) } := by
  simp [RBT.modify, h]

theorem setColor_of {t : RBT K V} {a : Nat} {n : RBT_Node K V} (h : t.heap a = some n) (c : Color) :
    t.setColor (some a) c = some { t with heap := setCell t.heap a (some { n with color := c }) } :=
  modify_of h _
theorem setParent_of {t : RBT K V} {a : Nat} {n : RBT_Node K V} (h : t.heap a = some n) (q : Ptr) :
    t.setParent (some a) q = some { t with heap := setCell t.heap a (some { n with parent := q }) } :=
  modify_of h _
theorem setLeft_of {t : RBT K V} {a : Nat} {n : RBT_Node K V} (h : t.heap a = some n) (q : Ptr) :
    t.setLeft (some a) q = some { t with heap := setCell t.heap a (some { n with left := q }) } :=
  modify_of h _
theorem setRight_of {t : RBT K V} {a : Nat} {n : RBT_Node K V} (h : t.heap a = some n) (q : Ptr) :
    t.setRight (some a) q = some { t with heap := setCell t.heap a (some { n with right := q }) } :=
  modify_of h _

end RBT

theorem ptr_ne_of_not_mem {nl s : Nat} {T : Tree K V} (h1 : s ≠ nl) (h2 : s ∉ T.addrs) :
    T.ptr nl ≠ some s := by
  cases T with
  | nil => simpa [Tree.ptr] using (Ne.symm h1)
  | node a c l kv r =>
    simp only [Tree.addrs, List.mem_append, List.mem_cons, not_or] at h2
    simpa [Tree.ptr] using (Ne.symm h2.2.1)

theorem ptr_eq_null_iff {h : Nat → Option (RBT_Node K V)} {nl : Nat} {par : Ptr} {T : Tree K V}
    (hr : Repr h nl par T) : T.ptr nl = some nl ↔ T = nil := by
  cases T with
  | nil => simp [Tree.ptr]
  | node a c l kv r => simpa [Tree.ptr] using hr.1

/-- Fields of the node in focus. -/
theorem Shape.cell {t : RBT K V} {a : Nat} {c : Color} {l r : Tree K V} {kv : K × V}
    {ctx : List (Frame K V)} (hS : Shape t (plug (node a c l kv r) ctx)) :
    t.heap a = some ⟨kv, c, ctxPar ctx, l.ptr t.null, r.ptr t.null⟩ :=
  ((Repr_plug _ _ _ _).1 hS.repr).1.2.1

theorem Shape.plug_iff {t : RBT K V} {X : Tree K V} {ctx : List (Frame K V)} :
    Shape t (plug X ctx) ↔
      t.root = ctxRoot (X.ptr t.null) ctx ∧ Repr t.heap t.null (ctxPar ctx) X ∧
      ReprCtx t.heap t.null (X.ptr t.null) ctx ∧ (X.addrs ++ ctxAddrs ctx).Nodup := by
  constructor
  · rintro ⟨h1, h2, h3⟩
    rw [ptr_plug] at h1
    rw [Repr_plug] at h2
    rw [nodup_plug] at h3
    exact ⟨h1, h2.1, h2.2, h3⟩
  · rintro ⟨h1, h2, h3, h4⟩
    exact ⟨by rw [ptr_plug]; exact h1, by rw [Repr_plug]; exact ⟨h2, h3⟩,
      by rw [nodup_plug]; exact h4⟩

theorem Shape.setColor {t : RBT K V} {a : Nat} {c : Color} {l r : Tree K V} {kv : K × V}
    {ctx : List (Frame K V)} (hS : Shape t (plug (node a c l kv r) ctx)) (c' : Color) :
    ∃ t', t.setColor (some a) c' = some t' ∧ Shape t' (plug (node a c' l kv r) ctx) ∧
      Same t t' ∧ t'.root = t.root := by
  have hc := hS.cell
  rw [Shape.plug_iff] at hS
  obtain ⟨hroot, ⟨ha, -, hl, hr⟩, hctx, hnd⟩ := hS
  simp only [Tree.ptr_node] at hctx
  have hnd' := hnd
  simp only [Tree.addrs, List.nodup_append, List.nodup_cons, List.mem_append, List.mem_cons,
    not_or, List.disjoint_cons_left, List.disjoint_cons_right, List.disjoint_append_left,
    List.disjoint_append_right] at hnd'
  refine ⟨_, RBT.setColor_of hc c', ?_, ⟨rfl, rfl, ?_⟩, rfl⟩
  · rw [Shape.plug_iff]
    refine ⟨hroot, ⟨ha, by simp, ?_, ?_⟩, ?_, hnd⟩
    · simp [*]
    · simp [*]
    · simp [*]
  · simp [setCell, Ne.symm ha]

theorem Shape.leftRotate {t : RBT K V} {s x : Nat} {cs cx : Color} {A B C : Tree K V}
    {ks kx : K × V} {ctx : List (Frame K V)}
    (hS : Shape t (plug (node s cs A ks (node x cx B kx C)) ctx)) :
    ∃ t', t.leftRotate (some s) = some t' ∧
      Shape t' (plug (node x cx (node s cs A ks B) kx C) ctx) ∧ Same t t' ∧
      (ctx ≠ [] → t'.root = t.root) ∧ (ctx = [] → t'.root = some x) := by
  rw [Shape.plug_iff] at hS
  obtain ⟨hroot, ⟨hs, hsc, hA, hx, hxc, hB, hC⟩, hctx, hnd⟩ := hS
  simp only [Tree.ptr_node] at hctx hsc hxc
  cases B with
  | nil =>
    cases ctx with
    | nil =>
      have hsx : s ≠ x := by
        rintro rfl
        simp only [Tree.addrs, ctxAddrs, List.nodup_append, List.nodup_cons, List.mem_append, List.mem_cons,
          not_or, List.disjoint_cons_left, List.disjoint_cons_right, List.disjoint_append_left,
          List.disjoint_append_right, List.cons_append, List.append_assoc, List.nodup_nil,
          List.not_mem_nil, List.disjoint_nil_left, List.disjoint_nil_right, List.append_nil,
          List.nil_append, not_false_eq_true, true_and, and_true, not_true_eq_false, false_and,
          and_false] at hnd
      have hxs : x ≠ s := hsx.symm
      have hnd' := hnd
      simp only [Tree.addrs, ctxAddrs, List.nodup_append, List.nodup_cons, List.mem_append, List.mem_cons,
        not_or, List.disjoint_cons_left, List.disjoint_cons_right, List.disjoint_append_left,
        List.disjoint_append_right, List.cons_append, List.append_assoc, List.nodup_nil,
        List.not_mem_nil, List.disjoint_nil_left, List.disjoint_nil_right, List.append_nil,
        List.nil_append, not_false_eq_true, true_and, and_true] at hnd'
      simp only [ctxPar_cons, ctxPar_nil, Frame.addr_L, Frame.addr_R, Tree.ptr_node, Tree.ptr_nil] at hsc hxc
      simp only [RBT.leftRotate, RBT.right, RBT.left, RBT.parent, RBT.setRight, RBT.setLeft, RBT.setParent,
        RBT.modify, RBT.get_some, Exec.some_bind, Exec.pure_eq, hsc, hxc, hsx, hxs, hs, hx,
        Ne.symm hs, Ne.symm hx, setCell, if_pos, if_neg, ite_true, ite_false, ne_eq,
        Option.some.injEq, not_false_eq_true, not_true_eq_false, reduceCtorEq]
      refine ⟨_, rfl, ?_, ⟨rfl, rfl, ?_⟩, ?_, ?_⟩
      · rw [Shape.plug_iff]
        simp only [Repr, ReprCtx, setCell_same, setCell_other, Repr_setCell, ReprCtx_setCell, hnd', hsx,
          hxs, hs, hx, Ne.symm hs, Ne.symm hx, hsc, hxc, ne_eq, not_false_eq_true, Tree.ptr_node,
          Tree.ptr_nil, ctxPar_cons, ctxPar_nil, ctxRoot_cons, ctxRoot_nil, Frame.addr_L,
          Frame.addr_R, true_and, and_true, Tree.addrs, List.append_assoc, List.cons_append]
        simp only [Tree.addrs, List.append_assoc, List.cons_append, Tree.ptr_node, ctxRoot_cons,
          ctxRoot_nil, Frame.addr_L, Frame.addr_R] at hnd hroot
        and_intros <;> assumption
      · simp only [setCell_other, hs, hx, Ne.symm hs, Ne.symm hx, ne_eq, not_false_eq_true]
      · intro h
        first | rfl | exact absurd rfl h | exact False.elim h | exact absurd h (List.cons_ne_nil _ _)
      · intro h
        first | rfl | exact absurd rfl h | exact False.elim h | exact absurd h (List.cons_ne_nil _ _)
    | cons f rest =>
      cases f with
      | L p cp kp pr =>
        obtain ⟨hp, hpc, hpr, hrest⟩ := hctx
        have hsx : s ≠ x := by
          rintro rfl
          simp only [Tree.addrs, ctxAddrs, List.nodup_append, List.nodup_cons, List.mem_append,
            List.mem_cons, not_or, List.disjoint_cons_left, List.disjoint_cons_right,
            List.disjoint_append_left, List.disjoint_append_right, List.cons_append,
            List.append_assoc, List.nodup_nil, List.not_mem_nil, List.disjoint_nil_left,
            List.disjoint_nil_right, List.append_nil, List.nil_append, not_false_eq_true, true_and,
            and_true, not_true_eq_false, false_and, and_false] at hnd
        have hxs : x ≠ s := hsx.symm
        have hsp : s ≠ p := by
          rintro rfl
          simp only [Tree.addrs, ctxAddrs, List.nodup_append, List.nodup_cons, List.mem_append,
            List.mem_cons, not_or, List.disjoint_cons_left, List.disjoint_cons_right,
            List.disjoint_append_left, List.disjoint_append_right, List.cons_append,
            List.append_assoc, List.nodup_nil, List.not_mem_nil, List.disjoint_nil_left,
            List.disjoint_nil_right, List.append_nil, List.nil_append, not_false_eq_true, true_and,
            and_true, not_true_eq_false, false_and, and_false] at hnd
        have hps : p ≠ s := hsp.symm
        have hxp : x ≠ p := by
          rintro rfl
          simp only [Tree.addrs, ctxAddrs, List.nodup_append, List.nodup_cons, List.mem_append,
            List.mem_cons, not_or, List.disjoint_cons_left, List.disjoint_cons_right,
            List.disjoint_append_left, List.disjoint_append_right, List.cons_append,
            List.append_assoc, List.nodup_nil, List.not_mem_nil, List.disjoint_nil_left,
            List.disjoint_nil_right, List.append_nil, List.nil_append, not_false_eq_true, true_and,
            and_true, not_true_eq_false, false_and, and_false] at hnd
        have hpx : p ≠ x := hxp.symm
        have hnd' := hnd
        simp only [Tree.addrs, ctxAddrs, List.nodup_append, List.nodup_cons, List.mem_append, List.mem_cons,
          not_or, List.disjoint_cons_left, List.disjoint_cons_right, List.disjoint_append_left,
          List.disjoint_append_right, List.cons_append, List.append_assoc, List.nodup_nil,
          List.not_mem_nil, List.disjoint_nil_left, List.disjoint_nil_right, List.append_nil,
          List.nil_append, not_false_eq_true, true_and, and_true] at hnd'
        simp only [ctxPar_cons, ctxPar_nil, Frame.addr_L, Frame.addr_R, Tree.ptr_node, Tree.ptr_nil] at hsc hxc hpc
        simp only [RBT.leftRotate, RBT.right, RBT.left, RBT.parent, RBT.setRight, RBT.setLeft,
          RBT.setParent, RBT.modify, RBT.get_some, Exec.some_bind, Exec.pure_eq, hsc, hxc, hpc,
          hsx, hxs, hsp, hps, hxp, hpx, hs, hx, hp, Ne.symm hs, Ne.symm hx, Ne.symm hp, setCell,
          if_pos, if_neg, ite_true, ite_false, ne_eq, Option.some.injEq, not_false_eq_true,
          not_true_eq_false, reduceCtorEq]
        refine ⟨_, rfl, ?_, ⟨rfl, rfl, ?_⟩, ?_, ?_⟩
        · rw [Shape.plug_iff]
          simp only [Repr, ReprCtx, setCell_same, setCell_other, Repr_setCell, ReprCtx_setCell, hnd', hsx,
            hxs, hsp, hps, hxp, hpx, hs, hx, hp, Ne.symm hs, Ne.symm hx, Ne.symm hp, hsc, hxc, hpc,
            ne_eq, not_false_eq_true, Tree.ptr_node, Tree.ptr_nil, ctxPar_cons, ctxPar_nil,
            ctxRoot_cons, ctxRoot_nil, Frame.addr_L, Frame.addr_R, true_and, and_true, Tree.addrs,
            List.append_assoc, List.cons_append]
          simp only [Tree.addrs, List.append_assoc, List.cons_append, Tree.ptr_node, ctxRoot_cons,
            ctxRoot_nil, Frame.addr_L, Frame.addr_R] at hnd hroot
          and_intros <;> assumption
        · simp only [setCell_other, hs, hx, hp, Ne.symm hs, Ne.symm hx, Ne.symm hp, ne_eq, not_false_eq_true]
        · intro h
          first | rfl | exact absurd rfl h | exact False.elim h | exact absurd h (List.cons_ne_nil _ _)
        · intro h
          first | rfl | exact absurd rfl h | exact False.elim h | exact absurd h (List.cons_ne_nil _ _)
      | R p cp pr kp =>
        obtain ⟨hp, hpc, hpr, hrest⟩ := hctx
        have hsx : s ≠ x := by
          rintro rfl
          simp only [Tree.addrs, ctxAddrs, List.nodup_append, List.nodup_cons, List.mem_append,
            List.mem_cons, not_or, List.disjoint_cons_left, List.disjoint_cons_right,
            List.disjoint_append_left, List.disjoint_append_right, List.cons_append,
            List.append_assoc, List.nodup_nil, List.not_mem_nil, List.disjoint_nil_left,
            List.disjoint_nil_right, List.append_nil, List.nil_append, not_false_eq_true, true_and,
            and_true, not_true_eq_false, false_and, and_false] at hnd
        have hxs : x ≠ s := hsx.symm
        have hsp : s ≠ p := by
          rintro rfl
          simp only [Tree.addrs, ctxAddrs, List.nodup_append, List.nodup_cons, List.mem_append,
            List.mem_cons, not_or, List.disjoint_cons_left, List.disjoint_cons_right,
            List.disjoint_append_left, List.disjoint_append_right, List.cons_append,
            List.append_assoc, List.nodup_nil, List.not_mem_nil, List.disjoint_nil_left,
            List.disjoint_nil_right, List.append_nil, List.nil_append, not_false_eq_true, true_and,
            and_true, not_true_eq_false, false_and, and_false] at hnd
        have hps : p ≠ s := hsp.symm
        have hxp : x ≠ p := by
          rintro rfl
          simp only [Tree.addrs, ctxAddrs, List.nodup_append, List.nodup_cons, List.mem_append,
            List.mem_cons, not_or, List.disjoint_cons_left, List.disjoint_cons_right,
            List.disjoint_append_left, List.disjoint_append_right, List.cons_append,
            List.append_assoc, List.nodup_nil, List.not_mem_nil, List.disjoint_nil_left,
            List.disjoint_nil_right, List.append_nil, List.nil_append, not_false_eq_true, true_and,
            and_true, not_true_eq_false, false_and, and_false] at hnd
        have hpx : p ≠ x := hxp.symm
        have hnd' := hnd
        simp only [Tree.addrs, ctxAddrs, List.nodup_append, List.nodup_cons, List.mem_append, List.mem_cons,
          not_or, List.disjoint_cons_left, List.disjoint_cons_right, List.disjoint_append_left,
          List.disjoint_append_right, List.cons_append, List.append_assoc, List.nodup_nil,
          List.not_mem_nil, List.disjoint_nil_left, List.disjoint_nil_right, List.append_nil,
          List.nil_append, not_false_eq_true, true_and, and_true] at hnd'
        have hq : ¬ (some s = Tree.ptr t.null pr) := fun e => ptr_ne_of_not_mem hs (by simp only [hnd', not_false_eq_true]) e.symm
        simp only [ctxPar_cons, ctxPar_nil, Frame.addr_L, Frame.addr_R, Tree.ptr_node, Tree.ptr_nil] at hsc hxc hpc
        simp only [RBT.leftRotate, RBT.right, RBT.left, RBT.parent, RBT.setRight, RBT.setLeft,
          RBT.setParent, RBT.modify, RBT.get_some, Exec.some_bind, Exec.pure_eq, hsc, hxc, hpc,
          hsx, hxs, hsp, hps, hxp, hpx, hq, hs, hx, hp, Ne.symm hs, Ne.symm hx, Ne.symm hp,
          setCell, if_pos, if_neg, ite_true, ite_false, ne_eq, Option.some.injEq,
          not_false_eq_true, not_true_eq_false, reduceCtorEq]
        refine ⟨_, rfl, ?_, ⟨rfl, rfl, ?_⟩, ?_, ?_⟩
        · rw [Shape.plug_iff]
          simp only [Repr, ReprCtx, setCell_same, setCell_other, Repr_setCell, ReprCtx_setCell, hnd', hsx,
            hxs, hsp, hps, hxp, hpx, hq, hs, hx, hp, Ne.symm hs, Ne.symm hx, Ne.symm hp, hsc, hxc,
            hpc, ne_eq, not_false_eq_true, Tree.ptr_node, Tree.ptr_nil, ctxPar_cons, ctxPar_nil,
            ctxRoot_cons, ctxRoot_nil, Frame.addr_L, Frame.addr_R, true_and, and_true, Tree.addrs,
            List.append_assoc, List.cons_append]
          simp only [Tree.addrs, List.append_assoc, List.cons_append, Tree.ptr_node, ctxRoot_cons,
            ctxRoot_nil, Frame.addr_L, Frame.addr_R] at hnd hroot
          and_intros <;> assumption
        · simp only [setCell_other, hs, hx, hp, Ne.symm hs, Ne.symm hx, Ne.symm hp, ne_eq, not_false_eq_true]
        · intro h
          first | rfl | exact absurd rfl h | exact False.elim h | exact absurd h (List.cons_ne_nil _ _)
        · intro h
          first | rfl | exact absurd rfl h | exact False.elim h | exact absurd h (List.cons_ne_nil _ _)
  | node b cb Bl kb Br =>
    cases ctx with
    | nil =>
      obtain ⟨hb, hbc, hBl, hBr⟩ := hB
      have hsx : s ≠ x := by
        rintro rfl
        simp only [Tree.addrs, ctxAddrs, List.nodup_append, List.nodup_cons, List.mem_append, List.mem_cons,
          not_or, List.disjoint_cons_left, List.disjoint_cons_right, List.disjoint_append_left,
          List.disjoint_append_right, List.cons_append, List.append_assoc, List.nodup_nil,
          List.not_mem_nil, List.disjoint_nil_left, List.disjoint_nil_right, List.append_nil,
          List.nil_append, not_false_eq_true, true_and, and_true, not_true_eq_false, false_and,
          and_false] at hnd
      have hxs : x ≠ s := hsx.symm
      have hsb : s ≠ b := by
        rintro rfl
        simp only [Tree.addrs, ctxAddrs, List.nodup_append, List.nodup_cons, List.mem_append, List.mem_cons,
          not_or, List.disjoint_cons_left, List.disjoint_cons_right, List.disjoint_append_left,
          List.disjoint_append_right, List.cons_append, List.append_assoc, List.nodup_nil,
          List.not_mem_nil, List.disjoint_nil_left, List.disjoint_nil_right, List.append_nil,
          List.nil_append, not_false_eq_true, true_and, and_true, not_true_eq_false, false_and,
          and_false] at hnd
      have hbs : b ≠ s := hsb.symm
      have hxb : x ≠ b := by
        rintro rfl
        simp only [Tree.addrs, ctxAddrs, List.nodup_append, List.nodup_cons, List.mem_append, List.mem_cons,
          not_or, List.disjoint_cons_left, List.disjoint_cons_right, List.disjoint_append_left,
          List.disjoint_append_right, List.cons_append, List.append_assoc, List.nodup_nil,
          List.not_mem_nil, List.disjoint_nil_left, List.disjoint_nil_right, List.append_nil,
          List.nil_append, not_false_eq_true, true_and, and_true, not_true_eq_false, false_and,
          and_false] at hnd
      have hbx : b ≠ x := hxb.symm
      have hnd' := hnd
      simp only [Tree.addrs, ctxAddrs, List.nodup_append, List.nodup_cons, List.mem_append, List.mem_cons,
        not_or, List.disjoint_cons_left, List.disjoint_cons_right, List.disjoint_append_left,
        List.disjoint_append_right, List.cons_append, List.append_assoc, List.nodup_nil,
        List.not_mem_nil, List.disjoint_nil_left, List.disjoint_nil_right, List.append_nil,
        List.nil_append, not_false_eq_true, true_and, and_true] at hnd'
      simp only [ctxPar_cons, ctxPar_nil, Frame.addr_L, Frame.addr_R, Tree.ptr_node, Tree.ptr_nil] at hsc hxc hbc
      simp only [RBT.leftRotate, RBT.right, RBT.left, RBT.parent, RBT.setRight, RBT.setLeft, RBT.setParent,
        RBT.modify, RBT.get_some, Exec.some_bind, Exec.pure_eq, hsc, hxc, hbc, hsx, hxs, hsb, hbs,
        hxb, hbx, hs, hx, hb, Ne.symm hs, Ne.symm hx, Ne.symm hb, setCell, if_pos, if_neg,
        ite_true, ite_false, ne_eq, Option.some.injEq, not_false_eq_true, not_true_eq_false,
        reduceCtorEq]
      refine ⟨_, rfl, ?_, ⟨rfl, rfl, ?_⟩, ?_, ?_⟩
      · rw [Shape.plug_iff]
        simp only [Repr, ReprCtx, setCell_same, setCell_other, Repr_setCell, ReprCtx_setCell, hnd', hsx,
          hxs, hsb, hbs, hxb, hbx, hs, hx, hb, Ne.symm hs, Ne.symm hx, Ne.symm hb, hsc, hxc, hbc,
          ne_eq, not_false_eq_true, Tree.ptr_node, Tree.ptr_nil, ctxPar_cons, ctxPar_nil,
          ctxRoot_cons, ctxRoot_nil, Frame.addr_L, Frame.addr_R, true_and, and_true, Tree.addrs,
          List.append_assoc, List.cons_append]
        simp only [Tree.addrs, List.append_assoc, List.cons_append, Tree.ptr_node, ctxRoot_cons,
          ctxRoot_nil, Frame.addr_L, Frame.addr_R] at hnd hroot
        and_intros <;> assumption
      · simp only [setCell_other, hs, hx, hb, Ne.symm hs, Ne.symm hx, Ne.symm hb, ne_eq, not_false_eq_true]
      · intro h
        first | rfl | exact absurd rfl h | exact False.elim h | exact absurd h (List.cons_ne_nil _ _)
      · intro h
        first | rfl | exact absurd rfl h | exact False.elim h | exact absurd h (List.cons_ne_nil _ _)
    | cons f rest =>
      cases f with
      | L p cp kp pr =>
        obtain ⟨hb, hbc, hBl, hBr⟩ := hB
        obtain ⟨hp, hpc, hpr, hrest⟩ := hctx
        have hsx : s ≠ x := by
          rintro rfl
          simp only [Tree.addrs, ctxAddrs, List.nodup_append, List.nodup_cons, List.mem_append,
            List.mem_cons, not_or, List.disjoint_cons_left, List.disjoint_cons_right,
            List.disjoint_append_left, List.disjoint_append_right, List.cons_append,
            List.append_assoc, List.nodup_nil, List.not_mem_nil, List.disjoint_nil_left,
            List.disjoint_nil_right, List.append_nil, List.nil_append, not_false_eq_true, true_and,
            and_true, not_true_eq_false, false_and, and_false] at hnd
        have hxs : x ≠ s := hsx.symm
        have hsb : s ≠ b := by
          rintro rfl
          simp only [Tree.addrs, ctxAddrs, List.nodup_append, List.nodup_cons, List.mem_append,
            List.mem_cons, not_or, List.disjoint_cons_left, List.disjoint_cons_right,
            List.disjoint_append_left, List.disjoint_append_right, List.cons_append,
            List.append_assoc, List.nodup_nil, List.not_mem_nil, List.disjoint_nil_left,
            List.disjoint_nil_right, List.append_nil, List.nil_append, not_false_eq_true, true_and,
            and_true, not_true_eq_false, false_and, and_false] at hnd
        have hbs : b ≠ s := hsb.symm
        have hsp : s ≠ p := by
          rintro rfl
          simp only [Tree.addrs, ctxAddrs, List.nodup_append, List.nodup_cons, List.mem_append,
            List.mem_cons, not_or, List.disjoint_cons_left, List.disjoint_cons_right,
            List.disjoint_append_left, List.disjoint_append_right, List.cons_append,
            List.append_assoc, List.nodup_nil, List.not_mem_nil, List.disjoint_nil_left,
            List.disjoint_nil_right, List.append_nil, List.nil_append, not_false_eq_true, true_and,
            and_true, not_true_eq_false, false_and, and_false] at hnd
        have hps : p ≠ s := hsp.symm
        have hxb : x ≠ b := by
          rintro rfl
          simp only [Tree.addrs, ctxAddrs, List.nodup_append, List.nodup_cons, List.mem_append,
            List.mem_cons, not_or, List.disjoint_cons_left, List.disjoint_cons_right,
            List.disjoint_append_left, List.disjoint_append_right, List.cons_append,
            List.append_assoc, List.nodup_nil, List.not_mem_nil, List.disjoint_nil_left,
            List.disjoint_nil_right, List.append_nil, List.nil_append, not_false_eq_true, true_and,
            and_true, not_true_eq_false, false_and, and_false] at hnd
        have hbx : b ≠ x := hxb.symm
        have hxp : x ≠ p := by
          rintro rfl
          simp only [Tree.addrs, ctxAddrs, List.nodup_append, List.nodup_cons, List.mem_append,
            List.mem_cons, not_or, List.disjoint_cons_left, List.disjoint_cons_right,
            List.disjoint_append_left, List.disjoint_append_right, List.cons_append,
            List.append_assoc, List.nodup_nil, List.not_mem_nil, List.disjoint_nil_left,
            List.disjoint_nil_right, List.append_nil, List.nil_append, not_false_eq_true, true_and,
            and_true, not_true_eq_false, false_and, and_false] at hnd
        have hpx : p ≠ x := hxp.symm
        have hbp : b ≠ p := by
          rintro rfl
          simp only [Tree.addrs, ctxAddrs, List.nodup_append, List.nodup_cons, List.mem_append,
            List.mem_cons, not_or, List.disjoint_cons_left, List.disjoint_cons_right,
            List.disjoint_append_left, List.disjoint_append_right, List.cons_append,
            List.append_assoc, List.nodup_nil, List.not_mem_nil, List.disjoint_nil_left,
            List.disjoint_nil_right, List.append_nil, List.nil_append, not_false_eq_true, true_and,
            and_true, not_true_eq_false, false_and, and_false] at hnd
        have hpb : p ≠ b := hbp.symm
        have hnd' := hnd
        simp only [Tree.addrs, ctxAddrs, List.nodup_append, List.nodup_cons, List.mem_append, List.mem_cons,
          not_or, List.disjoint_cons_left, List.disjoint_cons_right, List.disjoint_append_left,
          List.disjoint_append_right, List.cons_append, List.append_assoc, List.nodup_nil,
          List.not_mem_nil, List.disjoint_nil_left, List.disjoint_nil_right, List.append_nil,
          List.nil_append, not_false_eq_true, true_and, and_true] at hnd'
        simp only [ctxPar_cons, ctxPar_nil, Frame.addr_L, Frame.addr_R, Tree.ptr_node, Tree.ptr_nil] at hsc hxc hbc hpc
        simp only [RBT.leftRotate, RBT.right, RBT.left, RBT.parent, RBT.setRight, RBT.setLeft,
          RBT.setParent, RBT.modify, RBT.get_some, Exec.some_bind, Exec.pure_eq, hsc, hxc, hbc,
          hpc, hsx, hxs, hsb, hbs, hsp, hps, hxb, hbx, hxp, hpx, hbp, hpb, hs, hx, hb, hp,
          Ne.symm hs, Ne.symm hx, Ne.symm hb, Ne.symm hp, setCell, if_pos, if_neg, ite_true,
          ite_false, ne_eq, Option.some.injEq, not_false_eq_true, not_true_eq_false, reduceCtorEq]
        refine ⟨_, rfl, ?_, ⟨rfl, rfl, ?_⟩, ?_, ?_⟩
        · rw [Shape.plug_iff]
          simp only [Repr, ReprCtx, setCell_same, setCell_other, Repr_setCell, ReprCtx_setCell, hnd', hsx,
            hxs, hsb, hbs, hsp, hps, hxb, hbx, hxp, hpx, hbp, hpb, hs, hx, hb, hp, Ne.symm hs,
            Ne.symm hx, Ne.symm hb, Ne.symm hp, hsc, hxc, hbc, hpc, ne_eq, not_false_eq_true,
            Tree.ptr_node, Tree.ptr_nil, ctxPar_cons, ctxPar_nil, ctxRoot_cons, ctxRoot_nil,
            Frame.addr_L, Frame.addr_R, true_and, and_true, Tree.addrs, List.append_assoc,
            List.cons_append]
          simp only [Tree.addrs, List.append_assoc, List.cons_append, Tree.ptr_node, ctxRoot_cons,
            ctxRoot_nil, Frame.addr_L, Frame.addr_R] at hnd hroot
          and_intros <;> assumption
        · simp only [setCell_other, hs, hx, hb, hp, Ne.symm hs, Ne.symm hx, Ne.symm hb, Ne.symm hp, ne_eq, not_false_eq_true]
        · intro h
          first | rfl | exact absurd rfl h | exact False.elim h | exact absurd h (List.cons_ne_nil _ _)
        · intro h
          first | rfl | exact absurd rfl h | exact False.elim h | exact absurd h (List.cons_ne_nil _ _)
      | R p cp pr kp =>
        obtain ⟨hb, hbc, hBl, hBr⟩ := hB
        obtain ⟨hp, hpc, hpr, hrest⟩ := hctx
        have hsx : s ≠ x := by
          rintro rfl
          simp only [Tree.addrs, ctxAddrs, List.nodup_append, List.nodup_cons, List.mem_append,
            List.mem_cons, not_or, List.disjoint_cons_left, List.disjoint_cons_right,
            List.disjoint_append_left, List.disjoint_append_right, List.cons_append,
            List.append_assoc, List.nodup_nil, List.not_mem_nil, List.disjoint_nil_left,
            List.disjoint_nil_right, List.append_nil, List.nil_append, not_false_eq_true, true_and,
            and_true, not_true_eq_false, false_and, and_false] at hnd
        have hxs : x ≠ s := hsx.symm
        have hsb : s ≠ b := by
          rintro rfl
          simp only [Tree.addrs, ctxAddrs, List.nodup_append, List.nodup_cons, List.mem_append,
            List.mem_cons, not_or, List.disjoint_cons_left, List.disjoint_cons_right,
            List.disjoint_append_left, List.disjoint_append_right, List.cons_append,
            List.append_assoc, List.nodup_nil, List.not_mem_nil, List.disjoint_nil_left,
            List.disjoint_nil_right, List.append_nil, List.nil_append, not_false_eq_true, true_and,
            and_true, not_true_eq_false, false_and, and_false] at hnd
        have hbs : b ≠ s := hsb.symm
        have hsp : s ≠ p := by
          rintro rfl
          simp only [Tree.addrs, ctxAddrs, List.nodup_append, List.nodup_cons, List.mem_append,
            List.mem_cons, not_or, List.disjoint_cons_left, List.disjoint_cons_right,
            List.disjoint_append_left, List.disjoint_append_right, List.cons_append,
            List.append_assoc, List.nodup_nil, List.not_mem_nil, List.disjoint_nil_left,
            List.disjoint_nil_right, List.append_nil, List.nil_append, not_false_eq_true, true_and,
            and_true, not_true_eq_false, false_and, and_false] at hnd
        have hps : p ≠ s := hsp.symm
        have hxb : x ≠ b := by
          rintro rfl
          simp only [Tree.addrs, ctxAddrs, List.nodup_append, List.nodup_cons, List.mem_append,
            List.mem_cons, not_or, List.disjoint_cons_left, List.disjoint_cons_right,
            List.disjoint_append_left, List.disjoint_append_right, List.cons_append,
            List.append_assoc, List.nodup_nil, List.not_mem_nil, List.disjoint_nil_left,
            List.disjoint_nil_right, List.append_nil, List.nil_append, not_false_eq_true, true_and,
            and_true, not_true_eq_false, false_and, and_false] at hnd
        have hbx : b ≠ x := hxb.symm
        have hxp : x ≠ p := by
          rintro rfl
          simp only [Tree.addrs, ctxAddrs, List.nodup_append, List.nodup_cons, List.mem_append,
            List.mem_cons, not_or, List.disjoint_cons_left, List.disjoint_cons_right,
            List.disjoint_append_left, List.disjoint_append_right, List.cons_append,
            List.append_assoc, List.nodup_nil, List.not_mem_nil, List.disjoint_nil_left,
            List.disjoint_nil_right, List.append_nil, List.nil_append, not_false_eq_true, true_and,
            and_true, not_true_eq_false, false_and, and_false] at hnd
        have hpx : p ≠ x := hxp.symm
        have hbp : b ≠ p := by
          rintro rfl
          simp only [Tree.addrs, ctxAddrs, List.nodup_append, List.nodup_cons, List.mem_append,
            List.mem_cons, not_or, List.disjoint_cons_left, List.disjoint_cons_right,
            List.disjoint_append_left, List.disjoint_append_right, List.cons_append,
            List.append_assoc, List.nodup_nil, List.not_mem_nil, List.disjoint_nil_left,
            List.disjoint_nil_right, List.append_nil, List.nil_append, not_false_eq_true, true_and,
            and_true, not_true_eq_false, false_and, and_false] at hnd
        have hpb : p ≠ b := hbp.symm
        have hnd' := hnd
        simp only [Tree.addrs, ctxAddrs, List.nodup_append, List.nodup_cons, List.mem_append, List.mem_cons,
          not_or, List.disjoint_cons_left, List.disjoint_cons_right, List.disjoint_append_left,
          List.disjoint_append_right, List.cons_append, List.append_assoc, List.nodup_nil,
          List.not_mem_nil, List.disjoint_nil_left, List.disjoint_nil_right, List.append_nil,
          List.nil_append, not_false_eq_true, true_and, and_true] at hnd'
        have hq : ¬ (some s = Tree.ptr t.null pr) := fun e => ptr_ne_of_not_mem hs (by simp only [hnd', not_false_eq_true]) e.symm
        simp only [ctxPar_cons, ctxPar_nil, Frame.addr_L, Frame.addr_R, Tree.ptr_node, Tree.ptr_nil] at hsc hxc hbc hpc
        simp only [RBT.leftRotate, RBT.right, RBT.left, RBT.parent, RBT.setRight, RBT.setLeft,
          RBT.setParent, RBT.modify, RBT.get_some, Exec.some_bind, Exec.pure_eq, hsc, hxc, hbc,
          hpc, hsx, hxs, hsb, hbs, hsp, hps, hxb, hbx, hxp, hpx, hbp, hpb, hq, hs, hx, hb, hp,
          Ne.symm hs, Ne.symm hx, Ne.symm hb, Ne.symm hp, setCell, if_pos, if_neg, ite_true,
          ite_false, ne_eq, Option.some.injEq, not_false_eq_true, not_true_eq_false, reduceCtorEq]
        refine ⟨_, rfl, ?_, ⟨rfl, rfl, ?_⟩, ?_, ?_⟩
        · rw [Shape.plug_iff]
          simp only [Repr, ReprCtx, setCell_same, setCell_other, Repr_setCell, ReprCtx_setCell, hnd', hsx,
            hxs, hsb, hbs, hsp, hps, hxb, hbx, hxp, hpx, hbp, hpb, hq, hs, hx, hb, hp, Ne.symm hs,
            Ne.symm hx, Ne.symm hb, Ne.symm hp, hsc, hxc, hbc, hpc, ne_eq, not_false_eq_true,
            Tree.ptr_node, Tree.ptr_nil, ctxPar_cons, ctxPar_nil, ctxRoot_cons, ctxRoot_nil,
            Frame.addr_L, Frame.addr_R, true_and, and_true, Tree.addrs, List.append_assoc,
            List.cons_append]
          simp only [Tree.addrs, List.append_assoc, List.cons_append, Tree.ptr_node, ctxRoot_cons,
            ctxRoot_nil, Frame.addr_L, Frame.addr_R] at hnd hroot
          and_intros <;> assumption
        · simp only [setCell_other, hs, hx, hb, hp, Ne.symm hs, Ne.symm hx, Ne.symm hb, Ne.symm hp, ne_eq, not_false_eq_true]
        · intro h
          first | rfl | exact absurd rfl h | exact False.elim h | exact absurd h (List.cons_ne_nil _ _)
        · intro h
          first | rfl | exact absurd rfl h | exact False.elim h | exact absurd h (List.cons_ne_nil _ _)

theorem Shape.rightRotate {t : RBT K V} {s x : Nat} {cs cx : Color} {A B C : Tree K V}
    {ks kx : K × V} {ctx : List (Frame K V)}
    (hS : Shape t (plug (node s cs (node x cx C kx B) ks A) ctx)) :
    ∃ t', t.rightRotate (some s) = some t' ∧
      Shape t' (plug (node x cx C kx (node s cs B ks A)) ctx) ∧ Same t t' ∧
      (ctx ≠ [] → t'.root = t.root) ∧ (ctx = [] → t'.root = some x) := by
  rw [Shape.plug_iff] at hS
  obtain ⟨hroot, ⟨hs, hsc, ⟨hx, hxc, hC, hB⟩, hA⟩, hctx, hnd⟩ := hS
  simp only [Tree.ptr_node] at hctx hsc hxc
  cases B with
  | nil =>
    cases ctx with
    | nil =>
      have hsx : s ≠ x := by
        rintro rfl
        simp only [Tree.addrs, ctxAddrs, List.nodup_append, List.nodup_cons, List.mem_append, List.mem_cons,
          not_or, List.disjoint_cons_left, List.disjoint_cons_right, List.disjoint_append_left,
          List.disjoint_append_right, List.cons_append, List.append_assoc, List.nodup_nil,
          List.not_mem_nil, List.disjoint_nil_left, List.disjoint_nil_right, List.append_nil,
          List.nil_append, not_false_eq_true, true_and, and_true, not_true_eq_false, false_and,
          and_false] at hnd
      have hxs : x ≠ s := hsx.symm
      have hnd' := hnd
      simp only [Tree.addrs, ctxAddrs, List.nodup_append, List.nodup_cons, List.mem_append, List.mem_cons,
        not_or, List.disjoint_cons_left, List.disjoint_cons_right, List.disjoint_append_left,
        List.disjoint_append_right, List.cons_append, List.append_assoc, List.nodup_nil,
        List.not_mem_nil, List.disjoint_nil_left, List.disjoint_nil_right, List.append_nil,
        List.nil_append, not_false_eq_true, true_and, and_true] at hnd'
      simp only [ctxPar_cons, ctxPar_nil, Frame.addr_L, Frame.addr_R, Tree.ptr_node, Tree.ptr_nil] at hsc hxc
      simp only [RBT.rightRotate, RBT.right, RBT.left, RBT.parent, RBT.setRight, RBT.setLeft, RBT.setParent,
        RBT.modify, RBT.get_some, Exec.some_bind, Exec.pure_eq, hsc, hxc, hsx, hxs, hs, hx,
        Ne.symm hs, Ne.symm hx, setCell, if_pos, if_neg, ite_true, ite_false, ne_eq,
        Option.some.injEq, not_false_eq_true, not_true_eq_false, reduceCtorEq]
      refine ⟨_, rfl, ?_, ⟨rfl, rfl, ?_⟩, ?_, ?_⟩
      · rw [Shape.plug_iff]
        simp only [Repr, ReprCtx, setCell_same, setCell_other, Repr_setCell, ReprCtx_setCell, hnd', hsx,
          hxs, hs, hx, Ne.symm hs, Ne.symm hx, hsc, hxc, ne_eq, not_false_eq_true, Tree.ptr_node,
          Tree.ptr_nil, ctxPar_cons, ctxPar_nil, ctxRoot_cons, ctxRoot_nil, Frame.addr_L,
          Frame.addr_R, true_and, and_true, Tree.addrs, List.append_assoc, List.cons_append]
        simp only [Tree.addrs, List.append_assoc, List.cons_append, Tree.ptr_node, ctxRoot_cons,
          ctxRoot_nil, Frame.addr_L, Frame.addr_R] at hnd hroot
        and_intros <;> assumption
      · simp only [setCell_other, hs, hx, Ne.symm hs, Ne.symm hx, ne_eq, not_false_eq_true]
      · intro h
        first | rfl | exact absurd rfl h | exact False.elim h | exact absurd h (List.cons_ne_nil _ _)
      · intro h
        first | rfl | exact absurd rfl h | exact False.elim h | exact absurd h (List.cons_ne_nil _ _)
    | cons f rest =>
      cases f with
      | L p cp kp pr =>
        obtain ⟨hp, hpc, hpr, hrest⟩ := hctx
        have hsx : s ≠ x := by
          rintro rfl
          simp only [Tree.addrs, ctxAddrs, List.nodup_append, List.nodup_cons, List.mem_append,
            List.mem_cons, not_or, List.disjoint_cons_left, List.disjoint_cons_right,
            List.disjoint_append_left, List.disjoint_append_right, List.cons_append,
            List.append_assoc, List.nodup_nil, List.not_mem_nil, List.disjoint_nil_left,
            List.disjoint_nil_right, List.append_nil, List.nil_append, not_false_eq_true, true_and,
            and_true, not_true_eq_false, false_and, and_false] at hnd
        have hxs : x ≠ s := hsx.symm
        have hsp : s ≠ p := by
          rintro rfl
          simp only [Tree.addrs, ctxAddrs, List.nodup_append, List.nodup_cons, List.mem_append,
            List.mem_cons, not_or, List.disjoint_cons_left, List.disjoint_cons_right,
            List.disjoint_append_left, List.disjoint_append_right, List.cons_append,
            List.append_assoc, List.nodup_nil, List.not_mem_nil, List.disjoint_nil_left,
            List.disjoint_nil_right, List.append_nil, List.nil_append, not_false_eq_true, true_and,
            and_true, not_true_eq_false, false_and, and_false] at hnd
        have hps : p ≠ s := hsp.symm
        have hxp : x ≠ p := by
          rintro rfl
          simp only [Tree.addrs, ctxAddrs, List.nodup_append, List.nodup_cons, List.mem_append,
            List.mem_cons, not_or, List.disjoint_cons_left, List.disjoint_cons_right,
            List.disjoint_append_left, List.disjoint_append_right, List.cons_append,
            List.append_assoc, List.nodup_nil, List.not_mem_nil, List.disjoint_nil_left,
            List.disjoint_nil_right, List.append_nil, List.nil_append, not_false_eq_true, true_and,
            and_true, not_true_eq_false, false_and, and_false] at hnd
        have hpx : p ≠ x := hxp.symm
        have hnd' := hnd
        simp only [Tree.addrs, ctxAddrs, List.nodup_append, List.nodup_cons, List.mem_append, List.mem_cons,
          not_or, List.disjoint_cons_left, List.disjoint_cons_right, List.disjoint_append_left,
          List.disjoint_append_right, List.cons_append, List.append_assoc, List.nodup_nil,
          List.not_mem_nil, List.disjoint_nil_left, List.disjoint_nil_right, List.append_nil,
          List.nil_append, not_false_eq_true, true_and, and_true] at hnd'
        have hq : ¬ (some s = Tree.ptr t.null pr) := fun e => ptr_ne_of_not_mem hs (by simp only [hnd', not_false_eq_true]) e.symm
        simp only [ctxPar_cons, ctxPar_nil, Frame.addr_L, Frame.addr_R, Tree.ptr_node, Tree.ptr_nil] at hsc hxc hpc
        simp only [RBT.rightRotate, RBT.right, RBT.left, RBT.parent, RBT.setRight, RBT.setLeft,
          RBT.setParent, RBT.modify, RBT.get_some, Exec.some_bind, Exec.pure_eq, hsc, hxc, hpc,
          hsx, hxs, hsp, hps, hxp, hpx, hq, hs, hx, hp, Ne.symm hs, Ne.symm hx, Ne.symm hp,
          setCell, if_pos, if_neg, ite_true, ite_false, ne_eq, Option.some.injEq,
          not_false_eq_true, not_true_eq_false, reduceCtorEq]
        refine ⟨_, rfl, ?_, ⟨rfl, rfl, ?_⟩, ?_, ?_⟩
        · rw [Shape.plug_iff]
          simp only [Repr, ReprCtx, setCell_same, setCell_other, Repr_setCell, ReprCtx_setCell, hnd', hsx,
            hxs, hsp, hps, hxp, hpx, hq, hs, hx, hp, Ne.symm hs, Ne.symm hx, Ne.symm hp, hsc, hxc,
            hpc, ne_eq, not_false_eq_true, Tree.ptr_node, Tree.ptr_nil, ctxPar_cons, ctxPar_nil,
            ctxRoot_cons, ctxRoot_nil, Frame.addr_L, Frame.addr_R, true_and, and_true, Tree.addrs,
            List.append_assoc, List.cons_append]
          simp only [Tree.addrs, List.append_assoc, List.cons_append, Tree.ptr_node, ctxRoot_cons,
            ctxRoot_nil, Frame.addr_L, Frame.addr_R] at hnd hroot
          and_intros <;> assumption
        · simp only [setCell_other, hs, hx, hp, Ne.symm hs, Ne.symm hx, Ne.symm hp, ne_eq, not_false_eq_true]
        · intro h
          first | rfl | exact absurd rfl h | exact False.elim h | exact absurd h (List.cons_ne_nil _ _)
        · intro h
          first | rfl | exact absurd rfl h | exact False.elim h | exact absurd h (List.cons_ne_nil _ _)
      | R p cp pr kp =>
        obtain ⟨hp, hpc, hpr, hrest⟩ := hctx
        have hsx : s ≠ x := by
          rintro rfl
          simp only [Tree.addrs, ctxAddrs, List.nodup_append, List.nodup_cons, List.mem_append,
            List.mem_cons, not_or, List.disjoint_cons_left, List.disjoint_cons_right,
            List.disjoint_append_left, List.disjoint_append_right, List.cons_append,
            List.append_assoc, List.nodup_nil, List.not_mem_nil, List.disjoint_nil_left,
            List.disjoint_nil_right, List.append_nil, List.nil_append, not_false_eq_true, true_and,
            and_true, not_true_eq_false, false_and, and_false] at hnd
        have hxs : x ≠ s := hsx.symm
        have hsp : s ≠ p := by
          rintro rfl
          simp only [Tree.addrs, ctxAddrs, List.nodup_append, List.nodup_cons, List.mem_append,
            List.mem_cons, not_or, List.disjoint_cons_left, List.disjoint_cons_right,
            List.disjoint_append_left, List.disjoint_append_right, List.cons_append,
            List.append_assoc, List.nodup_nil, List.not_mem_nil, List.disjoint_nil_left,
            List.disjoint_nil_right, List.append_nil, List.nil_append, not_false_eq_true, true_and,
            and_true, not_true_eq_false, false_and, and_false] at hnd
        have hps : p ≠ s := hsp.symm
        have hxp : x ≠ p := by
          rintro rfl
          simp only [Tree.addrs, ctxAddrs, List.nodup_append, List.nodup_cons, List.mem_append,
            List.mem_cons, not_or, List.disjoint_cons_left, List.disjoint_cons_right,
            List.disjoint_append_left, List.disjoint_append_right, List.cons_append,
            List.append_assoc, List.nodup_nil, List.not_mem_nil, List.disjoint_nil_left,
            List.disjoint_nil_right, List.append_nil, List.nil_append, not_false_eq_true, true_and,
            and_true, not_true_eq_false, false_and, and_false] at hnd
        have hpx : p ≠ x := hxp.symm
        have hnd' := hnd
        simp only [Tree.addrs, ctxAddrs, List.nodup_append, List.nodup_cons, List.mem_append, List.mem_cons,
          not_or, List.disjoint_cons_left, List.disjoint_cons_right, List.disjoint_append_left,
          List.disjoint_append_right, List.cons_append, List.append_assoc, List.nodup_nil,
          List.not_mem_nil, List.disjoint_nil_left, List.disjoint_nil_right, List.append_nil,
          List.nil_append, not_false_eq_true, true_and, and_true] at hnd'
        simp only [ctxPar_cons, ctxPar_nil, Frame.addr_L, Frame.addr_R, Tree.ptr_node, Tree.ptr_nil] at hsc hxc hpc
        simp only [RBT.rightRotate, RBT.right, RBT.left, RBT.parent, RBT.setRight, RBT.setLeft,
          RBT.setParent, RBT.modify, RBT.get_some, Exec.some_bind, Exec.pure_eq, hsc, hxc, hpc,
          hsx, hxs, hsp, hps, hxp, hpx, hs, hx, hp, Ne.symm hs, Ne.symm hx, Ne.symm hp, setCell,
          if_pos, if_neg, ite_true, ite_false, ne_eq, Option.some.injEq, not_false_eq_true,
          not_true_eq_false, reduceCtorEq]
        refine ⟨_, rfl, ?_, ⟨rfl, rfl, ?_⟩, ?_, ?_⟩
        · rw [Shape.plug_iff]
          simp only [Repr, ReprCtx, setCell_same, setCell_other, Repr_setCell, ReprCtx_setCell, hnd', hsx,
            hxs, hsp, hps, hxp, hpx, hs, hx, hp, Ne.symm hs, Ne.symm hx, Ne.symm hp, hsc, hxc, hpc,
            ne_eq, not_false_eq_true, Tree.ptr_node, Tree.ptr_nil, ctxPar_cons, ctxPar_nil,
            ctxRoot_cons, ctxRoot_nil, Frame.addr_L, Frame.addr_R, true_and, and_true, Tree.addrs,
            List.append_assoc, List.cons_append]
          simp only [Tree.addrs, List.append_assoc, List.cons_append, Tree.ptr_node, ctxRoot_cons,
            ctxRoot_nil, Frame.addr_L, Frame.addr_R] at hnd hroot
          and_intros <;> assumption
        · simp only [setCell_other, hs, hx, hp, Ne.symm hs, Ne.symm hx, Ne.symm hp, ne_eq, not_false_eq_true]
        · intro h
          first | rfl | exact absurd rfl h | exact False.elim h | exact absurd h (List.cons_ne_nil _ _)
        · intro h
          first | rfl | exact absurd rfl h | exact False.elim h | exact absurd h (List.cons_ne_nil _ _)
  | node b cb Bl kb Br =>
    cases ctx with
    | nil =>
      obtain ⟨hb, hbc, hBl, hBr⟩ := hB
      have hsx : s ≠ x := by
        rintro rfl
        simp only [Tree.addrs, ctxAddrs, List.nodup_append, List.nodup_cons, List.mem_append, List.mem_cons,
          not_or, List.disjoint_cons_left, List.disjoint_cons_right, List.disjoint_append_left,
          List.disjoint_append_right, List.cons_append, List.append_assoc, List.nodup_nil,
          List.not_mem_nil, List.disjoint_nil_left, List.disjoint_nil_right, List.append_nil,
          List.nil_append, not_false_eq_true, true_and, and_true, not_true_eq_false, false_and,
          and_false] at hnd
      have hxs : x ≠ s := hsx.symm
      have hsb : s ≠ b := by
        rintro rfl
        simp only [Tree.addrs, ctxAddrs, List.nodup_append, List.nodup_cons, List.mem_append, List.mem_cons,
          not_or, List.disjoint_cons_left, List.disjoint_cons_right, List.disjoint_append_left,
          List.disjoint_append_right, List.cons_append, List.append_assoc, List.nodup_nil,
          List.not_mem_nil, List.disjoint_nil_left, List.disjoint_nil_right, List.append_nil,
          List.nil_append, not_false_eq_true, true_and, and_true, not_true_eq_false, false_and,
          and_false] at hnd
      have hbs : b ≠ s := hsb.symm
      have hxb : x ≠ b := by
        rintro rfl
        simp only [Tree.addrs, ctxAddrs, List.nodup_append, List.nodup_cons, List.mem_append, List.mem_cons,
          not_or, List.disjoint_cons_left, List.disjoint_cons_right, List.disjoint_append_left,
          List.disjoint_append_right, List.cons_append, List.append_assoc, List.nodup_nil,
          List.not_mem_nil, List.disjoint_nil_left, List.disjoint_nil_right, List.append_nil,
          List.nil_append, not_false_eq_true, true_and, and_true, not_true_eq_false, false_and,
          and_false] at hnd
      have hbx : b ≠ x := hxb.symm
      have hnd' := hnd
      simp only [Tree.addrs, ctxAddrs, List.nodup_append, List.nodup_cons, List.mem_append, List.mem_cons,
        not_or, List.disjoint_cons_left, List.disjoint_cons_right, List.disjoint_append_left,
        List.disjoint_append_right, List.cons_append, List.append_assoc, List.nodup_nil,
        List.not_mem_nil, List.disjoint_nil_left, List.disjoint_nil_right, List.append_nil,
        List.nil_append, not_false_eq_true, true_and, and_true] at hnd'
      simp only [ctxPar_cons, ctxPar_nil, Frame.addr_L, Frame.addr_R, Tree.ptr_node, Tree.ptr_nil] at hsc hxc hbc
      simp only [RBT.rightRotate, RBT.right, RBT.left, RBT.parent, RBT.setRight, RBT.setLeft, RBT.setParent,
        RBT.modify, RBT.get_some, Exec.some_bind, Exec.pure_eq, hsc, hxc, hbc, hsx, hxs, hsb, hbs,
        hxb, hbx, hs, hx, hb, Ne.symm hs, Ne.symm hx, Ne.symm hb, setCell, if_pos, if_neg,
        ite_true, ite_false, ne_eq, Option.some.injEq, not_false_eq_true, not_true_eq_false,
        reduceCtorEq]
      refine ⟨_, rfl, ?_, ⟨rfl, rfl, ?_⟩, ?_, ?_⟩
      · rw [Shape.plug_iff]
        simp only [Repr, ReprCtx, setCell_same, setCell_other, Repr_setCell, ReprCtx_setCell, hnd', hsx,
          hxs, hsb, hbs, hxb, hbx, hs, hx, hb, Ne.symm hs, Ne.symm hx, Ne.symm hb, hsc, hxc, hbc,
          ne_eq, not_false_eq_true, Tree.ptr_node, Tree.ptr_nil, ctxPar_cons, ctxPar_nil,
          ctxRoot_cons, ctxRoot_nil, Frame.addr_L, Frame.addr_R, true_and, and_true, Tree.addrs,
          List.append_assoc, List.cons_append]
        simp only [Tree.addrs, List.append_assoc, List.cons_append, Tree.ptr_node, ctxRoot_cons,
          ctxRoot_nil, Frame.addr_L, Frame.addr_R] at hnd hroot
        and_intros <;> assumption
      · simp only [setCell_other, hs, hx, hb, Ne.symm hs, Ne.symm hx, Ne.symm hb, ne_eq, not_false_eq_true]
      · intro h
        first | rfl | exact absurd rfl h | exact False.elim h | exact absurd h (List.cons_ne_nil _ _)
      · intro h
        first | rfl | exact absurd rfl h | exact False.elim h | exact absurd h (List.cons_ne_nil _ _)
    | cons f rest =>
      cases f with
      | L p cp kp pr =>
        obtain ⟨hb, hbc, hBl, hBr⟩ := hB
        obtain ⟨hp, hpc, hpr, hrest⟩ := hctx
        have hsx : s ≠ x := by
          rintro rfl
          simp only [Tree.addrs, ctxAddrs, List.nodup_append, List.nodup_cons, List.mem_append,
            List.mem_cons, not_or, List.disjoint_cons_left, List.disjoint_cons_right,
            List.disjoint_append_left, List.disjoint_append_right, List.cons_append,
            List.append_assoc, List.nodup_nil, List.not_mem_nil, List.disjoint_nil_left,
            List.disjoint_nil_right, List.append_nil, List.nil_append, not_false_eq_true, true_and,
            and_true, not_true_eq_false, false_and, and_false] at hnd
        have hxs : x ≠ s := hsx.symm
        have hsb : s ≠ b := by
          rintro rfl
          simp only [Tree.addrs, ctxAddrs, List.nodup_append, List.nodup_cons, List.mem_append,
            List.mem_cons, not_or, List.disjoint_cons_left, List.disjoint_cons_right,
            List.disjoint_append_left, List.disjoint_append_right, List.cons_append,
            List.append_assoc, List.nodup_nil, List.not_mem_nil, List.disjoint_nil_left,
            List.disjoint_nil_right, List.append_nil, List.nil_append, not_false_eq_true, true_and,
            and_true, not_true_eq_false, false_and, and_false] at hnd
        have hbs : b ≠ s := hsb.symm
        have hsp : s ≠ p := by
          rintro rfl
          simp only [Tree.addrs, ctxAddrs, List.nodup_append, List.nodup_cons, List.mem_append,
            List.mem_cons, not_or, List.disjoint_cons_left, List.disjoint_cons_right,
            List.disjoint_append_left, List.disjoint_append_right, List.cons_append,
            List.append_assoc, List.nodup_nil, List.not_mem_nil, List.disjoint_nil_left,
            List.disjoint_nil_right, List.append_nil, List.nil_append, not_false_eq_true, true_and,
            and_true, not_true_eq_false, false_and, and_false] at hnd
        have hps : p ≠ s := hsp.symm
        have hxb : x ≠ b := by
          rintro rfl
          simp only [Tree.addrs, ctxAddrs, List.nodup_append, List.nodup_cons, List.mem_append,
            List.mem_cons, not_or, List.disjoint_cons_left, List.disjoint_cons_right,
            List.disjoint_append_left, List.disjoint_append_right, List.cons_append,
            List.append_assoc, List.nodup_nil, List.not_mem_nil, List.disjoint_nil_left,
            List.disjoint_nil_right, List.append_nil, List.nil_append, not_false_eq_true, true_and,
            and_true, not_true_eq_false, false_and, and_false] at hnd
        have hbx : b ≠ x := hxb.symm
        have hxp : x ≠ p := by
          rintro rfl
          simp only [Tree.addrs, ctxAddrs, List.nodup_append, List.nodup_cons, List.mem_append,
            List.mem_cons, not_or, List.disjoint_cons_left, List.disjoint_cons_right,
            List.disjoint_append_left, List.disjoint_append_right, List.cons_append,
            List.append_assoc, List.nodup_nil, List.not_mem_nil, List.disjoint_nil_left,
            List.disjoint_nil_right, List.append_nil, List.nil_append, not_false_eq_true, true_and,
            and_true, not_true_eq_false, false_and, and_false] at hnd
        have hpx : p ≠ x := hxp.symm
        have hbp : b ≠ p := by
          rintro rfl
          simp only [Tree.addrs, ctxAddrs, List.nodup_append, List.nodup_cons, List.mem_append,
            List.mem_cons, not_or, List.disjoint_cons_left, List.disjoint_cons_right,
            List.disjoint_append_left, List.disjoint_append_right, List.cons_append,
            List.append_assoc, List.nodup_nil, List.not_mem_nil, List.disjoint_nil_left,
            List.disjoint_nil_right, List.append_nil, List.nil_append, not_false_eq_true, true_and,
            and_true, not_true_eq_false, false_and, and_false] at hnd
        have hpb : p ≠ b := hbp.symm
        have hnd' := hnd
        simp only [Tree.addrs, ctxAddrs, List.nodup_append, List.nodup_cons, List.mem_append, List.mem_cons,
          not_or, List.disjoint_cons_left, List.disjoint_cons_right, List.disjoint_append_left,
          List.disjoint_append_right, List.cons_append, List.append_assoc, List.nodup_nil,
          List.not_mem_nil, List.disjoint_nil_left, List.disjoint_nil_right, List.append_nil,
          List.nil_append, not_false_eq_true, true_and, and_true] at hnd'
        have hq : ¬ (some s = Tree.ptr t.null pr) := fun e => ptr_ne_of_not_mem hs (by simp only [hnd', not_false_eq_true]) e.symm
        simp only [ctxPar_cons, ctxPar_nil, Frame.addr_L, Frame.addr_R, Tree.ptr_node, Tree.ptr_nil] at hsc hxc hbc hpc
        simp only [RBT.rightRotate, RBT.right, RBT.left, RBT.parent, RBT.setRight, RBT.setLeft,
          RBT.setParent, RBT.modify, RBT.get_some, Exec.some_bind, Exec.pure_eq, hsc, hxc, hbc,
          hpc, hsx, hxs, hsb, hbs, hsp, hps, hxb, hbx, hxp, hpx, hbp, hpb, hq, hs, hx, hb, hp,
          Ne.symm hs, Ne.symm hx, Ne.symm hb, Ne.symm hp, setCell, if_pos, if_neg, ite_true,
          ite_false, ne_eq, Option.some.injEq, not_false_eq_true, not_true_eq_false, reduceCtorEq]
        refine ⟨_, rfl, ?_, ⟨rfl, rfl, ?_⟩, ?_, ?_⟩
        · rw [Shape.plug_iff]
          simp only [Repr, ReprCtx, setCell_same, setCell_other, Repr_setCell, ReprCtx_setCell, hnd', hsx,
            hxs, hsb, hbs, hsp, hps, hxb, hbx, hxp, hpx, hbp, hpb, hq, hs, hx, hb, hp, Ne.symm hs,
            Ne.symm hx, Ne.symm hb, Ne.symm hp, hsc, hxc, hbc, hpc, ne_eq, not_false_eq_true,
            Tree.ptr_node, Tree.ptr_nil, ctxPar_cons, ctxPar_nil, ctxRoot_cons, ctxRoot_nil,
            Frame.addr_L, Frame.addr_R, true_and, and_true, Tree.addrs, List.append_assoc,
            List.cons_append]
          simp only [Tree.addrs, List.append_assoc, List.cons_append, Tree.ptr_node, ctxRoot_cons,
            ctxRoot_nil, Frame.addr_L, Frame.addr_R] at hnd hroot
          and_intros <;> assumption
        · simp only [setCell_other, hs, hx, hb, hp, Ne.symm hs, Ne.symm hx, Ne.symm hb, Ne.symm hp, ne_eq, not_false_eq_true]
        · intro h
          first | rfl | exact absurd rfl h | exact False.elim h | exact absurd h (List.cons_ne_nil _ _)
        · intro h
          first | rfl | exact absurd rfl h | exact False.elim h | exact absurd h (List.cons_ne_nil _ _)
      | R p cp pr kp =>
        obtain ⟨hb, hbc, hBl, hBr⟩ := hB
        obtain ⟨hp, hpc, hpr, hrest⟩ := hctx
        have hsx : s ≠ x := by
          rintro rfl
          simp only [Tree.addrs, ctxAddrs, List.nodup_append, List.nodup_cons, List.mem_append,
            List.mem_cons, not_or, List.disjoint_cons_left, List.disjoint_cons_right,
            List.disjoint_append_left, List.disjoint_append_right, List.cons_append,
            List.append_assoc, List.nodup_nil, List.not_mem_nil, List.disjoint_nil_left,
            List.disjoint_nil_right, List.append_nil, List.nil_append, not_false_eq_true, true_and,
            and_true, not_true_eq_false, false_and, and_false] at hnd
        have hxs : x ≠ s := hsx.symm
        have hsb : s ≠ b := by
          rintro rfl
          simp only [Tree.addrs, ctxAddrs, List.nodup_append, List.nodup_cons, List.mem_append,
            List.mem_cons, not_or, List.disjoint_cons_left, List.disjoint_cons_right,
            List.disjoint_append_left, List.disjoint_append_right, List.cons_append,
            List.append_assoc, List.nodup_nil, List.not_mem_nil, List.disjoint_nil_left,
            List.disjoint_nil_right, List.append_nil, List.nil_append, not_false_eq_true, true_and,
            and_true, not_true_eq_false, false_and, and_false] at hnd
        have hbs : b ≠ s := hsb.symm
        have hsp : s ≠ p := by
          rintro rfl
          simp only [Tree.addrs, ctxAddrs, List.nodup_append, List.nodup_cons, List.mem_append,
            List.mem_cons, not_or, List.disjoint_cons_left, List.disjoint_cons_right,
            List.disjoint_append_left, List.disjoint_append_right, List.cons_append,
            List.append_assoc, List.nodup_nil, List.not_mem_nil, List.disjoint_nil_left,
            List.disjoint_nil_right, List.append_nil, List.nil_append, not_false_eq_true, true_and,
            and_true, not_true_eq_false, false_and, and_false] at hnd
        have hps : p ≠ s := hsp.symm
        have hxb : x ≠ b := by
          rintro rfl
          simp only [Tree.addrs, ctxAddrs, List.nodup_append, List.nodup_cons, List.mem_append,
            List.mem_cons, not_or, List.disjoint_cons_left, List.disjoint_cons_right,
            List.disjoint_append_left, List.disjoint_append_right, List.cons_append,
            List.append_assoc, List.nodup_nil, List.not_mem_nil, List.disjoint_nil_left,
            List.disjoint_nil_right, List.append_nil, List.nil_append, not_false_eq_true, true_and,
            and_true, not_true_eq_false, false_and, and_false] at hnd
        have hbx : b ≠ x := hxb.symm
        have hxp : x ≠ p := by
          rintro rfl
          simp only [Tree.addrs, ctxAddrs, List.nodup_append, List.nodup_cons, List.mem_append,
            List.mem_cons, not_or, List.disjoint_cons_left, List.disjoint_cons_right,
            List.disjoint_append_left, List.disjoint_append_right, List.cons_append,
            List.append_assoc, List.nodup_nil, List.not_mem_nil, List.disjoint_nil_left,
            List.disjoint_nil_right, List.append_nil, List.nil_append, not_false_eq_true, true_and,
            and_true, not_true_eq_false, false_and, and_false] at hnd
        have hpx : p ≠ x := hxp.symm
        have hbp : b ≠ p := by
          rintro rfl
          simp only [Tree.addrs, ctxAddrs, List.nodup_append, List.nodup_cons, List.mem_append,
            List.mem_cons, not_or, List.disjoint_cons_left, List.disjoint_cons_right,
            List.disjoint_append_left, List.disjoint_append_right, List.cons_append,
            List.append_assoc, List.nodup_nil, List.not_mem_nil, List.disjoint_nil_left,
            List.disjoint_nil_right, List.append_nil, List.nil_append, not_false_eq_true, true_and,
            and_true, not_true_eq_false, false_and, and_false] at hnd
        have hpb : p ≠ b := hbp.symm
        have hnd' := hnd
        simp only [Tree.addrs, ctxAddrs, List.nodup_append, List.nodup_cons, List.mem_append, List.mem_cons,
          not_or, List.disjoint_cons_left, List.disjoint_cons_right, List.disjoint_append_left,
          List.disjoint_append_right, List.cons_append, List.append_assoc, List.nodup_nil,
          List.not_mem_nil, List.disjoint_nil_left, List.disjoint_nil_right, List.append_nil,
          List.nil_append, not_false_eq_true, true_and, and_true] at hnd'
        simp only [ctxPar_cons, ctxPar_nil, Frame.addr_L, Frame.addr_R, Tree.ptr_node, Tree.ptr_nil] at hsc hxc hbc hpc
        simp only [RBT.rightRotate, RBT.right, RBT.left, RBT.parent, RBT.setRight, RBT.setLeft,
          RBT.setParent, RBT.modify, RBT.get_some, Exec.some_bind, Exec.pure_eq, hsc, hxc, hbc,
          hpc, hsx, hxs, hsb, hbs, hsp, hps, hxb, hbx, hxp, hpx, hbp, hpb, hs, hx, hb, hp,
          Ne.symm hs, Ne.symm hx, Ne.symm hb, Ne.symm hp, setCell, if_pos, if_neg, ite_true,
          ite_false, ne_eq, Option.some.injEq, not_false_eq_true, not_true_eq_false, reduceCtorEq]
        refine ⟨_, rfl, ?_, ⟨rfl, rfl, ?_⟩, ?_, ?_⟩
        · rw [Shape.plug_iff]
          simp only [Repr, ReprCtx, setCell_same, setCell_other, Repr_setCell, ReprCtx_setCell, hnd', hsx,
            hxs, hsb, hbs, hsp, hps, hxb, hbx, hxp, hpx, hbp, hpb, hs, hx, hb, hp, Ne.symm hs,
            Ne.symm hx, Ne.symm hb, Ne.symm hp, hsc, hxc, hbc, hpc, ne_eq, not_false_eq_true,
            Tree.ptr_node, Tree.ptr_nil, ctxPar_cons, ctxPar_nil, ctxRoot_cons, ctxRoot_nil,
            Frame.addr_L, Frame.addr_R, true_and, and_true, Tree.addrs, List.append_assoc,
            List.cons_append]
          simp only [Tree.addrs, List.append_assoc, List.cons_append, Tree.ptr_node, ctxRoot_cons,
            ctxRoot_nil, Frame.addr_L, Frame.addr_R] at hnd hroot
          and_intros <;> assumption
        · simp only [setCell_other, hs, hx, hb, hp, Ne.symm hs, Ne.symm hx, Ne.symm hb, Ne.symm hp, ne_eq, not_false_eq_true]
        · intro h
          first | rfl | exact absurd rfl h | exact False.elim h | exact absurd h (List.cons_ne_nil _ _)
        · intro h
          first | rfl | exact absurd rfl h | exact False.elim h | exact absurd h (List.cons_ne_nil _ _)

end FtContainers

namespace FtContainers

open Color Tree

variable {K V : Type}

/-! ## The tree read off the memory -/

theorem toTree_sound {t : RBT K V} :
    ∀ (fuel : Nat) (p par : Ptr) (T : Tree K V), toTree t fuel p par = some T →
      T.ptr t.null = p ∧ Repr t.heap t.null par T ∧ T.height < fuel := by
  intro fuel
  induction fuel with
  | zero => intro p par T h; simp [toTree] at h
  | succ n ih =>
    intro p par T h
    unfold toTree at h
    by_cases hp : p = some t.null
    · simp only [hp, if_true, Option.some.injEq] at h
      subst h
      exact ⟨hp.symm, trivial, Nat.succ_pos _⟩
    · simp only [hp, if_false] at h
      cases p with
      | none => simp at h
      | some a =>
        simp only at h
        cases hc : t.heap a with
        | none => simp [hc] at h
        | some nd =>
          simp only [hc] at h
          by_cases hpar : nd.parent = par
          · simp only [hpar, if_true] at h
            cases hl : toTree t n nd.left (some a) with
            | none => simp [hl] at h
            | some l =>
              cases hr : toTree t n nd.right (some a) with
              | none => simp [hl, hr] at h
              | some r =>
                simp only [hl, hr, Option.some.injEq] at h
                subst h
                obtain ⟨l1, l2, l3⟩ := ih _ _ _ hl
                obtain ⟨r1, r2, r3⟩ := ih _ _ _ hr
                refine ⟨rfl, ⟨?_, ?_, l2, r2⟩, ?_⟩
                · intro e; exact hp (by rw [e])
                · rw [hc, l1, r1, ← hpar]
                · simp only [Tree.height]
                  omega
          · simp [hpar] at h

theorem toTree_complete {t : RBT K V} :
    ∀ (T : Tree K V) (fuel : Nat) (par : Ptr), Repr t.heap t.null par T → T.height < fuel →
      toTree t fuel (T.ptr t.null) par = some T := by
  intro T
  induction T with
  | nil =>
    intro fuel par _ hf
    cases fuel with
    | zero => exact absurd hf (Nat.lt_irrefl _)
    | succ n => simp [toTree]
  | node a c l kv r ihl ihr =>
    intro fuel par hr hf
    cases fuel with
    | zero => exact absurd hf (Nat.not_lt_zero _)
    | succ n =>
      obtain ⟨h1, h2, h3, h4⟩ := hr
      simp only [Tree.height] at hf
      have hl := ihl n (some a) h3 (by omega)
      have hr := ihr n (some a) h4 (by omega)
      simp only [toTree, Tree.ptr_node, Option.some.injEq, h1, if_false, h2, if_true, hl, hr]

theorem Tree.height_le_size (T : Tree K V) : T.height ≤ T.size := by
  induction T with
  | nil => simp [Tree.height, Tree.size]
  | node a c l kv r ihl ihr =>
    simp only [Tree.height, Tree.size]
    omega

theorem Tree.length_addrs (T : Tree K V) : T.addrs.length = T.size := by
  induction T with
  | nil => rfl
  | node a c l kv r ihl ihr => simp [Tree.addrs, Tree.size, ihl, ihr]; omega

theorem Tree.length_inorder (T : Tree K V) : T.inorder.length = T.size := by
  induction T with
  | nil => rfl
  | node a c l kv r ihl ihr => simp [Tree.inorder, Tree.size, ihl, ihr]; omega

theorem Repr.ne_null {h : Nat → Option (RBT_Node K V)} {nl : Nat} {par : Ptr} {T : Tree K V}
    (hr : Repr h nl par T) : nl ∉ T.addrs := by
  induction T generalizing par with
  | nil => simp [Tree.addrs]
  | node a c l kv r ihl ihr =>
    obtain ⟨h1, -, h3, h4⟩ := hr
    simp only [Tree.addrs, List.mem_append, List.mem_cons, not_or]
    exact ⟨ihl h3, Ne.symm h1, ihr h4⟩

/-- A list of distinct numbers below `n` has at most `n` elements. -/
theorem length_le_of_nodup_lt {l : List Nat} {n : Nat} (hnd : l.Nodup) (hlt : ∀ a ∈ l, a < n) :
    l.length ≤ n := by
  have h1 : l.toFinset ⊆ Finset.range n := by
    intro a ha
    exact Finset.mem_range.2 (hlt a (List.mem_toFinset.1 ha))
  have h2 := Finset.card_le_card h1
  rw [List.toFinset_card_of_nodup hnd, Finset.card_range] at h2
  exact h2

/-- The nodes of a represented tree and the sentinel all lie below the
allocator counter, so the tree has fewer nodes than that. -/
theorem Shape.size_lt {t : RBT K V} {T : Tree K V} (hS : Shape t T)
    (hlt : ∀ a ∈ T.addrs, a < t.next) (hn : t.null < t.next) : T.size < t.next := by
  have hnd : (t.null :: T.addrs).Nodup := List.nodup_cons.2 ⟨hS.repr.ne_null, hS.nodup⟩
  have := length_le_of_nodup_lt hnd (by
    intro a ha
    rcases List.mem_cons.1 ha with rfl | h
    · exact hn
    · exact hlt a h)
  simp only [List.length_cons, Tree.length_addrs] at this
  omega

theorem Shape.tree_eq {t : RBT K V} {T : Tree K V} (hS : Shape t T)
    (hlt : ∀ a ∈ T.addrs, a < t.next) (hn : t.null < t.next) : t.tree = some T := by
  unfold RBT.tree
  rw [hS.root]
  exact toTree_complete T _ _ hS.repr (lt_of_le_of_lt T.height_le_size (hS.size_lt hlt hn))

/-- Keys stored at the addresses of a represented tree. -/
theorem Repr.keys_eq {h : Nat → Option (RBT_Node K V)} {nl : Nat} {par : Ptr} {T : Tree K V}
    (hr : Repr h nl par T) :
    T.keys.map some = T.addrs.map (fun a => (h a).map (fun n => n.val.1)) := by
  induction T generalizing par with
  | nil => rfl
  | node a c l kv r ihl ihr =>
    obtain ⟨-, h2, h3, h4⟩ := hr
    have hl := ihl h3
    have hr := ihr h4
    simp only [Tree.keys] at hl hr
    simp only [Tree.keys, Tree.inorder, Tree.addrs, List.map_append, List.map_cons, hl, hr, h2,
      Option.map_some']

theorem Repr.nodup_of_keys {h : Nat → Option (RBT_Node K V)} {nl : Nat} {par : Ptr}
    {T : Tree K V} (hr : Repr h nl par T) (hk : T.keys.Nodup) : T.addrs.Nodup := by
  have h1 : (T.keys.map some).Nodup := hk.map (Option.some_injective _)
  rw [hr.keys_eq] at h1
  exact List.Nodup.of_map _ h1

theorem Tree.BST.nodup_keys [LinearOrder K] {T : Tree K V} (hb : T.BST) : T.keys.Nodup :=
  List.Pairwise.imp (fun h => ne_of_lt h) hb

theorem Shape.of_tree [LinearOrder K] {t : RBT K V} {T : Tree K V} (h : t.tree = some T)
    (hb : T.BST) : Shape t T := by
  obtain ⟨h1, h2, -⟩ := toTree_sound _ _ _ _ h
  exact ⟨h1.symm, h2, h2.nodup_of_keys hb.nodup_keys⟩

theorem tree_height_lt {t : RBT K V} {T : Tree K V} (h : t.tree = some T) : T.height < t.next :=
  (toTree_sound _ _ _ _ h).2.2

end FtContainers

set_option linter.unusedSectionVars false

namespace FtContainers

open Color Tree

variable {K V : Type} [LinearOrder K]

/-! ## Descent along the search path -/

theorem find_plug (key : K) (S : Tree K V) (ctx : List (Frame K V)) :
    plug (S.find key ctx).1 (S.find key ctx).2 = plug S ctx := by
  induction S generalizing ctx with
  | nil => rfl
  | node a c l kv r ihl ihr =>
    unfold Tree.find
    split
    · rw [ihl]; rfl
    · split
      · rw [ihr]; rfl
      · rfl

theorem find_cases (key : K) (S : Tree K V) (ctx : List (Frame K V)) :
    (S.find key ctx).1 = nil ∨
      ∃ a c l v r, (S.find key ctx).1 = node a c l (key, v) r := by
  induction S generalizing ctx with
  | nil => exact Or.inl rfl
  | node a c l kv r ihl ihr =>
    unfold Tree.find
    split
    · exact ihl _
    · split
      · exact ihr _
      · rename_i h1 h2
        have : key = kv.1 := le_antisymm (not_lt.1 h2) (not_lt.1 h1)
        refine Or.inr ⟨a, c, l, kv.2, r, ?_⟩
        rw [this]

theorem keys_plug (S : Tree K V) (ctx : List (Frame K V)) :
    (plug S ctx).keys = (ctxPre ctx).map Prod.fst ++ S.keys ++ (ctxPost ctx).map Prod.fst := by
  simp [Tree.keys, inorder_plug]

theorem bst_plug_iff (S : Tree K V) (ctx : List (Frame K V)) :
    (plug S ctx).BST ↔
      ((ctxPre ctx ++ S.inorder ++ ctxPost ctx).map Prod.fst).Pairwise (fun a b => a < b) := by
  simp [Tree.BST, Tree.keys, inorder_plug]

/-- BST ordering at the node in focus: the keys of its left subtree are less
and the keys of its right subtree are greater. -/
theorem bst_focus {a : Nat} {c : Color} {l r : Tree K V} {kv : K × V} {ctx : List (Frame K V)}
    (hb : (plug (node a c l kv r) ctx).BST) :
    (∀ x ∈ l.inorder, x.1 < kv.1) ∧ (∀ x ∈ r.inorder, kv.1 < x.1) := by
  rw [bst_plug_iff] at hb
  simp only [Tree.inorder, List.map_append, List.map_cons, List.pairwise_append,
    List.pairwise_cons, List.mem_append, List.mem_map, List.mem_cons] at hb
  obtain ⟨⟨-, ⟨-, ⟨h1, -⟩, h2⟩, -⟩, -⟩ := hb
  constructor
  · intro x hx
    exact h2 x.1 ⟨x, hx, rfl⟩ kv.1 (Or.inl rfl)
  · intro x hx
    exact h1 x.1 ⟨x, hx, rfl⟩

/-- The search path keeps the key between the two sides of the hole. -/
theorem find_bounded (key : K) (S : Tree K V) (ctx : List (Frame K V))
    (hb : (plug S ctx).BST) (hc : ctxBounded key ctx) :
    ctxBounded key (S.find key ctx).2 := by
  induction S generalizing ctx with
  | nil => exact hc
  | node a c l kv r ihl ihr =>
    have hf := bst_focus hb
    unfold Tree.find
    split
    · rename_i h1
      refine ihl _ hb ?_
      refine ⟨hc.1, ?_⟩
      intro x hx
      simp only [ctxPost, List.mem_cons, List.mem_append, List.cons_append] at hx
      rcases hx with rfl | hx | hx
      · exact h1
      · exact lt_trans h1 (hf.2 x hx)
      · exact hc.2 x hx
    · split
      · rename_i h1 h2
        refine ihr _ hb ?_
        refine ⟨?_, hc.2⟩
        intro x hx
        simp only [ctxPre, List.mem_cons, List.mem_append, List.mem_singleton] at hx
        rcases hx with hx | hx | hx
        · exact hc.1 x hx
        · exact lt_trans (hf.1 x hx) h2
        · rcases hx with rfl | hx
          · exact h2
          · exact absurd hx (List.not_mem_nil _)
      · exact hc

theorem ctxBounded_nil (key : K) : ctxBounded key ([] : List (Frame K V)) :=
  ⟨fun _ h => absurd h (List.not_mem_nil _), fun _ h => absurd h (List.not_mem_nil _)⟩

/-- A key bounded by the path is not on the path. -/
theorem not_mem_of_bounded {key : K} {ctx : List (Frame K V)} (hc : ctxBounded key ctx) :
    key ∉ (ctxPre ctx).map Prod.fst ∧ key ∉ (ctxPost ctx).map Prod.fst := by
  constructor
  · intro h
    obtain ⟨x, hx, rfl⟩ := List.mem_map.1 h
    exact lt_irrefl _ (hc.1 x hx)
  · intro h
    obtain ⟨x, hx, rfl⟩ := List.mem_map.1 h
    exact lt_irrefl _ (hc.2 x hx)

/-- The descent stops at `nil` exactly when the key is absent. -/
theorem find_nil_iff (key : K) (T : Tree K V) (hb : T.BST) :
    (T.find key []).1 = nil ↔ key ∉ T.keys := by
  have hp := find_plug key T []
  have hbd := find_bounded key T [] hb (ctxBounded_nil key)
  have hn := not_mem_of_bounded hbd
  rw [plug_nil] at hp
  constructor
  · intro h
    rw [← hp, keys_plug, h]
    simp only [Tree.keys, Tree.inorder, List.map_nil, List.append_nil, List.mem_append, not_or]
    exact hn
  · intro h
    rcases find_cases key T [] with h1 | ⟨a, c, l, v, r, h1⟩
    · exact h1
    · exfalso
      apply h
      rw [← hp, keys_plug, h1]
      simp [Tree.keys, Tree.inorder]

/-! ## Search -/

omit [LinearOrder K] in
theorem Shape.focus_ne_null {t : RBT K V} {a : Nat} {c : Color} {l r : Tree K V} {kv : K × V}
    {ctx : List (Frame K V)} (hS : Shape t (plug (node a c l kv r) ctx)) : a ≠ t.null :=
  ((Repr_plug _ _ _ _).1 hS.repr).1.1

theorem searchTreeHelper_eq {t : RBT K V} (key : K × V) :
    ∀ (S : Tree K V) (ctx : List (Frame K V)) (fuel : Nat), Shape t (plug S ctx) →
      S.height < fuel →
      t.searchTreeHelper fuel (S.ptr t.null) key = some ((S.find key.1 ctx).1.ptr t.null) := by
  intro S
  induction S with
  | nil =>
    intro ctx fuel _ hf
    cases fuel with
    | zero => exact absurd hf (Nat.lt_irrefl _)
    | succ n => simp [RBT.searchTreeHelper, Tree.find]
  | node a c l kv r ihl ihr =>
    intro ctx fuel hS hf
    cases fuel with
    | zero => exact absurd hf (Nat.not_lt_zero _)
    | succ n =>
      have hc := hS.cell
      have ha := hS.focus_ne_null
      simp only [Tree.height] at hf
      simp only [RBT.searchTreeHelper, Tree.ptr_node, Option.some.injEq, ha, if_false,
        RBT.key_of hc, Exec.some_bind, RBT.left_of hc, RBT.right_of hc, Exec.pure_eq]
      unfold Tree.find
      by_cases h1 : key.1 < kv.1
      · simp only [h1, if_true, ne_of_lt h1, if_false]
        exact ihl (Frame.L a c kv r :: ctx) n hS (by omega)
      · by_cases h2 : kv.1 < key.1
        · simp only [h1, h2, if_true, if_false, ne_of_gt h2]
          exact ihr (Frame.R a c l kv :: ctx) n hS (by omega)
        · have : key.1 = kv.1 := le_antisymm (not_lt.1 h2) (not_lt.1 h1)
          simp only [this, lt_irrefl, if_false, if_true, Tree.ptr_node]

theorem searchTree_eq {t : RBT K V} {T : Tree K V} (key : K × V) (ht : t.tree = some T)
    (hb : T.BST) : t.searchTree key = some ((T.find key.1 []).1.ptr t.null) := by
  have hS := Shape.of_tree ht hb
  unfold RBT.searchTree
  rw [hS.root]
  exact searchTreeHelper_eq key T [] _ (by simpa using hS) (tree_height_lt ht)

end FtContainers

namespace FtContainers

open Color Tree

variable {K V : Type}

/-! ## Reads at the focus and on the path -/

theorem Shape.parent_eq {t : RBT K V} {a : Nat} {c : Color} {l r : Tree K V} {kv : K × V}
    {ctx : List (Frame K V)} (hS : Shape t (plug (node a c l kv r) ctx)) :
    t.parent (some a) = some (ctxPar ctx) := by rw [RBT.parent_of hS.cell]
theorem Shape.left_eq {t : RBT K V} {a : Nat} {c : Color} {l r : Tree K V} {kv : K × V}
    {ctx : List (Frame K V)} (hS : Shape t (plug (node a c l kv r) ctx)) :
    t.left (some a) = some (l.ptr t.null) := by rw [RBT.left_of hS.cell]
theorem Shape.right_eq {t : RBT K V} {a : Nat} {c : Color} {l r : Tree K V} {kv : K × V}
    {ctx : List (Frame K V)} (hS : Shape t (plug (node a c l kv r) ctx)) :
    t.right (some a) = some (r.ptr t.null) := by rw [RBT.right_of hS.cell]
theorem Shape.color_eq {t : RBT K V} {a : Nat} {c : Color} {l r : Tree K V} {kv : K × V}
    {ctx : List (Frame K V)} (hS : Shape t (plug (node a c l kv r) ctx)) :
    t.color (some a) = some c := by rw [RBT.color_of hS.cell]
theorem Shape.key_eq {t : RBT K V} {a : Nat} {c : Color} {l r : Tree K V} {kv : K × V}
    {ctx : List (Frame K V)} (hS : Shape t (plug (node a c l kv r) ctx)) :
    t.key (some a) = some kv.1 := by rw [RBT.key_of hS.cell]

theorem Shape.frame_parent {t : RBT K V} {S : Tree K V} {f : Frame K V}
    {rest : List (Frame K V)} (hS : Shape t (plug S (f :: rest))) :
    t.parent (some f.addr) = some (ctxPar rest) := by
  cases f <;> exact @Shape.parent_eq _ _ _ _ _ _ _ _ rest hS

theorem Shape.frame_color {t : RBT K V} {S : Tree K V} {f : Frame K V}
    {rest : List (Frame K V)} (hS : Shape t (plug S (f :: rest))) :
    t.color (some f.addr) = some f.color := by
  cases f <;> exact @Shape.color_eq _ _ _ _ _ _ _ _ rest hS

theorem Shape.setColor_frame {t : RBT K V} {S : Tree K V} {f : Frame K V}
    {rest : List (Frame K V)} (hS : Shape t (plug S (f :: rest))) (c' : Color) :
    ∃ t', t.setColor (some f.addr) c' = some t' ∧ Shape t' (plug S (f.recolor c' :: rest)) ∧
      Same t t' ∧ t'.root = t.root := by
  cases f <;> exact @Shape.setColor _ _ _ _ _ _ _ _ rest hS c'

/-! ## Recolouring leaves the links alone -/

theorem RBT.setColor_heap {t t' : RBT K V} {p : Ptr} {c : Color} (h : t.setColor p c = some t') :
    ∀ q, (t'.heap q).map (fun n => (n.val, n.parent, n.left, n.right)) =
      (t.heap q).map (fun n => (n.val, n.parent, n.left, n.right)) := by
  intro q
  cases p with
  | none => simp [RBT.setColor, RBT.modify] at h
  | some a =>
    cases hc : t.heap a with
    | none => simp [RBT.setColor, RBT.modify, hc] at h
    | some n =>
      rw [RBT.setColor_of hc] at h
      cases h
      by_cases hq : q = a
      · subst hq; simp [hc]
      · simp [setCell_other _ _ hq]

theorem RBT.links_of_heap {t t' : RBT K V}
    (h : ∀ q, (t'.heap q).map (fun n => (n.val, n.parent, n.left, n.right)) =
      (t.heap q).map (fun n => (n.val, n.parent, n.left, n.right))) (p : Ptr) :
    t'.parent p = t.parent p ∧ t'.left p = t.left p ∧ t'.right p = t.right p ∧
      t'.key p = t.key p := by
  cases p with
  | none => simp [RBT.parent, RBT.left, RBT.right, RBT.key]
  | some a =>
    have := h a
    cases h1 : t'.heap a <;> cases h2 : t.heap a <;>
      simp [h1, h2, RBT.parent, RBT.left, RBT.right, RBT.key] at this ⊢
    exact ⟨by rw [this.2.1], by rw [this.2.2.1], by rw [this.2.2.2], by rw [this.1]⟩

theorem RBT.parent_setColor {t t' : RBT K V} {p : Ptr} {c : Color}
    (h : t.setColor p c = some t') (q : Ptr) : t'.parent q = t.parent q :=
  (RBT.links_of_heap (RBT.setColor_heap h) q).1
theorem RBT.left_setColor {t t' : RBT K V} {p : Ptr} {c : Color}
    (h : t.setColor p c = some t') (q : Ptr) : t'.left q = t.left q :=
  (RBT.links_of_heap (RBT.setColor_heap h) q).2.1
theorem RBT.right_setColor {t t' : RBT K V} {p : Ptr} {c : Color}
    (h : t.setColor p c = some t') (q : Ptr) : t'.right q = t.right q :=
  (RBT.links_of_heap (RBT.setColor_heap h) q).2.2.1

theorem Same.refl (t : RBT K V) : Same t t := ⟨rfl, rfl, rfl⟩

theorem Same.trans {t1 t2 t3 : RBT K V} (h1 : Same t1 t2) (h2 : Same t2 t3) : Same t1 t3 :=
  ⟨h2.null.trans h1.null, h2.next.trans h1.next, by
    have := h2.cell
    rw [h1.null] at this
    exact this.trans h1.cell⟩

/-- The sentinel reads BLACK. -/
theorem sentinel_color {t : RBT K V} (h : t.sentinelBlack) :
    t.color (some t.null) = some BLACK_NODE := by
  obtain ⟨n, h1, h2⟩ := h
  rw [RBT.color_of h1, h2]

theorem Same.sentinelBlack {t t' : RBT K V} (h : Same t t') (hs : t.sentinelBlack) :
    t'.sentinelBlack := by
  obtain ⟨n, h1, h2⟩ := hs
  exact ⟨n, by rw [h.null, h.cell]; exact h1, h2⟩

/-- Colour read through the pointer of a subtree. -/
theorem Shape.color_ptr {t : RBT K V} {U : Tree K V} {ctx : List (Frame K V)}
    (hS : Shape t (plug U ctx)) (hs : t.sentinelBlack) :
    t.color (U.ptr t.null) = some U.rootColor := by
  cases U with
  | nil => exact sentinel_color hs
  | node a c l kv r => exact hS.color_eq

/-- Disequalities between the addresses in focus. -/
theorem Shape.focus_ne_frame {t : RBT K V} {a : Nat} {c : Color} {l r : Tree K V} {kv : K × V}
    {f : Frame K V} {rest : List (Frame K V)}
    (hS : Shape t (plug (node a c l kv r) (f :: rest))) : a ≠ f.addr := by
  have := (Shape.plug_iff.1 hS).2.2.2
  rintro rfl
  cases f <;>
    simp [Tree.addrs, ctxAddrs, List.nodup_append, List.nodup_cons] at this

end FtContainers

namespace FtContainers

open Color Tree

variable {K V : Type}

@[simp] theorem ptr_fill (nl : Nat) (f : Frame K V) (x : Tree K V) :
    (f.fill x).ptr nl = some f.addr := by cases f <;> rfl

@[simp] theorem Frame.addr_recolor (c : Color) (f : Frame K V) : (f.recolor c).addr = f.addr := by
  cases f <;> rfl

@[simp] theorem Frame.color_recolor (c : Color) (f : Frame K V) : (f.recolor c).color = c := by
  cases f <;> rfl

/-! ## One iteration of `fixInsert` -/

/-- RED uncle, parent is the right child of the grandparent. -/
theorem fixInsertBody_redUncle_R {t : RBT K V} {k : Nat} {ck : Color} {kl kr : Tree K V}
    {kk : K × V} {f1 : Frame K V} {g u : Nat} {cg : Color} {ul ur : Tree K V} {ku kg : K × V}
    {rest : List (Frame K V)}
    (hS : Shape t (plug (node k ck kl kk kr)
      (f1 :: Frame.R g cg (node u RED_NODE ul ku ur) kg :: rest))) :
    ∃ t', t.fixInsertBody (some k) = some (t', some g) ∧
      Shape t' (plug (node g RED_NODE (node u BLACK_NODE ul ku ur) kg
        ((f1.recolor BLACK_NODE).fill (node k ck kl kk kr))) rest) ∧
      Same t t' ∧ t'.root = t.root := by
  have hp := hS.parent_eq
  have hpp := hS.frame_parent
  have hg : Shape t (plug (node g cg (node u RED_NODE ul ku ur) kg (f1.fill (node k ck kl kk kr)))
    rest) := hS
  have hgr := hg.right_eq
  have hgl := hg.left_eq
  have hu : Shape t (plug (node u RED_NODE ul ku ur)
    (Frame.L g cg kg (f1.fill (node k ck kl kk kr)) :: rest)) := hS
  have huc := hu.color_eq
  obtain ⟨t1, e1, S1, M1, r1⟩ := hu.setColor BLACK_NODE
  have S1' : Shape t1 (plug (node k ck kl kk kr)
    (f1 :: Frame.R g cg (node u BLACK_NODE ul ku ur) kg :: rest)) := S1
  obtain ⟨t2, e2, S2, M2, r2⟩ := S1'.setColor_frame BLACK_NODE
  have S2' : Shape t2 (plug (node g cg (node u BLACK_NODE ul ku ur) kg
    ((f1.recolor BLACK_NODE).fill (node k ck kl kk kr))) rest) := S2
  obtain ⟨t3, e3, S3, M3, r3⟩ := S2'.setColor RED_NODE
  refine ⟨t3, ?_, S3, (M1.trans M2).trans M3, by rw [r3, r2, r1]⟩
  simp only [RBT.fixInsertBody, hp, hpp, hgr, hgl, huc, e1, e2, e3, RBT.parent_setColor e1,
    RBT.parent_setColor e2, RBT.parent_setColor e3, Exec.some_bind, Exec.pure_eq, ctxPar_cons,
    Frame.addr_R, Frame.addr_L, ptr_fill, Tree.ptr_node, if_true]

theorem Frame.addr_mem_fill (f : Frame K V) (x : Tree K V) : f.addr ∈ (f.fill x).addrs := by
  cases f <;> simp [Tree.addrs]

theorem Tree.ptr_mem {nl a : Nat} {T : Tree K V} (h : T.ptr nl = some a) (hn : a ≠ nl) :
    a ∈ T.addrs := by
  cases T with
  | nil => simp at h; exact absurd h.symm hn
  | node b c l kv r => simp at h; subst h; simp [Tree.addrs]

/-- Address separation around the node in focus. -/
theorem Shape.sep {t : RBT K V} {a : Nat} {c : Color} {l r : Tree K V} {kv : K × V}
    {ctx : List (Frame K V)} (hS : Shape t (plug (node a c l kv r) ctx)) :
    a ∉ l.addrs ∧ a ∉ r.addrs ∧ a ∉ ctxAddrs ctx ∧ (∀ x ∈ l.addrs, x ∉ r.addrs) ∧
      (∀ x ∈ l.addrs, x ∉ ctxAddrs ctx) ∧ (∀ x ∈ r.addrs, x ∉ ctxAddrs ctx) := by
  have := (Shape.plug_iff.1 hS).2.2.2
  simp only [Tree.addrs, List.nodup_append, List.nodup_cons, List.mem_append, List.mem_cons,
    not_or, List.disjoint_cons_left, List.disjoint_cons_right, List.disjoint_append_left,
    List.disjoint_append_right] at this
  obtain ⟨⟨-, ⟨h1, -⟩, h2, h3⟩, -, h4, h5, h6⟩ := this
  exact ⟨h2, h1, h5, fun x hx => h3 hx, fun x hx => h4 hx, fun x hx => h6 hx⟩

/-- A subtree pointer is not the address of a node outside the subtree. -/
theorem Shape.ptr_ne {t : RBT K V} {T U : Tree K V} {a : Nat} (hS : Shape t T)
    (ha : a ∈ T.addrs) (hU : a ∉ U.addrs) : U.ptr t.null ≠ some a := by
  have hn : a ≠ t.null := fun e => hS.repr.ne_null (e ▸ ha)
  exact ptr_ne_of_not_mem hn hU

/-- RED uncle, parent is the left child of the grandparent. -/
theorem fixInsertBody_redUncle_L {t : RBT K V} {k : Nat} {ck : Color} {kl kr : Tree K V}
    {kk : K × V} {f1 : Frame K V} {g u : Nat} {cg : Color} {ul ur : Tree K V} {ku kg : K × V}
    {rest : List (Frame K V)}
    (hS : Shape t (plug (node k ck kl kk kr)
      (f1 :: Frame.L g cg kg (node u RED_NODE ul ku ur) :: rest))) :
    ∃ t', t.fixInsertBody (some k) = some (t', some g) ∧
      Shape t' (plug (node g RED_NODE ((f1.recolor BLACK_NODE).fill (node k ck kl kk kr)) kg
        (node u BLACK_NODE ul ku ur)) rest) ∧
      Same t t' ∧ t'.root = t.root := by
  have hp := hS.parent_eq
  have hpp := hS.frame_parent
  have hg : Shape t (plug (node g cg (f1.fill (node k ck kl kk kr)) kg (node u RED_NODE ul ku ur))
    rest) := hS
  have hgr := hg.right_eq
  have hgl := hg.left_eq
  have hne : ¬ (f1.addr = u) := by
    intro e
    have := hg.sep.2.2.2.1 _ (Frame.addr_mem_fill f1 _)
    rw [e] at this
    simp [Tree.addrs] at this
  have hu : Shape t (plug (node u RED_NODE ul ku ur)
    (Frame.R g cg (f1.fill (node k ck kl kk kr)) kg :: rest)) := hS
  have huc := hu.color_eq
  obtain ⟨t1, e1, S1, M1, r1⟩ := hu.setColor BLACK_NODE
  have S1' : Shape t1 (plug (node k ck kl kk kr)
    (f1 :: Frame.L g cg kg (node u BLACK_NODE ul ku ur) :: rest)) := S1
  obtain ⟨t2, e2, S2, M2, r2⟩ := S1'.setColor_frame BLACK_NODE
  have S2' : Shape t2 (plug (node g cg ((f1.recolor BLACK_NODE).fill (node k ck kl kk kr)) kg
    (node u BLACK_NODE ul ku ur)) rest) := S2
  obtain ⟨t3, e3, S3, M3, r3⟩ := S2'.setColor RED_NODE
  refine ⟨t3, ?_, S3, (M1.trans M2).trans M3, by rw [r3, r2, r1]⟩
  simp only [RBT.fixInsertBody, hp, hpp, hgr, hgl, huc, e1, e2, e3, RBT.parent_setColor e1,
    RBT.parent_setColor e2, RBT.parent_setColor e3, Exec.some_bind, Exec.pure_eq, ctxPar_cons,
    Frame.addr_R, Frame.addr_L, ptr_fill, Tree.ptr_node, if_true, Option.some.injEq, hne,
    if_false]

/-- BLACK uncle, parent is the right child of the grandparent, cursor is the
right child of the parent: recolour and rotate left at the grandparent. -/
theorem fixInsertBody_blackUncle_RR {t : RBT K V} {k : Nat} {ck : Color} {kl kr : Tree K V}
    {kk : K × V} {p g : Nat} {cp cg : Color} {pl U : Tree K V} {kp kg : K × V}
    {rest : List (Frame K V)}
    (hS : Shape t (plug (node k ck kl kk kr)
      (Frame.R p cp pl kp :: Frame.R g cg U kg :: rest)))
    (hs : t.sentinelBlack) (hU : U.rootColor = BLACK_NODE) :
    ∃ t', t.fixInsertBody (some k) = some (t', some k) ∧
      Shape t' (plug (node k ck kl kk kr)
        (Frame.R p BLACK_NODE (node g RED_NODE U kg pl) kp :: rest)) ∧
      Same t t' := by
  have hp := hS.parent_eq
  have hpp := hS.frame_parent
  have hg : Shape t (plug (node g cg U kg (node p cp pl kp (node k ck kl kk kr))) rest) := hS
  have hgr := hg.right_eq
  have hgl := hg.left_eq
  have hu : Shape t (plug U (Frame.L g cg kg (node p cp pl kp (node k ck kl kk kr)) :: rest)) :=
    hS
  have huc := hu.color_ptr hs
  have hP : Shape t (plug (node p cp pl kp (node k ck kl kk kr)) (Frame.R g cg U kg :: rest)) :=
    hS
  have hpl := hP.left_eq
  have hne : ¬ (some k = pl.ptr t.null) := by
    intro e
    have h1 := hP.sep.2.2.2.1
    have h2 : k ∈ pl.addrs := Tree.ptr_mem e.symm hS.focus_ne_null
    exact h1 k h2 (by simp [Tree.addrs])
  obtain ⟨t1, e1, S1, M1, r1⟩ := hS.setColor_frame BLACK_NODE
  have S1' : Shape t1 (plug (node g cg U kg (node p BLACK_NODE pl kp (node k ck kl kk kr)))
    rest) := S1
  obtain ⟨t2, e2, S2, M2, r2⟩ := S1'.setColor RED_NODE
  obtain ⟨t3, e3, S3, M3, -⟩ := S2.leftRotate
  simp only [Frame.addr_R, Frame.addr_L, ctxPar_cons, Tree.ptr_node] at hp hpp hgr hgl e1 e2
  refine ⟨t3, ?_, S3, (M1.trans M2).trans M3⟩
  simp only [RBT.fixInsertBody, hp, hpp, hgr, hgl, huc, hU, hpl, hne, e1, e2, e3,
    RBT.parent_setColor e1, RBT.parent_setColor e2, Exec.some_bind, Exec.pure_eq, ctxPar_cons,
    Frame.addr_R, Frame.addr_L, ptr_fill, Tree.ptr_node, if_true, if_false, reduceCtorEq]

/-- BLACK uncle, parent is the right child of the grandparent, cursor is the
left child of the parent: rotate right at the parent, then recolour and rotate
left at the grandparent; the cursor becomes the former parent. -/
theorem fixInsertBody_blackUncle_RL {t : RBT K V} {k : Nat} {ck : Color} {kl kr : Tree K V}
    {kk : K × V} {p g : Nat} {cp cg : Color} {pr U : Tree K V} {kp kg : K × V}
    {rest : List (Frame K V)}
    (hS : Shape t (plug (node k ck kl kk kr)
      (Frame.L p cp kp pr :: Frame.R g cg U kg :: rest)))
    (hs : t.sentinelBlack) (hU : U.rootColor = BLACK_NODE) :
    ∃ t', t.fixInsertBody (some k) = some (t', some p) ∧
      Shape t' (plug (node p cp kr kp pr)
        (Frame.R k BLACK_NODE (node g RED_NODE U kg kl) kk :: rest)) ∧
      Same t t' := by
  have hp := hS.parent_eq
  have hpp := hS.frame_parent
  have hg : Shape t (plug (node g cg U kg (node p cp (node k ck kl kk kr) kp pr)) rest) := hS
  have hgr := hg.right_eq
  have hgl := hg.left_eq
  have hu : Shape t (plug U (Frame.L g cg kg (node p cp (node k ck kl kk kr) kp pr) :: rest)) :=
    hS
  have huc := hu.color_ptr hs
  have hP : Shape t (plug (node p cp (node k ck kl kk kr) kp pr) (Frame.R g cg U kg :: rest)) :=
    hS
  have hpl := hP.left_eq
  obtain ⟨t1, e1, S1, M1, -⟩ := hP.rightRotate
  have S1p : Shape t1 (plug (node p cp kr kp pr)
    (Frame.R k ck kl kk :: Frame.R g cg U kg :: rest)) := S1
  have hp1 := S1p.parent_eq
  simp only [Frame.addr_R, Frame.addr_L, ctxPar_cons] at hp1
  obtain ⟨t2, e2, S2, M2, r2⟩ := S1p.setColor_frame BLACK_NODE
  have hpp1 : t1.parent (some k) = some (some g) := S1p.frame_parent
  have S2' : Shape t2 (plug (node g cg U kg (node k BLACK_NODE kl kk (node p cp kr kp pr)))
    rest) := S2
  obtain ⟨t3, e3, S3, M3, r3⟩ := S2'.setColor RED_NODE
  obtain ⟨t4, e4, S4, M4, -⟩ := S3.leftRotate
  simp only [Frame.addr_R, Frame.addr_L, ctxPar_cons, Tree.ptr_node] at hp hpp hgr hgl e1 e2
  refine ⟨t4, ?_, S4, ((M1.trans M2).trans M3).trans M4⟩
  simp only [RBT.fixInsertBody, hp, hpp, hgr, hgl, huc, hU, hpl, e1, e2, e3, e4, hp1, hpp1,
    RBT.parent_setColor e2, RBT.parent_setColor e3, Exec.some_bind, Exec.pure_eq, ctxPar_cons,
    Frame.addr_R, Frame.addr_L, ptr_fill, Tree.ptr_node, if_true, if_false, reduceCtorEq]

/-- BLACK uncle, parent is the left child of the grandparent, cursor is the
left child of the parent: recolour and rotate right at the grandparent. -/
theorem fixInsertBody_blackUncle_LL {t : RBT K V} {k : Nat} {ck : Color} {kl kr : Tree K V}
    {kk : K × V} {p g : Nat} {cp cg : Color} {pr U : Tree K V} {kp kg : K × V}
    {rest : List (Frame K V)}
    (hS : Shape t (plug (node k ck kl kk kr)
      (Frame.L p cp kp pr :: Frame.L g cg kg U :: rest)))
    (hs : t.sentinelBlack) (hU : U.rootColor = BLACK_NODE) :
    ∃ t', t.fixInsertBody (some k) = some (t', some k) ∧
      Shape t' (plug (node k ck kl kk kr)
        (Frame.L p BLACK_NODE kp (node g RED_NODE pr kg U) :: rest)) ∧
      Same t t' := by
  have hp := hS.parent_eq
  have hpp := hS.frame_parent
  have hg : Shape t (plug (node g cg (node p cp (node k ck kl kk kr) kp pr) kg U) rest) := hS
  have hgr := hg.right_eq
  have hgl := hg.left_eq
  have hu : Shape t (plug U (Frame.R g cg (node p cp (node k ck kl kk kr) kp pr) kg :: rest)) :=
    hS
  have huc := hu.color_ptr hs
  have hP : Shape t (plug (node p cp (node k ck kl kk kr) kp pr) (Frame.L g cg kg U :: rest)) :=
    hS
  have hpr := hP.right_eq
  have hne : ¬ (some k = pr.ptr t.null) := by
    intro e
    have h1 := hP.sep.2.2.2.1
    have h2 : k ∈ pr.addrs := Tree.ptr_mem e.symm hS.focus_ne_null
    exact h1 k (by simp [Tree.addrs]) h2
  have hne2 : ¬ (some p = U.ptr t.null) := by
    intro e
    have h1 := hg.sep.2.2.2.1
    have h2 : p ∈ U.addrs := Tree.ptr_mem e.symm hP.focus_ne_null
    exact h1 p (by simp [Tree.addrs]) h2
  obtain ⟨t1, e1, S1, M1, r1⟩ := hS.setColor_frame BLACK_NODE
  have S1' : Shape t1 (plug (node g cg (node p BLACK_NODE (node k ck kl kk kr) kp pr) kg U)
    rest) := S1
  obtain ⟨t2, e2, S2, M2, r2⟩ := S1'.setColor RED_NODE
  obtain ⟨t3, e3, S3, M3, -⟩ := S2.rightRotate
  simp only [Frame.addr_R, Frame.addr_L, ctxPar_cons, Tree.ptr_node] at hp hpp hgr hgl e1 e2
  refine ⟨t3, ?_, S3, (M1.trans M2).trans M3⟩
  simp only [RBT.fixInsertBody, hp, hpp, hgr, hgl, huc, hU, hpr, hne, hne2, e1, e2, e3,
    RBT.parent_setColor e1, RBT.parent_setColor e2, Exec.some_bind, Exec.pure_eq, ctxPar_cons,
    Frame.addr_R, Frame.addr_L, ptr_fill, Tree.ptr_node, if_true, if_false, reduceCtorEq]

/-- BLACK uncle, parent is the left child of the grandparent, cursor is the
right child of the parent: rotate left at the parent, then recolour and rotate
right at the grandparent; the cursor becomes the former parent. -/
theorem fixInsertBody_blackUncle_LR {t : RBT K V} {k : Nat} {ck : Color} {kl kr : Tree K V}
    {kk : K × V} {p g : Nat} {cp cg : Color} {pl U : Tree K V} {kp kg : K × V}
    {rest : List (Frame K V)}
    (hS : Shape t (plug (node k ck kl kk kr)
      (Frame.R p cp pl kp :: Frame.L g cg kg U :: rest)))
    (hs : t.sentinelBlack) (hU : U.rootColor = BLACK_NODE) :
    ∃ t', t.fixInsertBody (some k) = some (t', some p) ∧
      Shape t' (plug (node p cp pl kp kl)
        (Frame.L k BLACK_NODE kk (node g RED_NODE kr kg U) :: rest)) ∧
      Same t t' := by
  have hp := hS.parent_eq
  have hpp := hS.frame_parent
  have hg : Shape t (plug (node g cg (node p cp pl kp (node k ck kl kk kr)) kg U) rest) := hS
  have hgr := hg.right_eq
  have hgl := hg.left_eq
  have hu : Shape t (plug U (Frame.R g cg (node p cp pl kp (node k ck kl kk kr)) kg :: rest)) :=
    hS
  have huc := hu.color_ptr hs
  have hP : Shape t (plug (node p cp pl kp (node k ck kl kk kr)) (Frame.L g cg kg U :: rest)) :=
    hS
  have hpr := hP.right_eq
  have hne2 : ¬ (some p = U.ptr t.null) := by
    intro e
    have h1 := hg.sep.2.2.2.1
    have h2 : p ∈ U.addrs := Tree.ptr_mem e.symm hP.focus_ne_null
    exact h1 p (by simp [Tree.addrs]) h2
  obtain ⟨t1, e1, S1, M1, -⟩ := hP.leftRotate
  have S1p : Shape t1 (plug (node p cp pl kp kl)
    (Frame.L k ck kk kr :: Frame.L g cg kg U :: rest)) := S1
  have hp1 := S1p.parent_eq
  simp only [Frame.addr_R, Frame.addr_L, ctxPar_cons] at hp1
  obtain ⟨t2, e2, S2, M2, r2⟩ := S1p.setColor_frame BLACK_NODE
  have hpp1 : t1.parent (some k) = some (some g) := S1p.frame_parent
  have S2' : Shape t2 (plug (node g cg (node k BLACK_NODE (node p cp pl kp kl) kk kr) kg U)
    rest) := S2
  obtain ⟨t3, e3, S3, M3, r3⟩ := S2'.setColor RED_NODE
  obtain ⟨t4, e4, S4, M4, -⟩ := S3.rightRotate
  simp only [Frame.addr_R, Frame.addr_L, ctxPar_cons, Tree.ptr_node] at hp hpp hgr hgl e1 e2
  refine ⟨t4, ?_, S4, ((M1.trans M2).trans M3).trans M4⟩
  simp only [RBT.fixInsertBody, hp, hpp, hgr, hgl, huc, hU, hpr, hne2, e1, e2, e3, e4, hp1,
    hpp1, RBT.parent_setColor e2, RBT.parent_setColor e3, Exec.some_bind, Exec.pure_eq,
    ctxPar_cons, Frame.addr_R, Frame.addr_L, ptr_fill, Tree.ptr_node, if_true, if_false,
    reduceCtorEq]

end FtContainers

namespace FtContainers

open Color Tree

variable {K V : Type}

/-! ## Nodes in in-order -/

theorem Tree.inorder_eq_nodes (T : Tree K V) : T.inorder = T.nodes.map Prod.snd := by
  induction T with
  | nil => rfl
  | node a c l kv r ihl ihr => simp [Tree.inorder, Tree.nodes, ihl, ihr]

theorem Tree.addrs_eq_nodes (T : Tree K V) : T.addrs = T.nodes.map Prod.fst := by
  induction T with
  | nil => rfl
  | node a c l kv r ihl ihr => simp [Tree.addrs, Tree.nodes, ihl, ihr]

theorem nodes_plug (x : Tree K V) (ctx : List (Frame K V)) :
    (plug x ctx).nodes = ctxPreN ctx ++ x.nodes ++ ctxPostN ctx := by
  induction ctx generalizing x with
  | nil => simp [plug, ctxPreN, ctxPostN]
  | cons f rest ih =>
    cases f <;> simp [plug, ih, Frame.fill, Tree.nodes, ctxPreN, ctxPostN, List.append_assoc]

theorem Tree.keys_eq_nodes (T : Tree K V) : T.keys = T.nodes.map (fun x => x.2.1) := by
  simp [Tree.keys, Tree.inorder_eq_nodes]

/-! ## Blackening the root -/

@[simp] theorem Tree.blacken_nodes (T : Tree K V) : T.blacken.nodes = T.nodes := by
  cases T <;> rfl

@[simp] theorem Tree.blacken_rootColor (T : Tree K V) : T.blacken.rootColor = BLACK_NODE := by
  cases T <;> rfl

theorem Tree.blacken_noRedRed {T : Tree K V} (h : T.noRedRed) : T.blacken.noRedRed := by
  cases T with
  | nil => trivial
  | node a c l kv r => exact ⟨fun e => (by cases e), h.2⟩

theorem Tree.blacken_balanced {T : Tree K V} (h : T.balanced) : T.blacken.balanced := by
  cases T with
  | nil => trivial
  | node a c l kv r => exact h

theorem Tree.blacken_eq {T : Tree K V} (h : T.rootColor = BLACK_NODE) : T.blacken = T := by
  cases T with
  | nil => rfl
  | node a c l kv r => simp at h; subst h; rfl

theorem plug_ne_nil (a : Nat) (c : Color) (l : Tree K V) (kv : K × V) (r : Tree K V)
    (ctx : List (Frame K V)) :
    ∃ a' c' l' kv' r', plug (node a c l kv r) ctx = node a' c' l' kv' r' := by
  induction ctx generalizing a c l kv r with
  | nil => exact ⟨a, c, l, kv, r, rfl⟩
  | cons f rest ih => cases f <;> exact ih _ _ _ _ _

/-- Final assignment `_root->color = BLACK_NODE` on a non-empty tree. -/
theorem Shape.blackenRoot {t : RBT K V} {a : Nat} {c : Color} {l r : Tree K V} {kv : K × V}
    {ctx : List (Frame K V)} (hS : Shape t (plug (node a c l kv r) ctx)) :
    ∃ t', t.setColor t.root BLACK_NODE = some t' ∧
      Shape t' (plug (node a c l kv r) ctx).blacken ∧ Same t t' := by
  obtain ⟨a', c', l', kv', r', e⟩ := plug_ne_nil a c l kv r ctx
  rw [e] at hS ⊢
  have h0 : Shape t (plug (node a' c' l' kv' r') []) := hS
  obtain ⟨t1, e1, S1, M1, -⟩ := h0.setColor BLACK_NODE
  refine ⟨t1, ?_, S1, M1⟩
  rw [hS.root]
  exact e1

/-- The loop of `fixInsert` stops at a cursor whose parent is BLACK. -/
theorem fixInsert_exit {t : RBT K V} {k : Nat} {ck : Color} {kl kr : Tree K V} {kk : K × V}
    {f : Frame K V} {rest : List (Frame K V)}
    (hS : Shape t (plug (node k ck kl kk kr) (f :: rest))) (hf : f.color = BLACK_NODE) (n : Nat) :
    RBT.fixInsert (n + 1) t (some k) = t.setColor t.root BLACK_NODE := by
  have hp := hS.parent_eq
  have hc := hS.frame_color
  simp only [RBT.fixInsert, hp, hc, hf, Exec.some_bind, ctxPar_cons, reduceCtorEq, if_false]

theorem ctxRoot_mem (p : Ptr) {ctx : List (Frame K V)} (h : ctx ≠ []) :
    ∃ a ∈ ctxAddrs ctx, ctxRoot p ctx = some a := by
  induction ctx generalizing p with
  | nil => exact absurd rfl h
  | cons f rest ih =>
    cases rest with
    | nil => cases f <;> exact ⟨_, by simp [ctxAddrs], rfl⟩
    | cons f2 rest2 =>
      obtain ⟨a, ha, e⟩ := ih (some f.addr) (List.cons_ne_nil _ _)
      refine ⟨a, ?_, e⟩
      cases f <;> simp [ctxAddrs] at ha ⊢ <;> tauto

/-- The cursor of a non-empty path is not the root. -/
theorem Shape.focus_ne_root {t : RBT K V} {a : Nat} {c : Color} {l r : Tree K V} {kv : K × V}
    {f : Frame K V} {rest : List (Frame K V)}
    (hS : Shape t (plug (node a c l kv r) (f :: rest))) : ¬ (some a = t.root) := by
  intro e
  obtain ⟨b, hb, e2⟩ := ctxRoot_mem (some a) (List.cons_ne_nil f rest)
  have h1 := hS.root
  rw [ptr_plug, Tree.ptr_node, e2, ← e] at h1
  cases h1
  exact hS.sep.2.2.1 hb

theorem fixInsert_finish {t : RBT K V} {k : Nat} {ck : Color} {kl kr : Tree K V} {kk : K × V}
    {f : Frame K V} {rest : List (Frame K V)}
    (hS : Shape t (plug (node k ck kl kk kr) (f :: rest))) (hf : f.color = BLACK_NODE)
    (hn : (plug (node k ck kl kk kr) (f :: rest)).noRedRed)
    (hb : (plug (node k ck kl kk kr) (f :: rest)).balanced) (n : Nat) :
    ∃ t' T', RBT.fixInsert (n + 1) t (some k) = some t' ∧ Shape t' T' ∧ Same t t' ∧
      T'.nodes = (plug (node k ck kl kk kr) (f :: rest)).nodes ∧
      T'.rootColor = BLACK_NODE ∧ T'.noRedRed ∧ T'.balanced := by
  obtain ⟨t1, e1, S1, M1⟩ := hS.blackenRoot
  exact ⟨t1, _, by rw [fixInsert_exit hS hf]; exact e1, S1, M1, Tree.blacken_nodes _,
    Tree.blacken_rootColor _, Tree.blacken_noRedRed hn, Tree.blacken_balanced hb⟩

theorem Color.eq_black_of_ne_red {c : Color} (h : c ≠ RED_NODE) : c = BLACK_NODE := by
  cases c
  · exact absurd rfl h
  · rfl

theorem ctxBal_congr {n m : Nat} {ctx : List (Frame K V)} (hc : ctxBal n ctx) (h : n = m) :
    ctxBal m ctx := h ▸ hc

theorem ctxNRR_red_parent {cc : Color} {f1 f2 : Frame K V} {rest : List (Frame K V)}
    (h : ctxNRR cc (f1 :: f2 :: rest)) (h1 : f1.color = RED_NODE) : f2.color = BLACK_NODE := by
  apply Color.eq_black_of_ne_red
  intro h2
  cases f1 <;> cases f2 <;> simp only [Frame.color_L, Frame.color_R] at h1 h2 <;> subst h1 <;>
    subst h2 <;> simp [ctxNRR] at h

theorem Tree.red_node {T : Tree K V} (h : T.rootColor = RED_NODE) :
    ∃ a l kv r, T = node a RED_NODE l kv r := by
  cases T with
  | nil => cases h
  | node a c l kv r => simp at h; subst h; exact ⟨a, l, kv, r, rfl⟩

theorem fixInsert_spec : ∀ (n : Nat) (t : RBT K V) (S : Tree K V) (ctx : List (Frame K V)),
    ctx.length ≤ n → Shape t (plug S ctx) → t.sentinelBlack → InsInv S ctx →
    ∃ t' T', RBT.fixInsert (n + 1) t (S.ptr t.null) = some t' ∧ Shape t' T' ∧ Same t t' ∧
      T'.nodes = (plug S ctx).nodes ∧ T'.rootColor = BLACK_NODE ∧ T'.noRedRed ∧ T'.balanced := by
  intro n
  induction n with
  | zero =>
    intro t S ctx hlen _ _ hI
    exact absurd (List.length_eq_zero.1 (Nat.le_zero.1 hlen)) hI.nonempty
  | succ n ih =>
    intro t S ctx hlen hS hs hI
    obtain ⟨hred, hnrr, hbal, hne, hrb, hcn, hcb⟩ := hI
    obtain ⟨k, kl, kk, kr, rfl⟩ := Tree.red_node hred
    cases ctx with
    | nil => exact absurd rfl hne
    | cons f1 rest1 =>
      by_cases hf1 : f1.color = BLACK_NODE
      · refine fixInsert_finish hS hf1 ?_ ?_ (n + 1)
        · rw [noRedRed_plug]
          refine ⟨hnrr, ?_⟩
          cases f1 <;> simp only [Frame.color_L, Frame.color_R] at hf1 <;> subst hf1 <;>
            simp only [ctxNRR, reduceCtorEq, false_implies, true_and] at hcn ⊢ <;> exact hcn
        · rw [balanced_plug]; exact ⟨hbal, hcb⟩
      · have hf1r : f1.color = RED_NODE := by
          cases h : f1.color
          · rfl
          · exact absurd h hf1
        cases rest1 with
        | nil =>
          simp only [ctxRootColor_cons, ctxRootColor_nil] at hrb
          exact absurd hrb hf1
        | cons f2 rest2 =>
          have hp := hS.parent_eq
          have hc := hS.frame_color
          have hstep : ∀ r, t.fixInsertBody (some k) = some r →
              RBT.fixInsert (n + 1 + 1) t (some k) =
                (if r.2 = r.1.root then r.1.setColor r.1.root BLACK_NODE
                 else RBT.fixInsert (n + 1) r.1 r.2) := by
            intro r hr
            simp only [RBT.fixInsert, hp, hc, hf1r, hr, Exec.some_bind, ctxPar_cons, if_true]
          simp only [Tree.ptr_node]
          have hcg := ctxNRR_red_parent hcn hf1r
          clear hp hc hf1 hne hred
          cases f2 with
          | R g cg U kg =>
            simp only [Frame.color_L, Frame.color_R] at hcg
            subst hcg
            cases f1 with
            | R p cp pl kp =>
              simp only [Frame.color_L, Frame.color_R] at hf1r
              subst hf1r
              by_cases hU : U.rootColor = RED_NODE
              ·
                obtain ⟨u, ul, ku, ur, rfl⟩ := Tree.red_node hU
                obtain ⟨t1, e1, S1, M1, r1⟩ := fixInsertBody_redUncle_R hS
                rw [hstep _ e1]
                have hs1 := M1.sentinelBlack hs
                cases rest2 with
                | nil =>
                  have hroot : t1.root = some g := S1.root
                  obtain ⟨t2, e2, S2, M2⟩ := S1.blackenRoot
                  simp only [hroot, if_true]
                  rw [hroot] at e2
                  refine ⟨t2, _, e2, S2, M1.trans M2, ?_, Tree.blacken_rootColor _, ?_, ?_⟩
                  · simp only [noRedRed_plug, balanced_plug, nodes_plug, Tree.noRedRed, Tree.balanced, Tree.bh, Tree.nodes, ctxNRR, ctxBal, ctxPreN, ctxPostN, Frame.fill_L, Frame.fill_R, Frame.recolor, Frame.color_L, Frame.color_R, Tree.rootColor_node, Tree.rootColor_nil, reduceCtorEq, if_true, if_false, false_implies, true_implies, true_and, and_true, List.append_assoc, List.cons_append, List.nil_append, List.append_nil, and_self, Nat.add_zero, ite_true, ite_false, forall_const, imp_self, ctxRootColor_cons, ctxRootColor_nil, Tree.blacken, false_and, and_false, implies_true, not_false_eq_true]
                  · simp only [noRedRed_plug, balanced_plug, nodes_plug, Tree.noRedRed, Tree.balanced, Tree.bh, Tree.nodes, ctxNRR, ctxBal, ctxPreN, ctxPostN, Frame.fill_L, Frame.fill_R, Frame.recolor, Frame.color_L, Frame.color_R, Tree.rootColor_node, Tree.rootColor_nil, reduceCtorEq, if_true, if_false, false_implies, true_implies, true_and, and_true, List.append_assoc, List.cons_append, List.nil_append, List.append_nil, and_self, Nat.add_zero, ite_true, ite_false, forall_const, imp_self, ctxRootColor_cons, ctxRootColor_nil, Tree.blacken, false_and, and_false, implies_true, not_false_eq_true] at hnrr hbal hcn hcb ⊢
                    casesm* _ ∧ _
                    and_intros
                    all_goals first | assumption | omega | tauto | exact ctxBal_congr ‹ctxBal _ _› (by omega)
                  · simp only [noRedRed_plug, balanced_plug, nodes_plug, Tree.noRedRed, Tree.balanced, Tree.bh, Tree.nodes, ctxNRR, ctxBal, ctxPreN, ctxPostN, Frame.fill_L, Frame.fill_R, Frame.recolor, Frame.color_L, Frame.color_R, Tree.rootColor_node, Tree.rootColor_nil, reduceCtorEq, if_true, if_false, false_implies, true_implies, true_and, and_true, List.append_assoc, List.cons_append, List.nil_append, List.append_nil, and_self, Nat.add_zero, ite_true, ite_false, forall_const, imp_self, ctxRootColor_cons, ctxRootColor_nil, Tree.blacken, false_and, and_false, implies_true, not_false_eq_true] at hnrr hbal hcn hcb ⊢
                    casesm* _ ∧ _
                    and_intros
                    all_goals first | assumption | omega | tauto | exact ctxBal_congr ‹ctxBal _ _› (by omega)
                | cons f3 rest3 =>
                  have hnr : ¬ (some g = t1.root) := S1.focus_ne_root
                  simp only [hnr, if_false]
                  have hI' : InsInv (node g RED_NODE (node u BLACK_NODE ul ku ur) kg ((Frame.R p BLACK_NODE pl kp).fill (node k RED_NODE kl kk kr))) (f3 :: rest3) := by
                    refine ⟨rfl, ?_, ?_, List.cons_ne_nil _ _, ?_, ?_, ?_⟩
                    · simp only [noRedRed_plug, balanced_plug, nodes_plug, Tree.noRedRed, Tree.balanced, Tree.bh, Tree.nodes, ctxNRR, ctxBal, ctxPreN, ctxPostN, Frame.fill_L, Frame.fill_R, Frame.recolor, Frame.color_L, Frame.color_R, Tree.rootColor_node, Tree.rootColor_nil, reduceCtorEq, if_true, if_false, false_implies, true_implies, true_and, and_true, List.append_assoc, List.cons_append, List.nil_append, List.append_nil, and_self, Nat.add_zero, ite_true, ite_false, forall_const, imp_self, ctxRootColor_cons, ctxRootColor_nil, Tree.blacken, false_and, and_false, implies_true, not_false_eq_true] at hnrr hbal hcn hcb ⊢
                      casesm* _ ∧ _
                      and_intros
                      all_goals first | assumption | omega | tauto | exact ctxBal_congr ‹ctxBal _ _› (by omega)
                    · simp only [noRedRed_plug, balanced_plug, nodes_plug, Tree.noRedRed, Tree.balanced, Tree.bh, Tree.nodes, ctxNRR, ctxBal, ctxPreN, ctxPostN, Frame.fill_L, Frame.fill_R, Frame.recolor, Frame.color_L, Frame.color_R, Tree.rootColor_node, Tree.rootColor_nil, reduceCtorEq, if_true, if_false, false_implies, true_implies, true_and, and_true, List.append_assoc, List.cons_append, List.nil_append, List.append_nil, and_self, Nat.add_zero, ite_true, ite_false, forall_const, imp_self, ctxRootColor_cons, ctxRootColor_nil, Tree.blacken, false_and, and_false, implies_true, not_false_eq_true] at hnrr hbal hcn hcb ⊢
                      casesm* _ ∧ _
                      and_intros
                      all_goals first | assumption | omega | tauto | exact ctxBal_congr ‹ctxBal _ _› (by omega)
                    · simpa only [ctxRootColor_cons] using hrb
                    · simp only [noRedRed_plug, balanced_plug, nodes_plug, Tree.noRedRed, Tree.balanced, Tree.bh, Tree.nodes, ctxNRR, ctxBal, ctxPreN, ctxPostN, Frame.fill_L, Frame.fill_R, Frame.recolor, Frame.color_L, Frame.color_R, Tree.rootColor_node, Tree.rootColor_nil, reduceCtorEq, if_true, if_false, false_implies, true_implies, true_and, and_true, List.append_assoc, List.cons_append, List.nil_append, List.append_nil, and_self, Nat.add_zero, ite_true, ite_false, forall_const, imp_self, ctxRootColor_cons, ctxRootColor_nil, Tree.blacken, false_and, and_false, implies_true, not_false_eq_true] at hnrr hbal hcn hcb ⊢
                      casesm* _ ∧ _
                      and_intros
                      all_goals first | assumption | omega | tauto | exact ctxBal_congr ‹ctxBal _ _› (by omega)
                    · simp only [noRedRed_plug, balanced_plug, nodes_plug, Tree.noRedRed, Tree.balanced, Tree.bh, Tree.nodes, ctxNRR, ctxBal, ctxPreN, ctxPostN, Frame.fill_L, Frame.fill_R, Frame.recolor, Frame.color_L, Frame.color_R, Tree.rootColor_node, Tree.rootColor_nil, reduceCtorEq, if_true, if_false, false_implies, true_implies, true_and, and_true, List.append_assoc, List.cons_append, List.nil_append, List.append_nil, and_self, Nat.add_zero, ite_true, ite_false, forall_const, imp_self, ctxRootColor_cons, ctxRootColor_nil, Tree.blacken, false_and, and_false, implies_true, not_false_eq_true] at hnrr hbal hcn hcb ⊢
                      casesm* _ ∧ _
                      and_intros
                      all_goals first | assumption | omega | tauto | exact ctxBal_congr ‹ctxBal _ _› (by omega)
                  obtain ⟨t2, T2, e2, S2, M2, hn2, hc2, hr2, hb2⟩ :=
                    ih t1 _ (f3 :: rest3) (by simp only [List.length_cons] at hlen ⊢; omega) S1 hs1 hI'
                  refine ⟨t2, T2, e2, S2, M1.trans M2, ?_, hc2, hr2, hb2⟩
                  rw [hn2]
                  simp only [noRedRed_plug, balanced_plug, nodes_plug, Tree.noRedRed, Tree.balanced, Tree.bh, Tree.nodes, ctxNRR, ctxBal, ctxPreN, ctxPostN, Frame.fill_L, Frame.fill_R, Frame.recolor, Frame.color_L, Frame.color_R, Tree.rootColor_node, Tree.rootColor_nil, reduceCtorEq, if_true, if_false, false_implies, true_implies, true_and, and_true, List.append_assoc, List.cons_append, List.nil_append, List.append_nil, and_self, Nat.add_zero, ite_true, ite_false, forall_const, imp_self, ctxRootColor_cons, ctxRootColor_nil, Tree.blacken, false_and, and_false, implies_true, not_false_eq_true]

              · have hU' := Color.eq_black_of_ne_red hU
                obtain ⟨t1, e1, S1, M1⟩ := fixInsertBody_blackUncle_RR hS hs hU'
                rw [hstep _ e1]
                simp only [S1.focus_ne_root, if_false]
                obtain ⟨t2, T2, e2, S2, M2, hn2, hc2, hr2, hb2⟩ := fixInsert_finish S1 rfl (by
                  simp only [noRedRed_plug, balanced_plug, nodes_plug, Tree.noRedRed, Tree.balanced, Tree.bh, Tree.nodes, ctxNRR, ctxBal, ctxPreN, ctxPostN, Frame.fill_L, Frame.fill_R, Frame.recolor, Frame.color_L, Frame.color_R, Tree.rootColor_node, Tree.rootColor_nil, reduceCtorEq, if_true, if_false, false_implies, true_implies, true_and, and_true, List.append_assoc, List.cons_append, List.nil_append, List.append_nil, and_self, Nat.add_zero, ite_true, ite_false, forall_const, imp_self, ctxRootColor_cons, ctxRootColor_nil, Tree.blacken, false_and, and_false, implies_true, not_false_eq_true] at hnrr hbal hcn hcb ⊢
                  casesm* _ ∧ _
                  and_intros
                  all_goals first | assumption | omega | tauto | exact ctxBal_congr ‹ctxBal _ _› (by omega)) (by
                  simp only [noRedRed_plug, balanced_plug, nodes_plug, Tree.noRedRed, Tree.balanced, Tree.bh, Tree.nodes, ctxNRR, ctxBal, ctxPreN, ctxPostN, Frame.fill_L, Frame.fill_R, Frame.recolor, Frame.color_L, Frame.color_R, Tree.rootColor_node, Tree.rootColor_nil, reduceCtorEq, if_true, if_false, false_implies, true_implies, true_and, and_true, List.append_assoc, List.cons_append, List.nil_append, List.append_nil, and_self, Nat.add_zero, ite_true, ite_false, forall_const, imp_self, ctxRootColor_cons, ctxRootColor_nil, Tree.blacken, false_and, and_false, implies_true, not_false_eq_true] at hnrr hbal hcn hcb ⊢
                  casesm* _ ∧ _
                  and_intros
                  all_goals first | assumption | omega | tauto | exact ctxBal_congr ‹ctxBal _ _› (by omega)) n
                refine ⟨t2, T2, e2, S2, M1.trans M2, ?_, hc2, hr2, hb2⟩
                rw [hn2]
                simp only [noRedRed_plug, balanced_plug, nodes_plug, Tree.noRedRed, Tree.balanced, Tree.bh, Tree.nodes, ctxNRR, ctxBal, ctxPreN, ctxPostN, Frame.fill_L, Frame.fill_R, Frame.recolor, Frame.color_L, Frame.color_R, Tree.rootColor_node, Tree.rootColor_nil, reduceCtorEq, if_true, if_false, false_implies, true_implies, true_and, and_true, List.append_assoc, List.cons_append, List.nil_append, List.append_nil, and_self, Nat.add_zero, ite_true, ite_false, forall_const, imp_self, ctxRootColor_cons, ctxRootColor_nil, Tree.blacken, false_and, and_false, implies_true, not_false_eq_true]

            | L p cp kp pr =>
              simp only [Frame.color_L, Frame.color_R] at hf1r
              subst hf1r
              by_cases hU : U.rootColor = RED_NODE
              ·
                obtain ⟨u, ul, ku, ur, rfl⟩ := Tree.red_node hU
                obtain ⟨t1, e1, S1, M1, r1⟩ := fixInsertBody_redUncle_R hS
                rw [hstep _ e1]
                have hs1 := M1.sentinelBlack hs
                cases rest2 with
                | nil =>
                  have hroot : t1.root = some g := S1.root
                  obtain ⟨t2, e2, S2, M2⟩ := S1.blackenRoot
                  simp only [hroot, if_true]
                  rw [hroot] at e2
                  refine ⟨t2, _, e2, S2, M1.trans M2, ?_, Tree.blacken_rootColor _, ?_, ?_⟩
                  · simp only [noRedRed_plug, balanced_plug, nodes_plug, Tree.noRedRed, Tree.balanced, Tree.bh, Tree.nodes, ctxNRR, ctxBal, ctxPreN, ctxPostN, Frame.fill_L, Frame.fill_R, Frame.recolor, Frame.color_L, Frame.color_R, Tree.rootColor_node, Tree.rootColor_nil, reduceCtorEq, if_true, if_false, false_implies, true_implies, true_and, and_true, List.append_assoc, List.cons_append, List.nil_append, List.append_nil, and_self, Nat.add_zero, ite_true, ite_false, forall_const, imp_self, ctxRootColor_cons, ctxRootColor_nil, Tree.blacken, false_and, and_false, implies_true, not_false_eq_true]
                  · simp only [noRedRed_plug, balanced_plug, nodes_plug, Tree.noRedRed, Tree.balanced, Tree.bh, Tree.nodes, ctxNRR, ctxBal, ctxPreN, ctxPostN, Frame.fill_L, Frame.fill_R, Frame.recolor, Frame.color_L, Frame.color_R, Tree.rootColor_node, Tree.rootColor_nil, reduceCtorEq, if_true, if_false, false_implies, true_implies, true_and, and_true, List.append_assoc, List.cons_append, List.nil_append, List.append_nil, and_self, Nat.add_zero, ite_true, ite_false, forall_const, imp_self, ctxRootColor_cons, ctxRootColor_nil, Tree.blacken, false_and, and_false, implies_true, not_false_eq_true] at hnrr hbal hcn hcb ⊢
                    casesm* _ ∧ _
                    and_intros
                    all_goals first | assumption | omega | tauto | exact ctxBal_congr ‹ctxBal _ _› (by omega)
                  · simp only [noRedRed_plug, balanced_plug, nodes_plug, Tree.noRedRed, Tree.balanced, Tree.bh, Tree.nodes, ctxNRR, ctxBal, ctxPreN, ctxPostN, Frame.fill_L, Frame.fill_R, Frame.recolor, Frame.color_L, Frame.color_R, Tree.rootColor_node, Tree.rootColor_nil, reduceCtorEq, if_true, if_false, false_implies, true_implies, true_and, and_true, List.append_assoc, List.cons_append, List.nil_append, List.append_nil, and_self, Nat.add_zero, ite_true, ite_false, forall_const, imp_self, ctxRootColor_cons, ctxRootColor_nil, Tree.blacken, false_and, and_false, implies_true, not_false_eq_true] at hnrr hbal hcn hcb ⊢
                    casesm* _ ∧ _
                    and_intros
                    all_goals first | assumption | omega | tauto | exact ctxBal_congr ‹ctxBal _ _› (by omega)
                | cons f3 rest3 =>
                  have hnr : ¬ (some g = t1.root) := S1.focus_ne_root
                  simp only [hnr, if_false]
                  have hI' : InsInv (node g RED_NODE (node u BLACK_NODE ul ku ur) kg ((Frame.L p BLACK_NODE kp pr).fill (node k RED_NODE kl kk kr))) (f3 :: rest3) := by
                    refine ⟨rfl, ?_, ?_, List.cons_ne_nil _ _, ?_, ?_, ?_⟩
                    · simp only [noRedRed_plug, balanced_plug, nodes_plug, Tree.noRedRed, Tree.balanced, Tree.bh, Tree.nodes, ctxNRR, ctxBal, ctxPreN, ctxPostN, Frame.fill_L, Frame.fill_R, Frame.recolor, Frame.color_L, Frame.color_R, Tree.rootColor_node, Tree.rootColor_nil, reduceCtorEq, if_true, if_false, false_implies, true_implies, true_and, and_true, List.append_assoc, List.cons_append, List.nil_append, List.append_nil, and_self, Nat.add_zero, ite_true, ite_false, forall_const, imp_self, ctxRootColor_cons, ctxRootColor_nil, Tree.blacken, false_and, and_false, implies_true, not_false_eq_true] at hnrr hbal hcn hcb ⊢
                      casesm* _ ∧ _
                      and_intros
                      all_goals first | assumption | omega | tauto | exact ctxBal_congr ‹ctxBal _ _› (by omega)
                    · simp only [noRedRed_plug, balanced_plug, nodes_plug, Tree.noRedRed, Tree.balanced, Tree.bh, Tree.nodes, ctxNRR, ctxBal, ctxPreN, ctxPostN, Frame.fill_L, Frame.fill_R, Frame.recolor, Frame.color_L, Frame.color_R, Tree.rootColor_node, Tree.rootColor_nil, reduceCtorEq, if_true, if_false, false_implies, true_implies, true_and, and_true, List.append_assoc, List.cons_append, List.nil_append, List.append_nil, and_self, Nat.add_zero, ite_true, ite_false, forall_const, imp_self, ctxRootColor_cons, ctxRootColor_nil, Tree.blacken, false_and, and_false, implies_true, not_false_eq_true] at hnrr hbal hcn hcb ⊢
                      casesm* _ ∧ _
                      and_intros
                      all_goals first | assumption | omega | tauto | exact ctxBal_congr ‹ctxBal _ _› (by omega)
                    · simpa only [ctxRootColor_cons] using hrb
                    · simp only [noRedRed_plug, balanced_plug, nodes_plug, Tree.noRedRed, Tree.balanced, Tree.bh, Tree.nodes, ctxNRR, ctxBal, ctxPreN, ctxPostN, Frame.fill_L, Frame.fill_R, Frame.recolor, Frame.color_L, Frame.color_R, Tree.rootColor_node, Tree.rootColor_nil, reduceCtorEq, if_true, if_false, false_implies, true_implies, true_and, and_true, List.append_assoc, List.cons_append, List.nil_append, List.append_nil, and_self, Nat.add_zero, ite_true, ite_false, forall_const, imp_self, ctxRootColor_cons, ctxRootColor_nil, Tree.blacken, false_and, and_false, implies_true, not_false_eq_true] at hnrr hbal hcn hcb ⊢
                      casesm* _ ∧ _
                      and_intros
                      all_goals first | assumption | omega | tauto | exact ctxBal_congr ‹ctxBal _ _› (by omega)
                    · simp only [noRedRed_plug, balanced_plug, nodes_plug, Tree.noRedRed, Tree.balanced, Tree.bh, Tree.nodes, ctxNRR, ctxBal, ctxPreN, ctxPostN, Frame.fill_L, Frame.fill_R, Frame.recolor, Frame.color_L, Frame.color_R, Tree.rootColor_node, Tree.rootColor_nil, reduceCtorEq, if_true, if_false, false_implies, true_implies, true_and, and_true, List.append_assoc, List.cons_append, List.nil_append, List.append_nil, and_self, Nat.add_zero, ite_true, ite_false, forall_const, imp_self, ctxRootColor_cons, ctxRootColor_nil, Tree.blacken, false_and, and_false, implies_true, not_false_eq_true] at hnrr hbal hcn hcb ⊢
                      casesm* _ ∧ _
                      and_intros
                      all_goals first | assumption | omega | tauto | exact ctxBal_congr ‹ctxBal _ _› (by omega)
                  obtain ⟨t2, T2, e2, S2, M2, hn2, hc2, hr2, hb2⟩ :=
                    ih t1 _ (f3 :: rest3) (by simp only [List.length_cons] at hlen ⊢; omega) S1 hs1 hI'
                  refine ⟨t2, T2, e2, S2, M1.trans M2, ?_, hc2, hr2, hb2⟩
                  rw [hn2]
                  simp only [noRedRed_plug, balanced_plug, nodes_plug, Tree.noRedRed, Tree.balanced, Tree.bh, Tree.nodes, ctxNRR, ctxBal, ctxPreN, ctxPostN, Frame.fill_L, Frame.fill_R, Frame.recolor, Frame.color_L, Frame.color_R, Tree.rootColor_node, Tree.rootColor_nil, reduceCtorEq, if_true, if_false, false_implies, true_implies, true_and, and_true, List.append_assoc, List.cons_append, List.nil_append, List.append_nil, and_self, Nat.add_zero, ite_true, ite_false, forall_const, imp_self, ctxRootColor_cons, ctxRootColor_nil, Tree.blacken, false_and, and_false, implies_true, not_false_eq_true]

              · have hU' := Color.eq_black_of_ne_red hU
                obtain ⟨t1, e1, S1, M1⟩ := fixInsertBody_blackUncle_RL hS hs hU'
                rw [hstep _ e1]
                simp only [S1.focus_ne_root, if_false]
                obtain ⟨t2, T2, e2, S2, M2, hn2, hc2, hr2, hb2⟩ := fixInsert_finish S1 rfl (by
                  simp only [noRedRed_plug, balanced_plug, nodes_plug, Tree.noRedRed, Tree.balanced, Tree.bh, Tree.nodes, ctxNRR, ctxBal, ctxPreN, ctxPostN, Frame.fill_L, Frame.fill_R, Frame.recolor, Frame.color_L, Frame.color_R, Tree.rootColor_node, Tree.rootColor_nil, reduceCtorEq, if_true, if_false, false_implies, true_implies, true_and, and_true, List.append_assoc, List.cons_append, List.nil_append, List.append_nil, and_self, Nat.add_zero, ite_true, ite_false, forall_const, imp_self, ctxRootColor_cons, ctxRootColor_nil, Tree.blacken, false_and, and_false, implies_true, not_false_eq_true] at hnrr hbal hcn hcb ⊢
                  casesm* _ ∧ _
                  and_intros
                  all_goals first | assumption | omega | tauto | exact ctxBal_congr ‹ctxBal _ _› (by omega)) (by
                  simp only [noRedRed_plug, balanced_plug, nodes_plug, Tree.noRedRed, Tree.balanced, Tree.bh, Tree.nodes, ctxNRR, ctxBal, ctxPreN, ctxPostN, Frame.fill_L, Frame.fill_R, Frame.recolor, Frame.color_L, Frame.color_R, Tree.rootColor_node, Tree.rootColor_nil, reduceCtorEq, if_true, if_false, false_implies, true_implies, true_and, and_true, List.append_assoc, List.cons_append, List.nil_append, List.append_nil, and_self, Nat.add_zero, ite_true, ite_false, forall_const, imp_self, ctxRootColor_cons, ctxRootColor_nil, Tree.blacken, false_and, and_false, implies_true, not_false_eq_true] at hnrr hbal hcn hcb ⊢
                  casesm* _ ∧ _
                  and_intros
                  all_goals first | assumption | omega | tauto | exact ctxBal_congr ‹ctxBal _ _› (by omega)) n
                refine ⟨t2, T2, e2, S2, M1.trans M2, ?_, hc2, hr2, hb2⟩
                rw [hn2]
                simp only [noRedRed_plug, balanced_plug, nodes_plug, Tree.noRedRed, Tree.balanced, Tree.bh, Tree.nodes, ctxNRR, ctxBal, ctxPreN, ctxPostN, Frame.fill_L, Frame.fill_R, Frame.recolor, Frame.color_L, Frame.color_R, Tree.rootColor_node, Tree.rootColor_nil, reduceCtorEq, if_true, if_false, false_implies, true_implies, true_and, and_true, List.append_assoc, List.cons_append, List.nil_append, List.append_nil, and_self, Nat.add_zero, ite_true, ite_false, forall_const, imp_self, ctxRootColor_cons, ctxRootColor_nil, Tree.blacken, false_and, and_false, implies_true, not_false_eq_true]


          | L g cg kg U =>
            simp only [Frame.color_L, Frame.color_R] at hcg
            subst hcg
            cases f1 with
            | R p cp pl kp =>
              simp only [Frame.color_L, Frame.color_R] at hf1r
              subst hf1r
              by_cases hU : U.rootColor = RED_NODE
              ·
                obtain ⟨u, ul, ku, ur, rfl⟩ := Tree.red_node hU
                obtain ⟨t1, e1, S1, M1, r1⟩ := fixInsertBody_redUncle_L hS
                rw [hstep _ e1]
                have hs1 := M1.sentinelBlack hs
                cases rest2 with
                | nil =>
                  have hroot : t1.root = some g := S1.root
                  obtain ⟨t2, e2, S2, M2⟩ := S1.blackenRoot
                  simp only [hroot, if_true]
                  rw [hroot] at e2
                  refine ⟨t2, _, e2, S2, M1.trans M2, ?_, Tree.blacken_rootColor _, ?_, ?_⟩
                  · simp only [noRedRed_plug, balanced_plug, nodes_plug, Tree.noRedRed, Tree.balanced, Tree.bh, Tree.nodes, ctxNRR, ctxBal, ctxPreN, ctxPostN, Frame.fill_L, Frame.fill_R, Frame.recolor, Frame.color_L, Frame.color_R, Tree.rootColor_node, Tree.rootColor_nil, reduceCtorEq, if_true, if_false, false_implies, true_implies, true_and, and_true, List.append_assoc, List.cons_append, List.nil_append, List.append_nil, and_self, Nat.add_zero, ite_true, ite_false, forall_const, imp_self, ctxRootColor_cons, ctxRootColor_nil, Tree.blacken, false_and, and_false, implies_true, not_false_eq_true]
                  · simp only [noRedRed_plug, balanced_plug, nodes_plug, Tree.noRedRed, Tree.balanced, Tree.bh, Tree.nodes, ctxNRR, ctxBal, ctxPreN, ctxPostN, Frame.fill_L, Frame.fill_R, Frame.recolor, Frame.color_L, Frame.color_R, Tree.rootColor_node, Tree.rootColor_nil, reduceCtorEq, if_true, if_false, false_implies, true_implies, true_and, and_true, List.append_assoc, List.cons_append, List.nil_append, List.append_nil, and_self, Nat.add_zero, ite_true, ite_false, forall_const, imp_self, ctxRootColor_cons, ctxRootColor_nil, Tree.blacken, false_and, and_false, implies_true, not_false_eq_true] at hnrr hbal hcn hcb ⊢
                    casesm* _ ∧ _
                    and_intros
                    all_goals first | assumption | omega | tauto | exact ctxBal_congr ‹ctxBal _ _› (by omega)
                  · simp only [noRedRed_plug, balanced_plug, nodes_plug, Tree.noRedRed, Tree.balanced, Tree.bh, Tree.nodes, ctxNRR, ctxBal, ctxPreN, ctxPostN, Frame.fill_L, Frame.fill_R, Frame.recolor, Frame.color_L, Frame.color_R, Tree.rootColor_node, Tree.rootColor_nil, reduceCtorEq, if_true, if_false, false_implies, true_implies, true_and, and_true, List.append_assoc, List.cons_append, List.nil_append, List.append_nil, and_self, Nat.add_zero, ite_true, ite_false, forall_const, imp_self, ctxRootColor_cons, ctxRootColor_nil, Tree.blacken, false_and, and_false, implies_true, not_false_eq_true] at hnrr hbal hcn hcb ⊢
                    casesm* _ ∧ _
                    and_intros
                    all_goals first | assumption | omega | tauto | exact ctxBal_congr ‹ctxBal _ _› (by omega)
                | cons f3 rest3 =>
                  have hnr : ¬ (some g = t1.root) := S1.focus_ne_root
                  simp only [hnr, if_false]
                  have hI' : InsInv (node g RED_NODE ((Frame.R p BLACK_NODE pl kp).fill (node k RED_NODE kl kk kr)) kg (node u BLACK_NODE ul ku ur)) (f3 :: rest3) := by
                    refine ⟨rfl, ?_, ?_, List.cons_ne_nil _ _, ?_, ?_, ?_⟩
                    · simp only [noRedRed_plug, balanced_plug, nodes_plug, Tree.noRedRed, Tree.balanced, Tree.bh, Tree.nodes, ctxNRR, ctxBal, ctxPreN, ctxPostN, Frame.fill_L, Frame.fill_R, Frame.recolor, Frame.color_L, Frame.color_R, Tree.rootColor_node, Tree.rootColor_nil, reduceCtorEq, if_true, if_false, false_implies, true_implies, true_and, and_true, List.append_assoc, List.cons_append, List.nil_append, List.append_nil, and_self, Nat.add_zero, ite_true, ite_false, forall_const, imp_self, ctxRootColor_cons, ctxRootColor_nil, Tree.blacken, false_and, and_false, implies_true, not_false_eq_true] at hnrr hbal hcn hcb ⊢
                      casesm* _ ∧ _
                      and_intros
                      all_goals first | assumption | omega | tauto | exact ctxBal_congr ‹ctxBal _ _› (by omega)
                    · simp only [noRedRed_plug, balanced_plug, nodes_plug, Tree.noRedRed, Tree.balanced, Tree.bh, Tree.nodes, ctxNRR, ctxBal, ctxPreN, ctxPostN, Frame.fill_L, Frame.fill_R, Frame.recolor, Frame.color_L, Frame.color_R, Tree.rootColor_node, Tree.rootColor_nil, reduceCtorEq, if_true, if_false, false_implies, true_implies, true_and, and_true, List.append_assoc, List.cons_append, List.nil_append, List.append_nil, and_self, Nat.add_zero, ite_true, ite_false, forall_const, imp_self, ctxRootColor_cons, ctxRootColor_nil, Tree.blacken, false_and, and_false, implies_true, not_false_eq_true] at hnrr hbal hcn hcb ⊢
                      casesm* _ ∧ _
                      and_intros
                      all_goals first | assumption | omega | tauto | exact ctxBal_congr ‹ctxBal _ _› (by omega)
                    · simpa only [ctxRootColor_cons] using hrb
                    · simp only [noRedRed_plug, balanced_plug, nodes_plug, Tree.noRedRed, Tree.balanced, Tree.bh, Tree.nodes, ctxNRR, ctxBal, ctxPreN, ctxPostN, Frame.fill_L, Frame.fill_R, Frame.recolor, Frame.color_L, Frame.color_R, Tree.rootColor_node, Tree.rootColor_nil, reduceCtorEq, if_true, if_false, false_implies, true_implies, true_and, and_true, List.append_assoc, List.cons_append, List.nil_append, List.append_nil, and_self, Nat.add_zero, ite_true, ite_false, forall_const, imp_self, ctxRootColor_cons, ctxRootColor_nil, Tree.blacken, false_and, and_false, implies_true, not_false_eq_true] at hnrr hbal hcn hcb ⊢
                      casesm* _ ∧ _
                      and_intros
                      all_goals first | assumption | omega | tauto | exact ctxBal_congr ‹ctxBal _ _› (by omega)
                    · simp only [noRedRed_plug, balanced_plug, nodes_plug, Tree.noRedRed, Tree.balanced, Tree.bh, Tree.nodes, ctxNRR, ctxBal, ctxPreN, ctxPostN, Frame.fill_L, Frame.fill_R, Frame.recolor, Frame.color_L, Frame.color_R, Tree.rootColor_node, Tree.rootColor_nil, reduceCtorEq, if_true, if_false, false_implies, true_implies, true_and, and_true, List.append_assoc, List.cons_append, List.nil_append, List.append_nil, and_self, Nat.add_zero, ite_true, ite_false, forall_const, imp_self, ctxRootColor_cons, ctxRootColor_nil, Tree.blacken, false_and, and_false, implies_true, not_false_eq_true] at hnrr hbal hcn hcb ⊢
                      casesm* _ ∧ _
                      and_intros
                      all_goals first | assumption | omega | tauto | exact ctxBal_congr ‹ctxBal _ _› (by omega)
                  obtain ⟨t2, T2, e2, S2, M2, hn2, hc2, hr2, hb2⟩ :=
                    ih t1 _ (f3 :: rest3) (by simp only [List.length_cons] at hlen ⊢; omega) S1 hs1 hI'
                  refine ⟨t2, T2, e2, S2, M1.trans M2, ?_, hc2, hr2, hb2⟩
                  rw [hn2]
                  simp only [noRedRed_plug, balanced_plug, nodes_plug, Tree.noRedRed, Tree.balanced, Tree.bh, Tree.nodes, ctxNRR, ctxBal, ctxPreN, ctxPostN, Frame.fill_L, Frame.fill_R, Frame.recolor, Frame.color_L, Frame.color_R, Tree.rootColor_node, Tree.rootColor_nil, reduceCtorEq, if_true, if_false, false_implies, true_implies, true_and, and_true, List.append_assoc, List.cons_append, List.nil_append, List.append_nil, and_self, Nat.add_zero, ite_true, ite_false, forall_const, imp_self, ctxRootColor_cons, ctxRootColor_nil, Tree.blacken, false_and, and_false, implies_true, not_false_eq_true]

              · have hU' := Color.eq_black_of_ne_red hU
                obtain ⟨t1, e1, S1, M1⟩ := fixInsertBody_blackUncle_LR hS hs hU'
                rw [hstep _ e1]
                simp only [S1.focus_ne_root, if_false]
                obtain ⟨t2, T2, e2, S2, M2, hn2, hc2, hr2, hb2⟩ := fixInsert_finish S1 rfl (by
                  simp only [noRedRed_plug, balanced_plug, nodes_plug, Tree.noRedRed, Tree.balanced, Tree.bh, Tree.nodes, ctxNRR, ctxBal, ctxPreN, ctxPostN, Frame.fill_L, Frame.fill_R, Frame.recolor, Frame.color_L, Frame.color_R, Tree.rootColor_node, Tree.rootColor_nil, reduceCtorEq, if_true, if_false, false_implies, true_implies, true_and, and_true, List.append_assoc, List.cons_append, List.nil_append, List.append_nil, and_self, Nat.add_zero, ite_true, ite_false, forall_const, imp_self, ctxRootColor_cons, ctxRootColor_nil, Tree.blacken, false_and, and_false, implies_true, not_false_eq_true] at hnrr hbal hcn hcb ⊢
                  casesm* _ ∧ _
                  and_intros
                  all_goals first | assumption | omega | tauto | exact ctxBal_congr ‹ctxBal _ _› (by omega)) (by
                  simp only [noRedRed_plug, balanced_plug, nodes_plug, Tree.noRedRed, Tree.balanced, Tree.bh, Tree.nodes, ctxNRR, ctxBal, ctxPreN, ctxPostN, Frame.fill_L, Frame.fill_R, Frame.recolor, Frame.color_L, Frame.color_R, Tree.rootColor_node, Tree.rootColor_nil, reduceCtorEq, if_true, if_false, false_implies, true_implies, true_and, and_true, List.append_assoc, List.cons_append, List.nil_append, List.append_nil, and_self, Nat.add_zero, ite_true, ite_false, forall_const, imp_self, ctxRootColor_cons, ctxRootColor_nil, Tree.blacken, false_and, and_false, implies_true, not_false_eq_true] at hnrr hbal hcn hcb ⊢
                  casesm* _ ∧ _
                  and_intros
                  all_goals first | assumption | omega | tauto | exact ctxBal_congr ‹ctxBal _ _› (by omega)) n
                refine ⟨t2, T2, e2, S2, M1.trans M2, ?_, hc2, hr2, hb2⟩
                rw [hn2]
                simp only [noRedRed_plug, balanced_plug, nodes_plug, Tree.noRedRed, Tree.balanced, Tree.bh, Tree.nodes, ctxNRR, ctxBal, ctxPreN, ctxPostN, Frame.fill_L, Frame.fill_R, Frame.recolor, Frame.color_L, Frame.color_R, Tree.rootColor_node, Tree.rootColor_nil, reduceCtorEq, if_true, if_false, false_implies, true_implies, true_and, and_true, List.append_assoc, List.cons_append, List.nil_append, List.append_nil, and_self, Nat.add_zero, ite_true, ite_false, forall_const, imp_self, ctxRootColor_cons, ctxRootColor_nil, Tree.blacken, false_and, and_false, implies_true, not_false_eq_true]

            | L p cp kp pr =>
              simp only [Frame.color_L, Frame.color_R] at hf1r
              subst hf1r
              by_cases hU : U.rootColor = RED_NODE
              ·
                obtain ⟨u, ul, ku, ur, rfl⟩ := Tree.red_node hU
                obtain ⟨t1, e1, S1, M1, r1⟩ := fixInsertBody_redUncle_L hS
                rw [hstep _ e1]
                have hs1 := M1.sentinelBlack hs
                cases rest2 with
                | nil =>
                  have hroot : t1.root = some g := S1.root
                  obtain ⟨t2, e2, S2, M2⟩ := S1.blackenRoot
                  simp only [hroot, if_true]
                  rw [hroot] at e2
                  refine ⟨t2, _, e2, S2, M1.trans M2, ?_, Tree.blacken_rootColor _, ?_, ?_⟩
                  · simp only [noRedRed_plug, balanced_plug, nodes_plug, Tree.noRedRed, Tree.balanced, Tree.bh, Tree.nodes, ctxNRR, ctxBal, ctxPreN, ctxPostN, Frame.fill_L, Frame.fill_R, Frame.recolor, Frame.color_L, Frame.color_R, Tree.rootColor_node, Tree.rootColor_nil, reduceCtorEq, if_true, if_false, false_implies, true_implies, true_and, and_true, List.append_assoc, List.cons_append, List.nil_append, List.append_nil, and_self, Nat.add_zero, ite_true, ite_false, forall_const, imp_self, ctxRootColor_cons, ctxRootColor_nil, Tree.blacken, false_and, and_false, implies_true, not_false_eq_true]
                  · simp only [noRedRed_plug, balanced_plug, nodes_plug, Tree.noRedRed, Tree.balanced, Tree.bh, Tree.nodes, ctxNRR, ctxBal, ctxPreN, ctxPostN, Frame.fill_L, Frame.fill_R, Frame.recolor, Frame.color_L, Frame.color_R, Tree.rootColor_node, Tree.rootColor_nil, reduceCtorEq, if_true, if_false, false_implies, true_implies, true_and, and_true, List.append_assoc, List.cons_append, List.nil_append, List.append_nil, and_self, Nat.add_zero, ite_true, ite_false, forall_const, imp_self, ctxRootColor_cons, ctxRootColor_nil, Tree.blacken, false_and, and_false, implies_true, not_false_eq_true] at hnrr hbal hcn hcb ⊢
                    casesm* _ ∧ _
                    and_intros
                    all_goals first | assumption | omega | tauto | exact ctxBal_congr ‹ctxBal _ _› (by omega)
                  · simp only [noRedRed_plug, balanced_plug, nodes_plug, Tree.noRedRed, Tree.balanced, Tree.bh, Tree.nodes, ctxNRR, ctxBal, ctxPreN, ctxPostN, Frame.fill_L, Frame.fill_R, Frame.recolor, Frame.color_L, Frame.color_R, Tree.rootColor_node, Tree.rootColor_nil, reduceCtorEq, if_true, if_false, false_implies, true_implies, true_and, and_true, List.append_assoc, List.cons_append, List.nil_append, List.append_nil, and_self, Nat.add_zero, ite_true, ite_false, forall_const, imp_self, ctxRootColor_cons, ctxRootColor_nil, Tree.blacken, false_and, and_false, implies_true, not_false_eq_true] at hnrr hbal hcn hcb ⊢
                    casesm* _ ∧ _
                    and_intros
                    all_goals first | assumption | omega | tauto | exact ctxBal_congr ‹ctxBal _ _› (by omega)
                | cons f3 rest3 =>
                  have hnr : ¬ (some g = t1.root) := S1.focus_ne_root
                  simp only [hnr, if_false]
                  have hI' : InsInv (node g RED_NODE ((Frame.L p BLACK_NODE kp pr).fill (node k RED_NODE kl kk kr)) kg (node u BLACK_NODE ul ku ur)) (f3 :: rest3) := by
                    refine ⟨rfl, ?_, ?_, List.cons_ne_nil _ _, ?_, ?_, ?_⟩
                    · simp only [noRedRed_plug, balanced_plug, nodes_plug, Tree.noRedRed, Tree.balanced, Tree.bh, Tree.nodes, ctxNRR, ctxBal, ctxPreN, ctxPostN, Frame.fill_L, Frame.fill_R, Frame.recolor, Frame.color_L, Frame.color_R, Tree.rootColor_node, Tree.rootColor_nil, reduceCtorEq, if_true, if_false, false_implies, true_implies, true_and, and_true, List.append_assoc, List.cons_append, List.nil_append, List.append_nil, and_self, Nat.add_zero, ite_true, ite_false, forall_const, imp_self, ctxRootColor_cons, ctxRootColor_nil, Tree.blacken, false_and, and_false, implies_true, not_false_eq_true] at hnrr hbal hcn hcb ⊢
                      casesm* _ ∧ _
                      and_intros
                      all_goals first | assumption | omega | tauto | exact ctxBal_congr ‹ctxBal _ _› (by omega)
                    · simp only [noRedRed_plug, balanced_plug, nodes_plug, Tree.noRedRed, Tree.balanced, Tree.bh, Tree.nodes, ctxNRR, ctxBal, ctxPreN, ctxPostN, Frame.fill_L, Frame.fill_R, Frame.recolor, Frame.color_L, Frame.color_R, Tree.rootColor_node, Tree.rootColor_nil, reduceCtorEq, if_true, if_false, false_implies, true_implies, true_and, and_true, List.append_assoc, List.cons_append, List.nil_append, List.append_nil, and_self, Nat.add_zero, ite_true, ite_false, forall_const, imp_self, ctxRootColor_cons, ctxRootColor_nil, Tree.blacken, false_and, and_false, implies_true, not_false_eq_true] at hnrr hbal hcn hcb ⊢
                      casesm* _ ∧ _
                      and_intros
                      all_goals first | assumption | omega | tauto | exact ctxBal_congr ‹ctxBal _ _› (by omega)
                    · simpa only [ctxRootColor_cons] using hrb
                    · simp only [noRedRed_plug, balanced_plug, nodes_plug, Tree.noRedRed, Tree.balanced, Tree.bh, Tree.nodes, ctxNRR, ctxBal, ctxPreN, ctxPostN, Frame.fill_L, Frame.fill_R, Frame.recolor, Frame.color_L, Frame.color_R, Tree.rootColor_node, Tree.rootColor_nil, reduceCtorEq, if_true, if_false, false_implies, true_implies, true_and, and_true, List.append_assoc, List.cons_append, List.nil_append, List.append_nil, and_self, Nat.add_zero, ite_true, ite_false, forall_const, imp_self, ctxRootColor_cons, ctxRootColor_nil, Tree.blacken, false_and, and_false, implies_true, not_false_eq_true] at hnrr hbal hcn hcb ⊢
                      casesm* _ ∧ _
                      and_intros
                      all_goals first | assumption | omega | tauto | exact ctxBal_congr ‹ctxBal _ _› (by omega)
                    · simp only [noRedRed_plug, balanced_plug, nodes_plug, Tree.noRedRed, Tree.balanced, Tree.bh, Tree.nodes, ctxNRR, ctxBal, ctxPreN, ctxPostN, Frame.fill_L, Frame.fill_R, Frame.recolor, Frame.color_L, Frame.color_R, Tree.rootColor_node, Tree.rootColor_nil, reduceCtorEq, if_true, if_false, false_implies, true_implies, true_and, and_true, List.append_assoc, List.cons_append, List.nil_append, List.append_nil, and_self, Nat.add_zero, ite_true, ite_false, forall_const, imp_self, ctxRootColor_cons, ctxRootColor_nil, Tree.blacken, false_and, and_false, implies_true, not_false_eq_true] at hnrr hbal hcn hcb ⊢
                      casesm* _ ∧ _
                      and_intros
                      all_goals first | assumption | omega | tauto | exact ctxBal_congr ‹ctxBal _ _› (by omega)
                  obtain ⟨t2, T2, e2, S2, M2, hn2, hc2, hr2, hb2⟩ :=
                    ih t1 _ (f3 :: rest3) (by simp only [List.length_cons] at hlen ⊢; omega) S1 hs1 hI'
                  refine ⟨t2, T2, e2, S2, M1.trans M2, ?_, hc2, hr2, hb2⟩
                  rw [hn2]
                  simp only [noRedRed_plug, balanced_plug, nodes_plug, Tree.noRedRed, Tree.balanced, Tree.bh, Tree.nodes, ctxNRR, ctxBal, ctxPreN, ctxPostN, Frame.fill_L, Frame.fill_R, Frame.recolor, Frame.color_L, Frame.color_R, Tree.rootColor_node, Tree.rootColor_nil, reduceCtorEq, if_true, if_false, false_implies, true_implies, true_and, and_true, List.append_assoc, List.cons_append, List.nil_append, List.append_nil, and_self, Nat.add_zero, ite_true, ite_false, forall_const, imp_self, ctxRootColor_cons, ctxRootColor_nil, Tree.blacken, false_and, and_false, implies_true, not_false_eq_true]

              · have hU' := Color.eq_black_of_ne_red hU
                obtain ⟨t1, e1, S1, M1⟩ := fixInsertBody_blackUncle_LL hS hs hU'
                rw [hstep _ e1]
                simp only [S1.focus_ne_root, if_false]
                obtain ⟨t2, T2, e2, S2, M2, hn2, hc2, hr2, hb2⟩ := fixInsert_finish S1 rfl (by
                  simp only [noRedRed_plug, balanced_plug, nodes_plug, Tree.noRedRed, Tree.balanced, Tree.bh, Tree.nodes, ctxNRR, ctxBal, ctxPreN, ctxPostN, Frame.fill_L, Frame.fill_R, Frame.recolor, Frame.color_L, Frame.color_R, Tree.rootColor_node, Tree.rootColor_nil, reduceCtorEq, if_true, if_false, false_implies, true_implies, true_and, and_true, List.append_assoc, List.cons_append, List.nil_append, List.append_nil, and_self, Nat.add_zero, ite_true, ite_false, forall_const, imp_self, ctxRootColor_cons, ctxRootColor_nil, Tree.blacken, false_and, and_false, implies_true, not_false_eq_true] at hnrr hbal hcn hcb ⊢
                  casesm* _ ∧ _
                  and_intros
                  all_goals first | assumption | omega | tauto | exact ctxBal_congr ‹ctxBal _ _› (by omega)) (by
                  simp only [noRedRed_plug, balanced_plug, nodes_plug, Tree.noRedRed, Tree.balanced, Tree.bh, Tree.nodes, ctxNRR, ctxBal, ctxPreN, ctxPostN, Frame.fill_L, Frame.fill_R, Frame.recolor, Frame.color_L, Frame.color_R, Tree.rootColor_node, Tree.rootColor_nil, reduceCtorEq, if_true, if_false, false_implies, true_implies, true_and, and_true, List.append_assoc, List.cons_append, List.nil_append, List.append_nil, and_self, Nat.add_zero, ite_true, ite_false, forall_const, imp_self, ctxRootColor_cons, ctxRootColor_nil, Tree.blacken, false_and, and_false, implies_true, not_false_eq_true] at hnrr hbal hcn hcb ⊢
                  casesm* _ ∧ _
                  and_intros
                  all_goals first | assumption | omega | tauto | exact ctxBal_congr ‹ctxBal _ _› (by omega)) n
                refine ⟨t2, T2, e2, S2, M1.trans M2, ?_, hc2, hr2, hb2⟩
                rw [hn2]
                simp only [noRedRed_plug, balanced_plug, nodes_plug, Tree.noRedRed, Tree.balanced, Tree.bh, Tree.nodes, ctxNRR, ctxBal, ctxPreN, ctxPostN, Frame.fill_L, Frame.fill_R, Frame.recolor, Frame.color_L, Frame.color_R, Tree.rootColor_node, Tree.rootColor_nil, reduceCtorEq, if_true, if_false, false_implies, true_implies, true_and, and_true, List.append_assoc, List.cons_append, List.nil_append, List.append_nil, and_self, Nat.add_zero, ite_true, ite_false, forall_const, imp_self, ctxRootColor_cons, ctxRootColor_nil, Tree.blacken, false_and, and_false, implies_true, not_false_eq_true]


end FtContainers

set_option linter.unnecessarySeqFocus false
set_option linter.unnecessarySimpa false

namespace FtContainers

open Color Tree

variable {K V : Type}

/-! ## Allocation -/

/-- A write outside the tree leaves the shape alone. -/
theorem Shape.setCell_fresh {t : RBT K V} {T : Tree K V} (hS : Shape t T) {s : Nat}
    (hs : s ∉ T.addrs) (c : Option (RBT_Node K V)) (r : Ptr) (hr : r = t.root) (nx : Nat) :
    Shape { root := r, null := t.null, heap := setCell t.heap s c, next := nx } T :=
  ⟨by rw [hr]; exact hS.root, by simpa [Repr_setCell hs] using hS.repr, hS.nodup⟩

variable [LinearOrder K]

/-! ## Descent of `insert` -/

theorem insertLoop_eq {t : RBT K V} {s : Ptr} {key : K} (hk : t.key s = some key) :
    ∀ (S : Tree K V) (ctx : List (Frame K V)) (fuel : Nat), Shape t (plug S ctx) →
      S.height < fuel →
      t.insertLoop s fuel (ctxPar ctx) (S.ptr t.null) =
        some (match (S.find key ctx).1 with
          | nil => (ctxPar (S.find key ctx).2, false)
          | node a _ _ _ _ => (some a, true)) := by
  intro S
  induction S with
  | nil =>
    intro ctx fuel _ hf
    cases fuel with
    | zero => exact absurd hf (Nat.lt_irrefl _)
    | succ n => simp [RBT.insertLoop, Tree.find]
  | node a c l kv r ihl ihr =>
    intro ctx fuel hS hf
    cases fuel with
    | zero => exact absurd hf (Nat.not_lt_zero _)
    | succ n =>
      have ha := hS.focus_ne_null
      simp only [Tree.height] at hf
      simp only [RBT.insertLoop, Tree.ptr_node, ne_eq, Option.some.injEq, ha, not_false_eq_true,
        if_true, hk, hS.key_eq, Exec.some_bind, hS.left_eq, hS.right_eq, Exec.pure_eq, gt_iff_lt]
      unfold Tree.find
      by_cases h1 : key < kv.1
      · simp only [h1, if_true]
        exact ihl (Frame.L a c kv r :: ctx) n hS (by omega)
      · by_cases h2 : kv.1 < key
        · simp only [h1, h2, if_true, if_false]
          exact ihr (Frame.R a c l kv :: ctx) n hS (by omega)
        · simp only [h1, h2, if_false]

theorem length_le_height (S : Tree K V) (ctx : List (Frame K V)) :
    ctx.length + S.height ≤ (plug S ctx).height := by
  induction ctx generalizing S with
  | nil => simp
  | cons f rest ih =>
    have := ih (f.fill S)
    cases f <;> simp only [plug_cons, List.length_cons, Frame.fill_L, Frame.fill_R,
      Tree.height] at this ⊢ <;> omega

/-- The code of `insert` when the descent ends at a sentinel link: the new
node is attached there and the tree is repaired. -/
theorem insert_absent_core {t : RBT K V} {kv : K × V} {ctx : List (Frame K V)}
    (hS : Shape t (plug nil ctx)) (hsn : t.next ≠ t.null) (hfresh : t.next ∉ (plug nil ctx).addrs)
    (hlen : ctx.length ≤ t.next)
    (hloop : RBT.insertLoop (t.allocate ⟨kv, RED_NODE, none, some t.null, some t.null⟩).1
      (some t.next) (t.next + 1) none t.root = some (ctxPar ctx, false))
    (hbd : ctxBounded kv.1 ctx) (hsb : t.sentinelBlack)
    (hrc : (plug nil ctx).rootColor = BLACK_NODE) (hnr : (plug nil ctx).noRedRed)
    (hbl : (plug nil ctx).balanced) :
    ∃ t' T', t.insert kv = some (t', ctxPar ctx, true) ∧ Shape t' T' ∧ t'.null = t.null ∧
      t'.next = t.next + 1 ∧ t'.heap t.null = t.heap t.null ∧
      T'.nodes = ctxPreN ctx ++ (t.next, kv) :: ctxPostN ctx ∧
      T'.rootColor = BLACK_NODE ∧ T'.noRedRed ∧ T'.balanced := by
  cases ctx with
  | nil =>
    have hroot : t.root = some t.null := hS.root
    have hns : t.null ≠ t.next := Ne.symm hsn
    simp only [RBT.allocate, ctxPar_nil] at hloop
    simp only [RBT.insert, RBT.allocate, RBT.parent, RBT.setParent, RBT.setColor, RBT.modify,
      RBT.get_some, Exec.some_bind, Exec.pure_eq, hloop, setCell_same, if_true, ctxPar_nil,
      Bool.false_eq_true, if_false]
    refine ⟨_, node t.next BLACK_NODE nil kv nil, rfl, ⟨rfl, ?_, ?_⟩, rfl, rfl, ?_, ?_, rfl, ?_, ?_⟩
    · simp only [Repr, setCell_same, Tree.ptr_nil, and_true, ne_eq, hsn, not_false_eq_true]
    · simp [Tree.addrs]
    · simp only [setCell_other, hns, ne_eq, not_false_eq_true]
    · simp [Tree.nodes, ctxPreN, ctxPostN]
    · simp [Tree.noRedRed]
    · simp [Tree.balanced, Tree.bh]
  | cons f rest =>
    simp only [RBT.allocate] at hloop
    cases f with
    | L p cp kp pr =>
      rw [Shape.plug_iff] at hS
      obtain ⟨hroot, -, ⟨hp, hpc, hpr, hrest⟩, hnd⟩ := hS
      have hlt1 : kv.1 < kp.1 := hbd.2 kp (by simp [ctxPost])
      have hsmem : t.next ∉ p :: (pr.addrs ++ ctxAddrs rest) := by
        intro h
        apply hfresh
        rw [mem_addrs_plug]
        right
        simpa [ctxAddrs] using h
      simp only [List.mem_cons, List.mem_append, not_or] at hsmem
      obtain ⟨hsp, hspr, hsrest⟩ := hsmem
      have hps : p ≠ t.next := Ne.symm hsp
      have hns : t.null ≠ t.next := Ne.symm hsn
      have hnd' := hnd
      simp only [Tree.addrs, ctxAddrs, List.nodup_append, List.nodup_cons, List.mem_append, List.mem_cons,
        not_or, List.disjoint_cons_left, List.disjoint_cons_right, List.disjoint_append_left,
        List.disjoint_append_right, List.cons_append, List.append_assoc, List.nodup_nil,
        List.not_mem_nil, List.disjoint_nil_left, List.disjoint_nil_right, List.append_nil,
        List.nil_append, not_false_eq_true, true_and, and_true] at hnd'
      simp only [ctxPar_cons, ctxPar_nil, Frame.addr_L, Frame.addr_R, Tree.ptr_node, Tree.ptr_nil] at hpc hloop
      have hS1 : Shape
          { root := t.root, null := t.null,
            heap := setCell (setCell (setCell t.heap t.next
              (some ⟨kv, RED_NODE, none, some t.null, some t.null⟩)) t.next
              (some ⟨kv, RED_NODE, some p, some t.null, some t.null⟩)) p
              (some ⟨kp, cp, ctxPar rest, some t.next, pr.ptr t.null⟩),
            next := t.next + 1 }
          (plug (node t.next RED_NODE nil kv nil) (Frame.L p cp kp pr :: rest)) := by
        rw [Shape.plug_iff]
        simp only [Repr, ReprCtx, setCell_same, setCell_other, Repr_setCell, ReprCtx_setCell, hnd', hsp,
          hps, hsn, hns, hp, Ne.symm hp, hpc, ne_eq, not_false_eq_true, Tree.ptr_node,
          Tree.ptr_nil, ctxPar_cons, ctxPar_nil, ctxRoot_cons, ctxRoot_nil, Frame.addr_L,
          Frame.addr_R, true_and, and_true, Tree.addrs, List.append_assoc, List.cons_append,
          List.nil_append, hspr, hsrest]
        simp only [Tree.addrs, List.append_assoc, List.cons_append, List.nil_append, Tree.ptr_nil, ctxRoot_cons, ctxRoot_nil, Frame.addr_L, Frame.addr_R, ctxAddrs, List.nodup_cons, List.mem_cons, List.mem_append, not_or] at hnd hroot ⊢
        and_intros <;> first | assumption | exact hnd.1.1 | exact hnd.1.2 | exact hnd.2
      have hpar1 := hS1.parent_eq
      have hpar2 := hS1.frame_parent
      simp only [ctxPar_cons, Frame.addr_L, Frame.addr_R] at hpar1 hpar2
      have hcell0 : (setCell (setCell (setCell t.heap t.next
              (some ⟨kv, RED_NODE, none, some t.null, some t.null⟩)) t.next
              (some ⟨kv, RED_NODE, some p, some t.null, some t.null⟩)) p
              (some ⟨kp, cp, ctxPar rest, some t.next, pr.ptr t.null⟩)) t.null = t.heap t.null := by
        simp only [setCell_other, hns, Ne.symm hp, ne_eq, not_false_eq_true]
      simp only [RBT.insert, RBT.allocate, RBT.key, RBT.setParent, RBT.setLeft, RBT.setRight, RBT.setColor,
        RBT.modify, RBT.get_some, Exec.some_bind, Exec.pure_eq, hloop, hpc, hsp, hps, hsn, hns, hp,
        Ne.symm hp, hlt1, setCell, if_pos, if_neg, ite_true, ite_false, ne_eq, Option.some.injEq,
        not_false_eq_true, not_true_eq_false, reduceCtorEq, ctxPar_cons, Frame.addr_L,
        Frame.addr_R, Bool.false_eq_true]
      rw [hpar1]
      simp only [Exec.some_bind, reduceCtorEq, if_false]
      rw [hpar2]
      simp only [Exec.some_bind]
      cases rest with
      | nil =>
        simp only [ctxPar_nil, if_true, Exec.pure_eq]
        have hcp : cp = BLACK_NODE := by
          simp only [noRedRed_plug, balanced_plug, nodes_plug, Tree.noRedRed, Tree.balanced, Tree.bh, Tree.nodes, ctxNRR, ctxBal, ctxPreN, ctxPostN, Frame.fill_L, Frame.fill_R, Frame.recolor, Frame.color_L, Frame.color_R, Tree.rootColor_node, Tree.rootColor_nil, reduceCtorEq, if_true, if_false, false_implies, true_implies, true_and, and_true, List.append_assoc, List.cons_append, List.nil_append, List.append_nil, and_self, Nat.add_zero, ite_true, ite_false, forall_const, imp_self, ctxRootColor_cons, ctxRootColor_nil, Tree.blacken, false_and, and_false, implies_true, not_false_eq_true, rootColor_plug] at hrc
          exact hrc
        subst hcp
        refine ⟨_, _, rfl, hS1, rfl, rfl, hcell0, ?_, ?_, ?_, ?_⟩
        · simp only [noRedRed_plug, balanced_plug, nodes_plug, Tree.noRedRed, Tree.balanced, Tree.bh, Tree.nodes, ctxNRR, ctxBal, ctxPreN, ctxPostN, Frame.fill_L, Frame.fill_R, Frame.recolor, Frame.color_L, Frame.color_R, Tree.rootColor_node, Tree.rootColor_nil, reduceCtorEq, if_true, if_false, false_implies, true_implies, true_and, and_true, List.append_assoc, List.cons_append, List.nil_append, List.append_nil, and_self, Nat.add_zero, ite_true, ite_false, forall_const, imp_self, ctxRootColor_cons, ctxRootColor_nil, Tree.blacken, false_and, and_false, implies_true, not_false_eq_true, rootColor_plug]
        · simpa only [noRedRed_plug, balanced_plug, nodes_plug, Tree.noRedRed, Tree.balanced, Tree.bh, Tree.nodes, ctxNRR, ctxBal, ctxPreN, ctxPostN, Frame.fill_L, Frame.fill_R, Frame.recolor, Frame.color_L, Frame.color_R, Tree.rootColor_node, Tree.rootColor_nil, reduceCtorEq, if_true, if_false, false_implies, true_implies, true_and, and_true, List.append_assoc, List.cons_append, List.nil_append, List.append_nil, and_self, Nat.add_zero, ite_true, ite_false, forall_const, imp_self, ctxRootColor_cons, ctxRootColor_nil, Tree.blacken, false_and, and_false, implies_true, not_false_eq_true, rootColor_plug] using hrc
        · simp only [noRedRed_plug, balanced_plug, nodes_plug, Tree.noRedRed, Tree.balanced, Tree.bh, Tree.nodes, ctxNRR, ctxBal, ctxPreN, ctxPostN, Frame.fill_L, Frame.fill_R, Frame.recolor, Frame.color_L, Frame.color_R, Tree.rootColor_node, Tree.rootColor_nil, reduceCtorEq, if_true, if_false, false_implies, true_implies, true_and, and_true, List.append_assoc, List.cons_append, List.nil_append, List.append_nil, and_self, Nat.add_zero, ite_true, ite_false, forall_const, imp_self, ctxRootColor_cons, ctxRootColor_nil, Tree.blacken, false_and, and_false, implies_true, not_false_eq_true, rootColor_plug] at hnr hbl ⊢ <;> (casesm* _ ∧ _) <;> and_intros <;>
            first | assumption | omega | tauto | exact ctxBal_congr ‹ctxBal _ _› (by omega)
        · simp only [noRedRed_plug, balanced_plug, nodes_plug, Tree.noRedRed, Tree.balanced, Tree.bh, Tree.nodes, ctxNRR, ctxBal, ctxPreN, ctxPostN, Frame.fill_L, Frame.fill_R, Frame.recolor, Frame.color_L, Frame.color_R, Tree.rootColor_node, Tree.rootColor_nil, reduceCtorEq, if_true, if_false, false_implies, true_implies, true_and, and_true, List.append_assoc, List.cons_append, List.nil_append, List.append_nil, and_self, Nat.add_zero, ite_true, ite_false, forall_const, imp_self, ctxRootColor_cons, ctxRootColor_nil, Tree.blacken, false_and, and_false, implies_true, not_false_eq_true, rootColor_plug] at hnr hbl ⊢ <;> (casesm* _ ∧ _) <;> and_intros <;>
            first | assumption | omega | tauto | exact ctxBal_congr ‹ctxBal _ _› (by omega)
      | cons f2 rest2 =>
        simp only [ctxPar_cons, reduceCtorEq, if_false]
        have hI : InsInv (node t.next RED_NODE nil kv nil) (Frame.L p cp kp pr :: f2 :: rest2) := by
          refine ⟨rfl, ?_, ?_, List.cons_ne_nil _ _, ?_, ?_, ?_⟩
          · simp only [noRedRed_plug, balanced_plug, nodes_plug, Tree.noRedRed, Tree.balanced, Tree.bh, Tree.nodes, ctxNRR, ctxBal, ctxPreN, ctxPostN, Frame.fill_L, Frame.fill_R, Frame.recolor, Frame.color_L, Frame.color_R, Tree.rootColor_node, Tree.rootColor_nil, reduceCtorEq, if_true, if_false, false_implies, true_implies, true_and, and_true, List.append_assoc, List.cons_append, List.nil_append, List.append_nil, and_self, Nat.add_zero, ite_true, ite_false, forall_const, imp_self, ctxRootColor_cons, ctxRootColor_nil, Tree.blacken, false_and, and_false, implies_true, not_false_eq_true, rootColor_plug] at hnr hbl ⊢ <;> (casesm* _ ∧ _) <;> and_intros <;>
              first | assumption | omega | tauto | exact ctxBal_congr ‹ctxBal _ _› (by omega)
          · simp only [noRedRed_plug, balanced_plug, nodes_plug, Tree.noRedRed, Tree.balanced, Tree.bh, Tree.nodes, ctxNRR, ctxBal, ctxPreN, ctxPostN, Frame.fill_L, Frame.fill_R, Frame.recolor, Frame.color_L, Frame.color_R, Tree.rootColor_node, Tree.rootColor_nil, reduceCtorEq, if_true, if_false, false_implies, true_implies, true_and, and_true, List.append_assoc, List.cons_append, List.nil_append, List.append_nil, and_self, Nat.add_zero, ite_true, ite_false, forall_const, imp_self, ctxRootColor_cons, ctxRootColor_nil, Tree.blacken, false_and, and_false, implies_true, not_false_eq_true, rootColor_plug] at hnr hbl ⊢ <;> (casesm* _ ∧ _) <;> and_intros <;>
              first | assumption | omega | tauto | exact ctxBal_congr ‹ctxBal _ _› (by omega)
          · simpa only [noRedRed_plug, balanced_plug, nodes_plug, Tree.noRedRed, Tree.balanced, Tree.bh, Tree.nodes, ctxNRR, ctxBal, ctxPreN, ctxPostN, Frame.fill_L, Frame.fill_R, Frame.recolor, Frame.color_L, Frame.color_R, Tree.rootColor_node, Tree.rootColor_nil, reduceCtorEq, if_true, if_false, false_implies, true_implies, true_and, and_true, List.append_assoc, List.cons_append, List.nil_append, List.append_nil, and_self, Nat.add_zero, ite_true, ite_false, forall_const, imp_self, ctxRootColor_cons, ctxRootColor_nil, Tree.blacken, false_and, and_false, implies_true, not_false_eq_true, rootColor_plug] using hrc
          · simp only [noRedRed_plug, balanced_plug, nodes_plug, Tree.noRedRed, Tree.balanced, Tree.bh, Tree.nodes, ctxNRR, ctxBal, ctxPreN, ctxPostN, Frame.fill_L, Frame.fill_R, Frame.recolor, Frame.color_L, Frame.color_R, Tree.rootColor_node, Tree.rootColor_nil, reduceCtorEq, if_true, if_false, false_implies, true_implies, true_and, and_true, List.append_assoc, List.cons_append, List.nil_append, List.append_nil, and_self, Nat.add_zero, ite_true, ite_false, forall_const, imp_self, ctxRootColor_cons, ctxRootColor_nil, Tree.blacken, false_and, and_false, implies_true, not_false_eq_true, rootColor_plug] at hnr hbl ⊢ <;> (casesm* _ ∧ _) <;> and_intros <;>
              first | assumption | omega | tauto | exact ctxBal_congr ‹ctxBal _ _› (by omega)
          · simp only [noRedRed_plug, balanced_plug, nodes_plug, Tree.noRedRed, Tree.balanced, Tree.bh, Tree.nodes, ctxNRR, ctxBal, ctxPreN, ctxPostN, Frame.fill_L, Frame.fill_R, Frame.recolor, Frame.color_L, Frame.color_R, Tree.rootColor_node, Tree.rootColor_nil, reduceCtorEq, if_true, if_false, false_implies, true_implies, true_and, and_true, List.append_assoc, List.cons_append, List.nil_append, List.append_nil, and_self, Nat.add_zero, ite_true, ite_false, forall_const, imp_self, ctxRootColor_cons, ctxRootColor_nil, Tree.blacken, false_and, and_false, implies_true, not_false_eq_true, rootColor_plug] at hnr hbl ⊢ <;> (casesm* _ ∧ _) <;> and_intros <;>
              first | assumption | omega | tauto | exact ctxBal_congr ‹ctxBal _ _› (by omega)
        obtain ⟨t2, T2, e2, S2, M2, hn2, hc2, hr2, hb2⟩ :=
          fixInsert_spec t.next _ _ _ (by simpa using hlen) hS1 (by
            obtain ⟨n0, h1, h2⟩ := hsb
            exact ⟨n0, by rw [← h1]; exact hcell0, h2⟩) hI
        simp only [Tree.ptr_node, ctxPar_cons] at e2
        rw [e2]
        simp only [Exec.some_bind, Exec.pure_eq]
        refine ⟨t2, T2, rfl, S2, M2.null, M2.next, ?_, ?_, hc2, hr2, hb2⟩
        · exact M2.cell.trans hcell0
        · rw [hn2]
          simp only [noRedRed_plug, balanced_plug, nodes_plug, Tree.noRedRed, Tree.balanced, Tree.bh, Tree.nodes, ctxNRR, ctxBal, ctxPreN, ctxPostN, Frame.fill_L, Frame.fill_R, Frame.recolor, Frame.color_L, Frame.color_R, Tree.rootColor_node, Tree.rootColor_nil, reduceCtorEq, if_true, if_false, false_implies, true_implies, true_and, and_true, List.append_assoc, List.cons_append, List.nil_append, List.append_nil, and_self, Nat.add_zero, ite_true, ite_false, forall_const, imp_self, ctxRootColor_cons, ctxRootColor_nil, Tree.blacken, false_and, and_false, implies_true, not_false_eq_true, rootColor_plug]
    | R p cp pr kp =>
      rw [Shape.plug_iff] at hS
      obtain ⟨hroot, -, ⟨hp, hpc, hpr, hrest⟩, hnd⟩ := hS
      have hlt1 : ¬ kv.1 < kp.1 := not_lt_of_gt (hbd.1 kp (by simp [ctxPre]))
      have hsmem : t.next ∉ p :: (pr.addrs ++ ctxAddrs rest) := by
        intro h
        apply hfresh
        rw [mem_addrs_plug]
        right
        simpa [ctxAddrs] using h
      simp only [List.mem_cons, List.mem_append, not_or] at hsmem
      obtain ⟨hsp, hspr, hsrest⟩ := hsmem
      have hps : p ≠ t.next := Ne.symm hsp
      have hns : t.null ≠ t.next := Ne.symm hsn
      have hnd' := hnd
      simp only [Tree.addrs, ctxAddrs, List.nodup_append, List.nodup_cons, List.mem_append, List.mem_cons,
        not_or, List.disjoint_cons_left, List.disjoint_cons_right, List.disjoint_append_left,
        List.disjoint_append_right, List.cons_append, List.append_assoc, List.nodup_nil,
        List.not_mem_nil, List.disjoint_nil_left, List.disjoint_nil_right, List.append_nil,
        List.nil_append, not_false_eq_true, true_and, and_true] at hnd'
      simp only [ctxPar_cons, ctxPar_nil, Frame.addr_L, Frame.addr_R, Tree.ptr_node, Tree.ptr_nil] at hpc hloop
      have hS1 : Shape
          { root := t.root, null := t.null,
            heap := setCell (setCell (setCell t.heap t.next
              (some ⟨kv, RED_NODE, none, some t.null, some t.null⟩)) t.next
              (some ⟨kv, RED_NODE, some p, some t.null, some t.null⟩)) p
              (some ⟨kp, cp, ctxPar rest, pr.ptr t.null, some t.next⟩),
            next := t.next + 1 }
          (plug (node t.next RED_NODE nil kv nil) (Frame.R p cp pr kp :: rest)) := by
        rw [Shape.plug_iff]
        simp only [Repr, ReprCtx, setCell_same, setCell_other, Repr_setCell, ReprCtx_setCell, hnd', hsp,
          hps, hsn, hns, hp, Ne.symm hp, hpc, ne_eq, not_false_eq_true, Tree.ptr_node,
          Tree.ptr_nil, ctxPar_cons, ctxPar_nil, ctxRoot_cons, ctxRoot_nil, Frame.addr_L,
          Frame.addr_R, true_and, and_true, Tree.addrs, List.append_assoc, List.cons_append,
          List.nil_append, hspr, hsrest]
        simp only [Tree.addrs, List.append_assoc, List.cons_append, List.nil_append, Tree.ptr_nil, ctxRoot_cons, ctxRoot_nil, Frame.addr_L, Frame.addr_R, ctxAddrs, List.nodup_cons, List.mem_cons, List.mem_append, not_or] at hnd hroot ⊢
        and_intros <;> first | assumption | exact hnd.1.1 | exact hnd.1.2 | exact hnd.2
      have hpar1 := hS1.parent_eq
      have hpar2 := hS1.frame_parent
      simp only [ctxPar_cons, Frame.addr_L, Frame.addr_R] at hpar1 hpar2
      have hcell0 : (setCell (setCell (setCell t.heap t.next
              (some ⟨kv, RED_NODE, none, some t.null, some t.null⟩)) t.next
              (some ⟨kv, RED_NODE, some p, some t.null, some t.null⟩)) p
              (some ⟨kp, cp, ctxPar rest, pr.ptr t.null, some t.next⟩)) t.null = t.heap t.null := by
        simp only [setCell_other, hns, Ne.symm hp, ne_eq, not_false_eq_true]
      simp only [RBT.insert, RBT.allocate, RBT.key, RBT.setParent, RBT.setLeft, RBT.setRight, RBT.setColor,
        RBT.modify, RBT.get_some, Exec.some_bind, Exec.pure_eq, hloop, hpc, hsp, hps, hsn, hns, hp,
        Ne.symm hp, hlt1, setCell, if_pos, if_neg, ite_true, ite_false, ne_eq, Option.some.injEq,
        not_false_eq_true, not_true_eq_false, reduceCtorEq, ctxPar_cons, Frame.addr_L,
        Frame.addr_R, Bool.false_eq_true]
      rw [hpar1]
      simp only [Exec.some_bind, reduceCtorEq, if_false]
      rw [hpar2]
      simp only [Exec.some_bind]
      cases rest with
      | nil =>
        simp only [ctxPar_nil, if_true, Exec.pure_eq]
        have hcp : cp = BLACK_NODE := by
          simp only [noRedRed_plug, balanced_plug, nodes_plug, Tree.noRedRed, Tree.balanced, Tree.bh, Tree.nodes, ctxNRR, ctxBal, ctxPreN, ctxPostN, Frame.fill_L, Frame.fill_R, Frame.recolor, Frame.color_L, Frame.color_R, Tree.rootColor_node, Tree.rootColor_nil, reduceCtorEq, if_true, if_false, false_implies, true_implies, true_and, and_true, List.append_assoc, List.cons_append, List.nil_append, List.append_nil, and_self, Nat.add_zero, ite_true, ite_false, forall_const, imp_self, ctxRootColor_cons, ctxRootColor_nil, Tree.blacken, false_and, and_false, implies_true, not_false_eq_true, rootColor_plug] at hrc
          exact hrc
        subst hcp
        refine ⟨_, _, rfl, hS1, rfl, rfl, hcell0, ?_, ?_, ?_, ?_⟩
        · simp only [noRedRed_plug, balanced_plug, nodes_plug, Tree.noRedRed, Tree.balanced, Tree.bh, Tree.nodes, ctxNRR, ctxBal, ctxPreN, ctxPostN, Frame.fill_L, Frame.fill_R, Frame.recolor, Frame.color_L, Frame.color_R, Tree.rootColor_node, Tree.rootColor_nil, reduceCtorEq, if_true, if_false, false_implies, true_implies, true_and, and_true, List.append_assoc, List.cons_append, List.nil_append, List.append_nil, and_self, Nat.add_zero, ite_true, ite_false, forall_const, imp_self, ctxRootColor_cons, ctxRootColor_nil, Tree.blacken, false_and, and_false, implies_true, not_false_eq_true, rootColor_plug]
        · simpa only [noRedRed_plug, balanced_plug, nodes_plug, Tree.noRedRed, Tree.balanced, Tree.bh, Tree.nodes, ctxNRR, ctxBal, ctxPreN, ctxPostN, Frame.fill_L, Frame.fill_R, Frame.recolor, Frame.color_L, Frame.color_R, Tree.rootColor_node, Tree.rootColor_nil, reduceCtorEq, if_true, if_false, false_implies, true_implies, true_and, and_true, List.append_assoc, List.cons_append, List.nil_append, List.append_nil, and_self, Nat.add_zero, ite_true, ite_false, forall_const, imp_self, ctxRootColor_cons, ctxRootColor_nil, Tree.blacken, false_and, and_false, implies_true, not_false_eq_true, rootColor_plug] using hrc
        · simp only [noRedRed_plug, balanced_plug, nodes_plug, Tree.noRedRed, Tree.balanced, Tree.bh, Tree.nodes, ctxNRR, ctxBal, ctxPreN, ctxPostN, Frame.fill_L, Frame.fill_R, Frame.recolor, Frame.color_L, Frame.color_R, Tree.rootColor_node, Tree.rootColor_nil, reduceCtorEq, if_true, if_false, false_implies, true_implies, true_and, and_true, List.append_assoc, List.cons_append, List.nil_append, List.append_nil, and_self, Nat.add_zero, ite_true, ite_false, forall_const, imp_self, ctxRootColor_cons, ctxRootColor_nil, Tree.blacken, false_and, and_false, implies_true, not_false_eq_true, rootColor_plug] at hnr hbl ⊢ <;> (casesm* _ ∧ _) <;> and_intros <;>
            first | assumption | omega | tauto | exact ctxBal_congr ‹ctxBal _ _› (by omega)
        · simp only [noRedRed_plug, balanced_plug, nodes_plug, Tree.noRedRed, Tree.balanced, Tree.bh, Tree.nodes, ctxNRR, ctxBal, ctxPreN, ctxPostN, Frame.fill_L, Frame.fill_R, Frame.recolor, Frame.color_L, Frame.color_R, Tree.rootColor_node, Tree.rootColor_nil, reduceCtorEq, if_true, if_false, false_implies, true_implies, true_and, and_true, List.append_assoc, List.cons_append, List.nil_append, List.append_nil, and_self, Nat.add_zero, ite_true, ite_false, forall_const, imp_self, ctxRootColor_cons, ctxRootColor_nil, Tree.blacken, false_and, and_false, implies_true, not_false_eq_true, rootColor_plug] at hnr hbl ⊢ <;> (casesm* _ ∧ _) <;> and_intros <;>
            first | assumption | omega | tauto | exact ctxBal_congr ‹ctxBal _ _› (by omega)
      | cons f2 rest2 =>
        simp only [ctxPar_cons, reduceCtorEq, if_false]
        have hI : InsInv (node t.next RED_NODE nil kv nil) (Frame.R p cp pr kp :: f2 :: rest2) := by
          refine ⟨rfl, ?_, ?_, List.cons_ne_nil _ _, ?_, ?_, ?_⟩
          · simp only [noRedRed_plug, balanced_plug, nodes_plug, Tree.noRedRed, Tree.balanced, Tree.bh, Tree.nodes, ctxNRR, ctxBal, ctxPreN, ctxPostN, Frame.fill_L, Frame.fill_R, Frame.recolor, Frame.color_L, Frame.color_R, Tree.rootColor_node, Tree.rootColor_nil, reduceCtorEq, if_true, if_false, false_implies, true_implies, true_and, and_true, List.append_assoc, List.cons_append, List.nil_append, List.append_nil, and_self, Nat.add_zero, ite_true, ite_false, forall_const, imp_self, ctxRootColor_cons, ctxRootColor_nil, Tree.blacken, false_and, and_false, implies_true, not_false_eq_true, rootColor_plug] at hnr hbl ⊢ <;> (casesm* _ ∧ _) <;> and_intros <;>
              first | assumption | omega | tauto | exact ctxBal_congr ‹ctxBal _ _› (by omega)
          · simp only [noRedRed_plug, balanced_plug, nodes_plug, Tree.noRedRed, Tree.balanced, Tree.bh, Tree.nodes, ctxNRR, ctxBal, ctxPreN, ctxPostN, Frame.fill_L, Frame.fill_R, Frame.recolor, Frame.color_L, Frame.color_R, Tree.rootColor_node, Tree.rootColor_nil, reduceCtorEq, if_true, if_false, false_implies, true_implies, true_and, and_true, List.append_assoc, List.cons_append, List.nil_append, List.append_nil, and_self, Nat.add_zero, ite_true, ite_false, forall_const, imp_self, ctxRootColor_cons, ctxRootColor_nil, Tree.blacken, false_and, and_false, implies_true, not_false_eq_true, rootColor_plug] at hnr hbl ⊢ <;> (casesm* _ ∧ _) <;> and_intros <;>
              first | assumption | omega | tauto | exact ctxBal_congr ‹ctxBal _ _› (by omega)
          · simpa only [noRedRed_plug, balanced_plug, nodes_plug, Tree.noRedRed, Tree.balanced, Tree.bh, Tree.nodes, ctxNRR, ctxBal, ctxPreN, ctxPostN, Frame.fill_L, Frame.fill_R, Frame.recolor, Frame.color_L, Frame.color_R, Tree.rootColor_node, Tree.rootColor_nil, reduceCtorEq, if_true, if_false, false_implies, true_implies, true_and, and_true, List.append_assoc, List.cons_append, List.nil_append, List.append_nil, and_self, Nat.add_zero, ite_true, ite_false, forall_const, imp_self, ctxRootColor_cons, ctxRootColor_nil, Tree.blacken, false_and, and_false, implies_true, not_false_eq_true, rootColor_plug] using hrc
          · simp only [noRedRed_plug, balanced_plug, nodes_plug, Tree.noRedRed, Tree.balanced, Tree.bh, Tree.nodes, ctxNRR, ctxBal, ctxPreN, ctxPostN, Frame.fill_L, Frame.fill_R, Frame.recolor, Frame.color_L, Frame.color_R, Tree.rootColor_node, Tree.rootColor_nil, reduceCtorEq, if_true, if_false, false_implies, true_implies, true_and, and_true, List.append_assoc, List.cons_append, List.nil_append, List.append_nil, and_self, Nat.add_zero, ite_true, ite_false, forall_const, imp_self, ctxRootColor_cons, ctxRootColor_nil, Tree.blacken, false_and, and_false, implies_true, not_false_eq_true, rootColor_plug] at hnr hbl ⊢ <;> (casesm* _ ∧ _) <;> and_intros <;>
              first | assumption | omega | tauto | exact ctxBal_congr ‹ctxBal _ _› (by omega)
          · simp only [noRedRed_plug, balanced_plug, nodes_plug, Tree.noRedRed, Tree.balanced, Tree.bh, Tree.nodes, ctxNRR, ctxBal, ctxPreN, ctxPostN, Frame.fill_L, Frame.fill_R, Frame.recolor, Frame.color_L, Frame.color_R, Tree.rootColor_node, Tree.rootColor_nil, reduceCtorEq, if_true, if_false, false_implies, true_implies, true_and, and_true, List.append_assoc, List.cons_append, List.nil_append, List.append_nil, and_self, Nat.add_zero, ite_true, ite_false, forall_const, imp_self, ctxRootColor_cons, ctxRootColor_nil, Tree.blacken, false_and, and_false, implies_true, not_false_eq_true, rootColor_plug] at hnr hbl ⊢ <;> (casesm* _ ∧ _) <;> and_intros <;>
              first | assumption | omega | tauto | exact ctxBal_congr ‹ctxBal _ _› (by omega)
        obtain ⟨t2, T2, e2, S2, M2, hn2, hc2, hr2, hb2⟩ :=
          fixInsert_spec t.next _ _ _ (by simpa using hlen) hS1 (by
            obtain ⟨n0, h1, h2⟩ := hsb
            exact ⟨n0, by rw [← h1]; exact hcell0, h2⟩) hI
        simp only [Tree.ptr_node, ctxPar_cons] at e2
        rw [e2]
        simp only [Exec.some_bind, Exec.pure_eq]
        refine ⟨t2, T2, rfl, S2, M2.null, M2.next, ?_, ?_, hc2, hr2, hb2⟩
        · exact M2.cell.trans hcell0
        · rw [hn2]
          simp only [noRedRed_plug, balanced_plug, nodes_plug, Tree.noRedRed, Tree.balanced, Tree.bh, Tree.nodes, ctxNRR, ctxBal, ctxPreN, ctxPostN, Frame.fill_L, Frame.fill_R, Frame.recolor, Frame.color_L, Frame.color_R, Tree.rootColor_node, Tree.rootColor_nil, reduceCtorEq, if_true, if_false, false_implies, true_implies, true_and, and_true, List.append_assoc, List.cons_append, List.nil_append, List.append_nil, and_self, Nat.add_zero, ite_true, ite_false, forall_const, imp_self, ctxRootColor_cons, ctxRootColor_nil, Tree.blacken, false_and, and_false, implies_true, not_false_eq_true, rootColor_plug]

end FtContainers

namespace FtContainers

open Color Tree

variable {K V : Type}

theorem ctxPre_eq (ctx : List (Frame K V)) : ctxPre ctx = (ctxPreN ctx).map Prod.snd := by
  induction ctx with
  | nil => rfl
  | cons f rest ih => cases f <;> simp [ctxPre, ctxPreN, ih, Tree.inorder_eq_nodes]

theorem ctxPost_eq (ctx : List (Frame K V)) : ctxPost ctx = (ctxPostN ctx).map Prod.snd := by
  induction ctx with
  | nil => rfl
  | cons f rest ih => cases f <;> simp [ctxPost, ctxPostN, ih, Tree.inorder_eq_nodes]

variable [LinearOrder K]

/-! ## Well-formed states -/

theorem RBT.WF.unpack {t : RBT K V} (h : t.WF) :
    ∃ T, t.tree = some T ∧ Shape t T ∧ T.BST ∧ (∀ a ∈ T.addrs, a < t.next) ∧
      t.null < t.next ∧ t.sentinelBlack ∧ T.rootColor = BLACK_NODE ∧ T.noRedRed ∧ T.balanced := by
  obtain ⟨⟨h1, h2⟩, ⟨T, h3, h4⟩, ⟨T', h5, h6, h7, h8, h9⟩⟩ := h
  have : T' = T := Option.some.inj (h5.symm.trans h3)
  subst this
  exact ⟨T', h3, Shape.of_tree h3 h4, h4, h2 T' h3, h1, h9, h6, h7, h8⟩

theorem RBT.WF.pack {t : RBT K V} {T : Tree K V} (hS : Shape t T) (hb : T.BST)
    (hlt : ∀ a ∈ T.addrs, a < t.next) (hn : t.null < t.next) (hsb : t.sentinelBlack)
    (hrc : T.rootColor = BLACK_NODE) (hnr : T.noRedRed) (hbl : T.balanced) :
    t.tree = some T ∧ t.WF := by
  have ht := hS.tree_eq hlt hn
  refine ⟨ht, ⟨hn, ?_⟩, ⟨T, ht, hb⟩, ⟨T, ht, hrc, hnr, hbl, hsb⟩⟩
  intro T' h'
  have : T' = T := Option.some.inj (h'.symm.trans ht)
  subst this
  exact hlt

/-! ## `insert` of a key that is present -/

theorem insert_present {t : RBT K V} {T : Tree K V} {kv : K × V} (ht : t.tree = some T)
    (h : t.WF) (hk : kv.1 ∈ T.keys) :
    ∃ t' a, t.insert kv = some (t', some a, false) ∧ a ∈ T.addrs ∧
      t.searchTree kv = some (some a) ∧ t'.root = t.root ∧ t'.null = t.null ∧
      t'.next = t.next + 1 ∧ (∀ b, b < t.next → t'.heap b = t.heap b) ∧
      t'.tree = some T ∧ t'.WF := by
  obtain ⟨T0, ht0, hS, hb, hlt, hn, hsb, hrc, hnr, hbl⟩ := h.unpack
  have : T0 = T := Option.some.inj (ht0.symm.trans ht)
  subst this
  have hfresh : t.next ∉ T0.addrs := fun hm => Nat.lt_irrefl _ (hlt _ hm)
  have hfind : (T0.find kv.1 []).1 ≠ nil := fun e => (find_nil_iff kv.1 T0 hb).1 e hk
  rcases find_cases kv.1 T0 [] with e | ⟨a, c, l, v, r, e⟩
  · exact absurd e hfind
  · have hp := find_plug kv.1 T0 []
    rw [e, plug_nil] at hp
    have hmem : a ∈ T0.addrs := by
      rw [← hp, mem_addrs_plug]
      left
      simp [Tree.addrs]
    have hS0 : Shape (t.allocate ⟨kv, RED_NODE, none, some t.null, some t.null⟩).1 (plug T0 []) :=
      hS.setCell_fresh hfresh _ _ rfl _
    have hkey : (t.allocate ⟨kv, RED_NODE, none, some t.null, some t.null⟩).1.key (some t.next) =
        some kv.1 := by
      simp [RBT.allocate, RBT.key]
    have hloop := insertLoop_eq hkey T0 [] (t.next + 1) hS0
      (Nat.lt_succ_of_lt (tree_height_lt ht))
    rw [e] at hloop
    simp only [ctxPar_nil, RBT.allocate] at hloop
    rw [← hS.root] at hloop
    have hsearch := searchTree_eq kv ht hb
    rw [e] at hsearch
    refine ⟨RBT.mk t.root t.null (setCell (setCell t.heap t.next
      (some ⟨kv, RED_NODE, none, some t.null, some t.null⟩)) t.next none) (t.next + 1),
      a, ?_, hmem, hsearch, ?_⟩
    · simp only [RBT.insert, RBT.allocate, hloop, Exec.some_bind, RBT.deallocate, setCell_same,
        if_true, Exec.pure_eq]
    · have hS' : Shape
          { root := t.root, null := t.null,
            heap := setCell (setCell t.heap t.next
              (some ⟨kv, RED_NODE, none, some t.null, some t.null⟩)) t.next none,
            next := t.next + 1 } T0 := by
        have h1 := hS.setCell_fresh hfresh
          (some ⟨kv, RED_NODE, none, some t.null, some t.null⟩) t.root rfl t.next
        exact h1.setCell_fresh hfresh none t.root rfl (t.next + 1)
      have hne : t.null ≠ t.next := Nat.ne_of_lt hn
      have hsb' : RBT.sentinelBlack
          { root := t.root, null := t.null,
            heap := setCell (setCell t.heap t.next
              (some ⟨kv, RED_NODE, none, some t.null, some t.null⟩)) t.next none,
            next := t.next + 1 } := by
        obtain ⟨n0, h1, h2⟩ := hsb
        exact ⟨n0, by simp only [setCell_other _ _ hne]; exact h1, h2⟩
      have hp' := RBT.WF.pack hS' hb (fun a ha => Nat.lt_succ_of_lt (hlt a ha))
        (Nat.lt_succ_of_lt hn) hsb' hrc hnr hbl
      refine ⟨rfl, rfl, rfl, ?_, hp'.1, hp'.2⟩
      intro b hb'
      have : b ≠ t.next := Nat.ne_of_lt hb'
      simp only [setCell_other _ _ this]

/-! ## `insert` of a key that is absent -/

/-- The code of `insert` for an absent key, with the place `ctx` where the
descent ends: the pointer returned is the parent of that place. -/
theorem insert_absent_full {t : RBT K V} {T : Tree K V} {kv : K × V} (ht : t.tree = some T)
    (h : t.WF) (hk : kv.1 ∉ T.keys) :
    ∃ ctx t' T', T = plug nil ctx ∧ ctxBounded kv.1 ctx ∧
      t.insert kv = some (t', ctxPar ctx, true) ∧ t'.WF ∧ t'.tree = some T' ∧
      T'.nodes = ctxPreN ctx ++ (t.next, kv) :: ctxPostN ctx ∧
      T'.inorder.Perm (kv :: T.inorder) ∧ t'.null = t.null ∧ t'.next = t.next + 1 ∧
      T'.addrs.Perm (t.next :: T.addrs) ∧ t'.heap t.null = t.heap t.null := by
  obtain ⟨T0, ht0, hS, hb, hlt, hn, hsb, hrc, hnr, hbl⟩ := h.unpack
  have : T0 = T := Option.some.inj (ht0.symm.trans ht)
  subst this
  have hfresh : t.next ∉ T0.addrs := fun hm => Nat.lt_irrefl _ (hlt _ hm)
  have e := (find_nil_iff kv.1 T0 hb).2 hk
  have hp := find_plug kv.1 T0 []
  have hbd := find_bounded kv.1 T0 [] hb (ctxBounded_nil kv.1)
  have hS0 : Shape (t.allocate ⟨kv, RED_NODE, none, some t.null, some t.null⟩).1 (plug T0 []) :=
    hS.setCell_fresh hfresh _ _ rfl _
  have hkey : (t.allocate ⟨kv, RED_NODE, none, some t.null, some t.null⟩).1.key (some t.next) =
      some kv.1 := by
    simp [RBT.allocate, RBT.key]
  have hloop := insertLoop_eq hkey T0 [] (t.next + 1) hS0
    (Nat.lt_succ_of_lt (tree_height_lt ht))
  have hhl := tree_height_lt ht
  rcases hfr : T0.find kv.1 [] with ⟨S', ctx⟩
  rw [hfr] at e hp hbd hloop
  simp only at e hp hbd hloop
  subst e
  simp only [plug_nil] at hp hloop
  subst hp
  have hroot : (t.allocate ⟨kv, RED_NODE, none, some t.null, some t.null⟩).1.root = t.root := rfl
  have hnull : (t.allocate ⟨kv, RED_NODE, none, some t.null, some t.null⟩).1.null = t.null := rfl
  rw [hnull, ← hS.root, ← hroot] at hloop
  have hlen : ctx.length ≤ t.next := by
    have := length_le_height (nil : Tree K V) ctx
    omega
  obtain ⟨t', T', e1, S1, hnl, hnx, hcell, hnodes, hrc', hnr', hbl'⟩ :=
    insert_absent_core hS (Nat.ne_of_gt hn) hfresh hlen hloop hbd hsb hrc hnr hbl
  have hT : (plug (nil : Tree K V) ctx).nodes = ctxPreN ctx ++ ctxPostN ctx := by
    rw [nodes_plug]; simp [Tree.nodes]
  have hin : T'.inorder = ctxPre ctx ++ kv :: ctxPost ctx := by
    rw [Tree.inorder_eq_nodes, hnodes, ctxPre_eq, ctxPost_eq]; simp
  have hin0 : (plug (nil : Tree K V) ctx).inorder = ctxPre ctx ++ ctxPost ctx := by
    rw [inorder_plug]; simp [Tree.inorder]
  have hbst : T'.BST := by
    unfold Tree.BST Tree.keys
    rw [hin]
    unfold Tree.BST Tree.keys at hb
    rw [hin0] at hb
    simp only [List.map_append, List.map_cons, List.pairwise_append, List.pairwise_cons,
      List.mem_map, List.mem_cons, forall_exists_index, and_imp] at hb ⊢
    refine ⟨hb.1, ⟨?_, hb.2.1⟩, ?_⟩
    · rintro k x hx rfl
      exact hbd.2 x hx
    · rintro k x hx rfl b hb'
      rcases hb' with rfl | ⟨y, hy, rfl⟩
      · exact hbd.1 x hx
      · exact hb.2.2 _ x hx rfl _ y hy rfl
  have hadd : T'.addrs.Perm (t.next :: (plug (nil : Tree K V) ctx).addrs) := by
    rw [Tree.addrs_eq_nodes, Tree.addrs_eq_nodes, hnodes, hT]
    simp only [List.map_append, List.map_cons]
    exact List.perm_middle
  have hsb' : t'.sentinelBlack := by
    obtain ⟨n0, h1, h2⟩ := hsb
    exact ⟨n0, by rw [hnl, hcell]; exact h1, h2⟩
  have hw := RBT.WF.pack S1 hbst (by
      intro a ha
      rw [hnx]
      rcases List.mem_cons.1 (hadd.mem_iff.1 ha) with rfl | h'
      · exact Nat.lt_succ_self _
      · exact Nat.lt_succ_of_lt (hlt a h')) (by rw [hnl, hnx]; exact Nat.lt_succ_of_lt hn)
    hsb' hrc' hnr' hbl'
  refine ⟨ctx, t', T', rfl, hbd, e1, hw.2, hw.1, hnodes, ?_, hnl, hnx, hadd, hcell⟩
  rw [hin, hin0]
  exact List.perm_middle

theorem insert_absent {t : RBT K V} {T : Tree K V} {kv : K × V} (ht : t.tree = some T)
    (h : t.WF) (hk : kv.1 ∉ T.keys) :
    ∃ t' y T', t.insert kv = some (t', y, true) ∧ t'.WF ∧ t'.tree = some T' ∧
      T'.inorder.Perm (kv :: T.inorder) ∧ t'.null = t.null ∧ t'.next = t.next + 1 ∧
      T'.addrs.Perm (t.next :: T.addrs) := by
  obtain ⟨ctx, t', T', -, -, e1, h1, h2, -, h3, h4, h5, h6, -⟩ := insert_absent_full ht h hk
  exact ⟨t', _, T', e1, h1, h2, h3, h4, h5, h6⟩

end FtContainers

namespace FtContainers

open Color Tree

variable {K V : Type} [LinearOrder K]

/-! ## What `searchTree` finds -/

theorem value_unique {l : List (K × V)} (hnd : (l.map Prod.fst).Nodup) {k : K} {v v' : V}
    (h1 : (k, v) ∈ l) (h2 : (k, v') ∈ l) : v = v' := by
  have := List.inj_on_of_nodup_map hnd h1 h2 rfl
  exact (Prod.mk.inj this).2

/-- On a BST, `searchTree` returns the node that holds the pair with the key
searched for. -/
theorem search_finds {t : RBT K V} {T : Tree K V} (ht : t.tree = some T) (hb : T.BST)
    {k : K} {v : V} (hm : (k, v) ∈ T.inorder) (v' : V) :
    ∃ a n, t.searchTree (k, v') = some (some a) ∧ a ∈ T.addrs ∧ a ≠ t.null ∧
      t.heap a = some n ∧ n.val = (k, v) := by
  have hS := Shape.of_tree ht hb
  have hk : k ∈ T.keys := List.mem_map.2 ⟨(k, v), hm, rfl⟩
  have hne : (T.find k []).1 ≠ nil := fun e => (find_nil_iff k T hb).1 e hk
  have hp := find_plug k T []
  have hs := searchTree_eq (k, v') ht hb
  rcases find_cases k T [] with e | ⟨a, c, l, w, r, e⟩
  · exact absurd e hne
  · rw [e] at hp hs
    rw [plug_nil] at hp
    have hS' : Shape t (plug (node a c l (k, w) r) (T.find k []).2) := by rw [hp]; exact hS
    have hw : (k, w) ∈ T.inorder := by
      rw [← hp, inorder_plug]
      simp [Tree.inorder]
    have hvw : v = w := value_unique hb.nodup_keys hm hw
    subst hvw
    refine ⟨a, _, hs, ?_, hS'.focus_ne_null, hS'.cell, rfl⟩
    rw [← hp, mem_addrs_plug]
    left
    simp [Tree.addrs]

/-- On a BST, `searchTree` returns the sentinel for a key that is absent. -/
theorem search_absent {t : RBT K V} {T : Tree K V} (ht : t.tree = some T) (hb : T.BST)
    {key : K × V} (hk : key.1 ∉ T.keys) : t.searchTree key = some (some t.null) := by
  rw [searchTree_eq key ht hb, (find_nil_iff key.1 T hb).2 hk]
  rfl

theorem search_present_ne_null {t : RBT K V} {T : Tree K V} (ht : t.tree = some T) (hb : T.BST)
    {key : K × V} (hk : key.1 ∈ T.keys) : t.searchTree key ≠ some (some t.null) := by
  obtain ⟨x, hx, hx1⟩ := List.mem_map.1 hk
  obtain ⟨a, n, h1, -, h3, -, -⟩ := search_finds ht hb (k := x.1) (v := x.2) hx key.2
  rw [hx1] at h1
  intro h
  rw [h1] at h
  exact h3 (Option.some.inj (Option.some.inj h))

theorem RBT.inorder_of_tree {t : RBT K V} {T : Tree K V} (ht : t.tree = some T) :
    t.inorder = T.inorder := by
  simp [RBT.inorder, ht]

theorem RBT.keys_of_tree {t : RBT K V} {T : Tree K V} (ht : t.tree = some T) :
    t.keys = T.keys := by
  simp [RBT.keys, RBT.inorder, ht, Tree.keys]

end FtContainers

namespace FtContainers

open Color Tree

variable {K V : Type} [LinearOrder K]

/-! ## Sequences of inserts -/

theorem new_wf [Inhabited K] [Inhabited V] :
    (RBT.new : RBT K V).tree = some nil ∧ (RBT.new : RBT K V).WF := by
  have hS : Shape (RBT.new : RBT K V) nil := ⟨rfl, trivial, List.nodup_nil⟩
  refine RBT.WF.pack hS ?_ ?_ ?_ ?_ rfl trivial trivial
  · exact List.Pairwise.nil
  · intro a ha; exact absurd ha (List.not_mem_nil _)
  · exact Nat.lt_succ_self 0
  · exact ⟨_, rfl, rfl⟩

theorem insertAll_spec (l : List (K × V)) :
    ∀ (t : RBT K V) (T : Tree K V), t.WF → t.tree = some T → (l.map Prod.fst).Nodup →
      (∀ x ∈ l, x.1 ∉ T.keys) →
      ∃ t' T', t.insertAll l = some t' ∧ t'.WF ∧ t'.tree = some T' ∧ t'.null = t.null ∧
        T'.inorder.Perm (l ++ T.inorder) := by
  induction l with
  | nil =>
    intro t T h ht _ _
    exact ⟨t, T, rfl, h, ht, rfl, List.Perm.refl _⟩
  | cons kv rest ih =>
    intro t T h ht hd hk
    simp only [List.map_cons, List.nodup_cons] at hd
    obtain ⟨t1, y, T1, e1, h1, ht1, hp1, hn1, -, -⟩ :=
      insert_absent ht h (hk kv (List.mem_cons_self _ _))
    have hk1 : ∀ x ∈ rest, x.1 ∉ T1.keys := by
      intro x hx hm
      have : x.1 ∈ (kv :: T.inorder).map Prod.fst := (hp1.map Prod.fst).mem_iff.1 hm
      simp only [List.map_cons, List.mem_cons] at this
      rcases this with e | h'
      · exact hd.1 (e ▸ List.mem_map.2 ⟨x, hx, rfl⟩)
      · exact hk x (List.mem_cons_of_mem _ hx) h'
    obtain ⟨t2, T2, e2, h2, ht2, hn2, hp2⟩ := ih t1 T1 h1 ht1 hd.2 hk1
    refine ⟨t2, T2, ?_, h2, ht2, hn2.trans hn1, ?_⟩
    · simp only [RBT.insertAll, e1, Exec.some_bind]
      exact e2
    · refine hp2.trans ?_
      refine (List.Perm.append_left rest hp1).trans ?_
      simp only [List.cons_append]
      exact List.perm_middle

/-! ## Claims on `insert` and `searchTree` -/

theorem demo_tree : demo.tree = some demoTree := by decide

theorem demo_wf : demo.WF := by
  refine ⟨⟨by decide, ?_⟩, ⟨demoTree, demo_tree, by decide⟩,
    ⟨demoTree, demo_tree, by decide, by decide, by decide, ⟨_, rfl, rfl⟩⟩⟩
  intro T hT
  rw [demo_tree] at hT
  cases hT
  decide

/-- C1: `insert` preserves the red-black invariants.  On every tree with BST
ordering, consistent parent links and invariants 1 to 4, and for every key and
value, `insert` returns, and the state it leaves satisfies invariants 1 to 4:
root BLACK, no RED node with a RED child, equal black-height on all paths,
sentinel BLACK. -/
theorem insert_preserves_redblack (t : RBT K V) (key : K × V) (h : t.WF) :
    ∃ r, t.insert key = some r ∧ r.1.RedBlack := by
  obtain ⟨T, ht, -⟩ := h.unpack
  by_cases hk : key.1 ∈ T.keys
  · obtain ⟨t', a, e, -, -, -, -, -, -, -, hw⟩ := insert_present ht h hk
    exact ⟨_, e, hw.2.2⟩
  · obtain ⟨t', y, T', e, hw, -⟩ := insert_absent ht h hk
    exact ⟨_, e, hw.2.2⟩

theorem insert_preserves_redblack_witness :
    demo.WF ∧ ∃ r, demo.insert (25, 7) = some r ∧ r.1.RedBlack :=
  ⟨demo_wf, insert_preserves_redblack demo (25, 7) demo_wf⟩

/-- C3: for every finite sequence of pairwise distinct keys inserted one after
another into an empty tree, after each insert (that is, for every prefix of
the sequence) the in-order traversal of the tree is strictly ascending and
lists exactly the pairs inserted so far, each once. -/
theorem inorder_after_inserts [Inhabited K] [Inhabited V] (l : List (K × V))
    (hd : (l.map Prod.fst).Nodup) (n : Nat) :
    ∃ t T, (RBT.new : RBT K V).insertAll (l.take n) = some t ∧ t.tree = some T ∧
      T.keys.Pairwise (fun a b => a < b) ∧ T.inorder.Perm (l.take n) ∧
      T.keys.Perm ((l.take n).map Prod.fst) := by
  have hd' : ((l.take n).map Prod.fst).Nodup := by
    rw [List.map_take]
    exact hd.sublist (List.take_sublist _ _)
  obtain ⟨h0, hw⟩ := new_wf (K := K) (V := V)
  obtain ⟨t, T, e, h, ht, -, hp⟩ := insertAll_spec (l.take n) _ nil hw h0 hd' (by
    intro x _ hx
    exact absurd hx (List.not_mem_nil _))
  obtain ⟨T', ht', -, hb, -⟩ := h.unpack
  have : T' = T := Option.some.inj (ht'.symm.trans ht)
  subst this
  simp only [Tree.inorder, List.append_nil] at hp
  exact ⟨t, T', e, ht, hb, hp, hp.map Prod.fst⟩

theorem inorder_after_inserts_witness :
    ([(20, 0), (10, 0), (30, 0)].map Prod.fst).Nodup ∧
      ∃ t T, (RBT.new : RBT Nat Nat).insertAll ([(20, 0), (10, 0), (30, 0)].take 2) = some t ∧
        t.tree = some T ∧ T.keys.Pairwise (fun a b => a < b) ∧
        T.inorder.Perm ([(20, 0), (10, 0), (30, 0)].take 2) ∧
        T.keys.Perm (([(20, 0), (10, 0), (30, 0)].take 2).map Prod.fst) :=
  ⟨by decide, inorder_after_inserts [(20, 0), (10, 0), (30, 0)] (by decide) 2⟩

/-- C4: `insert` is idempotent on duplicate keys.  On every well-formed tree
and for every key already present, `insert` reports `inserted = false` and
leaves the tree unchanged: same root, and every cell handed out before the
call (so every node, with its key, value, colour and parent, left and right
links) is as it was; the value stored for the key is not overwritten. -/
theorem insert_duplicate_unchanged (t : RBT K V) (key : K × V) (h : t.WF)
    (hk : key.1 ∈ t.keys) :
    ∃ t' y, t.insert key = some (t', y, false) ∧ t'.root = t.root ∧ t'.null = t.null ∧
      (∀ a, a < t.next → t'.heap a = t.heap a) ∧ t'.tree = t.tree ∧
      t'.inorder = t.inorder := by
  obtain ⟨T, ht, -⟩ := h.unpack
  rw [RBT.keys_of_tree ht] at hk
  obtain ⟨t', a, e, -, -, hr, hn, -, hh, ht', -⟩ := insert_present ht h hk
  exact ⟨t', some a, e, hr, hn, hh, by rw [ht', ht],
    by rw [RBT.inorder_of_tree ht', RBT.inorder_of_tree ht]⟩

theorem insert_duplicate_unchanged_witness :
    demo.WF ∧ 20 ∈ demo.keys ∧
      ∃ t' y, demo.insert (20, 9) = some (t', y, false) ∧ t'.root = demo.root ∧
        t'.null = demo.null ∧ (∀ a, a < demo.next → t'.heap a = demo.heap a) ∧
        t'.tree = demo.tree ∧ t'.inorder = demo.inorder :=
  ⟨demo_wf, by decide, insert_duplicate_unchanged demo (20, 9) demo_wf (by decide)⟩

/-- C5: on every well-formed tree, `insert` reports `inserted = true` exactly
when `searchTree` of the key returned the sentinel before the call; and for a
key absent from the tree it reports `inserted = true`, afterwards `searchTree`
of the key returns a node other than the sentinel that holds exactly the
inserted pair, and every pair that was in the tree before is still found by
`searchTree` with its value. -/
theorem insert_absent_found (t : RBT K V) (key : K × V) (h : t.WF) :
    (∃ r, t.insert key = some r ∧
      (r.2.2 = true ↔ t.searchTree key = some (some t.null))) ∧
    (key.1 ∉ t.keys →
      ∃ t' y, t.insert key = some (t', y, true) ∧
        (∃ a n, t'.searchTree key = some (some a) ∧ a ≠ t'.null ∧
          t'.heap a = some n ∧ n.val = key) ∧
        (∀ k v, (k, v) ∈ t.inorder →
          ∃ a n, t'.searchTree (k, v) = some (some a) ∧ a ≠ t'.null ∧
            t'.heap a = some n ∧ n.val = (k, v))) := by
  obtain ⟨T, ht, -, hb, -⟩ := h.unpack
  have hA : key.1 ∉ T.keys →
      ∃ t' y, t.insert key = some (t', y, true) ∧
        (∃ a n, t'.searchTree key = some (some a) ∧ a ≠ t'.null ∧
          t'.heap a = some n ∧ n.val = key) ∧
        (∀ k v, (k, v) ∈ T.inorder →
          ∃ a n, t'.searchTree (k, v) = some (some a) ∧ a ≠ t'.null ∧
            t'.heap a = some n ∧ n.val = (k, v)) := by
    intro hk
    obtain ⟨t', y, T', e, hw, ht', hp, -⟩ := insert_absent ht h hk
    obtain ⟨T2, ht2, -, hb2, -⟩ := hw.unpack
    have : T2 = T' := Option.some.inj (ht2.symm.trans ht')
    subst this
    refine ⟨t', y, e, ?_, ?_⟩
    · obtain ⟨a, n, h1, -, h3, h4, h5⟩ :=
        search_finds ht' hb2 (k := key.1) (v := key.2) (hp.mem_iff.2 (List.mem_cons_self _ _))
          key.2
      exact ⟨a, n, h1, h3, h4, h5⟩
    · intro k v hm
      obtain ⟨a, n, h1, -, h3, h4, h5⟩ :=
        search_finds ht' hb2 (k := k) (v := v) (hp.mem_iff.2 (List.mem_cons_of_mem _ hm)) v
      exact ⟨a, n, h1, h3, h4, h5⟩
  refine ⟨?_, ?_⟩
  · by_cases hk : key.1 ∈ T.keys
    · obtain ⟨t', a, e, -⟩ := insert_present ht h hk
      refine ⟨_, e, ?_⟩
      constructor
      · intro hf; cases hf
      · intro hs; exact absurd hs (search_present_ne_null ht hb hk)
    · obtain ⟨t', y, e, -⟩ := hA hk
      exact ⟨_, e, fun _ => search_absent ht hb hk, fun _ => rfl⟩
  · rw [RBT.keys_of_tree ht, RBT.inorder_of_tree ht]
    exact hA

theorem insert_absent_found_witness :
    demo.WF ∧
    (∃ r, demo.insert (25, 7) = some r ∧
      (r.2.2 = true ↔ demo.searchTree (25, 7) = some (some demo.null))) ∧
    (25 ∉ demo.keys →
      ∃ t' y, demo.insert (25, 7) = some (t', y, true) ∧
        (∃ a n, t'.searchTree (25, 7) = some (some a) ∧ a ≠ t'.null ∧
          t'.heap a = some n ∧ n.val = (25, 7)) ∧
        (∀ k v, (k, v) ∈ demo.inorder →
          ∃ a n, t'.searchTree (k, v) = some (some a) ∧ a ≠ t'.null ∧
            t'.heap a = some n ∧ n.val = (k, v))) :=
  ⟨demo_wf, insert_absent_found demo (25, 7) demo_wf⟩

/-- C10: search is correct on every tree that satisfies the BST ordering.
`searchTree` returns (so it terminates; being a function of the state it
changes nothing): a node other than the sentinel whose key equals the key
searched for when the tree has such a node, and the sentinel otherwise, in
particular for every key on the empty tree. -/
theorem searchTree_correct (t : RBT K V) (key : K × V) (h : t.Ordered) :
    ∃ p, t.searchTree key = some p ∧
      (key.1 ∈ t.keys → ∃ a n, p = some a ∧ a ≠ t.null ∧ t.heap a = some n ∧
        n.val.1 = key.1) ∧
      (key.1 ∉ t.keys → p = some t.null) := by
  obtain ⟨T, ht, hb⟩ := h
  rw [RBT.keys_of_tree ht]
  by_cases hk : key.1 ∈ T.keys
  · obtain ⟨x, hx, hx1⟩ := List.mem_map.1 hk
    obtain ⟨a, n, h1, -, h3, h4, h5⟩ := search_finds ht hb (k := x.1) (v := x.2) hx key.2
    rw [hx1] at h1
    refine ⟨some a, h1, fun _ => ⟨a, n, rfl, h3, h4, ?_⟩, fun h' => absurd hk h'⟩
    rw [h5, hx1]
  · exact ⟨_, search_absent ht hb hk, fun h' => absurd h' hk, fun _ => rfl⟩

theorem searchTree_correct_witness :
    demo.Ordered ∧
      ∃ p, demo.searchTree (30, 0) = some p ∧
        (30 ∈ demo.keys → ∃ a n, p = some a ∧ a ≠ demo.null ∧ demo.heap a = some n ∧
          n.val.1 = 30) ∧
        (30 ∉ demo.keys → p = some demo.null) :=
  ⟨⟨demoTree, by decide, by decide⟩, searchTree_correct demo (30, 0) ⟨demoTree, by decide, by decide⟩⟩

end FtContainers

namespace FtContainers

open Color Tree

variable {K V : Type}

/-! ## Pieces of the code of `deleteNode` -/

theorem Exec.bind_assoc {α β γ : Type} (x : Exec α) (f : α → Exec β) (g : β → Exec γ) :
    @bind Exec _ β γ (@bind Exec _ α β x f) g =
      @bind Exec _ α γ x (fun a => @bind Exec _ β γ (f a) g) := by
  cases x <;> rfl

theorem Exec.ite_bind {α β : Type} (c : Prop) [Decidable c] (a b : Exec α) (f : α → Exec β) :
    @bind Exec _ α β (if c then a else b) f =
      if c then @bind Exec _ α β a f else @bind Exec _ α β b f := by
  split <;> rfl

theorem fixDeleteBody_eq (t : RBT K V) (x : Ptr) :
    t.fixDeleteBody x = (do
      let xp ← t.parent x
      let xpl ← t.left xp
      if x = xpl then
        let s ← t.right xp
        let sc ← t.color s
        let r ←
          if sc = RED_NODE then do
            let t ← t.setColor s BLACK_NODE
            let xp ← t.parent x
            let t ← t.setColor xp RED_NODE
            let xp ← t.parent x
            let t ← t.leftRotate xp
            let xp ← t.parent x
            let s ← t.right xp
            pure (t, s)
          else pure (t, s)
        r.1.fixDeleteLeft x r.2
      else
        let s ← t.left xp
        let sc ← t.color s
        let r ←
          if sc = RED_NODE then do
            let t ← t.setColor s BLACK_NODE
            let xp ← t.parent x
            let t ← t.setColor xp RED_NODE
            let xp ← t.parent x
            let t ← t.rightRotate xp
            let xp ← t.parent x
            let s ← t.left xp
            pure (t, s)
          else pure (t, s)
        r.1.fixDeleteRight x r.2) := by
  simp only [RBT.fixDeleteBody, RBT.fixDeleteLeft, RBT.fixDeleteRight, Exec.bind_assoc,
    Exec.ite_bind, Exec.pure_eq, Exec.some_bind]

theorem RBT.deallocate_of {t : RBT K V} {a : Nat} {n : RBT_Node K V} (h : t.heap a = some n) :
    t.deallocate (some a) = some { t with heap := setCell t.heap a none } := by
  simp [RBT.deallocate, h]

/-! ## Leftmost node -/

theorem minPath_plug (S : Tree K V) : ∀ ctx : List (Frame K V),
    plug (S.minPath ctx).1 (S.minPath ctx).2 = plug S ctx := by
  induction S with
  | nil => intro ctx; rfl
  | node a c l kv r ihl ihr =>
    intro ctx
    cases l with
    | nil => rfl
    | node b cb bl kb br => exact ihl _

theorem minPath_append (S : Tree K V) : ∀ ctx : List (Frame K V),
    S.minPath ctx = ((S.minPath []).1, (S.minPath []).2 ++ ctx) := by
  induction S with
  | nil => intro ctx; rfl
  | node a c l kv r ihl ihr =>
    intro ctx
    cases l with
    | nil => rfl
    | node b cb bl kb br =>
      have h1 := ihl (Frame.L a c kv r :: ctx)
      have h2 := ihl [Frame.L a c kv r]
      simp only [Tree.minPath] at h1 h2 ⊢
      rw [h1, h2]
      simp

theorem minPath_node (a : Nat) (c : Color) (l : Tree K V) (kv : K × V) (r : Tree K V) :
    ∀ ctx : List (Frame K V),
      ∃ y cy ky Ry, ((node a c l kv r).minPath ctx).1 = node y cy nil ky Ry := by
  induction l generalizing a c kv r with
  | nil => intro ctx; exact ⟨a, c, kv, r, rfl⟩
  | node b cb bl kb br ihl ihr => intro ctx; exact ihl b cb kb br _

/-- The path to the leftmost node has nothing to its left. -/
theorem minPath_pre (S : Tree K V) : ctxPreN (S.minPath []).2 = [] := by
  have key : ∀ (S : Tree K V) (ctx : List (Frame K V)), ctxPreN ctx = [] →
      ctxPreN (S.minPath ctx).2 = [] := by
    intro S
    induction S with
    | nil => intro ctx h; exact h
    | node a c l kv r ihl ihr =>
      intro ctx h
      cases l with
      | nil => exact h
      | node b cb bl kb br => exact ihl _ (by simpa [ctxPreN] using h)
  exact key S [] rfl

theorem minLoop_eq {t : RBT K V} : ∀ (S : Tree K V) (ctx : List (Frame K V)) (fuel : Nat),
    Shape t (plug S ctx) → S ≠ nil → S.height ≤ fuel →
      t.minLoop fuel (S.ptr t.null) = some ((S.minPath ctx).1.ptr t.null) := by
  intro S
  induction S with
  | nil => intro ctx fuel _ h; exact absurd rfl h
  | node a c l kv r ihl ihr =>
    intro ctx fuel hS _ hf
    cases fuel with
    | zero => simp [Tree.height] at hf
    | succ n =>
      simp only [Tree.height] at hf
      cases l with
      | nil =>
        simp only [RBT.minLoop, Tree.ptr_node, hS.left_eq, Exec.some_bind, Tree.ptr_nil, ne_eq,
          not_true_eq_false, if_false, Exec.pure_eq, Tree.minPath]
      | node b cb bl kb br =>
        have hb : b ≠ t.null :=
          @Shape.focus_ne_null _ _ t b cb bl br kb (Frame.L a c kv r :: ctx) hS
        simp only [RBT.minLoop, Tree.ptr_node, hS.left_eq, Exec.some_bind, ne_eq,
          Option.some.injEq, hb, not_false_eq_true, if_true, Tree.minPath]
        exact ihl (Frame.L a c kv r :: ctx) n hS (fun e => by cases e) (by omega)

variable [LinearOrder K]

theorem deleteNodeHelper_eq (t : RBT K V) (node : Ptr) (key : K × V) :
    t.deleteNodeHelper node key = (do
      let z ← t.deleteLoop key t.next node (some t.null)
      if z = some t.null then pure t
      else do
        let r ← t.deleteSplice z
        if r.2.2 = BLACK_NODE then RBT.fixDelete r.1.next r.1 r.2.1 else pure r.1) := by
  simp only [RBT.deleteNodeHelper, RBT.deleteSplice, Exec.bind_assoc, Exec.ite_bind,
    Exec.pure_eq, Exec.some_bind]

/-! ## Lookup loop of `deleteNodeHelper` -/

theorem deleteLoop_gt {t : RBT K V} {key : K × V} :
    ∀ (S : Tree K V) (ctx : List (Frame K V)) (fuel : Nat) (z : Ptr), Shape t (plug S ctx) →
      (∀ x ∈ S.inorder, key.1 < x.1) → S.height < fuel →
      t.deleteLoop key fuel (S.ptr t.null) z = some z := by
  intro S
  induction S with
  | nil =>
    intro ctx fuel z _ _ hf
    cases fuel with
    | zero => exact absurd hf (Nat.lt_irrefl _)
    | succ n => simp [RBT.deleteLoop]
  | node a c l kv r ihl ihr =>
    intro ctx fuel z hS hgt hf
    cases fuel with
    | zero => exact absurd hf (Nat.not_lt_zero _)
    | succ n =>
      have ha := hS.focus_ne_null
      have h1 : key.1 < kv.1 := hgt kv (by simp [Tree.inorder])
      simp only [Tree.height] at hf
      simp only [RBT.deleteLoop, Tree.ptr_node, ne_eq, Option.some.injEq, ha, not_false_eq_true,
        if_true, hS.key_eq, Exec.some_bind, ne_of_gt h1, if_false, not_le.2 h1, hS.left_eq]
      exact ihl (Frame.L a c kv r :: ctx) n z hS
        (fun x hx => hgt x (by simp [Tree.inorder, hx])) (by omega)

theorem deleteLoop_eq {t : RBT K V} {key : K × V} :
    ∀ (S : Tree K V) (ctx : List (Frame K V)) (fuel : Nat) (z : Ptr), Shape t (plug S ctx) →
      (plug S ctx).BST → S.height < fuel →
      t.deleteLoop key fuel (S.ptr t.null) z =
        some (match (S.find key.1 ctx).1 with
          | nil => z
          | node a _ _ _ _ => some a) := by
  intro S
  induction S with
  | nil =>
    intro ctx fuel z _ _ hf
    cases fuel with
    | zero => exact absurd hf (Nat.lt_irrefl _)
    | succ n => simp [RBT.deleteLoop, Tree.find]
  | node a c l kv r ihl ihr =>
    intro ctx fuel z hS hb hf
    cases fuel with
    | zero => exact absurd hf (Nat.not_lt_zero _)
    | succ n =>
      have ha := hS.focus_ne_null
      simp only [Tree.height] at hf
      simp only [RBT.deleteLoop, Tree.ptr_node, ne_eq, Option.some.injEq, ha, not_false_eq_true,
        if_true, hS.key_eq, Exec.some_bind, hS.left_eq, hS.right_eq]
      unfold Tree.find
      by_cases h1 : key.1 < kv.1
      · simp only [h1, if_true, ne_of_gt h1, if_false, not_le.2 h1]
        exact ihl (Frame.L a c kv r :: ctx) n z hS hb (by omega)
      · by_cases h2 : kv.1 < key.1
        · simp only [h1, h2, if_true, if_false, ne_of_lt h2, le_of_lt h2]
          exact ihr (Frame.R a c l kv :: ctx) n z hS hb (by omega)
        · have he : kv.1 = key.1 := le_antisymm (not_lt.1 h1) (not_lt.1 h2)
          simp only [h1, h2, if_false, he, if_true, le_refl, lt_irrefl]
          have hr : r.height < n := by omega
          exact deleteLoop_gt r (Frame.R a c l kv :: ctx) n (some a) hS
            (fun x hx => he ▸ (bst_focus hb).2 x hx) hr

end FtContainers

namespace FtContainers

open Color Tree

variable {K V : Type}

/-! ## Relinking step of `deleteNodeHelper` -/

theorem ReprCtx.null_fresh {h : Nat → Option (RBT_Node K V)} {nl : Nat} {child : Ptr}
    {ctx : List (Frame K V)} (hr : ReprCtx h nl child ctx) : nl ∉ ctxAddrs ctx := by
  induction ctx generalizing child with
  | nil => simp [ctxAddrs]
  | cons f rest ih =>
    cases f with
    | L a c kv r =>
      obtain ⟨h1, -, h3, h4⟩ := hr
      simp only [ctxAddrs, List.mem_append, List.mem_cons, List.cons_append, not_or]
      exact ⟨Ne.symm h1, h3.ne_null, ih h4⟩
    | R a c l kv =>
      obtain ⟨h1, -, h3, h4⟩ := hr
      simp only [ctxAddrs, List.mem_append, List.mem_cons, List.cons_append, not_or]
      exact ⟨Ne.symm h1, h3.ne_null, ih h4⟩

/-- Call `rbTransplant(u, u->right)` on a node `u` without left child: the
right subtree takes the place of `u`. -/
theorem Shape.transplant_right {t : RBT K V} {u : Nat} {cu : Color} {Vt : Tree K V} {ku : K × V}
    {ctx : List (Frame K V)} (hS : Shape t (plug (node u cu nil ku Vt) ctx))
    (hsn : ∃ n, t.heap t.null = some n) :
    ∃ t', t.rbTransplant (some u) (Vt.ptr t.null) = some t' ∧ Shape t' (plug Vt ctx) ∧
      t'.null = t.null ∧ t'.next = t.next ∧ t'.heap u = t.heap u ∧
      t'.color (some t.null) = t.color (some t.null) ∧
      (Vt = nil → t'.parent (some t.null) = some (ctxPar ctx)) := by
  rw [Shape.plug_iff] at hS
  obtain ⟨hroot, ⟨hu, huc, -, hV⟩, hctx, hnd⟩ := hS
  obtain ⟨ns, hns⟩ := hsn
  simp only [Tree.ptr_node] at hctx huc
  cases Vt with
  | nil =>
    cases ctx with
    | nil =>
      have hnd' := hnd
      simp only [Tree.addrs, ctxAddrs, List.nodup_append, List.nodup_cons, List.mem_append, List.mem_cons,
        not_or, List.disjoint_cons_left, List.disjoint_cons_right, List.disjoint_append_left,
        List.disjoint_append_right, List.cons_append, List.append_assoc, List.nodup_nil,
        List.not_mem_nil, List.disjoint_nil_left, List.disjoint_nil_right, List.append_nil,
        List.nil_append, not_false_eq_true, true_and, and_true] at hnd'
      simp only [ctxPar_cons, ctxPar_nil, Frame.addr_L, Frame.addr_R, Tree.ptr_node, Tree.ptr_nil] at huc
      simp only [RBT.rbTransplant, RBT.right, RBT.left, RBT.parent, RBT.color, RBT.setRight, RBT.setLeft,
        RBT.setParent, RBT.setColor, RBT.modify, RBT.get_some, Exec.some_bind, Exec.pure_eq,
        ctxPar_cons, ctxPar_nil, Frame.addr_L, Frame.addr_R, Tree.ptr_node, Tree.ptr_nil, huc, hns,
        hu, Ne.symm hu, setCell, if_pos, if_neg, ite_true, ite_false, ne_eq, Option.some.injEq,
        not_false_eq_true, not_true_eq_false, reduceCtorEq]
      refine ⟨_, rfl, ?_, rfl, rfl, ?_, ?_, ?_⟩
      · rw [Shape.plug_iff]
        simp only [Repr, ReprCtx, setCell_same, setCell_other, Repr_setCell, ReprCtx_setCell, ne_eq,
          not_false_eq_true, Tree.ptr_node, Tree.ptr_nil, ctxPar_cons, ctxPar_nil, ctxRoot_cons,
          ctxRoot_nil, Frame.addr_L, Frame.addr_R, true_and, and_true, Tree.addrs,
          List.append_assoc, List.cons_append, List.nil_append, hnd', hu, Ne.symm hu, huc, hns] <;>
        (try simp only [Tree.addrs, ctxAddrs, List.nodup_append, List.nodup_cons, List.mem_append, List.mem_cons, not_or, List.disjoint_cons_left, List.disjoint_cons_right, List.disjoint_append_left, List.disjoint_append_right, List.cons_append, List.append_assoc, List.nodup_nil, List.not_mem_nil, List.disjoint_nil_left, List.disjoint_nil_right, List.append_nil, List.nil_append, not_false_eq_true, true_and, and_true, Tree.ptr_node, Tree.ptr_nil, ctxRoot_cons, ctxRoot_nil, Frame.addr_L, Frame.addr_R] at hnd hroot ⊢) <;>
        (try casesm* _ ∧ _) <;>
        (and_intros <;> assumption)
      · first
        | assumption
        | simp only [setCell_other, setCell_same, hu, Ne.symm hu, ne_eq, not_false_eq_true, hns, huc,
            Exec.some_bind, Exec.pure_eq, ctxPar_cons, ctxPar_nil, Frame.addr_L, Frame.addr_R,
            RBT.color, RBT.parent, RBT.get_some]
      · first
        | rfl
        | simp only [setCell_other, setCell_same, hu, Ne.symm hu, ne_eq, not_false_eq_true, hns, huc,
            Exec.some_bind, Exec.pure_eq, ctxPar_cons, ctxPar_nil, Frame.addr_L, Frame.addr_R,
            RBT.color, RBT.parent, RBT.get_some]
      · intro _
        first
        | rfl
        | simp only [setCell_other, setCell_same, hu, Ne.symm hu, ne_eq, not_false_eq_true, hns, huc,
              Exec.some_bind, Exec.pure_eq, ctxPar_cons, ctxPar_nil, Frame.addr_L, Frame.addr_R,
              RBT.color, RBT.parent, RBT.get_some]
    | cons f rest =>
      cases f with
      | L p cp kp pr =>
        obtain ⟨hp, hpc, hpr, hrest⟩ := hctx
        have hn3 := hpr.ne_null
        have hn4 := hrest.null_fresh
        have hup : u ≠ p := by
          rintro rfl
          simp only [Tree.addrs, ctxAddrs, List.nodup_append, List.nodup_cons, List.mem_append,
            List.mem_cons, not_or, List.disjoint_cons_left, List.disjoint_cons_right,
            List.disjoint_append_left, List.disjoint_append_right, List.cons_append,
            List.append_assoc, List.nodup_nil, List.not_mem_nil, List.disjoint_nil_left,
            List.disjoint_nil_right, List.append_nil, List.nil_append, not_false_eq_true, true_and,
            and_true, not_true_eq_false, false_and, and_false] at hnd
        have hpu : p ≠ u := hup.symm
        have hnd' := hnd
        simp only [Tree.addrs, ctxAddrs, List.nodup_append, List.nodup_cons, List.mem_append, List.mem_cons,
          not_or, List.disjoint_cons_left, List.disjoint_cons_right, List.disjoint_append_left,
          List.disjoint_append_right, List.cons_append, List.append_assoc, List.nodup_nil,
          List.not_mem_nil, List.disjoint_nil_left, List.disjoint_nil_right, List.append_nil,
          List.nil_append, not_false_eq_true, true_and, and_true] at hnd'
        simp only [ctxPar_cons, ctxPar_nil, Frame.addr_L, Frame.addr_R, Tree.ptr_node, Tree.ptr_nil] at huc hpc
        simp only [RBT.rbTransplant, RBT.right, RBT.left, RBT.parent, RBT.color, RBT.setRight, RBT.setLeft,
          RBT.setParent, RBT.setColor, RBT.modify, RBT.get_some, Exec.some_bind, Exec.pure_eq,
          ctxPar_cons, ctxPar_nil, Frame.addr_L, Frame.addr_R, Tree.ptr_node, Tree.ptr_nil, huc,
          hns, hpc, hup, hpu, hu, hp, Ne.symm hu, Ne.symm hp, setCell, if_pos, if_neg, ite_true,
          ite_false, ne_eq, Option.some.injEq, not_false_eq_true, not_true_eq_false, reduceCtorEq]
        refine ⟨_, rfl, ?_, rfl, rfl, ?_, ?_, ?_⟩
        · rw [Shape.plug_iff]
          simp only [Repr, ReprCtx, setCell_same, setCell_other, Repr_setCell, ReprCtx_setCell, ne_eq,
            not_false_eq_true, Tree.ptr_node, Tree.ptr_nil, ctxPar_cons, ctxPar_nil, ctxRoot_cons,
            ctxRoot_nil, Frame.addr_L, Frame.addr_R, true_and, and_true, Tree.addrs,
            List.append_assoc, List.cons_append, List.nil_append, hnd', hup, hpu, hn3, hn4, hu, hp,
            Ne.symm hu, Ne.symm hp, huc, hns, hpc] <;>
          (try simp only [Tree.addrs, ctxAddrs, List.nodup_append, List.nodup_cons, List.mem_append, List.mem_cons, not_or, List.disjoint_cons_left, List.disjoint_cons_right, List.disjoint_append_left, List.disjoint_append_right, List.cons_append, List.append_assoc, List.nodup_nil, List.not_mem_nil, List.disjoint_nil_left, List.disjoint_nil_right, List.append_nil, List.nil_append, not_false_eq_true, true_and, and_true, Tree.ptr_node, Tree.ptr_nil, ctxRoot_cons, ctxRoot_nil, Frame.addr_L, Frame.addr_R] at hnd hroot ⊢) <;>
          (try casesm* _ ∧ _) <;>
          (and_intros <;> assumption)
        · first
          | assumption
          | simp only [setCell_other, setCell_same, hup, hpu, hu, hp, Ne.symm hu, Ne.symm hp, ne_eq,
              not_false_eq_true, hns, huc, Exec.some_bind, Exec.pure_eq, ctxPar_cons, ctxPar_nil,
              Frame.addr_L, Frame.addr_R, RBT.color, RBT.parent, RBT.get_some]
        · first
          | rfl
          | simp only [setCell_other, setCell_same, hup, hpu, hu, hp, Ne.symm hu, Ne.symm hp, ne_eq,
              not_false_eq_true, hns, huc, Exec.some_bind, Exec.pure_eq, ctxPar_cons, ctxPar_nil,
              Frame.addr_L, Frame.addr_R, RBT.color, RBT.parent, RBT.get_some]
        · intro _
          first
          | rfl
          | simp only [setCell_other, setCell_same, hup, hpu, hu, hp, Ne.symm hu, Ne.symm hp, ne_eq,
                not_false_eq_true, hns, huc, Exec.some_bind, Exec.pure_eq, ctxPar_cons, ctxPar_nil,
                Frame.addr_L, Frame.addr_R, RBT.color, RBT.parent, RBT.get_some]
      | R p cp pr kp =>
        obtain ⟨hp, hpc, hpr, hrest⟩ := hctx
        have hn3 := hpr.ne_null
        have hn4 := hrest.null_fresh
        have hup : u ≠ p := by
          rintro rfl
          simp only [Tree.addrs, ctxAddrs, List.nodup_append, List.nodup_cons, List.mem_append,
            List.mem_cons, not_or, List.disjoint_cons_left, List.disjoint_cons_right,
            List.disjoint_append_left, List.disjoint_append_right, List.cons_append,
            List.append_assoc, List.nodup_nil, List.not_mem_nil, List.disjoint_nil_left,
            List.disjoint_nil_right, List.append_nil, List.nil_append, not_false_eq_true, true_and,
            and_true, not_true_eq_false, false_and, and_false] at hnd
        have hpu : p ≠ u := hup.symm
        have hnd' := hnd
        simp only [Tree.addrs, ctxAddrs, List.nodup_append, List.nodup_cons, List.mem_append, List.mem_cons,
          not_or, List.disjoint_cons_left, List.disjoint_cons_right, List.disjoint_append_left,
          List.disjoint_append_right, List.cons_append, List.append_assoc, List.nodup_nil,
          List.not_mem_nil, List.disjoint_nil_left, List.disjoint_nil_right, List.append_nil,
          List.nil_append, not_false_eq_true, true_and, and_true] at hnd'
        have hq : ¬ (some u = Tree.ptr t.null pr) := fun e => ptr_ne_of_not_mem hu (by simp only [hnd', not_false_eq_true]) e.symm
        simp only [ctxPar_cons, ctxPar_nil, Frame.addr_L, Frame.addr_R, Tree.ptr_node, Tree.ptr_nil] at huc hpc
        simp only [RBT.rbTransplant, RBT.right, RBT.left, RBT.parent, RBT.color, RBT.setRight, RBT.setLeft,
          RBT.setParent, RBT.setColor, RBT.modify, RBT.get_some, Exec.some_bind, Exec.pure_eq,
          ctxPar_cons, ctxPar_nil, Frame.addr_L, Frame.addr_R, Tree.ptr_node, Tree.ptr_nil, huc,
          hns, hpc, hup, hpu, hq, hu, hp, Ne.symm hu, Ne.symm hp, setCell, if_pos, if_neg,
          ite_true, ite_false, ne_eq, Option.some.injEq, not_false_eq_true, not_true_eq_false,
          reduceCtorEq]
        refine ⟨_, rfl, ?_, rfl, rfl, ?_, ?_, ?_⟩
        · rw [Shape.plug_iff]
          simp only [Repr, ReprCtx, setCell_same, setCell_other, Repr_setCell, ReprCtx_setCell, ne_eq,
            not_false_eq_true, Tree.ptr_node, Tree.ptr_nil, ctxPar_cons, ctxPar_nil, ctxRoot_cons,
            ctxRoot_nil, Frame.addr_L, Frame.addr_R, true_and, and_true, Tree.addrs,
            List.append_assoc, List.cons_append, List.nil_append, hnd', hup, hpu, hq, hn3, hn4, hu,
            hp, Ne.symm hu, Ne.symm hp, huc, hns, hpc] <;>
          (try simp only [Tree.addrs, ctxAddrs, List.nodup_append, List.nodup_cons, List.mem_append, List.mem_cons, not_or, List.disjoint_cons_left, List.disjoint_cons_right, List.disjoint_append_left, List.disjoint_append_right, List.cons_append, List.append_assoc, List.nodup_nil, List.not_mem_nil, List.disjoint_nil_left, List.disjoint_nil_right, List.append_nil, List.nil_append, not_false_eq_true, true_and, and_true, Tree.ptr_node, Tree.ptr_nil, ctxRoot_cons, ctxRoot_nil, Frame.addr_L, Frame.addr_R] at hnd hroot ⊢) <;>
          (try casesm* _ ∧ _) <;>
          (and_intros <;> assumption)
        · first
          | assumption
          | simp only [setCell_other, setCell_same, hup, hpu, hu, hp, Ne.symm hu, Ne.symm hp, ne_eq,
              not_false_eq_true, hns, huc, Exec.some_bind, Exec.pure_eq, ctxPar_cons, ctxPar_nil,
              Frame.addr_L, Frame.addr_R, RBT.color, RBT.parent, RBT.get_some]
        · first
          | rfl
          | simp only [setCell_other, setCell_same, hup, hpu, hu, hp, Ne.symm hu, Ne.symm hp, ne_eq,
              not_false_eq_true, hns, huc, Exec.some_bind, Exec.pure_eq, ctxPar_cons, ctxPar_nil,
              Frame.addr_L, Frame.addr_R, RBT.color, RBT.parent, RBT.get_some]
        · intro _
          first
          | rfl
          | simp only [setCell_other, setCell_same, hup, hpu, hu, hp, Ne.symm hu, Ne.symm hp, ne_eq,
                not_false_eq_true, hns, huc, Exec.some_bind, Exec.pure_eq, ctxPar_cons, ctxPar_nil,
                Frame.addr_L, Frame.addr_R, RBT.color, RBT.parent, RBT.get_some]
  | node v cv vl kv vr =>
    cases ctx with
    | nil =>
      obtain ⟨hv, hvc, hvl, hvr⟩ := hV
      have hn1 := hvl.ne_null
      have hn2 := hvr.ne_null
      have huv : u ≠ v := by
        rintro rfl
        simp only [Tree.addrs, ctxAddrs, List.nodup_append, List.nodup_cons, List.mem_append, List.mem_cons,
          not_or, List.disjoint_cons_left, List.disjoint_cons_right, List.disjoint_append_left,
          List.disjoint_append_right, List.cons_append, List.append_assoc, List.nodup_nil,
          List.not_mem_nil, List.disjoint_nil_left, List.disjoint_nil_right, List.append_nil,
          List.nil_append, not_false_eq_true, true_and, and_true, not_true_eq_false, false_and,
          and_false] at hnd
      have hvu : v ≠ u := huv.symm
      have hnd' := hnd
      simp only [Tree.addrs, ctxAddrs, List.nodup_append, List.nodup_cons, List.mem_append, List.mem_cons,
        not_or, List.disjoint_cons_left, List.disjoint_cons_right, List.disjoint_append_left,
        List.disjoint_append_right, List.cons_append, List.append_assoc, List.nodup_nil,
        List.not_mem_nil, List.disjoint_nil_left, List.disjoint_nil_right, List.append_nil,
        List.nil_append, not_false_eq_true, true_and, and_true] at hnd'
      simp only [ctxPar_cons, ctxPar_nil, Frame.addr_L, Frame.addr_R, Tree.ptr_node, Tree.ptr_nil] at huc hvc
      simp only [RBT.rbTransplant, RBT.right, RBT.left, RBT.parent, RBT.color, RBT.setRight, RBT.setLeft,
        RBT.setParent, RBT.setColor, RBT.modify, RBT.get_some, Exec.some_bind, Exec.pure_eq,
        ctxPar_cons, ctxPar_nil, Frame.addr_L, Frame.addr_R, Tree.ptr_node, Tree.ptr_nil, huc, hns,
        hvc, huv, hvu, hu, hv, Ne.symm hu, Ne.symm hv, setCell, if_pos, if_neg, ite_true,
        ite_false, ne_eq, Option.some.injEq, not_false_eq_true, not_true_eq_false, reduceCtorEq]
      refine ⟨_, rfl, ?_, rfl, rfl, ?_, ?_, ?_⟩
      · rw [Shape.plug_iff]
        simp only [Repr, ReprCtx, setCell_same, setCell_other, Repr_setCell, ReprCtx_setCell, ne_eq,
          not_false_eq_true, Tree.ptr_node, Tree.ptr_nil, ctxPar_cons, ctxPar_nil, ctxRoot_cons,
          ctxRoot_nil, Frame.addr_L, Frame.addr_R, true_and, and_true, Tree.addrs,
          List.append_assoc, List.cons_append, List.nil_append, hnd', huv, hvu, hn1, hn2, hu, hv,
          Ne.symm hu, Ne.symm hv, huc, hns, hvc] <;>
        (try simp only [Tree.addrs, ctxAddrs, List.nodup_append, List.nodup_cons, List.mem_append, List.mem_cons, not_or, List.disjoint_cons_left, List.disjoint_cons_right, List.disjoint_append_left, List.disjoint_append_right, List.cons_append, List.append_assoc, List.nodup_nil, List.not_mem_nil, List.disjoint_nil_left, List.disjoint_nil_right, List.append_nil, List.nil_append, not_false_eq_true, true_and, and_true, Tree.ptr_node, Tree.ptr_nil, ctxRoot_cons, ctxRoot_nil, Frame.addr_L, Frame.addr_R] at hnd hroot ⊢) <;>
        (try casesm* _ ∧ _) <;>
        (and_intros <;> assumption)
      · first
        | assumption
        | simp only [setCell_other, setCell_same, huv, hvu, hu, hv, Ne.symm hu, Ne.symm hv, ne_eq,
            not_false_eq_true, hns, huc, Exec.some_bind, Exec.pure_eq, ctxPar_cons, ctxPar_nil,
            Frame.addr_L, Frame.addr_R, RBT.color, RBT.parent, RBT.get_some]
      · first
        | rfl
        | simp only [setCell_other, setCell_same, huv, hvu, hu, hv, Ne.symm hu, Ne.symm hv, ne_eq,
            not_false_eq_true, hns, huc, Exec.some_bind, Exec.pure_eq, ctxPar_cons, ctxPar_nil,
            Frame.addr_L, Frame.addr_R, RBT.color, RBT.parent, RBT.get_some]
      · intro h
        cases h
    | cons f rest =>
      cases f with
      | L p cp kp pr =>
        obtain ⟨hv, hvc, hvl, hvr⟩ := hV
        have hn1 := hvl.ne_null
        have hn2 := hvr.ne_null
        obtain ⟨hp, hpc, hpr, hrest⟩ := hctx
        have hn3 := hpr.ne_null
        have hn4 := hrest.null_fresh
        have huv : u ≠ v := by
          rintro rfl
          simp only [Tree.addrs, ctxAddrs, List.nodup_append, List.nodup_cons, List.mem_append,
            List.mem_cons, not_or, List.disjoint_cons_left, List.disjoint_cons_right,
            List.disjoint_append_left, List.disjoint_append_right, List.cons_append,
            List.append_assoc, List.nodup_nil, List.not_mem_nil, List.disjoint_nil_left,
            List.disjoint_nil_right, List.append_nil, List.nil_append, not_false_eq_true, true_and,
            and_true, not_true_eq_false, false_and, and_false] at hnd
        have hvu : v ≠ u := huv.symm
        have hup : u ≠ p := by
          rintro rfl
          simp only [Tree.addrs, ctxAddrs, List.nodup_append, List.nodup_cons, List.mem_append,
            List.mem_cons, not_or, List.disjoint_cons_left, List.disjoint_cons_right,
            List.disjoint_append_left, List.disjoint_append_right, List.cons_append,
            List.append_assoc, List.nodup_nil, List.not_mem_nil, List.disjoint_nil_left,
            List.disjoint_nil_right, List.append_nil, List.nil_append, not_false_eq_true, true_and,
            and_true, not_true_eq_false, false_and, and_false] at hnd
        have hpu : p ≠ u := hup.symm
        have hvp : v ≠ p := by
          rintro rfl
          simp only [Tree.addrs, ctxAddrs, List.nodup_append, List.nodup_cons, List.mem_append,
            List.mem_cons, not_or, List.disjoint_cons_left, List.disjoint_cons_right,
            List.disjoint_append_left, List.disjoint_append_right, List.cons_append,
            List.append_assoc, List.nodup_nil, List.not_mem_nil, List.disjoint_nil_left,
            List.disjoint_nil_right, List.append_nil, List.nil_append, not_false_eq_true, true_and,
            and_true, not_true_eq_false, false_and, and_false] at hnd
        have hpv : p ≠ v := hvp.symm
        have hnd' := hnd
        simp only [Tree.addrs, ctxAddrs, List.nodup_append, List.nodup_cons, List.mem_append, List.mem_cons,
          not_or, List.disjoint_cons_left, List.disjoint_cons_right, List.disjoint_append_left,
          List.disjoint_append_right, List.cons_append, List.append_assoc, List.nodup_nil,
          List.not_mem_nil, List.disjoint_nil_left, List.disjoint_nil_right, List.append_nil,
          List.nil_append, not_false_eq_true, true_and, and_true] at hnd'
        simp only [ctxPar_cons, ctxPar_nil, Frame.addr_L, Frame.addr_R, Tree.ptr_node, Tree.ptr_nil] at huc hvc hpc
        simp only [RBT.rbTransplant, RBT.right, RBT.left, RBT.parent, RBT.color, RBT.setRight, RBT.setLeft,
          RBT.setParent, RBT.setColor, RBT.modify, RBT.get_some, Exec.some_bind, Exec.pure_eq,
          ctxPar_cons, ctxPar_nil, Frame.addr_L, Frame.addr_R, Tree.ptr_node, Tree.ptr_nil, huc,
          hns, hvc, hpc, huv, hvu, hup, hpu, hvp, hpv, hu, hv, hp, Ne.symm hu, Ne.symm hv,
          Ne.symm hp, setCell, if_pos, if_neg, ite_true, ite_false, ne_eq, Option.some.injEq,
          not_false_eq_true, not_true_eq_false, reduceCtorEq]
        refine ⟨_, rfl, ?_, rfl, rfl, ?_, ?_, ?_⟩
        · rw [Shape.plug_iff]
          simp only [Repr, ReprCtx, setCell_same, setCell_other, Repr_setCell, ReprCtx_setCell, ne_eq,
            not_false_eq_true, Tree.ptr_node, Tree.ptr_nil, ctxPar_cons, ctxPar_nil, ctxRoot_cons,
            ctxRoot_nil, Frame.addr_L, Frame.addr_R, true_and, and_true, Tree.addrs,
            List.append_assoc, List.cons_append, List.nil_append, hnd', huv, hvu, hup, hpu, hvp,
            hpv, hn1, hn2, hn3, hn4, hu, hv, hp, Ne.symm hu, Ne.symm hv, Ne.symm hp, huc, hns, hvc,
            hpc] <;>
          (try simp only [Tree.addrs, ctxAddrs, List.nodup_append, List.nodup_cons, List.mem_append, List.mem_cons, not_or, List.disjoint_cons_left, List.disjoint_cons_right, List.disjoint_append_left, List.disjoint_append_right, List.cons_append, List.append_assoc, List.nodup_nil, List.not_mem_nil, List.disjoint_nil_left, List.disjoint_nil_right, List.append_nil, List.nil_append, not_false_eq_true, true_and, and_true, Tree.ptr_node, Tree.ptr_nil, ctxRoot_cons, ctxRoot_nil, Frame.addr_L, Frame.addr_R] at hnd hroot ⊢) <;>
          (try casesm* _ ∧ _) <;>
          (and_intros <;> assumption)
        · first
          | assumption
          | simp only [setCell_other, setCell_same, huv, hvu, hup, hpu, hvp, hpv, hu, hv, hp, Ne.symm hu,
              Ne.symm hv, Ne.symm hp, ne_eq, not_false_eq_true, hns, huc, Exec.some_bind,
              Exec.pure_eq, ctxPar_cons, ctxPar_nil, Frame.addr_L, Frame.addr_R, RBT.color,
              RBT.parent, RBT.get_some]
        · first
          | rfl
          | simp only [setCell_other, setCell_same, huv, hvu, hup, hpu, hvp, hpv, hu, hv, hp, Ne.symm hu,
              Ne.symm hv, Ne.symm hp, ne_eq, not_false_eq_true, hns, huc, Exec.some_bind,
              Exec.pure_eq, ctxPar_cons, ctxPar_nil, Frame.addr_L, Frame.addr_R, RBT.color,
              RBT.parent, RBT.get_some]
        · intro h
          cases h
      | R p cp pr kp =>
        obtain ⟨hv, hvc, hvl, hvr⟩ := hV
        have hn1 := hvl.ne_null
        have hn2 := hvr.ne_null
        obtain ⟨hp, hpc, hpr, hrest⟩ := hctx
        have hn3 := hpr.ne_null
        have hn4 := hrest.null_fresh
        have huv : u ≠ v := by
          rintro rfl
          simp only [Tree.addrs, ctxAddrs, List.nodup_append, List.nodup_cons, List.mem_append,
            List.mem_cons, not_or, List.disjoint_cons_left, List.disjoint_cons_right,
            List.disjoint_append_left, List.disjoint_append_right, List.cons_append,
            List.append_assoc, List.nodup_nil, List.not_mem_nil, List.disjoint_nil_left,
            List.disjoint_nil_right, List.append_nil, List.nil_append, not_false_eq_true, true_and,
            and_true, not_true_eq_false, false_and, and_false] at hnd
        have hvu : v ≠ u := huv.symm
        have hup : u ≠ p := by
          rintro rfl
          simp only [Tree.addrs, ctxAddrs, List.nodup_append, List.nodup_cons, List.mem_append,
            List.mem_cons, not_or, List.disjoint_cons_left, List.disjoint_cons_right,
            List.disjoint_append_left, List.disjoint_append_right, List.cons_append,
            List.append_assoc, List.nodup_nil, List.not_mem_nil, List.disjoint_nil_left,
            List.disjoint_nil_right, List.append_nil, List.nil_append, not_false_eq_true, true_and,
            and_true, not_true_eq_false, false_and, and_false] at hnd
        have hpu : p ≠ u := hup.symm
        have hvp : v ≠ p := by
          rintro rfl
          simp only [Tree.addrs, ctxAddrs, List.nodup_append, List.nodup_cons, List.mem_append,
            List.mem_cons, not_or, List.disjoint_cons_left, List.disjoint_cons_right,
            List.disjoint_append_left, List.disjoint_append_right, List.cons_append,
            List.append_assoc, List.nodup_nil, List.not_mem_nil, List.disjoint_nil_left,
            List.disjoint_nil_right, List.append_nil, List.nil_append, not_false_eq_true, true_and,
            and_true, not_true_eq_false, false_and, and_false] at hnd
        have hpv : p ≠ v := hvp.symm
        have hnd' := hnd
        simp only [Tree.addrs, ctxAddrs, List.nodup_append, List.nodup_cons, List.mem_append, List.mem_cons,
          not_or, List.disjoint_cons_left, List.disjoint_cons_right, List.disjoint_append_left,
          List.disjoint_append_right, List.cons_append, List.append_assoc, List.nodup_nil,
          List.not_mem_nil, List.disjoint_nil_left, List.disjoint_nil_right, List.append_nil,
          List.nil_append, not_false_eq_true, true_and, and_true] at hnd'
        have hq : ¬ (some u = Tree.ptr t.null pr) := fun e => ptr_ne_of_not_mem hu (by simp only [hnd', not_false_eq_true]) e.symm
        simp only [ctxPar_cons, ctxPar_nil, Frame.addr_L, Frame.addr_R, Tree.ptr_node, Tree.ptr_nil] at huc hvc hpc
        simp only [RBT.rbTransplant, RBT.right, RBT.left, RBT.parent, RBT.color, RBT.setRight, RBT.setLeft,
          RBT.setParent, RBT.setColor, RBT.modify, RBT.get_some, Exec.some_bind, Exec.pure_eq,
          ctxPar_cons, ctxPar_nil, Frame.addr_L, Frame.addr_R, Tree.ptr_node, Tree.ptr_nil, huc,
          hns, hvc, hpc, huv, hvu, hup, hpu, hvp, hpv, hq, hu, hv, hp, Ne.symm hu, Ne.symm hv,
          Ne.symm hp, setCell, if_pos, if_neg, ite_true, ite_false, ne_eq, Option.some.injEq,
          not_false_eq_true, not_true_eq_false, reduceCtorEq]
        refine ⟨_, rfl, ?_, rfl, rfl, ?_, ?_, ?_⟩
        · rw [Shape.plug_iff]
          simp only [Repr, ReprCtx, setCell_same, setCell_other, Repr_setCell, ReprCtx_setCell, ne_eq,
            not_false_eq_true, Tree.ptr_node, Tree.ptr_nil, ctxPar_cons, ctxPar_nil, ctxRoot_cons,
            ctxRoot_nil, Frame.addr_L, Frame.addr_R, true_and, and_true, Tree.addrs,
            List.append_assoc, List.cons_append, List.nil_append, hnd', huv, hvu, hup, hpu, hvp,
            hpv, hq, hn1, hn2, hn3, hn4, hu, hv, hp, Ne.symm hu, Ne.symm hv, Ne.symm hp, huc, hns,
            hvc, hpc] <;>
          (try simp only [Tree.addrs, ctxAddrs, List.nodup_append, List.nodup_cons, List.mem_append, List.mem_cons, not_or, List.disjoint_cons_left, List.disjoint_cons_right, List.disjoint_append_left, List.disjoint_append_right, List.cons_append, List.append_assoc, List.nodup_nil, List.not_mem_nil, List.disjoint_nil_left, List.disjoint_nil_right, List.append_nil, List.nil_append, not_false_eq_true, true_and, and_true, Tree.ptr_node, Tree.ptr_nil, ctxRoot_cons, ctxRoot_nil, Frame.addr_L, Frame.addr_R] at hnd hroot ⊢) <;>
          (try casesm* _ ∧ _) <;>
          (and_intros <;> assumption)
        · first
          | assumption
          | simp only [setCell_other, setCell_same, huv, hvu, hup, hpu, hvp, hpv, hu, hv, hp, Ne.symm hu,
              Ne.symm hv, Ne.symm hp, ne_eq, not_false_eq_true, hns, huc, Exec.some_bind,
              Exec.pure_eq, ctxPar_cons, ctxPar_nil, Frame.addr_L, Frame.addr_R, RBT.color,
              RBT.parent, RBT.get_some]
        · first
          | rfl
          | simp only [setCell_other, setCell_same, huv, hvu, hup, hpu, hvp, hpv, hu, hv, hp, Ne.symm hu,
              Ne.symm hv, Ne.symm hp, ne_eq, not_false_eq_true, hns, huc, Exec.some_bind,
              Exec.pure_eq, ctxPar_cons, ctxPar_nil, Frame.addr_L, Frame.addr_R, RBT.color,
              RBT.parent, RBT.get_some]
        · intro h
          cases h

/-- Call `rbTransplant(u, u->left)` on a node `u` without right child: the
left subtree takes the place of `u`. -/
theorem Shape.transplant_left {t : RBT K V} {u : Nat} {cu : Color} {Vt : Tree K V} {ku : K × V}
    {ctx : List (Frame K V)} (hS : Shape t (plug (node u cu Vt ku nil) ctx))
    (hsn : ∃ n, t.heap t.null = some n) :
    ∃ t', t.rbTransplant (some u) (Vt.ptr t.null) = some t' ∧ Shape t' (plug Vt ctx) ∧
      t'.null = t.null ∧ t'.next = t.next ∧ t'.heap u = t.heap u ∧
      t'.color (some t.null) = t.color (some t.null) ∧
      (Vt = nil → t'.parent (some t.null) = some (ctxPar ctx)) := by
  rw [Shape.plug_iff] at hS
  obtain ⟨hroot, ⟨hu, huc, hV, -⟩, hctx, hnd⟩ := hS
  obtain ⟨ns, hns⟩ := hsn
  simp only [Tree.ptr_node] at hctx huc
  cases Vt with
  | nil =>
    cases ctx with
    | nil =>
      have hnd' := hnd
      simp only [Tree.addrs, ctxAddrs, List.nodup_append, List.nodup_cons, List.mem_append, List.mem_cons,
        not_or, List.disjoint_cons_left, List.disjoint_cons_right, List.disjoint_append_left,
        List.disjoint_append_right, List.cons_append, List.append_assoc, List.nodup_nil,
        List.not_mem_nil, List.disjoint_nil_left, List.disjoint_nil_right, List.append_nil,
        List.nil_append, not_false_eq_true, true_and, and_true] at hnd'
      simp only [ctxPar_cons, ctxPar_nil, Frame.addr_L, Frame.addr_R, Tree.ptr_node, Tree.ptr_nil] at huc
      simp only [RBT.rbTransplant, RBT.right, RBT.left, RBT.parent, RBT.color, RBT.setRight, RBT.setLeft,
        RBT.setParent, RBT.setColor, RBT.modify, RBT.get_some, Exec.some_bind, Exec.pure_eq,
        ctxPar_cons, ctxPar_nil, Frame.addr_L, Frame.addr_R, Tree.ptr_node, Tree.ptr_nil, huc, hns,
        hu, Ne.symm hu, setCell, if_pos, if_neg, ite_true, ite_false, ne_eq, Option.some.injEq,
        not_false_eq_true, not_true_eq_false, reduceCtorEq]
      refine ⟨_, rfl, ?_, rfl, rfl, ?_, ?_, ?_⟩
      · rw [Shape.plug_iff]
        simp only [Repr, ReprCtx, setCell_same, setCell_other, Repr_setCell, ReprCtx_setCell, ne_eq,
          not_false_eq_true, Tree.ptr_node, Tree.ptr_nil, ctxPar_cons, ctxPar_nil, ctxRoot_cons,
          ctxRoot_nil, Frame.addr_L, Frame.addr_R, true_and, and_true, Tree.addrs,
          List.append_assoc, List.cons_append, List.nil_append, hnd', hu, Ne.symm hu, huc, hns] <;>
        (try simp only [Tree.addrs, ctxAddrs, List.nodup_append, List.nodup_cons, List.mem_append, List.mem_cons, not_or, List.disjoint_cons_left, List.disjoint_cons_right, List.disjoint_append_left, List.disjoint_append_right, List.cons_append, List.append_assoc, List.nodup_nil, List.not_mem_nil, List.disjoint_nil_left, List.disjoint_nil_right, List.append_nil, List.nil_append, not_false_eq_true, true_and, and_true, Tree.ptr_node, Tree.ptr_nil, ctxRoot_cons, ctxRoot_nil, Frame.addr_L, Frame.addr_R] at hnd hroot ⊢) <;>
        (try casesm* _ ∧ _) <;>
        (and_intros <;> assumption)
      · first
        | assumption
        | simp only [setCell_other, setCell_same, hu, Ne.symm hu, ne_eq, not_false_eq_true, hns, huc,
            Exec.some_bind, Exec.pure_eq, ctxPar_cons, ctxPar_nil, Frame.addr_L, Frame.addr_R,
            RBT.color, RBT.parent, RBT.get_some]
      · first
        | rfl
        | simp only [setCell_other, setCell_same, hu, Ne.symm hu, ne_eq, not_false_eq_true, hns, huc,
            Exec.some_bind, Exec.pure_eq, ctxPar_cons, ctxPar_nil, Frame.addr_L, Frame.addr_R,
            RBT.color, RBT.parent, RBT.get_some]
      · intro _
        first
        | rfl
        | simp only [setCell_other, setCell_same, hu, Ne.symm hu, ne_eq, not_false_eq_true, hns, huc,
              Exec.some_bind, Exec.pure_eq, ctxPar_cons, ctxPar_nil, Frame.addr_L, Frame.addr_R,
              RBT.color, RBT.parent, RBT.get_some]
    | cons f rest =>
      cases f with
      | L p cp kp pr =>
        obtain ⟨hp, hpc, hpr, hrest⟩ := hctx
        have hn3 := hpr.ne_null
        have hn4 := hrest.null_fresh
        have hup : u ≠ p := by
          rintro rfl
          simp only [Tree.addrs, ctxAddrs, List.nodup_append, List.nodup_cons, List.mem_append,
            List.mem_cons, not_or, List.disjoint_cons_left, List.disjoint_cons_right,
            List.disjoint_append_left, List.disjoint_append_right, List.cons_append,
            List.append_assoc, List.nodup_nil, List.not_mem_nil, List.disjoint_nil_left,
            List.disjoint_nil_right, List.append_nil, List.nil_append, not_false_eq_true, true_and,
            and_true, not_true_eq_false, false_and, and_false] at hnd
        have hpu : p ≠ u := hup.symm
        have hnd' := hnd
        simp only [Tree.addrs, ctxAddrs, List.nodup_append, List.nodup_cons, List.mem_append, List.mem_cons,
          not_or, List.disjoint_cons_left, List.disjoint_cons_right, List.disjoint_append_left,
          List.disjoint_append_right, List.cons_append, List.append_assoc, List.nodup_nil,
          List.not_mem_nil, List.disjoint_nil_left, List.disjoint_nil_right, List.append_nil,
          List.nil_append, not_false_eq_true, true_and, and_true] at hnd'
        simp only [ctxPar_cons, ctxPar_nil, Frame.addr_L, Frame.addr_R, Tree.ptr_node, Tree.ptr_nil] at huc hpc
        simp only [RBT.rbTransplant, RBT.right, RBT.left, RBT.parent, RBT.color, RBT.setRight, RBT.setLeft,
          RBT.setParent, RBT.setColor, RBT.modify, RBT.get_some, Exec.some_bind, Exec.pure_eq,
          ctxPar_cons, ctxPar_nil, Frame.addr_L, Frame.addr_R, Tree.ptr_node, Tree.ptr_nil, huc,
          hns, hpc, hup, hpu, hu, hp, Ne.symm hu, Ne.symm hp, setCell, if_pos, if_neg, ite_true,
          ite_false, ne_eq, Option.some.injEq, not_false_eq_true, not_true_eq_false, reduceCtorEq]
        refine ⟨_, rfl, ?_, rfl, rfl, ?_, ?_, ?_⟩
        · rw [Shape.plug_iff]
          simp only [Repr, ReprCtx, setCell_same, setCell_other, Repr_setCell, ReprCtx_setCell, ne_eq,
            not_false_eq_true, Tree.ptr_node, Tree.ptr_nil, ctxPar_cons, ctxPar_nil, ctxRoot_cons,
            ctxRoot_nil, Frame.addr_L, Frame.addr_R, true_and, and_true, Tree.addrs,
            List.append_assoc, List.cons_append, List.nil_append, hnd', hup, hpu, hn3, hn4, hu, hp,
            Ne.symm hu, Ne.symm hp, huc, hns, hpc] <;>
          (try simp only [Tree.addrs, ctxAddrs, List.nodup_append, List.nodup_cons, List.mem_append, List.mem_cons, not_or, List.disjoint_cons_left, List.disjoint_cons_right, List.disjoint_append_left, List.disjoint_append_right, List.cons_append, List.append_assoc, List.nodup_nil, List.not_mem_nil, List.disjoint_nil_left, List.disjoint_nil_right, List.append_nil, List.nil_append, not_false_eq_true, true_and, and_true, Tree.ptr_node, Tree.ptr_nil, ctxRoot_cons, ctxRoot_nil, Frame.addr_L, Frame.addr_R] at hnd hroot ⊢) <;>
          (try casesm* _ ∧ _) <;>
          (and_intros <;> assumption)
        · first
          | assumption
          | simp only [setCell_other, setCell_same, hup, hpu, hu, hp, Ne.symm hu, Ne.symm hp, ne_eq,
              not_false_eq_true, hns, huc, Exec.some_bind, Exec.pure_eq, ctxPar_cons, ctxPar_nil,
              Frame.addr_L, Frame.addr_R, RBT.color, RBT.parent, RBT.get_some]
        · first
          | rfl
          | simp only [setCell_other, setCell_same, hup, hpu, hu, hp, Ne.symm hu, Ne.symm hp, ne_eq,
              not_false_eq_true, hns, huc, Exec.some_bind, Exec.pure_eq, ctxPar_cons, ctxPar_nil,
              Frame.addr_L, Frame.addr_R, RBT.color, RBT.parent, RBT.get_some]
        · intro _
          first
          | rfl
          | simp only [setCell_other, setCell_same, hup, hpu, hu, hp, Ne.symm hu, Ne.symm hp, ne_eq,
                not_false_eq_true, hns, huc, Exec.some_bind, Exec.pure_eq, ctxPar_cons, ctxPar_nil,
                Frame.addr_L, Frame.addr_R, RBT.color, RBT.parent, RBT.get_some]
      | R p cp pr kp =>
        obtain ⟨hp, hpc, hpr, hrest⟩ := hctx
        have hn3 := hpr.ne_null
        have hn4 := hrest.null_fresh
        have hup : u ≠ p := by
          rintro rfl
          simp only [Tree.addrs, ctxAddrs, List.nodup_append, List.nodup_cons, List.mem_append,
            List.mem_cons, not_or, List.disjoint_cons_left, List.disjoint_cons_right,
            List.disjoint_append_left, List.disjoint_append_right, List.cons_append,
            List.append_assoc, List.nodup_nil, List.not_mem_nil, List.disjoint_nil_left,
            List.disjoint_nil_right, List.append_nil, List.nil_append, not_false_eq_true, true_and,
            and_true, not_true_eq_false, false_and, and_false] at hnd
        have hpu : p ≠ u := hup.symm
        have hnd' := hnd
        simp only [Tree.addrs, ctxAddrs, List.nodup_append, List.nodup_cons, List.mem_append, List.mem_cons,
          not_or, List.disjoint_cons_left, List.disjoint_cons_right, List.disjoint_append_left,
          List.disjoint_append_right, List.cons_append, List.append_assoc, List.nodup_nil,
          List.not_mem_nil, List.disjoint_nil_left, List.disjoint_nil_right, List.append_nil,
          List.nil_append, not_false_eq_true, true_and, and_true] at hnd'
        have hq : ¬ (some u = Tree.ptr t.null pr) := fun e => ptr_ne_of_not_mem hu (by simp only [hnd', not_false_eq_true]) e.symm
        simp only [ctxPar_cons, ctxPar_nil, Frame.addr_L, Frame.addr_R, Tree.ptr_node, Tree.ptr_nil] at huc hpc
        simp only [RBT.rbTransplant, RBT.right, RBT.left, RBT.parent, RBT.color, RBT.setRight, RBT.setLeft,
          RBT.setParent, RBT.setColor, RBT.modify, RBT.get_some, Exec.some_bind, Exec.pure_eq,
          ctxPar_cons, ctxPar_nil, Frame.addr_L, Frame.addr_R, Tree.ptr_node, Tree.ptr_nil, huc,
          hns, hpc, hup, hpu, hq, hu, hp, Ne.symm hu, Ne.symm hp, setCell, if_pos, if_neg,
          ite_true, ite_false, ne_eq, Option.some.injEq, not_false_eq_true, not_true_eq_false,
          reduceCtorEq]
        refine ⟨_, rfl, ?_, rfl, rfl, ?_, ?_, ?_⟩
        · rw [Shape.plug_iff]
          simp only [Repr, ReprCtx, setCell_same, setCell_other, Repr_setCell, ReprCtx_setCell, ne_eq,
            not_false_eq_true, Tree.ptr_node, Tree.ptr_nil, ctxPar_cons, ctxPar_nil, ctxRoot_cons,
            ctxRoot_nil, Frame.addr_L, Frame.addr_R, true_and, and_true, Tree.addrs,
            List.append_assoc, List.cons_append, List.nil_append, hnd', hup, hpu, hq, hn3, hn4, hu,
            hp, Ne.symm hu, Ne.symm hp, huc, hns, hpc] <;>
          (try simp only [Tree.addrs, ctxAddrs, List.nodup_append, List.nodup_cons, List.mem_append, List.mem_cons, not_or, List.disjoint_cons_left, List.disjoint_cons_right, List.disjoint_append_left, List.disjoint_append_right, List.cons_append, List.append_assoc, List.nodup_nil, List.not_mem_nil, List.disjoint_nil_left, List.disjoint_nil_right, List.append_nil, List.nil_append, not_false_eq_true, true_and, and_true, Tree.ptr_node, Tree.ptr_nil, ctxRoot_cons, ctxRoot_nil, Frame.addr_L, Frame.addr_R] at hnd hroot ⊢) <;>
          (try casesm* _ ∧ _) <;>
          (and_intros <;> assumption)
        · first
          | assumption
          | simp only [setCell_other, setCell_same, hup, hpu, hu, hp, Ne.symm hu, Ne.symm hp, ne_eq,
              not_false_eq_true, hns, huc, Exec.some_bind, Exec.pure_eq, ctxPar_cons, ctxPar_nil,
              Frame.addr_L, Frame.addr_R, RBT.color, RBT.parent, RBT.get_some]
        · first
          | rfl
          | simp only [setCell_other, setCell_same, hup, hpu, hu, hp, Ne.symm hu, Ne.symm hp, ne_eq,
              not_false_eq_true, hns, huc, Exec.some_bind, Exec.pure_eq, ctxPar_cons, ctxPar_nil,
              Frame.addr_L, Frame.addr_R, RBT.color, RBT.parent, RBT.get_some]
        · intro _
          first
          | rfl
          | simp only [setCell_other, setCell_same, hup, hpu, hu, hp, Ne.symm hu, Ne.symm hp, ne_eq,
                not_false_eq_true, hns, huc, Exec.some_bind, Exec.pure_eq, ctxPar_cons, ctxPar_nil,
                Frame.addr_L, Frame.addr_R, RBT.color, RBT.parent, RBT.get_some]
  | node v cv vl kv vr =>
    cases ctx with
    | nil =>
      obtain ⟨hv, hvc, hvl, hvr⟩ := hV
      have hn1 := hvl.ne_null
      have hn2 := hvr.ne_null
      have huv : u ≠ v := by
        rintro rfl
        simp only [Tree.addrs, ctxAddrs, List.nodup_append, List.nodup_cons, List.mem_append, List.mem_cons,
          not_or, List.disjoint_cons_left, List.disjoint_cons_right, List.disjoint_append_left,
          List.disjoint_append_right, List.cons_append, List.append_assoc, List.nodup_nil,
          List.not_mem_nil, List.disjoint_nil_left, List.disjoint_nil_right, List.append_nil,
          List.nil_append, not_false_eq_true, true_and, and_true, not_true_eq_false, false_and,
          and_false] at hnd
      have hvu : v ≠ u := huv.symm
      have hnd' := hnd
      simp only [Tree.addrs, ctxAddrs, List.nodup_append, List.nodup_cons, List.mem_append, List.mem_cons,
        not_or, List.disjoint_cons_left, List.disjoint_cons_right, List.disjoint_append_left,
        List.disjoint_append_right, List.cons_append, List.append_assoc, List.nodup_nil,
        List.not_mem_nil, List.disjoint_nil_left, List.disjoint_nil_right, List.append_nil,
        List.nil_append, not_false_eq_true, true_and, and_true] at hnd'
      simp only [ctxPar_cons, ctxPar_nil, Frame.addr_L, Frame.addr_R, Tree.ptr_node, Tree.ptr_nil] at huc hvc
      simp only [RBT.rbTransplant, RBT.right, RBT.left, RBT.parent, RBT.color, RBT.setRight, RBT.setLeft,
        RBT.setParent, RBT.setColor, RBT.modify, RBT.get_some, Exec.some_bind, Exec.pure_eq,
        ctxPar_cons, ctxPar_nil, Frame.addr_L, Frame.addr_R, Tree.ptr_node, Tree.ptr_nil, huc, hns,
        hvc, huv, hvu, hu, hv, Ne.symm hu, Ne.symm hv, setCell, if_pos, if_neg, ite_true,
        ite_false, ne_eq, Option.some.injEq, not_false_eq_true, not_true_eq_false, reduceCtorEq]
      refine ⟨_, rfl, ?_, rfl, rfl, ?_, ?_, ?_⟩
      · rw [Shape.plug_iff]
        simp only [Repr, ReprCtx, setCell_same, setCell_other, Repr_setCell, ReprCtx_setCell, ne_eq,
          not_false_eq_true, Tree.ptr_node, Tree.ptr_nil, ctxPar_cons, ctxPar_nil, ctxRoot_cons,
          ctxRoot_nil, Frame.addr_L, Frame.addr_R, true_and, and_true, Tree.addrs,
          List.append_assoc, List.cons_append, List.nil_append, hnd', huv, hvu, hn1, hn2, hu, hv,
          Ne.symm hu, Ne.symm hv, huc, hns, hvc] <;>
        (try simp only [Tree.addrs, ctxAddrs, List.nodup_append, List.nodup_cons, List.mem_append, List.mem_cons, not_or, List.disjoint_cons_left, List.disjoint_cons_right, List.disjoint_append_left, List.disjoint_append_right, List.cons_append, List.append_assoc, List.nodup_nil, List.not_mem_nil, List.disjoint_nil_left, List.disjoint_nil_right, List.append_nil, List.nil_append, not_false_eq_true, true_and, and_true, Tree.ptr_node, Tree.ptr_nil, ctxRoot_cons, ctxRoot_nil, Frame.addr_L, Frame.addr_R] at hnd hroot ⊢) <;>
        (try casesm* _ ∧ _) <;>
        (and_intros <;> assumption)
      · first
        | assumption
        | simp only [setCell_other, setCell_same, huv, hvu, hu, hv, Ne.symm hu, Ne.symm hv, ne_eq,
            not_false_eq_true, hns, huc, Exec.some_bind, Exec.pure_eq, ctxPar_cons, ctxPar_nil,
            Frame.addr_L, Frame.addr_R, RBT.color, RBT.parent, RBT.get_some]
      · first
        | rfl
        | simp only [setCell_other, setCell_same, huv, hvu, hu, hv, Ne.symm hu, Ne.symm hv, ne_eq,
            not_false_eq_true, hns, huc, Exec.some_bind, Exec.pure_eq, ctxPar_cons, ctxPar_nil,
            Frame.addr_L, Frame.addr_R, RBT.color, RBT.parent, RBT.get_some]
      · intro h
        cases h
    | cons f rest =>
      cases f with
      | L p cp kp pr =>
        obtain ⟨hv, hvc, hvl, hvr⟩ := hV
        have hn1 := hvl.ne_null
        have hn2 := hvr.ne_null
        obtain ⟨hp, hpc, hpr, hrest⟩ := hctx
        have hn3 := hpr.ne_null
        have hn4 := hrest.null_fresh
        have huv : u ≠ v := by
          rintro rfl
          simp only [Tree.addrs, ctxAddrs, List.nodup_append, List.nodup_cons, List.mem_append,
            List.mem_cons, not_or, List.disjoint_cons_left, List.disjoint_cons_right,
            List.disjoint_append_left, List.disjoint_append_right, List.cons_append,
            List.append_assoc, List.nodup_nil, List.not_mem_nil, List.disjoint_nil_left,
            List.disjoint_nil_right, List.append_nil, List.nil_append, not_false_eq_true, true_and,
            and_true, not_true_eq_false, false_and, and_false] at hnd
        have hvu : v ≠ u := huv.symm
        have hup : u ≠ p := by
          rintro rfl
          simp only [Tree.addrs, ctxAddrs, List.nodup_append, List.nodup_cons, List.mem_append,
            List.mem_cons, not_or, List.disjoint_cons_left, List.disjoint_cons_right,
            List.disjoint_append_left, List.disjoint_append_right, List.cons_append,
            List.append_assoc, List.nodup_nil, List.not_mem_nil, List.disjoint_nil_left,
            List.disjoint_nil_right, List.append_nil, List.nil_append, not_false_eq_true, true_and,
            and_true, not_true_eq_false, false_and, and_false] at hnd
        have hpu : p ≠ u := hup.symm
        have hvp : v ≠ p := by
          rintro rfl
          simp only [Tree.addrs, ctxAddrs, List.nodup_append, List.nodup_cons, List.mem_append,
            List.mem_cons, not_or, List.disjoint_cons_left, List.disjoint_cons_right,
            List.disjoint_append_left, List.disjoint_append_right, List.cons_append,
            List.append_assoc, List.nodup_nil, List.not_mem_nil, List.disjoint_nil_left,
            List.disjoint_nil_right, List.append_nil, List.nil_append, not_false_eq_true, true_and,
            and_true, not_true_eq_false, false_and, and_false] at hnd
        have hpv : p ≠ v := hvp.symm
        have hnd' := hnd
        simp only [Tree.addrs, ctxAddrs, List.nodup_append, List.nodup_cons, List.mem_append, List.mem_cons,
          not_or, List.disjoint_cons_left, List.disjoint_cons_right, List.disjoint_append_left,
          List.disjoint_append_right, List.cons_append, List.append_assoc, List.nodup_nil,
          List.not_mem_nil, List.disjoint_nil_left, List.disjoint_nil_right, List.append_nil,
          List.nil_append, not_false_eq_true, true_and, and_true] at hnd'
        simp only [ctxPar_cons, ctxPar_nil, Frame.addr_L, Frame.addr_R, Tree.ptr_node, Tree.ptr_nil] at huc hvc hpc
        simp only [RBT.rbTransplant, RBT.right, RBT.left, RBT.parent, RBT.color, RBT.setRight, RBT.setLeft,
          RBT.setParent, RBT.setColor, RBT.modify, RBT.get_some, Exec.some_bind, Exec.pure_eq,
          ctxPar_cons, ctxPar_nil, Frame.addr_L, Frame.addr_R, Tree.ptr_node, Tree.ptr_nil, huc,
          hns, hvc, hpc, huv, hvu, hup, hpu, hvp, hpv, hu, hv, hp, Ne.symm hu, Ne.symm hv,
          Ne.symm hp, setCell, if_pos, if_neg, ite_true, ite_false, ne_eq, Option.some.injEq,
          not_false_eq_true, not_true_eq_false, reduceCtorEq]
        refine ⟨_, rfl, ?_, rfl, rfl, ?_, ?_, ?_⟩
        · rw [Shape.plug_iff]
          simp only [Repr, ReprCtx, setCell_same, setCell_other, Repr_setCell, ReprCtx_setCell, ne_eq,
            not_false_eq_true, Tree.ptr_node, Tree.ptr_nil, ctxPar_cons, ctxPar_nil, ctxRoot_cons,
            ctxRoot_nil, Frame.addr_L, Frame.addr_R, true_and, and_true, Tree.addrs,
            List.append_assoc, List.cons_append, List.nil_append, hnd', huv, hvu, hup, hpu, hvp,
            hpv, hn1, hn2, hn3, hn4, hu, hv, hp, Ne.symm hu, Ne.symm hv, Ne.symm hp, huc, hns, hvc,
            hpc] <;>
          (try simp only [Tree.addrs, ctxAddrs, List.nodup_append, List.nodup_cons, List.mem_append, List.mem_cons, not_or, List.disjoint_cons_left, List.disjoint_cons_right, List.disjoint_append_left, List.disjoint_append_right, List.cons_append, List.append_assoc, List.nodup_nil, List.not_mem_nil, List.disjoint_nil_left, List.disjoint_nil_right, List.append_nil, List.nil_append, not_false_eq_true, true_and, and_true, Tree.ptr_node, Tree.ptr_nil, ctxRoot_cons, ctxRoot_nil, Frame.addr_L, Frame.addr_R] at hnd hroot ⊢) <;>
          (try casesm* _ ∧ _) <;>
          (and_intros <;> assumption)
        · first
          | assumption
          | simp only [setCell_other, setCell_same, huv, hvu, hup, hpu, hvp, hpv, hu, hv, hp, Ne.symm hu,
              Ne.symm hv, Ne.symm hp, ne_eq, not_false_eq_true, hns, huc, Exec.some_bind,
              Exec.pure_eq, ctxPar_cons, ctxPar_nil, Frame.addr_L, Frame.addr_R, RBT.color,
              RBT.parent, RBT.get_some]
        · first
          | rfl
          | simp only [setCell_other, setCell_same, huv, hvu, hup, hpu, hvp, hpv, hu, hv, hp, Ne.symm hu,
              Ne.symm hv, Ne.symm hp, ne_eq, not_false_eq_true, hns, huc, Exec.some_bind,
              Exec.pure_eq, ctxPar_cons, ctxPar_nil, Frame.addr_L, Frame.addr_R, RBT.color,
              RBT.parent, RBT.get_some]
        · intro h
          cases h
      | R p cp pr kp =>
        obtain ⟨hv, hvc, hvl, hvr⟩ := hV
        have hn1 := hvl.ne_null
        have hn2 := hvr.ne_null
        obtain ⟨hp, hpc, hpr, hrest⟩ := hctx
        have hn3 := hpr.ne_null
        have hn4 := hrest.null_fresh
        have huv : u ≠ v := by
          rintro rfl
          simp only [Tree.addrs, ctxAddrs, List.nodup_append, List.nodup_cons, List.mem_append,
            List.mem_cons, not_or, List.disjoint_cons_left, List.disjoint_cons_right,
            List.disjoint_append_left, List.disjoint_append_right, List.cons_append,
            List.append_assoc, List.nodup_nil, List.not_mem_nil, List.disjoint_nil_left,
            List.disjoint_nil_right, List.append_nil, List.nil_append, not_false_eq_true, true_and,
            and_true, not_true_eq_false, false_and, and_false] at hnd
        have hvu : v ≠ u := huv.symm
        have hup : u ≠ p := by
          rintro rfl
          simp only [Tree.addrs, ctxAddrs, List.nodup_append, List.nodup_cons, List.mem_append,
            List.mem_cons, not_or, List.disjoint_cons_left, List.disjoint_cons_right,
            List.disjoint_append_left, List.disjoint_append_right, List.cons_append,
            List.append_assoc, List.nodup_nil, List.not_mem_nil, List.disjoint_nil_left,
            List.disjoint_nil_right, List.append_nil, List.nil_append, not_false_eq_true, true_and,
            and_true, not_true_eq_false, false_and, and_false] at hnd
        have hpu : p ≠ u := hup.symm
        have hvp : v ≠ p := by
          rintro rfl
          simp only [Tree.addrs, ctxAddrs, List.nodup_append, List.nodup_cons, List.mem_append,
            List.mem_cons, not_or, List.disjoint_cons_left, List.disjoint_cons_right,
            List.disjoint_append_left, List.disjoint_append_right, List.cons_append,
            List.append_assoc, List.nodup_nil, List.not_mem_nil, List.disjoint_nil_left,
            List.disjoint_nil_right, List.append_nil, List.nil_append, not_false_eq_true, true_and,
            and_true, not_true_eq_false, false_and, and_false] at hnd
        have hpv : p ≠ v := hvp.symm
        have hnd' := hnd
        simp only [Tree.addrs, ctxAddrs, List.nodup_append, List.nodup_cons, List.mem_append, List.mem_cons,
          not_or, List.disjoint_cons_left, List.disjoint_cons_right, List.disjoint_append_left,
          List.disjoint_append_right, List.cons_append, List.append_assoc, List.nodup_nil,
          List.not_mem_nil, List.disjoint_nil_left, List.disjoint_nil_right, List.append_nil,
          List.nil_append, not_false_eq_true, true_and, and_true] at hnd'
        have hq : ¬ (some u = Tree.ptr t.null pr) := fun e => ptr_ne_of_not_mem hu (by simp only [hnd', not_false_eq_true]) e.symm
        simp only [ctxPar_cons, ctxPar_nil, Frame.addr_L, Frame.addr_R, Tree.ptr_node, Tree.ptr_nil] at huc hvc hpc
        simp only [RBT.rbTransplant, RBT.right, RBT.left, RBT.parent, RBT.color, RBT.setRight, RBT.setLeft,
          RBT.setParent, RBT.setColor, RBT.modify, RBT.get_some, Exec.some_bind, Exec.pure_eq,
          ctxPar_cons, ctxPar_nil, Frame.addr_L, Frame.addr_R, Tree.ptr_node, Tree.ptr_nil, huc,
          hns, hvc, hpc, huv, hvu, hup, hpu, hvp, hpv, hq, hu, hv, hp, Ne.symm hu, Ne.symm hv,
          Ne.symm hp, setCell, if_pos, if_neg, ite_true, ite_false, ne_eq, Option.some.injEq,
          not_false_eq_true, not_true_eq_false, reduceCtorEq]
        refine ⟨_, rfl, ?_, rfl, rfl, ?_, ?_, ?_⟩
        · rw [Shape.plug_iff]
          simp only [Repr, ReprCtx, setCell_same, setCell_other, Repr_setCell, ReprCtx_setCell, ne_eq,
            not_false_eq_true, Tree.ptr_node, Tree.ptr_nil, ctxPar_cons, ctxPar_nil, ctxRoot_cons,
            ctxRoot_nil, Frame.addr_L, Frame.addr_R, true_and, and_true, Tree.addrs,
            List.append_assoc, List.cons_append, List.nil_append, hnd', huv, hvu, hup, hpu, hvp,
            hpv, hq, hn1, hn2, hn3, hn4, hu, hv, hp, Ne.symm hu, Ne.symm hv, Ne.symm hp, huc, hns,
            hvc, hpc] <;>
          (try simp only [Tree.addrs, ctxAddrs, List.nodup_append, List.nodup_cons, List.mem_append, List.mem_cons, not_or, List.disjoint_cons_left, List.disjoint_cons_right, List.disjoint_append_left, List.disjoint_append_right, List.cons_append, List.append_assoc, List.nodup_nil, List.not_mem_nil, List.disjoint_nil_left, List.disjoint_nil_right, List.append_nil, List.nil_append, not_false_eq_true, true_and, and_true, Tree.ptr_node, Tree.ptr_nil, ctxRoot_cons, ctxRoot_nil, Frame.addr_L, Frame.addr_R] at hnd hroot ⊢) <;>
          (try casesm* _ ∧ _) <;>
          (and_intros <;> assumption)
        · first
          | assumption
          | simp only [setCell_other, setCell_same, huv, hvu, hup, hpu, hvp, hpv, hu, hv, hp, Ne.symm hu,
              Ne.symm hv, Ne.symm hp, ne_eq, not_false_eq_true, hns, huc, Exec.some_bind,
              Exec.pure_eq, ctxPar_cons, ctxPar_nil, Frame.addr_L, Frame.addr_R, RBT.color,
              RBT.parent, RBT.get_some]
        · first
          | rfl
          | simp only [setCell_other, setCell_same, huv, hvu, hup, hpu, hvp, hpv, hu, hv, hp, Ne.symm hu,
              Ne.symm hv, Ne.symm hp, ne_eq, not_false_eq_true, hns, huc, Exec.some_bind,
              Exec.pure_eq, ctxPar_cons, ctxPar_nil, Frame.addr_L, Frame.addr_R, RBT.color,
              RBT.parent, RBT.get_some]
        · intro h
          cases h

end FtContainers

namespace FtContainers

open Color Tree

variable {K V : Type}

theorem sentinelBlack_of_color {t : RBT K V} (h : t.color (some t.null) = some BLACK_NODE) :
    t.sentinelBlack := by
  cases hc : t.heap t.null with
  | none => simp [RBT.color, RBT.get_some, hc] at h
  | some n =>
    rw [RBT.color_of hc] at h
    exact ⟨n, hc, Option.some.inj h⟩

theorem sentinelBlack.has_cell {t : RBT K V} (h : t.sentinelBlack) : ∃ n, t.heap t.null = some n :=
  h.imp fun _ hn => hn.1

/-- Freeing a real node leaves the fields of the sentinel alone. -/
theorem free_sentinel {t : RBT K V} {z : Nat} (hz : z ≠ t.null) :
    (RBT.mk t.root t.null (setCell t.heap z none) t.next).color (some t.null) =
        t.color (some t.null) ∧
      (RBT.mk t.root t.null (setCell t.heap z none) t.next).parent (some t.null) =
        t.parent (some t.null) := by
  simp [RBT.color, RBT.parent, RBT.get_some, setCell_other, hz.symm]

/-- Case `z->left == _null` of `deleteNodeHelper`: the right subtree takes the
place of `z`, and `z` is freed. -/
theorem deleteSplice_right {t : RBT K V} {z : Nat} {cz : Color} {R : Tree K V} {kz : K × V}
    {ctx : List (Frame K V)} (hS : Shape t (plug (node z cz nil kz R) ctx))
    (hsn : ∃ n, t.heap t.null = some n) :
    ∃ t', t.deleteSplice (some z) = some (t', R.ptr t.null, cz) ∧ Shape t' (plug R ctx) ∧
      t'.null = t.null ∧ t'.next = t.next ∧
      t'.color (some t.null) = t.color (some t.null) ∧
      (R = nil → t'.parent (some t.null) = some (ctxPar ctx)) := by
  obtain ⟨t1, e1, hS1, hn1, hx1, hz1, hc1, hp1⟩ := Shape.transplant_right hS hsn
  have hcell := hS.cell
  have hz : z ≠ t.null := ((Repr_plug _ _ _ _).1 hS.repr).1.1
  have hfresh : z ∉ (plug R ctx).addrs := by
    have := hS.nodup
    rw [nodup_plug] at this
    rw [mem_addrs_plug]
    simp only [Tree.addrs, List.nil_append, List.cons_append, List.nodup_cons, List.mem_append]
      at this
    exact this.1
  have hfs := free_sentinel (t := t1) (hn1 ▸ hz)
  rw [hn1] at hfs
  refine ⟨_, ?_, hS1.setCell_fresh hfresh none t1.root rfl t1.next, hn1, hx1, ?_, ?_⟩
  · simp only [RBT.deleteSplice, RBT.color_of hcell, RBT.left_of hcell, RBT.right_of hcell,
      Exec.some_bind, Tree.ptr_nil, if_pos, e1, Exec.pure_eq,
      RBT.deallocate_of (hz1.trans hcell), hn1]
  · exact hfs.1.trans hc1
  · intro h
    exact hfs.2.trans (hp1 h)

/-- Case `z->right == _null` of `deleteNodeHelper`, the left child being a
node: the left subtree takes the place of `z`, and `z` is freed. -/
theorem deleteSplice_left {t : RBT K V} {z l : Nat} {cz cl : Color} {Ll Lr : Tree K V}
    {kz kl : K × V} {ctx : List (Frame K V)}
    (hS : Shape t (plug (node z cz (node l cl Ll kl Lr) kz nil) ctx))
    (hsn : ∃ n, t.heap t.null = some n) :
    ∃ t', t.deleteSplice (some z) = some (t', some l, cz) ∧
      Shape t' (plug (node l cl Ll kl Lr) ctx) ∧
      t'.null = t.null ∧ t'.next = t.next ∧
      t'.color (some t.null) = t.color (some t.null) := by
  obtain ⟨t1, e1, hS1, hn1, hx1, hz1, hc1, hp1⟩ := Shape.transplant_left hS hsn
  have hcell := hS.cell
  have hz : z ≠ t.null := ((Repr_plug _ _ _ _).1 hS.repr).1.1
  have hl : l ≠ t.null := ((Repr_plug _ _ _ _).1 hS.repr).1.2.2.1.1
  have hfresh : z ∉ (plug (node l cl Ll kl Lr) ctx).addrs := by
    have := hS.nodup
    rw [nodup_plug] at this
    rw [mem_addrs_plug]
    simp only [Tree.addrs, ctxAddrs, List.nodup_append, List.nodup_cons, List.mem_append, List.mem_cons, not_or, List.disjoint_cons_left, List.disjoint_cons_right, List.disjoint_append_left, List.disjoint_append_right, List.cons_append, List.append_assoc, List.nodup_nil, List.not_mem_nil, List.disjoint_nil_left, List.disjoint_nil_right, List.append_nil, List.nil_append, not_false_eq_true, true_and, and_true] at this ⊢
    tauto
  have hfs := free_sentinel (t := t1) (hn1 ▸ hz)
  rw [hn1] at hfs
  refine ⟨_, ?_, hS1.setCell_fresh hfresh none t1.root rfl t1.next, hn1, hx1, ?_⟩
  · simp only [Tree.ptr_node] at e1 hcell
    simp only [RBT.deleteSplice, RBT.color_of hcell, RBT.left_of hcell, RBT.right_of hcell,
      Exec.some_bind, Tree.ptr_nil, if_pos, if_neg, e1, Exec.pure_eq, Option.some.injEq, hl,
      not_false_eq_true, ite_true, ite_false,
      RBT.deallocate_of (hz1.trans hcell), hn1]
  · exact hfs.1.trans hc1

end FtContainers

set_option maxHeartbeats 1000000

namespace FtContainers

open Color Tree

variable {K V : Type}

/-- Two children, the successor `y` being the right child of `z`: `y` takes
the place of `z` with the left subtree of `z`, and `z` is freed. -/
theorem deleteSplice_succ_child {t : RBT K V} {z l y : Nat} {cz cl cy : Color}
    {Ll Lr Ry : Tree K V} {kz kl ky : K × V} {ctx : List (Frame K V)}
    (hS : Shape t (plug (node z cz (node l cl Ll kl Lr) kz (node y cy nil ky Ry)) ctx))
    (hsn : ∃ n, t.heap t.null = some n)
    (hmin : t.minFrom (some y) = some (some y)) :
    ∃ t', t.deleteSplice (some z) = some (t', Ry.ptr t.null, cy) ∧
      Shape t' (plug Ry (Frame.R y cz (node l cl Ll kl Lr) ky :: ctx)) ∧
      t'.null = t.null ∧ t'.next = t.next ∧
      t'.color (some t.null) = t.color (some t.null) ∧
      (Ry = nil → t'.parent (some t.null) = some (some y)) := by
  rw [Shape.plug_iff] at hS
  obtain ⟨hroot, ⟨hz, hzc, ⟨hl, hlc, hLl, hLr⟩, ⟨hy, hyc, -, hV⟩⟩, hctx, hnd⟩ := hS
  obtain ⟨ns, hns⟩ := hsn
  have hn5 := hLl.ne_null
  have hn6 := hLr.ne_null
  simp only [Tree.ptr_node] at hctx hzc hlc hyc
  cases Ry with
  | nil =>
    cases ctx with
    | nil =>
      have hzl : z ≠ l := by
        rintro rfl
        simp only [Tree.addrs, ctxAddrs, List.nodup_append, List.nodup_cons, List.mem_append, List.mem_cons,
          not_or, List.disjoint_cons_left, List.disjoint_cons_right, List.disjoint_append_left,
          List.disjoint_append_right, List.cons_append, List.append_assoc, List.nodup_nil,
          List.not_mem_nil, List.disjoint_nil_left, List.disjoint_nil_right, List.append_nil,
          List.nil_append, not_false_eq_true, true_and, and_true, not_true_eq_false, false_and,
          and_false] at hnd
      have hlz : l ≠ z := hzl.symm
      have hzy : z ≠ y := by
        rintro rfl
        simp only [Tree.addrs, ctxAddrs, List.nodup_append, List.nodup_cons, List.mem_append, List.mem_cons,
          not_or, List.disjoint_cons_left, List.disjoint_cons_right, List.disjoint_append_left,
          List.disjoint_append_right, List.cons_append, List.append_assoc, List.nodup_nil,
          List.not_mem_nil, List.disjoint_nil_left, List.disjoint_nil_right, List.append_nil,
          List.nil_append, not_false_eq_true, true_and, and_true, not_true_eq_false, false_and,
          and_false] at hnd
      have hyz : y ≠ z := hzy.symm
      have hly : l ≠ y := by
        rintro rfl
        simp only [Tree.addrs, ctxAddrs, List.nodup_append, List.nodup_cons, List.mem_append, List.mem_cons,
          not_or, List.disjoint_cons_left, List.disjoint_cons_right, List.disjoint_append_left,
          List.disjoint_append_right, List.cons_append, List.append_assoc, List.nodup_nil,
          List.not_mem_nil, List.disjoint_nil_left, List.disjoint_nil_right, List.append_nil,
          List.nil_append, not_false_eq_true, true_and, and_true, not_true_eq_false, false_and,
          and_false] at hnd
      have hyl : y ≠ l := hly.symm
      have hnd' := hnd
      simp only [Tree.addrs, ctxAddrs, List.nodup_append, List.nodup_cons, List.mem_append, List.mem_cons,
        not_or, List.disjoint_cons_left, List.disjoint_cons_right, List.disjoint_append_left,
        List.disjoint_append_right, List.cons_append, List.append_assoc, List.nodup_nil,
        List.not_mem_nil, List.disjoint_nil_left, List.disjoint_nil_right, List.append_nil,
        List.nil_append, not_false_eq_true, true_and, and_true] at hnd'
      simp only [ctxPar_cons, ctxPar_nil, Frame.addr_L, Frame.addr_R, Tree.ptr_node, Tree.ptr_nil] at hzc hlc hyc
      simp only [RBT.deleteSplice, RBT.rbTransplant, RBT.deallocate, RBT.right, RBT.left, RBT.parent,
        RBT.color, RBT.setRight, RBT.setLeft, RBT.setParent, RBT.setColor, RBT.modify,
        RBT.get_some, Exec.some_bind, Exec.pure_eq, ctxPar_cons, ctxPar_nil, Frame.addr_L,
        Frame.addr_R, Tree.ptr_node, Tree.ptr_nil, hmin, hzc, hlc, hyc, hns, hzl, hlz, hzy, hyz,
        hly, hyl, hz, hl, hy, Ne.symm hz, Ne.symm hl, Ne.symm hy, setCell, if_pos, if_neg,
        ite_true, ite_false, ne_eq, Option.some.injEq, not_false_eq_true, not_true_eq_false,
        reduceCtorEq]
      refine ⟨_, rfl, ?_, rfl, rfl, ?_, ?_⟩
      · rw [Shape.plug_iff]
        simp only [Repr, ReprCtx, setCell_same, setCell_other, Repr_setCell, ReprCtx_setCell, ne_eq,
          not_false_eq_true, Tree.ptr_node, Tree.ptr_nil, ctxPar_cons, ctxPar_nil, ctxRoot_cons,
          ctxRoot_nil, Frame.addr_L, Frame.addr_R, true_and, and_true, Tree.addrs,
          List.append_assoc, List.cons_append, List.nil_append, hnd', hzl, hlz, hzy, hyz, hly, hyl,
          hn5, hn6, hz, hl, hy, Ne.symm hz, Ne.symm hl, Ne.symm hy, hzc, hlc, hyc, hns] <;>
        (try simp only [Tree.addrs, ctxAddrs, List.nodup_append, List.nodup_cons, List.mem_append, List.mem_cons, not_or, List.disjoint_cons_left, List.disjoint_cons_right, List.disjoint_append_left, List.disjoint_append_right, List.cons_append, List.append_assoc, List.nodup_nil, List.not_mem_nil, List.disjoint_nil_left, List.disjoint_nil_right, List.append_nil, List.nil_append, not_false_eq_true, true_and, and_true, Tree.ptr_node, Tree.ptr_nil, ctxRoot_cons, ctxRoot_nil, Frame.addr_L, Frame.addr_R] at hnd hroot ⊢) <;>
        (try casesm* _ ∧ _) <;>
        (and_intros <;>
          first
          | assumption
          | exact Ne.symm ‹_›
          | exact fun e => ‹¬ _› e.symm
          | exact List.Disjoint.symm ‹_›
          | exact fun _ h1 h2 => ‹List.Disjoint _ _› h2 h1)
      · first
        | rfl
        | simp only [setCell_other, setCell_same, ne_eq, not_false_eq_true, Exec.some_bind, Exec.pure_eq,
            ctxPar_cons, ctxPar_nil, Frame.addr_L, Frame.addr_R, RBT.color, RBT.parent,
            RBT.get_some, hzl, hlz, hzy, hyz, hly, hyl, hz, hl, hy, Ne.symm hz, Ne.symm hl,
            Ne.symm hy, hns]
      · intro _
        first
        | rfl
        | simp only [setCell_other, setCell_same, ne_eq, not_false_eq_true, Exec.some_bind, Exec.pure_eq,
              ctxPar_cons, ctxPar_nil, Frame.addr_L, Frame.addr_R, RBT.color, RBT.parent,
              RBT.get_some, hzl, hlz, hzy, hyz, hly, hyl, hz, hl, hy, Ne.symm hz, Ne.symm hl,
              Ne.symm hy, hns]
    | cons f rest =>
      cases f with
      | L p cp kp pr =>
        obtain ⟨hp, hpc, hpr, hrest⟩ := hctx
        have hn3 := hpr.ne_null
        have hn4 := hrest.null_fresh
        have hzl : z ≠ l := by
          rintro rfl
          simp only [Tree.addrs, ctxAddrs, List.nodup_append, List.nodup_cons, List.mem_append,
            List.mem_cons, not_or, List.disjoint_cons_left, List.disjoint_cons_right,
            List.disjoint_append_left, List.disjoint_append_right, List.cons_append,
            List.append_assoc, List.nodup_nil, List.not_mem_nil, List.disjoint_nil_left,
            List.disjoint_nil_right, List.append_nil, List.nil_append, not_false_eq_true, true_and,
            and_true, not_true_eq_false, false_and, and_false] at hnd
        have hlz : l ≠ z := hzl.symm
        have hzy : z ≠ y := by
          rintro rfl
          simp only [Tree.addrs, ctxAddrs, List.nodup_append, List.nodup_cons, List.mem_append,
            List.mem_cons, not_or, List.disjoint_cons_left, List.disjoint_cons_right,
            List.disjoint_append_left, List.disjoint_append_right, List.cons_append,
            List.append_assoc, List.nodup_nil, List.not_mem_nil, List.disjoint_nil_left,
            List.disjoint_nil_right, List.append_nil, List.nil_append, not_false_eq_true, true_and,
            and_true, not_true_eq_false, false_and, and_false] at hnd
        have hyz : y ≠ z := hzy.symm
        have hzp : z ≠ p := by
          rintro rfl
          simp only [Tree.addrs, ctxAddrs, List.nodup_append, List.nodup_cons, List.mem_append,
            List.mem_cons, not_or, List.disjoint_cons_left, List.disjoint_cons_right,
            List.disjoint_append_left, List.disjoint_append_right, List.cons_append,
            List.append_assoc, List.nodup_nil, List.not_mem_nil, List.disjoint_nil_left,
            List.disjoint_nil_right, List.append_nil, List.nil_append, not_false_eq_true, true_and,
            and_true, not_true_eq_false, false_and, and_false] at hnd
        have hpz : p ≠ z := hzp.symm
        have hly : l ≠ y := by
          rintro rfl
          simp only [Tree.addrs, ctxAddrs, List.nodup_append, List.nodup_cons, List.mem_append,
            List.mem_cons, not_or, List.disjoint_cons_left, List.disjoint_cons_right,
            List.disjoint_append_left, List.disjoint_append_right, List.cons_append,
            List.append_assoc, List.nodup_nil, List.not_mem_nil, List.disjoint_nil_left,
            List.disjoint_nil_right, List.append_nil, List.nil_append, not_false_eq_true, true_and,
            and_true, not_true_eq_false, false_and, and_false] at hnd
        have hyl : y ≠ l := hly.symm
        have hlp : l ≠ p := by
          rintro rfl
          simp only [Tree.addrs, ctxAddrs, List.nodup_append, List.nodup_cons, List.mem_append,
            List.mem_cons, not_or, List.disjoint_cons_left, List.disjoint_cons_right,
            List.disjoint_append_left, List.disjoint_append_right, List.cons_append,
            List.append_assoc, List.nodup_nil, List.not_mem_nil, List.disjoint_nil_left,
            List.disjoint_nil_right, List.append_nil, List.nil_append, not_false_eq_true, true_and,
            and_true, not_true_eq_false, false_and, and_false] at hnd
        have hpl : p ≠ l := hlp.symm
        have hyp : y ≠ p := by
          rintro rfl
          simp only [Tree.addrs, ctxAddrs, List.nodup_append, List.nodup_cons, List.mem_append,
            List.mem_cons, not_or, List.disjoint_cons_left, List.disjoint_cons_right,
            List.disjoint_append_left, List.disjoint_append_right, List.cons_append,
            List.append_assoc, List.nodup_nil, List.not_mem_nil, List.disjoint_nil_left,
            List.disjoint_nil_right, List.append_nil, List.nil_append, not_false_eq_true, true_and,
            and_true, not_true_eq_false, false_and, and_false] at hnd
        have hpy : p ≠ y := hyp.symm
        have hnd' := hnd
        simp only [Tree.addrs, ctxAddrs, List.nodup_append, List.nodup_cons, List.mem_append, List.mem_cons,
          not_or, List.disjoint_cons_left, List.disjoint_cons_right, List.disjoint_append_left,
          List.disjoint_append_right, List.cons_append, List.append_assoc, List.nodup_nil,
          List.not_mem_nil, List.disjoint_nil_left, List.disjoint_nil_right, List.append_nil,
          List.nil_append, not_false_eq_true, true_and, and_true] at hnd'
        simp only [ctxPar_cons, ctxPar_nil, Frame.addr_L, Frame.addr_R, Tree.ptr_node, Tree.ptr_nil] at hzc hlc hyc hpc
        simp only [RBT.deleteSplice, RBT.rbTransplant, RBT.deallocate, RBT.right, RBT.left, RBT.parent,
          RBT.color, RBT.setRight, RBT.setLeft, RBT.setParent, RBT.setColor, RBT.modify,
          RBT.get_some, Exec.some_bind, Exec.pure_eq, ctxPar_cons, ctxPar_nil, Frame.addr_L,
          Frame.addr_R, Tree.ptr_node, Tree.ptr_nil, hmin, hzc, hlc, hyc, hns, hpc, hzl, hlz, hzy,
          hyz, hzp, hpz, hly, hyl, hlp, hpl, hyp, hpy, hz, hl, hy, hp, Ne.symm hz, Ne.symm hl,
          Ne.symm hy, Ne.symm hp, setCell, if_pos, if_neg, ite_true, ite_false, ne_eq,
          Option.some.injEq, not_false_eq_true, not_true_eq_false, reduceCtorEq]
        refine ⟨_, rfl, ?_, rfl, rfl, ?_, ?_⟩
        · rw [Shape.plug_iff]
          simp only [Repr, ReprCtx, setCell_same, setCell_other, Repr_setCell, ReprCtx_setCell, ne_eq,
            not_false_eq_true, Tree.ptr_node, Tree.ptr_nil, ctxPar_cons, ctxPar_nil, ctxRoot_cons,
            ctxRoot_nil, Frame.addr_L, Frame.addr_R, true_and, and_true, Tree.addrs,
            List.append_assoc, List.cons_append, List.nil_append, hnd', hzl, hlz, hzy, hyz, hzp,
            hpz, hly, hyl, hlp, hpl, hyp, hpy, hn5, hn6, hn3, hn4, hz, hl, hy, hp, Ne.symm hz,
            Ne.symm hl, Ne.symm hy, Ne.symm hp, hzc, hlc, hyc, hns, hpc] <;>
          (try simp only [Tree.addrs, ctxAddrs, List.nodup_append, List.nodup_cons, List.mem_append, List.mem_cons, not_or, List.disjoint_cons_left, List.disjoint_cons_right, List.disjoint_append_left, List.disjoint_append_right, List.cons_append, List.append_assoc, List.nodup_nil, List.not_mem_nil, List.disjoint_nil_left, List.disjoint_nil_right, List.append_nil, List.nil_append, not_false_eq_true, true_and, and_true, Tree.ptr_node, Tree.ptr_nil, ctxRoot_cons, ctxRoot_nil, Frame.addr_L, Frame.addr_R] at hnd hroot ⊢) <;>
          (try casesm* _ ∧ _) <;>
          (and_intros <;>
            first
            | assumption
            | exact Ne.symm ‹_›
            | exact fun e => ‹¬ _› e.symm
            | exact List.Disjoint.symm ‹_›
            | exact fun _ h1 h2 => ‹List.Disjoint _ _› h2 h1)
        · first
          | rfl
          | simp only [setCell_other, setCell_same, ne_eq, not_false_eq_true, Exec.some_bind, Exec.pure_eq,
              ctxPar_cons, ctxPar_nil, Frame.addr_L, Frame.addr_R, RBT.color, RBT.parent,
              RBT.get_some, hzl, hlz, hzy, hyz, hzp, hpz, hly, hyl, hlp, hpl, hyp, hpy, hz, hl, hy,
              hp, Ne.symm hz, Ne.symm hl, Ne.symm hy, Ne.symm hp, hns]
        · intro _
          first
          | rfl
          | simp only [setCell_other, setCell_same, ne_eq, not_false_eq_true, Exec.some_bind,
                Exec.pure_eq, ctxPar_cons, ctxPar_nil, Frame.addr_L, Frame.addr_R, RBT.color,
                RBT.parent, RBT.get_some, hzl, hlz, hzy, hyz, hzp, hpz, hly, hyl, hlp, hpl, hyp,
                hpy, hz, hl, hy, hp, Ne.symm hz, Ne.symm hl, Ne.symm hy, Ne.symm hp, hns]
      | R p cp pr kp =>
        obtain ⟨hp, hpc, hpr, hrest⟩ := hctx
        have hn3 := hpr.ne_null
        have hn4 := hrest.null_fresh
        have hzl : z ≠ l := by
          rintro rfl
          simp only [Tree.addrs, ctxAddrs, List.nodup_append, List.nodup_cons, List.mem_append,
            List.mem_cons, not_or, List.disjoint_cons_left, List.disjoint_cons_right,
            List.disjoint_append_left, List.disjoint_append_right, List.cons_append,
            List.append_assoc, List.nodup_nil, List.not_mem_nil, List.disjoint_nil_left,
            List.disjoint_nil_right, List.append_nil, List.nil_append, not_false_eq_true, true_and,
            and_true, not_true_eq_false, false_and, and_false] at hnd
        have hlz : l ≠ z := hzl.symm
        have hzy : z ≠ y := by
          rintro rfl
          simp only [Tree.addrs, ctxAddrs, List.nodup_append, List.nodup_cons, List.mem_append,
            List.mem_cons, not_or, List.disjoint_cons_left, List.disjoint_cons_right,
            List.disjoint_append_left, List.disjoint_append_right, List.cons_append,
            List.append_assoc, List.nodup_nil, List.not_mem_nil, List.disjoint_nil_left,
            List.disjoint_nil_right, List.append_nil, List.nil_append, not_false_eq_true, true_and,
            and_true, not_true_eq_false, false_and, and_false] at hnd
        have hyz : y ≠ z := hzy.symm
        have hzp : z ≠ p := by
          rintro rfl
          simp only [Tree.addrs, ctxAddrs, List.nodup_append, List.nodup_cons, List.mem_append,
            List.mem_cons, not_or, List.disjoint_cons_left, List.disjoint_cons_right,
            List.disjoint_append_left, List.disjoint_append_right, List.cons_append,
            List.append_assoc, List.nodup_nil, List.not_mem_nil, List.disjoint_nil_left,
            List.disjoint_nil_right, List.append_nil, List.nil_append, not_false_eq_true, true_and,
            and_true, not_true_eq_false, false_and, and_false] at hnd
        have hpz : p ≠ z := hzp.symm
        have hly : l ≠ y := by
          rintro rfl
          simp only [Tree.addrs, ctxAddrs, List.nodup_append, List.nodup_cons, List.mem_append,
            List.mem_cons, not_or, List.disjoint_cons_left, List.disjoint_cons_right,
            List.disjoint_append_left, List.disjoint_append_right, List.cons_append,
            List.append_assoc, List.nodup_nil, List.not_mem_nil, List.disjoint_nil_left,
            List.disjoint_nil_right, List.append_nil, List.nil_append, not_false_eq_true, true_and,
            and_true, not_true_eq_false, false_and, and_false] at hnd
        have hyl : y ≠ l := hly.symm
        have hlp : l ≠ p := by
          rintro rfl
          simp only [Tree.addrs, ctxAddrs, List.nodup_append, List.nodup_cons, List.mem_append,
            List.mem_cons, not_or, List.disjoint_cons_left, List.disjoint_cons_right,
            List.disjoint_append_left, List.disjoint_append_right, List.cons_append,
            List.append_assoc, List.nodup_nil, List.not_mem_nil, List.disjoint_nil_left,
            List.disjoint_nil_right, List.append_nil, List.nil_append, not_false_eq_true, true_and,
            and_true, not_true_eq_false, false_and, and_false] at hnd
        have hpl : p ≠ l := hlp.symm
        have hyp : y ≠ p := by
          rintro rfl
          simp only [Tree.addrs, ctxAddrs, List.nodup_append, List.nodup_cons, List.mem_append,
            List.mem_cons, not_or, List.disjoint_cons_left, List.disjoint_cons_right,
            List.disjoint_append_left, List.disjoint_append_right, List.cons_append,
            List.append_assoc, List.nodup_nil, List.not_mem_nil, List.disjoint_nil_left,
            List.disjoint_nil_right, List.append_nil, List.nil_append, not_false_eq_true, true_and,
            and_true, not_true_eq_false, false_and, and_false] at hnd
        have hpy : p ≠ y := hyp.symm
        have hnd' := hnd
        simp only [Tree.addrs, ctxAddrs, List.nodup_append, List.nodup_cons, List.mem_append, List.mem_cons,
          not_or, List.disjoint_cons_left, List.disjoint_cons_right, List.disjoint_append_left,
          List.disjoint_append_right, List.cons_append, List.append_assoc, List.nodup_nil,
          List.not_mem_nil, List.disjoint_nil_left, List.disjoint_nil_right, List.append_nil,
          List.nil_append, not_false_eq_true, true_and, and_true] at hnd'
        have hq : ¬ (some z = Tree.ptr t.null pr) := fun e => ptr_ne_of_not_mem hz (by simp only [hnd', not_false_eq_true]) e.symm
        simp only [ctxPar_cons, ctxPar_nil, Frame.addr_L, Frame.addr_R, Tree.ptr_node, Tree.ptr_nil] at hzc hlc hyc hpc
        simp only [RBT.deleteSplice, RBT.rbTransplant, RBT.deallocate, RBT.right, RBT.left, RBT.parent,
          RBT.color, RBT.setRight, RBT.setLeft, RBT.setParent, RBT.setColor, RBT.modify,
          RBT.get_some, Exec.some_bind, Exec.pure_eq, ctxPar_cons, ctxPar_nil, Frame.addr_L,
          Frame.addr_R, Tree.ptr_node, Tree.ptr_nil, hmin, hzc, hlc, hyc, hns, hpc, hzl, hlz, hzy,
          hyz, hzp, hpz, hly, hyl, hlp, hpl, hyp, hpy, hq, hz, hl, hy, hp, Ne.symm hz, Ne.symm hl,
          Ne.symm hy, Ne.symm hp, setCell, if_pos, if_neg, ite_true, ite_false, ne_eq,
          Option.some.injEq, not_false_eq_true, not_true_eq_false, reduceCtorEq]
        refine ⟨_, rfl, ?_, rfl, rfl, ?_, ?_⟩
        · rw [Shape.plug_iff]
          simp only [Repr, ReprCtx, setCell_same, setCell_other, Repr_setCell, ReprCtx_setCell, ne_eq,
            not_false_eq_true, Tree.ptr_node, Tree.ptr_nil, ctxPar_cons, ctxPar_nil, ctxRoot_cons,
            ctxRoot_nil, Frame.addr_L, Frame.addr_R, true_and, and_true, Tree.addrs,
            List.append_assoc, List.cons_append, List.nil_append, hnd', hzl, hlz, hzy, hyz, hzp,
            hpz, hly, hyl, hlp, hpl, hyp, hpy, hq, hn5, hn6, hn3, hn4, hz, hl, hy, hp, Ne.symm hz,
            Ne.symm hl, Ne.symm hy, Ne.symm hp, hzc, hlc, hyc, hns, hpc] <;>
          (try simp only [Tree.addrs, ctxAddrs, List.nodup_append, List.nodup_cons, List.mem_append, List.mem_cons, not_or, List.disjoint_cons_left, List.disjoint_cons_right, List.disjoint_append_left, List.disjoint_append_right, List.cons_append, List.append_assoc, List.nodup_nil, List.not_mem_nil, List.disjoint_nil_left, List.disjoint_nil_right, List.append_nil, List.nil_append, not_false_eq_true, true_and, and_true, Tree.ptr_node, Tree.ptr_nil, ctxRoot_cons, ctxRoot_nil, Frame.addr_L, Frame.addr_R] at hnd hroot ⊢) <;>
          (try casesm* _ ∧ _) <;>
          (and_intros <;>
            first
            | assumption
            | exact Ne.symm ‹_›
            | exact fun e => ‹¬ _› e.symm
            | exact List.Disjoint.symm ‹_›
            | exact fun _ h1 h2 => ‹List.Disjoint _ _› h2 h1)
        · first
          | rfl
          | simp only [setCell_other, setCell_same, ne_eq, not_false_eq_true, Exec.some_bind, Exec.pure_eq,
              ctxPar_cons, ctxPar_nil, Frame.addr_L, Frame.addr_R, RBT.color, RBT.parent,
              RBT.get_some, hzl, hlz, hzy, hyz, hzp, hpz, hly, hyl, hlp, hpl, hyp, hpy, hz, hl, hy,
              hp, Ne.symm hz, Ne.symm hl, Ne.symm hy, Ne.symm hp, hns]
        · intro _
          first
          | rfl
          | simp only [setCell_other, setCell_same, ne_eq, not_false_eq_true, Exec.some_bind,
                Exec.pure_eq, ctxPar_cons, ctxPar_nil, Frame.addr_L, Frame.addr_R, RBT.color,
                RBT.parent, RBT.get_some, hzl, hlz, hzy, hyz, hzp, hpz, hly, hyl, hlp, hpl, hyp,
                hpy, hz, hl, hy, hp, Ne.symm hz, Ne.symm hl, Ne.symm hy, Ne.symm hp, hns]
  | node x cx xl kx xr =>
    cases ctx with
    | nil =>
      obtain ⟨hx, hxc, hxl, hxr⟩ := hV
      have hn1 := hxl.ne_null
      have hn2 := hxr.ne_null
      have hzl : z ≠ l := by
        rintro rfl
        simp only [Tree.addrs, ctxAddrs, List.nodup_append, List.nodup_cons, List.mem_append, List.mem_cons,
          not_or, List.disjoint_cons_left, List.disjoint_cons_right, List.disjoint_append_left,
          List.disjoint_append_right, List.cons_append, List.append_assoc, List.nodup_nil,
          List.not_mem_nil, List.disjoint_nil_left, List.disjoint_nil_right, List.append_nil,
          List.nil_append, not_false_eq_true, true_and, and_true, not_true_eq_false, false_and,
          and_false] at hnd
      have hlz : l ≠ z := hzl.symm
      have hzy : z ≠ y := by
        rintro rfl
        simp only [Tree.addrs, ctxAddrs, List.nodup_append, List.nodup_cons, List.mem_append, List.mem_cons,
          not_or, List.disjoint_cons_left, List.disjoint_cons_right, List.disjoint_append_left,
          List.disjoint_append_right, List.cons_append, List.append_assoc, List.nodup_nil,
          List.not_mem_nil, List.disjoint_nil_left, List.disjoint_nil_right, List.append_nil,
          List.nil_append, not_false_eq_true, true_and, and_true, not_true_eq_false, false_and,
          and_false] at hnd
      have hyz : y ≠ z := hzy.symm
      have hzx : z ≠ x := by
        rintro rfl
        simp only [Tree.addrs, ctxAddrs, List.nodup_append, List.nodup_cons, List.mem_append, List.mem_cons,
          not_or, List.disjoint_cons_left, List.disjoint_cons_right, List.disjoint_append_left,
          List.disjoint_append_right, List.cons_append, List.append_assoc, List.nodup_nil,
          List.not_mem_nil, List.disjoint_nil_left, List.disjoint_nil_right, List.append_nil,
          List.nil_append, not_false_eq_true, true_and, and_true, not_true_eq_false, false_and,
          and_false] at hnd
      have hxz : x ≠ z := hzx.symm
      have hly : l ≠ y := by
        rintro rfl
        simp only [Tree.addrs, ctxAddrs, List.nodup_append, List.nodup_cons, List.mem_append, List.mem_cons,
          not_or, List.disjoint_cons_left, List.disjoint_cons_right, List.disjoint_append_left,
          List.disjoint_append_right, List.cons_append, List.append_assoc, List.nodup_nil,
          List.not_mem_nil, List.disjoint_nil_left, List.disjoint_nil_right, List.append_nil,
          List.nil_append, not_false_eq_true, true_and, and_true, not_true_eq_false, false_and,
          and_false] at hnd
      have hyl : y ≠ l := hly.symm
      have hlx : l ≠ x := by
        rintro rfl
        simp only [Tree.addrs, ctxAddrs, List.nodup_append, List.nodup_cons, List.mem_append, List.mem_cons,
          not_or, List.disjoint_cons_left, List.disjoint_cons_right, List.disjoint_append_left,
          List.disjoint_append_right, List.cons_append, List.append_assoc, List.nodup_nil,
          List.not_mem_nil, List.disjoint_nil_left, List.disjoint_nil_right, List.append_nil,
          List.nil_append, not_false_eq_true, true_and, and_true, not_true_eq_false, false_and,
          and_false] at hnd
      have hxl : x ≠ l := hlx.symm
      have hyx : y ≠ x := by
        rintro rfl
        simp only [Tree.addrs, ctxAddrs, List.nodup_append, List.nodup_cons, List.mem_append, List.mem_cons,
          not_or, List.disjoint_cons_left, List.disjoint_cons_right, List.disjoint_append_left,
          List.disjoint_append_right, List.cons_append, List.append_assoc, List.nodup_nil,
          List.not_mem_nil, List.disjoint_nil_left, List.disjoint_nil_right, List.append_nil,
          List.nil_append, not_false_eq_true, true_and, and_true, not_true_eq_false, false_and,
          and_false] at hnd
      have hxy : x ≠ y := hyx.symm
      have hnd' := hnd
      simp only [Tree.addrs, ctxAddrs, List.nodup_append, List.nodup_cons, List.mem_append, List.mem_cons,
        not_or, List.disjoint_cons_left, List.disjoint_cons_right, List.disjoint_append_left,
        List.disjoint_append_right, List.cons_append, List.append_assoc, List.nodup_nil,
        List.not_mem_nil, List.disjoint_nil_left, List.disjoint_nil_right, List.append_nil,
        List.nil_append, not_false_eq_true, true_and, and_true] at hnd'
      simp only [ctxPar_cons, ctxPar_nil, Frame.addr_L, Frame.addr_R, Tree.ptr_node, Tree.ptr_nil] at hzc hlc hyc hxc
      simp only [RBT.deleteSplice, RBT.rbTransplant, RBT.deallocate, RBT.right, RBT.left, RBT.parent,
        RBT.color, RBT.setRight, RBT.setLeft, RBT.setParent, RBT.setColor, RBT.modify,
        RBT.get_some, Exec.some_bind, Exec.pure_eq, ctxPar_cons, ctxPar_nil, Frame.addr_L,
        Frame.addr_R, Tree.ptr_node, Tree.ptr_nil, hmin, hzc, hlc, hyc, hns, hxc, hzl, hlz, hzy,
        hyz, hzx, hxz, hly, hyl, hlx, hxl, hyx, hxy, hz, hl, hy, hx, Ne.symm hz, Ne.symm hl,
        Ne.symm hy, Ne.symm hx, setCell, if_pos, if_neg, ite_true, ite_false, ne_eq,
        Option.some.injEq, not_false_eq_true, not_true_eq_false, reduceCtorEq]
      refine ⟨_, rfl, ?_, rfl, rfl, ?_, ?_⟩
      · rw [Shape.plug_iff]
        simp only [Repr, ReprCtx, setCell_same, setCell_other, Repr_setCell, ReprCtx_setCell, ne_eq,
          not_false_eq_true, Tree.ptr_node, Tree.ptr_nil, ctxPar_cons, ctxPar_nil, ctxRoot_cons,
          ctxRoot_nil, Frame.addr_L, Frame.addr_R, true_and, and_true, Tree.addrs,
          List.append_assoc, List.cons_append, List.nil_append, hnd', hzl, hlz, hzy, hyz, hzx, hxz,
          hly, hyl, hlx, hxl, hyx, hxy, hn5, hn6, hn1, hn2, hz, hl, hy, hx, Ne.symm hz, Ne.symm hl,
          Ne.symm hy, Ne.symm hx, hzc, hlc, hyc, hns, hxc] <;>
        (try simp only [Tree.addrs, ctxAddrs, List.nodup_append, List.nodup_cons, List.mem_append, List.mem_cons, not_or, List.disjoint_cons_left, List.disjoint_cons_right, List.disjoint_append_left, List.disjoint_append_right, List.cons_append, List.append_assoc, List.nodup_nil, List.not_mem_nil, List.disjoint_nil_left, List.disjoint_nil_right, List.append_nil, List.nil_append, not_false_eq_true, true_and, and_true, Tree.ptr_node, Tree.ptr_nil, ctxRoot_cons, ctxRoot_nil, Frame.addr_L, Frame.addr_R] at hnd hroot ⊢) <;>
        (try casesm* _ ∧ _) <;>
        (and_intros <;>
          first
          | assumption
          | exact Ne.symm ‹_›
          | exact fun e => ‹¬ _› e.symm
          | exact List.Disjoint.symm ‹_›
          | exact fun _ h1 h2 => ‹List.Disjoint _ _› h2 h1)
      · first
        | rfl
        | simp only [setCell_other, setCell_same, ne_eq, not_false_eq_true, Exec.some_bind, Exec.pure_eq,
            ctxPar_cons, ctxPar_nil, Frame.addr_L, Frame.addr_R, RBT.color, RBT.parent,
            RBT.get_some, hzl, hlz, hzy, hyz, hzx, hxz, hly, hyl, hlx, hxl, hyx, hxy, hz, hl, hy,
            hx, Ne.symm hz, Ne.symm hl, Ne.symm hy, Ne.symm hx, hns]
      · intro h
        cases h
    | cons f rest =>
      cases f with
      | L p cp kp pr =>
        obtain ⟨hx, hxc, hxl, hxr⟩ := hV
        have hn1 := hxl.ne_null
        have hn2 := hxr.ne_null
        obtain ⟨hp, hpc, hpr, hrest⟩ := hctx
        have hn3 := hpr.ne_null
        have hn4 := hrest.null_fresh
        have hzl : z ≠ l := by
          rintro rfl
          simp only [Tree.addrs, ctxAddrs, List.nodup_append, List.nodup_cons, List.mem_append,
            List.mem_cons, not_or, List.disjoint_cons_left, List.disjoint_cons_right,
            List.disjoint_append_left, List.disjoint_append_right, List.cons_append,
            List.append_assoc, List.nodup_nil, List.not_mem_nil, List.disjoint_nil_left,
            List.disjoint_nil_right, List.append_nil, List.nil_append, not_false_eq_true, true_and,
            and_true, not_true_eq_false, false_and, and_false] at hnd
        have hlz : l ≠ z := hzl.symm
        have hzy : z ≠ y := by
          rintro rfl
          simp only [Tree.addrs, ctxAddrs, List.nodup_append, List.nodup_cons, List.mem_append,
            List.mem_cons, not_or, List.disjoint_cons_left, List.disjoint_cons_right,
            List.disjoint_append_left, List.disjoint_append_right, List.cons_append,
            List.append_assoc, List.nodup_nil, List.not_mem_nil, List.disjoint_nil_left,
            List.disjoint_nil_right, List.append_nil, List.nil_append, not_false_eq_true, true_and,
            and_true, not_true_eq_false, false_and, and_false] at hnd
        have hyz : y ≠ z := hzy.symm
        have hzx : z ≠ x := by
          rintro rfl
          simp only [Tree.addrs, ctxAddrs, List.nodup_append, List.nodup_cons, List.mem_append,
            List.mem_cons, not_or, List.disjoint_cons_left, List.disjoint_cons_right,
            List.disjoint_append_left, List.disjoint_append_right, List.cons_append,
            List.append_assoc, List.nodup_nil, List.not_mem_nil, List.disjoint_nil_left,
            List.disjoint_nil_right, List.append_nil, List.nil_append, not_false_eq_true, true_and,
            and_true, not_true_eq_false, false_and, and_false] at hnd
        have hxz : x ≠ z := hzx.symm
        have hzp : z ≠ p := by
          rintro rfl
          simp only [Tree.addrs, ctxAddrs, List.nodup_append, List.nodup_cons, List.mem_append,
            List.mem_cons, not_or, List.disjoint_cons_left, List.disjoint_cons_right,
            List.disjoint_append_left, List.disjoint_append_right, List.cons_append,
            List.append_assoc, List.nodup_nil, List.not_mem_nil, List.disjoint_nil_left,
            List.disjoint_nil_right, List.append_nil, List.nil_append, not_false_eq_true, true_and,
            and_true, not_true_eq_false, false_and, and_false] at hnd
        have hpz : p ≠ z := hzp.symm
        have hly : l ≠ y := by
          rintro rfl
          simp only [Tree.addrs, ctxAddrs, List.nodup_append, List.nodup_cons, List.mem_append,
            List.mem_cons, not_or, List.disjoint_cons_left, List.disjoint_cons_right,
            List.disjoint_append_left, List.disjoint_append_right, List.cons_append,
            List.append_assoc, List.nodup_nil, List.not_mem_nil, List.disjoint_nil_left,
            List.disjoint_nil_right, List.append_nil, List.nil_append, not_false_eq_true, true_and,
            and_true, not_true_eq_false, false_and, and_false] at hnd
        have hyl : y ≠ l := hly.symm
        have hlx : l ≠ x := by
          rintro rfl
          simp only [Tree.addrs, ctxAddrs, List.nodup_append, List.nodup_cons, List.mem_append,
            List.mem_cons, not_or, List.disjoint_cons_left, List.disjoint_cons_right,
            List.disjoint_append_left, List.disjoint_append_right, List.cons_append,
            List.append_assoc, List.nodup_nil, List.not_mem_nil, List.disjoint_nil_left,
            List.disjoint_nil_right, List.append_nil, List.nil_append, not_false_eq_true, true_and,
            and_true, not_true_eq_false, false_and, and_false] at hnd
        have hxl : x ≠ l := hlx.symm
        have hlp : l ≠ p := by
          rintro rfl
          simp only [Tree.addrs, ctxAddrs, List.nodup_append, List.nodup_cons, List.mem_append,
            List.mem_cons, not_or, List.disjoint_cons_left, List.disjoint_cons_right,
            List.disjoint_append_left, List.disjoint_append_right, List.cons_append,
            List.append_assoc, List.nodup_nil, List.not_mem_nil, List.disjoint_nil_left,
            List.disjoint_nil_right, List.append_nil, List.nil_append, not_false_eq_true, true_and,
            and_true, not_true_eq_false, false_and, and_false] at hnd
        have hpl : p ≠ l := hlp.symm
        have hyx : y ≠ x := by
          rintro rfl
          simp only [Tree.addrs, ctxAddrs, List.nodup_append, List.nodup_cons, List.mem_append,
            List.mem_cons, not_or, List.disjoint_cons_left, List.disjoint_cons_right,
            List.disjoint_append_left, List.disjoint_append_right, List.cons_append,
            List.append_assoc, List.nodup_nil, List.not_mem_nil, List.disjoint_nil_left,
            List.disjoint_nil_right, List.append_nil, List.nil_append, not_false_eq_true, true_and,
            and_true, not_true_eq_false, false_and, and_false] at hnd
        have hxy : x ≠ y := hyx.symm
        have hyp : y ≠ p := by
          rintro rfl
          simp only [Tree.addrs, ctxAddrs, List.nodup_append, List.nodup_cons, List.mem_append,
            List.mem_cons, not_or, List.disjoint_cons_left, List.disjoint_cons_right,
            List.disjoint_append_left, List.disjoint_append_right, List.cons_append,
            List.append_assoc, List.nodup_nil, List.not_mem_nil, List.disjoint_nil_left,
            List.disjoint_nil_right, List.append_nil, List.nil_append, not_false_eq_true, true_and,
            and_true, not_true_eq_false, false_and, and_false] at hnd
        have hpy : p ≠ y := hyp.symm
        have hxp : x ≠ p := by
          rintro rfl
          simp only [Tree.addrs, ctxAddrs, List.nodup_append, List.nodup_cons, List.mem_append,
            List.mem_cons, not_or, List.disjoint_cons_left, List.disjoint_cons_right,
            List.disjoint_append_left, List.disjoint_append_right, List.cons_append,
            List.append_assoc, List.nodup_nil, List.not_mem_nil, List.disjoint_nil_left,
            List.disjoint_nil_right, List.append_nil, List.nil_append, not_false_eq_true, true_and,
            and_true, not_true_eq_false, false_and, and_false] at hnd
        have hpx : p ≠ x := hxp.symm
        have hnd' := hnd
        simp only [Tree.addrs, ctxAddrs, List.nodup_append, List.nodup_cons, List.mem_append, List.mem_cons,
          not_or, List.disjoint_cons_left, List.disjoint_cons_right, List.disjoint_append_left,
          List.disjoint_append_right, List.cons_append, List.append_assoc, List.nodup_nil,
          List.not_mem_nil, List.disjoint_nil_left, List.disjoint_nil_right, List.append_nil,
          List.nil_append, not_false_eq_true, true_and, and_true] at hnd'
        simp only [ctxPar_cons, ctxPar_nil, Frame.addr_L, Frame.addr_R, Tree.ptr_node, Tree.ptr_nil] at hzc hlc hyc hxc hpc
        simp only [RBT.deleteSplice, RBT.rbTransplant, RBT.deallocate, RBT.right, RBT.left, RBT.parent,
          RBT.color, RBT.setRight, RBT.setLeft, RBT.setParent, RBT.setColor, RBT.modify,
          RBT.get_some, Exec.some_bind, Exec.pure_eq, ctxPar_cons, ctxPar_nil, Frame.addr_L,
          Frame.addr_R, Tree.ptr_node, Tree.ptr_nil, hmin, hzc, hlc, hyc, hns, hxc, hpc, hzl, hlz,
          hzy, hyz, hzx, hxz, hzp, hpz, hly, hyl, hlx, hxl, hlp, hpl, hyx, hxy, hyp, hpy, hxp, hpx,
          hz, hl, hy, hx, hp, Ne.symm hz, Ne.symm hl, Ne.symm hy, Ne.symm hx, Ne.symm hp, setCell,
          if_pos, if_neg, ite_true, ite_false, ne_eq, Option.some.injEq, not_false_eq_true,
          not_true_eq_false, reduceCtorEq]
        refine ⟨_, rfl, ?_, rfl, rfl, ?_, ?_⟩
        · rw [Shape.plug_iff]
          simp only [Repr, ReprCtx, setCell_same, setCell_other, Repr_setCell, ReprCtx_setCell, ne_eq,
            not_false_eq_true, Tree.ptr_node, Tree.ptr_nil, ctxPar_cons, ctxPar_nil, ctxRoot_cons,
            ctxRoot_nil, Frame.addr_L, Frame.addr_R, true_and, and_true, Tree.addrs,
            List.append_assoc, List.cons_append, List.nil_append, hnd', hzl, hlz, hzy, hyz, hzx,
            hxz, hzp, hpz, hly, hyl, hlx, hxl, hlp, hpl, hyx, hxy, hyp, hpy, hxp, hpx, hn5, hn6,
            hn1, hn2, hn3, hn4, hz, hl, hy, hx, hp, Ne.symm hz, Ne.symm hl, Ne.symm hy, Ne.symm hx,
            Ne.symm hp, hzc, hlc, hyc, hns, hxc, hpc] <;>
          (try simp only [Tree.addrs, ctxAddrs, List.nodup_append, List.nodup_cons, List.mem_append, List.mem_cons, not_or, List.disjoint_cons_left, List.disjoint_cons_right, List.disjoint_append_left, List.disjoint_append_right, List.cons_append, List.append_assoc, List.nodup_nil, List.not_mem_nil, List.disjoint_nil_left, List.disjoint_nil_right, List.append_nil, List.nil_append, not_false_eq_true, true_and, and_true, Tree.ptr_node, Tree.ptr_nil, ctxRoot_cons, ctxRoot_nil, Frame.addr_L, Frame.addr_R] at hnd hroot ⊢) <;>
          (try casesm* _ ∧ _) <;>
          (and_intros <;>
            first
            | assumption
            | exact Ne.symm ‹_›
            | exact fun e => ‹¬ _› e.symm
            | exact List.Disjoint.symm ‹_›
            | exact fun _ h1 h2 => ‹List.Disjoint _ _› h2 h1)
        · first
          | rfl
          | simp only [setCell_other, setCell_same, ne_eq, not_false_eq_true, Exec.some_bind, Exec.pure_eq,
              ctxPar_cons, ctxPar_nil, Frame.addr_L, Frame.addr_R, RBT.color, RBT.parent,
              RBT.get_some, hzl, hlz, hzy, hyz, hzx, hxz, hzp, hpz, hly, hyl, hlx, hxl, hlp, hpl,
              hyx, hxy, hyp, hpy, hxp, hpx, hz, hl, hy, hx, hp, Ne.symm hz, Ne.symm hl, Ne.symm hy,
              Ne.symm hx, Ne.symm hp, hns]
        · intro h
          cases h
      | R p cp pr kp =>
        obtain ⟨hx, hxc, hxl, hxr⟩ := hV
        have hn1 := hxl.ne_null
        have hn2 := hxr.ne_null
        obtain ⟨hp, hpc, hpr, hrest⟩ := hctx
        have hn3 := hpr.ne_null
        have hn4 := hrest.null_fresh
        have hzl : z ≠ l := by
          rintro rfl
          simp only [Tree.addrs, ctxAddrs, List.nodup_append, List.nodup_cons, List.mem_append,
            List.mem_cons, not_or, List.disjoint_cons_left, List.disjoint_cons_right,
            List.disjoint_append_left, List.disjoint_append_right, List.cons_append,
            List.append_assoc, List.nodup_nil, List.not_mem_nil, List.disjoint_nil_left,
            List.disjoint_nil_right, List.append_nil, List.nil_append, not_false_eq_true, true_and,
            and_true, not_true_eq_false, false_and, and_false] at hnd
        have hlz : l ≠ z := hzl.symm
        have hzy : z ≠ y := by
          rintro rfl
          simp only [Tree.addrs, ctxAddrs, List.nodup_append, List.nodup_cons, List.mem_append,
            List.mem_cons, not_or, List.disjoint_cons_left, List.disjoint_cons_right,
            List.disjoint_append_left, List.disjoint_append_right, List.cons_append,
            List.append_assoc, List.nodup_nil, List.not_mem_nil, List.disjoint_nil_left,
            List.disjoint_nil_right, List.append_nil, List.nil_append, not_false_eq_true, true_and,
            and_true, not_true_eq_false, false_and, and_false] at hnd
        have hyz : y ≠ z := hzy.symm
        have hzx : z ≠ x := by
          rintro rfl
          simp only [Tree.addrs, ctxAddrs, List.nodup_append, List.nodup_cons, List.mem_append,
            List.mem_cons, not_or, List.disjoint_cons_left, List.disjoint_cons_right,
            List.disjoint_append_left, List.disjoint_append_right, List.cons_append,
            List.append_assoc, List.nodup_nil, List.not_mem_nil, List.disjoint_nil_left,
            List.disjoint_nil_right, List.append_nil, List.nil_append, not_false_eq_true, true_and,
            and_true, not_true_eq_false, false_and, and_false] at hnd
        have hxz : x ≠ z := hzx.symm
        have hzp : z ≠ p := by
          rintro rfl
          simp only [Tree.addrs, ctxAddrs, List.nodup_append, List.nodup_cons, List.mem_append,
            List.mem_cons, not_or, List.disjoint_cons_left, List.disjoint_cons_right,
            List.disjoint_append_left, List.disjoint_append_right, List.cons_append,
            List.append_assoc, List.nodup_nil, List.not_mem_nil, List.disjoint_nil_left,
            List.disjoint_nil_right, List.append_nil, List.nil_append, not_false_eq_true, true_and,
            and_true, not_true_eq_false, false_and, and_false] at hnd
        have hpz : p ≠ z := hzp.symm
        have hly : l ≠ y := by
          rintro rfl
          simp only [Tree.addrs, ctxAddrs, List.nodup_append, List.nodup_cons, List.mem_append,
            List.mem_cons, not_or, List.disjoint_cons_left, List.disjoint_cons_right,
            List.disjoint_append_left, List.disjoint_append_right, List.cons_append,
            List.append_assoc, List.nodup_nil, List.not_mem_nil, List.disjoint_nil_left,
            List.disjoint_nil_right, List.append_nil, List.nil_append, not_false_eq_true, true_and,
            and_true, not_true_eq_false, false_and, and_false] at hnd
        have hyl : y ≠ l := hly.symm
        have hlx : l ≠ x := by
          rintro rfl
          simp only [Tree.addrs, ctxAddrs, List.nodup_append, List.nodup_cons, List.mem_append,
            List.mem_cons, not_or, List.disjoint_cons_left, List.disjoint_cons_right,
            List.disjoint_append_left, List.disjoint_append_right, List.cons_append,
            List.append_assoc, List.nodup_nil, List.not_mem_nil, List.disjoint_nil_left,
            List.disjoint_nil_right, List.append_nil, List.nil_append, not_false_eq_true, true_and,
            and_true, not_true_eq_false, false_and, and_false] at hnd
        have hxl : x ≠ l := hlx.symm
        have hlp : l ≠ p := by
          rintro rfl
          simp only [Tree.addrs, ctxAddrs, List.nodup_append, List.nodup_cons, List.mem_append,
            List.mem_cons, not_or, List.disjoint_cons_left, List.disjoint_cons_right,
            List.disjoint_append_left, List.disjoint_append_right, List.cons_append,
            List.append_assoc, List.nodup_nil, List.not_mem_nil, List.disjoint_nil_left,
            List.disjoint_nil_right, List.append_nil, List.nil_append, not_false_eq_true, true_and,
            and_true, not_true_eq_false, false_and, and_false] at hnd
        have hpl : p ≠ l := hlp.symm
        have hyx : y ≠ x := by
          rintro rfl
          simp only [Tree.addrs, ctxAddrs, List.nodup_append, List.nodup_cons, List.mem_append,
            List.mem_cons, not_or, List.disjoint_cons_left, List.disjoint_cons_right,
            List.disjoint_append_left, List.disjoint_append_right, List.cons_append,
            List.append_assoc, List.nodup_nil, List.not_mem_nil, List.disjoint_nil_left,
            List.disjoint_nil_right, List.append_nil, List.nil_append, not_false_eq_true, true_and,
            and_true, not_true_eq_false, false_and, and_false] at hnd
        have hxy : x ≠ y := hyx.symm
        have hyp : y ≠ p := by
          rintro rfl
          simp only [Tree.addrs, ctxAddrs, List.nodup_append, List.nodup_cons, List.mem_append,
            List.mem_cons, not_or, List.disjoint_cons_left, List.disjoint_cons_right,
            List.disjoint_append_left, List.disjoint_append_right, List.cons_append,
            List.append_assoc, List.nodup_nil, List.not_mem_nil, List.disjoint_nil_left,
            List.disjoint_nil_right, List.append_nil, List.nil_append, not_false_eq_true, true_and,
            and_true, not_true_eq_false, false_and, and_false] at hnd
        have hpy : p ≠ y := hyp.symm
        have hxp : x ≠ p := by
          rintro rfl
          simp only [Tree.addrs, ctxAddrs, List.nodup_append, List.nodup_cons, List.mem_append,
            List.mem_cons, not_or, List.disjoint_cons_left, List.disjoint_cons_right,
            List.disjoint_append_left, List.disjoint_append_right, List.cons_append,
            List.append_assoc, List.nodup_nil, List.not_mem_nil, List.disjoint_nil_left,
            List.disjoint_nil_right, List.append_nil, List.nil_append, not_false_eq_true, true_and,
            and_true, not_true_eq_false, false_and, and_false] at hnd
        have hpx : p ≠ x := hxp.symm
        have hnd' := hnd
        simp only [Tree.addrs, ctxAddrs, List.nodup_append, List.nodup_cons, List.mem_append, List.mem_cons,
          not_or, List.disjoint_cons_left, List.disjoint_cons_right, List.disjoint_append_left,
          List.disjoint_append_right, List.cons_append, List.append_assoc, List.nodup_nil,
          List.not_mem_nil, List.disjoint_nil_left, List.disjoint_nil_right, List.append_nil,
          List.nil_append, not_false_eq_true, true_and, and_true] at hnd'
        have hq : ¬ (some z = Tree.ptr t.null pr) := fun e => ptr_ne_of_not_mem hz (by simp only [hnd', not_false_eq_true]) e.symm
        simp only [ctxPar_cons, ctxPar_nil, Frame.addr_L, Frame.addr_R, Tree.ptr_node, Tree.ptr_nil] at hzc hlc hyc hxc hpc
        simp only [RBT.deleteSplice, RBT.rbTransplant, RBT.deallocate, RBT.right, RBT.left, RBT.parent,
          RBT.color, RBT.setRight, RBT.setLeft, RBT.setParent, RBT.setColor, RBT.modify,
          RBT.get_some, Exec.some_bind, Exec.pure_eq, ctxPar_cons, ctxPar_nil, Frame.addr_L,
          Frame.addr_R, Tree.ptr_node, Tree.ptr_nil, hmin, hzc, hlc, hyc, hns, hxc, hpc, hzl, hlz,
          hzy, hyz, hzx, hxz, hzp, hpz, hly, hyl, hlx, hxl, hlp, hpl, hyx, hxy, hyp, hpy, hxp, hpx,
          hq, hz, hl, hy, hx, hp, Ne.symm hz, Ne.symm hl, Ne.symm hy, Ne.symm hx, Ne.symm hp,
          setCell, if_pos, if_neg, ite_true, ite_false, ne_eq, Option.some.injEq,
          not_false_eq_true, not_true_eq_false, reduceCtorEq]
        refine ⟨_, rfl, ?_, rfl, rfl, ?_, ?_⟩
        · rw [Shape.plug_iff]
          simp only [Repr, ReprCtx, setCell_same, setCell_other, Repr_setCell, ReprCtx_setCell, ne_eq,
            not_false_eq_true, Tree.ptr_node, Tree.ptr_nil, ctxPar_cons, ctxPar_nil, ctxRoot_cons,
            ctxRoot_nil, Frame.addr_L, Frame.addr_R, true_and, and_true, Tree.addrs,
            List.append_assoc, List.cons_append, List.nil_append, hnd', hzl, hlz, hzy, hyz, hzx,
            hxz, hzp, hpz, hly, hyl, hlx, hxl, hlp, hpl, hyx, hxy, hyp, hpy, hxp, hpx, hq, hn5,
            hn6, hn1, hn2, hn3, hn4, hz, hl, hy, hx, hp, Ne.symm hz, Ne.symm hl, Ne.symm hy,
            Ne.symm hx, Ne.symm hp, hzc, hlc, hyc, hns, hxc, hpc] <;>
          (try simp only [Tree.addrs, ctxAddrs, List.nodup_append, List.nodup_cons, List.mem_append, List.mem_cons, not_or, List.disjoint_cons_left, List.disjoint_cons_right, List.disjoint_append_left, List.disjoint_append_right, List.cons_append, List.append_assoc, List.nodup_nil, List.not_mem_nil, List.disjoint_nil_left, List.disjoint_nil_right, List.append_nil, List.nil_append, not_false_eq_true, true_and, and_true, Tree.ptr_node, Tree.ptr_nil, ctxRoot_cons, ctxRoot_nil, Frame.addr_L, Frame.addr_R] at hnd hroot ⊢) <;>
          (try casesm* _ ∧ _) <;>
          (and_intros <;>
            first
            | assumption
            | exact Ne.symm ‹_›
            | exact fun e => ‹¬ _› e.symm
            | exact List.Disjoint.symm ‹_›
            | exact fun _ h1 h2 => ‹List.Disjoint _ _› h2 h1)
        · first
          | rfl
          | simp only [setCell_other, setCell_same, ne_eq, not_false_eq_true, Exec.some_bind, Exec.pure_eq,
              ctxPar_cons, ctxPar_nil, Frame.addr_L, Frame.addr_R, RBT.color, RBT.parent,
              RBT.get_some, hzl, hlz, hzy, hyz, hzx, hxz, hzp, hpz, hly, hyl, hlx, hxl, hlp, hpl,
              hyx, hxy, hyp, hpy, hxp, hpx, hz, hl, hy, hx, hp, Ne.symm hz, Ne.symm hl, Ne.symm hy,
              Ne.symm hx, Ne.symm hp, hns]
        · intro h
          cases h

theorem plug_append (X : Tree K V) (c1 c2 : List (Frame K V)) :
    plug X (c1 ++ c2) = plug (plug X c1) c2 := by
  induction c1 generalizing X with
  | nil => rfl
  | cons f rest ih => exact ih _

theorem ctxPar_append_cons (c1 : List (Frame K V)) (f : Frame K V) (c2 c3 : List (Frame K V)) :
    ctxPar (c1 ++ f :: c2) = ctxPar (c1 ++ f :: c3) := by
  cases c1 <;> rfl

theorem RBT.color_congr {t t' : RBT K V} {a : Nat} (h : t'.heap a = t.heap a) :
    t'.color (some a) = t.color (some a) := by
  simp only [RBT.color, RBT.get_some, h]

theorem RBT.parent_congr {t t' : RBT K V} {a : Nat} (h : t'.heap a = t.heap a) :
    t'.parent (some a) = t.parent (some a) := by
  simp only [RBT.parent, RBT.get_some, h]

/-- Two children, the successor `y` lying deeper in the right subtree: the
right child of `y` takes the place of `y`, then `y` takes the place of `z` with
both subtrees of `z`, and `z` is freed. -/
theorem deleteSplice_succ_deep {t : RBT K V} {z l y r : Nat} {cz cl cy cr : Color}
    {Ll Lr Ry Rr : Tree K V} {kz kl ky kr : K × V} {ctxI ctx : List (Frame K V)}
    (hS : Shape t (plug (node y cy nil ky Ry)
      (ctxI ++ Frame.L r cr kr Rr :: Frame.R z cz (node l cl Ll kl Lr) kz :: ctx)))
    (hsn : ∃ n, t.heap t.null = some n)
    (hmin : t.minFrom (some r) = some (some y)) :
    ∃ t', t.deleteSplice (some z) = some (t', Ry.ptr t.null, cy) ∧
      Shape t' (plug Ry
        (ctxI ++ Frame.L r cr kr Rr :: Frame.R y cz (node l cl Ll kl Lr) ky :: ctx)) ∧
      t'.null = t.null ∧ t'.next = t.next ∧
      t'.color (some t.null) = t.color (some t.null) ∧
      (Ry = nil → t'.parent (some t.null) =
        some (ctxPar (ctxI ++ Frame.L r cr kr Rr :: Frame.R y cz (node l cl Ll kl Lr) ky :: ctx))) := by
  have hplug : ∀ X : Tree K V,
      plug X (ctxI ++ Frame.L r cr kr Rr :: Frame.R z cz (node l cl Ll kl Lr) kz :: ctx) =
        plug (node z cz (node l cl Ll kl Lr) kz (node r cr (plug X ctxI) kr Rr)) ctx :=
    fun X => by rw [plug_append]; rfl
  have hplug2 : ∀ X : Tree K V,
      plug X (ctxI ++ Frame.L r cr kr Rr :: Frame.R y cz (node l cl Ll kl Lr) ky :: ctx) =
        plug (node y cz (node l cl Ll kl Lr) ky (node r cr (plug X ctxI) kr Rr)) ctx :=
    fun X => by rw [plug_append]; rfl
  have hS0 := hS
  rw [hplug] at hS0
  obtain ⟨t1, e1, hS1, hn1, hx1, hy1, hc1, hp1⟩ := Shape.transplant_right hS hsn
  have hycell := hS.cell
  have hzcell := hS0.cell
  have hynl : y ≠ t.null := ((Repr_plug _ _ _ _).1 hS.repr).1.1
  have hlnl : l ≠ t.null := ((Repr_plug _ _ _ _).1 hS0.repr).1.2.2.1.1
  have hrnl : r ≠ t.null := ((Repr_plug _ _ _ _).1 hS0.repr).1.2.2.2.1
  have hyf : y ∉ (plug Ry
      (ctxI ++ Frame.L r cr kr Rr :: Frame.R z cz (node l cl Ll kl Lr) kz :: ctx)).addrs := by
    have := hS.nodup
    rw [nodup_plug] at this
    rw [mem_addrs_plug]
    simp only [Tree.addrs, List.nil_append, List.cons_append, List.nodup_cons, List.mem_append]
      at this
    exact this.1
  have hyp : ¬ (ctxPar
      (ctxI ++ Frame.L r cr kr Rr :: Frame.R z cz (node l cl Ll kl Lr) kz :: ctx) = some z) := by
    have hnd0 := hS0.nodup
    rw [nodup_plug] at hnd0
    simp only [Tree.addrs, ctxAddrs, List.nodup_append, List.nodup_cons, List.mem_append, List.mem_cons, not_or, List.disjoint_cons_left, List.disjoint_cons_right, List.disjoint_append_left, List.disjoint_append_right, List.cons_append, List.append_assoc, List.nodup_nil, List.not_mem_nil, List.disjoint_nil_left, List.disjoint_nil_right, List.append_nil, List.nil_append, not_false_eq_true, true_and, and_true] at hnd0
    cases ctxI with
    | nil =>
      simp only [List.nil_append, ctxPar_cons, Frame.addr_L, Option.some.injEq]
      rintro rfl
      simp only [not_true_eq_false, false_and, and_false] at hnd0
    | cons f c =>
      simp only [List.cons_append, ctxPar_cons, Option.some.injEq]
      intro e
      have hm : f.addr ∈ (plug (node y cy nil ky Ry) (f :: c)).addrs := by
        rw [show plug (node y cy nil ky Ry) (f :: c) = plug (f.fill (node y cy nil ky Ry)) c
          from rfl, mem_addrs_plug]
        exact Or.inl (by cases f <;> simp [Frame.fill, Frame.addr, Tree.addrs])
      rw [e] at hm
      simp only [hm, not_true_eq_false, false_and, and_false, and_self] at hnd0
  rw [hplug] at hS1 hyf
  rw [mem_addrs_plug] at hyf
  rw [← hy1] at hycell
  simp only [Tree.ptr_node, Tree.ptr_nil] at hzcell
  simp only [RBT.deleteSplice, RBT.color_of hzcell, RBT.left_of hzcell, RBT.right_of hzcell,
    RBT.color_of hycell, RBT.right_of hycell, RBT.parent_of hycell, hmin,
    RBT.color_of (hy1.symm ▸ hycell), RBT.right_of (hy1.symm ▸ hycell),
    RBT.parent_of (hy1.symm ▸ hycell),
    Exec.some_bind, Exec.pure_eq, Option.some.injEq, hlnl, hrnl, hyp, if_neg, ite_false,
    not_false_eq_true, e1]
  rw [ctxPar_append_cons ctxI _ (Frame.R y cz (node l cl Ll kl Lr) ky :: ctx)
    (Frame.R z cz (node l cl Ll kl Lr) kz :: ctx), hplug2]
  obtain ⟨ns, hns⟩ : ∃ n, t1.heap t.null = some n := by
    obtain ⟨n, hn⟩ := hsn
    have := hc1
    rw [RBT.color_of hn] at this
    cases hc : t1.heap t.null with
    | none => simp [RBT.color, RBT.get_some, hc] at this
    | some m => exact ⟨m, rfl⟩
  have hpe : Ry = nil → ns.parent = ctxPar
      (ctxI ++ Frame.L r cr kr Rr :: Frame.R z cz (node l cl Ll kl Lr) kz :: ctx) := by
    intro h
    have := hp1 h
    rw [RBT.parent_of hns] at this
    exact Option.some.inj this
  rw [← hc1]
  clear hS hS0 e1 hzcell hy1 hmin hsn hplug hplug2 hc1 hp1
  rw [← hn1] at hynl hlnl hrnl hycell hns ⊢
  rw [← hx1]
  generalize ctxPar (ctxI ++ Frame.L r cr kr Rr :: Frame.R z cz (node l cl Ll kl Lr) kz :: ctx)
    = yp at hycell hpe hyp ⊢
  generalize plug Ry ctxI = M at hS1 hyf ⊢
  generalize Ry.ptr t1.null = yr at hycell ⊢
  rw [Shape.plug_iff] at hS1
  obtain ⟨hroot, ⟨hz, hzc, ⟨hl, hlc, hLl, hLr⟩, ⟨hr, hrc, hM, hRr⟩⟩, hctx, hnd⟩ := hS1
  have hy := hynl
  have hyc := hycell
  have hn5 := hLl.ne_null
  have hn6 := hLr.ne_null
  have hn7 := hM.ne_null
  have hn8 := hRr.ne_null
  simp only [Tree.ptr_node] at hctx hzc hlc hrc
  cases ctx with
  | nil =>
    have hzl : z ≠ l := by
      rintro rfl
      simp only [Tree.addrs, ctxAddrs, List.nodup_append, List.nodup_cons, List.mem_append, List.mem_cons,
        not_or, List.disjoint_cons_left, List.disjoint_cons_right, List.disjoint_append_left,
        List.disjoint_append_right, List.cons_append, List.append_assoc, List.nodup_nil,
        List.not_mem_nil, List.disjoint_nil_left, List.disjoint_nil_right, List.append_nil,
        List.nil_append, not_false_eq_true, true_and, and_true, not_true_eq_false, false_and,
        and_false] at hnd
    have hlz : l ≠ z := hzl.symm
    have hzr : z ≠ r := by
      rintro rfl
      simp only [Tree.addrs, ctxAddrs, List.nodup_append, List.nodup_cons, List.mem_append, List.mem_cons,
        not_or, List.disjoint_cons_left, List.disjoint_cons_right, List.disjoint_append_left,
        List.disjoint_append_right, List.cons_append, List.append_assoc, List.nodup_nil,
        List.not_mem_nil, List.disjoint_nil_left, List.disjoint_nil_right, List.append_nil,
        List.nil_append, not_false_eq_true, true_and, and_true, not_true_eq_false, false_and,
        and_false] at hnd
    have hrz : r ≠ z := hzr.symm
    have hlr : l ≠ r := by
      rintro rfl
      simp only [Tree.addrs, ctxAddrs, List.nodup_append, List.nodup_cons, List.mem_append, List.mem_cons,
        not_or, List.disjoint_cons_left, List.disjoint_cons_right, List.disjoint_append_left,
        List.disjoint_append_right, List.cons_append, List.append_assoc, List.nodup_nil,
        List.not_mem_nil, List.disjoint_nil_left, List.disjoint_nil_right, List.append_nil,
        List.nil_append, not_false_eq_true, true_and, and_true, not_true_eq_false, false_and,
        and_false] at hnd
    have hrl : r ≠ l := hlr.symm
    have hyz : y ≠ z := by
      rintro rfl
      simp only [Tree.addrs, ctxAddrs, List.nodup_append, List.nodup_cons, List.mem_append, List.mem_cons,
        not_or, List.disjoint_cons_left, List.disjoint_cons_right, List.disjoint_append_left,
        List.disjoint_append_right, List.cons_append, List.append_assoc, List.nodup_nil,
        List.not_mem_nil, List.disjoint_nil_left, List.disjoint_nil_right, List.append_nil,
        List.nil_append, not_false_eq_true, true_and, and_true, not_true_eq_false, false_and,
        and_false] at hyf
    have hzy : z ≠ y := hyz.symm
    have hyl : y ≠ l := by
      rintro rfl
      simp only [Tree.addrs, ctxAddrs, List.nodup_append, List.nodup_cons, List.mem_append, List.mem_cons,
        not_or, List.disjoint_cons_left, List.disjoint_cons_right, List.disjoint_append_left,
        List.disjoint_append_right, List.cons_append, List.append_assoc, List.nodup_nil,
        List.not_mem_nil, List.disjoint_nil_left, List.disjoint_nil_right, List.append_nil,
        List.nil_append, not_false_eq_true, true_and, and_true, not_true_eq_false, false_and,
        and_false] at hyf
    have hly : l ≠ y := hyl.symm
    have hyr : y ≠ r := by
      rintro rfl
      simp only [Tree.addrs, ctxAddrs, List.nodup_append, List.nodup_cons, List.mem_append, List.mem_cons,
        not_or, List.disjoint_cons_left, List.disjoint_cons_right, List.disjoint_append_left,
        List.disjoint_append_right, List.cons_append, List.append_assoc, List.nodup_nil,
        List.not_mem_nil, List.disjoint_nil_left, List.disjoint_nil_right, List.append_nil,
        List.nil_append, not_false_eq_true, true_and, and_true, not_true_eq_false, false_and,
        and_false] at hyf
    have hry : r ≠ y := hyr.symm
    have hnd' := hnd
    simp only [Tree.addrs, ctxAddrs, List.nodup_append, List.nodup_cons, List.mem_append, List.mem_cons,
      not_or, List.disjoint_cons_left, List.disjoint_cons_right, List.disjoint_append_left,
      List.disjoint_append_right, List.cons_append, List.append_assoc, List.nodup_nil,
      List.not_mem_nil, List.disjoint_nil_left, List.disjoint_nil_right, List.append_nil,
      List.nil_append, not_false_eq_true, true_and, and_true] at hnd' hyf
    simp only [ctxPar_cons, ctxPar_nil, Frame.addr_L, Frame.addr_R, Tree.ptr_node, Tree.ptr_nil] at hzc hlc hrc
    simp only [RBT.deleteSplice, RBT.rbTransplant, RBT.deallocate, RBT.right, RBT.left, RBT.parent,
      RBT.color, RBT.setRight, RBT.setLeft, RBT.setParent, RBT.setColor, RBT.modify, RBT.get_some,
      Exec.some_bind, Exec.pure_eq, ctxPar_cons, ctxPar_nil, Frame.addr_L, Frame.addr_R,
      Tree.ptr_node, Tree.ptr_nil, hzc, hlc, hrc, hyc, hns, hzl, hlz, hzr, hrz, hlr, hrl, hyz, hzy,
      hyl, hly, hyr, hry, hz, hl, hr, hy, Ne.symm hz, Ne.symm hl, Ne.symm hr, Ne.symm hy, setCell,
      if_pos, if_neg, ite_true, ite_false, ne_eq, Option.some.injEq, not_false_eq_true,
      not_true_eq_false, reduceCtorEq]
    refine ⟨_, rfl, ?_, rfl, rfl, ?_, ?_⟩
    · rw [Shape.plug_iff]
      simp only [Repr, ReprCtx, setCell_same, setCell_other, Repr_setCell, ReprCtx_setCell, ne_eq,
        not_false_eq_true, Tree.ptr_node, Tree.ptr_nil, ctxPar_cons, ctxPar_nil, ctxRoot_cons,
        ctxRoot_nil, Frame.addr_L, Frame.addr_R, true_and, and_true, Tree.addrs, List.append_assoc,
        List.cons_append, List.nil_append, hnd', hyf, hzl, hlz, hzr, hrz, hlr, hrl, hyz, hzy, hyl,
        hly, hyr, hry, hn5, hn6, hn7, hn8, hz, hl, hr, hy, Ne.symm hz, Ne.symm hl, Ne.symm hr,
        Ne.symm hy, hzc, hlc, hrc, hyc, hns] <;>
      (try simp only [Tree.addrs, ctxAddrs, List.nodup_append, List.nodup_cons, List.mem_append, List.mem_cons, not_or, List.disjoint_cons_left, List.disjoint_cons_right, List.disjoint_append_left, List.disjoint_append_right, List.cons_append, List.append_assoc, List.nodup_nil, List.not_mem_nil, List.disjoint_nil_left, List.disjoint_nil_right, List.append_nil, List.nil_append, not_false_eq_true, true_and, and_true, Tree.ptr_node, Tree.ptr_nil, ctxRoot_cons, ctxRoot_nil, Frame.addr_L, Frame.addr_R] at hnd hroot ⊢) <;>
      (try casesm* _ ∧ _) <;>
      (and_intros <;>
        first
        | assumption
        | exact Ne.symm ‹_›
        | exact fun e => ‹¬ _› e.symm
        | exact List.Disjoint.symm ‹_›
        | exact fun _ h1 h2 => ‹List.Disjoint _ _› h2 h1)
    · first
      | rfl
      | simp only [setCell_other, setCell_same, ne_eq, not_false_eq_true, Exec.some_bind, Exec.pure_eq,
          ctxPar_cons, ctxPar_nil, Frame.addr_L, Frame.addr_R, RBT.color, RBT.parent, RBT.get_some,
          hzl, hlz, hzr, hrz, hlr, hrl, hyz, hzy, hyl, hly, hyr, hry, hz, hl, hr, hy, Ne.symm hz,
          Ne.symm hl, Ne.symm hr, Ne.symm hy, hns]
    · intro h
      rw [← hpe h]
      first
      | rfl
      | simp only [setCell_other, setCell_same, ne_eq, not_false_eq_true, Exec.some_bind, Exec.pure_eq,
            ctxPar_cons, ctxPar_nil, Frame.addr_L, Frame.addr_R, RBT.color, RBT.parent,
            RBT.get_some, hzl, hlz, hzr, hrz, hlr, hrl, hyz, hzy, hyl, hly, hyr, hry, hz, hl, hr,
            hy, Ne.symm hz, Ne.symm hl, Ne.symm hr, Ne.symm hy, hns]
  | cons f rest =>
    cases f with
    | L p cp kp pr =>
      obtain ⟨hp, hpc, hpr, hrest⟩ := hctx
      have hn3 := hpr.ne_null
      have hn4 := hrest.null_fresh
      have hzl : z ≠ l := by
        rintro rfl
        simp only [Tree.addrs, ctxAddrs, List.nodup_append, List.nodup_cons, List.mem_append, List.mem_cons,
          not_or, List.disjoint_cons_left, List.disjoint_cons_right, List.disjoint_append_left,
          List.disjoint_append_right, List.cons_append, List.append_assoc, List.nodup_nil,
          List.not_mem_nil, List.disjoint_nil_left, List.disjoint_nil_right, List.append_nil,
          List.nil_append, not_false_eq_true, true_and, and_true, not_true_eq_false, false_and,
          and_false] at hnd
      have hlz : l ≠ z := hzl.symm
      have hzr : z ≠ r := by
        rintro rfl
        simp only [Tree.addrs, ctxAddrs, List.nodup_append, List.nodup_cons, List.mem_append, List.mem_cons,
          not_or, List.disjoint_cons_left, List.disjoint_cons_right, List.disjoint_append_left,
          List.disjoint_append_right, List.cons_append, List.append_assoc, List.nodup_nil,
          List.not_mem_nil, List.disjoint_nil_left, List.disjoint_nil_right, List.append_nil,
          List.nil_append, not_false_eq_true, true_and, and_true, not_true_eq_false, false_and,
          and_false] at hnd
      have hrz : r ≠ z := hzr.symm
      have hzp : z ≠ p := by
        rintro rfl
        simp only [Tree.addrs, ctxAddrs, List.nodup_append, List.nodup_cons, List.mem_append, List.mem_cons,
          not_or, List.disjoint_cons_left, List.disjoint_cons_right, List.disjoint_append_left,
          List.disjoint_append_right, List.cons_append, List.append_assoc, List.nodup_nil,
          List.not_mem_nil, List.disjoint_nil_left, List.disjoint_nil_right, List.append_nil,
          List.nil_append, not_false_eq_true, true_and, and_true, not_true_eq_false, false_and,
          and_false] at hnd
      have hpz : p ≠ z := hzp.symm
      have hlr : l ≠ r := by
        rintro rfl
        simp only [Tree.addrs, ctxAddrs, List.nodup_append, List.nodup_cons, List.mem_append, List.mem_cons,
          not_or, List.disjoint_cons_left, List.disjoint_cons_right, List.disjoint_append_left,
          List.disjoint_append_right, List.cons_append, List.append_assoc, List.nodup_nil,
          List.not_mem_nil, List.disjoint_nil_left, List.disjoint_nil_right, List.append_nil,
          List.nil_append, not_false_eq_true, true_and, and_true, not_true_eq_false, false_and,
          and_false] at hnd
      have hrl : r ≠ l := hlr.symm
      have hlp : l ≠ p := by
        rintro rfl
        simp only [Tree.addrs, ctxAddrs, List.nodup_append, List.nodup_cons, List.mem_append, List.mem_cons,
          not_or, List.disjoint_cons_left, List.disjoint_cons_right, List.disjoint_append_left,
          List.disjoint_append_right, List.cons_append, List.append_assoc, List.nodup_nil,
          List.not_mem_nil, List.disjoint_nil_left, List.disjoint_nil_right, List.append_nil,
          List.nil_append, not_false_eq_true, true_and, and_true, not_true_eq_false, false_and,
          and_false] at hnd
      have hpl : p ≠ l := hlp.symm
      have hrp : r ≠ p := by
        rintro rfl
        simp only [Tree.addrs, ctxAddrs, List.nodup_append, List.nodup_cons, List.mem_append, List.mem_cons,
          not_or, List.disjoint_cons_left, List.disjoint_cons_right, List.disjoint_append_left,
          List.disjoint_append_right, List.cons_append, List.append_assoc, List.nodup_nil,
          List.not_mem_nil, List.disjoint_nil_left, List.disjoint_nil_right, List.append_nil,
          List.nil_append, not_false_eq_true, true_and, and_true, not_true_eq_false, false_and,
          and_false] at hnd
      have hpr : p ≠ r := hrp.symm
      have hyz : y ≠ z := by
        rintro rfl
        simp only [Tree.addrs, ctxAddrs, List.nodup_append, List.nodup_cons, List.mem_append, List.mem_cons,
          not_or, List.disjoint_cons_left, List.disjoint_cons_right, List.disjoint_append_left,
          List.disjoint_append_right, List.cons_append, List.append_assoc, List.nodup_nil,
          List.not_mem_nil, List.disjoint_nil_left, List.disjoint_nil_right, List.append_nil,
          List.nil_append, not_false_eq_true, true_and, and_true, not_true_eq_false, false_and,
          and_false] at hyf
      have hzy : z ≠ y := hyz.symm
      have hyl : y ≠ l := by
        rintro rfl
        simp only [Tree.addrs, ctxAddrs, List.nodup_append, List.nodup_cons, List.mem_append, List.mem_cons,
          not_or, List.disjoint_cons_left, List.disjoint_cons_right, List.disjoint_append_left,
          List.disjoint_append_right, List.cons_append, List.append_assoc, List.nodup_nil,
          List.not_mem_nil, List.disjoint_nil_left, List.disjoint_nil_right, List.append_nil,
          List.nil_append, not_false_eq_true, true_and, and_true, not_true_eq_false, false_and,
          and_false] at hyf
      have hly : l ≠ y := hyl.symm
      have hyr : y ≠ r := by
        rintro rfl
        simp only [Tree.addrs, ctxAddrs, List.nodup_append, List.nodup_cons, List.mem_append, List.mem_cons,
          not_or, List.disjoint_cons_left, List.disjoint_cons_right, List.disjoint_append_left,
          List.disjoint_append_right, List.cons_append, List.append_assoc, List.nodup_nil,
          List.not_mem_nil, List.disjoint_nil_left, List.disjoint_nil_right, List.append_nil,
          List.nil_append, not_false_eq_true, true_and, and_true, not_true_eq_false, false_and,
          and_false] at hyf
      have hry : r ≠ y := hyr.symm
      have hyp : y ≠ p := by
        rintro rfl
        simp only [Tree.addrs, ctxAddrs, List.nodup_append, List.nodup_cons, List.mem_append, List.mem_cons,
          not_or, List.disjoint_cons_left, List.disjoint_cons_right, List.disjoint_append_left,
          List.disjoint_append_right, List.cons_append, List.append_assoc, List.nodup_nil,
          List.not_mem_nil, List.disjoint_nil_left, List.disjoint_nil_right, List.append_nil,
          List.nil_append, not_false_eq_true, true_and, and_true, not_true_eq_false, false_and,
          and_false] at hyf
      have hpy : p ≠ y := hyp.symm
      have hnd' := hnd
      simp only [Tree.addrs, ctxAddrs, List.nodup_append, List.nodup_cons, List.mem_append, List.mem_cons,
        not_or, List.disjoint_cons_left, List.disjoint_cons_right, List.disjoint_append_left,
        List.disjoint_append_right, List.cons_append, List.append_assoc, List.nodup_nil,
        List.not_mem_nil, List.disjoint_nil_left, List.disjoint_nil_right, List.append_nil,
        List.nil_append, not_false_eq_true, true_and, and_true] at hnd' hyf
      simp only [ctxPar_cons, ctxPar_nil, Frame.addr_L, Frame.addr_R, Tree.ptr_node, Tree.ptr_nil] at hzc hlc hrc hpc
      simp only [RBT.deleteSplice, RBT.rbTransplant, RBT.deallocate, RBT.right, RBT.left, RBT.parent,
        RBT.color, RBT.setRight, RBT.setLeft, RBT.setParent, RBT.setColor, RBT.modify,
        RBT.get_some, Exec.some_bind, Exec.pure_eq, ctxPar_cons, ctxPar_nil, Frame.addr_L,
        Frame.addr_R, Tree.ptr_node, Tree.ptr_nil, hzc, hlc, hrc, hyc, hns, hpc, hzl, hlz, hzr,
        hrz, hzp, hpz, hlr, hrl, hlp, hpl, hrp, hpr, hyz, hzy, hyl, hly, hyr, hry, hyp, hpy, hz,
        hl, hr, hy, hp, Ne.symm hz, Ne.symm hl, Ne.symm hr, Ne.symm hy, Ne.symm hp, setCell,
        if_pos, if_neg, ite_true, ite_false, ne_eq, Option.some.injEq, not_false_eq_true,
        not_true_eq_false, reduceCtorEq]
      refine ⟨_, rfl, ?_, rfl, rfl, ?_, ?_⟩
      · rw [Shape.plug_iff]
        simp only [Repr, ReprCtx, setCell_same, setCell_other, Repr_setCell, ReprCtx_setCell, ne_eq,
          not_false_eq_true, Tree.ptr_node, Tree.ptr_nil, ctxPar_cons, ctxPar_nil, ctxRoot_cons,
          ctxRoot_nil, Frame.addr_L, Frame.addr_R, true_and, and_true, Tree.addrs,
          List.append_assoc, List.cons_append, List.nil_append, hnd', hyf, hzl, hlz, hzr, hrz, hzp,
          hpz, hlr, hrl, hlp, hpl, hrp, hpr, hyz, hzy, hyl, hly, hyr, hry, hyp, hpy, hn5, hn6, hn7,
          hn8, hn3, hn4, hz, hl, hr, hy, hp, Ne.symm hz, Ne.symm hl, Ne.symm hr, Ne.symm hy,
          Ne.symm hp, hzc, hlc, hrc, hyc, hns, hpc] <;>
        (try simp only [Tree.addrs, ctxAddrs, List.nodup_append, List.nodup_cons, List.mem_append, List.mem_cons, not_or, List.disjoint_cons_left, List.disjoint_cons_right, List.disjoint_append_left, List.disjoint_append_right, List.cons_append, List.append_assoc, List.nodup_nil, List.not_mem_nil, List.disjoint_nil_left, List.disjoint_nil_right, List.append_nil, List.nil_append, not_false_eq_true, true_and, and_true, Tree.ptr_node, Tree.ptr_nil, ctxRoot_cons, ctxRoot_nil, Frame.addr_L, Frame.addr_R] at hnd hroot ⊢) <;>
        (try casesm* _ ∧ _) <;>
        (and_intros <;>
          first
          | assumption
          | exact Ne.symm ‹_›
          | exact fun e => ‹¬ _› e.symm
          | exact List.Disjoint.symm ‹_›
          | exact fun _ h1 h2 => ‹List.Disjoint _ _› h2 h1)
      · first
        | rfl
        | simp only [setCell_other, setCell_same, ne_eq, not_false_eq_true, Exec.some_bind, Exec.pure_eq,
            ctxPar_cons, ctxPar_nil, Frame.addr_L, Frame.addr_R, RBT.color, RBT.parent,
            RBT.get_some, hzl, hlz, hzr, hrz, hzp, hpz, hlr, hrl, hlp, hpl, hrp, hpr, hyz, hzy,
            hyl, hly, hyr, hry, hyp, hpy, hz, hl, hr, hy, hp, Ne.symm hz, Ne.symm hl, Ne.symm hr,
            Ne.symm hy, Ne.symm hp, hns]
      · intro h
        rw [← hpe h]
        first
        | rfl
        | simp only [setCell_other, setCell_same, ne_eq, not_false_eq_true, Exec.some_bind, Exec.pure_eq,
              ctxPar_cons, ctxPar_nil, Frame.addr_L, Frame.addr_R, RBT.color, RBT.parent,
              RBT.get_some, hzl, hlz, hzr, hrz, hzp, hpz, hlr, hrl, hlp, hpl, hrp, hpr, hyz, hzy,
              hyl, hly, hyr, hry, hyp, hpy, hz, hl, hr, hy, hp, Ne.symm hz, Ne.symm hl, Ne.symm hr,
              Ne.symm hy, Ne.symm hp, hns]
    | R p cp pr kp =>
      obtain ⟨hp, hpc, hpr, hrest⟩ := hctx
      have hn3 := hpr.ne_null
      have hn4 := hrest.null_fresh
      have hzl : z ≠ l := by
        rintro rfl
        simp only [Tree.addrs, ctxAddrs, List.nodup_append, List.nodup_cons, List.mem_append, List.mem_cons,
          not_or, List.disjoint_cons_left, List.disjoint_cons_right, List.disjoint_append_left,
          List.disjoint_append_right, List.cons_append, List.append_assoc, List.nodup_nil,
          List.not_mem_nil, List.disjoint_nil_left, List.disjoint_nil_right, List.append_nil,
          List.nil_append, not_false_eq_true, true_and, and_true, not_true_eq_false, false_and,
          and_false] at hnd
      have hlz : l ≠ z := hzl.symm
      have hzr : z ≠ r := by
        rintro rfl
        simp only [Tree.addrs, ctxAddrs, List.nodup_append, List.nodup_cons, List.mem_append, List.mem_cons,
          not_or, List.disjoint_cons_left, List.disjoint_cons_right, List.disjoint_append_left,
          List.disjoint_append_right, List.cons_append, List.append_assoc, List.nodup_nil,
          List.not_mem_nil, List.disjoint_nil_left, List.disjoint_nil_right, List.append_nil,
          List.nil_append, not_false_eq_true, true_and, and_true, not_true_eq_false, false_and,
          and_false] at hnd
      have hrz : r ≠ z := hzr.symm
      have hzp : z ≠ p := by
        rintro rfl
        simp only [Tree.addrs, ctxAddrs, List.nodup_append, List.nodup_cons, List.mem_append, List.mem_cons,
          not_or, List.disjoint_cons_left, List.disjoint_cons_right, List.disjoint_append_left,
          List.disjoint_append_right, List.cons_append, List.append_assoc, List.nodup_nil,
          List.not_mem_nil, List.disjoint_nil_left, List.disjoint_nil_right, List.append_nil,
          List.nil_append, not_false_eq_true, true_and, and_true, not_true_eq_false, false_and,
          and_false] at hnd
      have hpz : p ≠ z := hzp.symm
      have hlr : l ≠ r := by
        rintro rfl
        simp only [Tree.addrs, ctxAddrs, List.nodup_append, List.nodup_cons, List.mem_append, List.mem_cons,
          not_or, List.disjoint_cons_left, List.disjoint_cons_right, List.disjoint_append_left,
          List.disjoint_append_right, List.cons_append, List.append_assoc, List.nodup_nil,
          List.not_mem_nil, List.disjoint_nil_left, List.disjoint_nil_right, List.append_nil,
          List.nil_append, not_false_eq_true, true_and, and_true, not_true_eq_false, false_and,
          and_false] at hnd
      have hrl : r ≠ l := hlr.symm
      have hlp : l ≠ p := by
        rintro rfl
        simp only [Tree.addrs, ctxAddrs, List.nodup_append, List.nodup_cons, List.mem_append, List.mem_cons,
          not_or, List.disjoint_cons_left, List.disjoint_cons_right, List.disjoint_append_left,
          List.disjoint_append_right, List.cons_append, List.append_assoc, List.nodup_nil,
          List.not_mem_nil, List.disjoint_nil_left, List.disjoint_nil_right, List.append_nil,
          List.nil_append, not_false_eq_true, true_and, and_true, not_true_eq_false, false_and,
          and_false] at hnd
      have hpl : p ≠ l := hlp.symm
      have hrp : r ≠ p := by
        rintro rfl
        simp only [Tree.addrs, ctxAddrs, List.nodup_append, List.nodup_cons, List.mem_append, List.mem_cons,
          not_or, List.disjoint_cons_left, List.disjoint_cons_right, List.disjoint_append_left,
          List.disjoint_append_right, List.cons_append, List.append_assoc, List.nodup_nil,
          List.not_mem_nil, List.disjoint_nil_left, List.disjoint_nil_right, List.append_nil,
          List.nil_append, not_false_eq_true, true_and, and_true, not_true_eq_false, false_and,
          and_false] at hnd
      have hpr : p ≠ r := hrp.symm
      have hyz : y ≠ z := by
        rintro rfl
        simp only [Tree.addrs, ctxAddrs, List.nodup_append, List.nodup_cons, List.mem_append, List.mem_cons,
          not_or, List.disjoint_cons_left, List.disjoint_cons_right, List.disjoint_append_left,
          List.disjoint_append_right, List.cons_append, List.append_assoc, List.nodup_nil,
          List.not_mem_nil, List.disjoint_nil_left, List.disjoint_nil_right, List.append_nil,
          List.nil_append, not_false_eq_true, true_and, and_true, not_true_eq_false, false_and,
          and_false] at hyf
      have hzy : z ≠ y := hyz.symm
      have hyl : y ≠ l := by
        rintro rfl
        simp only [Tree.addrs, ctxAddrs, List.nodup_append, List.nodup_cons, List.mem_append, List.mem_cons,
          not_or, List.disjoint_cons_left, List.disjoint_cons_right, List.disjoint_append_left,
          List.disjoint_append_right, List.cons_append, List.append_assoc, List.nodup_nil,
          List.not_mem_nil, List.disjoint_nil_left, List.disjoint_nil_right, List.append_nil,
          List.nil_append, not_false_eq_true, true_and, and_true, not_true_eq_false, false_and,
          and_false] at hyf
      have hly : l ≠ y := hyl.symm
      have hyr : y ≠ r := by
        rintro rfl
        simp only [Tree.addrs, ctxAddrs, List.nodup_append, List.nodup_cons, List.mem_append, List.mem_cons,
          not_or, List.disjoint_cons_left, List.disjoint_cons_right, List.disjoint_append_left,
          List.disjoint_append_right, List.cons_append, List.append_assoc, List.nodup_nil,
          List.not_mem_nil, List.disjoint_nil_left, List.disjoint_nil_right, List.append_nil,
          List.nil_append, not_false_eq_true, true_and, and_true, not_true_eq_false, false_and,
          and_false] at hyf
      have hry : r ≠ y := hyr.symm
      have hyp : y ≠ p := by
        rintro rfl
        simp only [Tree.addrs, ctxAddrs, List.nodup_append, List.nodup_cons, List.mem_append, List.mem_cons,
          not_or, List.disjoint_cons_left, List.disjoint_cons_right, List.disjoint_append_left,
          List.disjoint_append_right, List.cons_append, List.append_assoc, List.nodup_nil,
          List.not_mem_nil, List.disjoint_nil_left, List.disjoint_nil_right, List.append_nil,
          List.nil_append, not_false_eq_true, true_and, and_true, not_true_eq_false, false_and,
          and_false] at hyf
      have hpy : p ≠ y := hyp.symm
      have hnd' := hnd
      simp only [Tree.addrs, ctxAddrs, List.nodup_append, List.nodup_cons, List.mem_append, List.mem_cons,
        not_or, List.disjoint_cons_left, List.disjoint_cons_right, List.disjoint_append_left,
        List.disjoint_append_right, List.cons_append, List.append_assoc, List.nodup_nil,
        List.not_mem_nil, List.disjoint_nil_left, List.disjoint_nil_right, List.append_nil,
        List.nil_append, not_false_eq_true, true_and, and_true] at hnd' hyf
      have hq : ¬ (some z = Tree.ptr t1.null pr) := fun e => ptr_ne_of_not_mem hz (by simp only [hnd', not_false_eq_true]) e.symm
      simp only [ctxPar_cons, ctxPar_nil, Frame.addr_L, Frame.addr_R, Tree.ptr_node, Tree.ptr_nil] at hzc hlc hrc hpc
      simp only [RBT.deleteSplice, RBT.rbTransplant, RBT.deallocate, RBT.right, RBT.left, RBT.parent,
        RBT.color, RBT.setRight, RBT.setLeft, RBT.setParent, RBT.setColor, RBT.modify,
        RBT.get_some, Exec.some_bind, Exec.pure_eq, ctxPar_cons, ctxPar_nil, Frame.addr_L,
        Frame.addr_R, Tree.ptr_node, Tree.ptr_nil, hzc, hlc, hrc, hyc, hns, hpc, hzl, hlz, hzr,
        hrz, hzp, hpz, hlr, hrl, hlp, hpl, hrp, hpr, hyz, hzy, hyl, hly, hyr, hry, hyp, hpy, hq,
        hz, hl, hr, hy, hp, Ne.symm hz, Ne.symm hl, Ne.symm hr, Ne.symm hy, Ne.symm hp, setCell,
        if_pos, if_neg, ite_true, ite_false, ne_eq, Option.some.injEq, not_false_eq_true,
        not_true_eq_false, reduceCtorEq]
      refine ⟨_, rfl, ?_, rfl, rfl, ?_, ?_⟩
      · rw [Shape.plug_iff]
        simp only [Repr, ReprCtx, setCell_same, setCell_other, Repr_setCell, ReprCtx_setCell, ne_eq,
          not_false_eq_true, Tree.ptr_node, Tree.ptr_nil, ctxPar_cons, ctxPar_nil, ctxRoot_cons,
          ctxRoot_nil, Frame.addr_L, Frame.addr_R, true_and, and_true, Tree.addrs,
          List.append_assoc, List.cons_append, List.nil_append, hnd', hyf, hzl, hlz, hzr, hrz, hzp,
          hpz, hlr, hrl, hlp, hpl, hrp, hpr, hyz, hzy, hyl, hly, hyr, hry, hyp, hpy, hq, hn5, hn6,
          hn7, hn8, hn3, hn4, hz, hl, hr, hy, hp, Ne.symm hz, Ne.symm hl, Ne.symm hr, Ne.symm hy,
          Ne.symm hp, hzc, hlc, hrc, hyc, hns, hpc] <;>
        (try simp only [Tree.addrs, ctxAddrs, List.nodup_append, List.nodup_cons, List.mem_append, List.mem_cons, not_or, List.disjoint_cons_left, List.disjoint_cons_right, List.disjoint_append_left, List.disjoint_append_right, List.cons_append, List.append_assoc, List.nodup_nil, List.not_mem_nil, List.disjoint_nil_left, List.disjoint_nil_right, List.append_nil, List.nil_append, not_false_eq_true, true_and, and_true, Tree.ptr_node, Tree.ptr_nil, ctxRoot_cons, ctxRoot_nil, Frame.addr_L, Frame.addr_R] at hnd hroot ⊢) <;>
        (try casesm* _ ∧ _) <;>
        (and_intros <;>
          first
          | assumption
          | exact Ne.symm ‹_›
          | exact fun e => ‹¬ _› e.symm
          | exact List.Disjoint.symm ‹_›
          | exact fun _ h1 h2 => ‹List.Disjoint _ _› h2 h1)
      · first
        | rfl
        | simp only [setCell_other, setCell_same, ne_eq, not_false_eq_true, Exec.some_bind, Exec.pure_eq,
            ctxPar_cons, ctxPar_nil, Frame.addr_L, Frame.addr_R, RBT.color, RBT.parent,
            RBT.get_some, hzl, hlz, hzr, hrz, hzp, hpz, hlr, hrl, hlp, hpl, hrp, hpr, hyz, hzy,
            hyl, hly, hyr, hry, hyp, hpy, hz, hl, hr, hy, hp, Ne.symm hz, Ne.symm hl, Ne.symm hr,
            Ne.symm hy, Ne.symm hp, hns]
      · intro h
        rw [← hpe h]
        first
        | rfl
        | simp only [setCell_other, setCell_same, ne_eq, not_false_eq_true, Exec.some_bind, Exec.pure_eq,
              ctxPar_cons, ctxPar_nil, Frame.addr_L, Frame.addr_R, RBT.color, RBT.parent,
              RBT.get_some, hzl, hlz, hzr, hrz, hzp, hpz, hlr, hrl, hlp, hpl, hrp, hpr, hyz, hzy,
              hyl, hly, hyr, hry, hyp, hpy, hz, hl, hr, hy, hp, Ne.symm hz, Ne.symm hl, Ne.symm hr,
              Ne.symm hy, Ne.symm hp, hns]

end FtContainers

namespace FtContainers

open Color Tree

variable {K V : Type}

/-! ## Every node is a focus -/

theorem Tree.focus_of_mem {a : Nat} {kv : K × V} :
    ∀ (T : Tree K V) (ctx0 : List (Frame K V)), (a, kv) ∈ T.nodes →
      ∃ c l r ctx, plug T ctx0 = plug (node a c l kv r) ctx := by
  intro T
  induction T with
  | nil => intro ctx0 h; simp [Tree.nodes] at h
  | node b cb L kb R ihl ihr =>
    intro ctx0 h
    simp only [Tree.nodes, List.mem_append, List.mem_cons] at h
    rcases h with h | h | h
    · exact ihl (Frame.L b cb kb R :: ctx0) h
    · cases h
      exact ⟨cb, L, R, ctx0, rfl⟩
    · exact ihr (Frame.R b cb L kb :: ctx0) h

theorem Tree.focus_of_addr {a : Nat} :
    ∀ (T : Tree K V) (ctx0 : List (Frame K V)), a ∈ T.addrs →
      ∃ c l kv r ctx, plug T ctx0 = plug (node a c l kv r) ctx := by
  intro T ctx0 h
  rw [Tree.addrs_eq_nodes] at h
  obtain ⟨⟨a', kv⟩, hm, rfl⟩ := List.mem_map.1 h
  obtain ⟨c, l, r, ctx, e⟩ := Tree.focus_of_mem T ctx0 hm
  exact ⟨c, l, kv, r, ctx, e⟩

/-- The cell of a node of the tree holds its pair. -/
theorem Shape.cell_of_mem {t : RBT K V} {T : Tree K V} (hS : Shape t T) {a : Nat} {kv : K × V}
    (hm : (a, kv) ∈ T.nodes) : ∃ n, t.heap a = some n ∧ n.val = kv ∧ a ≠ t.null := by
  obtain ⟨c, l, r, ctx, e⟩ := Tree.focus_of_mem T [] hm
  rw [plug_nil] at e
  rw [e] at hS
  exact ⟨_, hS.cell, rfl, hS.focus_ne_null⟩

variable [LinearOrder K]

/-- In a BST a key is held by one node only. -/
theorem Tree.BST.addr_unique {T : Tree K V} (hb : T.BST) {a a' : Nat} {k : K} {v v' : V}
    (h1 : (a, (k, v)) ∈ T.nodes) (h2 : (a', (k, v')) ∈ T.nodes) : a = a' ∧ v = v' := by
  have hnd : (T.nodes.map (fun x => x.2.1)).Nodup := by
    rw [← Tree.keys_eq_nodes]
    exact hb.nodup_keys
  have := List.inj_on_of_nodup_map hnd h1 h2 rfl
  cases this
  exact ⟨rfl, rfl⟩

end FtContainers

namespace FtContainers

open Color Tree

variable {K V : Type} [LinearOrder K]

/-! ## Location returned by `insert` -/

/-- For an absent key, `insert` links the new node in the cell `t.next`, and
the pointer it puts in the iterator is `y`, the node the descent ended at
(`ft_nullptr` on the empty tree): never the cell of the new node. -/
theorem insert_absent_location (t : RBT K V) (key : K × V) (h : t.WF)
    (hk : key.1 ∉ t.keys) :
    ∃ t' y T', t.insert key = some (t', y, true) ∧ t'.tree = some T' ∧
      (t.next, key) ∈ T'.nodes ∧ y ≠ some t.next ∧
      (t.root = some t.null → y = none) := by
  obtain ⟨T, ht, hS, hb, hlt, -⟩ := h.unpack
  rw [RBT.keys_of_tree ht] at hk
  obtain ⟨ctx, t', T', hT, -, e, -, ht', hn, -⟩ := insert_absent_full ht h hk
  refine ⟨t', _, T', e, ht', ?_, ?_, ?_⟩
  · rw [hn]
    simp
  · cases ctx with
    | nil => simp
    | cons f rest =>
      simp only [ctxPar_cons, ne_eq, Option.some.injEq]
      intro hf
      have hm : f.addr ∈ T.addrs := by
        rw [hT, show plug nil (f :: rest) = plug (f.fill nil) rest from rfl, mem_addrs_plug]
        exact Or.inl (by cases f <;> simp [Frame.fill, Frame.addr, Tree.addrs])
      exact Nat.lt_irrefl _ (hf ▸ hlt _ hm)
  · intro hr
    cases ctx with
    | nil => rfl
    | cons f rest =>
      have h1 := hS.root
      rw [hT, ptr_plug, hr] at h1
      obtain ⟨c, l, kv, r, e2⟩ : ∃ c l kv r, f.fill (nil : Tree K V) = node f.addr c l kv r := by
        cases f <;> exact ⟨_, _, _, _, rfl⟩
      have hS' : Shape t (plug (node f.addr c l kv r) rest) := by
        rw [← e2]
        rw [hT] at hS
        exact hS
      have h2 : f.addr ∈ T.addrs ∧ f.addr ≠ t.null := by
        refine ⟨?_, hS'.focus_ne_null⟩
        rw [hT, show plug nil (f :: rest) = plug (f.fill nil) rest from rfl, mem_addrs_plug]
        exact Or.inl (by cases f <;> simp [Frame.fill, Frame.addr, Tree.addrs])
      exfalso
      have h3 : ctxRoot (Tree.ptr t.null (nil : Tree K V)) (f :: rest) ≠ some t.null := by
        obtain ⟨a, ha, ea⟩ := ctxRoot_mem (Tree.ptr t.null (nil : Tree K V))
          (List.cons_ne_nil f rest)
        rw [ea]
        intro e3
        have hnn := ((Shape.plug_iff.1 (hT ▸ hS)).2.2.1).null_fresh
        exact hnn ((Option.some.inj e3) ▸ ha)
      exact h3 h1.symm

/-- C12: the location returned by `insert` when it reports `inserted = true`.
Evaluation of the code: on the freshly constructed tree, `insert` of key 10
builds the iterator on `ft_nullptr`; on the tree 10, 20, 30 the new key 40 goes
to cell 4 and the iterator is built on cell 3, the node with key 30 under
which the new node was attached. -/
theorem insert_returns_attach_parent :
    ((RBT.new : RBT Nat Nat).insert (10, 7)).map (fun r => r.2) = some (none, true) ∧
      (demo.insert (40, 7)).map (fun r => r.2) = some (some 3, true) ∧
      demo.next = 4 ∧ demo.key (some 3) = some 30 ∧
      ((demo.insert (40, 7)).bind fun r => r.1.searchTree (40, 7)) = some (some 4) :=
  ⟨rfl, rfl, rfl, rfl, rfl⟩

/-- C13: when `insert` finds the key already present, it reports
`inserted = false` and the pointer it puts in the iterator is the node that
`searchTree(key)` returns, a real node holding the key. -/
theorem insert_present_location (t : RBT K V) (key : K × V) (h : t.WF)
    (hk : key.1 ∈ t.keys) :
    ∃ t' a n, t.insert key = some (t', some a, false) ∧
      t.searchTree key = some (some a) ∧ a ≠ t.null ∧
      t.heap a = some n ∧ n.val.1 = key.1 := by
  obtain ⟨T, ht, hS, hb, -⟩ := h.unpack
  rw [RBT.keys_of_tree ht] at hk
  obtain ⟨t', a, e, -, hs, -⟩ := insert_present ht h hk
  obtain ⟨x, hx, hx1⟩ := List.mem_map.1 hk
  obtain ⟨a', n, h1, -, h3, h4, h5⟩ := search_finds ht hb (k := x.1) (v := x.2) hx key.2
  rw [hx1] at h1
  have : a' = a := Option.some.inj (Option.some.inj (h1.symm.trans hs))
  subst this
  exact ⟨t', a', n, e, hs, h3, h4, by rw [h5, hx1]⟩

theorem insert_present_location_witness :
    demo.WF ∧ 20 ∈ demo.keys ∧
      ∃ t' a n, demo.insert (20, 9) = some (t', some a, false) ∧
        demo.searchTree (20, 9) = some (some a) ∧ a ≠ demo.null ∧
        demo.heap a = some n ∧ n.val.1 = 20 :=
  ⟨demo_wf, by decide, insert_present_location demo (20, 9) demo_wf (by decide)⟩

/-! ## `min()` and `max()` -/

/-- C17: `min()` and `max()` on the empty tree.  The sentinel is constructed
with `left = right = ft_nullptr`, so on the freshly constructed tree the test
`s->left != _null` succeeds at the sentinel, the loop moves to `ft_nullptr`
and reads its `left` field: the call has no result.  The same happens on the
tree emptied by `deleteNode`. -/
theorem min_max_empty_follow_null :
    (RBT.new : RBT Nat Nat).root = some (RBT.new : RBT Nat Nat).null ∧
      (RBT.new : RBT Nat Nat).left (some (RBT.new : RBT Nat Nat).null) = some none ∧
      (RBT.new : RBT Nat Nat).right (some (RBT.new : RBT Nat Nat).null) = some none ∧
      (RBT.new : RBT Nat Nat).left none = none ∧
      (RBT.new : RBT Nat Nat).min = none ∧ (RBT.new : RBT Nat Nat).max = none ∧
      (((RBT.new : RBT Nat Nat).insert (10, 7)).bind fun r =>
        (r.1.deleteNode (10, 7)).map fun t => (t.root, t.null, t.min, t.max)) =
          some (some 0, 0, none, none) :=
  ⟨rfl, rfl, rfl, rfl, rfl, rfl, rfl⟩

/-! ## Lookup loop of `deleteNodeHelper` -/

/-- C20: the lookup loop of `deleteNodeHelper`, started as `deleteNode` does
at the root with `z = _null`, returns on every tree with strict BST ordering
the node that `searchTreeHelper(root, key)` returns; it is the sentinel when
the key is absent. -/
theorem deleteLoop_agrees_with_search (t : RBT K V) (key : K × V) (h : t.Ordered) :
    ∃ z, t.deleteLoop key t.next t.root (some t.null) = some z ∧
      t.searchTreeHelper t.next t.root key = some z ∧
      (key.1 ∉ t.keys → z = some t.null) := by
  obtain ⟨T, ht, hb⟩ := h
  have hS := Shape.of_tree ht hb
  have h1 := @deleteLoop_eq _ _ _ t key T [] t.next (some t.null) (by simpa using hS)
    (by simpa using hb) (tree_height_lt ht)
  have h2 := searchTreeHelper_eq key T [] t.next (by simpa using hS) (tree_height_lt ht)
  rw [← hS.root] at h1 h2
  rw [RBT.keys_of_tree ht]
  rcases find_cases key.1 T [] with e | ⟨a, c, l, w, r, e⟩
  · rw [e] at h1 h2
    exact ⟨_, h1, h2, fun _ => rfl⟩
  · rw [e] at h1 h2
    refine ⟨_, h1, h2, fun hk => ?_⟩
    exact absurd e (by rw [(find_nil_iff key.1 T hb).2 hk]; exact fun e' => by cases e')

theorem deleteLoop_agrees_with_search_witness :
    demo.Ordered ∧
      ∃ z, demo.deleteLoop (30, 0) demo.next demo.root (some demo.null) = some z ∧
        demo.searchTreeHelper demo.next demo.root (30, 0) = some z ∧
        (30 ∉ demo.keys → z = some demo.null) :=
  ⟨⟨demoTree, by decide, by decide⟩,
    deleteLoop_agrees_with_search demo (30, 0) ⟨demoTree, by decide, by decide⟩⟩

end FtContainers

namespace FtContainers

open Color Tree

variable {K V : Type}

/-! ## Leftmost and rightmost node -/

theorem Tree.nodes_ne_nil {a : Nat} {c : Color} {l r : Tree K V} {kv : K × V} :
    (node a c l kv r).nodes ≠ [] := by
  simp [Tree.nodes]

theorem minLoop_first {t : RBT K V} : ∀ (S : Tree K V) (ctx : List (Frame K V)) (fuel : Nat),
    Shape t (plug S ctx) → S ≠ nil → S.height ≤ fuel →
      ∃ a kv, t.minLoop fuel (S.ptr t.null) = some (some a) ∧ S.nodes.head? = some (a, kv) := by
  intro S
  induction S with
  | nil => intro ctx fuel _ h; exact absurd rfl h
  | node a c l kv r ihl ihr =>
    intro ctx fuel hS _ hf
    cases fuel with
    | zero => simp [Tree.height] at hf
    | succ n =>
      simp only [Tree.height] at hf
      cases l with
      | nil =>
        refine ⟨a, kv, ?_, by simp [Tree.nodes]⟩
        simp only [RBT.minLoop, Tree.ptr_node, hS.left_eq, Exec.some_bind, Tree.ptr_nil, ne_eq,
          not_true_eq_false, if_false, Exec.pure_eq]
      | node b cb bl kb br =>
        have hb : b ≠ t.null :=
          @Shape.focus_ne_null _ _ t b cb bl br kb (Frame.L a c kv r :: ctx) hS
        obtain ⟨a', kv', h1, h2⟩ := ihl (Frame.L a c kv r :: ctx) n hS (fun e => by cases e)
          (by omega)
        refine ⟨a', kv', ?_, ?_⟩
        · simp only [RBT.minLoop, Tree.ptr_node, hS.left_eq, Exec.some_bind, ne_eq,
            Option.some.injEq, hb, not_false_eq_true, if_true]
          exact h1
        · rw [show (node a c (node b cb bl kb br) kv r).nodes =
            (node b cb bl kb br).nodes ++ (a, kv) :: r.nodes from rfl,
            List.head?_append_of_ne_nil _ Tree.nodes_ne_nil]
          exact h2

theorem maxLoop_last {t : RBT K V} : ∀ (S : Tree K V) (ctx : List (Frame K V)) (fuel : Nat),
    Shape t (plug S ctx) → S ≠ nil → S.height ≤ fuel →
      ∃ a kv, t.maxLoop fuel (S.ptr t.null) = some (some a) ∧
        S.nodes.getLast? = some (a, kv) := by
  intro S
  induction S with
  | nil => intro ctx fuel _ h; exact absurd rfl h
  | node a c l kv r ihl ihr =>
    intro ctx fuel hS _ hf
    cases fuel with
    | zero => simp [Tree.height] at hf
    | succ n =>
      simp only [Tree.height] at hf
      cases r with
      | nil =>
        refine ⟨a, kv, ?_, by simp [Tree.nodes]⟩
        simp only [RBT.maxLoop, Tree.ptr_node, hS.right_eq, Exec.some_bind, Tree.ptr_nil, ne_eq,
          not_true_eq_false, if_false, Exec.pure_eq]
      | node b cb bl kb br =>
        have hb : b ≠ t.null :=
          @Shape.focus_ne_null _ _ t b cb bl br kb (Frame.R a c l kv :: ctx) hS
        obtain ⟨a', kv', h1, h2⟩ := ihr (Frame.R a c l kv :: ctx) n hS (fun e => by cases e)
          (by omega)
        refine ⟨a', kv', ?_, ?_⟩
        · simp only [RBT.maxLoop, Tree.ptr_node, hS.right_eq, Exec.some_bind, ne_eq,
            Option.some.injEq, hb, not_false_eq_true, if_true]
          exact h1
        · rw [show (node a c l kv (node b cb bl kb br)).nodes =
            l.nodes ++ (a, kv) :: (node b cb bl kb br).nodes from rfl,
            List.getLast?_append_of_ne_nil _ (List.cons_ne_nil _ _)]
          obtain ⟨x, xs, hx⟩ := List.exists_cons_of_ne_nil
            (@Tree.nodes_ne_nil K V b cb bl br kb)
          rw [hx] at h2 ⊢
          rw [List.getLast?_cons_cons]
          exact h2

theorem head_le_of_pairwise [LinearOrder K] {l : List K} (hp : l.Pairwise (· < ·)) {x : K}
    (hx : l.head? = some x) : ∀ k ∈ l, x ≤ k := by
  cases l with
  | nil => simp
  | cons y ys =>
    simp only [List.head?_cons, Option.some.injEq] at hx
    subst hx
    intro k hk
    rcases List.mem_cons.1 hk with rfl | hk
    · exact le_rfl
    · exact le_of_lt (List.rel_of_pairwise_cons hp hk)

theorem le_last_of_pairwise [LinearOrder K] {l : List K} (hp : l.Pairwise (· < ·)) {x : K}
    (hx : l.getLast? = some x) : ∀ k ∈ l, k ≤ x := by
  have h1 : l.reverse.Pairwise (· > ·) := by
    rw [List.pairwise_reverse]
    exact hp
  have h2 : l.reverse.head? = some x := by rw [List.head?_reverse]; exact hx
  cases hl : l.reverse with
  | nil => rw [hl] at h2; simp at h2
  | cons y ys =>
    rw [hl] at h1 h2
    simp only [List.head?_cons, Option.some.injEq] at h2
    subst h2
    intro k hk
    have : k ∈ l.reverse := List.mem_reverse.2 hk
    rw [hl] at this
    rcases List.mem_cons.1 this with rfl | hk'
    · exact le_rfl
    · exact le_of_lt (List.rel_of_pairwise_cons h1 hk')

variable [LinearOrder K]

/-- C15: on every non-empty tree with BST ordering, `min()` returns the node
that holds the first pair of the in-order sequence, whose key is the smallest
of the tree, and `max()` the node that holds the last pair, whose key is the
largest. -/
theorem min_max_correct (t : RBT K V) (h : t.Ordered) (hne : t.root ≠ some t.null) :
    ∃ a b na nb, t.min = some (some a) ∧ t.max = some (some b) ∧
      a ≠ t.null ∧ b ≠ t.null ∧ t.heap a = some na ∧ t.heap b = some nb ∧
      t.inorder.head? = some na.val ∧ t.inorder.getLast? = some nb.val ∧
      (∀ k ∈ t.keys, na.val.1 ≤ k) ∧ (∀ k ∈ t.keys, k ≤ nb.val.1) := by
  obtain ⟨T, ht, hb⟩ := h
  have hS := Shape.of_tree ht hb
  have hT : T ≠ nil := by
    rintro rfl
    exact hne hS.root
  have hh := tree_height_lt ht
  obtain ⟨a, kva, h1, h2⟩ := minLoop_first T [] t.next (by simpa using hS) hT (le_of_lt hh)
  obtain ⟨b, kvb, h3, h4⟩ := maxLoop_last T [] t.next (by simpa using hS) hT (le_of_lt hh)
  rw [← hS.root] at h1 h3
  obtain ⟨na, hna, hva, han⟩ := hS.cell_of_mem (List.mem_of_mem_head? h2)
  obtain ⟨nb, hnb, hvb, hbn⟩ := hS.cell_of_mem (List.mem_of_mem_getLast? h4)
  have hi1 : T.inorder.head? = some kva := by
    rw [Tree.inorder_eq_nodes, List.head?_map, h2]
    rfl
  have hi2 : T.inorder.getLast? = some kvb := by
    rw [Tree.inorder_eq_nodes, List.getLast?_map, h4]
    rfl
  have hk1 : T.keys.head? = some kva.1 := by
    unfold Tree.keys
    rw [List.head?_map, hi1]
    rfl
  have hk2 : T.keys.getLast? = some kvb.1 := by
    unfold Tree.keys
    rw [List.getLast?_map, hi2]
    rfl
  rw [RBT.inorder_of_tree ht, RBT.keys_of_tree ht]
  refine ⟨a, b, na, nb, h1, h3, han, hbn, hna, hnb, ?_, ?_, ?_, ?_⟩
  · rw [hva]; exact hi1
  · rw [hvb]; exact hi2
  · rw [hva]; exact head_le_of_pairwise hb hk1
  · rw [hvb]; exact le_last_of_pairwise hb hk2

theorem min_max_correct_witness :
    demo.Ordered ∧ demo.root ≠ some demo.null ∧
      ∃ a b na nb, demo.min = some (some a) ∧ demo.max = some (some b) ∧
        a ≠ demo.null ∧ b ≠ demo.null ∧ demo.heap a = some na ∧ demo.heap b = some nb ∧
        demo.inorder.head? = some na.val ∧ demo.inorder.getLast? = some nb.val ∧
        (∀ k ∈ demo.keys, na.val.1 ≤ k) ∧ (∀ k ∈ demo.keys, k ≤ nb.val.1) :=
  ⟨⟨demoTree, by decide, by decide⟩, by decide,
    min_max_correct demo ⟨demoTree, by decide, by decide⟩ (by decide)⟩

end FtContainers

namespace FtContainers

open Color Tree

variable {K V : Type}

/-! ## Rotations move no payload -/

/-- A write through a pointer that keeps `val` and `color` of the node. -/
theorem RBT.modify_payload {t t' : RBT K V} {p : Ptr} {f : RBT_Node K V → RBT_Node K V}
    (h : t.modify p f = some t')
    (hf : ∀ n, (f n).val = n.val ∧ (f n).color = n.color) :
    ∀ q, (t'.heap q).map (fun n => (n.val, n.color)) =
      (t.heap q).map (fun n => (n.val, n.color)) := by
  intro q
  cases p with
  | none => simp [RBT.modify] at h
  | some a =>
    cases hc : t.heap a with
    | none => simp [RBT.modify, hc] at h
    | some n =>
      rw [RBT.modify_of hc] at h
      cases h
      by_cases hq : q = a
      · subst hq
        simp [hc, hf n]
      · simp [setCell_other _ _ hq]

theorem RBT.leftRotate_payload_aux {t t0 t' : RBT K V} {s : Ptr}
    (hP : ∀ q, (t.heap q).map (fun n => (n.val, n.color)) =
      (t0.heap q).map (fun n => (n.val, n.color)))
    (h : t.leftRotate s = some t') :
    ∀ q, (t'.heap q).map (fun n => (n.val, n.color)) =
      (t0.heap q).map (fun n => (n.val, n.color)) := by
  simp only [RBT.leftRotate, RBT.setLeft, RBT.setRight, RBT.setParent, Exec.bind_assoc,
    Exec.ite_bind, Exec.pure_eq, Exec.some_bind] at h
  repeat' first
    | exact fun q => (RBT.modify_payload h (fun _ => ⟨rfl, rfl⟩) q).trans (hP q)
    | (obtain ⟨t1, h1, h⟩ := Exec.bind_eq_some h
       replace hP := fun q => (RBT.modify_payload h1 (fun _ => ⟨rfl, rfl⟩) q).trans (hP q)
       clear h1)
    | (obtain ⟨x, -, h⟩ := Exec.bind_eq_some h)
    | split at h

/-- Function `leftRotate` writes links only: every cell keeps its key, value
and colour. -/
theorem RBT.leftRotate_payload {t t' : RBT K V} {s : Ptr} (h : t.leftRotate s = some t') :
    ∀ q, (t'.heap q).map (fun n => (n.val, n.color)) =
      (t.heap q).map (fun n => (n.val, n.color)) :=
  RBT.leftRotate_payload_aux (fun _ => rfl) h

theorem RBT.rightRotate_payload_aux {t t0 t' : RBT K V} {s : Ptr}
    (hP : ∀ q, (t.heap q).map (fun n => (n.val, n.color)) =
      (t0.heap q).map (fun n => (n.val, n.color)))
    (h : t.rightRotate s = some t') :
    ∀ q, (t'.heap q).map (fun n => (n.val, n.color)) =
      (t0.heap q).map (fun n => (n.val, n.color)) := by
  simp only [RBT.rightRotate, RBT.setLeft, RBT.setRight, RBT.setParent, Exec.bind_assoc,
    Exec.ite_bind, Exec.pure_eq, Exec.some_bind] at h
  repeat' first
    | exact fun q => (RBT.modify_payload h (fun _ => ⟨rfl, rfl⟩) q).trans (hP q)
    | (obtain ⟨t1, h1, h⟩ := Exec.bind_eq_some h
       replace hP := fun q => (RBT.modify_payload h1 (fun _ => ⟨rfl, rfl⟩) q).trans (hP q)
       clear h1)
    | (obtain ⟨x, -, h⟩ := Exec.bind_eq_some h)
    | split at h

/-- Function `rightRotate` writes links only: every cell keeps its key, value
and colour. -/
theorem RBT.rightRotate_payload {t t' : RBT K V} {s : Ptr} (h : t.rightRotate s = some t') :
    ∀ q, (t'.heap q).map (fun n => (n.val, n.color)) =
      (t.heap q).map (fun n => (n.val, n.color)) :=
  RBT.rightRotate_payload_aux (fun _ => rfl) h

/-- What `leftRotate(s)` does on a state that holds a tree, `s` being a node of
it whose right child `x` is a real node. -/
theorem leftRotate_structural {t : RBT K V} {T : Tree K V} (hS : Shape t T)
    (hlt : ∀ a ∈ T.addrs, a < t.next) (hn : t.null < t.next) {s x : Nat} (hs : s ∈ T.addrs)
    (hr : t.right (some s) = some (some x)) (hx : x ≠ t.null) :
    ∃ t' T', t.leftRotate (some s) = some t' ∧ t'.tree = some T' ∧ T'.nodes = T.nodes ∧
      (∀ q, (t'.heap q).map (fun n => (n.val, n.color)) =
        (t.heap q).map (fun n => (n.val, n.color))) ∧
      t'.parent (some s) = some (some x) ∧ t'.left (some x) = some (some s) ∧
      t'.parent (some x) = t.parent (some s) ∧ t'.right (some s) = t.left (some x) ∧
      (t.root = some s → t'.root = some x) ∧ (t.root ≠ some s → t'.root = t.root) ∧
      (∀ p, t.parent (some s) = some (some p) →
        (t.left (some p) = some (some s) → t'.left (some p) = some (some x)) ∧
        (t.right (some p) = some (some s) → t'.right (some p) = some (some x))) := by
  obtain ⟨cs, A, ks, R, ctx, e⟩ := Tree.focus_of_addr T [] hs
  rw [plug_nil] at e
  subst e
  have hre := hS.right_eq
  rw [hr] at hre
  cases R with
  | nil =>
    exact absurd (Option.some.inj (Option.some.inj hre)) hx
  | node x' cx B kx C =>
    have hxx : x = x' := Option.some.inj (Option.some.inj hre)
    subst hxx
    obtain ⟨t', e1, hS', hsame, hr1, hr2⟩ := Shape.leftRotate hS
    have hSs : Shape t' (plug (node s cs A ks B) (Frame.L x cx kx C :: ctx)) := hS'
    have hSx : Shape t (plug (node x cx B kx C) (Frame.R s cs A ks :: ctx)) := hS
    have hnodes : (plug (node x cx (node s cs A ks B) kx C) ctx).nodes = (plug (node s cs A ks (node x cx B kx C)) ctx).nodes := by
      simp only [nodes_plug, Tree.nodes, List.append_assoc, List.cons_append]
    have haddrs : ∀ a ∈ (plug (node x cx (node s cs A ks B) kx C) ctx).addrs, a < t'.next := by
      intro a ha
      rw [hsame.next]
      apply hlt
      rw [Tree.addrs_eq_nodes] at ha ⊢
      rw [← hnodes]
      exact ha
    refine ⟨t', _, e1, hS'.tree_eq haddrs (by rw [hsame.null, hsame.next]; exact hn), hnodes,
      RBT.leftRotate_payload e1, ?_, ?_, ?_, ?_, ?_, ?_, ?_⟩
    · rw [hSs.parent_eq]
      rfl
    · rw [hS'.left_eq]
      rfl
    · rw [hS'.parent_eq, hS.parent_eq]
    · rw [hSs.right_eq, hSx.left_eq, hsame.null]
    · intro h0
      cases ctx with
      | nil => exact hr2 rfl
      | cons f rest => exact absurd h0.symm hS.focus_ne_root
    · intro h0
      cases ctx with
      | nil => exact absurd (by simpa using hS.root) h0
      | cons f rest => exact hr1 (List.cons_ne_nil _ _)
    · intro p hp
      rw [hS.parent_eq] at hp
      cases ctx with
      | nil => exact absurd (Option.some.inj hp) (by simp)
      | cons f rest =>
        have hp := Option.some.inj (Option.some.inj hp)
        have hsn := hS.focus_ne_null
        cases f with
        | L p' cp kp pr =>
          have hp : p' = p := hp
          subst hp
          have hSp : Shape t (plug (node p' cp (node s cs A ks (node x cx B kx C)) kp pr) rest) := hS
          have hSp' : Shape t' (plug (node p' cp (node x cx (node s cs A ks B) kx C) kp pr) rest) := hS'
          refine ⟨fun _ => by rw [hSp'.left_eq]; rfl, fun h1 => ?_⟩
          rw [hSp.right_eq] at h1
          have hmem : s ∈ (node s cs A ks (node x cx B kx C)).addrs := by simp [Tree.addrs]
          exact absurd (Option.some.inj h1) (ptr_ne_of_not_mem hsn (hSp.sep.2.2.2.1 s hmem))
        | R p' cp pl kp =>
          have hp : p' = p := hp
          subst hp
          have hSp : Shape t (plug (node p' cp pl kp (node s cs A ks (node x cx B kx C))) rest) := hS
          have hSp' : Shape t' (plug (node p' cp pl kp (node x cx (node s cs A ks B) kx C)) rest) := hS'
          refine ⟨fun h1 => ?_, fun _ => by rw [hSp'.right_eq]; rfl⟩
          rw [hSp.left_eq] at h1
          have hmem : s ∈ (node s cs A ks (node x cx B kx C)).addrs := by simp [Tree.addrs]
          exact absurd (Option.some.inj h1)
            (ptr_ne_of_not_mem hsn (fun hm => hSp.sep.2.2.2.1 s hm hmem))

/-- What `rightRotate(s)` does on a state that holds a tree, `s` being a node of
it whose left child `x` is a real node. -/
theorem rightRotate_structural {t : RBT K V} {T : Tree K V} (hS : Shape t T)
    (hlt : ∀ a ∈ T.addrs, a < t.next) (hn : t.null < t.next) {s x : Nat} (hs : s ∈ T.addrs)
    (hr : t.left (some s) = some (some x)) (hx : x ≠ t.null) :
    ∃ t' T', t.rightRotate (some s) = some t' ∧ t'.tree = some T' ∧ T'.nodes = T.nodes ∧
      (∀ q, (t'.heap q).map (fun n => (n.val, n.color)) =
        (t.heap q).map (fun n => (n.val, n.color))) ∧
      t'.parent (some s) = some (some x) ∧ t'.right (some x) = some (some s) ∧
      t'.parent (some x) = t.parent (some s) ∧ t'.left (some s) = t.right (some x) ∧
      (t.root = some s → t'.root = some x) ∧ (t.root ≠ some s → t'.root = t.root) ∧
      (∀ p, t.parent (some s) = some (some p) →
        (t.left (some p) = some (some s) → t'.left (some p) = some (some x)) ∧
        (t.right (some p) = some (some s) → t'.right (some p) = some (some x))) := by
  obtain ⟨cs, R, ks, A, ctx, e⟩ := Tree.focus_of_addr T [] hs
  rw [plug_nil] at e
  subst e
  have hre := hS.left_eq
  rw [hr] at hre
  cases R with
  | nil =>
    exact absurd (Option.some.inj (Option.some.inj hre)) hx
  | node x' cx C kx B =>
    have hxx : x = x' := Option.some.inj (Option.some.inj hre)
    subst hxx
    obtain ⟨t', e1, hS', hsame, hr1, hr2⟩ := Shape.rightRotate hS
    have hSs : Shape t' (plug (node s cs B ks A) (Frame.R x cx C kx :: ctx)) := hS'
    have hSx : Shape t (plug (node x cx C kx B) (Frame.L s cs ks A :: ctx)) := hS
    have hnodes : (plug (node x cx C kx (node s cs B ks A)) ctx).nodes = (plug (node s cs (node x cx C kx B) ks A) ctx).nodes := by
      simp only [nodes_plug, Tree.nodes, List.append_assoc, List.cons_append]
    have haddrs : ∀ a ∈ (plug (node x cx C kx (node s cs B ks A)) ctx).addrs, a < t'.next := by
      intro a ha
      rw [hsame.next]
      apply hlt
      rw [Tree.addrs_eq_nodes] at ha ⊢
      rw [← hnodes]
      exact ha
    refine ⟨t', _, e1, hS'.tree_eq haddrs (by rw [hsame.null, hsame.next]; exact hn), hnodes,
      RBT.rightRotate_payload e1, ?_, ?_, ?_, ?_, ?_, ?_, ?_⟩
    · rw [hSs.parent_eq]
      rfl
    · rw [hS'.right_eq]
      rfl
    · rw [hS'.parent_eq, hS.parent_eq]
    · rw [hSs.left_eq, hSx.right_eq, hsame.null]
    · intro h0
      cases ctx with
      | nil => exact hr2 rfl
      | cons f rest => exact absurd h0.symm hS.focus_ne_root
    · intro h0
      cases ctx with
      | nil => exact absurd (by simpa using hS.root) h0
      | cons f rest => exact hr1 (List.cons_ne_nil _ _)
    · intro p hp
      rw [hS.parent_eq] at hp
      cases ctx with
      | nil => exact absurd (Option.some.inj hp) (by simp)
      | cons f rest =>
        have hp := Option.some.inj (Option.some.inj hp)
        have hsn := hS.focus_ne_null
        cases f with
        | L p' cp kp pr =>
          have hp : p' = p := hp
          subst hp
          have hSp : Shape t (plug (node p' cp (node s cs (node x cx C kx B) ks A) kp pr) rest) := hS
          have hSp' : Shape t' (plug (node p' cp (node x cx C kx (node s cs B ks A)) kp pr) rest) := hS'
          refine ⟨fun _ => by rw [hSp'.left_eq]; rfl, fun h1 => ?_⟩
          rw [hSp.right_eq] at h1
          have hmem : s ∈ (node s cs (node x cx C kx B) ks A).addrs := by simp [Tree.addrs]
          exact absurd (Option.some.inj h1) (ptr_ne_of_not_mem hsn (hSp.sep.2.2.2.1 s hmem))
        | R p' cp pl kp =>
          have hp : p' = p := hp
          subst hp
          have hSp : Shape t (plug (node p' cp pl kp (node s cs (node x cx C kx B) ks A)) rest) := hS
          have hSp' : Shape t' (plug (node p' cp pl kp (node x cx C kx (node s cs B ks A))) rest) := hS'
          refine ⟨fun h1 => ?_, fun _ => by rw [hSp'.right_eq]; rfl⟩
          rw [hSp.left_eq] at h1
          have hmem : s ∈ (node s cs (node x cx C kx B) ks A).addrs := by simp [Tree.addrs]
          exact absurd (Option.some.inj h1)
            (ptr_ne_of_not_mem hsn (fun hm => hSp.sep.2.2.2.1 s hm hmem))

variable [LinearOrder K]

/-- C19: rotations are structural-only and order-preserving.  On every
well-formed tree and for every node `s` of it: when the right child `x` of `s`
is not the sentinel, `leftRotate(s)` returns a state that again holds a tree
with consistent parent links, with the same in-order sequence; every cell
keeps its key, value and colour; `x` is the parent of `s`, with `s` as left
child and the former left subtree of `x` as right subtree of `s`; `x` has the
former parent of `s`, whose link to `s` now designates `x`, and `_root` is `x`
when `s` was the root and unchanged otherwise.  Symmetrically for
`rightRotate(s)` when the left child `x` of `s` is not the sentinel. -/
theorem rotations_structural (t : RBT K V) (h : t.WF) (s x : Nat)
    (hs : ∃ T, t.tree = some T ∧ s ∈ T.addrs) (hx : x ≠ t.null) :
    (t.right (some s) = some (some x) →
      ∃ t', t.leftRotate (some s) = some t' ∧ (∃ T', t'.tree = some T') ∧
        t'.inorder = t.inorder ∧
        (∀ q, (t'.heap q).map (fun n => (n.val, n.color)) =
          (t.heap q).map (fun n => (n.val, n.color))) ∧
        t'.parent (some s) = some (some x) ∧ t'.left (some x) = some (some s) ∧
        t'.parent (some x) = t.parent (some s) ∧ t'.right (some s) = t.left (some x) ∧
        (t.root = some s → t'.root = some x) ∧ (t.root ≠ some s → t'.root = t.root) ∧
        (∀ p, t.parent (some s) = some (some p) →
          (t.left (some p) = some (some s) → t'.left (some p) = some (some x)) ∧
          (t.right (some p) = some (some s) → t'.right (some p) = some (some x)))) ∧
    (t.left (some s) = some (some x) →
      ∃ t', t.rightRotate (some s) = some t' ∧ (∃ T', t'.tree = some T') ∧
        t'.inorder = t.inorder ∧
        (∀ q, (t'.heap q).map (fun n => (n.val, n.color)) =
          (t.heap q).map (fun n => (n.val, n.color))) ∧
        t'.parent (some s) = some (some x) ∧ t'.right (some x) = some (some s) ∧
        t'.parent (some x) = t.parent (some s) ∧ t'.left (some s) = t.right (some x) ∧
        (t.root = some s → t'.root = some x) ∧ (t.root ≠ some s → t'.root = t.root) ∧
        (∀ p, t.parent (some s) = some (some p) →
          (t.left (some p) = some (some s) → t'.left (some p) = some (some x)) ∧
          (t.right (some p) = some (some s) → t'.right (some p) = some (some x)))) := by
  obtain ⟨T, ht, hS, hb, hlt, hn, -⟩ := h.unpack
  obtain ⟨T0, ht0, hs⟩ := hs
  have : T0 = T := Option.some.inj (ht0.symm.trans ht)
  subst this
  constructor
  · intro hr
    obtain ⟨t', T', e1, ht', hnodes, hrest⟩ := leftRotate_structural hS hlt hn hs hr hx
    refine ⟨t', e1, ⟨T', ht'⟩, ?_, hrest⟩
    rw [RBT.inorder_of_tree ht', RBT.inorder_of_tree ht0, Tree.inorder_eq_nodes, hnodes,
      ← Tree.inorder_eq_nodes]
  · intro hr
    obtain ⟨t', T', e1, ht', hnodes, hrest⟩ := rightRotate_structural hS hlt hn hs hr hx
    refine ⟨t', e1, ⟨T', ht'⟩, ?_, hrest⟩
    rw [RBT.inorder_of_tree ht', RBT.inorder_of_tree ht0, Tree.inorder_eq_nodes, hnodes,
      ← Tree.inorder_eq_nodes]

theorem rotations_structural_witness :
    demo.WF ∧ (∃ T, demo.tree = some T ∧ 2 ∈ T.addrs) ∧ 3 ≠ demo.null ∧
      demo.right (some 2) = some (some 3) ∧
      ∃ t', demo.leftRotate (some 2) = some t' ∧ (∃ T', t'.tree = some T') ∧
        t'.inorder = demo.inorder ∧
        (∀ q, (t'.heap q).map (fun n => (n.val, n.color)) =
          (demo.heap q).map (fun n => (n.val, n.color))) ∧
        t'.parent (some 2) = some (some 3) ∧ t'.left (some 3) = some (some 2) ∧
        t'.parent (some 3) = demo.parent (some 2) ∧ t'.right (some 2) = demo.left (some 3) ∧
        (demo.root = some 2 → t'.root = some 3) ∧ (demo.root ≠ some 2 → t'.root = demo.root) ∧
        (∀ p, demo.parent (some 2) = some (some p) →
          (demo.left (some p) = some (some 2) → t'.left (some p) = some (some 3)) ∧
          (demo.right (some p) = some (some 2) → t'.right (some p) = some (some 3))) :=
  ⟨demo_wf, ⟨demoTree, demo_tree, by decide⟩, by decide, rfl,
    (rotations_structural demo demo_wf 2 3 ⟨demoTree, demo_tree, by decide⟩ (by decide)).1 rfl⟩

end FtContainers

namespace FtContainers

open Color Tree

variable {K V : Type} [LinearOrder K]

/-! ## Three keys in ascending order -/

/-- Second insert of the scenario: `b` goes to the right of the root `a`. -/
theorem insert_second_ascending (t : RBT K V) (a b : K) (va vb : V) (hab : a < b)
    (n0 : RBT_Node K V)
    (hr : t.root = some 1) (hnl : t.null = 0) (hnx : t.next = 2) (h0 : t.heap 0 = some n0)
    (h1 : t.heap 1 = some ⟨(a, va), BLACK_NODE, none, some 0, some 0⟩) :
    ∃ t', t.insert (b, vb) = some (t', some 1, true) ∧ t'.root = some 1 ∧ t'.null = 0 ∧
      t'.next = 3 ∧ t'.heap 0 = some n0 ∧
      t'.heap 1 = some ⟨(a, va), BLACK_NODE, none, some 0, some 2⟩ ∧
      t'.heap 2 = some ⟨(b, vb), RED_NODE, some 1, some 0, some 0⟩ := by
  have h1' : ¬ b < a := not_lt_of_gt hab
  simp only [RBT.insert, RBT.allocate, RBT.insertLoop, RBT.key, RBT.parent, RBT.left, RBT.right,
    RBT.color, RBT.setParent, RBT.setLeft, RBT.setRight, RBT.setColor, RBT.modify, RBT.get_some,
    Exec.some_bind, Exec.pure_eq, hr, hnl, hnx, h0, h1, setCell, hab, h1', gt_iff_lt,
    if_pos, if_neg, ite_true, ite_false, ne_eq, Option.some.injEq, not_false_eq_true,
    not_true_eq_false, reduceCtorEq, Nat.reduceEqDiff, OfNat.ofNat_ne_zero, one_ne_zero,
    OfNat.one_ne_ofNat, OfNat.ofNat_ne_one, Nat.reduceAdd, Bool.false_eq_true]
  refine ⟨_, rfl, rfl, rfl, rfl, ?_, ?_, ?_⟩ <;> simp [setCell, h0]

/-- Repair of the scenario: `c` in cell 3 is RED below the RED node `b`, whose
sibling is the sentinel; `fixInsert` recolours and rotates left around `a`. -/
theorem fixInsert_third_ascending (n : Nat) (t : RBT K V) (ka kb kc : K × V)
    (n0 : RBT_Node K V) (hc0 : n0.color = BLACK_NODE)
    (hr : t.root = some 1) (hnl : t.null = 0) (m : Nat) (hnx : t.next = m)
    (h0 : t.heap 0 = some n0)
    (h1 : t.heap 1 = some ⟨ka, BLACK_NODE, none, some 0, some 2⟩)
    (h2 : t.heap 2 = some ⟨kb, RED_NODE, some 1, some 0, some 3⟩)
    (h3 : t.heap 3 = some ⟨kc, RED_NODE, some 2, some 0, some 0⟩) :
    ∃ t', RBT.fixInsert (n + 1 + 1) t (some 3) = some t' ∧ t'.root = some 2 ∧ t'.null = 0 ∧
      t'.next = m ∧ t'.heap 0 = some n0 ∧
      t'.heap 1 = some ⟨ka, RED_NODE, some 2, some 0, some 0⟩ ∧
      t'.heap 2 = some ⟨kb, BLACK_NODE, none, some 1, some 3⟩ ∧
      t'.heap 3 = some ⟨kc, RED_NODE, some 2, some 0, some 0⟩ := by
  simp only [RBT.fixInsert, RBT.fixInsertBody,
    RBT.leftRotate, RBT.key, RBT.parent, RBT.left, RBT.right,
    RBT.color, RBT.setParent, RBT.setLeft, RBT.setRight, RBT.setColor, RBT.modify, RBT.get_some,
    Exec.some_bind, Exec.pure_eq, hr, hnl, h0, h1, h2, h3, hc0, setCell,
    if_pos, if_neg, ite_true, ite_false, ne_eq, Option.some.injEq, not_false_eq_true,
    not_true_eq_false, reduceCtorEq, Nat.reduceEqDiff, OfNat.ofNat_ne_zero, one_ne_zero,
    OfNat.one_ne_ofNat, OfNat.ofNat_ne_one, Bool.false_eq_true]
  refine ⟨_, rfl, rfl, rfl, hnx, ?_, ?_, ?_, ?_⟩ <;> simp [setCell, h0, h3]

theorem Exec.exists_bind_pure {α β : Type} {m : Exec α} {g : α → β} {P : α → Prop}
    (h : ∃ a, m = some a ∧ P a) :
    ∃ a, (@bind Exec _ α β m fun x => some (g x)) = some (g a) ∧ P a := by
  obtain ⟨a, e, hp⟩ := h
  exact ⟨a, by rw [e]; rfl, hp⟩

/-- Third insert of the scenario: `c` goes to the right of `b`. -/
theorem insert_third_ascending (t : RBT K V) (a b c : K) (va vb vc : V) (hab : a < b)
    (hbc : b < c) (n0 : RBT_Node K V) (hc0 : n0.color = BLACK_NODE)
    (hr : t.root = some 1) (hnl : t.null = 0) (hnx : t.next = 3) (h0 : t.heap 0 = some n0)
    (h1 : t.heap 1 = some ⟨(a, va), BLACK_NODE, none, some 0, some 2⟩)
    (h2 : t.heap 2 = some ⟨(b, vb), RED_NODE, some 1, some 0, some 0⟩) :
    ∃ t', t.insert (c, vc) = some (t', some 2, true) ∧ t'.root = some 2 ∧ t'.null = 0 ∧
      t'.next = 4 ∧ t'.heap 0 = some n0 ∧
      t'.heap 1 = some ⟨(a, va), RED_NODE, some 2, some 0, some 0⟩ ∧
      t'.heap 2 = some ⟨(b, vb), BLACK_NODE, none, some 1, some 3⟩ ∧
      t'.heap 3 = some ⟨(c, vc), RED_NODE, some 2, some 0, some 0⟩ := by
  have hac := lt_trans hab hbc
  have h1' : ¬ c < a := not_lt_of_gt hac
  have h2' : ¬ c < b := not_lt_of_gt hbc
  simp only [RBT.insert, RBT.allocate, RBT.insertLoop, RBT.key, RBT.parent, RBT.left, RBT.right,
    RBT.color, RBT.setParent, RBT.setLeft, RBT.setRight, RBT.setColor, RBT.modify, RBT.get_some,
    Exec.some_bind, Exec.pure_eq, hr, hnl, hnx, h0, h1, h2, hc0, setCell, hac, hbc, h1', h2',
    gt_iff_lt,
    if_pos, if_neg, ite_true, ite_false, ne_eq, Option.some.injEq, not_false_eq_true,
    not_true_eq_false, reduceCtorEq, Nat.reduceEqDiff, OfNat.ofNat_ne_zero, one_ne_zero,
    OfNat.one_ne_ofNat, OfNat.ofNat_ne_one, Nat.reduceAdd, Bool.false_eq_true]
  apply Exec.exists_bind_pure
  refine fixInsert_third_ascending 2 _ (a, va) (b, vb) (c, vc) n0 hc0 rfl rfl 4 rfl ?_ ?_ ?_ ?_ <;>
    simp [setCell, h0, h1]

/-- C11: for every three keys `a < b < c` inserted in ascending order into the
freshly constructed tree, every insert returns and the resulting tree has the
node of `b` as root, BLACK, with the node of `a` as left child and the node of
`c` as right child, both RED and with the sentinel as both children; its
in-order sequence is `a, b, c`. -/
theorem insert_three_ascending [Inhabited K] [Inhabited V] (a b c : K) (va vb vc : V)
    (hab : a < b) (hbc : b < c) :
    ∃ t, (RBT.new : RBT K V).insertAll [(a, va), (b, vb), (c, vc)] = some t ∧
      t.tree = some (node 2 BLACK_NODE (node 1 RED_NODE nil (a, va) nil) (b, vb)
        (node 3 RED_NODE nil (c, vc) nil)) ∧
      t.inorder = [(a, va), (b, vb), (c, vc)] ∧
      t.root = some 2 ∧ t.key (some 2) = some b ∧ t.color (some 2) = some BLACK_NODE ∧
      t.left (some 2) = some (some 1) ∧ t.right (some 2) = some (some 3) ∧
      t.key (some 1) = some a ∧ t.color (some 1) = some RED_NODE ∧
      t.left (some 1) = some (some t.null) ∧ t.right (some 1) = some (some t.null) ∧
      t.key (some 3) = some c ∧ t.color (some 3) = some RED_NODE ∧
      t.left (some 3) = some (some t.null) ∧ t.right (some 3) = some (some t.null) := by
  obtain ⟨t1, e1, r1, l1, x1, c0, c1⟩ : ∃ t1, (RBT.new : RBT K V).insert (a, va) =
      some (t1, none, true) ∧ t1.root = some 1 ∧ t1.null = 0 ∧ t1.next = 2 ∧
      t1.heap 0 = some ⟨default, BLACK_NODE, none, none, none⟩ ∧
      t1.heap 1 = some ⟨(a, va), BLACK_NODE, none, some 0, some 0⟩ :=
    ⟨_, rfl, rfl, rfl, rfl, rfl, rfl⟩
  obtain ⟨t2, e2, r2, l2, x2, d0, d1, d2⟩ :=
    insert_second_ascending t1 a b va vb hab _ r1 l1 x1 c0 c1
  obtain ⟨t3, e3, r3, l3, x3, f0, f1, f2, f3⟩ :=
    insert_third_ascending t2 a b c va vb vc hab hbc _ rfl r2 l2 x2 d0 d1 d2
  have ht : t3.tree = some (node 2 BLACK_NODE (node 1 RED_NODE nil (a, va) nil) (b, vb)
      (node 3 RED_NODE nil (c, vc) nil)) := by
    simp [RBT.tree, toTree, r3, l3, x3, f1, f2, f3]
  refine ⟨t3, ?_, ht, ?_, r3, ?_⟩
  · simp only [RBT.insertAll, e1, e2, e3, Exec.some_bind, Exec.pure_eq]
  · rw [RBT.inorder_of_tree ht]
    rfl
  · simp [RBT.key, RBT.color, RBT.left, RBT.right, RBT.get_some, f1, f2, f3, l3]

theorem insert_three_ascending_witness :
    (10 : Nat) < 20 ∧ (20 : Nat) < 30 ∧
      ∃ t, (RBT.new : RBT Nat Nat).insertAll [(10, 0), (20, 0), (30, 0)] = some t ∧
        t.tree = some (node 2 BLACK_NODE (node 1 RED_NODE nil (10, 0) nil) (20, 0)
          (node 3 RED_NODE nil (30, 0) nil)) ∧
        t.inorder = [(10, 0), (20, 0), (30, 0)] ∧
        t.root = some 2 ∧ t.key (some 2) = some 20 ∧ t.color (some 2) = some BLACK_NODE ∧
        t.left (some 2) = some (some 1) ∧ t.right (some 2) = some (some 3) ∧
        t.key (some 1) = some 10 ∧ t.color (some 1) = some RED_NODE ∧
        t.left (some 1) = some (some t.null) ∧ t.right (some 1) = some (some t.null) ∧
        t.key (some 3) = some 30 ∧ t.color (some 3) = some RED_NODE ∧
        t.left (some 3) = some (some t.null) ∧ t.right (some 3) = some (some t.null) :=
  ⟨by decide, by decide, insert_three_ascending 10 20 30 0 0 0 (by decide) (by decide)⟩

end FtContainers

namespace FtContainers

open Color Tree

variable {K V : Type}

/-! ## One iteration of `fixDelete` -/

/-- The parent link read through the cursor, which may be the sentinel, after
a step that leaves the sentinel cell alone. -/
theorem cursor_parent {t t' : RBT K V} {X : Tree K V} {ctx' : List (Frame K V)} {q : Ptr}
    (hM : Same t t') (hS' : Shape t' (plug X ctx')) (hq : ctxPar ctx' = q)
    (hxp : t.parent (X.ptr t.null) = some q) : t'.parent (X.ptr t.null) = some q := by
  cases X with
  | nil => exact (RBT.parent_congr hM.cell).trans hxp
  | node a c l kv r =>
    rw [Tree.ptr_node, hS'.parent_eq, hq]

/-- Cursor on the left, BLACK sibling: the `if (s->color == RED_NODE)` block
is skipped. -/
theorem fixDeleteBody_L_black {t : RBT K V} {X sl sr : Tree K V} {p s : Nat} {cp : Color}
    {kp ks : K × V} {rest : List (Frame K V)}
    (hS : Shape t (plug X (Frame.L p cp kp (node s BLACK_NODE sl ks sr) :: rest)))
    (hxp : t.parent (X.ptr t.null) = some (some p)) :
    t.fixDeleteBody (X.ptr t.null) = t.fixDeleteLeft (X.ptr t.null) (some s) := by
  have hP : Shape t (plug (node p cp X kp (node s BLACK_NODE sl ks sr)) rest) := hS
  have hSs : Shape t (plug (node s BLACK_NODE sl ks sr) (Frame.R p cp X kp :: rest)) := hS
  have h1 := hP.left_eq
  have h2 := hP.right_eq
  have h3 := hSs.color_eq
  simp only [Tree.ptr_node] at h1 h2
  rw [fixDeleteBody_eq]
  simp only [hxp, h1, h2, h3, Exec.some_bind, Exec.pure_eq, if_true, if_false, reduceCtorEq]

/-- Cursor on the left, RED sibling: the sibling is coloured BLACK, the parent
RED, and `leftRotate(x->parent)` makes the near child of the sibling the new
sibling. -/
theorem fixDeleteBody_L_red {t : RBT K V} {X sl sr : Tree K V} {p s : Nat} {cp : Color}
    {kp ks : K × V} {rest : List (Frame K V)}
    (hS : Shape t (plug X (Frame.L p cp kp (node s RED_NODE sl ks sr) :: rest)))
    (hxp : t.parent (X.ptr t.null) = some (some p)) :
    ∃ t', t.fixDeleteBody (X.ptr t.null) = t'.fixDeleteLeft (X.ptr t.null) (sl.ptr t.null) ∧
      Shape t' (plug X (Frame.L p RED_NODE kp sl ::
        Frame.L s BLACK_NODE ks sr :: rest)) ∧ Same t t' := by
  have hP : Shape t (plug (node p cp X kp (node s RED_NODE sl ks sr)) rest) := hS
  have hSs : Shape t (plug (node s RED_NODE sl ks sr) (Frame.R p cp X kp :: rest)) := hS
  have h1 := hP.left_eq
  have h2 := hP.right_eq
  have h3 := hSs.color_eq
  simp only [Tree.ptr_node] at h1 h2
  obtain ⟨t1, e1, S1, M1, -⟩ := hSs.setColor BLACK_NODE
  have x1 := cursor_parent M1 (show Shape t1 (plug X (Frame.L p cp kp (node s BLACK_NODE sl ks sr) :: rest))
    from S1) rfl hxp
  obtain ⟨t2, e2, S2, M2, -⟩ := S1.setColor_frame RED_NODE
  have M12 := M1.trans M2
  have x2 := cursor_parent M12 (show Shape t2 (plug X
    (Frame.L p RED_NODE kp (node s BLACK_NODE sl ks sr) :: rest)) from S2) rfl hxp
  have S2p : Shape t2 (plug (node p RED_NODE X kp (node s BLACK_NODE sl ks sr)) rest) := S2
  obtain ⟨t3, e3, S3, M3, -⟩ := S2p.leftRotate
  have M13 := M12.trans M3
  have S3x : Shape t3 (plug X (Frame.L p RED_NODE kp sl ::
      Frame.L s BLACK_NODE ks sr :: rest)) := S3
  have x3 := cursor_parent M13 S3x rfl hxp
  have S3p : Shape t3 (plug (node p RED_NODE X kp sl)
      (Frame.L s BLACK_NODE ks sr :: rest)) := S3
  have h4 := S3p.right_eq
  simp only [Frame.addr_L, Frame.addr_R, Frame.recolor, ctxPar_cons] at e2 x1 x2 x3
  refine ⟨t3, ?_, S3x, M13⟩
  rw [fixDeleteBody_eq]
  simp only [hxp, h1, h2, h3, e1, e2, e3, x1, x2, x3, h4, M13.null, Exec.some_bind,
    Exec.pure_eq, if_true, if_false, reduceCtorEq]

/-- Cursor on the left, BLACK sibling with two BLACK children: the sibling is
coloured RED and the cursor moves to the parent. -/
theorem fixDeleteLeft_case2 {t : RBT K V} {X sl sr : Tree K V} {p s : Nat} {cp : Color}
    {kp ks : K × V} {rest : List (Frame K V)}
    (hS : Shape t (plug X (Frame.L p cp kp (node s BLACK_NODE sl ks sr) :: rest)))
    (hs : t.sentinelBlack)
    (hxp : t.parent (X.ptr t.null) = some (some p))
    (hsl : sl.rootColor = BLACK_NODE) (hsr : sr.rootColor = BLACK_NODE) :
    ∃ t', t.fixDeleteLeft (X.ptr t.null) (some s) = some (t', some p) ∧
      Shape t' (plug X (Frame.L p cp kp (node s RED_NODE sl ks sr) :: rest)) ∧ Same t t' := by
  have hSs : Shape t (plug (node s BLACK_NODE sl ks sr) (Frame.R p cp X kp :: rest)) := hS
  have hl : Shape t (plug sl (Frame.L s BLACK_NODE ks sr ::
      Frame.R p cp X kp :: rest)) := hS
  have hr : Shape t (plug sr (Frame.R s BLACK_NODE sl ks ::
      Frame.R p cp X kp :: rest)) := hS
  have h1 := hSs.left_eq
  have h2 := hSs.right_eq
  have h3 := hl.color_ptr hs
  have h4 := hr.color_ptr hs
  obtain ⟨t1, e1, S1, M1, -⟩ := hSs.setColor RED_NODE
  have x1 := cursor_parent M1 (show Shape t1 (plug X (Frame.L p cp kp (node s RED_NODE sl ks sr) :: rest))
    from S1) rfl hxp
  simp only [Frame.addr_L, Frame.addr_R, ctxPar_cons] at x1
  refine ⟨t1, ?_, S1, M1⟩
  simp only [RBT.fixDeleteLeft, h1, h2, h3, h4, hsl, hsr, e1, x1, Exec.some_bind,
    Exec.pure_eq, if_true, if_false, reduceCtorEq, decide_True]

/-- Cursor on the left, BLACK sibling whose far child is RED: the sibling takes
the colour of the parent, parent and far child become BLACK, and
`leftRotate(x->parent)` ends the loop with the cursor at the root. -/
theorem fixDeleteLeft_case4 {t : RBT K V} {X sl rl rr : Tree K V} {p s r : Nat}
    {cp : Color} {kp ks kr : K × V} {rest : List (Frame K V)}
    (hS : Shape t (plug X (Frame.L p cp kp (node s BLACK_NODE sl ks (node r RED_NODE rl kr rr)) :: rest)))
    (hs : t.sentinelBlack)
    (hxp : t.parent (X.ptr t.null) = some (some p)) :
    ∃ t', t.fixDeleteLeft (X.ptr t.null) (some s) = some (t', t'.root) ∧
      Shape t' (plug (node s cp (node p BLACK_NODE X kp sl) ks (node r BLACK_NODE rl kr rr)) rest) ∧
      Same t t' := by
  have hSs : Shape t (plug (node s BLACK_NODE sl ks (node r RED_NODE rl kr rr))
      (Frame.R p cp X kp :: rest)) := hS
  have hl : Shape t (plug sl (Frame.L s BLACK_NODE ks (node r RED_NODE rl kr rr) ::
      Frame.R p cp X kp :: rest)) := hS
  have hr : Shape t (plug (node r RED_NODE rl kr rr) (Frame.R s BLACK_NODE sl ks ::
      Frame.R p cp X kp :: rest)) := hS
  have h1 := hSs.left_eq
  have h2 := hSs.right_eq
  have h3 := hl.color_ptr hs
  have h4 := hr.color_eq
  have h5 : t.color (some p) = some cp := hSs.frame_color
  obtain ⟨t1, e1, S1, M1, -⟩ := hSs.setColor cp
  have x1 := cursor_parent M1 (show Shape t1 (plug X
    (Frame.L p cp kp (node s cp sl ks (node r RED_NODE rl kr rr)) :: rest)) from S1) rfl hxp
  obtain ⟨t2, e2, S2, M2, -⟩ := S1.setColor_frame BLACK_NODE
  have M12 := M1.trans M2
  have x2 := cursor_parent M12 (show Shape t2 (plug X
    (Frame.L p BLACK_NODE kp (node s cp sl ks (node r RED_NODE rl kr rr)) :: rest))
    from S2) rfl hxp
  have S2s : Shape t2 (plug (node s cp sl ks (node r RED_NODE rl kr rr))
      (Frame.R p BLACK_NODE X kp :: rest)) := S2
  have h6 := S2s.right_eq
  have S2r : Shape t2 (plug (node r RED_NODE rl kr rr) (Frame.R s cp sl ks ::
      Frame.R p BLACK_NODE X kp :: rest)) := S2
  obtain ⟨t3, e3, S3, M3, -⟩ := S2r.setColor BLACK_NODE
  have M13 := M12.trans M3
  have x3 := cursor_parent M13 (show Shape t3 (plug X
    (Frame.L p BLACK_NODE kp (node s cp sl ks (node r BLACK_NODE rl kr rr)) :: rest))
    from S3) rfl hxp
  have S3p : Shape t3 (plug (node p BLACK_NODE X kp (node s cp sl ks (node r BLACK_NODE rl kr rr)))
      rest) := S3
  obtain ⟨t4, e4, S4, M4, -⟩ := S3p.leftRotate
  simp only [Frame.addr_L, Frame.addr_R, Frame.recolor, ctxPar_cons, Tree.ptr_node] at e2 x1 x2 x3 h1 h2 h4 h6
  refine ⟨t4, ?_, S4, M13.trans M4⟩
  cases hc : sl.rootColor <;>
  simp only [RBT.fixDeleteLeft, hxp, h1, h2, h3, h4, h5, h6, hc, e1, e2, e3, e4, x1, x2, x3,
    Exec.some_bind, Exec.pure_eq, if_true, if_false, reduceCtorEq, decide_False,
    Bool.false_eq_true, Tree.ptr_node]

/-- Cursor on the left, BLACK sibling whose far child is BLACK and near child
RED: the near child is coloured BLACK, the sibling RED, `rightRotate(s)` makes the
near child the new sibling with a RED far child, and the iteration ends as in
the previous case. -/
theorem fixDeleteLeft_case3 {t : RBT K V} {X sr ll lr : Tree K V} {p s l : Nat}
    {cp : Color} {kp ks kl : K × V} {rest : List (Frame K V)}
    (hS : Shape t (plug X (Frame.L p cp kp (node s BLACK_NODE (node l RED_NODE ll kl lr) ks sr) :: rest)))
    (hs : t.sentinelBlack)
    (hxp : t.parent (X.ptr t.null) = some (some p))
    (hsr : sr.rootColor = BLACK_NODE) :
    ∃ t', t.fixDeleteLeft (X.ptr t.null) (some s) = some (t', t'.root) ∧
      Shape t' (plug (node l cp (node p BLACK_NODE X kp ll) kl (node s BLACK_NODE lr ks sr)) rest) ∧
      Same t t' := by
  have hSs : Shape t (plug (node s BLACK_NODE (node l RED_NODE ll kl lr) ks sr)
      (Frame.R p cp X kp :: rest)) := hS
  have hl : Shape t (plug (node l RED_NODE ll kl lr) (Frame.L s BLACK_NODE ks sr ::
      Frame.R p cp X kp :: rest)) := hS
  have hr : Shape t (plug sr (Frame.R s BLACK_NODE (node l RED_NODE ll kl lr) ks ::
      Frame.R p cp X kp :: rest)) := hS
  have h1 := hSs.left_eq
  have h2 := hSs.right_eq
  have h3 := hl.color_eq
  have h4 := hr.color_ptr hs
  have h5 : t.color (some p) = some cp := hSs.frame_color
  obtain ⟨t1, e1, S1, M1, -⟩ := hl.setColor BLACK_NODE
  obtain ⟨t2, e2, S2, M2, -⟩ := (show Shape t1 (plug (node s BLACK_NODE (node l BLACK_NODE ll kl lr) ks sr)
      (Frame.R p cp X kp :: rest)) from S1).setColor RED_NODE
  obtain ⟨t3, e3, S3, M3, -⟩ := S2.rightRotate
  have M13 := (M1.trans M2).trans M3
  have S3x : Shape t3 (plug X
    (Frame.L p cp kp (node l BLACK_NODE ll kl (node s RED_NODE lr ks sr)) :: rest)) := S3
  have x3 := cursor_parent M13 S3x rfl hxp
  have S3p : Shape t3 (plug (node p cp X kp (node l BLACK_NODE ll kl (node s RED_NODE lr ks sr)))
      rest) := S3
  have h6 := S3p.right_eq
  have h7 := S3p.color_eq
  have S3l : Shape t3 (plug (node l BLACK_NODE ll kl (node s RED_NODE lr ks sr))
      (Frame.R p cp X kp :: rest)) := S3
  obtain ⟨t4, e4, S4, M4, -⟩ := S3l.setColor cp
  have M14 := M13.trans M4
  have x4 := cursor_parent M14 (show Shape t4 (plug X
    (Frame.L p cp kp (node l cp ll kl (node s RED_NODE lr ks sr)) :: rest)) from S4) rfl hxp
  obtain ⟨t5, e5, S5, M5, -⟩ := S4.setColor_frame BLACK_NODE
  have M15 := M14.trans M5
  have x5 := cursor_parent M15 (show Shape t5 (plug X
    (Frame.L p BLACK_NODE kp (node l cp ll kl (node s RED_NODE lr ks sr)) :: rest))
    from S5) rfl hxp
  have S5l : Shape t5 (plug (node l cp ll kl (node s RED_NODE lr ks sr))
      (Frame.R p BLACK_NODE X kp :: rest)) := S5
  have h8 := S5l.right_eq
  have S5s : Shape t5 (plug (node s RED_NODE lr ks sr) (Frame.R l cp ll kl ::
      Frame.R p BLACK_NODE X kp :: rest)) := S5
  obtain ⟨t6, e6, S6, M6, -⟩ := S5s.setColor BLACK_NODE
  have M16 := M15.trans M6
  have x6 := cursor_parent M16 (show Shape t6 (plug X
    (Frame.L p BLACK_NODE kp (node l cp ll kl (node s BLACK_NODE lr ks sr)) :: rest))
    from S6) rfl hxp
  have S6p : Shape t6 (plug (node p BLACK_NODE X kp (node l cp ll kl (node s BLACK_NODE lr ks sr)))
      rest) := S6
  obtain ⟨t7, e7, S7, M7, -⟩ := S6p.leftRotate
  simp only [Frame.addr_L, Frame.addr_R, Frame.recolor, ctxPar_cons, Tree.ptr_node] at e5 x3 x4 x5 x6 h1 h2 h3 h6 h8
  refine ⟨t7, ?_, S7, M16.trans M7⟩
  simp only [RBT.fixDeleteLeft, hxp, h1, h2, h3, h4, h5, h6, h7, h8, hsr, e1, e2, e3, e4, e5, e6, e7,
    x3, x4, x5, x6, Exec.some_bind, Exec.pure_eq, if_true, if_false, reduceCtorEq, decide_False,
    Bool.false_eq_true, Tree.ptr_node]

/-- Cursor on the right, BLACK sibling: the `if (s->color == RED_NODE)` block
is skipped. -/
theorem fixDeleteBody_R_black {t : RBT K V} {X sl sr : Tree K V} {p s : Nat} {cp : Color}
    {kp ks : K × V} {rest : List (Frame K V)}
    (hS : Shape t (plug X (Frame.R p cp (node s BLACK_NODE sr ks sl) kp :: rest)))
    (hxp : t.parent (X.ptr t.null) = some (some p)) :
    t.fixDeleteBody (X.ptr t.null) = t.fixDeleteRight (X.ptr t.null) (some s) := by
  have hP : Shape t (plug (node p cp (node s BLACK_NODE sr ks sl) kp X) rest) := hS
  have hSs : Shape t (plug (node s BLACK_NODE sr ks sl) (Frame.L p cp kp X :: rest)) := hS
  have h1 := hP.left_eq
  have h2 := hP.right_eq
  have h3 := hSs.color_eq
  have hne : ¬ (X.ptr t.null = some s) := by
    have hsn : s ≠ t.null := hSs.focus_ne_null
    exact ptr_ne_of_not_mem hsn (fun hm => hP.sep.2.2.2.1 s (by simp [Tree.addrs]) hm)
  simp only [Tree.ptr_node] at h1 h2
  rw [fixDeleteBody_eq]
  simp only [hxp, h1, h2, h3, hne, Exec.some_bind, Exec.pure_eq, if_true, if_false, reduceCtorEq]

/-- Cursor on the right, RED sibling: the sibling is coloured BLACK, the parent
RED, and `rightRotate(x->parent)` makes the near child of the sibling the new
sibling. -/
theorem fixDeleteBody_R_red {t : RBT K V} {X sl sr : Tree K V} {p s : Nat} {cp : Color}
    {kp ks : K × V} {rest : List (Frame K V)}
    (hS : Shape t (plug X (Frame.R p cp (node s RED_NODE sr ks sl) kp :: rest)))
    (hxp : t.parent (X.ptr t.null) = some (some p)) :
    ∃ t', t.fixDeleteBody (X.ptr t.null) = t'.fixDeleteRight (X.ptr t.null) (sl.ptr t.null) ∧
      Shape t' (plug X (Frame.R p RED_NODE sl kp ::
        Frame.R s BLACK_NODE sr ks :: rest)) ∧ Same t t' := by
  have hP : Shape t (plug (node p cp (node s RED_NODE sr ks sl) kp X) rest) := hS
  have hSs : Shape t (plug (node s RED_NODE sr ks sl) (Frame.L p cp kp X :: rest)) := hS
  have h1 := hP.left_eq
  have h2 := hP.right_eq
  have h3 := hSs.color_eq
  have hne : ¬ (X.ptr t.null = some s) := by
    have hsn : s ≠ t.null := hSs.focus_ne_null
    exact ptr_ne_of_not_mem hsn (fun hm => hP.sep.2.2.2.1 s (by simp [Tree.addrs]) hm)
  simp only [Tree.ptr_node] at h1 h2
  obtain ⟨t1, e1, S1, M1, -⟩ := hSs.setColor BLACK_NODE
  have x1 := cursor_parent M1 (show Shape t1 (plug X (Frame.R p cp (node s BLACK_NODE sr ks sl) kp :: rest))
    from S1) rfl hxp
  obtain ⟨t2, e2, S2, M2, -⟩ := S1.setColor_frame RED_NODE
  have M12 := M1.trans M2
  have x2 := cursor_parent M12 (show Shape t2 (plug X
    (Frame.R p RED_NODE (node s BLACK_NODE sr ks sl) kp :: rest)) from S2) rfl hxp
  have S2p : Shape t2 (plug (node p RED_NODE (node s BLACK_NODE sr ks sl) kp X) rest) := S2
  obtain ⟨t3, e3, S3, M3, -⟩ := S2p.rightRotate
  have M13 := M12.trans M3
  have S3x : Shape t3 (plug X (Frame.R p RED_NODE sl kp ::
      Frame.R s BLACK_NODE sr ks :: rest)) := S3
  have x3 := cursor_parent M13 S3x rfl hxp
  have S3p : Shape t3 (plug (node p RED_NODE sl kp X)
      (Frame.R s BLACK_NODE sr ks :: rest)) := S3
  have h4 := S3p.left_eq
  simp only [Frame.addr_L, Frame.addr_R, Frame.recolor, ctxPar_cons] at e2 x1 x2 x3
  refine ⟨t3, ?_, S3x, M13⟩
  rw [fixDeleteBody_eq]
  simp only [hxp, h1, h2, h3, hne, e1, e2, e3, x1, x2, x3, h4, M13.null, Exec.some_bind,
    Exec.pure_eq, if_true, if_false, reduceCtorEq]

/-- Cursor on the right, BLACK sibling with two BLACK children: the sibling is
coloured RED and the cursor moves to the parent. -/
theorem fixDeleteRight_case2 {t : RBT K V} {X sl sr : Tree K V} {p s : Nat} {cp : Color}
    {kp ks : K × V} {rest : List (Frame K V)}
    (hS : Shape t (plug X (Frame.R p cp (node s BLACK_NODE sr ks sl) kp :: rest)))
    (hs : t.sentinelBlack)
    (hxp : t.parent (X.ptr t.null) = some (some p))
    (hsl : sl.rootColor = BLACK_NODE) (hsr : sr.rootColor = BLACK_NODE) :
    ∃ t', t.fixDeleteRight (X.ptr t.null) (some s) = some (t', some p) ∧
      Shape t' (plug X (Frame.R p cp (node s RED_NODE sr ks sl) kp :: rest)) ∧ Same t t' := by
  have hSs : Shape t (plug (node s BLACK_NODE sr ks sl) (Frame.L p cp kp X :: rest)) := hS
  have hl : Shape t (plug sl (Frame.R s BLACK_NODE sr ks ::
      Frame.L p cp kp X :: rest)) := hS
  have hr : Shape t (plug sr (Frame.L s BLACK_NODE ks sl ::
      Frame.L p cp kp X :: rest)) := hS
  have h1 := hSs.left_eq
  have h2 := hSs.right_eq
  have h3 := hl.color_ptr hs
  have h4 := hr.color_ptr hs
  obtain ⟨t1, e1, S1, M1, -⟩ := hSs.setColor RED_NODE
  have x1 := cursor_parent M1 (show Shape t1 (plug X (Frame.R p cp (node s RED_NODE sr ks sl) kp :: rest))
    from S1) rfl hxp
  simp only [Frame.addr_L, Frame.addr_R, ctxPar_cons] at x1
  refine ⟨t1, ?_, S1, M1⟩
  simp only [RBT.fixDeleteRight, h1, h2, h3, h4, hsl, hsr, e1, x1, Exec.some_bind,
    Exec.pure_eq, if_true, if_false, reduceCtorEq, decide_True]

/-- Cursor on the right, BLACK sibling whose far child is RED: the sibling takes
the colour of the parent, parent and far child become BLACK, and
`rightRotate(x->parent)` ends the loop with the cursor at the root. -/
theorem fixDeleteRight_case4 {t : RBT K V} {X sl rl rr : Tree K V} {p s r : Nat}
    {cp : Color} {kp ks kr : K × V} {rest : List (Frame K V)}
    (hS : Shape t (plug X (Frame.R p cp (node s BLACK_NODE (node r RED_NODE rr kr rl) ks sl) kp :: rest)))
    (hs : t.sentinelBlack)
    (hxp : t.parent (X.ptr t.null) = some (some p)) :
    ∃ t', t.fixDeleteRight (X.ptr t.null) (some s) = some (t', t'.root) ∧
      Shape t' (plug (node s cp (node r BLACK_NODE rr kr rl) ks (node p BLACK_NODE sl kp X)) rest) ∧
      Same t t' := by
  have hSs : Shape t (plug (node s BLACK_NODE (node r RED_NODE rr kr rl) ks sl)
      (Frame.L p cp kp X :: rest)) := hS
  have hl : Shape t (plug sl (Frame.R s BLACK_NODE (node r RED_NODE rr kr rl) ks ::
      Frame.L p cp kp X :: rest)) := hS
  have hr : Shape t (plug (node r RED_NODE rr kr rl) (Frame.L s BLACK_NODE ks sl ::
      Frame.L p cp kp X :: rest)) := hS
  have h1 := hSs.left_eq
  have h2 := hSs.right_eq
  have h3 := hl.color_ptr hs
  have h4 := hr.color_eq
  have h5 : t.color (some p) = some cp := hSs.frame_color
  obtain ⟨t1, e1, S1, M1, -⟩ := hSs.setColor cp
  have x1 := cursor_parent M1 (show Shape t1 (plug X
    (Frame.R p cp (node s cp (node r RED_NODE rr kr rl) ks sl) kp :: rest)) from S1) rfl hxp
  obtain ⟨t2, e2, S2, M2, -⟩ := S1.setColor_frame BLACK_NODE
  have M12 := M1.trans M2
  have x2 := cursor_parent M12 (show Shape t2 (plug X
    (Frame.R p BLACK_NODE (node s cp (node r RED_NODE rr kr rl) ks sl) kp :: rest))
    from S2) rfl hxp
  have S2s : Shape t2 (plug (node s cp (node r RED_NODE rr kr rl) ks sl)
      (Frame.L p BLACK_NODE kp X :: rest)) := S2
  have h6 := S2s.left_eq
  have S2r : Shape t2 (plug (node r RED_NODE rr kr rl) (Frame.L s cp ks sl ::
      Frame.L p BLACK_NODE kp X :: rest)) := S2
  obtain ⟨t3, e3, S3, M3, -⟩ := S2r.setColor BLACK_NODE
  have M13 := M12.trans M3
  have x3 := cursor_parent M13 (show Shape t3 (plug X
    (Frame.R p BLACK_NODE (node s cp (node r BLACK_NODE rr kr rl) ks sl) kp :: rest))
    from S3) rfl hxp
  have S3p : Shape t3 (plug (node p BLACK_NODE (node s cp (node r BLACK_NODE rr kr rl) ks sl) kp X)
      rest) := S3
  obtain ⟨t4, e4, S4, M4, -⟩ := S3p.rightRotate
  simp only [Frame.addr_L, Frame.addr_R, Frame.recolor, ctxPar_cons, Tree.ptr_node] at e2 x1 x2 x3 h1 h2 h4 h6
  refine ⟨t4, ?_, S4, M13.trans M4⟩
  cases hc : sl.rootColor <;>
  simp only [RBT.fixDeleteRight, hxp, h1, h2, h3, h4, h5, h6, hc, e1, e2, e3, e4, x1, x2, x3,
    Exec.some_bind, Exec.pure_eq, if_true, if_false, reduceCtorEq, decide_False,
    Bool.false_eq_true, Tree.ptr_node]

/-- Cursor on the right, BLACK sibling whose far child is BLACK and near child
RED: the near child is coloured BLACK, the sibling RED, `leftRotate(s)` makes the
near child the new sibling with a RED far child, and the iteration ends as in
the previous case. -/
theorem fixDeleteRight_case3 {t : RBT K V} {X sr ll lr : Tree K V} {p s l : Nat}
    {cp : Color} {kp ks kl : K × V} {rest : List (Frame K V)}
    (hS : Shape t (plug X (Frame.R p cp (node s BLACK_NODE sr ks (node l RED_NODE lr kl ll)) kp :: rest)))
    (hs : t.sentinelBlack)
    (hxp : t.parent (X.ptr t.null) = some (some p))
    (hsr : sr.rootColor = BLACK_NODE) :
    ∃ t', t.fixDeleteRight (X.ptr t.null) (some s) = some (t', t'.root) ∧
      Shape t' (plug (node l cp (node s BLACK_NODE sr ks lr) kl (node p BLACK_NODE ll kp X)) rest) ∧
      Same t t' := by
  have hSs : Shape t (plug (node s BLACK_NODE sr ks (node l RED_NODE lr kl ll))
      (Frame.L p cp kp X :: rest)) := hS
  have hl : Shape t (plug (node l RED_NODE lr kl ll) (Frame.R s BLACK_NODE sr ks ::
      Frame.L p cp kp X :: rest)) := hS
  have hr : Shape t (plug sr (Frame.L s BLACK_NODE ks (node l RED_NODE lr kl ll) ::
      Frame.L p cp kp X :: rest)) := hS
  have h1 := hSs.left_eq
  have h2 := hSs.right_eq
  have h3 := hl.color_eq
  have h4 := hr.color_ptr hs
  have h5 : t.color (some p) = some cp := hSs.frame_color
  obtain ⟨t1, e1, S1, M1, -⟩ := hl.setColor BLACK_NODE
  obtain ⟨t2, e2, S2, M2, -⟩ := (show Shape t1 (plug (node s BLACK_NODE sr ks (node l BLACK_NODE lr kl ll))
      (Frame.L p cp kp X :: rest)) from S1).setColor RED_NODE
  obtain ⟨t3, e3, S3, M3, -⟩ := S2.leftRotate
  have M13 := (M1.trans M2).trans M3
  have S3x : Shape t3 (plug X
    (Frame.R p cp (node l BLACK_NODE (node s RED_NODE sr ks lr) kl ll) kp :: rest)) := S3
  have x3 := cursor_parent M13 S3x rfl hxp
  have S3p : Shape t3 (plug (node p cp (node l BLACK_NODE (node s RED_NODE sr ks lr) kl ll) kp X)
      rest) := S3
  have h6 := S3p.left_eq
  have h7 := S3p.color_eq
  have S3l : Shape t3 (plug (node l BLACK_NODE (node s RED_NODE sr ks lr) kl ll)
      (Frame.L p cp kp X :: rest)) := S3
  obtain ⟨t4, e4, S4, M4, -⟩ := S3l.setColor cp
  have M14 := M13.trans M4
  have x4 := cursor_parent M14 (show Shape t4 (plug X
    (Frame.R p cp (node l cp (node s RED_NODE sr ks lr) kl ll) kp :: rest)) from S4) rfl hxp
  obtain ⟨t5, e5, S5, M5, -⟩ := S4.setColor_frame BLACK_NODE
  have M15 := M14.trans M5
  have x5 := cursor_parent M15 (show Shape t5 (plug X
    (Frame.R p BLACK_NODE (node l cp (node s RED_NODE sr ks lr) kl ll) kp :: rest))
    from S5) rfl hxp
  have S5l : Shape t5 (plug (node l cp (node s RED_NODE sr ks lr) kl ll)
      (Frame.L p BLACK_NODE kp X :: rest)) := S5
  have h8 := S5l.left_eq
  have S5s : Shape t5 (plug (node s RED_NODE sr ks lr) (Frame.L l cp kl ll ::
      Frame.L p BLACK_NODE kp X :: rest)) := S5
  obtain ⟨t6, e6, S6, M6, -⟩ := S5s.setColor BLACK_NODE
  have M16 := M15.trans M6
  have x6 := cursor_parent M16 (show Shape t6 (plug X
    (Frame.R p BLACK_NODE (node l cp (node s BLACK_NODE sr ks lr) kl ll) kp :: rest))
    from S6) rfl hxp
  have S6p : Shape t6 (plug (node p BLACK_NODE (node l cp (node s BLACK_NODE sr ks lr) kl ll) kp X)
      rest) := S6
  obtain ⟨t7, e7, S7, M7, -⟩ := S6p.rightRotate
  simp only [Frame.addr_L, Frame.addr_R, Frame.recolor, ctxPar_cons, Tree.ptr_node] at e5 x3 x4 x5 x6 h1 h2 h3 h6 h8
  refine ⟨t7, ?_, S7, M16.trans M7⟩
  simp only [RBT.fixDeleteRight, hxp, h1, h2, h3, h4, h5, h6, h7, h8, hsr, e1, e2, e3, e4, e5, e6, e7,
    x3, x4, x5, x6, Exec.some_bind, Exec.pure_eq, if_true, if_false, reduceCtorEq, decide_False,
    Bool.false_eq_true, Tree.ptr_node]

end FtContainers

namespace FtContainers

open Color Tree

variable {K V : Type}

/-! ## The loop of `fixDelete` -/

theorem ctxNRR_black {c : Color} {ctx : List (Frame K V)} (h : ctxNRR c ctx) :
    ctxNRR BLACK_NODE ctx := by
  cases ctx with
  | nil => trivial
  | cons f rest =>
    cases f <;> simp only [ctxNRR] at h ⊢ <;> exact ⟨fun hc => by simp [(h.1 hc)], h.2⟩

theorem ctxRootColor_ne_nil {ctx : List (Frame K V)} (h : ctx ≠ []) (c c' : Color) :
    ctxRootColor c ctx = ctxRootColor c' ctx := by
  cases ctx with
  | nil => exact absurd rfl h
  | cons f rest => rfl

theorem Tree.bh_blacken_red {T : Tree K V} (h : T.rootColor = RED_NODE) :
    T.blacken.bh = T.bh + 1 := by
  obtain ⟨a, l, kv, r, rfl⟩ := Tree.red_node h
  simp [Tree.blacken, Tree.bh]

theorem Tree.blacken_balanced_iff (T : Tree K V) : T.blacken.balanced ↔ T.balanced := by
  cases T <;> simp [Tree.blacken, Tree.balanced]

/-- The cursor of a non-empty path is not the root, also when it is the
sentinel. -/
theorem Shape.cursor_ne_root {t : RBT K V} {X : Tree K V} {f : Frame K V}
    {rest : List (Frame K V)} (hS : Shape t (plug X (f :: rest))) :
    ¬ (X.ptr t.null = t.root) := by
  cases X with
  | node a c l kv r => exact hS.focus_ne_root
  | nil =>
    intro e
    obtain ⟨b, hb, e2⟩ := ctxRoot_mem (Tree.ptr t.null (nil : Tree K V)) (List.cons_ne_nil f rest)
    have h1 := hS.root
    rw [ptr_plug, e2, ← e] at h1
    have hnn := ((Shape.plug_iff.1 hS).2.2.1).null_fresh
    exact hnn ((Option.some.inj h1) ▸ hb)

/-- Exit of the loop of `fixDelete`: the cursor is the root or is RED, and is
coloured BLACK. -/
theorem fixDelete_stop {t : RBT K V} {X : Tree K V} {ctx : List (Frame K V)} (k : Nat)
    (hS : Shape t (plug X ctx)) (hs : t.sentinelBlack) (hI : DelInv X ctx)
    (hstop : ctx = [] ∨ X.rootColor = RED_NODE) :
    ∃ t' T', RBT.fixDelete (k + 1) t (X.ptr t.null) = some t' ∧ Shape t' T' ∧
      t'.null = t.null ∧ t'.next = t.next ∧ t'.sentinelBlack ∧
      T'.nodes = (plug X ctx).nodes ∧ T'.rootColor = BLACK_NODE ∧ T'.noRedRed ∧
      T'.balanced := by
  obtain ⟨hnrr, hbal, hrb, hcn, hcb⟩ := hI
  have hcode : RBT.fixDelete (k + 1) t (X.ptr t.null) =
      t.setColor (X.ptr t.null) BLACK_NODE := by
    rcases hstop with rfl | hred
    · have := hS.root
      simp only [plug_nil] at this
      simp only [RBT.fixDelete, this, ne_eq, not_true_eq_false, if_false]
    · cases ctx with
      | nil =>
        have := hS.root
        simp only [plug_nil] at this
        simp only [RBT.fixDelete, this, ne_eq, not_true_eq_false, if_false]
      | cons f rest =>
        simp only [RBT.fixDelete, ne_eq, hS.cursor_ne_root, not_false_eq_true, if_true,
          hS.color_ptr hs, hred, Exec.some_bind, reduceCtorEq, if_false]
  have hprops : (plug X.blacken ctx).nodes = (plug X ctx).nodes ∧
      (plug X.blacken ctx).rootColor = BLACK_NODE ∧ (plug X.blacken ctx).noRedRed ∧
      (plug X.blacken ctx).balanced := by
    refine ⟨by simp only [nodes_plug, Tree.blacken_nodes], ?_, ?_, ?_⟩
    · rw [rootColor_plug, Tree.blacken_rootColor]
      cases ctx with
      | nil => rfl
      | cons f rest =>
        rw [ctxRootColor_ne_nil (List.cons_ne_nil f rest) BLACK_NODE RED_NODE]
        exact hrb (List.cons_ne_nil f rest)
    · rw [noRedRed_plug, Tree.blacken_rootColor]
      exact ⟨hnrr, hcn⟩
    · rw [balanced_plug, Tree.blacken_balanced_iff]
      refine ⟨hbal, ?_⟩
      rcases hstop with rfl | hred
      · trivial
      · rw [Tree.bh_blacken_red hred]
        exact hcb
  rw [hcode]
  cases X with
  | node a c l kv r =>
    obtain ⟨t1, e1, S1, M1, -⟩ := hS.setColor BLACK_NODE
    exact ⟨t1, _, e1, S1, M1.null, M1.next, M1.sentinelBlack hs, hprops⟩
  | nil =>
    rcases hstop with rfl | hred
    · obtain ⟨n0, hn0, hc0⟩ := hs
      refine ⟨_, nil, RBT.setColor_of hn0 BLACK_NODE, ⟨hS.root, trivial, List.nodup_nil⟩, rfl, rfl,
        ⟨_, setCell_same _ _ _, rfl⟩, hprops⟩
    · cases hred

end FtContainers

namespace FtContainers

open Color Tree

variable {K V : Type}

/-- One iteration of the loop of `fixDelete` with the cursor on the left and a
BLACK sibling: the new cursor, with the invariant of the loop. -/
theorem fixDeleteLeft_step {t : RBT K V} {X sl sr : Tree K V} {p s : Nat} {cp : Color}
    {kp ks : K × V} {rest : List (Frame K V)}
    (hS : Shape t (plug X (Frame.L p cp kp (node s BLACK_NODE sl ks sr) :: rest)))
    (hs : t.sentinelBlack) (hxp : t.parent (X.ptr t.null) = some (some p))
    (hXb : X.rootColor = BLACK_NODE)
    (hI : DelInv X (Frame.L p cp kp (node s BLACK_NODE sl ks sr) :: rest)) :
    ∃ t1 X1 ctx1, t.fixDeleteLeft (X.ptr t.null) (some s) = some (t1, X1.ptr t.null) ∧
      Shape t1 (plug X1 ctx1) ∧ Same t t1 ∧ DelInv X1 ctx1 ∧
      (plug X1 ctx1).nodes = (plug X (Frame.L p cp kp (node s BLACK_NODE sl ks sr) :: rest)).nodes ∧
      X1 ≠ nil ∧ ctx1.length ≤ rest.length ∧ (ctx1 = [] ∨ X1.rootColor = cp) := by
  obtain ⟨hnrr, hbal, hrb, hcn, hcb⟩ := hI
  have hXn : X.noRedRed := by rw [← Tree.blacken_eq hXb]; exact hnrr
  have hrb' := hrb (List.cons_ne_nil _ _)
  clear hnrr hrb
  by_cases hsr : sr.rootColor = RED_NODE
  · obtain ⟨r, rl, kr, rr, rfl⟩ := Tree.red_node hsr
    obtain ⟨t1, e1, S1, M1⟩ := fixDeleteLeft_case4 hS hs hxp
    refine ⟨t1, plug (node s cp (node p BLACK_NODE X kp sl) ks (node r BLACK_NODE rl kr rr)) rest, [], ?_, S1, M1, ?_, ?_, ?_, Nat.zero_le _, Or.inl rfl⟩
    · rw [e1, S1.root, M1.null]
    · refine ⟨Tree.blacken_noRedRed ?_, ?_, fun h => absurd rfl h, trivial, trivial⟩
      · cases cp <;>
        simp only [noRedRed_plug, balanced_plug, nodes_plug, Tree.noRedRed, Tree.balanced, Tree.bh, Tree.nodes, ctxNRR, ctxBal, ctxPreN, ctxPostN, Frame.fill_L, Frame.fill_R, Frame.recolor, Frame.color_L, Frame.color_R, Tree.rootColor_node, Tree.rootColor_nil, reduceCtorEq, if_true, if_false, false_implies, true_implies, true_and, and_true, List.append_assoc, List.cons_append, List.nil_append, List.append_nil, and_self, Nat.add_zero, ite_true, ite_false, forall_const, imp_self, ctxRootColor_cons, ctxRootColor_nil, Tree.blacken, false_and, and_false, implies_true, not_false_eq_true, rootColor_plug] at hXn hbal hcn hcb hrb' ⊢ <;>
        (try casesm* _ ∧ _) <;>
        (try and_intros) <;>
        first | assumption | omega | tauto | exact ctxBal_congr ‹ctxBal _ _› (by omega) | exact ctxNRR_black ‹ctxNRR _ _›
      · cases cp <;>
        simp only [noRedRed_plug, balanced_plug, nodes_plug, Tree.noRedRed, Tree.balanced, Tree.bh, Tree.nodes, ctxNRR, ctxBal, ctxPreN, ctxPostN, Frame.fill_L, Frame.fill_R, Frame.recolor, Frame.color_L, Frame.color_R, Tree.rootColor_node, Tree.rootColor_nil, reduceCtorEq, if_true, if_false, false_implies, true_implies, true_and, and_true, List.append_assoc, List.cons_append, List.nil_append, List.append_nil, and_self, Nat.add_zero, ite_true, ite_false, forall_const, imp_self, ctxRootColor_cons, ctxRootColor_nil, Tree.blacken, false_and, and_false, implies_true, not_false_eq_true, rootColor_plug] at hXn hbal hcn hcb hrb' ⊢ <;>
        (try casesm* _ ∧ _) <;>
        (try and_intros) <;>
        first | assumption | omega | tauto | exact ctxBal_congr ‹ctxBal _ _› (by omega) | exact ctxNRR_black ‹ctxNRR _ _›
    · simp only [nodes_plug, Tree.nodes, ctxPreN, ctxPostN, List.append_assoc, List.cons_append, List.nil_append, List.append_nil, plug_nil]
    · obtain ⟨a', c', l', kv', r', e⟩ := plug_ne_nil _ _ _ _ _ rest
      rw [e]
      exact fun h => by cases h
  · have hsrb := Color.eq_black_of_ne_red hsr
    by_cases hsl : sl.rootColor = RED_NODE
    · obtain ⟨l, ll, kl, lr, rfl⟩ := Tree.red_node hsl
      obtain ⟨t1, e1, S1, M1⟩ := fixDeleteLeft_case3 hS hs hxp hsrb
      refine ⟨t1, plug (node l cp (node p BLACK_NODE X kp ll) kl (node s BLACK_NODE lr ks sr)) rest, [], ?_, S1, M1, ?_, ?_, ?_, Nat.zero_le _, Or.inl rfl⟩
      · rw [e1, S1.root, M1.null]
      · refine ⟨Tree.blacken_noRedRed ?_, ?_, fun h => absurd rfl h, trivial, trivial⟩
        · cases cp <;>
          simp only [noRedRed_plug, balanced_plug, nodes_plug, Tree.noRedRed, Tree.balanced, Tree.bh, Tree.nodes, ctxNRR, ctxBal, ctxPreN, ctxPostN, Frame.fill_L, Frame.fill_R, Frame.recolor, Frame.color_L, Frame.color_R, Tree.rootColor_node, Tree.rootColor_nil, reduceCtorEq, if_true, if_false, false_implies, true_implies, true_and, and_true, List.append_assoc, List.cons_append, List.nil_append, List.append_nil, and_self, Nat.add_zero, ite_true, ite_false, forall_const, imp_self, ctxRootColor_cons, ctxRootColor_nil, Tree.blacken, false_and, and_false, implies_true, not_false_eq_true, rootColor_plug] at hXn hbal hcn hcb hrb' ⊢ <;>
          (try casesm* _ ∧ _) <;>
          (try and_intros) <;>
          first | assumption | omega | tauto | exact ctxBal_congr ‹ctxBal _ _› (by omega) | exact ctxNRR_black ‹ctxNRR _ _›
        · cases cp <;>
          simp only [noRedRed_plug, balanced_plug, nodes_plug, Tree.noRedRed, Tree.balanced, Tree.bh, Tree.nodes, ctxNRR, ctxBal, ctxPreN, ctxPostN, Frame.fill_L, Frame.fill_R, Frame.recolor, Frame.color_L, Frame.color_R, Tree.rootColor_node, Tree.rootColor_nil, reduceCtorEq, if_true, if_false, false_implies, true_implies, true_and, and_true, List.append_assoc, List.cons_append, List.nil_append, List.append_nil, and_self, Nat.add_zero, ite_true, ite_false, forall_const, imp_self, ctxRootColor_cons, ctxRootColor_nil, Tree.blacken, false_and, and_false, implies_true, not_false_eq_true, rootColor_plug] at hXn hbal hcn hcb hrb' ⊢ <;>
          (try casesm* _ ∧ _) <;>
          (try and_intros) <;>
          first | assumption | omega | tauto | exact ctxBal_congr ‹ctxBal _ _› (by omega) | exact ctxNRR_black ‹ctxNRR _ _›
      · simp only [nodes_plug, Tree.nodes, ctxPreN, ctxPostN, List.append_assoc, List.cons_append, List.nil_append, List.append_nil, plug_nil]
      · obtain ⟨a', c', l', kv', r', e⟩ := plug_ne_nil _ _ _ _ _ rest
        rw [e]
        exact fun h => by cases h
    · have hslb := Color.eq_black_of_ne_red hsl
      obtain ⟨t1, e1, S1, M1⟩ := fixDeleteLeft_case2 hS hs hxp hslb hsrb
      refine ⟨t1, node p cp X kp (node s RED_NODE sl ks sr), rest, e1, S1, M1,
        ⟨?_, ?_, ?_, ?_, ?_⟩, ?_, (fun h => by cases h), le_refl _, Or.inr rfl⟩
      · cases cp <;>
        simp only [noRedRed_plug, balanced_plug, nodes_plug, Tree.noRedRed, Tree.balanced, Tree.bh, Tree.nodes, ctxNRR, ctxBal, ctxPreN, ctxPostN, Frame.fill_L, Frame.fill_R, Frame.recolor, Frame.color_L, Frame.color_R, Tree.rootColor_node, Tree.rootColor_nil, reduceCtorEq, if_true, if_false, false_implies, true_implies, true_and, and_true, List.append_assoc, List.cons_append, List.nil_append, List.append_nil, and_self, Nat.add_zero, ite_true, ite_false, forall_const, imp_self, ctxRootColor_cons, ctxRootColor_nil, Tree.blacken, false_and, and_false, implies_true, not_false_eq_true, rootColor_plug] at hXn hbal hcn hcb hrb' ⊢ <;>
        (try casesm* _ ∧ _) <;>
        (try and_intros) <;>
        first | assumption | omega | tauto | exact ctxBal_congr ‹ctxBal _ _› (by omega) | exact ctxNRR_black ‹ctxNRR _ _›
      · cases cp <;>
        simp only [noRedRed_plug, balanced_plug, nodes_plug, Tree.noRedRed, Tree.balanced, Tree.bh, Tree.nodes, ctxNRR, ctxBal, ctxPreN, ctxPostN, Frame.fill_L, Frame.fill_R, Frame.recolor, Frame.color_L, Frame.color_R, Tree.rootColor_node, Tree.rootColor_nil, reduceCtorEq, if_true, if_false, false_implies, true_implies, true_and, and_true, List.append_assoc, List.cons_append, List.nil_append, List.append_nil, and_self, Nat.add_zero, ite_true, ite_false, forall_const, imp_self, ctxRootColor_cons, ctxRootColor_nil, Tree.blacken, false_and, and_false, implies_true, not_false_eq_true, rootColor_plug] at hXn hbal hcn hcb hrb' ⊢ <;>
        (try casesm* _ ∧ _) <;>
        (try and_intros) <;>
        first | assumption | omega | tauto | exact ctxBal_congr ‹ctxBal _ _› (by omega) | exact ctxNRR_black ‹ctxNRR _ _›
      · intro hne
        rw [ctxRootColor_ne_nil hne RED_NODE cp]
        simpa only [ctxRootColor_cons, Frame.color_L, Frame.color_R] using hrb'
      · simp only [ctxNRR] at hcn
        exact ctxNRR_black hcn.2.2
      · cases cp <;>
        simp only [noRedRed_plug, balanced_plug, nodes_plug, Tree.noRedRed, Tree.balanced, Tree.bh, Tree.nodes, ctxNRR, ctxBal, ctxPreN, ctxPostN, Frame.fill_L, Frame.fill_R, Frame.recolor, Frame.color_L, Frame.color_R, Tree.rootColor_node, Tree.rootColor_nil, reduceCtorEq, if_true, if_false, false_implies, true_implies, true_and, and_true, List.append_assoc, List.cons_append, List.nil_append, List.append_nil, and_self, Nat.add_zero, ite_true, ite_false, forall_const, imp_self, ctxRootColor_cons, ctxRootColor_nil, Tree.blacken, false_and, and_false, implies_true, not_false_eq_true, rootColor_plug] at hXn hbal hcn hcb hrb' ⊢ <;>
        (try casesm* _ ∧ _) <;>
        (try and_intros) <;>
        first | assumption | omega | tauto | exact ctxBal_congr ‹ctxBal _ _› (by omega) | exact ctxNRR_black ‹ctxNRR _ _›
      · simp only [nodes_plug, Tree.nodes, ctxPreN, ctxPostN, List.append_assoc, List.cons_append, List.nil_append, List.append_nil]

/-- One iteration of the loop of `fixDelete` with the cursor on the right and a
BLACK sibling: the new cursor, with the invariant of the loop. -/
theorem fixDeleteRight_step {t : RBT K V} {X sl sr : Tree K V} {p s : Nat} {cp : Color}
    {kp ks : K × V} {rest : List (Frame K V)}
    (hS : Shape t (plug X (Frame.R p cp (node s BLACK_NODE sr ks sl) kp :: rest)))
    (hs : t.sentinelBlack) (hxp : t.parent (X.ptr t.null) = some (some p))
    (hXb : X.rootColor = BLACK_NODE)
    (hI : DelInv X (Frame.R p cp (node s BLACK_NODE sr ks sl) kp :: rest)) :
    ∃ t1 X1 ctx1, t.fixDeleteRight (X.ptr t.null) (some s) = some (t1, X1.ptr t.null) ∧
      Shape t1 (plug X1 ctx1) ∧ Same t t1 ∧ DelInv X1 ctx1 ∧
      (plug X1 ctx1).nodes = (plug X (Frame.R p cp (node s BLACK_NODE sr ks sl) kp :: rest)).nodes ∧
      X1 ≠ nil ∧ ctx1.length ≤ rest.length ∧ (ctx1 = [] ∨ X1.rootColor = cp) := by
  obtain ⟨hnrr, hbal, hrb, hcn, hcb⟩ := hI
  have hXn : X.noRedRed := by rw [← Tree.blacken_eq hXb]; exact hnrr
  have hrb' := hrb (List.cons_ne_nil _ _)
  clear hnrr hrb
  by_cases hsr : sr.rootColor = RED_NODE
  · obtain ⟨r, rr, kr, rl, rfl⟩ := Tree.red_node hsr
    obtain ⟨t1, e1, S1, M1⟩ := fixDeleteRight_case4 hS hs hxp
    refine ⟨t1, plug (node s cp (node r BLACK_NODE rr kr rl) ks (node p BLACK_NODE sl kp X)) rest, [], ?_, S1, M1, ?_, ?_, ?_, Nat.zero_le _, Or.inl rfl⟩
    · rw [e1, S1.root, M1.null]
    · refine ⟨Tree.blacken_noRedRed ?_, ?_, fun h => absurd rfl h, trivial, trivial⟩
      · cases cp <;>
        simp only [noRedRed_plug, balanced_plug, nodes_plug, Tree.noRedRed, Tree.balanced, Tree.bh, Tree.nodes, ctxNRR, ctxBal, ctxPreN, ctxPostN, Frame.fill_L, Frame.fill_R, Frame.recolor, Frame.color_L, Frame.color_R, Tree.rootColor_node, Tree.rootColor_nil, reduceCtorEq, if_true, if_false, false_implies, true_implies, true_and, and_true, List.append_assoc, List.cons_append, List.nil_append, List.append_nil, and_self, Nat.add_zero, ite_true, ite_false, forall_const, imp_self, ctxRootColor_cons, ctxRootColor_nil, Tree.blacken, false_and, and_false, implies_true, not_false_eq_true, rootColor_plug] at hXn hbal hcn hcb hrb' ⊢ <;>
        (try casesm* _ ∧ _) <;>
        (try and_intros) <;>
        first | assumption | omega | tauto | exact ctxBal_congr ‹ctxBal _ _› (by omega) | exact ctxNRR_black ‹ctxNRR _ _›
      · cases cp <;>
        simp only [noRedRed_plug, balanced_plug, nodes_plug, Tree.noRedRed, Tree.balanced, Tree.bh, Tree.nodes, ctxNRR, ctxBal, ctxPreN, ctxPostN, Frame.fill_L, Frame.fill_R, Frame.recolor, Frame.color_L, Frame.color_R, Tree.rootColor_node, Tree.rootColor_nil, reduceCtorEq, if_true, if_false, false_implies, true_implies, true_and, and_true, List.append_assoc, List.cons_append, List.nil_append, List.append_nil, and_self, Nat.add_zero, ite_true, ite_false, forall_const, imp_self, ctxRootColor_cons, ctxRootColor_nil, Tree.blacken, false_and, and_false, implies_true, not_false_eq_true, rootColor_plug] at hXn hbal hcn hcb hrb' ⊢ <;>
        (try casesm* _ ∧ _) <;>
        (try and_intros) <;>
        first | assumption | omega | tauto | exact ctxBal_congr ‹ctxBal _ _› (by omega) | exact ctxNRR_black ‹ctxNRR _ _›
    · simp only [nodes_plug, Tree.nodes, ctxPreN, ctxPostN, List.append_assoc, List.cons_append, List.nil_append, List.append_nil, plug_nil]
    · obtain ⟨a', c', l', kv', r', e⟩ := plug_ne_nil _ _ _ _ _ rest
      rw [e]
      exact fun h => by cases h
  · have hsrb := Color.eq_black_of_ne_red hsr
    by_cases hsl : sl.rootColor = RED_NODE
    · obtain ⟨l, lr, kl, ll, rfl⟩ := Tree.red_node hsl
      obtain ⟨t1, e1, S1, M1⟩ := fixDeleteRight_case3 hS hs hxp hsrb
      refine ⟨t1, plug (node l cp (node s BLACK_NODE sr ks lr) kl (node p BLACK_NODE ll kp X)) rest, [], ?_, S1, M1, ?_, ?_, ?_, Nat.zero_le _, Or.inl rfl⟩
      · rw [e1, S1.root, M1.null]
      · refine ⟨Tree.blacken_noRedRed ?_, ?_, fun h => absurd rfl h, trivial, trivial⟩
        · cases cp <;>
          simp only [noRedRed_plug, balanced_plug, nodes_plug, Tree.noRedRed, Tree.balanced, Tree.bh, Tree.nodes, ctxNRR, ctxBal, ctxPreN, ctxPostN, Frame.fill_L, Frame.fill_R, Frame.recolor, Frame.color_L, Frame.color_R, Tree.rootColor_node, Tree.rootColor_nil, reduceCtorEq, if_true, if_false, false_implies, true_implies, true_and, and_true, List.append_assoc, List.cons_append, List.nil_append, List.append_nil, and_self, Nat.add_zero, ite_true, ite_false, forall_const, imp_self, ctxRootColor_cons, ctxRootColor_nil, Tree.blacken, false_and, and_false, implies_true, not_false_eq_true, rootColor_plug] at hXn hbal hcn hcb hrb' ⊢ <;>
          (try casesm* _ ∧ _) <;>
          (try and_intros) <;>
          first | assumption | omega | tauto | exact ctxBal_congr ‹ctxBal _ _› (by omega) | exact ctxNRR_black ‹ctxNRR _ _›
        · cases cp <;>
          simp only [noRedRed_plug, balanced_plug, nodes_plug, Tree.noRedRed, Tree.balanced, Tree.bh, Tree.nodes, ctxNRR, ctxBal, ctxPreN, ctxPostN, Frame.fill_L, Frame.fill_R, Frame.recolor, Frame.color_L, Frame.color_R, Tree.rootColor_node, Tree.rootColor_nil, reduceCtorEq, if_true, if_false, false_implies, true_implies, true_and, and_true, List.append_assoc, List.cons_append, List.nil_append, List.append_nil, and_self, Nat.add_zero, ite_true, ite_false, forall_const, imp_self, ctxRootColor_cons, ctxRootColor_nil, Tree.blacken, false_and, and_false, implies_true, not_false_eq_true, rootColor_plug] at hXn hbal hcn hcb hrb' ⊢ <;>
          (try casesm* _ ∧ _) <;>
          (try and_intros) <;>
          first | assumption | omega | tauto | exact ctxBal_congr ‹ctxBal _ _› (by omega) | exact ctxNRR_black ‹ctxNRR _ _›
      · simp only [nodes_plug, Tree.nodes, ctxPreN, ctxPostN, List.append_assoc, List.cons_append, List.nil_append, List.append_nil, plug_nil]
      · obtain ⟨a', c', l', kv', r', e⟩ := plug_ne_nil _ _ _ _ _ rest
        rw [e]
        exact fun h => by cases h
    · have hslb := Color.eq_black_of_ne_red hsl
      obtain ⟨t1, e1, S1, M1⟩ := fixDeleteRight_case2 hS hs hxp hslb hsrb
      refine ⟨t1, node p cp (node s RED_NODE sr ks sl) kp X, rest, e1, S1, M1,
        ⟨?_, ?_, ?_, ?_, ?_⟩, ?_, (fun h => by cases h), le_refl _, Or.inr rfl⟩
      · cases cp <;>
        simp only [noRedRed_plug, balanced_plug, nodes_plug, Tree.noRedRed, Tree.balanced, Tree.bh, Tree.nodes, ctxNRR, ctxBal, ctxPreN, ctxPostN, Frame.fill_L, Frame.fill_R, Frame.recolor, Frame.color_L, Frame.color_R, Tree.rootColor_node, Tree.rootColor_nil, reduceCtorEq, if_true, if_false, false_implies, true_implies, true_and, and_true, List.append_assoc, List.cons_append, List.nil_append, List.append_nil, and_self, Nat.add_zero, ite_true, ite_false, forall_const, imp_self, ctxRootColor_cons, ctxRootColor_nil, Tree.blacken, false_and, and_false, implies_true, not_false_eq_true, rootColor_plug] at hXn hbal hcn hcb hrb' ⊢ <;>
        (try casesm* _ ∧ _) <;>
        (try and_intros) <;>
        first | assumption | omega | tauto | exact ctxBal_congr ‹ctxBal _ _› (by omega) | exact ctxNRR_black ‹ctxNRR _ _›
      · cases cp <;>
        simp only [noRedRed_plug, balanced_plug, nodes_plug, Tree.noRedRed, Tree.balanced, Tree.bh, Tree.nodes, ctxNRR, ctxBal, ctxPreN, ctxPostN, Frame.fill_L, Frame.fill_R, Frame.recolor, Frame.color_L, Frame.color_R, Tree.rootColor_node, Tree.rootColor_nil, reduceCtorEq, if_true, if_false, false_implies, true_implies, true_and, and_true, List.append_assoc, List.cons_append, List.nil_append, List.append_nil, and_self, Nat.add_zero, ite_true, ite_false, forall_const, imp_self, ctxRootColor_cons, ctxRootColor_nil, Tree.blacken, false_and, and_false, implies_true, not_false_eq_true, rootColor_plug] at hXn hbal hcn hcb hrb' ⊢ <;>
        (try casesm* _ ∧ _) <;>
        (try and_intros) <;>
        first | assumption | omega | tauto | exact ctxBal_congr ‹ctxBal _ _› (by omega) | exact ctxNRR_black ‹ctxNRR _ _›
      · intro hne
        rw [ctxRootColor_ne_nil hne RED_NODE cp]
        simpa only [ctxRootColor_cons, Frame.color_L, Frame.color_R] using hrb'
      · simp only [ctxNRR] at hcn
        exact ctxNRR_black hcn.2.2
      · cases cp <;>
        simp only [noRedRed_plug, balanced_plug, nodes_plug, Tree.noRedRed, Tree.balanced, Tree.bh, Tree.nodes, ctxNRR, ctxBal, ctxPreN, ctxPostN, Frame.fill_L, Frame.fill_R, Frame.recolor, Frame.color_L, Frame.color_R, Tree.rootColor_node, Tree.rootColor_nil, reduceCtorEq, if_true, if_false, false_implies, true_implies, true_and, and_true, List.append_assoc, List.cons_append, List.nil_append, List.append_nil, and_self, Nat.add_zero, ite_true, ite_false, forall_const, imp_self, ctxRootColor_cons, ctxRootColor_nil, Tree.blacken, false_and, and_false, implies_true, not_false_eq_true, rootColor_plug] at hXn hbal hcn hcb hrb' ⊢ <;>
        (try casesm* _ ∧ _) <;>
        (try and_intros) <;>
        first | assumption | omega | tauto | exact ctxBal_congr ‹ctxBal _ _› (by omega) | exact ctxNRR_black ‹ctxNRR _ _›
      · simp only [nodes_plug, Tree.nodes, ctxPreN, ctxPostN, List.append_assoc, List.cons_append, List.nil_append, List.append_nil]

end FtContainers

namespace FtContainers

open Color Tree

variable {K V : Type}

/-- The loop of `fixDelete`, started at a cursor below which one BLACK node is
missing: it returns, and the state then holds a tree with the same nodes, a
BLACK root, no RED node with a RED child and equal black-heights. -/
theorem fixDelete_spec : ∀ (n : Nat) (t : RBT K V) (X : Tree K V) (ctx : List (Frame K V)),
    ctx.length ≤ n → Shape t (plug X ctx) → t.sentinelBlack →
    (X = nil → ctx ≠ [] → t.parent (some t.null) = some (ctxPar ctx)) → DelInv X ctx →
    ∃ t' T', RBT.fixDelete (n + 1) t (X.ptr t.null) = some t' ∧ Shape t' T' ∧
      t'.null = t.null ∧ t'.next = t.next ∧ t'.sentinelBlack ∧
      T'.nodes = (plug X ctx).nodes ∧ T'.rootColor = BLACK_NODE ∧ T'.noRedRed ∧
      T'.balanced := by
  intro n
  induction n with
  | zero =>
    intro t X ctx hlen hS hs _ hI
    exact fixDelete_stop 0 hS hs hI (Or.inl (List.length_eq_zero.1 (Nat.le_zero.1 hlen)))
  | succ m ih =>
    intro t X ctx hlen hS hs hpar hI
    by_cases hstop : ctx = [] ∨ X.rootColor = RED_NODE
    · exact fixDelete_stop (m + 1) hS hs hI hstop
    · have hXb : X.rootColor = BLACK_NODE :=
        Color.eq_black_of_ne_red (fun h => hstop (Or.inr h))
      cases ctx with
      | nil => exact absurd (Or.inl rfl) hstop
      | cons f rest =>
      have hxp : t.parent (X.ptr t.null) = some (some f.addr) := by
        cases X with
        | nil => exact hpar rfl (List.cons_ne_nil _ _)
        | node a c l kv r => exact hS.parent_eq
      have hcode : RBT.fixDelete (m + 1 + 1) t (X.ptr t.null) =
          (do let r ← t.fixDeleteBody (X.ptr t.null)
              RBT.fixDelete (m + 1) r.1 r.2) := by
        simp only [RBT.fixDelete, ne_eq, hS.cursor_ne_root, not_false_eq_true, if_true,
          hS.color_ptr hs, hXb, Exec.some_bind]
      cases f with
      | L p cp kp S =>
        have hrb' := hI.rootBlack (List.cons_ne_nil _ _)
        have hSne : S ≠ nil := by
          rintro rfl
          have := hI.cbal
          simp [ctxBal, Tree.bh] at this
        cases S with
        | nil => exact absurd rfl hSne
        | node s cs sl ks sr =>
          simp only [Frame.addr_L, Frame.addr_R] at hxp
          cases cs with
          | BLACK_NODE =>
            have hbody := fixDeleteBody_L_black hS hxp
            obtain ⟨t1, X1, ctx1, e1, S1, M1, hI1, hn1, hX1, hl1, -⟩ :=
              fixDeleteLeft_step hS hs hxp hXb hI
            obtain ⟨t2, T2, e2, S2, hnl2, hnx2, hs2, hn2, hc2, hr2, hb2⟩ :=
              ih t1 X1 ctx1 (by simp only [List.length_cons] at hlen; omega) S1
                (M1.sentinelBlack hs) (fun h => absurd h hX1) hI1
            refine ⟨t2, T2, ?_, S2, hnl2.trans M1.null, hnx2.trans M1.next, hs2,
              hn2.trans hn1, hc2, hr2, hb2⟩
            rw [M1.null] at e2
            rw [hcode, hbody, e1]
            simp only [Exec.some_bind]
            exact e2
          | RED_NODE =>
            obtain ⟨t1, hbody, S1, M1⟩ := fixDeleteBody_L_red hS hxp
            obtain ⟨hnrr, hbal, -, hcn, hcb⟩ := hI
            have hcp : cp = BLACK_NODE := by
              apply Color.eq_black_of_ne_red
              intro h
              simp [ctxNRR, h] at hcn
            subst hcp
            have hsl : sl ≠ nil := by
              rintro rfl
              simp [ctxBal, Tree.bh, Tree.balanced] at hcb <;> omega
            cases sl with
            | nil => exact absurd rfl hsl
            | node s2 c2 a k2 b =>
              have hc2 : c2 = BLACK_NODE := by
                apply Color.eq_black_of_ne_red
                intro h
                simp [ctxNRR, Tree.noRedRed, h] at hcn
              subst hc2
              have hI1 : DelInv X (Frame.L p RED_NODE kp (node s2 BLACK_NODE a k2 b) :: Frame.L s BLACK_NODE ks sr :: rest) := by
                refine ⟨hnrr, hbal, fun _ => ?_, ?_, ?_⟩
                · simp only [noRedRed_plug, balanced_plug, nodes_plug, Tree.noRedRed, Tree.balanced, Tree.bh, Tree.nodes, ctxNRR, ctxBal, ctxPreN, ctxPostN, Frame.fill_L, Frame.fill_R, Frame.recolor, Frame.color_L, Frame.color_R, Tree.rootColor_node, Tree.rootColor_nil, reduceCtorEq, if_true, if_false, false_implies, true_implies, true_and, and_true, List.append_assoc, List.cons_append, List.nil_append, List.append_nil, and_self, Nat.add_zero, ite_true, ite_false, forall_const, imp_self, ctxRootColor_cons, ctxRootColor_nil, Tree.blacken, false_and, and_false, implies_true, not_false_eq_true, rootColor_plug] at hnrr hbal hcn hcb hrb' ⊢ <;>
              (try casesm* _ ∧ _) <;>
              (try and_intros) <;>
              first | assumption | omega | tauto | exact ctxBal_congr ‹ctxBal _ _› (by omega) | exact ctxNRR_black ‹ctxNRR _ _›
                · simp only [noRedRed_plug, balanced_plug, nodes_plug, Tree.noRedRed, Tree.balanced, Tree.bh, Tree.nodes, ctxNRR, ctxBal, ctxPreN, ctxPostN, Frame.fill_L, Frame.fill_R, Frame.recolor, Frame.color_L, Frame.color_R, Tree.rootColor_node, Tree.rootColor_nil, reduceCtorEq, if_true, if_false, false_implies, true_implies, true_and, and_true, List.append_assoc, List.cons_append, List.nil_append, List.append_nil, and_self, Nat.add_zero, ite_true, ite_false, forall_const, imp_self, ctxRootColor_cons, ctxRootColor_nil, Tree.blacken, false_and, and_false, implies_true, not_false_eq_true, rootColor_plug] at hnrr hbal hcn hcb hrb' ⊢ <;>
              (try casesm* _ ∧ _) <;>
              (try and_intros) <;>
              first | assumption | omega | tauto | exact ctxBal_congr ‹ctxBal _ _› (by omega) | exact ctxNRR_black ‹ctxNRR _ _›
                · simp only [noRedRed_plug, balanced_plug, nodes_plug, Tree.noRedRed, Tree.balanced, Tree.bh, Tree.nodes, ctxNRR, ctxBal, ctxPreN, ctxPostN, Frame.fill_L, Frame.fill_R, Frame.recolor, Frame.color_L, Frame.color_R, Tree.rootColor_node, Tree.rootColor_nil, reduceCtorEq, if_true, if_false, false_implies, true_implies, true_and, and_true, List.append_assoc, List.cons_append, List.nil_append, List.append_nil, and_self, Nat.add_zero, ite_true, ite_false, forall_const, imp_self, ctxRootColor_cons, ctxRootColor_nil, Tree.blacken, false_and, and_false, implies_true, not_false_eq_true, rootColor_plug] at hnrr hbal hcn hcb hrb' ⊢ <;>
              (try casesm* _ ∧ _) <;>
              (try and_intros) <;>
              first | assumption | omega | tauto | exact ctxBal_congr ‹ctxBal _ _› (by omega) | exact ctxNRR_black ‹ctxNRR _ _›
              have hs1 := M1.sentinelBlack hs
              have hxp1 := cursor_parent M1 S1 rfl hxp
              simp only [ctxPar_cons, Frame.addr_L, Frame.addr_R] at hxp1
              rw [← M1.null] at hxp1
              obtain ⟨t2, X2, ctx2, e2, S2, M2, hI2, hn2, hX2, hl2, hor⟩ :=
                fixDeleteLeft_step S1 hs1 hxp1 hXb hI1
              obtain ⟨t3, T3, e3, S3, hnl3, hnx3, hs3, hn3, hc3, hr3, hb3⟩ :=
                fixDelete_stop m S2 (M2.sentinelBlack hs1) hI2 hor
              refine ⟨t3, T3, ?_, S3, (hnl3.trans M2.null).trans M1.null,
                (hnx3.trans M2.next).trans M1.next, hs3, ?_, hc3, hr3, hb3⟩
              · rw [M1.null] at e2
                rw [M2.null, M1.null] at e3
                rw [hcode, hbody]
                simp only [Tree.ptr_node, e2, Exec.some_bind]
                exact e3
              · rw [hn3, hn2]
                simp only [nodes_plug, Tree.nodes, ctxPreN, ctxPostN, List.append_assoc,
                  List.cons_append, List.nil_append, List.append_nil]
      | R p cp S kp =>
        have hrb' := hI.rootBlack (List.cons_ne_nil _ _)
        have hSne : S ≠ nil := by
          rintro rfl
          have := hI.cbal
          simp [ctxBal, Tree.bh] at this
        cases S with
        | nil => exact absurd rfl hSne
        | node s cs sr ks sl =>
          simp only [Frame.addr_L, Frame.addr_R] at hxp
          cases cs with
          | BLACK_NODE =>
            have hbody := fixDeleteBody_R_black hS hxp
            obtain ⟨t1, X1, ctx1, e1, S1, M1, hI1, hn1, hX1, hl1, -⟩ :=
              fixDeleteRight_step hS hs hxp hXb hI
            obtain ⟨t2, T2, e2, S2, hnl2, hnx2, hs2, hn2, hc2, hr2, hb2⟩ :=
              ih t1 X1 ctx1 (by simp only [List.length_cons] at hlen; omega) S1
                (M1.sentinelBlack hs) (fun h => absurd h hX1) hI1
            refine ⟨t2, T2, ?_, S2, hnl2.trans M1.null, hnx2.trans M1.next, hs2,
              hn2.trans hn1, hc2, hr2, hb2⟩
            rw [M1.null] at e2
            rw [hcode, hbody, e1]
            simp only [Exec.some_bind]
            exact e2
          | RED_NODE =>
            obtain ⟨t1, hbody, S1, M1⟩ := fixDeleteBody_R_red hS hxp
            obtain ⟨hnrr, hbal, -, hcn, hcb⟩ := hI
            have hcp : cp = BLACK_NODE := by
              apply Color.eq_black_of_ne_red
              intro h
              simp [ctxNRR, h] at hcn
            subst hcp
            have hsl : sl ≠ nil := by
              rintro rfl
              simp [ctxBal, Tree.bh, Tree.balanced] at hcb <;> omega
            cases sl with
            | nil => exact absurd rfl hsl
            | node s2 c2 b k2 a =>
              have hc2 : c2 = BLACK_NODE := by
                apply Color.eq_black_of_ne_red
                intro h
                simp [ctxNRR, Tree.noRedRed, h] at hcn
              subst hc2
              have hI1 : DelInv X (Frame.R p RED_NODE (node s2 BLACK_NODE b k2 a) kp :: Frame.R s BLACK_NODE sr ks :: rest) := by
                refine ⟨hnrr, hbal, fun _ => ?_, ?_, ?_⟩
                · simp only [noRedRed_plug, balanced_plug, nodes_plug, Tree.noRedRed, Tree.balanced, Tree.bh, Tree.nodes, ctxNRR, ctxBal, ctxPreN, ctxPostN, Frame.fill_L, Frame.fill_R, Frame.recolor, Frame.color_L, Frame.color_R, Tree.rootColor_node, Tree.rootColor_nil, reduceCtorEq, if_true, if_false, false_implies, true_implies, true_and, and_true, List.append_assoc, List.cons_append, List.nil_append, List.append_nil, and_self, Nat.add_zero, ite_true, ite_false, forall_const, imp_self, ctxRootColor_cons, ctxRootColor_nil, Tree.blacken, false_and, and_false, implies_true, not_false_eq_true, rootColor_plug] at hnrr hbal hcn hcb hrb' ⊢ <;>
              (try casesm* _ ∧ _) <;>
              (try and_intros) <;>
              first | assumption | omega | tauto | exact ctxBal_congr ‹ctxBal _ _› (by omega) | exact ctxNRR_black ‹ctxNRR _ _›
                · simp only [noRedRed_plug, balanced_plug, nodes_plug, Tree.noRedRed, Tree.balanced, Tree.bh, Tree.nodes, ctxNRR, ctxBal, ctxPreN, ctxPostN, Frame.fill_L, Frame.fill_R, Frame.recolor, Frame.color_L, Frame.color_R, Tree.rootColor_node, Tree.rootColor_nil, reduceCtorEq, if_true, if_false, false_implies, true_implies, true_and, and_true, List.append_assoc, List.cons_append, List.nil_append, List.append_nil, and_self, Nat.add_zero, ite_true, ite_false, forall_const, imp_self, ctxRootColor_cons, ctxRootColor_nil, Tree.blacken, false_and, and_false, implies_true, not_false_eq_true, rootColor_plug] at hnrr hbal hcn hcb hrb' ⊢ <;>
              (try casesm* _ ∧ _) <;>
              (try and_intros) <;>
              first | assumption | omega | tauto | exact ctxBal_congr ‹ctxBal _ _› (by omega) | exact ctxNRR_black ‹ctxNRR _ _›
                · simp only [noRedRed_plug, balanced_plug, nodes_plug, Tree.noRedRed, Tree.balanced, Tree.bh, Tree.nodes, ctxNRR, ctxBal, ctxPreN, ctxPostN, Frame.fill_L, Frame.fill_R, Frame.recolor, Frame.color_L, Frame.color_R, Tree.rootColor_node, Tree.rootColor_nil, reduceCtorEq, if_true, if_false, false_implies, true_implies, true_and, and_true, List.append_assoc, List.cons_append, List.nil_append, List.append_nil, and_self, Nat.add_zero, ite_true, ite_false, forall_const, imp_self, ctxRootColor_cons, ctxRootColor_nil, Tree.blacken, false_and, and_false, implies_true, not_false_eq_true, rootColor_plug] at hnrr hbal hcn hcb hrb' ⊢ <;>
              (try casesm* _ ∧ _) <;>
              (try and_intros) <;>
              first | assumption | omega | tauto | exact ctxBal_congr ‹ctxBal _ _› (by omega) | exact ctxNRR_black ‹ctxNRR _ _›
              have hs1 := M1.sentinelBlack hs
              have hxp1 := cursor_parent M1 S1 rfl hxp
              simp only [ctxPar_cons, Frame.addr_L, Frame.addr_R] at hxp1
              rw [← M1.null] at hxp1
              obtain ⟨t2, X2, ctx2, e2, S2, M2, hI2, hn2, hX2, hl2, hor⟩ :=
                fixDeleteRight_step S1 hs1 hxp1 hXb hI1
              obtain ⟨t3, T3, e3, S3, hnl3, hnx3, hs3, hn3, hc3, hr3, hb3⟩ :=
                fixDelete_stop m S2 (M2.sentinelBlack hs1) hI2 hor
              refine ⟨t3, T3, ?_, S3, (hnl3.trans M2.null).trans M1.null,
                (hnx3.trans M2.next).trans M1.next, hs3, ?_, hc3, hr3, hb3⟩
              · rw [M1.null] at e2
                rw [M2.null, M1.null] at e3
                rw [hcode, hbody]
                simp only [Tree.ptr_node, e2, Exec.some_bind]
                exact e3
              · rw [hn3, hn2]
                simp only [nodes_plug, Tree.nodes, ctxPreN, ctxPostN, List.append_assoc,
                  List.cons_append, List.nil_append, List.append_nil]

end FtContainers

namespace FtContainers

open Color Tree

variable {K V : Type}

/-! ## Invariants after the relinking step of `deleteNodeHelper` -/

theorem ctxPreN_append (c1 c2 : List (Frame K V)) :
    ctxPreN (c1 ++ c2) = ctxPreN c2 ++ ctxPreN c1 := by
  induction c1 with
  | nil => simp [ctxPreN]
  | cons f rest ih => cases f <;> simp [ctxPreN, ih, List.append_assoc]

theorem ctxPostN_append (c1 c2 : List (Frame K V)) :
    ctxPostN (c1 ++ c2) = ctxPostN c1 ++ ctxPostN c2 := by
  induction c1 with
  | nil => simp [ctxPostN]
  | cons f rest ih => cases f <;> simp [ctxPostN, ih, List.append_assoc]

theorem ctxNRR_of_red {c : Color} {ctx : List (Frame K V)} (h : ctxNRR RED_NODE ctx) :
    ctxNRR c ctx := by
  cases ctx with
  | nil => trivial
  | cons f rest =>
    cases f <;> simp only [ctxNRR] at h ⊢ <;>
      exact ⟨fun hc => by simpa using h.1 hc, h.2⟩

theorem ctxBal_relabel {z y : Nat} {cz : Color} {L : Tree K V} {kz ky : K × V}
    {ctx : List (Frame K V)} (c1 : List (Frame K V)) :
    ∀ n, ctxBal n (c1 ++ Frame.R z cz L kz :: ctx) ↔ ctxBal n (c1 ++ Frame.R y cz L ky :: ctx) := by
  induction c1 with
  | nil => intro n; exact Iff.rfl
  | cons f rest ih =>
    intro n
    cases f <;> exact and_congr Iff.rfl (and_congr Iff.rfl (ih _))

theorem ctxNRR_relabel {z y : Nat} {cz : Color} {L : Tree K V} {kz ky : K × V}
    {ctx : List (Frame K V)} (c1 : List (Frame K V)) :
    ∀ c, ctxNRR c (c1 ++ Frame.R z cz L kz :: ctx) ↔ ctxNRR c (c1 ++ Frame.R y cz L ky :: ctx) := by
  induction c1 with
  | nil => intro c; exact Iff.rfl
  | cons f rest ih =>
    intro c
    cases f <;> exact and_congr Iff.rfl (and_congr Iff.rfl (ih _))

theorem ctxRootColor_relabel {z y : Nat} {cz : Color} {L : Tree K V} {kz ky : K × V}
    {ctx : List (Frame K V)} (c1 : List (Frame K V)) :
    ∀ c, ctxRootColor c (c1 ++ Frame.R z cz L kz :: ctx) =
      ctxRootColor c (c1 ++ Frame.R y cz L ky :: ctx) := by
  induction c1 with
  | nil => intro c; rfl
  | cons f rest ih =>
    intro c
    cases f <;> exact ih _

/-- The node `z` with at most one child is replaced by that child `X`: when
`z` was BLACK the loop invariant of `fixDelete` holds at `X`, and when `z` was
RED the tree satisfies the invariants as it is. -/
theorem splice_inv {z : Nat} {cz : Color} {kz : K × V} {L R X : Tree K V}
    {ctx : List (Frame K V)} (hX : (L = nil ∧ X = R) ∨ (R = nil ∧ X = L))
    (hc : (plug (node z cz L kz R) ctx).rootColor = BLACK_NODE)
    (hn : (plug (node z cz L kz R) ctx).noRedRed)
    (hb : (plug (node z cz L kz R) ctx).balanced) :
    (cz = BLACK_NODE → DelInv X ctx) ∧
      (cz = RED_NODE → (plug X ctx).rootColor = BLACK_NODE ∧ (plug X ctx).noRedRed ∧
        (plug X ctx).balanced) := by
  rw [rootColor_plug] at hc
  rw [noRedRed_plug] at hn
  rw [balanced_plug] at hb
  obtain ⟨hn1, hn2⟩ := hn
  obtain ⟨hb1, hb2⟩ := hb
  simp only [Tree.rootColor_node] at hc hn2
  have hXn : X.noRedRed := by
    rcases hX with ⟨rfl, rfl⟩ | ⟨rfl, rfl⟩
    · exact hn1.2.2
    · exact hn1.2.1
  have hXb : X.balanced := by
    rcases hX with ⟨rfl, rfl⟩ | ⟨rfl, rfl⟩
    · exact hb1.2.2
    · exact hb1.2.1
  have hbh : (node z cz L kz R).bh = X.bh + (if cz = BLACK_NODE then 1 else 0) := by
    rcases hX with ⟨rfl, rfl⟩ | ⟨rfl, rfl⟩
    · have := hb1.1
      simp only [Tree.bh] at this ⊢
      omega
    · rfl
  rw [hbh] at hb2
  constructor
  · rintro rfl
    refine ⟨Tree.blacken_noRedRed hXn, hXb, fun hne => ?_, hn2, ?_⟩
    · rw [ctxRootColor_ne_nil hne RED_NODE BLACK_NODE]
      exact hc
    · simpa using hb2
  · rintro rfl
    have hne : ctx ≠ [] := by
      rintro rfl
      simp at hc
    refine ⟨?_, ?_, ?_⟩
    · rw [rootColor_plug, ctxRootColor_ne_nil hne X.rootColor RED_NODE]
      exact hc
    · rw [noRedRed_plug]
      exact ⟨hXn, ctxNRR_of_red hn2⟩
    · rw [balanced_plug]
      exact ⟨hXb, by simpa using hb2⟩

/-- The node `z` with two children is replaced by its successor `y`, which
takes the colour of `z`; the right child `Ry` of `y` takes the place of `y`. -/
theorem splice_inv_succ {z y : Nat} {cz cy : Color} {kz ky : K × V} {L Ry : Tree K V}
    {c1 ctx : List (Frame K V)}
    (hc : (plug (node y cy nil ky Ry) (c1 ++ Frame.R z cz L kz :: ctx)).rootColor = BLACK_NODE)
    (hn : (plug (node y cy nil ky Ry) (c1 ++ Frame.R z cz L kz :: ctx)).noRedRed)
    (hb : (plug (node y cy nil ky Ry) (c1 ++ Frame.R z cz L kz :: ctx)).balanced) :
    (cy = BLACK_NODE → DelInv Ry (c1 ++ Frame.R y cz L ky :: ctx)) ∧
      (cy = RED_NODE → (plug Ry (c1 ++ Frame.R y cz L ky :: ctx)).rootColor = BLACK_NODE ∧
        (plug Ry (c1 ++ Frame.R y cz L ky :: ctx)).noRedRed ∧
        (plug Ry (c1 ++ Frame.R y cz L ky :: ctx)).balanced) := by
  have hc' : (plug (node y cy nil ky Ry) (c1 ++ Frame.R y cz L ky :: ctx)).rootColor =
      BLACK_NODE := by
    rw [rootColor_plug] at hc ⊢
    rw [← ctxRootColor_relabel c1]
    exact hc
  have hn' : (plug (node y cy nil ky Ry) (c1 ++ Frame.R y cz L ky :: ctx)).noRedRed := by
    rw [noRedRed_plug] at hn ⊢
    exact ⟨hn.1, (ctxNRR_relabel c1 _).1 hn.2⟩
  have hb' : (plug (node y cy nil ky Ry) (c1 ++ Frame.R y cz L ky :: ctx)).balanced := by
    rw [balanced_plug] at hb ⊢
    exact ⟨hb.1, (ctxBal_relabel c1 _).1 hb.2⟩
  exact splice_inv (Or.inl ⟨rfl, rfl⟩) hc' hn' hb'

theorem splice_nodes_succ {z y : Nat} {cz cy : Color} {kz ky : K × V} {L Ry : Tree K V}
    {c1 ctx : List (Frame K V)} (hpre : ctxPreN c1 = []) :
    (plug (node y cy nil ky Ry) (c1 ++ Frame.R z cz L kz :: ctx)).nodes =
        (ctxPreN ctx ++ L.nodes) ++
          (z, kz) :: ((y, ky) :: Ry.nodes ++ ctxPostN c1 ++ ctxPostN ctx) ∧
      (plug Ry (c1 ++ Frame.R y cz L ky :: ctx)).nodes =
        (ctxPreN ctx ++ L.nodes) ++ ((y, ky) :: Ry.nodes ++ ctxPostN c1 ++ ctxPostN ctx) := by
  simp [nodes_plug, ctxPreN_append, ctxPostN_append, hpre, ctxPreN, ctxPostN, Tree.nodes,
    List.append_assoc]

end FtContainers

namespace FtContainers

open Color Tree

variable {K V : Type}

/-! ## `deleteNodeHelper` after the lookup -/

/-- The end of `deleteNodeHelper`: `fixDelete(x)` when the colour removed was
BLACK. -/
theorem delete_finish {t t1 : RBT K V} {X : Tree K V} {ctx1 : List (Frame K V)} {c : Color}
    (hS1 : Shape t1 (plug X ctx1)) (hnl : t1.null = t.null) (hnx : t1.next = t.next)
    (hcol : t1.color (some t.null) = t.color (some t.null)) (hsb : t.sentinelBlack)
    (hpar : X = nil → t1.parent (some t.null) = some (ctxPar ctx1))
    (hfuel : ctx1.length + 1 ≤ t.next)
    (hinv : (c = BLACK_NODE → DelInv X ctx1) ∧
      (c = RED_NODE → (plug X ctx1).rootColor = BLACK_NODE ∧ (plug X ctx1).noRedRed ∧
        (plug X ctx1).balanced)) :
    ∃ t' T', ((if c = BLACK_NODE then RBT.fixDelete t1.next t1 (X.ptr t.null) else pure t1 :
        Exec (RBT K V)) = some t') ∧
      Shape t' T' ∧ t'.null = t.null ∧ t'.next = t.next ∧ t'.sentinelBlack ∧
      T'.nodes = (plug X ctx1).nodes ∧ T'.rootColor = BLACK_NODE ∧ T'.noRedRed ∧
      T'.balanced := by
  have hs1 : t1.sentinelBlack := by
    apply sentinelBlack_of_color
    rw [hnl, hcol]
    exact sentinel_color hsb
  cases c with
  | BLACK_NODE =>
    obtain ⟨n, hn⟩ : ∃ n, t1.next = n + 1 := ⟨t.next - 1, by omega⟩
    obtain ⟨t2, T2, e2, S2, h1, h2, h3, h4, h5, h6, h7⟩ :=
      fixDelete_spec n t1 X ctx1 (by omega) hS1 hs1
        (fun hX _ => by rw [hnl]; exact hpar hX) (hinv.1 rfl)
    refine ⟨t2, T2, ?_, S2, h1.trans hnl, h2.trans hnx, h3, h4, h5, h6, h7⟩
    rw [hn, ← hnl]
    simpa using e2
  | RED_NODE =>
    obtain ⟨h5, h6, h7⟩ := hinv.2 rfl
    exact ⟨t1, _, by simp, hS1, hnl, hnx, hs1, rfl, h5, h6, h7⟩

theorem minPath_root (r : Nat) (cr : Color) (Rl : Tree K V) (kr : K × V) (Rr : Tree K V) :
    ((node r cr Rl kr Rr).minPath []).2 = [] ∧ Rl = nil ∨
      ∃ ctxI, ((node r cr Rl kr Rr).minPath []).2 = ctxI ++ [Frame.L r cr kr Rr] := by
  cases Rl with
  | nil => exact Or.inl ⟨rfl, rfl⟩
  | node b cb bl kb br =>
    right
    refine ⟨((node b cb bl kb br).minPath []).2, ?_⟩
    have := minPath_append (node b cb bl kb br) [Frame.L r cr kr Rr]
    simp only [Tree.minPath] at this ⊢
    rw [this]

variable [LinearOrder K]

/-- The relinking step and the repair of `deleteNodeHelper` for the node `z`
found by the lookup: the state then holds a tree with the nodes of the old
tree except `z`, in the same order, and invariants 1 to 3. -/
theorem delete_core {t : RBT K V} {z : Nat} {cz : Color} {L R : Tree K V} {kz : K × V}
    {ctx : List (Frame K V)} (hS : Shape t (plug (node z cz L kz R) ctx))
    (hsb : t.sentinelBlack) (hh : (plug (node z cz L kz R) ctx).height < t.next)
    (hrc : (plug (node z cz L kz R) ctx).rootColor = BLACK_NODE)
    (hnr : (plug (node z cz L kz R) ctx).noRedRed)
    (hbl : (plug (node z cz L kz R) ctx).balanced) :
    ∃ t' T', ((do
        let r ← t.deleteSplice (some z)
        if r.2.2 = BLACK_NODE then RBT.fixDelete r.1.next r.1 r.2.1 else pure r.1) :
          Exec (RBT K V)) = some t' ∧
      Shape t' T' ∧ t'.null = t.null ∧ t'.next = t.next ∧ t'.sentinelBlack ∧
      (∃ pre post, (plug (node z cz L kz R) ctx).nodes = pre ++ (z, kz) :: post ∧
        T'.nodes = pre ++ post) ∧
      T'.rootColor = BLACK_NODE ∧ T'.noRedRed ∧ T'.balanced := by
  have hlen := length_le_height (node z cz L kz R) ctx
  simp only [Tree.height] at hlen
  cases L with
  | nil =>
    obtain ⟨t1, e1, S1, hn1, hx1, hc1, hp1⟩ := deleteSplice_right hS (sentinelBlack.has_cell hsb)
    obtain ⟨t2, T2, e2, S2, h1, h2, h3, h4, h5, h6, h7⟩ :=
      delete_finish S1 hn1 hx1 hc1 hsb hp1 (by omega) (splice_inv (Or.inl ⟨rfl, rfl⟩) hrc hnr hbl)
    refine ⟨t2, T2, ?_, S2, h1, h2, h3, ⟨ctxPreN ctx, R.nodes ++ ctxPostN ctx, ?_, ?_⟩, h5, h6, h7⟩
    · simp only [e1, Exec.some_bind]
      exact e2
    · simp [nodes_plug, Tree.nodes]
    · rw [h4]
      simp [nodes_plug]
  | node l cl Ll kl Lr =>
    cases R with
    | nil =>
      obtain ⟨t1, e1, S1, hn1, hx1, hc1⟩ := deleteSplice_left hS (sentinelBlack.has_cell hsb)
      obtain ⟨t2, T2, e2, S2, h1, h2, h3, h4, h5, h6, h7⟩ :=
        delete_finish S1 hn1 hx1 hc1 hsb (fun h => by cases h) (by omega)
          (splice_inv (Or.inr ⟨rfl, rfl⟩) hrc hnr hbl)
      refine ⟨t2, T2, ?_, S2, h1, h2, h3,
        ⟨ctxPreN ctx ++ (node l cl Ll kl Lr).nodes, ctxPostN ctx, ?_, ?_⟩, h5, h6, h7⟩
      · simp only [e1, Exec.some_bind]
        exact e2
      · simp [nodes_plug, Tree.nodes]
      · rw [h4]
        simp [nodes_plug]
    | node r cr Rl kr Rr =>
      obtain ⟨y, cy, ky, Ry, hy⟩ := minPath_node r cr Rl kr Rr []
      have hpl := minPath_plug (node r cr Rl kr Rr) []
      rw [hy, plug_nil] at hpl
      have hpre := minPath_pre (node r cr Rl kr Rr)
      have hSR : Shape t (plug (node r cr Rl kr Rr)
          (Frame.R z cz (node l cl Ll kl Lr) kz :: ctx)) := hS
      have hlenR := length_le_height (node r cr Rl kr Rr)
        (Frame.R z cz (node l cl Ll kl Lr) kz :: ctx)
      have hmin : t.minFrom (some r) = some (some y) := by
        have := minLoop_eq (node r cr Rl kr Rr) (Frame.R z cz (node l cl Ll kl Lr) kz :: ctx)
          t.next hSR (fun h => by cases h) (by
            have h1 : plug (node r cr Rl kr Rr) (Frame.R z cz (node l cl Ll kl Lr) kz :: ctx) =
              plug (node z cz (node l cl Ll kl Lr) kz (node r cr Rl kr Rr)) ctx := rfl
            rw [h1] at hlenR
            omega)
        rw [minPath_append, hy] at this
        exact this
      have hroot := minPath_root r cr Rl kr Rr
      obtain ⟨c1, hc1def⟩ : ∃ c1, c1 = ((node r cr Rl kr Rr).minPath []).2 := ⟨_, rfl⟩
      rw [← hc1def] at hpl hpre hroot
      clear hc1def hy
      have hT : plug (node z cz (node l cl Ll kl Lr) kz (node r cr Rl kr Rr)) ctx =
          plug (node y cy nil ky Ry) (c1 ++ Frame.R z cz (node l cl Ll kl Lr) kz :: ctx) := by
        rw [plug_append, hpl]
        rfl
      have hlenY := length_le_height (node y cy nil ky Ry)
        (c1 ++ Frame.R z cz (node l cl Ll kl Lr) kz :: ctx)
      rw [← hT] at hlenY
      simp only [Tree.height, List.length_append, List.length_cons] at hlenY
      obtain ⟨hnodes1, hnodes2⟩ := @splice_nodes_succ K V z y cz cy kz ky (node l cl Ll kl Lr) Ry
        c1 ctx hpre
      rw [← hT] at hnodes1
      rw [hT] at hrc hnr hbl hS
      have hinv := splice_inv_succ hrc hnr hbl
      rcases hroot with ⟨hc1, hRl⟩ | ⟨ctxI, hc1⟩
      · subst hc1
        have hS' : Shape t (plug (node z cz (node l cl Ll kl Lr) kz (node y cy nil ky Ry)) ctx) :=
          hS
        have hry : r = y := by
          rw [hRl] at hpl
          simp only [plug_nil] at hpl
          cases hpl
          rfl
        subst hry
        obtain ⟨t1, e1, S1, hn1, hx1, hcc1, hp1⟩ :=
          deleteSplice_succ_child hS' (sentinelBlack.has_cell hsb) hmin
        obtain ⟨t2, T2, e2, S2, h1, h2, h3, h4, h5, h6, h7⟩ :=
          delete_finish S1 hn1 hx1 hcc1 hsb hp1
            (by simp only [List.length_cons, List.length_nil] at hlenY ⊢; omega) hinv
        refine ⟨t2, T2, ?_, S2, h1, h2, h3, ⟨_, _, hnodes1, ?_⟩, h5, h6, h7⟩
        · simp only [e1, Exec.some_bind]
          exact e2
        · rw [h4]
          exact hnodes2
      · subst hc1
        have ez : (ctxI ++ [Frame.L r cr kr Rr]) ++ Frame.R z cz (node l cl Ll kl Lr) kz :: ctx =
            ctxI ++ Frame.L r cr kr Rr :: Frame.R z cz (node l cl Ll kl Lr) kz :: ctx := by simp
        have ey : (ctxI ++ [Frame.L r cr kr Rr]) ++ Frame.R y cz (node l cl Ll kl Lr) ky :: ctx =
            ctxI ++ Frame.L r cr kr Rr :: Frame.R y cz (node l cl Ll kl Lr) ky :: ctx := by simp
        rw [ez] at hS
        rw [ey] at hinv hnodes2
        obtain ⟨t1, e1, S1, hn1, hx1, hcc1, hp1⟩ :=
          deleteSplice_succ_deep hS (sentinelBlack.has_cell hsb) hmin
        obtain ⟨t2, T2, e2, S2, h1, h2, h3, h4, h5, h6, h7⟩ :=
          delete_finish S1 hn1 hx1 hcc1 hsb hp1
            (by simp only [List.length_append, List.length_cons, List.length_nil] at hlenY ⊢
                omega) hinv
        refine ⟨t2, T2, ?_, S2, h1, h2, h3, ⟨_, _, hnodes1, ?_⟩, h5, h6, h7⟩
        · simp only [e1, Exec.some_bind]
          exact e2
        · rw [h4]
          exact hnodes2

end FtContainers

namespace FtContainers

open Color Tree

variable {K V : Type} [LinearOrder K]

/-! ## `deleteNode` -/

/-- A key that is absent: the lookup ends with `z == _null` and nothing is
changed. -/
theorem delete_absent {t : RBT K V} {T : Tree K V} {kv : K × V} (ht : t.tree = some T)
    (hb : T.BST) (hk : kv.1 ∉ T.keys) : t.deleteNode kv = some t := by
  have hS := Shape.of_tree ht hb
  have h1 := @deleteLoop_eq _ _ _ t kv T [] t.next (some t.null) (by simpa using hS)
    (by simpa using hb) (tree_height_lt ht)
  rw [(find_nil_iff kv.1 T hb).2 hk] at h1
  simp only at h1
  unfold RBT.deleteNode
  rw [deleteNodeHelper_eq, hS.root, h1]
  simp

theorem sublist_middle {α : Type} (pre post : List α) (x : α) :
    (pre ++ post).Sublist (pre ++ x :: post) :=
  List.Sublist.append_left (List.sublist_cons_self x post) pre

/-- A key that is present: `deleteNode` returns, the state is well-formed
again and its tree has the nodes of the old tree except the node `z` that
`searchTree` finds, in the same order. -/
theorem delete_present {t : RBT K V} {T : Tree K V} {kv : K × V} (ht : t.tree = some T)
    (h : t.WF) (hk : kv.1 ∈ T.keys) :
    ∃ t' T' z v pre post, t.deleteNode kv = some t' ∧ t'.WF ∧ t'.tree = some T' ∧
      t.searchTree kv = some (some z) ∧ T.nodes = pre ++ (z, (kv.1, v)) :: post ∧
      T'.nodes = pre ++ post ∧ t'.null = t.null ∧ t'.next = t.next := by
  obtain ⟨T0, ht0, hS, hb, hlt, hn, hsb, hrc, hnr, hbl⟩ := h.unpack
  have : T0 = T := Option.some.inj (ht0.symm.trans ht)
  subst this
  have hfind : (T0.find kv.1 []).1 ≠ nil := fun e => (find_nil_iff kv.1 T0 hb).1 e hk
  have hloop := @deleteLoop_eq _ _ _ t kv T0 [] t.next (some t.null) (by simpa using hS)
    (by simpa using hb) (tree_height_lt ht)
  have hsearch := searchTree_eq kv ht hb
  have hp := find_plug kv.1 T0 []
  rcases find_cases kv.1 T0 [] with e | ⟨z, c, l, v, r, e⟩
  · exact absurd e hfind
  · rw [e] at hp hloop hsearch
    rw [plug_nil] at hp
    simp only at hloop
    obtain ⟨ctx, hctx⟩ : ∃ ctx, ctx = (T0.find kv.1 []).2 := ⟨_, rfl⟩
    rw [← hctx] at hp
    subst hp
    have hz : z ≠ t.null := hS.focus_ne_null
    obtain ⟨t', T', e1, S1, hnl, hnx, hsb', ⟨pre, post, hn1, hn2⟩, hrc', hnr', hbl'⟩ :=
      delete_core hS hsb (tree_height_lt ht) hrc hnr hbl
    have hsub : T'.nodes.Sublist (plug (node z c l (kv.1, v) r) ctx).nodes := by
      rw [hn1, hn2]
      exact sublist_middle pre post _
    have hbst : T'.BST := by
      unfold Tree.BST at hb ⊢
      rw [Tree.keys_eq_nodes] at hb ⊢
      exact hb.sublist (hsub.map _)
    have hw := RBT.WF.pack S1 hbst (by
        intro a ha
        rw [hnx]
        apply hlt
        rw [Tree.addrs_eq_nodes] at ha ⊢
        exact (hsub.map _).subset ha) (by rw [hnl, hnx]; exact hn) hsb' hrc' hnr' hbl'
    refine ⟨t', T', z, v, pre, post, ?_, hw.2, hw.1, hsearch, hn1, hn2, hnl, hnx⟩
    unfold RBT.deleteNode
    rw [deleteNodeHelper_eq, hS.root]
    simp only [ptr_plug, plug_nil] at hloop ⊢
    rw [hloop]
    simp only [Exec.some_bind, Option.some.injEq, hz, if_false]
    exact e1

end FtContainers

namespace FtContainers

open Color Tree

variable {K V : Type} [LinearOrder K]

/-! ## Claims on `deleteNode` -/

/-- The keys after `deleteNode(key)`, whether the key is present or not: the
keys before the call other than `key.first`. -/
theorem delete_keys {t : RBT K V} {T : Tree K V} (kv : K × V) (ht : t.tree = some T)
    (h : t.WF) :
    ∃ t' T', t.deleteNode kv = some t' ∧ t'.WF ∧ t'.tree = some T' ∧ t'.null = t.null ∧
      ∀ k, k ∈ T'.keys ↔ k ∈ T.keys ∧ k ≠ kv.1 := by
  obtain ⟨T0, ht0, hS, hb, -⟩ := h.unpack
  have : T0 = T := Option.some.inj (ht0.symm.trans ht)
  subst this
  by_cases hk : kv.1 ∈ T0.keys
  · obtain ⟨t', T', z, v, pre, post, e, hw, ht', -, hn1, hn2, hnl, -⟩ := delete_present ht h hk
    refine ⟨t', T', e, hw, ht', hnl, fun k => ?_⟩
    have hnd := hb.nodup_keys
    rw [Tree.keys_eq_nodes, hn1] at hnd
    rw [Tree.keys_eq_nodes, Tree.keys_eq_nodes, hn1, hn2]
    simp only [List.map_append, List.map_cons, List.nodup_append, List.nodup_cons,
      List.mem_append, List.mem_cons, List.disjoint_cons_right] at hnd ⊢
    constructor
    · rintro (hm | hm)
      · exact ⟨Or.inl hm, fun e' => hnd.2.2.1 (e' ▸ hm)⟩
      · exact ⟨Or.inr (Or.inr hm), fun e' => hnd.2.1.1 (e' ▸ hm)⟩
    · rintro ⟨hm | hm | hm, hne⟩
      · exact Or.inl hm
      · exact absurd hm hne
      · exact Or.inr hm
  · refine ⟨t, T0, delete_absent ht hb hk, h, ht, rfl, fun k => ?_⟩
    exact ⟨fun hm => ⟨hm, fun e' => hk (e' ▸ hm)⟩, fun hm => hm.1⟩

/-- C2: `deleteNode` preserves the red-black invariants.  On every tree with
BST ordering, consistent parent links and invariants 1 to 4, and for every
key, present or absent, `deleteNode` returns and the state it leaves satisfies
invariants 1 to 4: root BLACK, no RED node with a RED child, equal
black-height on all paths, sentinel BLACK. -/
theorem deleteNode_preserves_redblack (t : RBT K V) (key : K × V) (h : t.WF) :
    ∃ t', t.deleteNode key = some t' ∧ t'.RedBlack := by
  obtain ⟨T, ht, -⟩ := h.unpack
  obtain ⟨t', T', e, hw, -⟩ := delete_keys key ht h
  exact ⟨t', e, hw.2.2⟩

theorem deleteNode_preserves_redblack_witness :
    demo.WF ∧ ∃ t', demo.deleteNode (20, 0) = some t' ∧ t'.RedBlack :=
  ⟨demo_wf, deleteNode_preserves_redblack demo (20, 0) demo_wf⟩

/-- C6: on every well-formed tree and for every key, `deleteNode(key)`
returns, and `searchTree(key)` on the state it leaves returns the sentinel. -/
theorem delete_then_search (t : RBT K V) (key : K × V) (h : t.WF) :
    ∃ t', t.deleteNode key = some t' ∧ t'.searchTree key = some (some t'.null) := by
  obtain ⟨T, ht, -⟩ := h.unpack
  obtain ⟨t', T', e, hw, ht', -, hk⟩ := delete_keys key ht h
  obtain ⟨T1, ht1, -, hb1, -⟩ := hw.unpack
  have : T1 = T' := Option.some.inj (ht1.symm.trans ht')
  subst this
  exact ⟨t', e, search_absent ht' hb1 (fun hm => ((hk key.1).1 hm).2 rfl)⟩

theorem delete_then_search_witness :
    demo.WF ∧ ∃ t', demo.deleteNode (20, 0) = some t' ∧
      t'.searchTree (20, 0) = some (some t'.null) :=
  ⟨demo_wf, delete_then_search demo (20, 0) demo_wf⟩

/-- C7: on every well-formed tree and for every key present in it,
`deleteNode(key)` returns, and the in-order sequence of pairs afterwards is the
in-order sequence before the call with the one entry of that key taken out:
what is before it and what is after it stay as they are, in the same order. -/
theorem delete_inorder (t : RBT K V) (key : K × V) (h : t.WF) (hk : key.1 ∈ t.keys) :
    ∃ t' v pre post, t.deleteNode key = some t' ∧
      t.inorder = pre ++ (key.1, v) :: post ∧ t'.inorder = pre ++ post ∧
      key.1 ∉ (pre ++ post).map Prod.fst := by
  obtain ⟨T, ht, -, hb, -⟩ := h.unpack
  rw [RBT.keys_of_tree ht] at hk
  obtain ⟨t', T', z, v, pre, post, e, hw, ht', -, hn1, hn2, -, -⟩ := delete_present ht h hk
  refine ⟨t', v, pre.map Prod.snd, post.map Prod.snd, e, ?_, ?_, ?_⟩
  · rw [RBT.inorder_of_tree ht, Tree.inorder_eq_nodes, hn1]
    simp
  · rw [RBT.inorder_of_tree ht', Tree.inorder_eq_nodes, hn2]
    simp
  · have hnd := hb.nodup_keys
    rw [Tree.keys_eq_nodes, hn1] at hnd
    simp only [List.map_append, List.map_cons, List.nodup_append, List.nodup_cons,
      List.mem_append, List.mem_cons, List.disjoint_cons_right, List.map_map,
      List.mem_map, not_or] at hnd ⊢
    refine ⟨fun hm => hnd.2.2.1 ?_, fun hm => hnd.2.1.1 ?_⟩
    · obtain ⟨a, ha, e'⟩ := hm
      exact ⟨a, ha, e'⟩
    · obtain ⟨a, ha, e'⟩ := hm
      exact ⟨a, ha, e'⟩

theorem delete_inorder_witness :
    demo.WF ∧ 20 ∈ demo.keys ∧
      (∃ t' v pre post, demo.deleteNode (20, 0) = some t' ∧
        demo.inorder = pre ++ (20, v) :: post ∧ t'.inorder = pre ++ post ∧
        20 ∉ (pre ++ post).map Prod.fst) ∧
      (((RBT.new : RBT Nat Nat).insertAll [(10, 0), (20, 0), (30, 0), (40, 0), (50, 0)]).bind
        fun t => (t.deleteNode (20, 0)).map fun t' => (t.inorder, t'.inorder)) =
          some ([(10, 0), (20, 0), (30, 0), (40, 0), (50, 0)],
            [(10, 0), (30, 0), (40, 0), (50, 0)]) :=
  ⟨demo_wf, by decide, delete_inorder demo (20, 0) demo_wf (by decide), rfl⟩

/-- C8: delete of a key that is absent is a no-op.  On every well-formed tree
and for every key not present in it, `deleteNode(key)` returns the state it
was called on: `_root`, every cell with its key, value, colour and links, and
so the in-order sequence, are unchanged. -/
theorem delete_absent_noop (t : RBT K V) (key : K × V) (h : t.WF) (hk : key.1 ∉ t.keys) :
    t.deleteNode key = some t := by
  obtain ⟨T, ht, -, hb, -⟩ := h.unpack
  rw [RBT.keys_of_tree ht] at hk
  exact delete_absent ht hb hk

theorem delete_absent_noop_witness :
    demo.WF ∧ 25 ∉ demo.keys ∧ demo.deleteNode (25, 0) = some demo :=
  ⟨demo_wf, by decide, delete_absent_noop demo (25, 0) demo_wf (by decide)⟩

/-- Deleting the listed keys one after another from a well-formed tree. -/
theorem deleteAll_spec (p : List (K × V)) :
    ∀ (t : RBT K V) (T : Tree K V), t.WF → t.tree = some T →
      ∃ t' T', t.deleteAll p = some t' ∧ t'.WF ∧ t'.tree = some T' ∧
        ∀ k, k ∈ T'.keys ↔ k ∈ T.keys ∧ k ∉ p.map Prod.fst := by
  induction p with
  | nil =>
    intro t T h ht
    exact ⟨t, T, rfl, h, ht, fun k => by simp⟩
  | cons kv rest ih =>
    intro t T h ht
    obtain ⟨t1, T1, e1, h1, ht1, -, hk1⟩ := delete_keys kv ht h
    obtain ⟨t2, T2, e2, h2, ht2, hk2⟩ := ih t1 T1 h1 ht1
    refine ⟨t2, T2, ?_, h2, ht2, fun k => ?_⟩
    · simp only [RBT.deleteAll, e1, Exec.some_bind]
      exact e2
    · rw [hk2, hk1]
      simp only [List.map_cons, List.mem_cons, not_or]
      tauto

/-- C9: round trip to empty.  For every finite list of pairs with pairwise
distinct keys and every list `p` whose keys are a permutation of them,
inserting the pairs into the freshly constructed tree in the order of the list
and then calling `deleteNode` on the keys in the order of `p`: every call
returns and the final state has `_root == _null`. -/
theorem round_trip_empty [Inhabited K] [Inhabited V] (l p : List (K × V))
    (hd : (l.map Prod.fst).Nodup) (hp : (p.map Prod.fst).Perm (l.map Prod.fst)) :
    ∃ t t', (RBT.new : RBT K V).insertAll l = some t ∧ t.deleteAll p = some t' ∧
      t'.root = some t'.null := by
  obtain ⟨h0, hw⟩ := new_wf (K := K) (V := V)
  obtain ⟨t, T, e, h, ht, -, hperm⟩ := insertAll_spec l _ nil hw h0 hd (by
    intro x _ hx
    exact absurd hx (List.not_mem_nil _))
  obtain ⟨t', T', e', h', ht', hk'⟩ := deleteAll_spec p t T h ht
  refine ⟨t, t', e, e', ?_⟩
  have hT' : T' = nil := by
    cases T' with
    | nil => rfl
    | node a c l' kv r' =>
      exfalso
      have hm : kv.1 ∈ (node a c l' kv r').keys := by simp [Tree.keys, Tree.inorder]
      obtain ⟨h1, h2⟩ := (hk' kv.1).1 hm
      apply h2
      rw [hp.mem_iff]
      have : kv.1 ∈ (l ++ (nil : Tree K V).inorder).map Prod.fst :=
        (hperm.map Prod.fst).mem_iff.1 h1
      simpa [Tree.inorder] using this
  subst hT'
  obtain ⟨T1, ht1, hS1, -⟩ := h'.unpack
  have : T1 = nil := Option.some.inj (ht1.symm.trans ht')
  subst this
  exact hS1.root

theorem round_trip_empty_witness :
    ([(20, 0), (10, 0), (30, 0)].map Prod.fst).Nodup ∧
      ([(30, 0), (20, 0), (10, 0)].map Prod.fst).Perm ([(20, 0), (10, 0), (30, 0)].map Prod.fst) ∧
      ∃ t t', (RBT.new : RBT Nat Nat).insertAll [(20, 0), (10, 0), (30, 0)] = some t ∧
        t.deleteAll [(30, 0), (20, 0), (10, 0)] = some t' ∧ t'.root = some t'.null :=
  ⟨by decide, by decide,
    round_trip_empty [(20, 0), (10, 0), (30, 0)] [(30, 0), (20, 0), (10, 0)] (by decide)
      (by decide)⟩

end FtContainers

namespace FtContainers

open Color Tree

variable {K V : Type}

/-! ## Height of a red-black tree -/

theorem Tree.pow_bh_le_size (T : Tree K V) (hb : T.balanced) : 2 ^ T.bh ≤ T.size + 1 := by
  induction T with
  | nil => simp [Tree.bh, Tree.size]
  | node a c l kv r ihl ihr =>
    obtain ⟨h1, h2, h3⟩ := hb
    have hl := ihl h2
    have hr := ihr h3
    rw [← h1] at hr
    simp only [Tree.bh, Tree.size]
    have : 2 ^ (l.bh + if c = BLACK_NODE then 1 else 0) ≤ 2 ^ (l.bh + 1) :=
      Nat.pow_le_pow_right (by decide) (by split <;> omega)
    rw [Nat.pow_succ] at this
    omega

theorem Tree.height_le_bh (T : Tree K V) (hn : T.noRedRed) (hb : T.balanced) :
    T.height ≤ 2 * T.bh + (if T.rootColor = RED_NODE then 1 else 0) := by
  induction T with
  | nil => simp [Tree.bh, Tree.height]
  | node a c l kv r ihl ihr =>
    obtain ⟨h1, h2, h3⟩ := hb
    obtain ⟨g1, g2, g3⟩ := hn
    have hl := ihl g2 h2
    have hr := ihr g3 h3
    rw [← h1] at hr
    simp only [Tree.bh, Tree.height, Tree.rootColor_node]
    cases c with
    | RED_NODE =>
      obtain ⟨e1, e2⟩ := g1 rfl
      rw [e1] at hl
      rw [e2] at hr
      simp only [reduceCtorEq, if_false, if_true, Nat.add_zero] at hl hr ⊢
      omega
    | BLACK_NODE =>
      simp only [reduceCtorEq, if_false, if_true, Nat.add_zero] at hl hr ⊢
      split at hl <;> split at hr <;> omega

/-- Height bound of a tree with a BLACK root, no RED-RED pair and equal
black-heights. -/
theorem Tree.height_bound (T : Tree K V) (hc : T.rootColor = BLACK_NODE) (hn : T.noRedRed)
    (hb : T.balanced) :
    2 ^ ((T.height + 1) / 2) ≤ T.size + 1 ∧ T.height ≤ 2 * Nat.log 2 (T.size + 1) := by
  have h1 := T.pow_bh_le_size hb
  have h2 := T.height_le_bh hn hb
  rw [hc] at h2
  simp only [reduceCtorEq, if_false, Nat.add_zero] at h2
  have h3 : (T.height + 1) / 2 ≤ T.bh := by omega
  have h4 : T.bh ≤ Nat.log 2 (T.size + 1) := Nat.le_log_of_pow_le (by decide) h1
  exact ⟨le_trans (Nat.pow_le_pow_right (by decide) h3) h1, by omega⟩

variable [LinearOrder K]

/-- Every sequence of `insert` and `deleteNode` calls on a well-formed tree
returns and leaves a well-formed tree. -/
theorem run_wf (ops : List (Op K V)) :
    ∀ t : RBT K V, t.WF → ∃ t', t.run ops = some t' ∧ t'.WF := by
  induction ops with
  | nil => intro t h; exact ⟨t, rfl, h⟩
  | cons op rest ih =>
    intro t h
    obtain ⟨T, ht, -⟩ := h.unpack
    cases op with
    | ins kv =>
      have h1 : ∃ r, t.insert kv = some r ∧ r.1.WF := by
        by_cases hk : kv.1 ∈ T.keys
        · obtain ⟨t', a, e, -, -, -, -, -, -, -, hw⟩ := insert_present ht h hk
          exact ⟨_, e, hw⟩
        · obtain ⟨t', y, T', e, hw, -⟩ := insert_absent ht h hk
          exact ⟨_, e, hw⟩
      obtain ⟨r, e1, hw1⟩ := h1
      obtain ⟨t2, e2, hw2⟩ := ih r.1 hw1
      refine ⟨t2, ?_, hw2⟩
      simp only [RBT.run, e1, Exec.some_bind]
      exact e2
    | del kv =>
      obtain ⟨t1, T1, e1, hw1, -⟩ := delete_keys kv ht h
      obtain ⟨t2, e2, hw2⟩ := ih t1 hw1
      refine ⟨t2, ?_, hw2⟩
      simp only [RBT.run, e1, Exec.some_bind]
      exact e2

/-- C16: the tree stays balanced.  Every sequence of `insert` and `deleteNode`
calls on the freshly constructed tree returns, and the tree it leaves, with
`n` nodes and height `h` (the number of nodes on the longest path from the
root to a sentinel link), satisfies `2 ^ ceil(h / 2) ≤ n + 1` and
`h ≤ 2 * log2 (n + 1)`. -/
theorem height_logarithmic [Inhabited K] [Inhabited V] (ops : List (Op K V)) :
    ∃ t T, (RBT.new : RBT K V).run ops = some t ∧ t.tree = some T ∧
      2 ^ ((T.height + 1) / 2) ≤ T.size + 1 ∧ T.height ≤ 2 * Nat.log 2 (T.size + 1) := by
  obtain ⟨-, hw⟩ := new_wf (K := K) (V := V)
  obtain ⟨t, e, h⟩ := run_wf ops _ hw
  obtain ⟨T, ht, -, -, -, -, -, hrc, hnr, hbl⟩ := h.unpack
  exact ⟨t, T, e, ht, T.height_bound hrc hnr hbl⟩

/-! ## Parent link of the root -/

/-- In a state that holds a non-empty tree the parent link of the root node is
`ft_nullptr`. -/
theorem root_parent_of_wf {t : RBT K V} (h : t.WF) (hne : t.root ≠ some t.null) :
    t.parent t.root = some none := by
  obtain ⟨T, ht, hS, -⟩ := h.unpack
  cases T with
  | nil => exact absurd hS.root hne
  | node a c l kv r =>
    have h0 : Shape t (plug (node a c l kv r) []) := hS
    rw [hS.root]
    exact h0.parent_eq

/-- C18 as stated fails: after `insert(10)` on the freshly constructed tree the
parent link of the root node is `ft_nullptr`, not the sentinel. -/
theorem root_parent_not_sentinel :
    ¬ (∀ r, (RBT.new : RBT Nat Nat).insert (10, 7) = some r →
      r.1.parent r.1.root = some (some r.1.null)) := by
  intro h
  have h1 := h _ rfl
  have h2 : some (some _) = (some none : Exec Ptr) := h1.symm.trans rfl
  exact Option.noConfusion (Option.some.inj h2)

/-- C18, amended: the parent link of the root node is `ft_nullptr`.  On every
well-formed tree and for every key, `insert` returns and leaves a non-empty
tree whose root node has parent link `ft_nullptr`, and `deleteNode` returns and,
when the tree it leaves is not empty, its root node has parent link
`ft_nullptr`. -/
theorem root_parent_null (t : RBT K V) (key : K × V) (h : t.WF) :
    (∃ r, t.insert key = some r ∧ r.1.root ≠ some r.1.null ∧
      r.1.parent r.1.root = some none) ∧
    (∃ t', t.deleteNode key = some t' ∧
      (t'.root ≠ some t'.null → t'.parent t'.root = some none)) := by
  obtain ⟨T, ht, -⟩ := h.unpack
  constructor
  · have h1 : ∃ r T', t.insert key = some r ∧ r.1.WF ∧ r.1.tree = some T' ∧
        key.1 ∈ T'.keys := by
      by_cases hk : key.1 ∈ T.keys
      · obtain ⟨t', a, e, -, -, -, -, -, -, ht', hw⟩ := insert_present ht h hk
        exact ⟨_, T, e, hw, ht', hk⟩
      · obtain ⟨t', y, T', e, hw, ht', hp, -⟩ := insert_absent ht h hk
        refine ⟨_, T', e, hw, ht', ?_⟩
        exact List.mem_map.2 ⟨key, hp.mem_iff.2 (List.mem_cons_self _ _), rfl⟩
    obtain ⟨r, T', e, hw, ht', hm⟩ := h1
    have hne : r.1.root ≠ some r.1.null := by
      obtain ⟨T1, ht1, hS1, -⟩ := hw.unpack
      have : T1 = T' := Option.some.inj (ht1.symm.trans ht')
      subst this
      cases T1 with
      | nil => simp [Tree.keys, Tree.inorder] at hm
      | node a c l kv r' =>
        rw [hS1.root]
        have h0 : Shape r.1 (plug (node a c l kv r') []) := hS1
        exact fun e' => h0.focus_ne_null (Option.some.inj e')
    exact ⟨r, e, hne, root_parent_of_wf hw hne⟩
  · obtain ⟨t', T', e, hw, -⟩ := delete_keys key ht h
    exact ⟨t', e, root_parent_of_wf hw⟩

theorem root_parent_null_witness :
    demo.WF ∧
      (∃ r, demo.insert (25, 7) = some r ∧ r.1.root ≠ some r.1.null ∧
        r.1.parent r.1.root = some none) ∧
      (∃ t', demo.deleteNode (20, 0) = some t' ∧
        (t'.root ≠ some t'.null → t'.parent t'.root = some none)) :=
  ⟨demo_wf, root_parent_null demo (25, 7) demo_wf |>.1, root_parent_null demo (20, 0) demo_wf |>.2⟩

end FtContainers

namespace FtContainers

open Color Tree

variable {K V : Type}

/-! ## Reachability and the tree of a state -/

theorem Tree.sub_focus : ∀ (path : List Bool) (T : Tree K V) (ctx0 : List (Frame K V))
    (U : Tree K V), T.sub path = some U → ∃ ctx, plug T ctx0 = plug U ctx := by
  intro path
  induction path with
  | nil =>
    intro T ctx0 U h
    cases T <;> simp only [Tree.sub, Option.some.injEq] at h <;> subst h <;> exact ⟨ctx0, rfl⟩
  | cons d ds ih =>
    intro T ctx0 U h
    cases T with
    | nil => simp [Tree.sub] at h
    | node a c l kv r =>
      simp only [Tree.sub] at h
      cases d with
      | true => exact ih r (Frame.R a c l kv :: ctx0) U h
      | false => exact ih l (Frame.L a c kv r :: ctx0) U h

theorem Tree.sub_mem {path : List Bool} {T : Tree K V} {a : Nat} {c : Color} {l r : Tree K V}
    {kv : K × V} (h : T.sub path = some (node a c l kv r)) : a ∈ T.addrs := by
  obtain ⟨ctx, e⟩ := Tree.sub_focus path T [] _ h
  rw [plug_nil] at e
  rw [e, mem_addrs_plug]
  exact Or.inl (by simp [Tree.addrs])

/-- Following links in the memory is descending in the tree. -/
theorem walk_sub {t : RBT K V} : ∀ (path : List Bool) (S : Tree K V) (ctx : List (Frame K V)),
    Shape t (plug S ctx) →
      t.walk path (S.ptr t.null) = (S.sub path).map (fun U => U.ptr t.null) := by
  intro path
  induction path with
  | nil => intro S ctx _; cases S <;> rfl
  | cons d ds ih =>
    intro S ctx hS
    cases S with
    | nil => simp [RBT.walk, Tree.sub]
    | node a c l kv r =>
      have ha : a ≠ t.null := hS.focus_ne_null
      cases d with
      | true =>
        simp only [RBT.walk, Tree.ptr_node, Option.some.injEq, ha, if_false, if_true,
          hS.right_eq, Exec.some_bind, Tree.sub]
        exact ih r (Frame.R a c l kv :: ctx) hS
      | false =>
        simp only [RBT.walk, Tree.ptr_node, Option.some.injEq, ha, if_false,
          hS.left_eq, Exec.some_bind, Tree.sub, Bool.false_eq_true]
        exact ih l (Frame.L a c kv r :: ctx) hS

/-- A pointer reached by a walk from the root that is a real node is the root
of the subtree at that path. -/
theorem walk_node {t : RBT K V} {T : Tree K V} (hS : Shape t T) {path : List Bool} {a : Nat}
    (ha : a ≠ t.null) (hw : t.walk path t.root = some (some a)) :
    ∃ c l kv r, T.sub path = some (node a c l kv r) := by
  have h0 : Shape t (plug T []) := hS
  rw [hS.root, walk_sub path T [] h0] at hw
  cases hsub : T.sub path with
  | none => rw [hsub] at hw; cases hw
  | some U =>
    rw [hsub] at hw
    cases U with
    | nil =>
      exact absurd (Option.some.inj (Option.some.inj hw)).symm ha
    | node b c l kv r =>
      have : b = a := Option.some.inj (Option.some.inj hw)
      subst this
      exact ⟨c, l, kv, r, rfl⟩

theorem Tree.sub_unique : ∀ (T : Tree K V), T.addrs.Nodup → ∀ (p q : List Bool) (a : Nat)
    (c c' : Color) (l l' r r' : Tree K V) (kv kv' : K × V),
    T.sub p = some (node a c l kv r) → T.sub q = some (node a c' l' kv' r') → p = q := by
  intro T
  induction T with
  | nil =>
    intro _ p q a c c' l l' r r' kv kv' h1 _
    cases p <;> simp [Tree.sub] at h1
  | node b cb L kb R ihl ihr =>
    intro hnd p q a c c' l l' r r' kv kv' h1 h2
    simp only [Tree.addrs, List.nodup_append, List.nodup_cons, List.mem_append, List.mem_cons,
      not_or, List.disjoint_cons_right] at hnd
    obtain ⟨hL, ⟨hbR, hR⟩, hbL, hdisj⟩ := hnd
    cases p with
    | nil =>
      simp only [Tree.sub, Option.some.injEq] at h1
      cases h1
      cases q with
      | nil => rfl
      | cons d ds =>
        simp only [Tree.sub] at h2
        have hm := Tree.sub_mem h2
        cases d with
        | true => exact absurd hm hbR
        | false => exact absurd hm hbL
    | cons d ds =>
      simp only [Tree.sub] at h1
      have hm1 := Tree.sub_mem h1
      cases q with
      | nil =>
        simp only [Tree.sub, Option.some.injEq] at h2
        cases h2
        cases d with
        | true => exact absurd hm1 hbR
        | false => exact absurd hm1 hbL
      | cons d' ds' =>
        simp only [Tree.sub] at h2
        have hm2 := Tree.sub_mem h2
        cases d with
        | true =>
          cases d' with
          | true => rw [ihr hR ds ds' a c c' l l' r r' kv kv' h1 h2]
          | false => exact absurd hm1 (fun h => hdisj hm2 h)
        | false =>
          cases d' with
          | true => exact absurd hm2 (fun h => hdisj hm1 h)
          | false => rw [ihl hL ds ds' a c c' l l' r r' kv kv' h1 h2]

/-- The nodes reachable from `_root` are the nodes of the tree. -/
theorem Shape.reach_mem {t : RBT K V} {T : Tree K V} (hS : Shape t T) {a : Nat}
    (h : t.Reach a) : a ∈ T.addrs := by
  obtain ⟨ha, path, hw⟩ := h
  obtain ⟨c, l, kv, r, hsub⟩ := walk_node hS ha hw
  exact Tree.sub_mem hsub

theorem RBT.walk_append (t : RBT K V) : ∀ (p q : List Bool) (x : Ptr),
    t.walk (p ++ q) x = (t.walk p x >>= t.walk q) := by
  intro p
  induction p with
  | nil => intro q x; rfl
  | cons d ds ih =>
    intro q x
    simp only [List.cons_append, RBT.walk]
    by_cases hx : x = some t.null
    · simp only [hx, if_true]; rfl
    · simp only [hx, if_false]
      cases d with
      | true =>
        simp only [if_true]
        cases hr : t.right x with
        | none => rfl
        | some y => exact ih q y
      | false =>
        simp only [Bool.false_eq_true, if_false]
        cases hl : t.left x with
        | none => rfl
        | some y => exact ih q y

/-- A child of a reachable node that is not the sentinel is reachable. -/
theorem RBT.Reach.child {t : RBT K V} {a b : Nat} (h : t.Reach a) (d : Bool)
    (hb : b ≠ t.null)
    (hl : (if d then t.right (some a) else t.left (some a)) = some (some b)) : t.Reach b := by
  obtain ⟨ha, path, hw⟩ := h
  refine ⟨hb, path ++ [d], ?_⟩
  rw [RBT.walk_append, hw]
  have hne : (some a : Ptr) ≠ some t.null := fun e => ha (Option.some.inj e)
  show t.walk [d] (some a) = some (some b)
  simp only [RBT.walk, hne, if_false]
  cases d with
  | true =>
    simp only [if_true] at hl ⊢
    rw [hl]
    rfl
  | false =>
    simp only [Bool.false_eq_true, if_false] at hl ⊢
    rw [hl]
    rfl

/-- A state that holds a tree has consistent links. -/
theorem Shape.linksConsistent {t : RBT K V} {T : Tree K V} (hS : Shape t T) :
    t.LinksConsistent := by
  constructor
  · intro a hr
    obtain ⟨c, l, kv, r, ctx, e⟩ := Tree.focus_of_addr T [] (hS.reach_mem hr)
    rw [plug_nil] at e
    rw [e] at hS
    refine ⟨_, _, hS.left_eq, hS.right_eq, ?_, ?_⟩
    · cases l with
      | nil => exact Or.inl rfl
      | node b cb bl kb br =>
        have hl : Shape t (plug (node b cb bl kb br) (Frame.L a c kv r :: ctx)) := hS
        exact Or.inr ⟨b, rfl, hr.child false hl.focus_ne_null hS.left_eq, hl.parent_eq⟩
    · cases r with
      | nil => exact Or.inl rfl
      | node b cb bl kb br =>
        have hr' : Shape t (plug (node b cb bl kb br) (Frame.R a c l kv :: ctx)) := hS
        exact Or.inr ⟨b, rfl, hr.child true hr'.focus_ne_null hS.right_eq, hr'.parent_eq⟩
  · intro a p q ha hp hq
    obtain ⟨c, l, kv, r, h1⟩ := walk_node hS ha hp
    obtain ⟨c', l', kv', r', h2⟩ := walk_node hS ha hq
    exact Tree.sub_unique T hS.nodup p q a c c' l l' r r' kv kv' h1 h2

variable [LinearOrder K]

theorem RBT.WF.links {t : RBT K V} (h : t.WF) : t.LinksConsistent := by
  obtain ⟨T, -, hS, -⟩ := h.unpack
  exact hS.linksConsistent

end FtContainers

namespace FtContainers

open Color Tree

variable {K V : Type}

/-! ## Two states that hold the same tree -/

/-- The tree held by a state determines the cell of every node. -/
theorem Shape.heap_eq {t u : RBT K V} {T : Tree K V} (hS : Shape t T) (hU : Shape u T)
    (hn : u.null = t.null) : u.root = t.root ∧ ∀ a ∈ T.addrs, u.heap a = t.heap a := by
  refine ⟨by rw [hS.root, hU.root, hn], fun a ha => ?_⟩
  obtain ⟨c, l, kv, r, ctx, e⟩ := Tree.focus_of_addr T [] ha
  rw [plug_nil] at e
  rw [e] at hS hU
  rw [hS.cell, hU.cell, hn]

theorem Shape.mem_of_right {t : RBT K V} {s x : Nat} {cs : Color} {A R : Tree K V} {ks : K × V}
    {ctx : List (Frame K V)} (hS : Shape t (plug (node s cs A ks R) ctx))
    (hr : t.right (some s) = some (some x)) (hx : x ≠ t.null) :
    ∃ cx B kx C, R = node x cx B kx C := by
  rw [hS.right_eq] at hr
  cases R with
  | nil => exact absurd (Option.some.inj (Option.some.inj hr)).symm hx
  | node x' cx B kx C =>
    cases Option.some.inj (Option.some.inj hr)
    exact ⟨cx, B, kx, C, rfl⟩

theorem Shape.mem_of_left {t : RBT K V} {s x : Nat} {cs : Color} {L A : Tree K V} {ks : K × V}
    {ctx : List (Frame K V)} (hS : Shape t (plug (node s cs L ks A) ctx))
    (hr : t.left (some s) = some (some x)) (hx : x ≠ t.null) :
    ∃ cx C kx B, L = node x cx C kx B := by
  rw [hS.left_eq] at hr
  cases L with
  | nil => exact absurd (Option.some.inj (Option.some.inj hr)).symm hx
  | node x' cx C kx B =>
    cases Option.some.inj (Option.some.inj hr)
    exact ⟨cx, C, kx, B, rfl⟩

variable [LinearOrder K]

/-! ## Rotations undo one another -/

/-- C27: left and right rotation are mutually inverse.  On a well-formed tree,
for a node `s` whose right child `x` is not the sentinel, `leftRotate(s)`
followed by `rightRotate(x)` returns and restores `_root`, the cell of every
node reachable from the root (so its parent, left and right links, and its
colour and pair), the sentinel cell and the tree; symmetrically for
`rightRotate(s)` followed by `leftRotate(x)` when `x` is the left child of
`s`. -/
theorem rotations_inverse (t : RBT K V) (h : t.WF) (s x : Nat) (hs : t.Reach s)
    (hx : x ≠ t.null) :
    (t.right (some s) = some (some x) →
      ∃ t1 t2, t.leftRotate (some s) = some t1 ∧ t1.rightRotate (some x) = some t2 ∧
        t2.root = t.root ∧ (∀ a, t.Reach a → t2.heap a = t.heap a) ∧
        t2.heap t.null = t.heap t.null ∧ t2.null = t.null ∧ t2.next = t.next ∧
        t2.tree = t.tree) ∧
    (t.left (some s) = some (some x) →
      ∃ t1 t2, t.rightRotate (some s) = some t1 ∧ t1.leftRotate (some x) = some t2 ∧
        t2.root = t.root ∧ (∀ a, t.Reach a → t2.heap a = t.heap a) ∧
        t2.heap t.null = t.heap t.null ∧ t2.null = t.null ∧ t2.next = t.next ∧
        t2.tree = t.tree) := by
  obtain ⟨T, ht, hS, hb, hlt, hn, hsb, -⟩ := h.unpack
  obtain ⟨cs, L, ks, R, ctx, e⟩ := Tree.focus_of_addr T [] (hS.reach_mem hs)
  rw [plug_nil] at e
  have hS0 := hS
  rw [e] at hS
  constructor
  · intro hr
    obtain ⟨cx, B, kx, C, rfl⟩ := hS.mem_of_right hr hx
    obtain ⟨t1, e1, S1, M1, -⟩ := hS.leftRotate
    obtain ⟨t2, e2, S2, M2, -⟩ := S1.rightRotate
    have M := M1.trans M2
    rw [← e] at S2
    obtain ⟨hroot, hcells⟩ := Shape.heap_eq hS0 S2 M.null
    refine ⟨t1, t2, e1, e2, hroot, fun a ha => hcells a (hS0.reach_mem ha), M.cell, M.null,
      M.next, ?_⟩
    rw [ht]
    exact S2.tree_eq (by rw [M.next]; exact hlt) (by rw [M.null, M.next]; exact hn)
  · intro hl
    obtain ⟨cx, C, kx, B, rfl⟩ := hS.mem_of_left hl hx
    obtain ⟨t1, e1, S1, M1, -⟩ := hS.rightRotate
    obtain ⟨t2, e2, S2, M2, -⟩ := S1.leftRotate
    have M := M1.trans M2
    rw [← e] at S2
    obtain ⟨hroot, hcells⟩ := Shape.heap_eq hS0 S2 M.null
    refine ⟨t1, t2, e1, e2, hroot, fun a ha => hcells a (hS0.reach_mem ha), M.cell, M.null,
      M.next, ?_⟩
    rw [ht]
    exact S2.tree_eq (by rw [M.next]; exact hlt) (by rw [M.null, M.next]; exact hn)

theorem demo_reach_root : demo.Reach 2 := ⟨by decide, [], rfl⟩

theorem rotations_inverse_witness :
    demo.WF ∧ demo.Reach 2 ∧ 3 ≠ demo.null ∧ demo.right (some 2) = some (some 3) ∧
      ∃ t1 t2, demo.leftRotate (some 2) = some t1 ∧ t1.rightRotate (some 3) = some t2 ∧
        t2.root = demo.root ∧ (∀ a, demo.Reach a → t2.heap a = demo.heap a) ∧
        t2.heap demo.null = demo.heap demo.null ∧ t2.null = demo.null ∧ t2.next = demo.next ∧
        t2.tree = demo.tree :=
  ⟨demo_wf, demo_reach_root, by decide, rfl,
    (rotations_inverse demo demo_wf 2 3 demo_reach_root (by decide)).1 rfl⟩

end FtContainers

namespace FtContainers

open Color Tree

variable {K V : Type}

/-! ## The footprint of `rbTransplant` -/

theorem RBT.parent_setCell_links {t : RBT K V} {p : Nat} {np m : RBT_Node K V}
    (hnp : t.heap p = some np) (hpar : m.parent = np.parent) (r : Ptr) (q : Ptr) :
    (RBT.mk r t.null (setCell t.heap p (some m)) t.next).parent q = t.parent q := by
  cases q with
  | none => rfl
  | some a =>
    by_cases hap : a = p
    · subst hap
      simp [RBT.parent, setCell_same, hnp, hpar]
    · simp [RBT.parent, setCell_other _ _ hap]

/-- What `rbTransplant(u, v)` writes, for allocated cells `u`, `v` and an
allocated parent of `u`: cell by cell. -/
theorem RBT.rbTransplant_cells {t : RBT K V} {u b : Nat} {nu nv : RBT_Node K V}
    (hu : t.heap u = some nu) (hb : t.heap b = some nv)
    (hp : ∀ p, nu.parent = some p → ∃ np, t.heap p = some np) :
    ∃ t', t.rbTransplant (some u) (some b) = some t' ∧ t'.null = t.null ∧ t'.next = t.next ∧
      t'.root = (if nu.parent = none then some b else t.root) ∧
      (∀ a, t.heap a = none → t'.heap a = none) ∧
      ∀ a n, t.heap a = some n → t'.heap a = some
        { val := n.val, color := n.color,
          parent := if a = b then nu.parent else n.parent,
          left := if nu.parent = some a ∧ some u = n.left then some b else n.left,
          right := if nu.parent = some a ∧ some u ≠ n.left then some b else n.right } := by
  have e0 : t.parent (some u) = some nu.parent := RBT.parent_of hu
  cases hpar : nu.parent with
  | none =>
    rw [hpar] at e0
    have e1 : (RBT.mk (some b) t.null t.heap t.next).setParent (some b) none =
        some (RBT.mk (some b) t.null (setCell t.heap b (some { nv with parent := none })) t.next) :=
      RBT.setParent_of (t := RBT.mk (some b) t.null t.heap t.next) hb none
    have e0' : (RBT.mk (some b) t.null t.heap t.next).parent (some u) = some none := by
      rw [RBT.parent_of (t := RBT.mk (some b) t.null t.heap t.next) hu, hpar]
    refine ⟨RBT.mk (some b) t.null (setCell t.heap b (some { nv with parent := none })) t.next,
      ?_, rfl, rfl, by simp, ?_, ?_⟩
    · simp only [RBT.rbTransplant, e0, Exec.some_bind, if_true, Exec.pure_eq]
      rw [e0']
      exact e1
    · intro a ha
      have hab : a ≠ b := by rintro rfl; rw [hb] at ha; cases ha
      simp only [setCell_other _ _ hab, ha]
    · intro a n ha
      by_cases hab : a = b
      · subst hab
        rw [hb] at ha
        cases ha
        simp [setCell_same]
      · simp [setCell_other _ _ hab, ha, hab]
  | some p =>
    rw [hpar] at e0
    obtain ⟨np, hnp⟩ := hp p hpar
    have e1 : t.left (some p) = some np.left := RBT.left_of hnp
    by_cases hl : some u = np.left
    · have e2 : t.setLeft (some p) (some b) = some (RBT.mk t.root t.null
          (setCell t.heap p (some { np with left := some b })) t.next) := RBT.setLeft_of hnp (some b)
      have e0' : (RBT.mk t.root t.null (setCell t.heap p (some { np with left := some b }))
          t.next).parent (some u) = some (some p) := by
        exact (RBT.parent_setCell_links (m := { np with left := some b }) hnp rfl _ _).trans e0
      obtain ⟨nv', hnv', hv⟩ : ∃ nv', (RBT.mk t.root t.null
          (setCell t.heap p (some { np with left := some b })) t.next).heap b = some nv' ∧
          nv' = (if b = p then { np with left := some b } else nv) := by
        by_cases hbp : b = p
        · subst hbp
          exact ⟨_, setCell_same _ _ _, by simp⟩
        · exact ⟨nv, by simp [setCell_other _ _ hbp, hb], by simp [hbp]⟩
      have e3 : (RBT.mk t.root t.null (setCell t.heap p (some { np with left := some b }))
          t.next).setParent (some b) (some p) = some (RBT.mk t.root t.null
            (setCell (setCell t.heap p (some { np with left := some b })) b
              (some { nv' with parent := some p })) t.next) := RBT.setParent_of hnv' (some p)
      refine ⟨RBT.mk t.root t.null
            (setCell (setCell t.heap p (some { np with left := some b })) b
              (some { nv' with parent := some p })) t.next, ?_, rfl, rfl, by simp, ?_, ?_⟩
      · simp only [RBT.rbTransplant, e0, Exec.some_bind, reduceCtorEq, if_false, e1]
        rw [if_pos hl, e2]
        simp only [Exec.some_bind]
        rw [e0']
        exact e3
      · intro a ha
        have hab : a ≠ b := by rintro rfl; rw [hb] at ha; cases ha
        have hap : a ≠ p := by rintro rfl; rw [hnp] at ha; cases ha
        simp only [setCell_other _ _ hab, setCell_other _ _ hap, ha]
      · intro a n ha
        by_cases hab : a = b
        · subst hab
          rw [hb] at ha
          cases ha
          by_cases hap : a = p
          · subst hap
            rw [hb] at hnp
            cases hnp
            simp [setCell_same, hv, hl]
          · have hpa : ¬ p = a := fun h => hap h.symm
            simp [setCell_same, hv, hap, hpa]
        · by_cases hap : a = p
          · subst hap
            rw [hnp] at ha
            cases ha
            simp [setCell_same, setCell_other _ _ hab, hab, hl]
          · have hpa : ¬ p = a := fun h => hap h.symm
            simp [setCell_other _ _ hap, setCell_other _ _ hab, ha, hab, hpa]
    · have e2 : t.setRight (some p) (some b) = some (RBT.mk t.root t.null
          (setCell t.heap p (some { np with right := some b })) t.next) :=
        RBT.setRight_of hnp (some b)
      have e0' : (RBT.mk t.root t.null (setCell t.heap p (some { np with right := some b }))
          t.next).parent (some u) = some (some p) := by
        exact (RBT.parent_setCell_links (m := { np with right := some b }) hnp rfl _ _).trans e0
      obtain ⟨nv', hnv', hv⟩ : ∃ nv', (RBT.mk t.root t.null
          (setCell t.heap p (some { np with right := some b })) t.next).heap b = some nv' ∧
          nv' = (if b = p then { np with right := some b } else nv) := by
        by_cases hbp : b = p
        · subst hbp
          exact ⟨_, setCell_same _ _ _, by simp⟩
        · exact ⟨nv, by simp [setCell_other _ _ hbp, hb], by simp [hbp]⟩
      have e3 : (RBT.mk t.root t.null (setCell t.heap p (some { np with right := some b }))
          t.next).setParent (some b) (some p) = some (RBT.mk t.root t.null
            (setCell (setCell t.heap p (some { np with right := some b })) b
              (some { nv' with parent := some p })) t.next) := RBT.setParent_of hnv' (some p)
      refine ⟨RBT.mk t.root t.null
            (setCell (setCell t.heap p (some { np with right := some b })) b
              (some { nv' with parent := some p })) t.next, ?_, rfl, rfl, by simp, ?_, ?_⟩
      · simp only [RBT.rbTransplant, e0, Exec.some_bind, reduceCtorEq, if_false, e1]
        rw [if_neg hl, e2]
        simp only [Exec.some_bind]
        rw [e0']
        exact e3
      · intro a ha
        have hab : a ≠ b := by rintro rfl; rw [hb] at ha; cases ha
        have hap : a ≠ p := by rintro rfl; rw [hnp] at ha; cases ha
        simp only [setCell_other _ _ hab, setCell_other _ _ hap, ha]
      · intro a n ha
        by_cases hab : a = b
        · subst hab
          rw [hb] at ha
          cases ha
          by_cases hap : a = p
          · subst hap
            rw [hb] at hnp
            cases hnp
            simp [setCell_same, hv, hl]
          · have hpa : ¬ p = a := fun h => hap h.symm
            simp [setCell_same, hv, hap, hpa]
        · by_cases hap : a = p
          · subst hap
            rw [hnp] at ha
            cases ha
            simp [setCell_same, setCell_other _ _ hab, hab, hl]
          · have hpa : ¬ p = a := fun h => hap h.symm
            simp [setCell_other _ _ hap, setCell_other _ _ hab, ha, hab, hpa]

/-- The cell of a node that is reachable or is the sentinel is allocated. -/
theorem Shape.allocated_of_reach {t : RBT K V} {T : Tree K V} (hS : Shape t T)
    (hsb : t.sentinelBlack) {v : Ptr}
    (hv : v = some t.null ∨ ∃ b, v = some b ∧ t.Reach b) :
    ∃ b nv, v = some b ∧ t.heap b = some nv := by
  rcases hv with rfl | ⟨b, rfl, hb⟩
  · obtain ⟨n, hn⟩ := sentinelBlack.has_cell hsb
    exact ⟨_, n, rfl, hn⟩
  · obtain ⟨c, l, kv, r, ctx, e⟩ := Tree.focus_of_addr T [] (hS.reach_mem hb)
    rw [plug_nil] at e
    rw [e] at hS
    exact ⟨b, _, rfl, hS.cell⟩

variable [LinearOrder K]

/-- C29: transplant has a minimal footprint.  On a well-formed tree, for a
node `u` and a `v` that is a node or the sentinel, `rbTransplant(u, v)`
returns; `_root` becomes `v` when `u` has no parent and is unchanged
otherwise; in every allocated cell the pair and the colour are unchanged, the
parent link changes only in the cell of `v`, where it becomes the former
parent `up` of `u`, and a left or right link changes only in the cell of `up`
and only if it pointed to `u`, where it becomes `v`; the cell of `u` is
unchanged, and no cell is allocated or released. -/
theorem transplant_footprint (t : RBT K V) (h : t.WF) (u : Nat) (v : Ptr) (hu : t.Reach u)
    (hv : v = some t.null ∨ ∃ b, v = some b ∧ t.Reach b) :
    ∃ t' up, t.parent (some u) = some up ∧ t.rbTransplant (some u) v = some t' ∧
      t'.null = t.null ∧ t'.next = t.next ∧
      t'.root = (if up = none then v else t.root) ∧
      t'.parent v = some up ∧ t'.heap u = t.heap u ∧
      (∀ a, t.heap a = none → t'.heap a = none) ∧
      ∀ a n, t.heap a = some n → t'.heap a = some
        { val := n.val, color := n.color,
          parent := if some a = v then up else n.parent,
          left := if up = some a ∧ n.left = some u then v else n.left,
          right := if up = some a ∧ n.right = some u then v else n.right } := by
  obtain ⟨T, ht, hS, hb, hlt, hn, hsb, -⟩ := h.unpack
  obtain ⟨b, nv, rfl, hnv⟩ := hS.allocated_of_reach hsb hv
  obtain ⟨cu, L, ku, R, ctx, e⟩ := Tree.focus_of_addr T [] (hS.reach_mem hu)
  rw [plug_nil] at e
  rw [e] at hS
  have hcu := hS.cell
  have hun := hS.focus_ne_null
  -- the cell of the parent and which of its links points to `u`
  have hpcell : ∀ p, ctxPar ctx = some p → ∃ np, t.heap p = some np ∧ p ≠ u ∧
      (some u ≠ np.left ↔ np.right = some u) ∧ (some u = np.left ↔ np.left = some u) := by
    intro p hp
    cases ctx with
    | nil => cases hp
    | cons f rest =>
      have hne := hS.focus_ne_frame
      simp only [ctxPar_cons, Option.some.injEq] at hp
      subst hp
      cases f with
      | L p cp kp pr =>
        have hP : Shape t (plug (node p cp (node u cu L ku R) kp pr) rest) := hS
        have hnr : pr.ptr t.null ≠ some u :=
          hS.ptr_ne (T := plug (node u cu L ku R) (Frame.L p cp kp pr :: rest))
            (U := pr) (a := u) (by simp [mem_addrs_plug, Tree.addrs])
            (hP.sep.2.2.2.1 u (by simp [Tree.addrs]))
        refine ⟨_, hP.cell, Ne.symm hne, ?_, ?_⟩
        · simp only [Tree.ptr_node, ne_eq, not_true_eq_false, false_iff]
          exact hnr
        · simp only [Tree.ptr_node]
      | R p cp pl kp =>
        have hP : Shape t (plug (node p cp pl kp (node u cu L ku R)) rest) := hS
        have hnl : pl.ptr t.null ≠ some u :=
          hS.ptr_ne (T := plug (node u cu L ku R) (Frame.R p cp pl kp :: rest))
            (U := pl) (a := u) (by simp [mem_addrs_plug, Tree.addrs])
            (fun hm => hP.sep.2.2.2.1 u hm (by simp [Tree.addrs]))
        refine ⟨_, hP.cell, Ne.symm hne, ?_, ?_⟩
        · simp only [Tree.ptr_node, ne_eq, iff_true]
          exact fun e1 => hnl e1.symm
        · exact ⟨fun e1 => e1.symm, fun e1 => e1.symm⟩
  obtain ⟨t', e1, h1, h2, h3, h4, h5⟩ := RBT.rbTransplant_cells hcu hnv
    (fun p hp => (hpcell p hp).imp fun _ h => h.1)
  have hcell : ∀ a n, t.heap a = some n → t'.heap a = some
        { val := n.val, color := n.color,
          parent := if some a = some b then ctxPar ctx else n.parent,
          left := if ctxPar ctx = some a ∧ n.left = some u then some b else n.left,
          right := if ctxPar ctx = some a ∧ n.right = some u then some b else n.right } := by
    intro a n ha
    rw [h5 a n ha]
    by_cases hpa : ctxPar ctx = some a
    · obtain ⟨np, hnp, -, hr, hl⟩ := hpcell a hpa
      rw [ha] at hnp
      cases hnp
      simp only [hpa, true_and, Option.some.injEq, hr, hl]
    · simp only [hpa, false_and, if_false, Option.some.injEq]
  refine ⟨t', ctxPar ctx, hS.parent_eq, e1, h1, h2, h3, ?_, ?_, h4, hcell⟩
  · rw [RBT.parent_of (hcell b nv hnv)]
    simp
  · rw [hcell u _ hcu, hcu]
    have hne : ¬ ctxPar ctx = some u := by
      intro hp
      exact (hpcell u hp).choose_spec.2.1 rfl
    simp [hne]

theorem transplant_footprint_witness :
    demo.WF ∧ demo.Reach 2 ∧
      ∃ t' up, demo.parent (some 2) = some up ∧ demo.rbTransplant (some 2) (some 0) = some t' ∧
      t'.null = demo.null ∧ t'.next = demo.next ∧
      t'.root = (if up = none then some 0 else demo.root) ∧
      t'.parent (some 0) = some up ∧ t'.heap 2 = demo.heap 2 ∧
      (∀ a, demo.heap a = none → t'.heap a = none) ∧
      ∀ a n, demo.heap a = some n → t'.heap a = some
        { val := n.val, color := n.color,
          parent := if some a = some 0 then up else n.parent,
          left := if up = some a ∧ n.left = some 2 then some 0 else n.left,
          right := if up = some a ∧ n.right = some 2 then some 0 else n.right } :=
  ⟨demo_wf, demo_reach_root, transplant_footprint demo demo_wf 2 (some 0) demo_reach_root (Or.inl rfl)⟩

end FtContainers

namespace FtContainers

open Color Tree

variable {K V : Type}

/-! ## The writes keep the key/value pairs in place -/

theorem RBT.KeepsVals.same (t : RBT K V) : t.KeepsVals t := fun _ => rfl

/-- A write through a pointer that keeps `val` of the node. -/
theorem RBT.modify_vals {t0 t t' : RBT K V} {p : Ptr} {f : RBT_Node K V → RBT_Node K V}
    (h : t.modify p f = some t') (hf : ∀ n, (f n).val = n.val) (hP : t0.KeepsVals t) :
    t0.KeepsVals t' := by
  intro q
  rw [← hP q]
  cases p with
  | none => simp [RBT.modify] at h
  | some a =>
    cases hc : t.heap a with
    | none => simp [RBT.modify, hc] at h
    | some n =>
      rw [RBT.modify_of hc] at h
      cases h
      by_cases hq : q = a
      · subst hq
        simp [hc, hf n]
      · simp [setCell_other _ _ hq]

theorem RBT.leftRotate_vals {t0 t t' : RBT K V} {s : Ptr} (h : t.leftRotate s = some t')
    (hP : t0.KeepsVals t) : t0.KeepsVals t' := by
  intro q
  rw [← hP q]
  have := congrArg (Option.map Prod.fst) (RBT.leftRotate_payload h q)
  simpa [Option.map_map, Function.comp_def] using this

theorem RBT.rightRotate_vals {t0 t t' : RBT K V} {s : Ptr} (h : t.rightRotate s = some t')
    (hP : t0.KeepsVals t) : t0.KeepsVals t' := by
  intro q
  rw [← hP q]
  have := congrArg (Option.map Prod.fst) (RBT.rightRotate_payload h q)
  simpa [Option.map_map, Function.comp_def] using this

theorem RBT.root_vals {t0 t : RBT K V} (r : Ptr) (hP : t0.KeepsVals t) :
    t0.KeepsVals { t with root := r } := hP

theorem RBT.rbTransplant_vals {t0 t t' : RBT K V} {u v : Ptr} (h : t.rbTransplant u v = some t')
    (hP : t0.KeepsVals t) : t0.KeepsVals t' := by
  simp only [RBT.rbTransplant, RBT.setLeft, RBT.setRight, RBT.setParent, RBT.setColor, Exec.bind_assoc, Exec.ite_bind, Exec.pure_eq, Exec.some_bind] at h
  obtain ⟨up, -, h⟩ := Exec.bind_eq_some h
  split at h
  · obtain ⟨up2, -, h⟩ := Exec.bind_eq_some h
    exact RBT.modify_vals h (fun _ => rfl) (RBT.root_vals _ hP)
  · obtain ⟨upl, -, h⟩ := Exec.bind_eq_some h
    split at h
    · obtain ⟨t1, h1, h⟩ := Exec.bind_eq_some h
      obtain ⟨up2, -, h⟩ := Exec.bind_eq_some h
      exact RBT.modify_vals h (fun _ => rfl) (RBT.modify_vals h1 (fun _ => rfl) hP)
    · obtain ⟨t1, h1, h⟩ := Exec.bind_eq_some h
      obtain ⟨up2, -, h⟩ := Exec.bind_eq_some h
      exact RBT.modify_vals h (fun _ => rfl) (RBT.modify_vals h1 (fun _ => rfl) hP)

theorem RBT.fixDeleteLeft_vals {t0 t : RBT K V} {x s : Ptr} {r : RBT K V × Ptr}
    (h : t.fixDeleteLeft x s = some r) (hP : t0.KeepsVals t) : t0.KeepsVals r.1 := by
  simp only [RBT.fixDeleteLeft, RBT.setLeft, RBT.setRight, RBT.setParent, RBT.setColor, Exec.bind_assoc, Exec.ite_bind, Exec.pure_eq, Exec.some_bind] at h
  repeat' first
    | (cases h; exact hP)
    | exact RBT.modify_vals h (fun _ => rfl) hP
    | exact RBT.leftRotate_vals h hP
    | exact RBT.rightRotate_vals h hP
    | (obtain ⟨t1, h1, h⟩ := Exec.bind_eq_some h
       first
          | replace hP := RBT.modify_vals h1 (fun _ => rfl) hP
          | replace hP := RBT.leftRotate_vals h1 hP
          | replace hP := RBT.rightRotate_vals h1 hP
          | skip
       clear h1)
    | split at h

theorem RBT.fixDeleteRight_vals {t0 t : RBT K V} {x s : Ptr} {r : RBT K V × Ptr}
    (h : t.fixDeleteRight x s = some r) (hP : t0.KeepsVals t) : t0.KeepsVals r.1 := by
  simp only [RBT.fixDeleteRight, RBT.setLeft, RBT.setRight, RBT.setParent, RBT.setColor, Exec.bind_assoc, Exec.ite_bind, Exec.pure_eq, Exec.some_bind] at h
  repeat' first
    | (cases h; exact hP)
    | exact RBT.modify_vals h (fun _ => rfl) hP
    | exact RBT.leftRotate_vals h hP
    | exact RBT.rightRotate_vals h hP
    | (obtain ⟨t1, h1, h⟩ := Exec.bind_eq_some h
       first
          | replace hP := RBT.modify_vals h1 (fun _ => rfl) hP
          | replace hP := RBT.leftRotate_vals h1 hP
          | replace hP := RBT.rightRotate_vals h1 hP
          | skip
       clear h1)
    | split at h

theorem RBT.fixDeleteBody_vals {t0 t : RBT K V} {x : Ptr} {r : RBT K V × Ptr}
    (h : t.fixDeleteBody x = some r) (hP : t0.KeepsVals t) : t0.KeepsVals r.1 := by
  rw [fixDeleteBody_eq] at h
  obtain ⟨xp, -, h⟩ := Exec.bind_eq_some h
  obtain ⟨xpl, -, h⟩ := Exec.bind_eq_some h
  split at h
  ·
    obtain ⟨s, -, h⟩ := Exec.bind_eq_some h
    obtain ⟨sc, -, h⟩ := Exec.bind_eq_some h
    dsimp only at h
    split at h
    · simp only [RBT.setColor] at h
      obtain ⟨t1, h1, h⟩ := Exec.bind_eq_some h
      replace hP := RBT.modify_vals h1 (fun _ => rfl) hP
      obtain ⟨xp1, -, h⟩ := Exec.bind_eq_some h
      obtain ⟨t2, h2, h⟩ := Exec.bind_eq_some h
      replace hP := RBT.modify_vals h2 (fun _ => rfl) hP
      obtain ⟨xp2, -, h⟩ := Exec.bind_eq_some h
      obtain ⟨t3, h3, h⟩ := Exec.bind_eq_some h
      replace hP := RBT.leftRotate_vals h3 hP
      obtain ⟨xp3, -, h⟩ := Exec.bind_eq_some h
      obtain ⟨s3, -, h⟩ := Exec.bind_eq_some h
      simp only [Exec.pure_eq, Exec.some_bind] at h
      exact RBT.fixDeleteLeft_vals h hP
    · simp only [Exec.pure_eq, Exec.some_bind] at h
      exact RBT.fixDeleteLeft_vals h hP
  ·
    obtain ⟨s, -, h⟩ := Exec.bind_eq_some h
    obtain ⟨sc, -, h⟩ := Exec.bind_eq_some h
    dsimp only at h
    split at h
    · simp only [RBT.setColor] at h
      obtain ⟨t1, h1, h⟩ := Exec.bind_eq_some h
      replace hP := RBT.modify_vals h1 (fun _ => rfl) hP
      obtain ⟨xp1, -, h⟩ := Exec.bind_eq_some h
      obtain ⟨t2, h2, h⟩ := Exec.bind_eq_some h
      replace hP := RBT.modify_vals h2 (fun _ => rfl) hP
      obtain ⟨xp2, -, h⟩ := Exec.bind_eq_some h
      obtain ⟨t3, h3, h⟩ := Exec.bind_eq_some h
      replace hP := RBT.rightRotate_vals h3 hP
      obtain ⟨xp3, -, h⟩ := Exec.bind_eq_some h
      obtain ⟨s3, -, h⟩ := Exec.bind_eq_some h
      simp only [Exec.pure_eq, Exec.some_bind] at h
      exact RBT.fixDeleteRight_vals h hP
    · simp only [Exec.pure_eq, Exec.some_bind] at h
      exact RBT.fixDeleteRight_vals h hP

theorem RBT.fixDelete_vals : ∀ (n : Nat) {t0 t t' : RBT K V} {x : Ptr},
    RBT.fixDelete n t x = some t' → t0.KeepsVals t → t0.KeepsVals t' := by
  intro n
  induction n with
  | zero => intro t0 t t' x h; simp [RBT.fixDelete] at h
  | succ n ih =>
    intro t0 t t' x h hP
    simp only [RBT.fixDelete, RBT.setLeft, RBT.setRight, RBT.setParent, RBT.setColor, Exec.bind_assoc, Exec.ite_bind, Exec.pure_eq, Exec.some_bind] at h
    split at h
    · obtain ⟨c, -, h⟩ := Exec.bind_eq_some h
      split at h
      · obtain ⟨r, h1, h⟩ := Exec.bind_eq_some h
        exact ih h (RBT.fixDeleteBody_vals h1 hP)
      · exact RBT.modify_vals h (fun _ => rfl) hP
    · exact RBT.modify_vals h (fun _ => rfl) hP

theorem RBT.deallocate_vals {t0 t t' : RBT K V} {z : Ptr} (h : t.deallocate z = some t')
    (hP : t0.KeepsVals t) :
    ∃ a, z = some a ∧ t'.heap a = none ∧
      ∀ q, q ≠ a → (t'.heap q).map (fun n => n.val) = (t0.heap q).map (fun n => n.val) := by
  cases z with
  | none => simp [RBT.deallocate] at h
  | some a =>
    cases hc : t.heap a with
    | none => simp [RBT.deallocate, hc] at h
    | some n =>
      rw [RBT.deallocate_of hc] at h
      cases h
      refine ⟨a, rfl, setCell_same _ _ _, fun q hq => ?_⟩
      rw [← hP q]
      simp [setCell_other _ _ hq]

/-- The relinking step of `deleteNodeHelper` releases the cell of `z` and
leaves the key/value pair of every other cell in place. -/
theorem RBT.deleteSplice_vals {t0 t : RBT K V} {z : Ptr} {r : RBT K V × Ptr × Color}
    (h : t.deleteSplice z = some r) (hP : t0.KeepsVals t) :
    ∃ a, z = some a ∧ r.1.heap a = none ∧
      ∀ q, q ≠ a → (r.1.heap q).map (fun n => n.val) = (t0.heap q).map (fun n => n.val) := by
  simp only [RBT.deleteSplice, RBT.setLeft, RBT.setRight, RBT.setParent, RBT.setColor, Exec.bind_assoc, Exec.ite_bind, Exec.pure_eq, Exec.some_bind] at h
  repeat' first
    | (cases h; exact hP)
    | exact RBT.modify_vals h (fun _ => rfl) hP
    | exact RBT.rbTransplant_vals h hP
    | exact RBT.deallocate_vals h hP
    | (obtain ⟨t1, h1, h⟩ := Exec.bind_eq_some h
       first
          | replace hP := RBT.modify_vals h1 (fun _ => rfl) hP
          | replace hP := RBT.rbTransplant_vals h1 hP
          | replace hP := RBT.deallocate_vals h1 hP
          | skip
       clear h1)
    | split at h

variable [LinearOrder K]

/-- Function `deleteNode` releases the cell of the node found by the lookup
and leaves the key/value pair of every other cell in place. -/
theorem RBT.deleteNode_vals {t t' : RBT K V} {key : K × V} {z : Nat}
    (h : t.deleteNode key = some t')
    (hz : t.deleteLoop key t.next t.root (some t.null) = some (some z)) (hzn : z ≠ t.null) :
    t'.heap z = none ∧
      ∀ q, q ≠ z → (t'.heap q).map (fun n => n.val) = (t.heap q).map (fun n => n.val) := by
  rw [RBT.deleteNode, deleteNodeHelper_eq, hz] at h
  have hne : ¬ ((some z : Ptr) = some t.null) := fun e => hzn (Option.some.inj e)
  simp only [Exec.some_bind, hne, if_false] at h
  obtain ⟨r, h1, h⟩ := Exec.bind_eq_some h
  obtain ⟨a, ha, h2, h3⟩ := RBT.deleteSplice_vals h1 (RBT.KeepsVals.same t)
  cases ha
  split at h
  · have hv := RBT.fixDelete_vals _ h (RBT.KeepsVals.same r.1)
    refine ⟨?_, fun q hq => (hv q).trans (h3 q hq)⟩
    have := hv z
    rw [h2] at this
    simpa using this
  · cases h
    exact ⟨h2, h3⟩

end FtContainers

namespace FtContainers

open Color Tree

variable {K V : Type}

/-! ## The relinking step when `z` has two children -/

/-- The root of a tree plugged into a non-empty path does not depend on the
tree. -/
theorem ctxRoot_ne_nil {ctx : List (Frame K V)} (h : ctx ≠ []) (p q : Ptr) :
    ctxRoot p ctx = ctxRoot q ctx := by
  cases ctx with
  | nil => exact absurd rfl h
  | cons f rest => rfl

variable [LinearOrder K]

/-- The relinking step of `deleteNodeHelper` for a node `z` with two children:
the leftmost node `y` of the right subtree of `z` is unlinked and put in the
place of `z`, with the colour and the left subtree of `z`. -/
theorem deleteSplice_succ {t : RBT K V} {z l r : Nat} {cz cl cr : Color}
    {Ll Lr Rl Rr : Tree K V} {kz kl kr : K × V} {ctx : List (Frame K V)}
    (hS : Shape t (plug (node z cz (node l cl Ll kl Lr) kz (node r cr Rl kr Rr)) ctx))
    (hsn : ∃ n, t.heap t.null = some n)
    (hh : (plug (node z cz (node l cl Ll kl Lr) kz (node r cr Rl kr Rr)) ctx).height < t.next) :
    ∃ y cy ky Ry c1 t1, (node r cr Rl kr Rr).minPath [] = (node y cy nil ky Ry, c1) ∧
      plug (node y cy nil ky Ry) c1 = node r cr Rl kr Rr ∧ ctxPreN c1 = [] ∧
      t.minFrom (some r) = some (some y) ∧
      t.deleteSplice (some z) = some (t1, Ry.ptr t.null, cy) ∧
      Shape t1 (plug Ry (c1 ++ Frame.R y cz (node l cl Ll kl Lr) ky :: ctx)) ∧
      t1.null = t.null ∧ t1.next = t.next ∧
      t1.color (some t.null) = t.color (some t.null) ∧
      (Ry = nil → t1.parent (some t.null) =
        some (ctxPar (c1 ++ Frame.R y cz (node l cl Ll kl Lr) ky :: ctx))) := by
  have hlen := length_le_height (node z cz (node l cl Ll kl Lr) kz (node r cr Rl kr Rr)) ctx
  simp only [Tree.height] at hlen
  obtain ⟨y, cy, ky, Ry, hy⟩ := minPath_node r cr Rl kr Rr []
  have hpl := minPath_plug (node r cr Rl kr Rr) []
  rw [hy, plug_nil] at hpl
  have hpre := minPath_pre (node r cr Rl kr Rr)
  have hSR : Shape t (plug (node r cr Rl kr Rr)
      (Frame.R z cz (node l cl Ll kl Lr) kz :: ctx)) := hS
  have hlenR := length_le_height (node r cr Rl kr Rr)
    (Frame.R z cz (node l cl Ll kl Lr) kz :: ctx)
  have hmin : t.minFrom (some r) = some (some y) := by
    have := minLoop_eq (node r cr Rl kr Rr) (Frame.R z cz (node l cl Ll kl Lr) kz :: ctx)
      t.next hSR (fun h => by cases h) (by
        have h1 : plug (node r cr Rl kr Rr) (Frame.R z cz (node l cl Ll kl Lr) kz :: ctx) =
          plug (node z cz (node l cl Ll kl Lr) kz (node r cr Rl kr Rr)) ctx := rfl
        rw [h1] at hlenR
        omega)
    rw [minPath_append, hy] at this
    exact this
  have hroot := minPath_root r cr Rl kr Rr
  obtain ⟨c1, hc1def⟩ : ∃ c1, c1 = ((node r cr Rl kr Rr).minPath []).2 := ⟨_, rfl⟩
  rw [← hc1def] at hpl hpre hroot
  have hmp : (node r cr Rl kr Rr).minPath [] = (node y cy nil ky Ry, c1) := by
    rw [hc1def, ← hy]
  clear hc1def hy
  have hT : plug (node z cz (node l cl Ll kl Lr) kz (node r cr Rl kr Rr)) ctx =
      plug (node y cy nil ky Ry) (c1 ++ Frame.R z cz (node l cl Ll kl Lr) kz :: ctx) := by
    rw [plug_append, hpl]
    rfl
  rw [hT] at hS
  rcases hroot with ⟨hc1, hRl⟩ | ⟨ctxI, hc1⟩
  · subst hc1
    have hS' : Shape t (plug (node z cz (node l cl Ll kl Lr) kz (node y cy nil ky Ry)) ctx) :=
      hS
    have hry : r = y := by
      rw [hRl] at hpl
      simp only [plug_nil] at hpl
      cases hpl
      rfl
    subst hry
    obtain ⟨t1, e1, S1, hn1, hx1, hcc1, hp1⟩ :=
      deleteSplice_succ_child hS' hsn hmin
    exact ⟨r, cy, ky, Ry, [], t1, hmp, hpl, hpre, hmin, e1, S1, hn1, hx1, hcc1, hp1⟩
  · subst hc1
    have ez : (ctxI ++ [Frame.L r cr kr Rr]) ++ Frame.R z cz (node l cl Ll kl Lr) kz :: ctx =
        ctxI ++ Frame.L r cr kr Rr :: Frame.R z cz (node l cl Ll kl Lr) kz :: ctx := by simp
    have ey : (ctxI ++ [Frame.L r cr kr Rr]) ++ Frame.R y cz (node l cl Ll kl Lr) ky :: ctx =
        ctxI ++ Frame.L r cr kr Rr :: Frame.R y cz (node l cl Ll kl Lr) ky :: ctx := by simp
    rw [ez] at hS
    obtain ⟨t1, e1, S1, hn1, hx1, hcc1, hp1⟩ :=
      deleteSplice_succ_deep hS hsn hmin
    rw [← ey] at S1 hp1
    exact ⟨y, cy, ky, Ry, _, t1, hmp, hpl, hpre, hmin, e1, S1, hn1, hx1, hcc1, hp1⟩

/-- The leftmost node of a subtree is its root or a node other than the root. -/
theorem minPath_root_ne {y r : Nat} {cy cr : Color} {ky kr : K × V} {Ry Rl Rr : Tree K V}
    {c1 : List (Frame K V)} (hpl : plug (node y cy nil ky Ry) c1 = node r cr Rl kr Rr)
    (hnd : (node r cr Rl kr Rr).addrs.Nodup) :
    (c1 = [] ∧ y = r) ∨ (c1 ≠ [] ∧ y ≠ r) := by
  cases c1 with
  | nil =>
    simp only [plug_nil] at hpl
    cases hpl
    exact Or.inl ⟨rfl, rfl⟩
  | cons f rest =>
    right
    refine ⟨List.cons_ne_nil _ _, ?_⟩
    obtain ⟨a, ha, e⟩ := ctxRoot_mem (some y) (List.cons_ne_nil f rest)
    have h1 := ptr_plug 0 (node y cy nil ky Ry) (f :: rest)
    rw [hpl, Tree.ptr_node, Tree.ptr_node, e] at h1
    cases h1
    rw [← hpl, nodup_plug] at hnd
    intro e2
    subst e2
    have := (List.nodup_append.1 hnd).2.2
    exact this (by simp [Tree.addrs]) ha

/-- C21: `deleteNode` removes by relinking, not by copying payloads.  On a
well-formed tree and for a key that is present, `deleteNode` returns; the
cell that is released is the cell of the node `z` that `searchTree` finds for
the key, and every other cell keeps its key/value pair.  When `z` has two
children the relinking step puts the leftmost node `y` of the right subtree
of `z` in the place of `z`: afterwards the cell of `y` holds the pair of `y`
with the colour, the parent link and the left link of `z`, the right link of
`z` unless `y` was the right child of `z`, and the link of the parent of `z`
(or `_root`) that designated `z` designates `y`. -/
theorem delete_relinks (t : RBT K V) (key : K × V) (h : t.WF) (hk : key.1 ∈ t.keys) :
    ∃ t' z nz, t.searchTree key = some (some z) ∧ z ≠ t.null ∧ t.heap z = some nz ∧
      nz.val.1 = key.1 ∧ t.deleteNode key = some t' ∧ t'.WF ∧ t'.heap z = none ∧
      (∀ q, q ≠ z → (t'.heap q).map (fun n => n.val) = (t.heap q).map (fun n => n.val)) ∧
      (nz.left ≠ some t.null → nz.right ≠ some t.null →
        ∃ y ny t1 x, t.minFrom nz.right = some (some y) ∧ y ≠ t.null ∧ y ≠ z ∧
          t.heap y = some ny ∧ t.deleteSplice (some z) = some (t1, x, ny.color) ∧
          x = ny.right ∧
          t1.heap y = some
            { val := ny.val, color := nz.color, parent := nz.parent, left := nz.left,
              right := if nz.right = some y then ny.right else nz.right } ∧
          (nz.parent = none → t1.root = some y) ∧
          (∀ p, nz.parent = some p →
            (t.left (some p) = some (some z) → t1.left (some p) = some (some y)) ∧
            (t.right (some p) = some (some z) → t1.right (some p) = some (some y))) ∧
          t.deleteNode key =
            (if ny.color = BLACK_NODE then RBT.fixDelete t1.next t1 x else pure t1)) := by
  obtain ⟨T, ht, hS, hb, hlt, hn, hsb, hrc, hnr, hbl⟩ := h.unpack
  rw [RBT.keys_of_tree ht] at hk
  have hfind : (T.find key.1 []).1 ≠ nil := fun e => (find_nil_iff key.1 T hb).1 e hk
  have hloop := @deleteLoop_eq _ _ _ t key T [] t.next (some t.null) (by simpa using hS)
    (by simpa using hb) (tree_height_lt ht)
  have hsearch := searchTree_eq key ht hb
  have hp := find_plug key.1 T []
  obtain ⟨t', T', z', v', pre, post, edel, hw', -, hs', -⟩ := delete_present ht h hk
  rcases find_cases key.1 T [] with e | ⟨z, c, L, v, R, e⟩
  · exact absurd e hfind
  rw [e] at hp hloop hsearch
  rw [plug_nil] at hp
  simp only at hloop
  obtain ⟨ctx, hctx⟩ : ∃ ctx, ctx = (T.find key.1 []).2 := ⟨_, rfl⟩
  rw [← hctx] at hp
  clear hctx e
  subst hp
  have hz : z ≠ t.null := hS.focus_ne_null
  have hloop' : t.deleteLoop key t.next t.root (some t.null) = some (some z) := by
    rw [hS.root]
    simp only [ptr_plug, plug_nil] at hloop ⊢
    exact hloop
  obtain ⟨hv1, hv2⟩ := RBT.deleteNode_vals edel hloop' hz
  refine ⟨t', z, _, hsearch, hz, hS.cell, rfl, edel, hw', hv1, hv2, ?_⟩
  intro hl hr
  simp only at hl hr
  cases L with
  | nil => exact absurd rfl hl
  | node l cl Ll kl Lr =>
  cases R with
  | nil => exact absurd rfl hr
  | node r cr Rl kr Rr =>
  obtain ⟨y, cy, ky, Ry, c1, t1, hmp, hpl, hpre, hmin, e1, S1, hn1, hx1, hcc1, hp1⟩ :=
    deleteSplice_succ hS (sentinelBlack.has_cell hsb) (tree_height_lt ht)
  have hSy : Shape t (plug (node y cy nil ky Ry)
      (c1 ++ Frame.R z c (node l cl Ll kl Lr) (key.1, v) :: ctx)) := by
    rw [plug_append, hpl]
    exact hS
  have S1' : Shape t1 (plug (node y c (node l cl Ll kl Lr) ky (plug Ry c1)) ctx) := by
    rw [plug_append] at S1
    exact S1
  have hSR : Shape t (plug (node r cr Rl kr Rr)
      (Frame.R z c (node l cl Ll kl Lr) (key.1, v) :: ctx)) := hS
  have hndR : (node r cr Rl kr Rr).addrs.Nodup :=
    List.Nodup.of_append_left (Shape.plug_iff.1 hSR).2.2.2
  have hyR : y ∈ (node r cr Rl kr Rr).addrs := by
    rw [← hpl, mem_addrs_plug]
    exact Or.inl (by simp [Tree.addrs])
  have hyz : y ≠ z := fun e => hS.sep.2.1 (e ▸ hyR)
  have hright : (plug Ry c1).ptr t.null =
      (if (some r : Ptr) = some y then Ry.ptr t.null else some r) := by
    rcases minPath_root_ne hpl hndR with ⟨rfl, rfl⟩ | ⟨hne, hyr⟩
    · simp
    · have hne' : ¬ ((some r : Ptr) = some y) := fun e => hyr (Option.some.inj e).symm
      rw [if_neg hne', ptr_plug, ctxRoot_ne_nil hne _ (some y), ← Tree.ptr_node t.null y cy nil Ry ky,
        ← ptr_plug, hpl]
      rfl
  refine ⟨y, _, t1, Ry.ptr t.null, hmin, hSy.focus_ne_null, hyz, hSy.cell, e1, rfl, ?_, ?_, ?_, ?_⟩
  · rw [S1'.cell, hn1, hright]
    rfl
  · intro hpar
    cases ctx with
    | nil => exact S1'.root
    | cons f rest => cases hpar
  · intro p hpar
    cases ctx with
    | nil => cases hpar
    | cons f rest =>
      simp only [ctxPar_cons, Option.some.injEq] at hpar
      subst hpar
      cases f with
      | L p cp kp pr =>
        have hP : Shape t (plug (node p cp
          (node z c (node l cl Ll kl Lr) (key.1, v) (node r cr Rl kr Rr)) kp pr) rest) := hS
        have hP1 : Shape t1 (plug (node p cp
          (node y c (node l cl Ll kl Lr) ky (plug Ry c1)) kp pr) rest) := S1'
        simp only [Frame.addr_L]
        refine ⟨fun _ => hP1.left_eq, fun e2 => ?_⟩
        rw [hP.right_eq] at e2
        exact absurd (Option.some.inj e2)
          (hS.ptr_ne (a := z) (by simp [mem_addrs_plug, Tree.addrs])
            (hP.sep.2.2.2.1 z (by simp [Tree.addrs])))
      | R p cp pl kp =>
        have hP : Shape t (plug (node p cp pl kp
          (node z c (node l cl Ll kl Lr) (key.1, v) (node r cr Rl kr Rr))) rest) := hS
        have hP1 : Shape t1 (plug (node p cp pl kp
          (node y c (node l cl Ll kl Lr) ky (plug Ry c1))) rest) := S1'
        simp only [Frame.addr_R]
        refine ⟨fun e2 => ?_, fun _ => hP1.right_eq⟩
        rw [hP.left_eq] at e2
        exact absurd (Option.some.inj e2)
          (hS.ptr_ne (a := z) (by simp [mem_addrs_plug, Tree.addrs])
            (fun hm => hP.sep.2.2.2.1 z hm (by simp [Tree.addrs])))
  · unfold RBT.deleteNode
    rw [deleteNodeHelper_eq, hloop']
    have hne : ¬ ((some z : Ptr) = some t.null) := fun e => hz (Option.some.inj e)
    simp only [Exec.some_bind, hne, if_false, e1]

theorem delete_relinks_witness :
    demo.WF ∧ 20 ∈ demo.keys ∧
    ∃ t' z nz, demo.searchTree (20, 0) = some (some z) ∧ z ≠ demo.null ∧ demo.heap z = some nz ∧
      nz.val.1 = 20 ∧ demo.deleteNode (20, 0) = some t' ∧ t'.WF ∧ t'.heap z = none ∧
      (∀ q, q ≠ z → (t'.heap q).map (fun n => n.val) = (demo.heap q).map (fun n => n.val)) ∧
      (nz.left ≠ some demo.null → nz.right ≠ some demo.null →
        ∃ y ny t1 x, demo.minFrom nz.right = some (some y) ∧ y ≠ demo.null ∧ y ≠ z ∧
          demo.heap y = some ny ∧ demo.deleteSplice (some z) = some (t1, x, ny.color) ∧
          x = ny.right ∧
          t1.heap y = some
            { val := ny.val, color := nz.color, parent := nz.parent, left := nz.left,
              right := if nz.right = some y then ny.right else nz.right } ∧
          (nz.parent = none → t1.root = some y) ∧
          (∀ p, nz.parent = some p →
            (demo.left (some p) = some (some z) → t1.left (some p) = some (some y)) ∧
            (demo.right (some p) = some (some z) → t1.right (some p) = some (some y))) ∧
          demo.deleteNode (20, 0) =
            (if ny.color = BLACK_NODE then RBT.fixDelete t1.next t1 x else pure t1)) :=
  ⟨demo_wf, by decide, delete_relinks demo (20, 0) demo_wf (by decide)⟩

end FtContainers

namespace FtContainers

open Color Tree

variable {K V : Type}

/-! ## The rotation around the parent in `fixInsert` -/

/-- BLACK uncle, the parent is the right child of the grandparent and the
cursor is the right child of the parent: no rotation around the parent. -/
theorem fixInsertBody_tail_RR {t : RBT K V} {k : Nat} {ck : Color} {kl kr : Tree K V}
    {kk : K × V} {p g : Nat} {cp cg : Color} {pl U : Tree K V} {kp kg : K × V}
    {rest : List (Frame K V)}
    (hS : Shape t (plug (node k ck kl kk kr)
      (Frame.R p cp pl kp :: Frame.R g cg U kg :: rest)))
    (hs : t.sentinelBlack) (hU : U.rootColor = BLACK_NODE) :
    t.fixInsertBody (some k) = t.fixInsertTail (some k) true := by
  have hp := hS.parent_eq
  have hpp := hS.frame_parent
  have hg : Shape t (plug (node g cg U kg (node p cp pl kp (node k ck kl kk kr))) rest) := hS
  have hgr := hg.right_eq
  have hgl := hg.left_eq
  have hu : Shape t (plug U (Frame.L g cg kg (node p cp pl kp (node k ck kl kk kr)) :: rest)) :=
    hS
  have huc := hu.color_ptr hs
  have hP : Shape t (plug (node p cp pl kp (node k ck kl kk kr)) (Frame.R g cg U kg :: rest)) :=
    hS
  have hpl := hP.left_eq
  have hne : ¬ (some k = pl.ptr t.null) := by
    intro e
    have h1 := hP.sep.2.2.2.1
    have h2 : k ∈ pl.addrs := Tree.ptr_mem e.symm hS.focus_ne_null
    exact h1 k h2 (by simp [Tree.addrs])
  simp only [Frame.addr_R, Frame.addr_L, ctxPar_cons, Tree.ptr_node] at hp hpp hgr hgl
  simp only [RBT.fixInsertBody, RBT.fixInsertTail, hp, hpp, hgr, hgl, huc, hU, hpl, hne,
    Exec.some_bind, Exec.pure_eq, ctxPar_cons, Frame.addr_R, Frame.addr_L, ptr_fill,
    Tree.ptr_node, if_true, if_false, reduceCtorEq]

/-- BLACK uncle, the parent is the right child of the grandparent and the
cursor is the left child of the parent: `rightRotate` around the parent
first, and the parent becomes the cursor. -/
theorem fixInsertBody_tail_RL {t : RBT K V} {k : Nat} {ck : Color} {kl kr : Tree K V}
    {kk : K × V} {p g : Nat} {cp cg : Color} {pr U : Tree K V} {kp kg : K × V}
    {rest : List (Frame K V)}
    (hS : Shape t (plug (node k ck kl kk kr)
      (Frame.L p cp kp pr :: Frame.R g cg U kg :: rest)))
    (hs : t.sentinelBlack) (hU : U.rootColor = BLACK_NODE) :
    ∃ t1, t.rightRotate (some p) = some t1 ∧
      t.fixInsertBody (some k) = t1.fixInsertTail (some p) true := by
  have hp := hS.parent_eq
  have hpp := hS.frame_parent
  have hg : Shape t (plug (node g cg U kg (node p cp (node k ck kl kk kr) kp pr)) rest) := hS
  have hgr := hg.right_eq
  have hgl := hg.left_eq
  have hu : Shape t (plug U (Frame.L g cg kg (node p cp (node k ck kl kk kr) kp pr) :: rest)) :=
    hS
  have huc := hu.color_ptr hs
  have hP : Shape t (plug (node p cp (node k ck kl kk kr) kp pr) (Frame.R g cg U kg :: rest)) :=
    hS
  have hpl := hP.left_eq
  obtain ⟨t1, e1, S1, M1, -⟩ := hP.rightRotate
  simp only [Frame.addr_R, Frame.addr_L, ctxPar_cons, Tree.ptr_node] at hp hpp hgr hgl e1
  refine ⟨t1, e1, ?_⟩
  simp only [RBT.fixInsertBody, RBT.fixInsertTail, hp, hpp, hgr, hgl, huc, hU, hpl, e1,
    Exec.some_bind, Exec.pure_eq, ctxPar_cons, Frame.addr_R, Frame.addr_L, ptr_fill,
    Tree.ptr_node, if_true, if_false, reduceCtorEq]

/-- BLACK uncle, the parent is the left child of the grandparent and the
cursor is the left child of the parent: no rotation around the parent. -/
theorem fixInsertBody_tail_LL {t : RBT K V} {k : Nat} {ck : Color} {kl kr : Tree K V}
    {kk : K × V} {p g : Nat} {cp cg : Color} {pr U : Tree K V} {kp kg : K × V}
    {rest : List (Frame K V)}
    (hS : Shape t (plug (node k ck kl kk kr)
      (Frame.L p cp kp pr :: Frame.L g cg kg U :: rest)))
    (hs : t.sentinelBlack) (hU : U.rootColor = BLACK_NODE) :
    t.fixInsertBody (some k) = t.fixInsertTail (some k) false := by
  have hp := hS.parent_eq
  have hpp := hS.frame_parent
  have hg : Shape t (plug (node g cg (node p cp (node k ck kl kk kr) kp pr) kg U) rest) := hS
  have hgr := hg.right_eq
  have hgl := hg.left_eq
  have hu : Shape t (plug U (Frame.R g cg (node p cp (node k ck kl kk kr) kp pr) kg :: rest)) :=
    hS
  have huc := hu.color_ptr hs
  have hP : Shape t (plug (node p cp (node k ck kl kk kr) kp pr) (Frame.L g cg kg U :: rest)) :=
    hS
  have hpr := hP.right_eq
  have hne : ¬ (some k = pr.ptr t.null) := by
    intro e
    have h1 := hP.sep.2.2.2.1
    have h2 : k ∈ pr.addrs := Tree.ptr_mem e.symm hS.focus_ne_null
    exact h1 k (by simp [Tree.addrs]) h2
  have hne2 : ¬ (some p = U.ptr t.null) := by
    intro e
    have h1 := hg.sep.2.2.2.1
    have h2 : p ∈ U.addrs := Tree.ptr_mem e.symm hP.focus_ne_null
    exact h1 p (by simp [Tree.addrs]) h2
  simp only [Frame.addr_R, Frame.addr_L, ctxPar_cons, Tree.ptr_node] at hp hpp hgr hgl
  simp only [RBT.fixInsertBody, RBT.fixInsertTail, hp, hpp, hgr, hgl, huc, hU, hpr, hne, hne2,
    Exec.some_bind, Exec.pure_eq, ctxPar_cons, Frame.addr_R, Frame.addr_L, ptr_fill,
    Tree.ptr_node, if_true, if_false, reduceCtorEq, Bool.false_eq_true]

/-- BLACK uncle, the parent is the left child of the grandparent and the
cursor is the right child of the parent: `leftRotate` around the parent
first, and the parent becomes the cursor. -/
theorem fixInsertBody_tail_LR {t : RBT K V} {k : Nat} {ck : Color} {kl kr : Tree K V}
    {kk : K × V} {p g : Nat} {cp cg : Color} {pl U : Tree K V} {kp kg : K × V}
    {rest : List (Frame K V)}
    (hS : Shape t (plug (node k ck kl kk kr)
      (Frame.R p cp pl kp :: Frame.L g cg kg U :: rest)))
    (hs : t.sentinelBlack) (hU : U.rootColor = BLACK_NODE) :
    ∃ t1, t.leftRotate (some p) = some t1 ∧
      t.fixInsertBody (some k) = t1.fixInsertTail (some p) false := by
  have hp := hS.parent_eq
  have hpp := hS.frame_parent
  have hg : Shape t (plug (node g cg (node p cp pl kp (node k ck kl kk kr)) kg U) rest) := hS
  have hgr := hg.right_eq
  have hgl := hg.left_eq
  have hu : Shape t (plug U (Frame.R g cg (node p cp pl kp (node k ck kl kk kr)) kg :: rest)) :=
    hS
  have huc := hu.color_ptr hs
  have hP : Shape t (plug (node p cp pl kp (node k ck kl kk kr)) (Frame.L g cg kg U :: rest)) :=
    hS
  have hpr := hP.right_eq
  have hne2 : ¬ (some p = U.ptr t.null) := by
    intro e
    have h1 := hg.sep.2.2.2.1
    have h2 : p ∈ U.addrs := Tree.ptr_mem e.symm hP.focus_ne_null
    exact h1 p (by simp [Tree.addrs]) h2
  obtain ⟨t1, e1, S1, M1, -⟩ := hP.leftRotate
  simp only [Frame.addr_R, Frame.addr_L, ctxPar_cons, Tree.ptr_node] at hp hpp hgr hgl e1
  refine ⟨t1, e1, ?_⟩
  simp only [RBT.fixInsertBody, RBT.fixInsertTail, hp, hpp, hgr, hgl, huc, hU, hpr, hne2, e1,
    Exec.some_bind, Exec.pure_eq, ctxPar_cons, Frame.addr_R, Frame.addr_L, ptr_fill,
    Tree.ptr_node, if_true, if_false, reduceCtorEq, Bool.false_eq_true]

/-! ## The state in which `insert(30)` calls `fixInsert` -/

theorem lineState_tree : lineState.tree = some lineTree := by decide

theorem lineState_shape : Shape lineState lineTree :=
  Shape.of_tree lineState_tree (by decide)

theorem lineState_sentinel : lineState.sentinelBlack := ⟨_, rfl, rfl⟩

/-- C28, as stated, fails: in the state in which `insert(30)` calls
`fixInsert` on the tree of 10 and 20 the current node 30 is the outer child
(the right child of 20, which is the right child of 10) and the uncle is
BLACK, and the iteration of `fixInsert` is not a rotation around the parent
20, in either direction, followed by the recolouring and the rotation of the
grandparent, in either direction and with either node as the cursor. -/
theorem outer_child_not_rotated :
    ¬ ∃ (d1 d2 : Bool) (c : Ptr) (t1 : RBT Nat Nat), (c = some 3 ∨ c = some 2) ∧
      (if d1 then lineState.leftRotate (some 2) else lineState.rightRotate (some 2)) = some t1 ∧
      lineState.fixInsertBody (some 3) = t1.fixInsertTail c d2 := by
  rintro ⟨d1, d2, c, t1, hc, h1, h2⟩
  have hbody : (lineState.fixInsertBody (some 3)).map (fun r => r.1.root) = some (some 2) := rfl
  cases d1 with
  | false =>
    have : lineState.rightRotate (some 2) = none := rfl
    simp only [Bool.false_eq_true, if_false] at h1
    rw [this] at h1
    cases h1
  | true =>
    simp only [if_true] at h1
    have e1 : lineState.leftRotate (some 2) = some
        (RBT.mk (some 1) 0 (setCell (setCell (setCell (setCell lineState.heap 2
          (some ⟨(20, 0), RED_NODE, some 1, some 0, some 0⟩)) 3
          (some ⟨(30, 0), RED_NODE, some 1, some 0, some 0⟩)) 1
          (some ⟨(10, 0), BLACK_NODE, none, some 0, some 3⟩)) 3
          (some ⟨(30, 0), RED_NODE, some 1, some 2, some 0⟩)
          |> fun h => setCell h 2 (some ⟨(20, 0), RED_NODE, some 3, some 0, some 0⟩)) 4) := rfl
    rw [e1] at h1
    cases h1
    rw [h2] at hbody
    rcases hc with rfl | rfl <;> cases d2 <;> revert hbody <;> decide

/-- C28, amended: in an iteration of `fixInsert` with a BLACK uncle the
rotation around the parent is performed when the current node is the inner
child (the left child of a parent that is the right child of the grandparent,
or the mirror image), and the parent then becomes the current node; when the
current node is the outer child there is no rotation around the parent.
Afterwards the parent of the current node is recoloured BLACK, its
grandparent RED, and the grandparent is rotated, to the left when the parent
was its right child and to the right in the mirror image.  The iteration
returns.  The node `k` is the current node, `p` its parent, `g` its
grandparent and `U` the subtree of the uncle. -/
theorem fixInsert_blackUncle_rotation (t : RBT K V) (k p g : Nat) (ck cp cg : Color)
    (kl kr S U : Tree K V) (kk kp kg : K × V) (rest : List (Frame K V))
    (hs : t.sentinelBlack) (hU : U.rootColor = BLACK_NODE) :
    (Shape t (plug (node k ck kl kk kr) (Frame.R p cp S kp :: Frame.R g cg U kg :: rest)) →
      t.fixInsertBody (some k) = t.fixInsertTail (some k) true ∧
      ∃ t', t.fixInsertBody (some k) = some (t', some k)) ∧
    (Shape t (plug (node k ck kl kk kr) (Frame.L p cp kp S :: Frame.R g cg U kg :: rest)) →
      ∃ t1 t', t.rightRotate (some p) = some t1 ∧
        t.fixInsertBody (some k) = t1.fixInsertTail (some p) true ∧
        t.fixInsertBody (some k) = some (t', some p)) ∧
    (Shape t (plug (node k ck kl kk kr) (Frame.L p cp kp S :: Frame.L g cg kg U :: rest)) →
      t.fixInsertBody (some k) = t.fixInsertTail (some k) false ∧
      ∃ t', t.fixInsertBody (some k) = some (t', some k)) ∧
    (Shape t (plug (node k ck kl kk kr) (Frame.R p cp S kp :: Frame.L g cg kg U :: rest)) →
      ∃ t1 t', t.leftRotate (some p) = some t1 ∧
        t.fixInsertBody (some k) = t1.fixInsertTail (some p) false ∧
        t.fixInsertBody (some k) = some (t', some p)) := by
  refine ⟨fun hS => ?_, fun hS => ?_, fun hS => ?_, fun hS => ?_⟩
  · obtain ⟨t', e, -⟩ := fixInsertBody_blackUncle_RR hS hs hU
    exact ⟨fixInsertBody_tail_RR hS hs hU, t', e⟩
  · obtain ⟨t', e, -⟩ := fixInsertBody_blackUncle_RL hS hs hU
    obtain ⟨t1, e1, e2⟩ := fixInsertBody_tail_RL hS hs hU
    exact ⟨t1, t', e1, e2, e⟩
  · obtain ⟨t', e, -⟩ := fixInsertBody_blackUncle_LL hS hs hU
    exact ⟨fixInsertBody_tail_LL hS hs hU, t', e⟩
  · obtain ⟨t', e, -⟩ := fixInsertBody_blackUncle_LR hS hs hU
    obtain ⟨t1, e1, e2⟩ := fixInsertBody_tail_LR hS hs hU
    exact ⟨t1, t', e1, e2, e⟩

theorem fixInsert_blackUncle_rotation_witness :
    lineState.sentinelBlack ∧ (Tree.nil : Tree Nat Nat).rootColor = BLACK_NODE ∧
      Shape lineState (plug (node 3 RED_NODE nil (30, 0) nil)
        [Frame.R 2 RED_NODE nil (20, 0), Frame.R 1 BLACK_NODE nil (10, 0)]) ∧
      lineState.fixInsertBody (some 3) = lineState.fixInsertTail (some 3) true ∧
      ∃ t', lineState.fixInsertBody (some 3) = some (t', some 3) :=
  ⟨lineState_sentinel, rfl, lineState_shape,
    (fixInsert_blackUncle_rotation lineState 3 2 1 RED_NODE RED_NODE BLACK_NODE nil nil nil nil
      (30, 0) (20, 0) (10, 0) [] lineState_sentinel rfl).1 lineState_shape⟩

end FtContainers

namespace FtContainers

open Color Tree

variable {K V : Type}

/-! ## The assertions of `fixInsertBodyChecked` hold -/

theorem RBT.assertNode_of_cell {t : RBT K V} {a : Nat} {n : RBT_Node K V}
    (h : t.heap a = some n) (hn : a ≠ t.null) : t.assertNode (some a) = some () := by
  simp [RBT.assertNode, RBT.isNode, h, hn]

theorem Shape.assert_focus {t : RBT K V} {a : Nat} {c : Color} {l r : Tree K V} {kv : K × V}
    {ctx : List (Frame K V)} (hS : Shape t (plug (node a c l kv r) ctx)) :
    t.assertNode (some a) = some () :=
  RBT.assertNode_of_cell hS.cell hS.focus_ne_null

theorem Shape.assert_frame {t : RBT K V} {S : Tree K V} {f : Frame K V}
    {rest : List (Frame K V)} (hS : Shape t (plug S (f :: rest))) :
    t.assertNode (some f.addr) = some () := by
  cases f with
  | L a c kv r =>
    have h : Shape t (plug (node a c S kv r) rest) := hS
    exact h.assert_focus
  | R a c l kv =>
    have h : Shape t (plug (node a c l kv S) rest) := hS
    exact h.assert_focus

theorem RBT.assertNode_setColor {t t' : RBT K V} {p : Ptr} {c : Color}
    (h : t.setColor p c = some t') (q : Ptr) : t'.assertNode q = t.assertNode q := by
  cases p with
  | none => simp [RBT.setColor, RBT.modify] at h
  | some a =>
    cases hc : t.heap a with
    | none => simp [RBT.setColor, RBT.modify, hc] at h
    | some n =>
      rw [RBT.setColor_of hc] at h
      cases h
      cases q with
      | none => rfl
      | some b =>
        by_cases hb : b = a
        · subst hb
          simp [RBT.assertNode, RBT.isNode, hc]
        · simp [RBT.assertNode, RBT.isNode, setCell_other _ _ hb]

/-- The assertions hold in this case of the iteration. -/
theorem fixInsertBodyChecked_redUncle_R {t : RBT K V} {k : Nat} {ck : Color} {kl kr : Tree K V}
    {kk : K × V} {f1 : Frame K V} {g u : Nat} {cg : Color} {ul ur : Tree K V} {ku kg : K × V}
    {rest : List (Frame K V)}
    (hS : Shape t (plug (node k ck kl kk kr)
      (f1 :: Frame.R g cg (node u RED_NODE ul ku ur) kg :: rest))) :
    t.fixInsertBodyChecked (some k) = t.fixInsertBody (some k) := by
  have hp := hS.parent_eq
  have hpp := hS.frame_parent
  have hg : Shape t (plug (node g cg (node u RED_NODE ul ku ur) kg (f1.fill (node k ck kl kk kr)))
    rest) := hS
  have hgr := hg.right_eq
  have hgl := hg.left_eq
  have hu : Shape t (plug (node u RED_NODE ul ku ur)
    (Frame.L g cg kg (f1.fill (node k ck kl kk kr)) :: rest)) := hS
  have huc := hu.color_eq
  obtain ⟨t1, e1, S1, M1, r1⟩ := hu.setColor BLACK_NODE
  have S1' : Shape t1 (plug (node k ck kl kk kr)
    (f1 :: Frame.R g cg (node u BLACK_NODE ul ku ur) kg :: rest)) := S1
  obtain ⟨t2, e2, S2, M2, r2⟩ := S1'.setColor_frame BLACK_NODE
  have S2' : Shape t2 (plug (node g cg (node u BLACK_NODE ul ku ur) kg
    ((f1.recolor BLACK_NODE).fill (node k ck kl kk kr))) rest) := S2
  obtain ⟨t3, e3, S3, M3, r3⟩ := S2'.setColor RED_NODE
  have a1 := hS.assert_frame
  have a2 := hg.assert_focus
  have eU : t.fixInsertBody (some k) = some (t3, some g) := by
    simp only [RBT.fixInsertBody, hp, hpp, hgr, hgl, huc, e1, e2, e3, RBT.parent_setColor e1,
    RBT.parent_setColor e2, RBT.parent_setColor e3, Exec.some_bind, Exec.pure_eq, ctxPar_cons,
    Frame.addr_R, Frame.addr_L, ptr_fill, Tree.ptr_node, if_true]
  have eC : t.fixInsertBodyChecked (some k) = some (t3, some g) := by
    simp only [RBT.fixInsertBodyChecked, RBT.leftRotateChecked, RBT.rightRotateChecked,
      a1, a2, hp, hpp, hgr, hgl, huc, e1, e2, e3, RBT.parent_setColor e1,
    RBT.parent_setColor e2, RBT.parent_setColor e3, Exec.some_bind, Exec.pure_eq, ctxPar_cons,
    Frame.addr_R, Frame.addr_L, ptr_fill, Tree.ptr_node, if_true]
  rw [eU, eC]

/-- The assertions hold in this case of the iteration. -/
theorem fixInsertBodyChecked_redUncle_L {t : RBT K V} {k : Nat} {ck : Color} {kl kr : Tree K V}
    {kk : K × V} {f1 : Frame K V} {g u : Nat} {cg : Color} {ul ur : Tree K V} {ku kg : K × V}
    {rest : List (Frame K V)}
    (hS : Shape t (plug (node k ck kl kk kr)
      (f1 :: Frame.L g cg kg (node u RED_NODE ul ku ur) :: rest))) :
    t.fixInsertBodyChecked (some k) = t.fixInsertBody (some k) := by
  have hp := hS.parent_eq
  have hpp := hS.frame_parent
  have hg : Shape t (plug (node g cg (f1.fill (node k ck kl kk kr)) kg (node u RED_NODE ul ku ur))
    rest) := hS
  have hgr := hg.right_eq
  have hgl := hg.left_eq
  have hne : ¬ (f1.addr = u) := by
    intro e
    have := hg.sep.2.2.2.1 _ (Frame.addr_mem_fill f1 _)
    rw [e] at this
    simp [Tree.addrs] at this
  have hu : Shape t (plug (node u RED_NODE ul ku ur)
    (Frame.R g cg (f1.fill (node k ck kl kk kr)) kg :: rest)) := hS
  have huc := hu.color_eq
  obtain ⟨t1, e1, S1, M1, r1⟩ := hu.setColor BLACK_NODE
  have S1' : Shape t1 (plug (node k ck kl kk kr)
    (f1 :: Frame.L g cg kg (node u BLACK_NODE ul ku ur) :: rest)) := S1
  obtain ⟨t2, e2, S2, M2, r2⟩ := S1'.setColor_frame BLACK_NODE
  have S2' : Shape t2 (plug (node g cg ((f1.recolor BLACK_NODE).fill (node k ck kl kk kr)) kg
    (node u BLACK_NODE ul ku ur)) rest) := S2
  obtain ⟨t3, e3, S3, M3, r3⟩ := S2'.setColor RED_NODE
  have a1 := hS.assert_frame
  have a2 := hg.assert_focus
  have eU : t.fixInsertBody (some k) = some (t3, some g) := by
    simp only [RBT.fixInsertBody, hp, hpp, hgr, hgl, huc, e1, e2, e3, RBT.parent_setColor e1,
    RBT.parent_setColor e2, RBT.parent_setColor e3, Exec.some_bind, Exec.pure_eq, ctxPar_cons,
    Frame.addr_R, Frame.addr_L, ptr_fill, Tree.ptr_node, if_true, Option.some.injEq, hne,
    if_false]
  have eC : t.fixInsertBodyChecked (some k) = some (t3, some g) := by
    simp only [RBT.fixInsertBodyChecked, RBT.leftRotateChecked, RBT.rightRotateChecked,
      a1, a2, hp, hpp, hgr, hgl, huc, e1, e2, e3, RBT.parent_setColor e1,
    RBT.parent_setColor e2, RBT.parent_setColor e3, Exec.some_bind, Exec.pure_eq, ctxPar_cons,
    Frame.addr_R, Frame.addr_L, ptr_fill, Tree.ptr_node, if_true, Option.some.injEq, hne,
    if_false]
  rw [eU, eC]

/-- The assertions hold in this case of the iteration. -/
theorem fixInsertBodyChecked_blackUncle_RR {t : RBT K V} {k : Nat} {ck : Color} {kl kr : Tree K V}
    {kk : K × V} {p g : Nat} {cp cg : Color} {pl U : Tree K V} {kp kg : K × V}
    {rest : List (Frame K V)}
    (hS : Shape t (plug (node k ck kl kk kr)
      (Frame.R p cp pl kp :: Frame.R g cg U kg :: rest)))
    (hs : t.sentinelBlack) (hU : U.rootColor = BLACK_NODE) :
    t.fixInsertBodyChecked (some k) = t.fixInsertBody (some k) := by
  have hp := hS.parent_eq
  have hpp := hS.frame_parent
  have hg : Shape t (plug (node g cg U kg (node p cp pl kp (node k ck kl kk kr))) rest) := hS
  have hgr := hg.right_eq
  have hgl := hg.left_eq
  have hu : Shape t (plug U (Frame.L g cg kg (node p cp pl kp (node k ck kl kk kr)) :: rest)) :=
    hS
  have huc := hu.color_ptr hs
  have hP : Shape t (plug (node p cp pl kp (node k ck kl kk kr)) (Frame.R g cg U kg :: rest)) :=
    hS
  have hpl := hP.left_eq
  have hne : ¬ (some k = pl.ptr t.null) := by
    intro e
    have h1 := hP.sep.2.2.2.1
    have h2 : k ∈ pl.addrs := Tree.ptr_mem e.symm hS.focus_ne_null
    exact h1 k h2 (by simp [Tree.addrs])
  obtain ⟨t1, e1, S1, M1, r1⟩ := hS.setColor_frame BLACK_NODE
  have S1' : Shape t1 (plug (node g cg U kg (node p BLACK_NODE pl kp (node k ck kl kk kr)))
    rest) := S1
  obtain ⟨t2, e2, S2, M2, r2⟩ := S1'.setColor RED_NODE
  obtain ⟨t3, e3, S3, M3, -⟩ := S2.leftRotate
  simp only [Frame.addr_R, Frame.addr_L, ctxPar_cons, Tree.ptr_node] at hp hpp hgr hgl e1 e2
  have a1 := hS.assert_frame
  have a2 := hg.assert_focus
  have a3 := hP.assert_focus
  simp only [Frame.addr_R, Frame.addr_L] at a1
  have eU : t.fixInsertBody (some k) = some (t3, some k) := by
    simp only [RBT.fixInsertBody, hp, hpp, hgr, hgl, huc, hU, hpl, hne, e1, e2, e3,
    RBT.parent_setColor e1, RBT.parent_setColor e2, Exec.some_bind, Exec.pure_eq, ctxPar_cons,
    Frame.addr_R, Frame.addr_L, ptr_fill, Tree.ptr_node, if_true, if_false, reduceCtorEq]
  have eC : t.fixInsertBodyChecked (some k) = some (t3, some k) := by
    simp only [RBT.fixInsertBodyChecked, RBT.leftRotateChecked, RBT.rightRotateChecked,
      a1, a2, a3, RBT.assertNode_setColor e1, RBT.assertNode_setColor e2, RBT.right_setColor e1, RBT.right_setColor e2, RBT.left_setColor e1, RBT.left_setColor e2, hp, hpp, hgr, hgl, huc, hU, hpl, hne, e1, e2, e3,
    RBT.parent_setColor e1, RBT.parent_setColor e2, Exec.some_bind, Exec.pure_eq, ctxPar_cons,
    Frame.addr_R, Frame.addr_L, ptr_fill, Tree.ptr_node, if_true, if_false, reduceCtorEq]
  rw [eU, eC]

/-- The assertions hold in this case of the iteration. -/
theorem fixInsertBodyChecked_blackUncle_RL {t : RBT K V} {k : Nat} {ck : Color} {kl kr : Tree K V}
    {kk : K × V} {p g : Nat} {cp cg : Color} {pr U : Tree K V} {kp kg : K × V}
    {rest : List (Frame K V)}
    (hS : Shape t (plug (node k ck kl kk kr)
      (Frame.L p cp kp pr :: Frame.R g cg U kg :: rest)))
    (hs : t.sentinelBlack) (hU : U.rootColor = BLACK_NODE) :
    t.fixInsertBodyChecked (some k) = t.fixInsertBody (some k) := by
  have hp := hS.parent_eq
  have hpp := hS.frame_parent
  have hg : Shape t (plug (node g cg U kg (node p cp (node k ck kl kk kr) kp pr)) rest) := hS
  have hgr := hg.right_eq
  have hgl := hg.left_eq
  have hu : Shape t (plug U (Frame.L g cg kg (node p cp (node k ck kl kk kr) kp pr) :: rest)) :=
    hS
  have huc := hu.color_ptr hs
  have hP : Shape t (plug (node p cp (node k ck kl kk kr) kp pr) (Frame.R g cg U kg :: rest)) :=
    hS
  have hpl := hP.left_eq
  obtain ⟨t1, e1, S1, M1, -⟩ := hP.rightRotate
  have S1p : Shape t1 (plug (node p cp kr kp pr)
    (Frame.R k ck kl kk :: Frame.R g cg U kg :: rest)) := S1
  have hp1 := S1p.parent_eq
  simp only [Frame.addr_R, Frame.addr_L, ctxPar_cons] at hp1
  obtain ⟨t2, e2, S2, M2, r2⟩ := S1p.setColor_frame BLACK_NODE
  have hpp1 : t1.parent (some k) = some (some g) := S1p.frame_parent
  have S2' : Shape t2 (plug (node g cg U kg (node k BLACK_NODE kl kk (node p cp kr kp pr)))
    rest) := S2
  obtain ⟨t3, e3, S3, M3, r3⟩ := S2'.setColor RED_NODE
  obtain ⟨t4, e4, S4, M4, -⟩ := S3.leftRotate
  simp only [Frame.addr_R, Frame.addr_L, ctxPar_cons, Tree.ptr_node] at hp hpp hgr hgl e1 e2
  have a1 := hS.assert_frame
  have a2 := hg.assert_focus
  have a3 := hS.assert_focus
  have a4 := S1.assert_focus
  have a5 := S1.assert_frame
  have hg1 : Shape t1 (plug (node g cg U kg (node k ck kl kk (node p cp kr kp pr))) rest) := S1
  have hgr1 := hg1.right_eq
  simp only [Frame.addr_R, Frame.addr_L, Tree.ptr_node] at a1 a5 hgr1 hpl
  have eU : t.fixInsertBody (some k) = some (t4, some p) := by
    simp only [RBT.fixInsertBody, hp, hpp, hgr, hgl, huc, hU, hpl, e1, e2, e3, e4, hp1, hpp1,
    RBT.parent_setColor e2, RBT.parent_setColor e3, Exec.some_bind, Exec.pure_eq, ctxPar_cons,
    Frame.addr_R, Frame.addr_L, ptr_fill, Tree.ptr_node, if_true, if_false, reduceCtorEq]
  have eC : t.fixInsertBodyChecked (some k) = some (t4, some p) := by
    simp only [RBT.fixInsertBodyChecked, RBT.leftRotateChecked, RBT.rightRotateChecked,
      a1, a2, a3, a4, a5, hgr1, RBT.assertNode_setColor e2, RBT.assertNode_setColor e3, RBT.right_setColor e2, RBT.right_setColor e3, RBT.left_setColor e2, RBT.left_setColor e3, hp, hpp, hgr, hgl, huc, hU, hpl, e1, e2, e3, e4, hp1, hpp1,
    RBT.parent_setColor e2, RBT.parent_setColor e3, Exec.some_bind, Exec.pure_eq, ctxPar_cons,
    Frame.addr_R, Frame.addr_L, ptr_fill, Tree.ptr_node, if_true, if_false, reduceCtorEq]
  rw [eU, eC]

/-- The assertions hold in this case of the iteration. -/
theorem fixInsertBodyChecked_blackUncle_LL {t : RBT K V} {k : Nat} {ck : Color} {kl kr : Tree K V}
    {kk : K × V} {p g : Nat} {cp cg : Color} {pr U : Tree K V} {kp kg : K × V}
    {rest : List (Frame K V)}
    (hS : Shape t (plug (node k ck kl kk kr)
      (Frame.L p cp kp pr :: Frame.L g cg kg U :: rest)))
    (hs : t.sentinelBlack) (hU : U.rootColor = BLACK_NODE) :
    t.fixInsertBodyChecked (some k) = t.fixInsertBody (some k) := by
  have hp := hS.parent_eq
  have hpp := hS.frame_parent
  have hg : Shape t (plug (node g cg (node p cp (node k ck kl kk kr) kp pr) kg U) rest) := hS
  have hgr := hg.right_eq
  have hgl := hg.left_eq
  have hu : Shape t (plug U (Frame.R g cg (node p cp (node k ck kl kk kr) kp pr) kg :: rest)) :=
    hS
  have huc := hu.color_ptr hs
  have hP : Shape t (plug (node p cp (node k ck kl kk kr) kp pr) (Frame.L g cg kg U :: rest)) :=
    hS
  have hpr := hP.right_eq
  have hne : ¬ (some k = pr.ptr t.null) := by
    intro e
    have h1 := hP.sep.2.2.2.1
    have h2 : k ∈ pr.addrs := Tree.ptr_mem e.symm hS.focus_ne_null
    exact h1 k (by simp [Tree.addrs]) h2
  have hne2 : ¬ (some p = U.ptr t.null) := by
    intro e
    have h1 := hg.sep.2.2.2.1
    have h2 : p ∈ U.addrs := Tree.ptr_mem e.symm hP.focus_ne_null
    exact h1 p (by simp [Tree.addrs]) h2
  obtain ⟨t1, e1, S1, M1, r1⟩ := hS.setColor_frame BLACK_NODE
  have S1' : Shape t1 (plug (node g cg (node p BLACK_NODE (node k ck kl kk kr) kp pr) kg U)
    rest) := S1
  obtain ⟨t2, e2, S2, M2, r2⟩ := S1'.setColor RED_NODE
  obtain ⟨t3, e3, S3, M3, -⟩ := S2.rightRotate
  simp only [Frame.addr_R, Frame.addr_L, ctxPar_cons, Tree.ptr_node] at hp hpp hgr hgl e1 e2
  have a1 := hS.assert_frame
  have a2 := hg.assert_focus
  have a3 := hP.assert_focus
  simp only [Frame.addr_R, Frame.addr_L] at a1
  have eU : t.fixInsertBody (some k) = some (t3, some k) := by
    simp only [RBT.fixInsertBody, hp, hpp, hgr, hgl, huc, hU, hpr, hne, hne2, e1, e2, e3,
    RBT.parent_setColor e1, RBT.parent_setColor e2, Exec.some_bind, Exec.pure_eq, ctxPar_cons,
    Frame.addr_R, Frame.addr_L, ptr_fill, Tree.ptr_node, if_true, if_false, reduceCtorEq]
  have eC : t.fixInsertBodyChecked (some k) = some (t3, some k) := by
    simp only [RBT.fixInsertBodyChecked, RBT.leftRotateChecked, RBT.rightRotateChecked,
      a1, a2, a3, RBT.assertNode_setColor e1, RBT.assertNode_setColor e2, RBT.right_setColor e1, RBT.right_setColor e2, RBT.left_setColor e1, RBT.left_setColor e2, hp, hpp, hgr, hgl, huc, hU, hpr, hne, hne2, e1, e2, e3,
    RBT.parent_setColor e1, RBT.parent_setColor e2, Exec.some_bind, Exec.pure_eq, ctxPar_cons,
    Frame.addr_R, Frame.addr_L, ptr_fill, Tree.ptr_node, if_true, if_false, reduceCtorEq]
  rw [eU, eC]

/-- The assertions hold in this case of the iteration. -/
theorem fixInsertBodyChecked_blackUncle_LR {t : RBT K V} {k : Nat} {ck : Color} {kl kr : Tree K V}
    {kk : K × V} {p g : Nat} {cp cg : Color} {pl U : Tree K V} {kp kg : K × V}
    {rest : List (Frame K V)}
    (hS : Shape t (plug (node k ck kl kk kr)
      (Frame.R p cp pl kp :: Frame.L g cg kg U :: rest)))
    (hs : t.sentinelBlack) (hU : U.rootColor = BLACK_NODE) :
    t.fixInsertBodyChecked (some k) = t.fixInsertBody (some k) := by
  have hp := hS.parent_eq
  have hpp := hS.frame_parent
  have hg : Shape t (plug (node g cg (node p cp pl kp (node k ck kl kk kr)) kg U) rest) := hS
  have hgr := hg.right_eq
  have hgl := hg.left_eq
  have hu : Shape t (plug U (Frame.R g cg (node p cp pl kp (node k ck kl kk kr)) kg :: rest)) :=
    hS
  have huc := hu.color_ptr hs
  have hP : Shape t (plug (node p cp pl kp (node k ck kl kk kr)) (Frame.L g cg kg U :: rest)) :=
    hS
  have hpr := hP.right_eq
  have hne2 : ¬ (some p = U.ptr t.null) := by
    intro e
    have h1 := hg.sep.2.2.2.1
    have h2 : p ∈ U.addrs := Tree.ptr_mem e.symm hP.focus_ne_null
    exact h1 p (by simp [Tree.addrs]) h2
  obtain ⟨t1, e1, S1, M1, -⟩ := hP.leftRotate
  have S1p : Shape t1 (plug (node p cp pl kp kl)
    (Frame.L k ck kk kr :: Frame.L g cg kg U :: rest)) := S1
  have hp1 := S1p.parent_eq
  simp only [Frame.addr_R, Frame.addr_L, ctxPar_cons] at hp1
  obtain ⟨t2, e2, S2, M2, r2⟩ := S1p.setColor_frame BLACK_NODE
  have hpp1 : t1.parent (some k) = some (some g) := S1p.frame_parent
  have S2' : Shape t2 (plug (node g cg (node k BLACK_NODE (node p cp pl kp kl) kk kr) kg U)
    rest) := S2
  obtain ⟨t3, e3, S3, M3, r3⟩ := S2'.setColor RED_NODE
  obtain ⟨t4, e4, S4, M4, -⟩ := S3.rightRotate
  simp only [Frame.addr_R, Frame.addr_L, ctxPar_cons, Tree.ptr_node] at hp hpp hgr hgl e1 e2
  have a1 := hS.assert_frame
  have a2 := hg.assert_focus
  have a3 := hS.assert_focus
  have a4 := S1.assert_focus
  have a5 := S1.assert_frame
  have hg1 : Shape t1 (plug (node g cg (node k ck (node p cp pl kp kl) kk kr) kg U) rest) := S1
  have hgl1 := hg1.left_eq
  simp only [Frame.addr_R, Frame.addr_L, Tree.ptr_node] at a1 a5 hgl1 hpr
  have eU : t.fixInsertBody (some k) = some (t4, some p) := by
    simp only [RBT.fixInsertBody, hp, hpp, hgr, hgl, huc, hU, hpr, hne2, e1, e2, e3, e4, hp1,
    hpp1, RBT.parent_setColor e2, RBT.parent_setColor e3, Exec.some_bind, Exec.pure_eq,
    ctxPar_cons, Frame.addr_R, Frame.addr_L, ptr_fill, Tree.ptr_node, if_true, if_false,
    reduceCtorEq]
  have eC : t.fixInsertBodyChecked (some k) = some (t4, some p) := by
    simp only [RBT.fixInsertBodyChecked, RBT.leftRotateChecked, RBT.rightRotateChecked,
      a1, a2, a3, a4, a5, hgl1, RBT.assertNode_setColor e2, RBT.assertNode_setColor e3, RBT.right_setColor e2, RBT.right_setColor e3, RBT.left_setColor e2, RBT.left_setColor e3, hp, hpp, hgr, hgl, huc, hU, hpr, hne2, e1, e2, e3, e4, hp1,
    hpp1, RBT.parent_setColor e2, RBT.parent_setColor e3, Exec.some_bind, Exec.pure_eq,
    ctxPar_cons, Frame.addr_R, Frame.addr_L, ptr_fill, Tree.ptr_node, if_true, if_false,
    reduceCtorEq]
  rw [eU, eC]

end FtContainers

namespace FtContainers

open Color Tree

variable {K V : Type}

/-! ## One iteration of `fixInsert`, for every state that holds the tree -/

/-- One iteration of the loop of `fixInsert` at a cursor with a RED parent.
The tree after the iteration and the new cursor depend on the tree only, not
on the memory that holds it.  With a RED uncle the new cursor is the
grandparent and the invariant of the loop holds there unless it is the root;
with a BLACK uncle the parent of the new cursor is BLACK.  In every state
that holds the tree the iteration returns that tree, and the assertions of
`fixInsertBodyChecked` hold. -/
theorem fixInsert_ustep {k : Nat} {kl kr : Tree K V} {kk : K × V} {f1 f2 : Frame K V}
    {rest : List (Frame K V)}
    (hI : InsInv (node k RED_NODE kl kk kr) (f1 :: f2 :: rest)) (hf1 : f1.color = RED_NODE) :
    ∃ (S1 : Tree K V) (ctx1 : List (Frame K V)) (k1 : Nat),
      (∀ nl, S1.ptr nl = some k1) ∧
      (plug S1 ctx1).nodes = (plug (node k RED_NODE kl kk kr) (f1 :: f2 :: rest)).nodes ∧
      ((f2.sibling.rootColor = RED_NODE ∧ k1 = f2.addr ∧ ctx1 = rest ∧
          (rest ≠ [] → InsInv S1 rest)) ∨
        (f2.sibling.rootColor = BLACK_NODE ∧ ∃ f, ctx1 = f :: rest ∧ f.color = BLACK_NODE)) ∧
      ∀ t : RBT K V, Shape t (plug (node k RED_NODE kl kk kr) (f1 :: f2 :: rest)) →
        t.sentinelBlack →
        ∃ t1, t.fixInsertBody (some k) = some (t1, some k1) ∧ Shape t1 (plug S1 ctx1) ∧
          Same t t1 ∧ t.fixInsertBodyChecked (some k) = t.fixInsertBody (some k) := by
  obtain ⟨hred, hnrr, hbal, hne, hrb, hcn, hcb⟩ := hI
  have hcg := ctxNRR_red_parent hcn hf1
  clear hne hred
  cases f2 with
  | R g cg U kg =>
    simp only [Frame.color_L, Frame.color_R] at hcg
    subst hcg
    simp only [Frame.sibling, Frame.addr_L, Frame.addr_R]
    cases f1 with
    | R p cp pl kp =>
      simp only [Frame.color_L, Frame.color_R] at hf1
      subst hf1
      by_cases hU : U.rootColor = RED_NODE
      · obtain ⟨u, ul, ku, ur, rfl⟩ := Tree.red_node hU
        refine ⟨node g RED_NODE (node u BLACK_NODE ul ku ur) kg ((Frame.R p BLACK_NODE pl kp).fill (node k RED_NODE kl kk kr)), rest, g, fun _ => rfl, ?_, Or.inl ⟨rfl, rfl, rfl, fun hne => ?_⟩, fun t hS hs => ?_⟩
        · simp only [nodes_plug, Tree.nodes, ctxPreN, ctxPostN, Frame.fill_L, Frame.fill_R, Frame.recolor, List.append_assoc, List.cons_append, List.nil_append, List.append_nil]
        · cases rest with
          | nil => exact absurd rfl hne
          | cons f3 rest3 =>
            refine ⟨rfl, ?_, ?_, List.cons_ne_nil _ _, ?_, ?_, ?_⟩
            ·
              simp only [noRedRed_plug, balanced_plug, nodes_plug, Tree.noRedRed, Tree.balanced, Tree.bh, Tree.nodes, ctxNRR, ctxBal, ctxPreN, ctxPostN, Frame.fill_L, Frame.fill_R, Frame.recolor, Frame.color_L, Frame.color_R, Tree.rootColor_node, Tree.rootColor_nil, reduceCtorEq, if_true, if_false, false_implies, true_implies, true_and, and_true, List.append_assoc, List.cons_append, List.nil_append, List.append_nil, and_self, Nat.add_zero, ite_true, ite_false, forall_const, imp_self, ctxRootColor_cons, ctxRootColor_nil, Tree.blacken, false_and, and_false, implies_true, not_false_eq_true, rootColor_plug] at hnrr hbal hcn hcb ⊢ <;>
              (try casesm* _ ∧ _) <;>
              (try and_intros) <;>
              first | assumption | omega | tauto | exact ctxBal_congr ‹ctxBal _ _› (by omega)
            ·
              simp only [noRedRed_plug, balanced_plug, nodes_plug, Tree.noRedRed, Tree.balanced, Tree.bh, Tree.nodes, ctxNRR, ctxBal, ctxPreN, ctxPostN, Frame.fill_L, Frame.fill_R, Frame.recolor, Frame.color_L, Frame.color_R, Tree.rootColor_node, Tree.rootColor_nil, reduceCtorEq, if_true, if_false, false_implies, true_implies, true_and, and_true, List.append_assoc, List.cons_append, List.nil_append, List.append_nil, and_self, Nat.add_zero, ite_true, ite_false, forall_const, imp_self, ctxRootColor_cons, ctxRootColor_nil, Tree.blacken, false_and, and_false, implies_true, not_false_eq_true, rootColor_plug] at hnrr hbal hcn hcb ⊢ <;>
              (try casesm* _ ∧ _) <;>
              (try and_intros) <;>
              first | assumption | omega | tauto | exact ctxBal_congr ‹ctxBal _ _› (by omega)
            · simpa only [ctxRootColor_cons] using hrb
            ·
              simp only [noRedRed_plug, balanced_plug, nodes_plug, Tree.noRedRed, Tree.balanced, Tree.bh, Tree.nodes, ctxNRR, ctxBal, ctxPreN, ctxPostN, Frame.fill_L, Frame.fill_R, Frame.recolor, Frame.color_L, Frame.color_R, Tree.rootColor_node, Tree.rootColor_nil, reduceCtorEq, if_true, if_false, false_implies, true_implies, true_and, and_true, List.append_assoc, List.cons_append, List.nil_append, List.append_nil, and_self, Nat.add_zero, ite_true, ite_false, forall_const, imp_self, ctxRootColor_cons, ctxRootColor_nil, Tree.blacken, false_and, and_false, implies_true, not_false_eq_true, rootColor_plug] at hnrr hbal hcn hcb ⊢ <;>
              (try casesm* _ ∧ _) <;>
              (try and_intros) <;>
              first | assumption | omega | tauto | exact ctxBal_congr ‹ctxBal _ _› (by omega)
            ·
              simp only [noRedRed_plug, balanced_plug, nodes_plug, Tree.noRedRed, Tree.balanced, Tree.bh, Tree.nodes, ctxNRR, ctxBal, ctxPreN, ctxPostN, Frame.fill_L, Frame.fill_R, Frame.recolor, Frame.color_L, Frame.color_R, Tree.rootColor_node, Tree.rootColor_nil, reduceCtorEq, if_true, if_false, false_implies, true_implies, true_and, and_true, List.append_assoc, List.cons_append, List.nil_append, List.append_nil, and_self, Nat.add_zero, ite_true, ite_false, forall_const, imp_self, ctxRootColor_cons, ctxRootColor_nil, Tree.blacken, false_and, and_false, implies_true, not_false_eq_true, rootColor_plug] at hnrr hbal hcn hcb ⊢ <;>
              (try casesm* _ ∧ _) <;>
              (try and_intros) <;>
              first | assumption | omega | tauto | exact ctxBal_congr ‹ctxBal _ _› (by omega)
        · obtain ⟨t1, e1, S1, M1, -⟩ := fixInsertBody_redUncle_R hS
          exact ⟨t1, e1, S1, M1, fixInsertBodyChecked_redUncle_R hS⟩
      · have hU' := Color.eq_black_of_ne_red hU
        refine ⟨node k RED_NODE kl kk kr, Frame.R p BLACK_NODE (node g RED_NODE U kg pl) kp :: rest, k, fun _ => rfl, ?_, Or.inr ⟨hU', _, rfl, rfl⟩, fun t hS hs => ?_⟩
        · simp only [nodes_plug, Tree.nodes, ctxPreN, ctxPostN, Frame.fill_L, Frame.fill_R, Frame.recolor, List.append_assoc, List.cons_append, List.nil_append, List.append_nil]
        · obtain ⟨t1, e1, S1, M1⟩ := fixInsertBody_blackUncle_RR hS hs hU'
          exact ⟨t1, e1, S1, M1, fixInsertBodyChecked_blackUncle_RR hS hs hU'⟩
    | L p cp kp pr =>
      simp only [Frame.color_L, Frame.color_R] at hf1
      subst hf1
      by_cases hU : U.rootColor = RED_NODE
      · obtain ⟨u, ul, ku, ur, rfl⟩ := Tree.red_node hU
        refine ⟨node g RED_NODE (node u BLACK_NODE ul ku ur) kg ((Frame.L p BLACK_NODE kp pr).fill (node k RED_NODE kl kk kr)), rest, g, fun _ => rfl, ?_, Or.inl ⟨rfl, rfl, rfl, fun hne => ?_⟩, fun t hS hs => ?_⟩
        · simp only [nodes_plug, Tree.nodes, ctxPreN, ctxPostN, Frame.fill_L, Frame.fill_R, Frame.recolor, List.append_assoc, List.cons_append, List.nil_append, List.append_nil]
        · cases rest with
          | nil => exact absurd rfl hne
          | cons f3 rest3 =>
            refine ⟨rfl, ?_, ?_, List.cons_ne_nil _ _, ?_, ?_, ?_⟩
            ·
              simp only [noRedRed_plug, balanced_plug, nodes_plug, Tree.noRedRed, Tree.balanced, Tree.bh, Tree.nodes, ctxNRR, ctxBal, ctxPreN, ctxPostN, Frame.fill_L, Frame.fill_R, Frame.recolor, Frame.color_L, Frame.color_R, Tree.rootColor_node, Tree.rootColor_nil, reduceCtorEq, if_true, if_false, false_implies, true_implies, true_and, and_true, List.append_assoc, List.cons_append, List.nil_append, List.append_nil, and_self, Nat.add_zero, ite_true, ite_false, forall_const, imp_self, ctxRootColor_cons, ctxRootColor_nil, Tree.blacken, false_and, and_false, implies_true, not_false_eq_true, rootColor_plug] at hnrr hbal hcn hcb ⊢ <;>
              (try casesm* _ ∧ _) <;>
              (try and_intros) <;>
              first | assumption | omega | tauto | exact ctxBal_congr ‹ctxBal _ _› (by omega)
            ·
              simp only [noRedRed_plug, balanced_plug, nodes_plug, Tree.noRedRed, Tree.balanced, Tree.bh, Tree.nodes, ctxNRR, ctxBal, ctxPreN, ctxPostN, Frame.fill_L, Frame.fill_R, Frame.recolor, Frame.color_L, Frame.color_R, Tree.rootColor_node, Tree.rootColor_nil, reduceCtorEq, if_true, if_false, false_implies, true_implies, true_and, and_true, List.append_assoc, List.cons_append, List.nil_append, List.append_nil, and_self, Nat.add_zero, ite_true, ite_false, forall_const, imp_self, ctxRootColor_cons, ctxRootColor_nil, Tree.blacken, false_and, and_false, implies_true, not_false_eq_true, rootColor_plug] at hnrr hbal hcn hcb ⊢ <;>
              (try casesm* _ ∧ _) <;>
              (try and_intros) <;>
              first | assumption | omega | tauto | exact ctxBal_congr ‹ctxBal _ _› (by omega)
            · simpa only [ctxRootColor_cons] using hrb
            ·
              simp only [noRedRed_plug, balanced_plug, nodes_plug, Tree.noRedRed, Tree.balanced, Tree.bh, Tree.nodes, ctxNRR, ctxBal, ctxPreN, ctxPostN, Frame.fill_L, Frame.fill_R, Frame.recolor, Frame.color_L, Frame.color_R, Tree.rootColor_node, Tree.rootColor_nil, reduceCtorEq, if_true, if_false, false_implies, true_implies, true_and, and_true, List.append_assoc, List.cons_append, List.nil_append, List.append_nil, and_self, Nat.add_zero, ite_true, ite_false, forall_const, imp_self, ctxRootColor_cons, ctxRootColor_nil, Tree.blacken, false_and, and_false, implies_true, not_false_eq_true, rootColor_plug] at hnrr hbal hcn hcb ⊢ <;>
              (try casesm* _ ∧ _) <;>
              (try and_intros) <;>
              first | assumption | omega | tauto | exact ctxBal_congr ‹ctxBal _ _› (by omega)
            ·
              simp only [noRedRed_plug, balanced_plug, nodes_plug, Tree.noRedRed, Tree.balanced, Tree.bh, Tree.nodes, ctxNRR, ctxBal, ctxPreN, ctxPostN, Frame.fill_L, Frame.fill_R, Frame.recolor, Frame.color_L, Frame.color_R, Tree.rootColor_node, Tree.rootColor_nil, reduceCtorEq, if_true, if_false, false_implies, true_implies, true_and, and_true, List.append_assoc, List.cons_append, List.nil_append, List.append_nil, and_self, Nat.add_zero, ite_true, ite_false, forall_const, imp_self, ctxRootColor_cons, ctxRootColor_nil, Tree.blacken, false_and, and_false, implies_true, not_false_eq_true, rootColor_plug] at hnrr hbal hcn hcb ⊢ <;>
              (try casesm* _ ∧ _) <;>
              (try and_intros) <;>
              first | assumption | omega | tauto | exact ctxBal_congr ‹ctxBal _ _› (by omega)
        · obtain ⟨t1, e1, S1, M1, -⟩ := fixInsertBody_redUncle_R hS
          exact ⟨t1, e1, S1, M1, fixInsertBodyChecked_redUncle_R hS⟩
      · have hU' := Color.eq_black_of_ne_red hU
        refine ⟨node p RED_NODE kr kp pr, Frame.R k BLACK_NODE (node g RED_NODE U kg kl) kk :: rest, p, fun _ => rfl, ?_, Or.inr ⟨hU', _, rfl, rfl⟩, fun t hS hs => ?_⟩
        · simp only [nodes_plug, Tree.nodes, ctxPreN, ctxPostN, Frame.fill_L, Frame.fill_R, Frame.recolor, List.append_assoc, List.cons_append, List.nil_append, List.append_nil]
        · obtain ⟨t1, e1, S1, M1⟩ := fixInsertBody_blackUncle_RL hS hs hU'
          exact ⟨t1, e1, S1, M1, fixInsertBodyChecked_blackUncle_RL hS hs hU'⟩
  | L g cg kg U =>
    simp only [Frame.color_L, Frame.color_R] at hcg
    subst hcg
    simp only [Frame.sibling, Frame.addr_L, Frame.addr_R]
    cases f1 with
    | R p cp pl kp =>
      simp only [Frame.color_L, Frame.color_R] at hf1
      subst hf1
      by_cases hU : U.rootColor = RED_NODE
      · obtain ⟨u, ul, ku, ur, rfl⟩ := Tree.red_node hU
        refine ⟨node g RED_NODE ((Frame.R p BLACK_NODE pl kp).fill (node k RED_NODE kl kk kr)) kg (node u BLACK_NODE ul ku ur), rest, g, fun _ => rfl, ?_, Or.inl ⟨rfl, rfl, rfl, fun hne => ?_⟩, fun t hS hs => ?_⟩
        · simp only [nodes_plug, Tree.nodes, ctxPreN, ctxPostN, Frame.fill_L, Frame.fill_R, Frame.recolor, List.append_assoc, List.cons_append, List.nil_append, List.append_nil]
        · cases rest with
          | nil => exact absurd rfl hne
          | cons f3 rest3 =>
            refine ⟨rfl, ?_, ?_, List.cons_ne_nil _ _, ?_, ?_, ?_⟩
            ·
              simp only [noRedRed_plug, balanced_plug, nodes_plug, Tree.noRedRed, Tree.balanced, Tree.bh, Tree.nodes, ctxNRR, ctxBal, ctxPreN, ctxPostN, Frame.fill_L, Frame.fill_R, Frame.recolor, Frame.color_L, Frame.color_R, Tree.rootColor_node, Tree.rootColor_nil, reduceCtorEq, if_true, if_false, false_implies, true_implies, true_and, and_true, List.append_assoc, List.cons_append, List.nil_append, List.append_nil, and_self, Nat.add_zero, ite_true, ite_false, forall_const, imp_self, ctxRootColor_cons, ctxRootColor_nil, Tree.blacken, false_and, and_false, implies_true, not_false_eq_true, rootColor_plug] at hnrr hbal hcn hcb ⊢ <;>
              (try casesm* _ ∧ _) <;>
              (try and_intros) <;>
              first | assumption | omega | tauto | exact ctxBal_congr ‹ctxBal _ _› (by omega)
            ·
              simp only [noRedRed_plug, balanced_plug, nodes_plug, Tree.noRedRed, Tree.balanced, Tree.bh, Tree.nodes, ctxNRR, ctxBal, ctxPreN, ctxPostN, Frame.fill_L, Frame.fill_R, Frame.recolor, Frame.color_L, Frame.color_R, Tree.rootColor_node, Tree.rootColor_nil, reduceCtorEq, if_true, if_false, false_implies, true_implies, true_and, and_true, List.append_assoc, List.cons_append, List.nil_append, List.append_nil, and_self, Nat.add_zero, ite_true, ite_false, forall_const, imp_self, ctxRootColor_cons, ctxRootColor_nil, Tree.blacken, false_and, and_false, implies_true, not_false_eq_true, rootColor_plug] at hnrr hbal hcn hcb ⊢ <;>
              (try casesm* _ ∧ _) <;>
              (try and_intros) <;>
              first | assumption | omega | tauto | exact ctxBal_congr ‹ctxBal _ _› (by omega)
            · simpa only [ctxRootColor_cons] using hrb
            ·
              simp only [noRedRed_plug, balanced_plug, nodes_plug, Tree.noRedRed, Tree.balanced, Tree.bh, Tree.nodes, ctxNRR, ctxBal, ctxPreN, ctxPostN, Frame.fill_L, Frame.fill_R, Frame.recolor, Frame.color_L, Frame.color_R, Tree.rootColor_node, Tree.rootColor_nil, reduceCtorEq, if_true, if_false, false_implies, true_implies, true_and, and_true, List.append_assoc, List.cons_append, List.nil_append, List.append_nil, and_self, Nat.add_zero, ite_true, ite_false, forall_const, imp_self, ctxRootColor_cons, ctxRootColor_nil, Tree.blacken, false_and, and_false, implies_true, not_false_eq_true, rootColor_plug] at hnrr hbal hcn hcb ⊢ <;>
              (try casesm* _ ∧ _) <;>
              (try and_intros) <;>
              first | assumption | omega | tauto | exact ctxBal_congr ‹ctxBal _ _› (by omega)
            ·
              simp only [noRedRed_plug, balanced_plug, nodes_plug, Tree.noRedRed, Tree.balanced, Tree.bh, Tree.nodes, ctxNRR, ctxBal, ctxPreN, ctxPostN, Frame.fill_L, Frame.fill_R, Frame.recolor, Frame.color_L, Frame.color_R, Tree.rootColor_node, Tree.rootColor_nil, reduceCtorEq, if_true, if_false, false_implies, true_implies, true_and, and_true, List.append_assoc, List.cons_append, List.nil_append, List.append_nil, and_self, Nat.add_zero, ite_true, ite_false, forall_const, imp_self, ctxRootColor_cons, ctxRootColor_nil, Tree.blacken, false_and, and_false, implies_true, not_false_eq_true, rootColor_plug] at hnrr hbal hcn hcb ⊢ <;>
              (try casesm* _ ∧ _) <;>
              (try and_intros) <;>
              first | assumption | omega | tauto | exact ctxBal_congr ‹ctxBal _ _› (by omega)
        · obtain ⟨t1, e1, S1, M1, -⟩ := fixInsertBody_redUncle_L hS
          exact ⟨t1, e1, S1, M1, fixInsertBodyChecked_redUncle_L hS⟩
      · have hU' := Color.eq_black_of_ne_red hU
        refine ⟨node p RED_NODE pl kp kl, Frame.L k BLACK_NODE kk (node g RED_NODE kr kg U) :: rest, p, fun _ => rfl, ?_, Or.inr ⟨hU', _, rfl, rfl⟩, fun t hS hs => ?_⟩
        · simp only [nodes_plug, Tree.nodes, ctxPreN, ctxPostN, Frame.fill_L, Frame.fill_R, Frame.recolor, List.append_assoc, List.cons_append, List.nil_append, List.append_nil]
        · obtain ⟨t1, e1, S1, M1⟩ := fixInsertBody_blackUncle_LR hS hs hU'
          exact ⟨t1, e1, S1, M1, fixInsertBodyChecked_blackUncle_LR hS hs hU'⟩
    | L p cp kp pr =>
      simp only [Frame.color_L, Frame.color_R] at hf1
      subst hf1
      by_cases hU : U.rootColor = RED_NODE
      · obtain ⟨u, ul, ku, ur, rfl⟩ := Tree.red_node hU
        refine ⟨node g RED_NODE ((Frame.L p BLACK_NODE kp pr).fill (node k RED_NODE kl kk kr)) kg (node u BLACK_NODE ul ku ur), rest, g, fun _ => rfl, ?_, Or.inl ⟨rfl, rfl, rfl, fun hne => ?_⟩, fun t hS hs => ?_⟩
        · simp only [nodes_plug, Tree.nodes, ctxPreN, ctxPostN, Frame.fill_L, Frame.fill_R, Frame.recolor, List.append_assoc, List.cons_append, List.nil_append, List.append_nil]
        · cases rest with
          | nil => exact absurd rfl hne
          | cons f3 rest3 =>
            refine ⟨rfl, ?_, ?_, List.cons_ne_nil _ _, ?_, ?_, ?_⟩
            ·
              simp only [noRedRed_plug, balanced_plug, nodes_plug, Tree.noRedRed, Tree.balanced, Tree.bh, Tree.nodes, ctxNRR, ctxBal, ctxPreN, ctxPostN, Frame.fill_L, Frame.fill_R, Frame.recolor, Frame.color_L, Frame.color_R, Tree.rootColor_node, Tree.rootColor_nil, reduceCtorEq, if_true, if_false, false_implies, true_implies, true_and, and_true, List.append_assoc, List.cons_append, List.nil_append, List.append_nil, and_self, Nat.add_zero, ite_true, ite_false, forall_const, imp_self, ctxRootColor_cons, ctxRootColor_nil, Tree.blacken, false_and, and_false, implies_true, not_false_eq_true, rootColor_plug] at hnrr hbal hcn hcb ⊢ <;>
              (try casesm* _ ∧ _) <;>
              (try and_intros) <;>
              first | assumption | omega | tauto | exact ctxBal_congr ‹ctxBal _ _› (by omega)
            ·
              simp only [noRedRed_plug, balanced_plug, nodes_plug, Tree.noRedRed, Tree.balanced, Tree.bh, Tree.nodes, ctxNRR, ctxBal, ctxPreN, ctxPostN, Frame.fill_L, Frame.fill_R, Frame.recolor, Frame.color_L, Frame.color_R, Tree.rootColor_node, Tree.rootColor_nil, reduceCtorEq, if_true, if_false, false_implies, true_implies, true_and, and_true, List.append_assoc, List.cons_append, List.nil_append, List.append_nil, and_self, Nat.add_zero, ite_true, ite_false, forall_const, imp_self, ctxRootColor_cons, ctxRootColor_nil, Tree.blacken, false_and, and_false, implies_true, not_false_eq_true, rootColor_plug] at hnrr hbal hcn hcb ⊢ <;>
              (try casesm* _ ∧ _) <;>
              (try and_intros) <;>
              first | assumption | omega | tauto | exact ctxBal_congr ‹ctxBal _ _› (by omega)
            · simpa only [ctxRootColor_cons] using hrb
            ·
              simp only [noRedRed_plug, balanced_plug, nodes_plug, Tree.noRedRed, Tree.balanced, Tree.bh, Tree.nodes, ctxNRR, ctxBal, ctxPreN, ctxPostN, Frame.fill_L, Frame.fill_R, Frame.recolor, Frame.color_L, Frame.color_R, Tree.rootColor_node, Tree.rootColor_nil, reduceCtorEq, if_true, if_false, false_implies, true_implies, true_and, and_true, List.append_assoc, List.cons_append, List.nil_append, List.append_nil, and_self, Nat.add_zero, ite_true, ite_false, forall_const, imp_self, ctxRootColor_cons, ctxRootColor_nil, Tree.blacken, false_and, and_false, implies_true, not_false_eq_true, rootColor_plug] at hnrr hbal hcn hcb ⊢ <;>
              (try casesm* _ ∧ _) <;>
              (try and_intros) <;>
              first | assumption | omega | tauto | exact ctxBal_congr ‹ctxBal _ _› (by omega)
            ·
              simp only [noRedRed_plug, balanced_plug, nodes_plug, Tree.noRedRed, Tree.balanced, Tree.bh, Tree.nodes, ctxNRR, ctxBal, ctxPreN, ctxPostN, Frame.fill_L, Frame.fill_R, Frame.recolor, Frame.color_L, Frame.color_R, Tree.rootColor_node, Tree.rootColor_nil, reduceCtorEq, if_true, if_false, false_implies, true_implies, true_and, and_true, List.append_assoc, List.cons_append, List.nil_append, List.append_nil, and_self, Nat.add_zero, ite_true, ite_false, forall_const, imp_self, ctxRootColor_cons, ctxRootColor_nil, Tree.blacken, false_and, and_false, implies_true, not_false_eq_true, rootColor_plug] at hnrr hbal hcn hcb ⊢ <;>
              (try casesm* _ ∧ _) <;>
              (try and_intros) <;>
              first | assumption | omega | tauto | exact ctxBal_congr ‹ctxBal _ _› (by omega)
        · obtain ⟨t1, e1, S1, M1, -⟩ := fixInsertBody_redUncle_L hS
          exact ⟨t1, e1, S1, M1, fixInsertBodyChecked_redUncle_L hS⟩
      · have hU' := Color.eq_black_of_ne_red hU
        refine ⟨node k RED_NODE kl kk kr, Frame.L p BLACK_NODE kp (node g RED_NODE pr kg U) :: rest, k, fun _ => rfl, ?_, Or.inr ⟨hU', _, rfl, rfl⟩, fun t hS hs => ?_⟩
        · simp only [nodes_plug, Tree.nodes, ctxPreN, ctxPostN, Frame.fill_L, Frame.fill_R, Frame.recolor, List.append_assoc, List.cons_append, List.nil_append, List.append_nil]
        · obtain ⟨t1, e1, S1, M1⟩ := fixInsertBody_blackUncle_LL hS hs hU'
          exact ⟨t1, e1, S1, M1, fixInsertBodyChecked_blackUncle_LL hS hs hU'⟩

end FtContainers

namespace FtContainers

open Color Tree

variable {K V : Type}

/-! ## The loop of `fixInsert`, for every state that holds the tree -/

theorem Tree.node_of_ptr {S : Tree K V} {a : Nat} (h : ∀ nl, S.ptr nl = some a) :
    ∃ c l kv r, S = node a c l kv r := by
  cases S with
  | nil =>
    have := h (a + 1)
    simp only [Tree.ptr_nil, Option.some.injEq] at this
    omega
  | node b c l kv r =>
    have := h 0
    simp only [Tree.ptr_node, Option.some.injEq] at this
    subst this
    exact ⟨c, l, kv, r, rfl⟩

/-- The loop of `fixInsertChecked` stops at a cursor whose parent is BLACK. -/
theorem fixInsertChecked_exit {t : RBT K V} {k : Nat} {ck : Color} {kl kr : Tree K V}
    {kk : K × V} {f : Frame K V} {rest : List (Frame K V)}
    (hS : Shape t (plug (node k ck kl kk kr) (f :: rest))) (hf : f.color = BLACK_NODE) (n : Nat) :
    RBT.fixInsertChecked (n + 1) t (some k) = t.setColor t.root BLACK_NODE := by
  have hp := hS.parent_eq
  have hc := hS.frame_color
  have ha := hS.assert_frame
  simp only [RBT.fixInsertChecked, hp, hc, hf, ha, Exec.some_bind, ctxPar_cons, reduceCtorEq,
    if_false]

/-- The loop of `fixInsert` from a state of the loop: the tree it ends with
depends on the tree it starts from only, it has the same nodes and a BLACK
root, and in every state that holds the tree the loop returns a state that
holds the result, with every assertion of `fixInsertChecked` satisfied. -/
theorem fixInsert_uniform : ∀ (n : Nat) (S : Tree K V) (ctx : List (Frame K V)),
    ctx.length ≤ n → InsInv S ctx →
    ∃ T' : Tree K V, T'.nodes = (plug S ctx).nodes ∧ T'.rootColor = BLACK_NODE ∧
      ∀ t : RBT K V, Shape t (plug S ctx) → t.sentinelBlack →
        ∃ t', RBT.fixInsert (n + 1) t (S.ptr t.null) = some t' ∧
          RBT.fixInsertChecked (n + 1) t (S.ptr t.null) = some t' ∧ Shape t' T' ∧
          Same t t' := by
  intro n
  induction n with
  | zero =>
    intro S ctx hlen hI
    exact absurd (List.length_eq_zero.1 (Nat.le_zero.1 hlen)) hI.nonempty
  | succ n ih =>
    intro S ctx hlen hI
    obtain ⟨k, kl, kk, kr, rfl⟩ := Tree.red_node hI.red
    cases ctx with
    | nil => exact absurd rfl hI.nonempty
    | cons f1 rest1 =>
      by_cases hf1 : f1.color = BLACK_NODE
      · refine ⟨(plug (node k RED_NODE kl kk kr) (f1 :: rest1)).blacken, Tree.blacken_nodes _,
          Tree.blacken_rootColor _, fun t hS hs => ?_⟩
        obtain ⟨t1, e1, S1, M1⟩ := hS.blackenRoot
        refine ⟨t1, ?_, ?_, S1, M1⟩
        · rw [Tree.ptr_node, fixInsert_exit hS hf1]
          exact e1
        · rw [Tree.ptr_node, fixInsertChecked_exit hS hf1]
          exact e1
      · have hf1r : f1.color = RED_NODE := by
          cases h : f1.color
          · rfl
          · exact absurd h hf1
        cases rest1 with
        | nil =>
          have hrb := hI.rootBlack
          simp only [ctxRootColor_cons, ctxRootColor_nil] at hrb
          exact absurd hrb hf1
        | cons f2 rest2 =>
          obtain ⟨S1, ctx1, k1, hptr, hnodes, hkind, hall⟩ := fixInsert_ustep hI hf1r
          obtain ⟨c1, l1, kv1, r1, rfl⟩ := Tree.node_of_ptr hptr
          have hstep : ∀ (t : RBT K V), Shape t (plug (node k RED_NODE kl kk kr)
              (f1 :: f2 :: rest2)) → ∀ r, t.fixInsertBody (some k) = some r →
              RBT.fixInsert (n + 1 + 1) t (some k) =
                (if r.2 = r.1.root then r.1.setColor r.1.root BLACK_NODE
                 else RBT.fixInsert (n + 1) r.1 r.2) := by
            intro t hS r hr
            have hp := hS.parent_eq
            have hc := hS.frame_color
            simp only [RBT.fixInsert, hp, hc, hf1r, hr, Exec.some_bind, ctxPar_cons, if_true]
          have hstepC : ∀ (t : RBT K V), Shape t (plug (node k RED_NODE kl kk kr)
              (f1 :: f2 :: rest2)) → ∀ r, t.fixInsertBodyChecked (some k) = some r →
              RBT.fixInsertChecked (n + 1 + 1) t (some k) =
                (if r.2 = r.1.root then r.1.setColor r.1.root BLACK_NODE
                 else RBT.fixInsertChecked (n + 1) r.1 r.2) := by
            intro t hS r hr
            have hp := hS.parent_eq
            have hc := hS.frame_color
            have ha := hS.assert_frame
            simp only [RBT.fixInsertChecked, hp, hc, ha, hf1r, hr, Exec.some_bind, ctxPar_cons,
              if_true]
          rcases hkind with ⟨-, -, rfl, hinv⟩ | ⟨-, f, rfl, hfb⟩
          · cases ctx1 with
            | nil =>
              refine ⟨(node k1 c1 l1 kv1 r1).blacken, ?_, Tree.blacken_rootColor _,
                fun t hS hs => ?_⟩
              · rw [Tree.blacken_nodes, ← hnodes]
                rfl
              · obtain ⟨t1, e1, S1s, M1, eC⟩ := hall t hS hs
                have hroot : t1.root = some k1 := S1s.root
                have S1n : Shape t1 (plug (node k1 c1 l1 kv1 r1) []) := S1s
                obtain ⟨t2, e2, S2, M2⟩ := S1n.blackenRoot
                refine ⟨t2, ?_, ?_, S2, M1.trans M2⟩
                · rw [Tree.ptr_node, hstep t hS _ e1]
                  simp only [hroot, if_true]
                  rw [hroot] at e2
                  exact e2
                · rw [Tree.ptr_node, hstepC t hS _ (eC.trans e1)]
                  simp only [hroot, if_true]
                  rw [hroot] at e2
                  exact e2
            | cons f3 rest3 =>
              obtain ⟨T', hn', hc', hall'⟩ := ih (node k1 c1 l1 kv1 r1) (f3 :: rest3)
                (by simp only [List.length_cons] at hlen ⊢; omega) (hinv (List.cons_ne_nil _ _))
              refine ⟨T', hn'.trans hnodes, hc', fun t hS hs => ?_⟩
              obtain ⟨t1, e1, S1s, M1, eC⟩ := hall t hS hs
              have hnr : ¬ (some k1 = t1.root) := S1s.focus_ne_root
              obtain ⟨t2, e2, e2C, S2, M2⟩ := hall' t1 S1s (M1.sentinelBlack hs)
              refine ⟨t2, ?_, ?_, S2, M1.trans M2⟩
              · rw [Tree.ptr_node, hstep t hS _ e1]
                simp only [hnr, if_false]
                exact e2
              · rw [Tree.ptr_node, hstepC t hS _ (eC.trans e1)]
                simp only [hnr, if_false]
                exact e2C
          · refine ⟨(plug (node k1 c1 l1 kv1 r1) (f :: rest2)).blacken, ?_,
              Tree.blacken_rootColor _, fun t hS hs => ?_⟩
            · rw [Tree.blacken_nodes, hnodes]
            · obtain ⟨t1, e1, S1s, M1, eC⟩ := hall t hS hs
              have hnr : ¬ (some k1 = t1.root) := S1s.focus_ne_root
              obtain ⟨t2, e2, S2, M2⟩ := S1s.blackenRoot
              refine ⟨t2, ?_, ?_, S2, M1.trans M2⟩
              · rw [Tree.ptr_node, hstep t hS _ e1]
                simp only [hnr, if_false]
                rw [fixInsert_exit S1s hfb]
                exact e2
              · rw [Tree.ptr_node, hstepC t hS _ (eC.trans e1)]
                simp only [hnr, if_false]
                rw [fixInsertChecked_exit S1s hfb]
                exact e2

end FtContainers

namespace FtContainers

open Color Tree

variable {K V : Type}

/-! ## The new node attached, before the repair -/

variable [LinearOrder K]

/-- The code of `insert` when the descent ends at a sentinel link below a
node: the state `ta` in which the new node is attached there, and what
`insert` and `insertChecked` do from it. -/
theorem insert_attach {t : RBT K V} {kv : K × V} {f : Frame K V} {rest : List (Frame K V)}
    (hS : Shape t (plug nil (f :: rest))) (hsn : t.next ≠ t.null)
    (hfresh : t.next ∉ (plug nil (f :: rest)).addrs)
    (hloop : RBT.insertLoop (t.allocate ⟨kv, RED_NODE, none, some t.null, some t.null⟩).1
      (some t.next) (t.next + 1) none t.root = some (ctxPar (f :: rest), false))
    (hbd : ctxBounded kv.1 (f :: rest)) :
    ∃ ta : RBT K V, Shape ta (plug (node t.next RED_NODE nil kv nil) (f :: rest)) ∧
      ta.null = t.null ∧ ta.next = t.next + 1 ∧ ta.heap t.null = t.heap t.null ∧
      t.insert kv = (if rest.length = 0 then some (ta, some f.addr, true)
        else (do let t' ← RBT.fixInsert ta.next ta (some t.next)
                 pure (t', some f.addr, true) : Exec (RBT K V × Ptr × Bool))) ∧
      t.insertChecked kv = (if rest.length = 0 then some (ta, some f.addr, true)
        else (do let t' ← RBT.fixInsertChecked ta.next ta (some t.next)
                 pure (t', some f.addr, true) : Exec (RBT K V × Ptr × Bool))) := by
  simp only [RBT.allocate] at hloop
  cases f with
    | L p cp kp pr =>
      rw [Shape.plug_iff] at hS
      obtain ⟨hroot, -, ⟨hp, hpc, hpr, hrest⟩, hnd⟩ := hS
      have hlt1 : kv.1 < kp.1 := hbd.2 kp (by simp [ctxPost])
      have hsmem : t.next ∉ p :: (pr.addrs ++ ctxAddrs rest) := by
        intro h
        apply hfresh
        rw [mem_addrs_plug]
        right
        simpa [ctxAddrs] using h
      simp only [List.mem_cons, List.mem_append, not_or] at hsmem
      obtain ⟨hsp, hspr, hsrest⟩ := hsmem
      have hps : p ≠ t.next := Ne.symm hsp
      have hns : t.null ≠ t.next := Ne.symm hsn
      have hnd' := hnd
      simp only [Tree.addrs, ctxAddrs, List.nodup_append, List.nodup_cons, List.mem_append, List.mem_cons,
        not_or, List.disjoint_cons_left, List.disjoint_cons_right, List.disjoint_append_left,
        List.disjoint_append_right, List.cons_append, List.append_assoc, List.nodup_nil,
        List.not_mem_nil, List.disjoint_nil_left, List.disjoint_nil_right, List.append_nil,
        List.nil_append, not_false_eq_true, true_and, and_true] at hnd'
      simp only [ctxPar_cons, ctxPar_nil, Frame.addr_L, Frame.addr_R, Tree.ptr_node, Tree.ptr_nil] at hpc hloop
      have hS1 : Shape
          (RBT.mk t.root t.null
            (setCell (setCell (setCell t.heap t.next
              (some ⟨kv, RED_NODE, none, some t.null, some t.null⟩)) t.next
              (some ⟨kv, RED_NODE, some p, some t.null, some t.null⟩)) p
              (some ⟨kp, cp, ctxPar rest, some t.next, pr.ptr t.null⟩))
            (t.next + 1))
          (plug (node t.next RED_NODE nil kv nil) (Frame.L p cp kp pr :: rest)) := by
        rw [Shape.plug_iff]
        simp only [Repr, ReprCtx, setCell_same, setCell_other, Repr_setCell, ReprCtx_setCell, hnd', hsp,
          hps, hsn, hns, hp, Ne.symm hp, hpc, ne_eq, not_false_eq_true, Tree.ptr_node,
          Tree.ptr_nil, ctxPar_cons, ctxPar_nil, ctxRoot_cons, ctxRoot_nil, Frame.addr_L,
          Frame.addr_R, true_and, and_true, Tree.addrs, List.append_assoc, List.cons_append,
          List.nil_append, hspr, hsrest]
        simp only [Tree.addrs, List.append_assoc, List.cons_append, List.nil_append, Tree.ptr_nil, ctxRoot_cons, ctxRoot_nil, Frame.addr_L, Frame.addr_R, ctxAddrs, List.nodup_cons, List.mem_cons, List.mem_append, not_or] at hnd hroot ⊢
        and_intros <;> first | assumption | exact hnd.1.1 | exact hnd.1.2 | exact hnd.2
      have hpar1 := hS1.parent_eq
      have hpar2 := hS1.frame_parent
      simp only [ctxPar_cons, Frame.addr_L, Frame.addr_R] at hpar1 hpar2
      have hcell0 : (setCell (setCell (setCell t.heap t.next
              (some ⟨kv, RED_NODE, none, some t.null, some t.null⟩)) t.next
              (some ⟨kv, RED_NODE, some p, some t.null, some t.null⟩)) p
              (some ⟨kp, cp, ctxPar rest, some t.next, pr.ptr t.null⟩)) t.null = t.heap t.null := by
        simp only [setCell_other, hns, Ne.symm hp, ne_eq, not_false_eq_true]
      refine ⟨_, hS1, rfl, rfl, hcell0, ?_, ?_⟩
      · simp only [RBT.insert, RBT.allocate, RBT.key, RBT.setParent, RBT.setLeft, RBT.setRight,
          RBT.setColor, RBT.modify, RBT.get_some, Exec.some_bind, Exec.pure_eq, hloop, hpc, hsp,
          hps, hsn, hns, hp, Ne.symm hp, hlt1, setCell, if_pos, if_neg, ite_true, ite_false, ne_eq,
          Option.some.injEq, not_false_eq_true, not_true_eq_false, reduceCtorEq, ctxPar_cons,
          Frame.addr_L, Frame.addr_R, Bool.false_eq_true]
        rw [hpar1]
        simp only [Exec.some_bind, reduceCtorEq, if_false]
        rw [hpar2]
        simp only [Exec.some_bind]
        cases rest with
        | nil => simp only [ctxPar_nil, if_true, Exec.pure_eq, List.length_nil]
        | cons f2 rest2 =>
          simp only [ctxPar_cons, reduceCtorEq, if_false, List.length_cons]
      · simp only [RBT.insertChecked, RBT.allocate, RBT.key, RBT.setParent, RBT.setLeft, RBT.setRight,
          RBT.setColor, RBT.modify, RBT.get_some, Exec.some_bind, Exec.pure_eq, hloop, hpc, hsp,
          hps, hsn, hns, hp, Ne.symm hp, hlt1, setCell, if_pos, if_neg, ite_true, ite_false, ne_eq,
          Option.some.injEq, not_false_eq_true, not_true_eq_false, reduceCtorEq, ctxPar_cons,
          Frame.addr_L, Frame.addr_R, Bool.false_eq_true]
        rw [hpar1]
        simp only [Exec.some_bind, reduceCtorEq, if_false]
        rw [hpar2]
        simp only [Exec.some_bind]
        cases rest with
        | nil => simp only [ctxPar_nil, if_true, Exec.pure_eq, List.length_nil]
        | cons f2 rest2 =>
          simp only [ctxPar_cons, reduceCtorEq, if_false, List.length_cons]
    | R p cp pr kp =>
      rw [Shape.plug_iff] at hS
      obtain ⟨hroot, -, ⟨hp, hpc, hpr, hrest⟩, hnd⟩ := hS
      have hlt1 : ¬ kv.1 < kp.1 := not_lt_of_gt (hbd.1 kp (by simp [ctxPre]))
      have hsmem : t.next ∉ p :: (pr.addrs ++ ctxAddrs rest) := by
        intro h
        apply hfresh
        rw [mem_addrs_plug]
        right
        simpa [ctxAddrs] using h
      simp only [List.mem_cons, List.mem_append, not_or] at hsmem
      obtain ⟨hsp, hspr, hsrest⟩ := hsmem
      have hps : p ≠ t.next := Ne.symm hsp
      have hns : t.null ≠ t.next := Ne.symm hsn
      have hnd' := hnd
      simp only [Tree.addrs, ctxAddrs, List.nodup_append, List.nodup_cons, List.mem_append, List.mem_cons,
        not_or, List.disjoint_cons_left, List.disjoint_cons_right, List.disjoint_append_left,
        List.disjoint_append_right, List.cons_append, List.append_assoc, List.nodup_nil,
        List.not_mem_nil, List.disjoint_nil_left, List.disjoint_nil_right, List.append_nil,
        List.nil_append, not_false_eq_true, true_and, and_true] at hnd'
      simp only [ctxPar_cons, ctxPar_nil, Frame.addr_L, Frame.addr_R, Tree.ptr_node, Tree.ptr_nil] at hpc hloop
      have hS1 : Shape
          (RBT.mk t.root t.null
            (setCell (setCell (setCell t.heap t.next
              (some ⟨kv, RED_NODE, none, some t.null, some t.null⟩)) t.next
              (some ⟨kv, RED_NODE, some p, some t.null, some t.null⟩)) p
              (some ⟨kp, cp, ctxPar rest, pr.ptr t.null, some t.next⟩))
            (t.next + 1))
          (plug (node t.next RED_NODE nil kv nil) (Frame.R p cp pr kp :: rest)) := by
        rw [Shape.plug_iff]
        simp only [Repr, ReprCtx, setCell_same, setCell_other, Repr_setCell, ReprCtx_setCell, hnd', hsp,
          hps, hsn, hns, hp, Ne.symm hp, hpc, ne_eq, not_false_eq_true, Tree.ptr_node,
          Tree.ptr_nil, ctxPar_cons, ctxPar_nil, ctxRoot_cons, ctxRoot_nil, Frame.addr_L,
          Frame.addr_R, true_and, and_true, Tree.addrs, List.append_assoc, List.cons_append,
          List.nil_append, hspr, hsrest]
        simp only [Tree.addrs, List.append_assoc, List.cons_append, List.nil_append, Tree.ptr_nil, ctxRoot_cons, ctxRoot_nil, Frame.addr_L, Frame.addr_R, ctxAddrs, List.nodup_cons, List.mem_cons, List.mem_append, not_or] at hnd hroot ⊢
        and_intros <;> first | assumption | exact hnd.1.1 | exact hnd.1.2 | exact hnd.2
      have hpar1 := hS1.parent_eq
      have hpar2 := hS1.frame_parent
      simp only [ctxPar_cons, Frame.addr_L, Frame.addr_R] at hpar1 hpar2
      have hcell0 : (setCell (setCell (setCell t.heap t.next
              (some ⟨kv, RED_NODE, none, some t.null, some t.null⟩)) t.next
              (some ⟨kv, RED_NODE, some p, some t.null, some t.null⟩)) p
              (some ⟨kp, cp, ctxPar rest, pr.ptr t.null, some t.next⟩)) t.null = t.heap t.null := by
        simp only [setCell_other, hns, Ne.symm hp, ne_eq, not_false_eq_true]
      refine ⟨_, hS1, rfl, rfl, hcell0, ?_, ?_⟩
      · simp only [RBT.insert, RBT.allocate, RBT.key, RBT.setParent, RBT.setLeft, RBT.setRight,
          RBT.setColor, RBT.modify, RBT.get_some, Exec.some_bind, Exec.pure_eq, hloop, hpc, hsp,
          hps, hsn, hns, hp, Ne.symm hp, hlt1, setCell, if_pos, if_neg, ite_true, ite_false, ne_eq,
          Option.some.injEq, not_false_eq_true, not_true_eq_false, reduceCtorEq, ctxPar_cons,
          Frame.addr_L, Frame.addr_R, Bool.false_eq_true]
        rw [hpar1]
        simp only [Exec.some_bind, reduceCtorEq, if_false]
        rw [hpar2]
        simp only [Exec.some_bind]
        cases rest with
        | nil => simp only [ctxPar_nil, if_true, Exec.pure_eq, List.length_nil]
        | cons f2 rest2 =>
          simp only [ctxPar_cons, reduceCtorEq, if_false, List.length_cons]
      · simp only [RBT.insertChecked, RBT.allocate, RBT.key, RBT.setParent, RBT.setLeft, RBT.setRight,
          RBT.setColor, RBT.modify, RBT.get_some, Exec.some_bind, Exec.pure_eq, hloop, hpc, hsp,
          hps, hsn, hns, hp, Ne.symm hp, hlt1, setCell, if_pos, if_neg, ite_true, ite_false, ne_eq,
          Option.some.injEq, not_false_eq_true, not_true_eq_false, reduceCtorEq, ctxPar_cons,
          Frame.addr_L, Frame.addr_R, Bool.false_eq_true]
        rw [hpar1]
        simp only [Exec.some_bind, reduceCtorEq, if_false]
        rw [hpar2]
        simp only [Exec.some_bind]
        cases rest with
        | nil => simp only [ctxPar_nil, if_true, Exec.pure_eq, List.length_nil]
        | cons f2 rest2 =>
          simp only [ctxPar_cons, reduceCtorEq, if_false, List.length_cons]

end FtContainers

namespace FtContainers

open Color Tree

variable {K V : Type}

/-! ## `insert`, for every state that holds the tree -/

theorem Tree.mem_addrs_of_nodes {T T' : Tree K V} (h : T'.nodes = T.nodes) (a : Nat) :
    a ∈ T'.addrs ↔ a ∈ T.addrs := by
  rw [Tree.addrs_eq_nodes, Tree.addrs_eq_nodes, h]

variable [LinearOrder K]

/-- When `insert` finds the key, `insertChecked` runs the same code. -/
theorem insertChecked_of_found {t t' : RBT K V} {kv : K × V} {y : Ptr}
    (h : t.insert kv = some (t', y, false)) : t.insertChecked kv = some (t', y, false) := by
  simp only [RBT.insert, RBT.insertChecked] at h ⊢
  obtain ⟨r, hr, h⟩ := Exec.bind_eq_some h
  rw [hr]
  simp only [Exec.some_bind]
  split at h
  · rename_i hfound
    simp only [hfound, if_true]
    exact h
  · exfalso
    repeat' first
      | (cases h)
      | (obtain ⟨x, -, h⟩ := Exec.bind_eq_some h)
      | split at h

/-- The pure part of the state in which `insert` calls `fixInsert`: the new
node is RED below a RED or BLACK parent in a tree that was well-formed. -/
theorem attach_inv {kv : K × V} {nx : Nat} {f f2 : Frame K V} {rest : List (Frame K V)}
    (hrc : (plug (nil : Tree K V) (f :: f2 :: rest)).rootColor = BLACK_NODE)
    (hnr : (plug (nil : Tree K V) (f :: f2 :: rest)).noRedRed)
    (hbl : (plug (nil : Tree K V) (f :: f2 :: rest)).balanced) :
    InsInv (node nx RED_NODE nil kv nil) (f :: f2 :: rest) := by
  refine ⟨rfl, ?_, ?_, List.cons_ne_nil _ _, ?_, ?_, ?_⟩
  · simp [Tree.noRedRed]
  · simp [Tree.balanced]
  · simpa only [rootColor_plug, ctxRootColor_cons] using hrc
  · rw [noRedRed_plug] at hnr
    cases f <;> simp only [ctxNRR, Tree.rootColor_nil, true_and, and_true] at hnr ⊢ <;>
      exact hnr.2
  · rw [balanced_plug] at hbl
    simpa [Tree.bh] using hbl.2

/-- Function `insert` on a state that holds a well-formed tree: the tree it
ends with, the pointer and the flag it returns depend on the tree, the key
and the allocator only.  In every such state `insert` returns them, and
`insertChecked` returns the same. -/
theorem insert_uniform {T : Tree K V} (kv : K × V) (nx : Nat) (hb : T.BST)
    (hrc : T.rootColor = BLACK_NODE) (hnr : T.noRedRed) (hbl : T.balanced)
    (hh : T.height < nx) (hlt : ∀ a ∈ T.addrs, a < nx) :
    ∃ (T' : Tree K V) (y : Ptr) (b : Bool), (∀ a ∈ T'.addrs, a < nx + 1) ∧
      ∀ t : RBT K V, Shape t T → t.next = nx → t.null < nx → t.sentinelBlack →
        ∃ t', t.insert kv = some (t', y, b) ∧ t.insertChecked kv = some (t', y, b) ∧
          Shape t' T' ∧ t'.null = t.null ∧ t'.next = nx + 1 ∧ t'.sentinelBlack := by
  by_cases hk : kv.1 ∈ T.keys
  · -- the key is present
    have hfind : (T.find kv.1 []).1 ≠ nil := fun e => (find_nil_iff kv.1 T hb).1 e hk
    rcases find_cases kv.1 T [] with e | ⟨a, c, l, v, r, e⟩
    · exact absurd e hfind
    refine ⟨T, some a, false, fun b hb' => Nat.lt_succ_of_lt (hlt b hb'), ?_⟩
    intro t hS hnx hn hsb
    subst hnx
    obtain ⟨ht, hw⟩ := RBT.WF.pack hS hb hlt hn hsb hrc hnr hbl
    obtain ⟨t', a', e1, -, hs, -, hnl, hnx, -, ht', hw'⟩ := insert_present ht hw hk
    have hsearch := searchTree_eq kv ht hb
    rw [e, Tree.ptr_node] at hsearch
    have haa : a' = a := Option.some.inj (Option.some.inj (hs.symm.trans hsearch))
    subst haa
    obtain ⟨T1, ht1, hS1, -, -, -, hsb1, -⟩ := hw'.unpack
    have : T1 = T := Option.some.inj (ht1.symm.trans ht')
    subst this
    exact ⟨t', e1, insertChecked_of_found e1, hS1, hnl, hnx, hsb1⟩
  · -- the key is absent
    have e := (find_nil_iff kv.1 T hb).2 hk
    have hp := find_plug kv.1 T []
    have hbd := find_bounded kv.1 T [] hb (ctxBounded_nil kv.1)
    rcases hfr : T.find kv.1 [] with ⟨S', ctx⟩
    rw [hfr] at e hp hbd
    simp only at e hp hbd
    subst e
    simp only [plug_nil] at hp
    subst hp
    have hlen : ctx.length ≤ nx := by
      have := length_le_height (nil : Tree K V) ctx
      omega
    have hprep : ∀ t : RBT K V, Shape t (plug nil ctx) → t.next = nx → t.null < nx →
        t.next ∉ (plug (nil : Tree K V) ctx).addrs ∧
        RBT.insertLoop (t.allocate ⟨kv, RED_NODE, none, some t.null, some t.null⟩).1
          (some t.next) (t.next + 1) none t.root = some (ctxPar ctx, false) := by
      intro t hS hnx hn
      subst hnx
      have hfresh : t.next ∉ (plug (nil : Tree K V) ctx).addrs :=
        fun hm => Nat.lt_irrefl _ (hlt _ hm)
      have hS0 : Shape (t.allocate ⟨kv, RED_NODE, none, some t.null, some t.null⟩).1
          (plug (plug nil ctx) []) := hS.setCell_fresh hfresh _ _ rfl _
      have hkey : (t.allocate ⟨kv, RED_NODE, none, some t.null, some t.null⟩).1.key
          (some t.next) = some kv.1 := by
        simp [RBT.allocate, RBT.key]
      have hloop := insertLoop_eq hkey (plug nil ctx) [] (t.next + 1) hS0
        (Nat.lt_succ_of_lt hh)
      rw [hfr] at hloop
      simp only [ctxPar_nil] at hloop
      have hroot : (t.allocate ⟨kv, RED_NODE, none, some t.null, some t.null⟩).1.root =
          t.root := rfl
      have hnull : (t.allocate ⟨kv, RED_NODE, none, some t.null, some t.null⟩).1.null =
          t.null := rfl
      rw [hnull, ← hS.root, ← hroot] at hloop
      exact ⟨hfresh, hloop⟩
    cases ctx with
    | nil =>
      refine ⟨node nx BLACK_NODE nil kv nil, none, true, ?_, ?_⟩
      · intro a ha
        simp only [Tree.addrs, List.nil_append, List.mem_singleton] at ha
        omega
      intro t hS hnx hn hsb
      obtain ⟨hfresh, hloop⟩ := hprep t hS hnx hn
      subst hnx
      have hsn : t.next ≠ t.null := Nat.ne_of_gt hn
      have hns : t.null ≠ t.next := Ne.symm hsn
      simp only [RBT.allocate, ctxPar_nil] at hloop
      simp only [RBT.insert, RBT.insertChecked, RBT.allocate, RBT.parent, RBT.setParent,
        RBT.setColor, RBT.modify, RBT.get_some, Exec.some_bind, Exec.pure_eq, hloop,
        setCell_same, if_true, ctxPar_nil, Bool.false_eq_true, if_false]
      refine ⟨_, rfl, rfl, ⟨rfl, ?_, ?_⟩, rfl, rfl, ?_⟩
      · simp only [Repr, setCell_same, Tree.ptr_nil, and_true, ne_eq, hsn, not_false_eq_true]
      · simp [Tree.addrs]
      · obtain ⟨n0, h1, h2⟩ := hsb
        exact ⟨n0, by simp only [setCell_other _ _ hns]; exact h1, h2⟩
    | cons f rest =>
      have hsb' : ∀ (t ta : RBT K V), t.sentinelBlack → ta.null = t.null →
          ta.heap t.null = t.heap t.null → ta.sentinelBlack := by
        intro t ta hsb h1 h2
        obtain ⟨n0, h3, h4⟩ := hsb
        exact ⟨n0, by rw [h1, h2]; exact h3, h4⟩
      have hmem : ∀ a, a ∈ (plug (node nx RED_NODE nil kv nil) (f :: rest)).addrs →
          a < nx + 1 := by
        intro a ha
        rw [mem_addrs_plug] at ha
        rcases ha with ha | ha
        · simp only [Tree.addrs, List.nil_append, List.mem_singleton] at ha
          omega
        · exact Nat.lt_succ_of_lt (hlt a ((mem_addrs_plug _ _ _).2 (Or.inr ha)))
      cases rest with
      | nil =>
        refine ⟨plug (node nx RED_NODE nil kv nil) [f], some f.addr, true, hmem, ?_⟩
        intro t hS hnx hn hsb
        obtain ⟨hfresh, hloop⟩ := hprep t hS hnx hn
        obtain ⟨ta, Sa, ha1, ha2, ha3, ei, ec⟩ :=
          insert_attach hS (by omega) hfresh hloop hbd
        subst hnx
        simp only [List.length_nil, if_true] at ei ec
        exact ⟨ta, ei, ec, Sa, ha1, ha2, hsb' t ta hsb ha1 ha3⟩
      | cons f2 rest2 =>
        obtain ⟨T', hn', -, hall⟩ := fixInsert_uniform nx (node nx RED_NODE nil kv nil)
          (f :: f2 :: rest2) hlen (attach_inv hrc hnr hbl)
        refine ⟨T', some f.addr, true, ?_, ?_⟩
        · intro a ha
          exact hmem a ((Tree.mem_addrs_of_nodes hn' a).1 ha)
        intro t hS hnx hn hsb
        obtain ⟨hfresh, hloop⟩ := hprep t hS hnx hn
        obtain ⟨ta, Sa, ha1, ha2, ha3, ei, ec⟩ :=
          insert_attach hS (by omega) hfresh hloop hbd
        subst hnx
        have hne : ¬ ((f2 :: rest2).length = 0) := by simp
        simp only [hne, if_false] at ei ec
        obtain ⟨t', e1, e1c, S1, M1⟩ := hall ta Sa (hsb' t ta hsb ha1 ha3)
        simp only [Tree.ptr_node] at e1 e1c
        rw [ha2] at ei ec
        rw [e1] at ei
        rw [e1c] at ec
        exact ⟨t', ei, ec, S1, M1.null.trans ha1, M1.next.trans ha2,
          M1.sentinelBlack (hsb' t ta hsb ha1 ha3)⟩

end FtContainers

namespace FtContainers

open Color Tree

variable {K V : Type}

variable [LinearOrder K]

/-- C25: `insert` never follows a null link on a well-formed tree.  For every
well-formed tree and every key, `insert` returns, and `insertChecked` returns
the same result.  `insertChecked` is `insert` with an assertion at each place
the claim names: `k->parent` is a real node (not `ft_nullptr`, not the
sentinel, allocated) where the condition of the loop of `fixInsert` reads its
colour, `k->parent` and `k->parent->parent` are real nodes where the body
reads `k->parent->parent->left/right` and where it recolours them before a
rotation, and the child that a rotation promotes is a real node.  A failed
assertion would make `insertChecked` undefined. -/
theorem insert_derefs_real_nodes (t : RBT K V) (h : t.WF) (key : K × V) :
    ∃ r, t.insert key = some r ∧ t.insertChecked key = some r := by
  obtain ⟨T, ht, hS, hb, hlt, hn, hsb, hrc, hnr, hbl⟩ := h.unpack
  obtain ⟨T', y, b, -, hall⟩ := insert_uniform key t.next hb hrc hnr hbl (tree_height_lt ht) hlt
  obtain ⟨t', e1, e2, -⟩ := hall t hS rfl hn hsb
  exact ⟨_, e1, e2⟩

theorem insert_derefs_real_nodes_witness :
    demo.WF ∧ ∃ r, demo.insert (40, 0) = some r ∧ demo.insertChecked (40, 0) = some r :=
  ⟨demo_wf, insert_derefs_real_nodes demo demo_wf (40, 0)⟩

end FtContainers

namespace FtContainers

open Color Tree

variable {K V : Type}

/-! ## Depth of the cursor and fuel of the loop of `fixInsert` -/

/-- The number of parent links above the node in focus is the length of the
path. -/
theorem Shape.depth_eq : ∀ (ctx : List (Frame K V)) {t : RBT K V} {a : Nat} {c : Color}
    {l r : Tree K V} {kv : K × V}, Shape t (plug (node a c l kv r) ctx) →
    ∀ m, ctx.length < m → t.depth m (some a) = some ctx.length := by
  intro ctx
  induction ctx with
  | nil =>
    intro t a c l r kv hS m hm
    obtain ⟨m', rfl⟩ : ∃ m', m = m' + 1 := ⟨m - 1, by omega⟩
    have hp := hS.parent_eq
    simp only [RBT.depth, hp, ctxPar_nil, Exec.some_bind, if_true, Exec.pure_eq, List.length_nil]
  | cons f rest ih =>
    intro t a c l r kv hS m hm
    obtain ⟨m', rfl⟩ : ∃ m', m = m' + 1 := ⟨m - 1, by omega⟩
    have hp := hS.parent_eq
    have hm' : rest.length < m' := by
      simp only [List.length_cons] at hm
      omega
    have hd : t.depth m' (some f.addr) = some rest.length := by
      cases f with
      | L p cp kp pr => exact ih (by simpa using hS) m' hm'
      | R p cp pl kp => exact ih (by simpa using hS) m' hm'
    simp only [RBT.depth, hp, ctxPar_cons, Exec.some_bind, reduceCtorEq, if_false, hd,
      Exec.pure_eq, List.length_cons]

/-- More fuel does not change the result of `fixInsert`. -/
theorem RBT.fixInsert_mono : ∀ (n : Nat) (t : RBT K V) (k : Ptr) (t' : RBT K V),
    RBT.fixInsert n t k = some t' → RBT.fixInsert (n + 1) t k = some t' := by
  intro n
  induction n with
  | zero =>
    intro t k t' h
    simp [RBT.fixInsert] at h
  | succ n ih =>
    intro t k t' h
    rw [RBT.fixInsert] at h ⊢
    obtain ⟨kp, e1, h⟩ := Exec.bind_eq_some h
    obtain ⟨c, e2, h⟩ := Exec.bind_eq_some h
    simp only [e1, e2, Exec.some_bind]
    by_cases hc : c = RED_NODE
    · rw [if_pos hc] at h ⊢
      obtain ⟨r, e3, h⟩ := Exec.bind_eq_some h
      simp only [e3, Exec.some_bind]
      by_cases hr : r.2 = r.1.root
      · rw [if_pos hr] at h ⊢
        exact h
      · rw [if_neg hr] at h ⊢
        exact ih _ _ _ h
    · rw [if_neg hc] at h ⊢
      exact h

theorem RBT.fixInsert_fuel {n m : Nat} {t : RBT K V} {k : Ptr} {t' : RBT K V} (hnm : n ≤ m)
    (h : RBT.fixInsert n t k = some t') : RBT.fixInsert m t k = some t' := by
  induction m, hnm using Nat.le_induction with
  | base => exact h
  | succ m _ ih => exact RBT.fixInsert_mono _ _ _ _ ih

/-- The links of the grandparent on the path: one child is the parent of the
cursor, the other one is the root of the sibling subtree. -/
theorem Shape.uncle {t : RBT K V} {S : Tree K V} {f1 f2 : Frame K V} {rest : List (Frame K V)}
    (hS : Shape t (plug S (f1 :: f2 :: rest))) (hs : t.sentinelBlack) :
    ((t.left (some f2.addr) = some (some f1.addr) ∧
        t.right (some f2.addr) = some (f2.sibling.ptr t.null)) ∨
      (t.right (some f2.addr) = some (some f1.addr) ∧
        t.left (some f2.addr) = some (f2.sibling.ptr t.null))) ∧
    t.color (f2.sibling.ptr t.null) = some f2.sibling.rootColor := by
  have hfp : ∀ x : Tree K V, (f1.fill x).ptr t.null = some f1.addr := by
    intro x
    cases f1 <;> rfl
  cases f2 with
  | L p cp kp pr =>
    have h1 : Shape t (plug (node p cp (f1.fill S) kp pr) rest) := hS
    have h2 : Shape t (plug pr (Frame.R p cp (f1.fill S) kp :: rest)) := hS
    refine ⟨Or.inl ⟨?_, ?_⟩, h2.color_ptr hs⟩
    · rw [Frame.addr_L, h1.left_eq, hfp]
    · rw [Frame.addr_L, h1.right_eq]
      rfl
  | R p cp pl kp =>
    have h1 : Shape t (plug (node p cp pl kp (f1.fill S)) rest) := hS
    have h2 : Shape t (plug pl (Frame.L p cp kp (f1.fill S) :: rest)) := hS
    refine ⟨Or.inr ⟨?_, ?_⟩, h2.color_ptr hs⟩
    · rw [Frame.addr_R, h1.right_eq, hfp]
    · rw [Frame.addr_R, h1.left_eq]
      rfl

end FtContainers

namespace FtContainers

open Color Tree

variable {K V : Type}

/-- C23: the loop of `fixInsert` terminates.  At every test of the condition
of the loop (`FixInsertInv`: the memory holds a tree, the cursor is a RED node
that is not the root, the root is BLACK, and the only possible RED-RED pair
is the cursor with its parent; `insert` calls `fixInsert` in such a state,
see `insert_enters_fixInsert`),
with `d` the depth of the cursor: `fixInsert` returns with every fuel above
`d`, always the same state, and the root of that state is BLACK.  The loop
stops when the parent of the cursor is BLACK.  When the parent is RED the
body of the loop returns a state `t1` and a cursor `k1`, the loop stops if
`k1` is the root and goes on from `(t1, k1)` otherwise, and: with a RED uncle
`k1` is the grandparent of the cursor, its depth is the depth of the cursor
minus two, and it is the root or the invariant holds again; with a BLACK
uncle `k1` is not the root and its parent is BLACK, so the next test stops
the loop. -/
theorem fixInsert_terminates (t : RBT K V) (k : Ptr) (h : t.FixInsertInv k) :
    (∃ d t', (∀ m, d < m → t.depth m k = some d) ∧
      (∀ n, d < n → RBT.fixInsert n t k = some t') ∧
      t'.color t'.root = some BLACK_NODE) ∧
    ∃ kp c, t.parent k = some kp ∧ t.color kp = some c ∧
      (c = BLACK_NODE → ∀ n, RBT.fixInsert (n + 1) t k = t.setColor t.root BLACK_NODE) ∧
      (c = RED_NODE →
        ∃ kpp u uc t1 k1 d, t.parent kp = some kpp ∧
          ((t.left kpp = some kp ∧ t.right kpp = some u) ∨
            (t.right kpp = some kp ∧ t.left kpp = some u)) ∧
          t.color u = some uc ∧
          t.fixInsertBody k = some (t1, k1) ∧
          (∀ n, RBT.fixInsert (n + 1) t k =
            if k1 = t1.root then t1.setColor t1.root BLACK_NODE else RBT.fixInsert n t1 k1) ∧
          (∀ m, d + 2 < m → t.depth m k = some (d + 2)) ∧
          (uc = RED_NODE → k1 = kpp ∧ (∀ m, d < m → t1.depth m k1 = some d) ∧
            (k1 = t1.root ∨ (k1 ≠ t1.root ∧ t1.FixInsertInv k1))) ∧
          (uc = BLACK_NODE → k1 ≠ t1.root ∧ ∃ kp1, t1.parent k1 = some kp1 ∧
            t1.color kp1 = some BLACK_NODE ∧
            ∀ n, RBT.fixInsert (n + 1) t1 k1 = t1.setColor t1.root BLACK_NODE)) := by
  obtain ⟨hsb, S, ctx, hS, hI, rfl⟩ := h
  obtain ⟨a, kl, kk, kr, rfl⟩ := Tree.red_node hI.red
  simp only [Tree.ptr_node]
  refine ⟨?_, ?_⟩
  · obtain ⟨T', -, hc', hall⟩ := fixInsert_uniform ctx.length _ ctx (Nat.le_refl _) hI
    obtain ⟨t', e1, -, S', M'⟩ := hall t hS hsb
    simp only [Tree.ptr_node] at e1
    refine ⟨ctx.length, t', fun m hm => hS.depth_eq ctx m hm,
      fun n hn => RBT.fixInsert_fuel (by omega) e1, ?_⟩
    have hcp := (show Shape t' (plug T' []) from S').color_ptr (M'.sentinelBlack hsb)
    rw [← S'.root, hc'] at hcp
    exact hcp
  · cases ctx with
    | nil => exact absurd rfl hI.nonempty
    | cons f1 rest1 =>
      refine ⟨some f1.addr, f1.color, hS.parent_eq, hS.frame_color, ?_, ?_⟩
      · intro hb n
        exact fixInsert_exit hS hb n
      · intro hr
        cases rest1 with
        | nil =>
          have hrb := hI.rootBlack
          simp only [ctxRootColor_cons, ctxRootColor_nil] at hrb
          rw [hr] at hrb
          cases hrb
        | cons f2 rest2 =>
          obtain ⟨S1, ctx1, k1, hptr, hnodes, hkind, hall⟩ := fixInsert_ustep hI hr
          obtain ⟨c1, l1, kv1, r1, rfl⟩ := Tree.node_of_ptr hptr
          obtain ⟨t1, e1, S1s, M1, -⟩ := hall t hS hsb
          obtain ⟨hu, huc⟩ := hS.uncle hsb
          have hp := hS.parent_eq
          have hc := hS.frame_color
          refine ⟨some f2.addr, f2.sibling.ptr t.null, f2.sibling.rootColor, t1, some k1,
            rest2.length, hS.frame_parent, hu, huc, e1, ?_,
            fun m hm => hS.depth_eq (f1 :: f2 :: rest2) m (by simpa using hm), ?_, ?_⟩
          · intro n
            simp only [RBT.fixInsert, hp, hc, hr, e1, Exec.some_bind, ctxPar_cons, if_true]
          · intro hred
            rcases hkind with ⟨-, hk1, rfl, hinv⟩ | ⟨hb, -⟩
            · refine ⟨by rw [hk1], fun m hm => S1s.depth_eq ctx1 m hm, ?_⟩
              cases ctx1 with
              | nil =>
                left
                exact (show Shape t1 (node k1 c1 l1 kv1 r1) from S1s).root.symm
              | cons f3 rest3 =>
                right
                exact ⟨S1s.focus_ne_root, M1.sentinelBlack hsb, _, _, S1s,
                  hinv (List.cons_ne_nil _ _), rfl⟩
            · rw [hb] at hred
              cases hred
          · intro hblk
            rcases hkind with ⟨hr', -⟩ | ⟨-, f, rfl, hfb⟩
            · rw [hr'] at hblk
              cases hblk
            · refine ⟨S1s.focus_ne_root, some f.addr, S1s.parent_eq, ?_,
                fun n => fixInsert_exit S1s hfb n⟩
              rw [S1s.frame_color, hfb]

theorem lineState_inv : lineState.FixInsertInv (some 3) := by
  refine ⟨lineState_sentinel, node 3 RED_NODE nil (30, 0) nil,
    [Frame.R 2 RED_NODE nil (20, 0), Frame.R 1 BLACK_NODE nil (10, 0)], lineState_shape,
    ⟨rfl, ?_, ?_, List.cons_ne_nil _ _, rfl, ?_, ?_⟩, rfl⟩ <;>
  simp [Tree.noRedRed, Tree.balanced, ctxNRR, ctxBal, Tree.bh, Tree.rootColor]

theorem fixInsert_terminates_witness :
    lineState.FixInsertInv (some 3) ∧
    (∃ d t', (∀ m, d < m → lineState.depth m (some 3) = some d) ∧
      (∀ n, d < n → RBT.fixInsert n lineState (some 3) = some t') ∧
      t'.color t'.root = some BLACK_NODE) :=
  ⟨lineState_inv, (fixInsert_terminates lineState (some 3) lineState_inv).1⟩

end FtContainers

namespace FtContainers

open Color Tree

variable {K V : Type}

/-! ## The assertions of `fixDeleteBodyChecked` hold -/

/-- Cursor on the left, BLACK sibling: the assertions on `x->parent` and on the
sibling hold. -/
theorem fixDeleteBodyChecked_L_black {t : RBT K V} {X sl sr : Tree K V} {p s : Nat} {cp : Color}
    {kp ks : K × V} {rest : List (Frame K V)}
    (hS : Shape t (plug X (Frame.L p cp kp (node s BLACK_NODE sl ks sr) :: rest)))
    (hxp : t.parent (X.ptr t.null) = some (some p)) :
    t.fixDeleteBodyChecked (X.ptr t.null) = t.fixDeleteLeftChecked (X.ptr t.null) (some s) := by
  have hP : Shape t (plug (node p cp X kp (node s BLACK_NODE sl ks sr)) rest) := hS
  have hSs : Shape t (plug (node s BLACK_NODE sl ks sr) (Frame.R p cp X kp :: rest)) := hS
  have h1 := hP.left_eq
  have h2 := hP.right_eq
  have h3 := hSs.color_eq
  simp only [Tree.ptr_node] at h1 h2
  have a1 := hP.assert_focus
  have a2 := hSs.assert_focus
  simp only [RBT.fixDeleteBodyChecked, a1, a2, hxp, h1, h2, h3, Exec.some_bind, Exec.pure_eq, if_true, if_false, reduceCtorEq]

/-- Cursor on the left, RED sibling: the rotation at the parent promotes the
sibling, a real node, and the assertions hold; the iteration goes on in the
same state with and without the assertions. -/
theorem fixDeleteBodyChecked_L_red {t : RBT K V} {X sl sr : Tree K V} {p s : Nat} {cp : Color}
    {kp ks : K × V} {rest : List (Frame K V)}
    (hS : Shape t (plug X (Frame.L p cp kp (node s RED_NODE sl ks sr) :: rest)))
    (hxp : t.parent (X.ptr t.null) = some (some p)) :
    ∃ t', t.fixDeleteBody (X.ptr t.null) = t'.fixDeleteLeft (X.ptr t.null) (sl.ptr t.null) ∧
      t.fixDeleteBodyChecked (X.ptr t.null) =
        t'.fixDeleteLeftChecked (X.ptr t.null) (sl.ptr t.null) ∧
      Shape t' (plug X (Frame.L p RED_NODE kp sl ::
        Frame.L s BLACK_NODE ks sr :: rest)) ∧ Same t t' := by
  have hP : Shape t (plug (node p cp X kp (node s RED_NODE sl ks sr)) rest) := hS
  have hSs : Shape t (plug (node s RED_NODE sl ks sr) (Frame.R p cp X kp :: rest)) := hS
  have h1 := hP.left_eq
  have h2 := hP.right_eq
  have h3 := hSs.color_eq
  simp only [Tree.ptr_node] at h1 h2
  obtain ⟨t1, e1, S1, M1, -⟩ := hSs.setColor BLACK_NODE
  have x1 := cursor_parent M1 (show Shape t1 (plug X (Frame.L p cp kp (node s BLACK_NODE sl ks sr) :: rest))
    from S1) rfl hxp
  obtain ⟨t2, e2, S2, M2, -⟩ := S1.setColor_frame RED_NODE
  have M12 := M1.trans M2
  have x2 := cursor_parent M12 (show Shape t2 (plug X
    (Frame.L p RED_NODE kp (node s BLACK_NODE sl ks sr) :: rest)) from S2) rfl hxp
  have S2p : Shape t2 (plug (node p RED_NODE X kp (node s BLACK_NODE sl ks sr)) rest) := S2
  obtain ⟨t3, e3, S3, M3, -⟩ := S2p.leftRotate
  have M13 := M12.trans M3
  have S3x : Shape t3 (plug X (Frame.L p RED_NODE kp sl ::
      Frame.L s BLACK_NODE ks sr :: rest)) := S3
  have x3 := cursor_parent M13 S3x rfl hxp
  have S3p : Shape t3 (plug (node p RED_NODE X kp sl)
      (Frame.L s BLACK_NODE ks sr :: rest)) := S3
  have h4 := S3p.right_eq
  simp only [Frame.addr_L, Frame.addr_R, Frame.recolor, ctxPar_cons] at e2 x1 x2 x3
  have a1 := hP.assert_focus
  have a2 := hSs.assert_focus
  have S2s : Shape t2 (plug (node s BLACK_NODE sl ks sr) (Frame.R p RED_NODE X kp :: rest)) := S2
  have a3 := S2s.assert_focus
  have h5 := S2p.right_eq
  have a4 := S3p.assert_focus
  simp only [Tree.ptr_node] at h5
  refine ⟨t3, ?_, ?_, S3x, M13⟩
  · rw [fixDeleteBody_eq]
    simp only [hxp, h1, h2, h3, e1, e2, e3, x1, x2, x3, h4, M13.null, Exec.some_bind,
    Exec.pure_eq, if_true, if_false, reduceCtorEq]
  · simp only [RBT.fixDeleteBodyChecked, RBT.leftRotateChecked, RBT.rightRotateChecked,
      a1, a2, a3, a4, h5, hxp, h1, h2, h3, e1, e2, e3, x1, x2, x3, h4, M13.null, Exec.some_bind,
    Exec.pure_eq, if_true, if_false, reduceCtorEq]

/-- The assertions of `fixDeleteLeftChecked` hold in this case. -/
theorem fixDeleteLeftChecked_case2 {t : RBT K V} {X sl sr : Tree K V} {p s : Nat} {cp : Color}
    {kp ks : K × V} {rest : List (Frame K V)}
    (hS : Shape t (plug X (Frame.L p cp kp (node s BLACK_NODE sl ks sr) :: rest)))
    (hs : t.sentinelBlack)
    (hxp : t.parent (X.ptr t.null) = some (some p))
    (hsl : sl.rootColor = BLACK_NODE) (hsr : sr.rootColor = BLACK_NODE) :
    t.fixDeleteLeftChecked (X.ptr t.null) (some s) =
      t.fixDeleteLeft (X.ptr t.null) (some s) := by
  have hSs : Shape t (plug (node s BLACK_NODE sl ks sr) (Frame.R p cp X kp :: rest)) := hS
  have hl : Shape t (plug sl (Frame.L s BLACK_NODE ks sr ::
      Frame.R p cp X kp :: rest)) := hS
  have hr : Shape t (plug sr (Frame.R s BLACK_NODE sl ks ::
      Frame.R p cp X kp :: rest)) := hS
  have h1 := hSs.left_eq
  have h2 := hSs.right_eq
  have h3 := hl.color_ptr hs
  have h4 := hr.color_ptr hs
  obtain ⟨t1, e1, S1, M1, -⟩ := hSs.setColor RED_NODE
  have x1 := cursor_parent M1 (show Shape t1 (plug X (Frame.L p cp kp (node s RED_NODE sl ks sr) :: rest))
    from S1) rfl hxp
  simp only [Frame.addr_L, Frame.addr_R, ctxPar_cons] at x1
  have a1 := hSs.assert_focus
  have eU : t.fixDeleteLeft (X.ptr t.null) (some s) = some (t1, some p) := by
    simp only [RBT.fixDeleteLeft, h1, h2, h3, h4, hsl, hsr, e1, x1, Exec.some_bind,
    Exec.pure_eq, if_true, if_false, reduceCtorEq, decide_True]
  have eC : t.fixDeleteLeftChecked (X.ptr t.null) (some s) = some (t1, some p) := by
    simp only [RBT.fixDeleteLeftChecked, RBT.leftRotateChecked, RBT.rightRotateChecked,
      a1, h1, h2, h3, h4, hsl, hsr, e1, x1, Exec.some_bind,
    Exec.pure_eq, if_true, if_false, reduceCtorEq, decide_True]
  rw [eU, eC]

/-- The assertions of `fixDeleteLeftChecked` hold in this case. -/
theorem fixDeleteLeftChecked_case4 {t : RBT K V} {X sl rl rr : Tree K V} {p s r : Nat}
    {cp : Color} {kp ks kr : K × V} {rest : List (Frame K V)}
    (hS : Shape t (plug X (Frame.L p cp kp (node s BLACK_NODE sl ks (node r RED_NODE rl kr rr)) :: rest)))
    (hs : t.sentinelBlack)
    (hxp : t.parent (X.ptr t.null) = some (some p)) :
    t.fixDeleteLeftChecked (X.ptr t.null) (some s) =
      t.fixDeleteLeft (X.ptr t.null) (some s) := by
  have hSs : Shape t (plug (node s BLACK_NODE sl ks (node r RED_NODE rl kr rr))
      (Frame.R p cp X kp :: rest)) := hS
  have hl : Shape t (plug sl (Frame.L s BLACK_NODE ks (node r RED_NODE rl kr rr) ::
      Frame.R p cp X kp :: rest)) := hS
  have hr : Shape t (plug (node r RED_NODE rl kr rr) (Frame.R s BLACK_NODE sl ks ::
      Frame.R p cp X kp :: rest)) := hS
  have h1 := hSs.left_eq
  have h2 := hSs.right_eq
  have h3 := hl.color_ptr hs
  have h4 := hr.color_eq
  have h5 : t.color (some p) = some cp := hSs.frame_color
  obtain ⟨t1, e1, S1, M1, -⟩ := hSs.setColor cp
  have x1 := cursor_parent M1 (show Shape t1 (plug X
    (Frame.L p cp kp (node s cp sl ks (node r RED_NODE rl kr rr)) :: rest)) from S1) rfl hxp
  obtain ⟨t2, e2, S2, M2, -⟩ := S1.setColor_frame BLACK_NODE
  have M12 := M1.trans M2
  have x2 := cursor_parent M12 (show Shape t2 (plug X
    (Frame.L p BLACK_NODE kp (node s cp sl ks (node r RED_NODE rl kr rr)) :: rest))
    from S2) rfl hxp
  have S2s : Shape t2 (plug (node s cp sl ks (node r RED_NODE rl kr rr))
      (Frame.R p BLACK_NODE X kp :: rest)) := S2
  have h6 := S2s.right_eq
  have S2r : Shape t2 (plug (node r RED_NODE rl kr rr) (Frame.R s cp sl ks ::
      Frame.R p BLACK_NODE X kp :: rest)) := S2
  obtain ⟨t3, e3, S3, M3, -⟩ := S2r.setColor BLACK_NODE
  have M13 := M12.trans M3
  have x3 := cursor_parent M13 (show Shape t3 (plug X
    (Frame.L p BLACK_NODE kp (node s cp sl ks (node r BLACK_NODE rl kr rr)) :: rest))
    from S3) rfl hxp
  have S3p : Shape t3 (plug (node p BLACK_NODE X kp (node s cp sl ks (node r BLACK_NODE rl kr rr)))
      rest) := S3
  obtain ⟨t4, e4, S4, M4, -⟩ := S3p.leftRotate
  simp only [Frame.addr_L, Frame.addr_R, Frame.recolor, ctxPar_cons, Tree.ptr_node] at e2 x1 x2 x3 h1 h2 h4 h6
  have a1 := hSs.assert_focus
  have a2 := hSs.assert_frame
  have S3s : Shape t3 (plug (node s cp sl ks (node r BLACK_NODE rl kr rr))
      (Frame.R p BLACK_NODE X kp :: rest)) := S3
  have a3 := S3s.assert_focus
  have h9 := S3p.right_eq
  simp only [Frame.addr_L, Frame.addr_R, Tree.ptr_node] at a2 h9
  have eU : t.fixDeleteLeft (X.ptr t.null) (some s) = some (t4, t4.root) := by
    cases hc : sl.rootColor <;>
    simp only [RBT.fixDeleteLeft, hxp, h1, h2, h3, h4, h5, h6, hc, e1, e2, e3, e4, x1, x2, x3,
    Exec.some_bind, Exec.pure_eq, if_true, if_false, reduceCtorEq, decide_False,
    Bool.false_eq_true, Tree.ptr_node]
  have eC : t.fixDeleteLeftChecked (X.ptr t.null) (some s) = some (t4, t4.root) := by
    cases hc : sl.rootColor <;>
    simp only [RBT.fixDeleteLeftChecked, RBT.leftRotateChecked, RBT.rightRotateChecked,
      a1, a2, a3, h9, hxp, h1, h2, h3, h4, h5, h6, hc, e1, e2, e3, e4, x1, x2, x3,
    Exec.some_bind, Exec.pure_eq, if_true, if_false, reduceCtorEq, decide_False,
    Bool.false_eq_true, Tree.ptr_node]
  rw [eU, eC]

/-- The assertions of `fixDeleteLeftChecked` hold in this case. -/
theorem fixDeleteLeftChecked_case3 {t : RBT K V} {X sr ll lr : Tree K V} {p s l : Nat}
    {cp : Color} {kp ks kl : K × V} {rest : List (Frame K V)}
    (hS : Shape t (plug X (Frame.L p cp kp (node s BLACK_NODE (node l RED_NODE ll kl lr) ks sr) :: rest)))
    (hs : t.sentinelBlack)
    (hxp : t.parent (X.ptr t.null) = some (some p))
    (hsr : sr.rootColor = BLACK_NODE) :
    t.fixDeleteLeftChecked (X.ptr t.null) (some s) =
      t.fixDeleteLeft (X.ptr t.null) (some s) := by
  have hSs : Shape t (plug (node s BLACK_NODE (node l RED_NODE ll kl lr) ks sr)
      (Frame.R p cp X kp :: rest)) := hS
  have hl : Shape t (plug (node l RED_NODE ll kl lr) (Frame.L s BLACK_NODE ks sr ::
      Frame.R p cp X kp :: rest)) := hS
  have hr : Shape t (plug sr (Frame.R s BLACK_NODE (node l RED_NODE ll kl lr) ks ::
      Frame.R p cp X kp :: rest)) := hS
  have h1 := hSs.left_eq
  have h2 := hSs.right_eq
  have h3 := hl.color_eq
  have h4 := hr.color_ptr hs
  have h5 : t.color (some p) = some cp := hSs.frame_color
  obtain ⟨t1, e1, S1, M1, -⟩ := hl.setColor BLACK_NODE
  obtain ⟨t2, e2, S2, M2, -⟩ := (show Shape t1 (plug (node s BLACK_NODE (node l BLACK_NODE ll kl lr) ks sr)
      (Frame.R p cp X kp :: rest)) from S1).setColor RED_NODE
  obtain ⟨t3, e3, S3, M3, -⟩ := S2.rightRotate
  have M13 := (M1.trans M2).trans M3
  have S3x : Shape t3 (plug X
    (Frame.L p cp kp (node l BLACK_NODE ll kl (node s RED_NODE lr ks sr)) :: rest)) := S3
  have x3 := cursor_parent M13 S3x rfl hxp
  have S3p : Shape t3 (plug (node p cp X kp (node l BLACK_NODE ll kl (node s RED_NODE lr ks sr)))
      rest) := S3
  have h6 := S3p.right_eq
  have h7 := S3p.color_eq
  have S3l : Shape t3 (plug (node l BLACK_NODE ll kl (node s RED_NODE lr ks sr))
      (Frame.R p cp X kp :: rest)) := S3
  obtain ⟨t4, e4, S4, M4, -⟩ := S3l.setColor cp
  have M14 := M13.trans M4
  have x4 := cursor_parent M14 (show Shape t4 (plug X
    (Frame.L p cp kp (node l cp ll kl (node s RED_NODE lr ks sr)) :: rest)) from S4) rfl hxp
  obtain ⟨t5, e5, S5, M5, -⟩ := S4.setColor_frame BLACK_NODE
  have M15 := M14.trans M5
  have x5 := cursor_parent M15 (show Shape t5 (plug X
    (Frame.L p BLACK_NODE kp (node l cp ll kl (node s RED_NODE lr ks sr)) :: rest))
    from S5) rfl hxp
  have S5l : Shape t5 (plug (node l cp ll kl (node s RED_NODE lr ks sr))
      (Frame.R p BLACK_NODE X kp :: rest)) := S5
  have h8 := S5l.right_eq
  have S5s : Shape t5 (plug (node s RED_NODE lr ks sr) (Frame.R l cp ll kl ::
      Frame.R p BLACK_NODE X kp :: rest)) := S5
  obtain ⟨t6, e6, S6, M6, -⟩ := S5s.setColor BLACK_NODE
  have M16 := M15.trans M6
  have x6 := cursor_parent M16 (show Shape t6 (plug X
    (Frame.L p BLACK_NODE kp (node l cp ll kl (node s BLACK_NODE lr ks sr)) :: rest))
    from S6) rfl hxp
  have S6p : Shape t6 (plug (node p BLACK_NODE X kp (node l cp ll kl (node s BLACK_NODE lr ks sr)))
      rest) := S6
  obtain ⟨t7, e7, S7, M7, -⟩ := S6p.leftRotate
  simp only [Frame.addr_L, Frame.addr_R, Frame.recolor, ctxPar_cons, Tree.ptr_node] at e5 x3 x4 x5 x6 h1 h2 h3 h6 h8
  have a1 := hSs.assert_focus
  have hn2 := S2.left_eq
  have S2l : Shape t2 (plug (node l BLACK_NODE ll kl lr) (Frame.L s RED_NODE ks sr ::
      Frame.R p cp X kp :: rest)) := S2
  have a2 := S2l.assert_focus
  have a3 := S3p.assert_focus
  have a4 := S3l.assert_focus
  have S6l : Shape t6 (plug (node l cp ll kl (node s BLACK_NODE lr ks sr))
      (Frame.R p BLACK_NODE X kp :: rest)) := S6
  have a5 := S6l.assert_focus
  have h9 := S6p.right_eq
  simp only [Frame.addr_L, Frame.addr_R, Tree.ptr_node] at hn2 h9
  have eU : t.fixDeleteLeft (X.ptr t.null) (some s) = some (t7, t7.root) := by
    simp only [RBT.fixDeleteLeft, hxp, h1, h2, h3, h4, h5, h6, h7, h8, hsr, e1, e2, e3, e4, e5, e6, e7,
    x3, x4, x5, x6, Exec.some_bind, Exec.pure_eq, if_true, if_false, reduceCtorEq, decide_False,
    Bool.false_eq_true, Tree.ptr_node]
  have eC : t.fixDeleteLeftChecked (X.ptr t.null) (some s) = some (t7, t7.root) := by
    simp only [RBT.fixDeleteLeftChecked, RBT.leftRotateChecked, RBT.rightRotateChecked,
      a1, a2, a3, a4, a5, hn2, h9, hxp, h1, h2, h3, h4, h5, h6, h7, h8, hsr, e1, e2, e3, e4, e5, e6, e7,
    x3, x4, x5, x6, Exec.some_bind, Exec.pure_eq, if_true, if_false, reduceCtorEq, decide_False,
    Bool.false_eq_true, Tree.ptr_node]
  rw [eU, eC]

/-- Cursor on the right, BLACK sibling: the assertions on `x->parent` and on the
sibling hold. -/
theorem fixDeleteBodyChecked_R_black {t : RBT K V} {X sl sr : Tree K V} {p s : Nat} {cp : Color}
    {kp ks : K × V} {rest : List (Frame K V)}
    (hS : Shape t (plug X (Frame.R p cp (node s BLACK_NODE sr ks sl) kp :: rest)))
    (hxp : t.parent (X.ptr t.null) = some (some p)) :
    t.fixDeleteBodyChecked (X.ptr t.null) = t.fixDeleteRightChecked (X.ptr t.null) (some s) := by
  have hP : Shape t (plug (node p cp (node s BLACK_NODE sr ks sl) kp X) rest) := hS
  have hSs : Shape t (plug (node s BLACK_NODE sr ks sl) (Frame.L p cp kp X :: rest)) := hS
  have h1 := hP.left_eq
  have h2 := hP.right_eq
  have h3 := hSs.color_eq
  have hne : ¬ (X.ptr t.null = some s) := by
    have hsn : s ≠ t.null := hSs.focus_ne_null
    exact ptr_ne_of_not_mem hsn (fun hm => hP.sep.2.2.2.1 s (by simp [Tree.addrs]) hm)
  simp only [Tree.ptr_node] at h1 h2
  have a1 := hP.assert_focus
  have a2 := hSs.assert_focus
  simp only [RBT.fixDeleteBodyChecked, a1, a2, hxp, h1, h2, h3, hne, Exec.some_bind, Exec.pure_eq, if_true, if_false, reduceCtorEq]

/-- Cursor on the right, RED sibling: the rotation at the parent promotes the
sibling, a real node, and the assertions hold; the iteration goes on in the
same state with and without the assertions. -/
theorem fixDeleteBodyChecked_R_red {t : RBT K V} {X sl sr : Tree K V} {p s : Nat} {cp : Color}
    {kp ks : K × V} {rest : List (Frame K V)}
    (hS : Shape t (plug X (Frame.R p cp (node s RED_NODE sr ks sl) kp :: rest)))
    (hxp : t.parent (X.ptr t.null) = some (some p)) :
    ∃ t', t.fixDeleteBody (X.ptr t.null) = t'.fixDeleteRight (X.ptr t.null) (sl.ptr t.null) ∧
      t.fixDeleteBodyChecked (X.ptr t.null) =
        t'.fixDeleteRightChecked (X.ptr t.null) (sl.ptr t.null) ∧
      Shape t' (plug X (Frame.R p RED_NODE sl kp ::
        Frame.R s BLACK_NODE sr ks :: rest)) ∧ Same t t' := by
  have hP : Shape t (plug (node p cp (node s RED_NODE sr ks sl) kp X) rest) := hS
  have hSs : Shape t (plug (node s RED_NODE sr ks sl) (Frame.L p cp kp X :: rest)) := hS
  have h1 := hP.left_eq
  have h2 := hP.right_eq
  have h3 := hSs.color_eq
  have hne : ¬ (X.ptr t.null = some s) := by
    have hsn : s ≠ t.null := hSs.focus_ne_null
    exact ptr_ne_of_not_mem hsn (fun hm => hP.sep.2.2.2.1 s (by simp [Tree.addrs]) hm)
  simp only [Tree.ptr_node] at h1 h2
  obtain ⟨t1, e1, S1, M1, -⟩ := hSs.setColor BLACK_NODE
  have x1 := cursor_parent M1 (show Shape t1 (plug X (Frame.R p cp (node s BLACK_NODE sr ks sl) kp :: rest))
    from S1) rfl hxp
  obtain ⟨t2, e2, S2, M2, -⟩ := S1.setColor_frame RED_NODE
  have M12 := M1.trans M2
  have x2 := cursor_parent M12 (show Shape t2 (plug X
    (Frame.R p RED_NODE (node s BLACK_NODE sr ks sl) kp :: rest)) from S2) rfl hxp
  have S2p : Shape t2 (plug (node p RED_NODE (node s BLACK_NODE sr ks sl) kp X) rest) := S2
  obtain ⟨t3, e3, S3, M3, -⟩ := S2p.rightRotate
  have M13 := M12.trans M3
  have S3x : Shape t3 (plug X (Frame.R p RED_NODE sl kp ::
      Frame.R s BLACK_NODE sr ks :: rest)) := S3
  have x3 := cursor_parent M13 S3x rfl hxp
  have S3p : Shape t3 (plug (node p RED_NODE sl kp X)
      (Frame.R s BLACK_NODE sr ks :: rest)) := S3
  have h4 := S3p.left_eq
  simp only [Frame.addr_L, Frame.addr_R, Frame.recolor, ctxPar_cons] at e2 x1 x2 x3
  have a1 := hP.assert_focus
  have a2 := hSs.assert_focus
  have S2s : Shape t2 (plug (node s BLACK_NODE sr ks sl) (Frame.L p RED_NODE kp X :: rest)) := S2
  have a3 := S2s.assert_focus
  have h5 := S2p.left_eq
  have a4 := S3p.assert_focus
  simp only [Tree.ptr_node] at h5
  refine ⟨t3, ?_, ?_, S3x, M13⟩
  · rw [fixDeleteBody_eq]
    simp only [hxp, h1, h2, h3, hne, e1, e2, e3, x1, x2, x3, h4, M13.null, Exec.some_bind,
    Exec.pure_eq, if_true, if_false, reduceCtorEq]
  · simp only [RBT.fixDeleteBodyChecked, RBT.leftRotateChecked, RBT.rightRotateChecked,
      a1, a2, a3, a4, h5, hxp, h1, h2, h3, hne, e1, e2, e3, x1, x2, x3, h4, M13.null, Exec.some_bind,
    Exec.pure_eq, if_true, if_false, reduceCtorEq]

/-- The assertions of `fixDeleteRightChecked` hold in this case. -/
theorem fixDeleteRightChecked_case2 {t : RBT K V} {X sl sr : Tree K V} {p s : Nat} {cp : Color}
    {kp ks : K × V} {rest : List (Frame K V)}
    (hS : Shape t (plug X (Frame.R p cp (node s BLACK_NODE sr ks sl) kp :: rest)))
    (hs : t.sentinelBlack)
    (hxp : t.parent (X.ptr t.null) = some (some p))
    (hsl : sl.rootColor = BLACK_NODE) (hsr : sr.rootColor = BLACK_NODE) :
    t.fixDeleteRightChecked (X.ptr t.null) (some s) =
      t.fixDeleteRight (X.ptr t.null) (some s) := by
  have hSs : Shape t (plug (node s BLACK_NODE sr ks sl) (Frame.L p cp kp X :: rest)) := hS
  have hl : Shape t (plug sl (Frame.R s BLACK_NODE sr ks ::
      Frame.L p cp kp X :: rest)) := hS
  have hr : Shape t (plug sr (Frame.L s BLACK_NODE ks sl ::
      Frame.L p cp kp X :: rest)) := hS
  have h1 := hSs.left_eq
  have h2 := hSs.right_eq
  have h3 := hl.color_ptr hs
  have h4 := hr.color_ptr hs
  obtain ⟨t1, e1, S1, M1, -⟩ := hSs.setColor RED_NODE
  have x1 := cursor_parent M1 (show Shape t1 (plug X (Frame.R p cp (node s RED_NODE sr ks sl) kp :: rest))
    from S1) rfl hxp
  simp only [Frame.addr_L, Frame.addr_R, ctxPar_cons] at x1
  have a1 := hSs.assert_focus
  have eU : t.fixDeleteRight (X.ptr t.null) (some s) = some (t1, some p) := by
    simp only [RBT.fixDeleteRight, h1, h2, h3, h4, hsl, hsr, e1, x1, Exec.some_bind,
    Exec.pure_eq, if_true, if_false, reduceCtorEq, decide_True]
  have eC : t.fixDeleteRightChecked (X.ptr t.null) (some s) = some (t1, some p) := by
    simp only [RBT.fixDeleteRightChecked, RBT.leftRotateChecked, RBT.rightRotateChecked,
      a1, h1, h2, h3, h4, hsl, hsr, e1, x1, Exec.some_bind,
    Exec.pure_eq, if_true, if_false, reduceCtorEq, decide_True]
  rw [eU, eC]

/-- The assertions of `fixDeleteRightChecked` hold in this case. -/
theorem fixDeleteRightChecked_case4 {t : RBT K V} {X sl rl rr : Tree K V} {p s r : Nat}
    {cp : Color} {kp ks kr : K × V} {rest : List (Frame K V)}
    (hS : Shape t (plug X (Frame.R p cp (node s BLACK_NODE (node r RED_NODE rr kr rl) ks sl) kp :: rest)))
    (hs : t.sentinelBlack)
    (hxp : t.parent (X.ptr t.null) = some (some p)) :
    t.fixDeleteRightChecked (X.ptr t.null) (some s) =
      t.fixDeleteRight (X.ptr t.null) (some s) := by
  have hSs : Shape t (plug (node s BLACK_NODE (node r RED_NODE rr kr rl) ks sl)
      (Frame.L p cp kp X :: rest)) := hS
  have hl : Shape t (plug sl (Frame.R s BLACK_NODE (node r RED_NODE rr kr rl) ks ::
      Frame.L p cp kp X :: rest)) := hS
  have hr : Shape t (plug (node r RED_NODE rr kr rl) (Frame.L s BLACK_NODE ks sl ::
      Frame.L p cp kp X :: rest)) := hS
  have h1 := hSs.left_eq
  have h2 := hSs.right_eq
  have h3 := hl.color_ptr hs
  have h4 := hr.color_eq
  have h5 : t.color (some p) = some cp := hSs.frame_color
  obtain ⟨t1, e1, S1, M1, -⟩ := hSs.setColor cp
  have x1 := cursor_parent M1 (show Shape t1 (plug X
    (Frame.R p cp (node s cp (node r RED_NODE rr kr rl) ks sl) kp :: rest)) from S1) rfl hxp
  obtain ⟨t2, e2, S2, M2, -⟩ := S1.setColor_frame BLACK_NODE
  have M12 := M1.trans M2
  have x2 := cursor_parent M12 (show Shape t2 (plug X
    (Frame.R p BLACK_NODE (node s cp (node r RED_NODE rr kr rl) ks sl) kp :: rest))
    from S2) rfl hxp
  have S2s : Shape t2 (plug (node s cp (node r RED_NODE rr kr rl) ks sl)
      (Frame.L p BLACK_NODE kp X :: rest)) := S2
  have h6 := S2s.left_eq
  have S2r : Shape t2 (plug (node r RED_NODE rr kr rl) (Frame.L s cp ks sl ::
      Frame.L p BLACK_NODE kp X :: rest)) := S2
  obtain ⟨t3, e3, S3, M3, -⟩ := S2r.setColor BLACK_NODE
  have M13 := M12.trans M3
  have x3 := cursor_parent M13 (show Shape t3 (plug X
    (Frame.R p BLACK_NODE (node s cp (node r BLACK_NODE rr kr rl) ks sl) kp :: rest))
    from S3) rfl hxp
  have S3p : Shape t3 (plug (node p BLACK_NODE (node s cp (node r BLACK_NODE rr kr rl) ks sl) kp X)
      rest) := S3
  obtain ⟨t4, e4, S4, M4, -⟩ := S3p.rightRotate
  simp only [Frame.addr_L, Frame.addr_R, Frame.recolor, ctxPar_cons, Tree.ptr_node] at e2 x1 x2 x3 h1 h2 h4 h6
  have a1 := hSs.assert_focus
  have a2 := hSs.assert_frame
  have S3s : Shape t3 (plug (node s cp (node r BLACK_NODE rr kr rl) ks sl)
      (Frame.L p BLACK_NODE kp X :: rest)) := S3
  have a3 := S3s.assert_focus
  have h9 := S3p.left_eq
  simp only [Frame.addr_L, Frame.addr_R, Tree.ptr_node] at a2 h9
  have eU : t.fixDeleteRight (X.ptr t.null) (some s) = some (t4, t4.root) := by
    cases hc : sl.rootColor <;>
    simp only [RBT.fixDeleteRight, hxp, h1, h2, h3, h4, h5, h6, hc, e1, e2, e3, e4, x1, x2, x3,
    Exec.some_bind, Exec.pure_eq, if_true, if_false, reduceCtorEq, decide_False,
    Bool.false_eq_true, Tree.ptr_node]
  have eC : t.fixDeleteRightChecked (X.ptr t.null) (some s) = some (t4, t4.root) := by
    cases hc : sl.rootColor <;>
    simp only [RBT.fixDeleteRightChecked, RBT.leftRotateChecked, RBT.rightRotateChecked,
      a1, a2, a3, h9, hxp, h1, h2, h3, h4, h5, h6, hc, e1, e2, e3, e4, x1, x2, x3,
    Exec.some_bind, Exec.pure_eq, if_true, if_false, reduceCtorEq, decide_False,
    Bool.false_eq_true, Tree.ptr_node]
  rw [eU, eC]

/-- The assertions of `fixDeleteRightChecked` hold in this case. -/
theorem fixDeleteRightChecked_case3 {t : RBT K V} {X sr ll lr : Tree K V} {p s l : Nat}
    {cp : Color} {kp ks kl : K × V} {rest : List (Frame K V)}
    (hS : Shape t (plug X (Frame.R p cp (node s BLACK_NODE sr ks (node l RED_NODE lr kl ll)) kp :: rest)))
    (hs : t.sentinelBlack)
    (hxp : t.parent (X.ptr t.null) = some (some p))
    (hsr : sr.rootColor = BLACK_NODE) :
    t.fixDeleteRightChecked (X.ptr t.null) (some s) =
      t.fixDeleteRight (X.ptr t.null) (some s) := by
  have hSs : Shape t (plug (node s BLACK_NODE sr ks (node l RED_NODE lr kl ll))
      (Frame.L p cp kp X :: rest)) := hS
  have hl : Shape t (plug (node l RED_NODE lr kl ll) (Frame.R s BLACK_NODE sr ks ::
      Frame.L p cp kp X :: rest)) := hS
  have hr : Shape t (plug sr (Frame.L s BLACK_NODE ks (node l RED_NODE lr kl ll) ::
      Frame.L p cp kp X :: rest)) := hS
  have h1 := hSs.left_eq
  have h2 := hSs.right_eq
  have h3 := hl.color_eq
  have h4 := hr.color_ptr hs
  have h5 : t.color (some p) = some cp := hSs.frame_color
  obtain ⟨t1, e1, S1, M1, -⟩ := hl.setColor BLACK_NODE
  obtain ⟨t2, e2, S2, M2, -⟩ := (show Shape t1 (plug (node s BLACK_NODE sr ks (node l BLACK_NODE lr kl ll))
      (Frame.L p cp kp X :: rest)) from S1).setColor RED_NODE
  obtain ⟨t3, e3, S3, M3, -⟩ := S2.leftRotate
  have M13 := (M1.trans M2).trans M3
  have S3x : Shape t3 (plug X
    (Frame.R p cp (node l BLACK_NODE (node s RED_NODE sr ks lr) kl ll) kp :: rest)) := S3
  have x3 := cursor_parent M13 S3x rfl hxp
  have S3p : Shape t3 (plug (node p cp (node l BLACK_NODE (node s RED_NODE sr ks lr) kl ll) kp X)
      rest) := S3
  have h6 := S3p.left_eq
  have h7 := S3p.color_eq
  have S3l : Shape t3 (plug (node l BLACK_NODE (node s RED_NODE sr ks lr) kl ll)
      (Frame.L p cp kp X :: rest)) := S3
  obtain ⟨t4, e4, S4, M4, -⟩ := S3l.setColor cp
  have M14 := M13.trans M4
  have x4 := cursor_parent M14 (show Shape t4 (plug X
    (Frame.R p cp (node l cp (node s RED_NODE sr ks lr) kl ll) kp :: rest)) from S4) rfl hxp
  obtain ⟨t5, e5, S5, M5, -⟩ := S4.setColor_frame BLACK_NODE
  have M15 := M14.trans M5
  have x5 := cursor_parent M15 (show Shape t5 (plug X
    (Frame.R p BLACK_NODE (node l cp (node s RED_NODE sr ks lr) kl ll) kp :: rest))
    from S5) rfl hxp
  have S5l : Shape t5 (plug (node l cp (node s RED_NODE sr ks lr) kl ll)
      (Frame.L p BLACK_NODE kp X :: rest)) := S5
  have h8 := S5l.left_eq
  have S5s : Shape t5 (plug (node s RED_NODE sr ks lr) (Frame.L l cp kl ll ::
      Frame.L p BLACK_NODE kp X :: rest)) := S5
  obtain ⟨t6, e6, S6, M6, -⟩ := S5s.setColor BLACK_NODE
  have M16 := M15.trans M6
  have x6 := cursor_parent M16 (show Shape t6 (plug X
    (Frame.R p BLACK_NODE (node l cp (node s BLACK_NODE sr ks lr) kl ll) kp :: rest))
    from S6) rfl hxp
  have S6p : Shape t6 (plug (node p BLACK_NODE (node l cp (node s BLACK_NODE sr ks lr) kl ll) kp X)
      rest) := S6
  obtain ⟨t7, e7, S7, M7, -⟩ := S6p.rightRotate
  simp only [Frame.addr_L, Frame.addr_R, Frame.recolor, ctxPar_cons, Tree.ptr_node] at e5 x3 x4 x5 x6 h1 h2 h3 h6 h8
  have a1 := hSs.assert_focus
  have hn2 := S2.right_eq
  have S2l : Shape t2 (plug (node l BLACK_NODE lr kl ll) (Frame.R s RED_NODE sr ks ::
      Frame.L p cp kp X :: rest)) := S2
  have a2 := S2l.assert_focus
  have a3 := S3p.assert_focus
  have a4 := S3l.assert_focus
  have S6l : Shape t6 (plug (node l cp (node s BLACK_NODE sr ks lr) kl ll)
      (Frame.L p BLACK_NODE kp X :: rest)) := S6
  have a5 := S6l.assert_focus
  have h9 := S6p.left_eq
  simp only [Frame.addr_L, Frame.addr_R, Tree.ptr_node] at hn2 h9
  have eU : t.fixDeleteRight (X.ptr t.null) (some s) = some (t7, t7.root) := by
    simp only [RBT.fixDeleteRight, hxp, h1, h2, h3, h4, h5, h6, h7, h8, hsr, e1, e2, e3, e4, e5, e6, e7,
    x3, x4, x5, x6, Exec.some_bind, Exec.pure_eq, if_true, if_false, reduceCtorEq, decide_False,
    Bool.false_eq_true, Tree.ptr_node]
  have eC : t.fixDeleteRightChecked (X.ptr t.null) (some s) = some (t7, t7.root) := by
    simp only [RBT.fixDeleteRightChecked, RBT.leftRotateChecked, RBT.rightRotateChecked,
      a1, a2, a3, a4, a5, hn2, h9, hxp, h1, h2, h3, h4, h5, h6, h7, h8, hsr, e1, e2, e3, e4, e5, e6, e7,
    x3, x4, x5, x6, Exec.some_bind, Exec.pure_eq, if_true, if_false, reduceCtorEq, decide_False,
    Bool.false_eq_true, Tree.ptr_node]
  rw [eU, eC]

end FtContainers

namespace FtContainers

open Color Tree

variable {K V : Type}

/-! ## One iteration of `fixDelete`, for every state that holds the tree -/

/-- One iteration of the loop of `fixDelete` with the cursor on the left and a
BLACK sibling.  The tree after the iteration and the new cursor depend on the
tree only: when both children of the sibling are BLACK the sibling becomes
RED and the new cursor is the parent, one level up; otherwise the iteration
ends with the cursor at the root.  In every state that holds the tree the
iteration returns that tree, with and without the assertions. -/
theorem fixDeleteLeft_ustep {X sl sr : Tree K V} {p s : Nat} {cp : Color}
    {kp ks : K × V} {rest : List (Frame K V)}
    (hXb : X.rootColor = BLACK_NODE)
    (hI : DelInv X (Frame.L p cp kp (node s BLACK_NODE sl ks sr) :: rest)) :
    ∃ X1 ctx1, DelInv X1 ctx1 ∧
      (plug X1 ctx1).nodes = (plug X (Frame.L p cp kp (node s BLACK_NODE sl ks sr) :: rest)).nodes ∧
      X1 ≠ nil ∧
      ((sl.rootColor = BLACK_NODE ∧ sr.rootColor = BLACK_NODE ∧ ctx1 = rest ∧
          X1 = node p cp X kp (node s RED_NODE sl ks sr)) ∨
        (¬ (sl.rootColor = BLACK_NODE ∧ sr.rootColor = BLACK_NODE) ∧ ctx1 = [])) ∧
      ∀ t : RBT K V, Shape t (plug X (Frame.L p cp kp (node s BLACK_NODE sl ks sr) :: rest)) → t.sentinelBlack →
        t.parent (X.ptr t.null) = some (some p) →
        ∃ t1, t.fixDeleteLeft (X.ptr t.null) (some s) = some (t1, X1.ptr t.null) ∧
          t.fixDeleteLeftChecked (X.ptr t.null) (some s) = some (t1, X1.ptr t.null) ∧
          Shape t1 (plug X1 ctx1) ∧ Same t t1 := by
  obtain ⟨hnrr, hbal, hrb, hcn, hcb⟩ := hI
  have hXn : X.noRedRed := by rw [← Tree.blacken_eq hXb]; exact hnrr
  have hrb' := hrb (List.cons_ne_nil _ _)
  clear hnrr hrb
  by_cases hsr : sr.rootColor = RED_NODE
  · obtain ⟨r, rl, kr, rr, rfl⟩ := Tree.red_node hsr
    refine ⟨plug (node s cp (node p BLACK_NODE X kp sl) ks (node r BLACK_NODE rl kr rr)) rest, [], ?_, ?_, ?_, Or.inr ⟨(fun h => by cases h.2), rfl⟩, fun t hS hs hxp => ?_⟩
    · refine ⟨Tree.blacken_noRedRed ?_, ?_, fun h => absurd rfl h, trivial, trivial⟩
      · cases cp <;>
        simp only [noRedRed_plug, balanced_plug, nodes_plug, Tree.noRedRed, Tree.balanced, Tree.bh, Tree.nodes, ctxNRR, ctxBal, ctxPreN, ctxPostN, Frame.fill_L, Frame.fill_R, Frame.recolor, Frame.color_L, Frame.color_R, Tree.rootColor_node, Tree.rootColor_nil, reduceCtorEq, if_true, if_false, false_implies, true_implies, true_and, and_true, List.append_assoc, List.cons_append, List.nil_append, List.append_nil, and_self, Nat.add_zero, ite_true, ite_false, forall_const, imp_self, ctxRootColor_cons, ctxRootColor_nil, Tree.blacken, false_and, and_false, implies_true, not_false_eq_true, rootColor_plug] at hXn hbal hcn hcb hrb' ⊢ <;>
        (try casesm* _ ∧ _) <;>
        (try and_intros) <;>
        first | assumption | omega | tauto | exact ctxBal_congr ‹ctxBal _ _› (by omega) | exact ctxNRR_black ‹ctxNRR _ _›
      · cases cp <;>
        simp only [noRedRed_plug, balanced_plug, nodes_plug, Tree.noRedRed, Tree.balanced, Tree.bh, Tree.nodes, ctxNRR, ctxBal, ctxPreN, ctxPostN, Frame.fill_L, Frame.fill_R, Frame.recolor, Frame.color_L, Frame.color_R, Tree.rootColor_node, Tree.rootColor_nil, reduceCtorEq, if_true, if_false, false_implies, true_implies, true_and, and_true, List.append_assoc, List.cons_append, List.nil_append, List.append_nil, and_self, Nat.add_zero, ite_true, ite_false, forall_const, imp_self, ctxRootColor_cons, ctxRootColor_nil, Tree.blacken, false_and, and_false, implies_true, not_false_eq_true, rootColor_plug] at hXn hbal hcn hcb hrb' ⊢ <;>
        (try casesm* _ ∧ _) <;>
        (try and_intros) <;>
        first | assumption | omega | tauto | exact ctxBal_congr ‹ctxBal _ _› (by omega) | exact ctxNRR_black ‹ctxNRR _ _›
    · simp only [nodes_plug, Tree.nodes, ctxPreN, ctxPostN, List.append_assoc, List.cons_append, List.nil_append, List.append_nil, plug_nil]
    · obtain ⟨a', c', l', kv', r', e⟩ := plug_ne_nil _ _ _ _ _ rest
      rw [e]
      exact fun h => by cases h
    · obtain ⟨t1, e1, S1, M1⟩ := fixDeleteLeft_case4 hS hs hxp
      have eC := fixDeleteLeftChecked_case4 hS hs hxp
      have e1' : t.fixDeleteLeft (X.ptr t.null) (some s) =
          some (t1, (plug (node s cp (node p BLACK_NODE X kp sl) ks (node r BLACK_NODE rl kr rr)) rest).ptr t.null) := by
        rw [e1, S1.root, M1.null]
      exact ⟨t1, e1', eC.trans e1', S1, M1⟩
  · have hsrb := Color.eq_black_of_ne_red hsr
    by_cases hsl : sl.rootColor = RED_NODE
    · obtain ⟨l, ll, kl, lr, rfl⟩ := Tree.red_node hsl
      refine ⟨plug (node l cp (node p BLACK_NODE X kp ll) kl (node s BLACK_NODE lr ks sr)) rest, [], ?_, ?_, ?_, Or.inr ⟨(fun h => by cases h.1), rfl⟩, fun t hS hs hxp => ?_⟩
      · refine ⟨Tree.blacken_noRedRed ?_, ?_, fun h => absurd rfl h, trivial, trivial⟩
        · cases cp <;>
          simp only [noRedRed_plug, balanced_plug, nodes_plug, Tree.noRedRed, Tree.balanced, Tree.bh, Tree.nodes, ctxNRR, ctxBal, ctxPreN, ctxPostN, Frame.fill_L, Frame.fill_R, Frame.recolor, Frame.color_L, Frame.color_R, Tree.rootColor_node, Tree.rootColor_nil, reduceCtorEq, if_true, if_false, false_implies, true_implies, true_and, and_true, List.append_assoc, List.cons_append, List.nil_append, List.append_nil, and_self, Nat.add_zero, ite_true, ite_false, forall_const, imp_self, ctxRootColor_cons, ctxRootColor_nil, Tree.blacken, false_and, and_false, implies_true, not_false_eq_true, rootColor_plug] at hXn hbal hcn hcb hrb' ⊢ <;>
          (try casesm* _ ∧ _) <;>
          (try and_intros) <;>
          first | assumption | omega | tauto | exact ctxBal_congr ‹ctxBal _ _› (by omega) | exact ctxNRR_black ‹ctxNRR _ _›
        · cases cp <;>
          simp only [noRedRed_plug, balanced_plug, nodes_plug, Tree.noRedRed, Tree.balanced, Tree.bh, Tree.nodes, ctxNRR, ctxBal, ctxPreN, ctxPostN, Frame.fill_L, Frame.fill_R, Frame.recolor, Frame.color_L, Frame.color_R, Tree.rootColor_node, Tree.rootColor_nil, reduceCtorEq, if_true, if_false, false_implies, true_implies, true_and, and_true, List.append_assoc, List.cons_append, List.nil_append, List.append_nil, and_self, Nat.add_zero, ite_true, ite_false, forall_const, imp_self, ctxRootColor_cons, ctxRootColor_nil, Tree.blacken, false_and, and_false, implies_true, not_false_eq_true, rootColor_plug] at hXn hbal hcn hcb hrb' ⊢ <;>
          (try casesm* _ ∧ _) <;>
          (try and_intros) <;>
          first | assumption | omega | tauto | exact ctxBal_congr ‹ctxBal _ _› (by omega) | exact ctxNRR_black ‹ctxNRR _ _›
      · simp only [nodes_plug, Tree.nodes, ctxPreN, ctxPostN, List.append_assoc, List.cons_append, List.nil_append, List.append_nil, plug_nil]
      · obtain ⟨a', c', l', kv', r', e⟩ := plug_ne_nil _ _ _ _ _ rest
        rw [e]
        exact fun h => by cases h
      · obtain ⟨t1, e1, S1, M1⟩ := fixDeleteLeft_case3 hS hs hxp hsrb
        have eC := fixDeleteLeftChecked_case3 hS hs hxp hsrb
        have e1' : t.fixDeleteLeft (X.ptr t.null) (some s) =
            some (t1, (plug (node l cp (node p BLACK_NODE X kp ll) kl (node s BLACK_NODE lr ks sr)) rest).ptr t.null) := by
          rw [e1, S1.root, M1.null]
        exact ⟨t1, e1', eC.trans e1', S1, M1⟩
    · have hslb := Color.eq_black_of_ne_red hsl
      refine ⟨node p cp X kp (node s RED_NODE sl ks sr), rest,
        ⟨?_, ?_, ?_, ?_, ?_⟩, ?_, (fun h => by cases h), Or.inl ⟨hslb, hsrb, rfl, rfl⟩,
        fun t hS hs hxp => ?_⟩
      · cases cp <;>
        simp only [noRedRed_plug, balanced_plug, nodes_plug, Tree.noRedRed, Tree.balanced, Tree.bh, Tree.nodes, ctxNRR, ctxBal, ctxPreN, ctxPostN, Frame.fill_L, Frame.fill_R, Frame.recolor, Frame.color_L, Frame.color_R, Tree.rootColor_node, Tree.rootColor_nil, reduceCtorEq, if_true, if_false, false_implies, true_implies, true_and, and_true, List.append_assoc, List.cons_append, List.nil_append, List.append_nil, and_self, Nat.add_zero, ite_true, ite_false, forall_const, imp_self, ctxRootColor_cons, ctxRootColor_nil, Tree.blacken, false_and, and_false, implies_true, not_false_eq_true, rootColor_plug] at hXn hbal hcn hcb hrb' ⊢ <;>
        (try casesm* _ ∧ _) <;>
        (try and_intros) <;>
        first | assumption | omega | tauto | exact ctxBal_congr ‹ctxBal _ _› (by omega) | exact ctxNRR_black ‹ctxNRR _ _›
      · cases cp <;>
        simp only [noRedRed_plug, balanced_plug, nodes_plug, Tree.noRedRed, Tree.balanced, Tree.bh, Tree.nodes, ctxNRR, ctxBal, ctxPreN, ctxPostN, Frame.fill_L, Frame.fill_R, Frame.recolor, Frame.color_L, Frame.color_R, Tree.rootColor_node, Tree.rootColor_nil, reduceCtorEq, if_true, if_false, false_implies, true_implies, true_and, and_true, List.append_assoc, List.cons_append, List.nil_append, List.append_nil, and_self, Nat.add_zero, ite_true, ite_false, forall_const, imp_self, ctxRootColor_cons, ctxRootColor_nil, Tree.blacken, false_and, and_false, implies_true, not_false_eq_true, rootColor_plug] at hXn hbal hcn hcb hrb' ⊢ <;>
        (try casesm* _ ∧ _) <;>
        (try and_intros) <;>
        first | assumption | omega | tauto | exact ctxBal_congr ‹ctxBal _ _› (by omega) | exact ctxNRR_black ‹ctxNRR _ _›
      · intro hne
        rw [ctxRootColor_ne_nil hne RED_NODE cp]
        simpa only [ctxRootColor_cons, Frame.color_L, Frame.color_R] using hrb'
      · simp only [ctxNRR] at hcn
        exact ctxNRR_black hcn.2.2
      · cases cp <;>
        simp only [noRedRed_plug, balanced_plug, nodes_plug, Tree.noRedRed, Tree.balanced, Tree.bh, Tree.nodes, ctxNRR, ctxBal, ctxPreN, ctxPostN, Frame.fill_L, Frame.fill_R, Frame.recolor, Frame.color_L, Frame.color_R, Tree.rootColor_node, Tree.rootColor_nil, reduceCtorEq, if_true, if_false, false_implies, true_implies, true_and, and_true, List.append_assoc, List.cons_append, List.nil_append, List.append_nil, and_self, Nat.add_zero, ite_true, ite_false, forall_const, imp_self, ctxRootColor_cons, ctxRootColor_nil, Tree.blacken, false_and, and_false, implies_true, not_false_eq_true, rootColor_plug] at hXn hbal hcn hcb hrb' ⊢ <;>
        (try casesm* _ ∧ _) <;>
        (try and_intros) <;>
        first | assumption | omega | tauto | exact ctxBal_congr ‹ctxBal _ _› (by omega) | exact ctxNRR_black ‹ctxNRR _ _›
      · simp only [nodes_plug, Tree.nodes, ctxPreN, ctxPostN, List.append_assoc, List.cons_append, List.nil_append, List.append_nil]
      · obtain ⟨t1, e1, S1, M1⟩ := fixDeleteLeft_case2 hS hs hxp hslb hsrb
        have eC := fixDeleteLeftChecked_case2 hS hs hxp hslb hsrb
        exact ⟨t1, e1, eC.trans e1, S1, M1⟩

/-- One iteration of the loop of `fixDelete` with the cursor on the right and a
BLACK sibling.  The tree after the iteration and the new cursor depend on the
tree only: when both children of the sibling are BLACK the sibling becomes
RED and the new cursor is the parent, one level up; otherwise the iteration
ends with the cursor at the root.  In every state that holds the tree the
iteration returns that tree, with and without the assertions. -/
theorem fixDeleteRight_ustep {X sl sr : Tree K V} {p s : Nat} {cp : Color}
    {kp ks : K × V} {rest : List (Frame K V)}
    (hXb : X.rootColor = BLACK_NODE)
    (hI : DelInv X (Frame.R p cp (node s BLACK_NODE sr ks sl) kp :: rest)) :
    ∃ X1 ctx1, DelInv X1 ctx1 ∧
      (plug X1 ctx1).nodes = (plug X (Frame.R p cp (node s BLACK_NODE sr ks sl) kp :: rest)).nodes ∧
      X1 ≠ nil ∧
      ((sl.rootColor = BLACK_NODE ∧ sr.rootColor = BLACK_NODE ∧ ctx1 = rest ∧
          X1 = node p cp (node s RED_NODE sr ks sl) kp X) ∨
        (¬ (sl.rootColor = BLACK_NODE ∧ sr.rootColor = BLACK_NODE) ∧ ctx1 = [])) ∧
      ∀ t : RBT K V, Shape t (plug X (Frame.R p cp (node s BLACK_NODE sr ks sl) kp :: rest)) → t.sentinelBlack →
        t.parent (X.ptr t.null) = some (some p) →
        ∃ t1, t.fixDeleteRight (X.ptr t.null) (some s) = some (t1, X1.ptr t.null) ∧
          t.fixDeleteRightChecked (X.ptr t.null) (some s) = some (t1, X1.ptr t.null) ∧
          Shape t1 (plug X1 ctx1) ∧ Same t t1 := by
  obtain ⟨hnrr, hbal, hrb, hcn, hcb⟩ := hI
  have hXn : X.noRedRed := by rw [← Tree.blacken_eq hXb]; exact hnrr
  have hrb' := hrb (List.cons_ne_nil _ _)
  clear hnrr hrb
  by_cases hsr : sr.rootColor = RED_NODE
  · obtain ⟨r, rr, kr, rl, rfl⟩ := Tree.red_node hsr
    refine ⟨plug (node s cp (node r BLACK_NODE rr kr rl) ks (node p BLACK_NODE sl kp X)) rest, [], ?_, ?_, ?_, Or.inr ⟨(fun h => by cases h.2), rfl⟩, fun t hS hs hxp => ?_⟩
    · refine ⟨Tree.blacken_noRedRed ?_, ?_, fun h => absurd rfl h, trivial, trivial⟩
      · cases cp <;>
        simp only [noRedRed_plug, balanced_plug, nodes_plug, Tree.noRedRed, Tree.balanced, Tree.bh, Tree.nodes, ctxNRR, ctxBal, ctxPreN, ctxPostN, Frame.fill_L, Frame.fill_R, Frame.recolor, Frame.color_L, Frame.color_R, Tree.rootColor_node, Tree.rootColor_nil, reduceCtorEq, if_true, if_false, false_implies, true_implies, true_and, and_true, List.append_assoc, List.cons_append, List.nil_append, List.append_nil, and_self, Nat.add_zero, ite_true, ite_false, forall_const, imp_self, ctxRootColor_cons, ctxRootColor_nil, Tree.blacken, false_and, and_false, implies_true, not_false_eq_true, rootColor_plug] at hXn hbal hcn hcb hrb' ⊢ <;>
        (try casesm* _ ∧ _) <;>
        (try and_intros) <;>
        first | assumption | omega | tauto | exact ctxBal_congr ‹ctxBal _ _› (by omega) | exact ctxNRR_black ‹ctxNRR _ _›
      · cases cp <;>
        simp only [noRedRed_plug, balanced_plug, nodes_plug, Tree.noRedRed, Tree.balanced, Tree.bh, Tree.nodes, ctxNRR, ctxBal, ctxPreN, ctxPostN, Frame.fill_L, Frame.fill_R, Frame.recolor, Frame.color_L, Frame.color_R, Tree.rootColor_node, Tree.rootColor_nil, reduceCtorEq, if_true, if_false, false_implies, true_implies, true_and, and_true, List.append_assoc, List.cons_append, List.nil_append, List.append_nil, and_self, Nat.add_zero, ite_true, ite_false, forall_const, imp_self, ctxRootColor_cons, ctxRootColor_nil, Tree.blacken, false_and, and_false, implies_true, not_false_eq_true, rootColor_plug] at hXn hbal hcn hcb hrb' ⊢ <;>
        (try casesm* _ ∧ _) <;>
        (try and_intros) <;>
        first | assumption | omega | tauto | exact ctxBal_congr ‹ctxBal _ _› (by omega) | exact ctxNRR_black ‹ctxNRR _ _›
    · simp only [nodes_plug, Tree.nodes, ctxPreN, ctxPostN, List.append_assoc, List.cons_append, List.nil_append, List.append_nil, plug_nil]
    · obtain ⟨a', c', l', kv', r', e⟩ := plug_ne_nil _ _ _ _ _ rest
      rw [e]
      exact fun h => by cases h
    · obtain ⟨t1, e1, S1, M1⟩ := fixDeleteRight_case4 hS hs hxp
      have eC := fixDeleteRightChecked_case4 hS hs hxp
      have e1' : t.fixDeleteRight (X.ptr t.null) (some s) =
          some (t1, (plug (node s cp (node r BLACK_NODE rr kr rl) ks (node p BLACK_NODE sl kp X)) rest).ptr t.null) := by
        rw [e1, S1.root, M1.null]
      exact ⟨t1, e1', eC.trans e1', S1, M1⟩
  · have hsrb := Color.eq_black_of_ne_red hsr
    by_cases hsl : sl.rootColor = RED_NODE
    · obtain ⟨l, lr, kl, ll, rfl⟩ := Tree.red_node hsl
      refine ⟨plug (node l cp (node s BLACK_NODE sr ks lr) kl (node p BLACK_NODE ll kp X)) rest, [], ?_, ?_, ?_, Or.inr ⟨(fun h => by cases h.1), rfl⟩, fun t hS hs hxp => ?_⟩
      · refine ⟨Tree.blacken_noRedRed ?_, ?_, fun h => absurd rfl h, trivial, trivial⟩
        · cases cp <;>
          simp only [noRedRed_plug, balanced_plug, nodes_plug, Tree.noRedRed, Tree.balanced, Tree.bh, Tree.nodes, ctxNRR, ctxBal, ctxPreN, ctxPostN, Frame.fill_L, Frame.fill_R, Frame.recolor, Frame.color_L, Frame.color_R, Tree.rootColor_node, Tree.rootColor_nil, reduceCtorEq, if_true, if_false, false_implies, true_implies, true_and, and_true, List.append_assoc, List.cons_append, List.nil_append, List.append_nil, and_self, Nat.add_zero, ite_true, ite_false, forall_const, imp_self, ctxRootColor_cons, ctxRootColor_nil, Tree.blacken, false_and, and_false, implies_true, not_false_eq_true, rootColor_plug] at hXn hbal hcn hcb hrb' ⊢ <;>
          (try casesm* _ ∧ _) <;>
          (try and_intros) <;>
          first | assumption | omega | tauto | exact ctxBal_congr ‹ctxBal _ _› (by omega) | exact ctxNRR_black ‹ctxNRR _ _›
        · cases cp <;>
          simp only [noRedRed_plug, balanced_plug, nodes_plug, Tree.noRedRed, Tree.balanced, Tree.bh, Tree.nodes, ctxNRR, ctxBal, ctxPreN, ctxPostN, Frame.fill_L, Frame.fill_R, Frame.recolor, Frame.color_L, Frame.color_R, Tree.rootColor_node, Tree.rootColor_nil, reduceCtorEq, if_true, if_false, false_implies, true_implies, true_and, and_true, List.append_assoc, List.cons_append, List.nil_append, List.append_nil, and_self, Nat.add_zero, ite_true, ite_false, forall_const, imp_self, ctxRootColor_cons, ctxRootColor_nil, Tree.blacken, false_and, and_false, implies_true, not_false_eq_true, rootColor_plug] at hXn hbal hcn hcb hrb' ⊢ <;>
          (try casesm* _ ∧ _) <;>
          (try and_intros) <;>
          first | assumption | omega | tauto | exact ctxBal_congr ‹ctxBal _ _› (by omega) | exact ctxNRR_black ‹ctxNRR _ _›
      · simp only [nodes_plug, Tree.nodes, ctxPreN, ctxPostN, List.append_assoc, List.cons_append, List.nil_append, List.append_nil, plug_nil]
      · obtain ⟨a', c', l', kv', r', e⟩ := plug_ne_nil _ _ _ _ _ rest
        rw [e]
        exact fun h => by cases h
      · obtain ⟨t1, e1, S1, M1⟩ := fixDeleteRight_case3 hS hs hxp hsrb
        have eC := fixDeleteRightChecked_case3 hS hs hxp hsrb
        have e1' : t.fixDeleteRight (X.ptr t.null) (some s) =
            some (t1, (plug (node l cp (node s BLACK_NODE sr ks lr) kl (node p BLACK_NODE ll kp X)) rest).ptr t.null) := by
          rw [e1, S1.root, M1.null]
        exact ⟨t1, e1', eC.trans e1', S1, M1⟩
    · have hslb := Color.eq_black_of_ne_red hsl
      refine ⟨node p cp (node s RED_NODE sr ks sl) kp X, rest,
        ⟨?_, ?_, ?_, ?_, ?_⟩, ?_, (fun h => by cases h), Or.inl ⟨hslb, hsrb, rfl, rfl⟩,
        fun t hS hs hxp => ?_⟩
      · cases cp <;>
        simp only [noRedRed_plug, balanced_plug, nodes_plug, Tree.noRedRed, Tree.balanced, Tree.bh, Tree.nodes, ctxNRR, ctxBal, ctxPreN, ctxPostN, Frame.fill_L, Frame.fill_R, Frame.recolor, Frame.color_L, Frame.color_R, Tree.rootColor_node, Tree.rootColor_nil, reduceCtorEq, if_true, if_false, false_implies, true_implies, true_and, and_true, List.append_assoc, List.cons_append, List.nil_append, List.append_nil, and_self, Nat.add_zero, ite_true, ite_false, forall_const, imp_self, ctxRootColor_cons, ctxRootColor_nil, Tree.blacken, false_and, and_false, implies_true, not_false_eq_true, rootColor_plug] at hXn hbal hcn hcb hrb' ⊢ <;>
        (try casesm* _ ∧ _) <;>
        (try and_intros) <;>
        first | assumption | omega | tauto | exact ctxBal_congr ‹ctxBal _ _› (by omega) | exact ctxNRR_black ‹ctxNRR _ _›
      · cases cp <;>
        simp only [noRedRed_plug, balanced_plug, nodes_plug, Tree.noRedRed, Tree.balanced, Tree.bh, Tree.nodes, ctxNRR, ctxBal, ctxPreN, ctxPostN, Frame.fill_L, Frame.fill_R, Frame.recolor, Frame.color_L, Frame.color_R, Tree.rootColor_node, Tree.rootColor_nil, reduceCtorEq, if_true, if_false, false_implies, true_implies, true_and, and_true, List.append_assoc, List.cons_append, List.nil_append, List.append_nil, and_self, Nat.add_zero, ite_true, ite_false, forall_const, imp_self, ctxRootColor_cons, ctxRootColor_nil, Tree.blacken, false_and, and_false, implies_true, not_false_eq_true, rootColor_plug] at hXn hbal hcn hcb hrb' ⊢ <;>
        (try casesm* _ ∧ _) <;>
        (try and_intros) <;>
        first | assumption | omega | tauto | exact ctxBal_congr ‹ctxBal _ _› (by omega) | exact ctxNRR_black ‹ctxNRR _ _›
      · intro hne
        rw [ctxRootColor_ne_nil hne RED_NODE cp]
        simpa only [ctxRootColor_cons, Frame.color_L, Frame.color_R] using hrb'
      · simp only [ctxNRR] at hcn
        exact ctxNRR_black hcn.2.2
      · cases cp <;>
        simp only [noRedRed_plug, balanced_plug, nodes_plug, Tree.noRedRed, Tree.balanced, Tree.bh, Tree.nodes, ctxNRR, ctxBal, ctxPreN, ctxPostN, Frame.fill_L, Frame.fill_R, Frame.recolor, Frame.color_L, Frame.color_R, Tree.rootColor_node, Tree.rootColor_nil, reduceCtorEq, if_true, if_false, false_implies, true_implies, true_and, and_true, List.append_assoc, List.cons_append, List.nil_append, List.append_nil, and_self, Nat.add_zero, ite_true, ite_false, forall_const, imp_self, ctxRootColor_cons, ctxRootColor_nil, Tree.blacken, false_and, and_false, implies_true, not_false_eq_true, rootColor_plug] at hXn hbal hcn hcb hrb' ⊢ <;>
        (try casesm* _ ∧ _) <;>
        (try and_intros) <;>
        first | assumption | omega | tauto | exact ctxBal_congr ‹ctxBal _ _› (by omega) | exact ctxNRR_black ‹ctxNRR _ _›
      · simp only [nodes_plug, Tree.nodes, ctxPreN, ctxPostN, List.append_assoc, List.cons_append, List.nil_append, List.append_nil]
      · obtain ⟨t1, e1, S1, M1⟩ := fixDeleteRight_case2 hS hs hxp hslb hsrb
        have eC := fixDeleteRightChecked_case2 hS hs hxp hslb hsrb
        exact ⟨t1, e1, eC.trans e1, S1, M1⟩

end FtContainers

namespace FtContainers

open Color Tree

variable {K V : Type}

/-! ## The loop of `fixDelete`, for every state that holds the tree -/

/-- Exit of the loop of `fixDelete`: the cursor is the root or is RED, and is
coloured BLACK; the tree that results depends on the tree only. -/
theorem fixDelete_ustop {X : Tree K V} {ctx : List (Frame K V)} (k : Nat)
    (hI : DelInv X ctx) (hstop : ctx = [] ∨ X.rootColor = RED_NODE) :
    (plug X.blacken ctx).nodes = (plug X ctx).nodes ∧
    (plug X.blacken ctx).rootColor = BLACK_NODE ∧ (plug X.blacken ctx).noRedRed ∧
    (plug X.blacken ctx).balanced ∧
    ∀ t : RBT K V, Shape t (plug X ctx) → t.sentinelBlack →
      ∃ t', RBT.fixDelete (k + 1) t (X.ptr t.null) = some t' ∧
        RBT.fixDeleteChecked (k + 1) t (X.ptr t.null) = some t' ∧
        t.setColor (X.ptr t.null) BLACK_NODE = some t' ∧
        Shape t' (plug X.blacken ctx) ∧
        t'.null = t.null ∧ t'.next = t.next ∧ t'.sentinelBlack := by
  obtain ⟨hnrr, hbal, hrb, hcn, hcb⟩ := hI
  have hprops : (plug X.blacken ctx).nodes = (plug X ctx).nodes ∧
      (plug X.blacken ctx).rootColor = BLACK_NODE ∧ (plug X.blacken ctx).noRedRed ∧
      (plug X.blacken ctx).balanced := by
    refine ⟨by simp only [nodes_plug, Tree.blacken_nodes], ?_, ?_, ?_⟩
    · rw [rootColor_plug, Tree.blacken_rootColor]
      cases ctx with
      | nil => rfl
      | cons f rest =>
        rw [ctxRootColor_ne_nil (List.cons_ne_nil f rest) BLACK_NODE RED_NODE]
        exact hrb (List.cons_ne_nil f rest)
    · rw [noRedRed_plug, Tree.blacken_rootColor]
      exact ⟨hnrr, hcn⟩
    · rw [balanced_plug, Tree.blacken_balanced_iff]
      refine ⟨hbal, ?_⟩
      rcases hstop with rfl | hred
      · trivial
      · rw [Tree.bh_blacken_red hred]
        exact hcb
  refine ⟨hprops.1, hprops.2.1, hprops.2.2.1, hprops.2.2.2, fun t hS hs => ?_⟩
  have hcode : RBT.fixDelete (k + 1) t (X.ptr t.null) =
      t.setColor (X.ptr t.null) BLACK_NODE := by
    rcases hstop with rfl | hred
    · have := hS.root
      simp only [plug_nil] at this
      simp only [RBT.fixDelete, this, ne_eq, not_true_eq_false, if_false]
    · cases ctx with
      | nil =>
        have := hS.root
        simp only [plug_nil] at this
        simp only [RBT.fixDelete, this, ne_eq, not_true_eq_false, if_false]
      | cons f rest =>
        simp only [RBT.fixDelete, ne_eq, hS.cursor_ne_root, not_false_eq_true, if_true,
          hS.color_ptr hs, hred, Exec.some_bind, reduceCtorEq, if_false]
  have hcodeC : RBT.fixDeleteChecked (k + 1) t (X.ptr t.null) =
      t.setColor (X.ptr t.null) BLACK_NODE := by
    rcases hstop with rfl | hred
    · have := hS.root
      simp only [plug_nil] at this
      simp only [RBT.fixDeleteChecked, this, ne_eq, not_true_eq_false, if_false]
    · cases ctx with
      | nil =>
        have := hS.root
        simp only [plug_nil] at this
        simp only [RBT.fixDeleteChecked, this, ne_eq, not_true_eq_false, if_false]
      | cons f rest =>
        simp only [RBT.fixDeleteChecked, ne_eq, hS.cursor_ne_root, not_false_eq_true, if_true,
          hS.color_ptr hs, hred, Exec.some_bind, reduceCtorEq, if_false]
  rw [hcode, hcodeC]
  cases X with
  | node a c l kv r =>
    obtain ⟨t1, e1, S1, M1, -⟩ := hS.setColor BLACK_NODE
    exact ⟨t1, e1, e1, e1, S1, M1.null, M1.next, M1.sentinelBlack hs⟩
  | nil =>
    rcases hstop with rfl | hred
    · obtain ⟨n0, hn0, hc0⟩ := hs
      exact ⟨_, RBT.setColor_of hn0 BLACK_NODE, RBT.setColor_of hn0 BLACK_NODE,
        RBT.setColor_of hn0 BLACK_NODE, ⟨hS.root, trivial, List.nodup_nil⟩, rfl, rfl,
        ⟨_, setCell_same _ _ _, rfl⟩⟩
    · cases hred

/-- One iteration of the loop of `fixDelete` at a BLACK cursor that is not the
root.  The tree after the iteration and the new cursor depend on the tree
only.  Either the cursor moves to its parent (`up`): one level up when the
sibling is BLACK; after the rotation that follows a RED sibling the parent is
a RED node one level below the old sibling.  Or the iteration ends with the
cursor at the root.  In every state that holds the tree the iteration returns
that tree, with and without the assertions, and it moves up exactly when the
two children of the sibling (of the new sibling `w` after a RED sibling) are
BLACK. -/
theorem fixDeleteBody_ustep {X : Tree K V} {f : Frame K V} {rest : List (Frame K V)}
    (hXb : X.rootColor = BLACK_NODE) (hI : DelInv X (f :: rest)) :
    ∃ (X1 : Tree K V) (ctx1 : List (Frame K V)) (up : Bool), DelInv X1 ctx1 ∧
      (plug X1 ctx1).nodes = (plug X (f :: rest)).nodes ∧ X1 ≠ nil ∧
      (up = true → (∀ nl, X1.ptr nl = some f.addr) ∧
        ((f.sibling.rootColor = BLACK_NODE ∧ ctx1 = rest) ∨
          (f.sibling.rootColor = RED_NODE ∧ X1.rootColor = RED_NODE ∧ ∃ g, ctx1 = g :: rest))) ∧
      (up = false → ctx1 = []) ∧
      ∀ t : RBT K V, Shape t (plug X (f :: rest)) → t.sentinelBlack →
        t.parent (X.ptr t.null) = some (some f.addr) →
        ∃ t1, t.fixDeleteBody (X.ptr t.null) = some (t1, X1.ptr t.null) ∧
          t.fixDeleteBodyChecked (X.ptr t.null) = some (t1, X1.ptr t.null) ∧
          Shape t1 (plug X1 ctx1) ∧ Same t t1 ∧
          ∃ (s : Nat) (sc : Color) (w : Nat) (a b : Ptr) (ca cb : Color),
            ((t.left (some f.addr) = some (X.ptr t.null) ∧
                t.right (some f.addr) = some (some s) ∧
                (if sc = RED_NODE then t.left (some s) = some (some w) else w = s)) ∨
              (t.left (some f.addr) ≠ some (X.ptr t.null) ∧
                t.left (some f.addr) = some (some s) ∧
                (if sc = RED_NODE then t.right (some s) = some (some w) else w = s))) ∧
            t.color (some s) = some sc ∧ f.sibling.rootColor = sc ∧
            t.left (some w) = some a ∧ t.right (some w) = some b ∧
            t.color a = some ca ∧ t.color b = some cb ∧
            (up = true ↔ ca = BLACK_NODE ∧ cb = BLACK_NODE) := by
  cases f with
  | L p cp kp S =>
    have hrb' := hI.rootBlack (List.cons_ne_nil _ _)
    have hSne : S ≠ nil := by
      rintro rfl
      have := hI.cbal
      simp [ctxBal, Tree.bh] at this
    cases S with
    | nil => exact absurd rfl hSne
    | node s cs sl ks sr =>
      simp only [Frame.addr_L, Frame.addr_R, Frame.sibling, Tree.rootColor_node]
      cases cs with
      | BLACK_NODE =>
        obtain ⟨X1, ctx1, hI1, hn1, hX1, hk, hall⟩ := fixDeleteLeft_ustep hXb hI
        rcases hk with ⟨hslb, hsrb, hc1, rfl⟩ | ⟨hneg, rfl⟩
        · obtain rfl := hc1.symm
          refine ⟨_, _, true, hI1, hn1, hX1, fun _ => ⟨fun _ => rfl, Or.inl ⟨rfl, rfl⟩⟩,
            (fun h => by cases h), fun t hS hs hxp => ?_⟩
          · have hP : Shape t (plug (node p cp X kp (node s BLACK_NODE sl ks sr)) rest) := hS
            have hSs : Shape t (plug (node s BLACK_NODE sl ks sr) (Frame.R p cp X kp :: rest)) := hS
            have hl : Shape t (plug sl (Frame.L s BLACK_NODE ks sr ::
                Frame.R p cp X kp :: rest)) := hS
            have hr : Shape t (plug sr (Frame.R s BLACK_NODE sl ks ::
                Frame.R p cp X kp :: rest)) := hS
            have hpn := hP.left_eq
            have hpf := hP.right_eq
            have hne : ¬ (X.ptr t.null = some s) := by
              have hsn : s ≠ t.null := hSs.focus_ne_null
              exact ptr_ne_of_not_mem hsn (fun hm => hP.sep.2.2.2.1 s hm (by simp [Tree.addrs]))
            simp only [Tree.ptr_node] at hpn hpf
            obtain ⟨t1, e1, eC, S1, M1⟩ := hall t hS hs hxp
            have hbody := fixDeleteBody_L_black hS hxp
            have hbodyC := fixDeleteBodyChecked_L_black hS hxp
            refine ⟨t1, hbody.trans e1, hbodyC.trans eC, S1, M1, s, BLACK_NODE, s,
              sl.ptr t.null, sr.ptr t.null, sl.rootColor, sr.rootColor, Or.inl ⟨hpn, hpf, by rw [if_neg (by decide)]⟩,
              hSs.color_eq, rfl, hSs.left_eq, hSs.right_eq, hl.color_ptr hs, hr.color_ptr hs, ⟨fun _ => ⟨hslb, hsrb⟩, fun _ => rfl⟩⟩
        · refine ⟨_, _, false, hI1, hn1, hX1, (fun h => by cases h), fun _ => rfl,
            fun t hS hs hxp => ?_⟩
          · have hP : Shape t (plug (node p cp X kp (node s BLACK_NODE sl ks sr)) rest) := hS
            have hSs : Shape t (plug (node s BLACK_NODE sl ks sr) (Frame.R p cp X kp :: rest)) := hS
            have hl : Shape t (plug sl (Frame.L s BLACK_NODE ks sr ::
                Frame.R p cp X kp :: rest)) := hS
            have hr : Shape t (plug sr (Frame.R s BLACK_NODE sl ks ::
                Frame.R p cp X kp :: rest)) := hS
            have hpn := hP.left_eq
            have hpf := hP.right_eq
            have hne : ¬ (X.ptr t.null = some s) := by
              have hsn : s ≠ t.null := hSs.focus_ne_null
              exact ptr_ne_of_not_mem hsn (fun hm => hP.sep.2.2.2.1 s hm (by simp [Tree.addrs]))
            simp only [Tree.ptr_node] at hpn hpf
            obtain ⟨t1, e1, eC, S1, M1⟩ := hall t hS hs hxp
            have hbody := fixDeleteBody_L_black hS hxp
            have hbodyC := fixDeleteBodyChecked_L_black hS hxp
            refine ⟨t1, hbody.trans e1, hbodyC.trans eC, S1, M1, s, BLACK_NODE, s,
              sl.ptr t.null, sr.ptr t.null, sl.rootColor, sr.rootColor, Or.inl ⟨hpn, hpf, by rw [if_neg (by decide)]⟩,
              hSs.color_eq, rfl, hSs.left_eq, hSs.right_eq, hl.color_ptr hs, hr.color_ptr hs, ⟨(fun h => by cases h), fun h => absurd h hneg⟩⟩
      | RED_NODE =>
        obtain ⟨hnrr, hbal, -, hcn, hcb⟩ := hI
        have hcp : cp = BLACK_NODE := by
          apply Color.eq_black_of_ne_red
          intro h
          simp [ctxNRR, h] at hcn
        subst hcp
        have hsl : sl ≠ nil := by
          rintro rfl
          simp [ctxBal, Tree.bh, Tree.balanced] at hcb <;> omega
        cases sl with
        | nil => exact absurd rfl hsl
        | node s2 c2 a k2 b =>
          have hc2 : c2 = BLACK_NODE := by
            apply Color.eq_black_of_ne_red
            intro h
            simp [ctxNRR, Tree.noRedRed, h] at hcn
          subst hc2
          have hI1 : DelInv X (Frame.L p RED_NODE kp (node s2 BLACK_NODE a k2 b) :: Frame.L s BLACK_NODE ks sr :: rest) := by
            refine ⟨hnrr, hbal, fun _ => ?_, ?_, ?_⟩
            · simp only [noRedRed_plug, balanced_plug, nodes_plug, Tree.noRedRed, Tree.balanced, Tree.bh, Tree.nodes, ctxNRR, ctxBal, ctxPreN, ctxPostN, Frame.fill_L, Frame.fill_R, Frame.recolor, Frame.color_L, Frame.color_R, Tree.rootColor_node, Tree.rootColor_nil, reduceCtorEq, if_true, if_false, false_implies, true_implies, true_and, and_true, List.append_assoc, List.cons_append, List.nil_append, List.append_nil, and_self, Nat.add_zero, ite_true, ite_false, forall_const, imp_self, ctxRootColor_cons, ctxRootColor_nil, Tree.blacken, false_and, and_false, implies_true, not_false_eq_true, rootColor_plug] at hnrr hbal hcn hcb hrb' ⊢ <;>
              (try casesm* _ ∧ _) <;>
              (try and_intros) <;>
              first | assumption | omega | tauto | exact ctxBal_congr ‹ctxBal _ _› (by omega) | exact ctxNRR_black ‹ctxNRR _ _›
            · simp only [noRedRed_plug, balanced_plug, nodes_plug, Tree.noRedRed, Tree.balanced, Tree.bh, Tree.nodes, ctxNRR, ctxBal, ctxPreN, ctxPostN, Frame.fill_L, Frame.fill_R, Frame.recolor, Frame.color_L, Frame.color_R, Tree.rootColor_node, Tree.rootColor_nil, reduceCtorEq, if_true, if_false, false_implies, true_implies, true_and, and_true, List.append_assoc, List.cons_append, List.nil_append, List.append_nil, and_self, Nat.add_zero, ite_true, ite_false, forall_const, imp_self, ctxRootColor_cons, ctxRootColor_nil, Tree.blacken, false_and, and_false, implies_true, not_false_eq_true, rootColor_plug] at hnrr hbal hcn hcb hrb' ⊢ <;>
              (try casesm* _ ∧ _) <;>
              (try and_intros) <;>
              first | assumption | omega | tauto | exact ctxBal_congr ‹ctxBal _ _› (by omega) | exact ctxNRR_black ‹ctxNRR _ _›
            · simp only [noRedRed_plug, balanced_plug, nodes_plug, Tree.noRedRed, Tree.balanced, Tree.bh, Tree.nodes, ctxNRR, ctxBal, ctxPreN, ctxPostN, Frame.fill_L, Frame.fill_R, Frame.recolor, Frame.color_L, Frame.color_R, Tree.rootColor_node, Tree.rootColor_nil, reduceCtorEq, if_true, if_false, false_implies, true_implies, true_and, and_true, List.append_assoc, List.cons_append, List.nil_append, List.append_nil, and_self, Nat.add_zero, ite_true, ite_false, forall_const, imp_self, ctxRootColor_cons, ctxRootColor_nil, Tree.blacken, false_and, and_false, implies_true, not_false_eq_true, rootColor_plug] at hnrr hbal hcn hcb hrb' ⊢ <;>
              (try casesm* _ ∧ _) <;>
              (try and_intros) <;>
              first | assumption | omega | tauto | exact ctxBal_congr ‹ctxBal _ _› (by omega) | exact ctxNRR_black ‹ctxNRR _ _›
          obtain ⟨X2, ctx2, hI2, hn2, hX2, hk, hall⟩ := fixDeleteLeft_ustep hXb hI1
          have hnodes : (plug X2 ctx2).nodes =
              (plug X (Frame.L p BLACK_NODE kp (node s RED_NODE (node s2 BLACK_NODE a k2 b) ks sr) :: rest)).nodes := by
            rw [hn2]
            simp only [nodes_plug, Tree.nodes, ctxPreN, ctxPostN, List.append_assoc,
              List.cons_append, List.nil_append, List.append_nil]
          rcases hk with ⟨hab, hbb, hc1, rfl⟩ | ⟨hneg, rfl⟩
          · obtain rfl := hc1.symm
            refine ⟨_, _, true, hI2, hnodes, hX2,
              fun _ => ⟨fun _ => rfl, Or.inr ⟨rfl, rfl, _, rfl⟩⟩,
              (fun h => by cases h), fun t hS hs hxp => ?_⟩
            · have hP : Shape t (plug (node p BLACK_NODE X kp (node s RED_NODE (node s2 BLACK_NODE a k2 b) ks sr)) rest) := hS
              have hSs : Shape t (plug (node s RED_NODE (node s2 BLACK_NODE a k2 b) ks sr) (Frame.R p BLACK_NODE X kp :: rest)) := hS
              have hW : Shape t (plug (node s2 BLACK_NODE a k2 b) (Frame.L s RED_NODE ks sr ::
                  Frame.R p BLACK_NODE X kp :: rest)) := hS
              have hl : Shape t (plug a (Frame.L s2 BLACK_NODE k2 b ::
                  Frame.L s RED_NODE ks sr :: Frame.R p BLACK_NODE X kp :: rest)) := hS
              have hr : Shape t (plug b (Frame.R s2 BLACK_NODE a k2 ::
                  Frame.L s RED_NODE ks sr :: Frame.R p BLACK_NODE X kp :: rest)) := hS
              have hpn := hP.left_eq
              have hpf := hP.right_eq
              have hsnr := hSs.left_eq
              have hne : ¬ (X.ptr t.null = some s) := by
                have hsn : s ≠ t.null := hSs.focus_ne_null
                exact ptr_ne_of_not_mem hsn (fun hm => hP.sep.2.2.2.1 s hm (by simp [Tree.addrs]))
              simp only [Tree.ptr_node] at hpn hpf hsnr
              obtain ⟨t1, hbody, hbodyC, S1, M1⟩ := fixDeleteBodyChecked_L_red hS hxp
              have hs1 := M1.sentinelBlack hs
              have hxp1 := cursor_parent M1 S1 rfl hxp
              simp only [ctxPar_cons, Frame.addr_L, Frame.addr_R] at hxp1
              rw [← M1.null] at hxp1
              obtain ⟨t2, e2, e2C, S2, M2⟩ := hall t1 S1 hs1 hxp1
              rw [M1.null] at e2 e2C
              simp only [Tree.ptr_node] at hbody hbodyC
              refine ⟨t2, hbody.trans e2, hbodyC.trans e2C, S2, M1.trans M2, s, RED_NODE, s2,
                a.ptr t.null, b.ptr t.null, a.rootColor, b.rootColor, Or.inl ⟨hpn, hpf, by rw [if_pos rfl]; exact hsnr⟩,
                hSs.color_eq, rfl, hW.left_eq, hW.right_eq, hl.color_ptr hs, hr.color_ptr hs, ⟨fun _ => ⟨hab, hbb⟩, fun _ => rfl⟩⟩
          · refine ⟨_, _, false, hI2, hnodes, hX2, (fun h => by cases h), fun _ => rfl,
              fun t hS hs hxp => ?_⟩
            · have hP : Shape t (plug (node p BLACK_NODE X kp (node s RED_NODE (node s2 BLACK_NODE a k2 b) ks sr)) rest) := hS
              have hSs : Shape t (plug (node s RED_NODE (node s2 BLACK_NODE a k2 b) ks sr) (Frame.R p BLACK_NODE X kp :: rest)) := hS
              have hW : Shape t (plug (node s2 BLACK_NODE a k2 b) (Frame.L s RED_NODE ks sr ::
                  Frame.R p BLACK_NODE X kp :: rest)) := hS
              have hl : Shape t (plug a (Frame.L s2 BLACK_NODE k2 b ::
                  Frame.L s RED_NODE ks sr :: Frame.R p BLACK_NODE X kp :: rest)) := hS
              have hr : Shape t (plug b (Frame.R s2 BLACK_NODE a k2 ::
                  Frame.L s RED_NODE ks sr :: Frame.R p BLACK_NODE X kp :: rest)) := hS
              have hpn := hP.left_eq
              have hpf := hP.right_eq
              have hsnr := hSs.left_eq
              have hne : ¬ (X.ptr t.null = some s) := by
                have hsn : s ≠ t.null := hSs.focus_ne_null
                exact ptr_ne_of_not_mem hsn (fun hm => hP.sep.2.2.2.1 s hm (by simp [Tree.addrs]))
              simp only [Tree.ptr_node] at hpn hpf hsnr
              obtain ⟨t1, hbody, hbodyC, S1, M1⟩ := fixDeleteBodyChecked_L_red hS hxp
              have hs1 := M1.sentinelBlack hs
              have hxp1 := cursor_parent M1 S1 rfl hxp
              simp only [ctxPar_cons, Frame.addr_L, Frame.addr_R] at hxp1
              rw [← M1.null] at hxp1
              obtain ⟨t2, e2, e2C, S2, M2⟩ := hall t1 S1 hs1 hxp1
              rw [M1.null] at e2 e2C
              simp only [Tree.ptr_node] at hbody hbodyC
              refine ⟨t2, hbody.trans e2, hbodyC.trans e2C, S2, M1.trans M2, s, RED_NODE, s2,
                a.ptr t.null, b.ptr t.null, a.rootColor, b.rootColor, Or.inl ⟨hpn, hpf, by rw [if_pos rfl]; exact hsnr⟩,
                hSs.color_eq, rfl, hW.left_eq, hW.right_eq, hl.color_ptr hs, hr.color_ptr hs, ⟨(fun h => by cases h), fun h => absurd h hneg⟩⟩
  | R p cp S kp =>
    have hrb' := hI.rootBlack (List.cons_ne_nil _ _)
    have hSne : S ≠ nil := by
      rintro rfl
      have := hI.cbal
      simp [ctxBal, Tree.bh] at this
    cases S with
    | nil => exact absurd rfl hSne
    | node s cs sr ks sl =>
      simp only [Frame.addr_L, Frame.addr_R, Frame.sibling, Tree.rootColor_node]
      cases cs with
      | BLACK_NODE =>
        obtain ⟨X1, ctx1, hI1, hn1, hX1, hk, hall⟩ := fixDeleteRight_ustep hXb hI
        rcases hk with ⟨hslb, hsrb, hc1, rfl⟩ | ⟨hneg, rfl⟩
        · obtain rfl := hc1.symm
          refine ⟨_, _, true, hI1, hn1, hX1, fun _ => ⟨fun _ => rfl, Or.inl ⟨rfl, rfl⟩⟩,
            (fun h => by cases h), fun t hS hs hxp => ?_⟩
          · have hP : Shape t (plug (node p cp (node s BLACK_NODE sr ks sl) kp X) rest) := hS
            have hSs : Shape t (plug (node s BLACK_NODE sr ks sl) (Frame.L p cp kp X :: rest)) := hS
            have hl : Shape t (plug sl (Frame.R s BLACK_NODE sr ks ::
                Frame.L p cp kp X :: rest)) := hS
            have hr : Shape t (plug sr (Frame.L s BLACK_NODE ks sl ::
                Frame.L p cp kp X :: rest)) := hS
            have hpn := hP.right_eq
            have hpf := hP.left_eq
            have hne : ¬ (X.ptr t.null = some s) := by
              have hsn : s ≠ t.null := hSs.focus_ne_null
              exact ptr_ne_of_not_mem hsn (fun hm => hP.sep.2.2.2.1 s (by simp [Tree.addrs]) hm)
            simp only [Tree.ptr_node] at hpn hpf
            obtain ⟨t1, e1, eC, S1, M1⟩ := hall t hS hs hxp
            have hbody := fixDeleteBody_R_black hS hxp
            have hbodyC := fixDeleteBodyChecked_R_black hS hxp
            refine ⟨t1, hbody.trans e1, hbodyC.trans eC, S1, M1, s, BLACK_NODE, s,
              sr.ptr t.null, sl.ptr t.null, sr.rootColor, sl.rootColor, Or.inr ⟨by rw [hpf]; exact fun h => hne (Option.some.inj h).symm, hpf, by rw [if_neg (by decide)]⟩,
              hSs.color_eq, rfl, hSs.left_eq, hSs.right_eq, hr.color_ptr hs, hl.color_ptr hs, ⟨fun _ => ⟨hsrb, hslb⟩, fun _ => rfl⟩⟩
        · refine ⟨_, _, false, hI1, hn1, hX1, (fun h => by cases h), fun _ => rfl,
            fun t hS hs hxp => ?_⟩
          · have hP : Shape t (plug (node p cp (node s BLACK_NODE sr ks sl) kp X) rest) := hS
            have hSs : Shape t (plug (node s BLACK_NODE sr ks sl) (Frame.L p cp kp X :: rest)) := hS
            have hl : Shape t (plug sl (Frame.R s BLACK_NODE sr ks ::
                Frame.L p cp kp X :: rest)) := hS
            have hr : Shape t (plug sr (Frame.L s BLACK_NODE ks sl ::
                Frame.L p cp kp X :: rest)) := hS
            have hpn := hP.right_eq
            have hpf := hP.left_eq
            have hne : ¬ (X.ptr t.null = some s) := by
              have hsn : s ≠ t.null := hSs.focus_ne_null
              exact ptr_ne_of_not_mem hsn (fun hm => hP.sep.2.2.2.1 s (by simp [Tree.addrs]) hm)
            simp only [Tree.ptr_node] at hpn hpf
            obtain ⟨t1, e1, eC, S1, M1⟩ := hall t hS hs hxp
            have hbody := fixDeleteBody_R_black hS hxp
            have hbodyC := fixDeleteBodyChecked_R_black hS hxp
            refine ⟨t1, hbody.trans e1, hbodyC.trans eC, S1, M1, s, BLACK_NODE, s,
              sr.ptr t.null, sl.ptr t.null, sr.rootColor, sl.rootColor, Or.inr ⟨by rw [hpf]; exact fun h => hne (Option.some.inj h).symm, hpf, by rw [if_neg (by decide)]⟩,
              hSs.color_eq, rfl, hSs.left_eq, hSs.right_eq, hr.color_ptr hs, hl.color_ptr hs, ⟨(fun h => by cases h), fun h => absurd ⟨h.2, h.1⟩ hneg⟩⟩
      | RED_NODE =>
        obtain ⟨hnrr, hbal, -, hcn, hcb⟩ := hI
        have hcp : cp = BLACK_NODE := by
          apply Color.eq_black_of_ne_red
          intro h
          simp [ctxNRR, h] at hcn
        subst hcp
        have hsl : sl ≠ nil := by
          rintro rfl
          simp [ctxBal, Tree.bh, Tree.balanced] at hcb <;> omega
        cases sl with
        | nil => exact absurd rfl hsl
        | node s2 c2 b k2 a =>
          have hc2 : c2 = BLACK_NODE := by
            apply Color.eq_black_of_ne_red
            intro h
            simp [ctxNRR, Tree.noRedRed, h] at hcn
          subst hc2
          have hI1 : DelInv X (Frame.R p RED_NODE (node s2 BLACK_NODE b k2 a) kp :: Frame.R s BLACK_NODE sr ks :: rest) := by
            refine ⟨hnrr, hbal, fun _ => ?_, ?_, ?_⟩
            · simp only [noRedRed_plug, balanced_plug, nodes_plug, Tree.noRedRed, Tree.balanced, Tree.bh, Tree.nodes, ctxNRR, ctxBal, ctxPreN, ctxPostN, Frame.fill_L, Frame.fill_R, Frame.recolor, Frame.color_L, Frame.color_R, Tree.rootColor_node, Tree.rootColor_nil, reduceCtorEq, if_true, if_false, false_implies, true_implies, true_and, and_true, List.append_assoc, List.cons_append, List.nil_append, List.append_nil, and_self, Nat.add_zero, ite_true, ite_false, forall_const, imp_self, ctxRootColor_cons, ctxRootColor_nil, Tree.blacken, false_and, and_false, implies_true, not_false_eq_true, rootColor_plug] at hnrr hbal hcn hcb hrb' ⊢ <;>
              (try casesm* _ ∧ _) <;>
              (try and_intros) <;>
              first | assumption | omega | tauto | exact ctxBal_congr ‹ctxBal _ _› (by omega) | exact ctxNRR_black ‹ctxNRR _ _›
            · simp only [noRedRed_plug, balanced_plug, nodes_plug, Tree.noRedRed, Tree.balanced, Tree.bh, Tree.nodes, ctxNRR, ctxBal, ctxPreN, ctxPostN, Frame.fill_L, Frame.fill_R, Frame.recolor, Frame.color_L, Frame.color_R, Tree.rootColor_node, Tree.rootColor_nil, reduceCtorEq, if_true, if_false, false_implies, true_implies, true_and, and_true, List.append_assoc, List.cons_append, List.nil_append, List.append_nil, and_self, Nat.add_zero, ite_true, ite_false, forall_const, imp_self, ctxRootColor_cons, ctxRootColor_nil, Tree.blacken, false_and, and_false, implies_true, not_false_eq_true, rootColor_plug] at hnrr hbal hcn hcb hrb' ⊢ <;>
              (try casesm* _ ∧ _) <;>
              (try and_intros) <;>
              first | assumption | omega | tauto | exact ctxBal_congr ‹ctxBal _ _› (by omega) | exact ctxNRR_black ‹ctxNRR _ _›
            · simp only [noRedRed_plug, balanced_plug, nodes_plug, Tree.noRedRed, Tree.balanced, Tree.bh, Tree.nodes, ctxNRR, ctxBal, ctxPreN, ctxPostN, Frame.fill_L, Frame.fill_R, Frame.recolor, Frame.color_L, Frame.color_R, Tree.rootColor_node, Tree.rootColor_nil, reduceCtorEq, if_true, if_false, false_implies, true_implies, true_and, and_true, List.append_assoc, List.cons_append, List.nil_append, List.append_nil, and_self, Nat.add_zero, ite_true, ite_false, forall_const, imp_self, ctxRootColor_cons, ctxRootColor_nil, Tree.blacken, false_and, and_false, implies_true, not_false_eq_true, rootColor_plug] at hnrr hbal hcn hcb hrb' ⊢ <;>
              (try casesm* _ ∧ _) <;>
              (try and_intros) <;>
              first | assumption | omega | tauto | exact ctxBal_congr ‹ctxBal _ _› (by omega) | exact ctxNRR_black ‹ctxNRR _ _›
          obtain ⟨X2, ctx2, hI2, hn2, hX2, hk, hall⟩ := fixDeleteRight_ustep hXb hI1
          have hnodes : (plug X2 ctx2).nodes =
              (plug X (Frame.R p BLACK_NODE (node s RED_NODE sr ks (node s2 BLACK_NODE b k2 a)) kp :: rest)).nodes := by
            rw [hn2]
            simp only [nodes_plug, Tree.nodes, ctxPreN, ctxPostN, List.append_assoc,
              List.cons_append, List.nil_append, List.append_nil]
          rcases hk with ⟨hab, hbb, hc1, rfl⟩ | ⟨hneg, rfl⟩
          · obtain rfl := hc1.symm
            refine ⟨_, _, true, hI2, hnodes, hX2,
              fun _ => ⟨fun _ => rfl, Or.inr ⟨rfl, rfl, _, rfl⟩⟩,
              (fun h => by cases h), fun t hS hs hxp => ?_⟩
            · have hP : Shape t (plug (node p BLACK_NODE (node s RED_NODE sr ks (node s2 BLACK_NODE b k2 a)) kp X) rest) := hS
              have hSs : Shape t (plug (node s RED_NODE sr ks (node s2 BLACK_NODE b k2 a)) (Frame.L p BLACK_NODE kp X :: rest)) := hS
              have hW : Shape t (plug (node s2 BLACK_NODE b k2 a) (Frame.R s RED_NODE sr ks ::
                  Frame.L p BLACK_NODE kp X :: rest)) := hS
              have hl : Shape t (plug a (Frame.R s2 BLACK_NODE b k2 ::
                  Frame.R s RED_NODE sr ks :: Frame.L p BLACK_NODE kp X :: rest)) := hS
              have hr : Shape t (plug b (Frame.L s2 BLACK_NODE k2 a ::
                  Frame.R s RED_NODE sr ks :: Frame.L p BLACK_NODE kp X :: rest)) := hS
              have hpn := hP.right_eq
              have hpf := hP.left_eq
              have hsnr := hSs.right_eq
              have hne : ¬ (X.ptr t.null = some s) := by
                have hsn : s ≠ t.null := hSs.focus_ne_null
                exact ptr_ne_of_not_mem hsn (fun hm => hP.sep.2.2.2.1 s (by simp [Tree.addrs]) hm)
              simp only [Tree.ptr_node] at hpn hpf hsnr
              obtain ⟨t1, hbody, hbodyC, S1, M1⟩ := fixDeleteBodyChecked_R_red hS hxp
              have hs1 := M1.sentinelBlack hs
              have hxp1 := cursor_parent M1 S1 rfl hxp
              simp only [ctxPar_cons, Frame.addr_L, Frame.addr_R] at hxp1
              rw [← M1.null] at hxp1
              obtain ⟨t2, e2, e2C, S2, M2⟩ := hall t1 S1 hs1 hxp1
              rw [M1.null] at e2 e2C
              simp only [Tree.ptr_node] at hbody hbodyC
              refine ⟨t2, hbody.trans e2, hbodyC.trans e2C, S2, M1.trans M2, s, RED_NODE, s2,
                b.ptr t.null, a.ptr t.null, b.rootColor, a.rootColor, Or.inr ⟨by rw [hpf]; exact fun h => hne (Option.some.inj h).symm, hpf, by rw [if_pos rfl]; exact hsnr⟩,
                hSs.color_eq, rfl, hW.left_eq, hW.right_eq, hr.color_ptr hs, hl.color_ptr hs, ⟨fun _ => ⟨hbb, hab⟩, fun _ => rfl⟩⟩
          · refine ⟨_, _, false, hI2, hnodes, hX2, (fun h => by cases h), fun _ => rfl,
              fun t hS hs hxp => ?_⟩
            · have hP : Shape t (plug (node p BLACK_NODE (node s RED_NODE sr ks (node s2 BLACK_NODE b k2 a)) kp X) rest) := hS
              have hSs : Shape t (plug (node s RED_NODE sr ks (node s2 BLACK_NODE b k2 a)) (Frame.L p BLACK_NODE kp X :: rest)) := hS
              have hW : Shape t (plug (node s2 BLACK_NODE b k2 a) (Frame.R s RED_NODE sr ks ::
                  Frame.L p BLACK_NODE kp X :: rest)) := hS
              have hl : Shape t (plug a (Frame.R s2 BLACK_NODE b k2 ::
                  Frame.R s RED_NODE sr ks :: Frame.L p BLACK_NODE kp X :: rest)) := hS
              have hr : Shape t (plug b (Frame.L s2 BLACK_NODE k2 a ::
                  Frame.R s RED_NODE sr ks :: Frame.L p BLACK_NODE kp X :: rest)) := hS
              have hpn := hP.right_eq
              have hpf := hP.left_eq
              have hsnr := hSs.right_eq
              have hne : ¬ (X.ptr t.null = some s) := by
                have hsn : s ≠ t.null := hSs.focus_ne_null
                exact ptr_ne_of_not_mem hsn (fun hm => hP.sep.2.2.2.1 s (by simp [Tree.addrs]) hm)
              simp only [Tree.ptr_node] at hpn hpf hsnr
              obtain ⟨t1, hbody, hbodyC, S1, M1⟩ := fixDeleteBodyChecked_R_red hS hxp
              have hs1 := M1.sentinelBlack hs
              have hxp1 := cursor_parent M1 S1 rfl hxp
              simp only [ctxPar_cons, Frame.addr_L, Frame.addr_R] at hxp1
              rw [← M1.null] at hxp1
              obtain ⟨t2, e2, e2C, S2, M2⟩ := hall t1 S1 hs1 hxp1
              rw [M1.null] at e2 e2C
              simp only [Tree.ptr_node] at hbody hbodyC
              refine ⟨t2, hbody.trans e2, hbodyC.trans e2C, S2, M1.trans M2, s, RED_NODE, s2,
                b.ptr t.null, a.ptr t.null, b.rootColor, a.rootColor, Or.inr ⟨by rw [hpf]; exact fun h => hne (Option.some.inj h).symm, hpf, by rw [if_pos rfl]; exact hsnr⟩,
                hSs.color_eq, rfl, hW.left_eq, hW.right_eq, hr.color_ptr hs, hl.color_ptr hs, ⟨(fun h => by cases h), fun h => absurd ⟨h.2, h.1⟩ hneg⟩⟩

end FtContainers

namespace FtContainers

open Color Tree

variable {K V : Type}

/-- The loop of `fixDelete`, started at a cursor below which one BLACK node is
missing.  The tree it ends with depends on the tree only: it has the same
nodes, a BLACK root, no RED node with a RED child and equal black-heights.
In every state that holds the tree the loop returns a state that holds that
tree, with and without the assertions. -/
theorem fixDelete_uniform : ∀ (n : Nat) (X : Tree K V) (ctx : List (Frame K V)),
    ctx.length ≤ n → DelInv X ctx →
    ∃ T' : Tree K V, T'.nodes = (plug X ctx).nodes ∧ T'.rootColor = BLACK_NODE ∧
      T'.noRedRed ∧ T'.balanced ∧
      ∀ t : RBT K V, Shape t (plug X ctx) → t.sentinelBlack →
        (X = nil → ctx ≠ [] → t.parent (some t.null) = some (ctxPar ctx)) →
        ∃ t', RBT.fixDelete (n + 1) t (X.ptr t.null) = some t' ∧
          RBT.fixDeleteChecked (n + 1) t (X.ptr t.null) = some t' ∧ Shape t' T' ∧
          t'.null = t.null ∧ t'.next = t.next ∧ t'.sentinelBlack := by
  have hstopcase : ∀ (k : Nat) (X : Tree K V) (ctx : List (Frame K V)), DelInv X ctx →
      (ctx = [] ∨ X.rootColor = RED_NODE) →
      ∃ T' : Tree K V, T'.nodes = (plug X ctx).nodes ∧ T'.rootColor = BLACK_NODE ∧
        T'.noRedRed ∧ T'.balanced ∧
        ∀ t : RBT K V, Shape t (plug X ctx) → t.sentinelBlack →
          ∃ t', RBT.fixDelete (k + 1) t (X.ptr t.null) = some t' ∧
            RBT.fixDeleteChecked (k + 1) t (X.ptr t.null) = some t' ∧ Shape t' T' ∧
            t'.null = t.null ∧ t'.next = t.next ∧ t'.sentinelBlack := by
    intro k X ctx hI hstop
    obtain ⟨h1, h2, h3, h4, h5⟩ := fixDelete_ustop k hI hstop
    refine ⟨_, h1, h2, h3, h4, fun t hS hs => ?_⟩
    obtain ⟨t', e, eC, -, r⟩ := h5 t hS hs
    exact ⟨t', e, eC, r⟩
  intro n
  induction n with
  | zero =>
    intro X ctx hlen hI
    obtain ⟨T', h1, h2, h3, h4, h5⟩ := hstopcase 0 X ctx hI
      (Or.inl (List.length_eq_zero.1 (Nat.le_zero.1 hlen)))
    exact ⟨T', h1, h2, h3, h4, fun t hS hs _ => h5 t hS hs⟩
  | succ m ih =>
    intro X ctx hlen hI
    by_cases hstop : ctx = [] ∨ X.rootColor = RED_NODE
    · obtain ⟨T', h1, h2, h3, h4, h5⟩ := hstopcase (m + 1) X ctx hI hstop
      exact ⟨T', h1, h2, h3, h4, fun t hS hs _ => h5 t hS hs⟩
    · have hXb : X.rootColor = BLACK_NODE :=
        Color.eq_black_of_ne_red (fun h => hstop (Or.inr h))
      cases ctx with
      | nil => exact absurd (Or.inl rfl) hstop
      | cons f rest =>
        obtain ⟨X1, ctx1, up, hI1, hn1, hX1, hup, hdown, hall⟩ := fixDeleteBody_ustep hXb hI
        have hnext : ∃ T' : Tree K V, T'.nodes = (plug X1 ctx1).nodes ∧
            T'.rootColor = BLACK_NODE ∧ T'.noRedRed ∧ T'.balanced ∧
            ∀ t : RBT K V, Shape t (plug X1 ctx1) → t.sentinelBlack →
              ∃ t', RBT.fixDelete (m + 1) t (X1.ptr t.null) = some t' ∧
                RBT.fixDeleteChecked (m + 1) t (X1.ptr t.null) = some t' ∧ Shape t' T' ∧
                t'.null = t.null ∧ t'.next = t.next ∧ t'.sentinelBlack := by
          cases up with
          | true =>
            rcases (hup rfl).2 with ⟨-, hc⟩ | ⟨-, hred, -⟩
            · obtain ⟨T', h1, h2, h3, h4, h5⟩ := ih X1 ctx1
                (by rw [hc]; simpa using hlen) hI1
              exact ⟨T', h1, h2, h3, h4, fun t1 S1 s1 => h5 t1 S1 s1 (fun h => absurd h hX1)⟩
            · exact hstopcase m X1 ctx1 hI1 (Or.inr hred)
          | false => exact hstopcase m X1 ctx1 hI1 (Or.inl (hdown rfl))
        obtain ⟨T', h1, h2, h3, h4, h5⟩ := hnext
        refine ⟨T', h1.trans hn1, h2, h3, h4, fun t hS hs hpar => ?_⟩
        have hxp : t.parent (X.ptr t.null) = some (some f.addr) := by
          cases X with
          | nil => exact hpar rfl (List.cons_ne_nil _ _)
          | node a c l kv r => exact hS.parent_eq
        have hcode : RBT.fixDelete (m + 1 + 1) t (X.ptr t.null) =
            (do let r ← t.fixDeleteBody (X.ptr t.null)
                RBT.fixDelete (m + 1) r.1 r.2) := by
          simp only [RBT.fixDelete, ne_eq, hS.cursor_ne_root, not_false_eq_true, if_true,
            hS.color_ptr hs, hXb, Exec.some_bind]
        have hcodeC : RBT.fixDeleteChecked (m + 1 + 1) t (X.ptr t.null) =
            (do let r ← t.fixDeleteBodyChecked (X.ptr t.null)
                RBT.fixDeleteChecked (m + 1) r.1 r.2) := by
          simp only [RBT.fixDeleteChecked, ne_eq, hS.cursor_ne_root, not_false_eq_true, if_true,
            hS.color_ptr hs, hXb, Exec.some_bind]
        obtain ⟨t1, e1, e1C, S1, M1, -⟩ := hall t hS hs hxp
        obtain ⟨t', e2, e2C, S2, r1, r2, r3⟩ := h5 t1 S1 (M1.sentinelBlack hs)
        rw [M1.null] at e2 e2C
        refine ⟨t', ?_, ?_, S2, r1.trans M1.null, r2.trans M1.next, r3⟩
        · rw [hcode, e1]
          exact e2
        · rw [hcodeC, e1C]
          exact e2C

end FtContainers

namespace FtContainers

open Color Tree

variable {K V : Type}

/-! ## Depth of the cursor and fuel of the loop of `fixDelete` -/

/-- More fuel does not change the result of `fixDelete`. -/
theorem RBT.fixDelete_mono : ∀ (n : Nat) (t : RBT K V) (x : Ptr) (t' : RBT K V),
    RBT.fixDelete n t x = some t' → RBT.fixDelete (n + 1) t x = some t' := by
  intro n
  induction n with
  | zero =>
    intro t x t' h
    simp [RBT.fixDelete] at h
  | succ n ih =>
    intro t x t' h
    rw [RBT.fixDelete] at h ⊢
    by_cases hx : x ≠ t.root
    · rw [if_pos hx] at h ⊢
      obtain ⟨c, e1, h⟩ := Exec.bind_eq_some h
      simp only [e1, Exec.some_bind]
      by_cases hc : c = BLACK_NODE
      · rw [if_pos hc] at h ⊢
        obtain ⟨r, e2, h⟩ := Exec.bind_eq_some h
        simp only [e2, Exec.some_bind]
        exact ih _ _ _ h
      · rw [if_neg hc] at h ⊢
        exact h
    · rw [if_neg hx] at h ⊢
      exact h

theorem RBT.fixDelete_fuel {n m : Nat} {t : RBT K V} {x : Ptr} {t' : RBT K V} (hnm : n ≤ m)
    (h : RBT.fixDelete n t x = some t') : RBT.fixDelete m t x = some t' := by
  induction m, hnm using Nat.le_induction with
  | base => exact h
  | succ m _ ih => exact RBT.fixDelete_mono _ _ _ _ ih

/-- The number of parent links above a node of the path. -/
theorem Shape.depth_frame {t : RBT K V} {S : Tree K V} {f : Frame K V}
    {rest : List (Frame K V)} (hS : Shape t (plug S (f :: rest))) (m : Nat)
    (hm : rest.length < m) : t.depth m (some f.addr) = some rest.length := by
  cases f with
  | L p cp kp pr => exact Shape.depth_eq rest (by simpa using hS) m hm
  | R p cp pl kp => exact Shape.depth_eq rest (by simpa using hS) m hm

/-- The number of parent links above the cursor of `fixDelete`, which may be
the sentinel. -/
theorem Shape.depth_cursor {t : RBT K V} {X : Tree K V} {f : Frame K V}
    {rest : List (Frame K V)} (hS : Shape t (plug X (f :: rest)))
    (hxp : t.parent (X.ptr t.null) = some (some f.addr)) (m : Nat)
    (hm : rest.length + 1 < m) : t.depth m (X.ptr t.null) = some (rest.length + 1) := by
  obtain ⟨m', rfl⟩ : ∃ m', m = m' + 1 := ⟨m - 1, by omega⟩
  have hd := hS.depth_frame m' (by omega)
  simp only [RBT.depth, hxp, Exec.some_bind, reduceCtorEq, if_false, hd, Exec.pure_eq]

theorem Tree.blacken_ptr (T : Tree K V) (nl : Nat) : T.blacken.ptr nl = T.ptr nl := by
  cases T <;> rfl

/-- C24, amended: the loop of `fixDelete` terminates.  At every test of the
condition of the loop (`FixDeleteInv`; `deleteNode` calls `fixDelete` in such
a state, see `deleteNode_enters_fixDelete`), `fixDelete` returns with every fuel above the depth of the cursor,
always the same state.  The loop stops when the cursor is the root or is RED,
and the cursor is then coloured BLACK.  Otherwise the body returns a state
`t1` and a cursor `x1` at which the invariant holds again, and, with `s` the
sibling and `w` the sibling the iteration ends with (`s` itself when `s` is
BLACK, the child of `s` on the side of the cursor when `s` is RED): when both
children of `w` are BLACK the new cursor is the parent of the cursor — one
level up when `s` is BLACK, at the depth of the old cursor and RED, hence
ending the loop at the next test, when `s` is RED; otherwise the new cursor is
the root. -/
theorem fixDelete_terminates (t : RBT K V) (x : Ptr) (h : t.FixDeleteInv x) :
    (∃ N t', (x ≠ t.root → ∀ m, N < m → t.depth m x = some N) ∧
      ∀ n, N < n → RBT.fixDelete n t x = some t') ∧
    ((x = t.root ∨ t.color x = some RED_NODE) →
      ∃ t', t.setColor x BLACK_NODE = some t' ∧ t'.color x = some BLACK_NODE ∧
        ∀ n, RBT.fixDelete (n + 1) t x = some t') ∧
    (x ≠ t.root → t.color x = some BLACK_NODE →
      ∃ (xp s : Nat) (sc : Color) (w : Nat) (a b : Ptr) (ca cb : Color) (t1 : RBT K V)
        (x1 : Ptr) (d : Nat),
        t.parent x = some (some xp) ∧
        ((t.left (some xp) = some x ∧ t.right (some xp) = some (some s) ∧
            (if sc = RED_NODE then t.left (some s) = some (some w) else w = s)) ∨
          (t.left (some xp) ≠ some x ∧ t.left (some xp) = some (some s) ∧
            (if sc = RED_NODE then t.right (some s) = some (some w) else w = s))) ∧
        t.color (some s) = some sc ∧
        t.left (some w) = some a ∧ t.right (some w) = some b ∧
        t.color a = some ca ∧ t.color b = some cb ∧
        t.fixDeleteBody x = some (t1, x1) ∧
        (∀ n, RBT.fixDelete (n + 1) t x = RBT.fixDelete n t1 x1) ∧
        t1.FixDeleteInv x1 ∧
        (∀ m, d + 1 < m → t.depth m x = some (d + 1)) ∧
        (ca = BLACK_NODE ∧ cb = BLACK_NODE → x1 = some xp ∧
          (sc = BLACK_NODE → ∀ m, d < m → t1.depth m x1 = some d) ∧
          (sc = RED_NODE → (∀ m, d + 1 < m → t1.depth m x1 = some (d + 1)) ∧
            t1.color x1 = some RED_NODE ∧ x1 ≠ t1.root)) ∧
        (¬ (ca = BLACK_NODE ∧ cb = BLACK_NODE) → x1 = t1.root)) := by
  obtain ⟨hsb, X, ctx, hS, hI, rfl, hpar⟩ := h
  have hxpar : ∀ f rest, ctx = f :: rest → t.parent (X.ptr t.null) = some (some f.addr) := by
    intro f rest hc
    cases X with
    | nil =>
      have := hpar rfl (by rw [hc]; exact List.cons_ne_nil _ _)
      rw [hc] at this
      exact this
    | node a c l kv r =>
      subst hc
      exact hS.parent_eq
  refine ⟨?_, ?_, ?_⟩
  · obtain ⟨T', -, -, -, -, hall⟩ := fixDelete_uniform ctx.length X ctx (Nat.le_refl _) hI
    obtain ⟨t', e, -⟩ := hall t hS hsb hpar
    refine ⟨ctx.length, t', ?_, fun n hn => RBT.fixDelete_fuel (by omega) e⟩
    intro hx m hm
    cases ctx with
    | nil => exact absurd hS.root.symm hx
    | cons f rest => exact hS.depth_cursor (hxpar f rest rfl) m (by simpa using hm)
  · intro hor
    have hstop : ctx = [] ∨ X.rootColor = RED_NODE := by
      rcases hor with h1 | h2
      · left
        cases ctx with
        | nil => rfl
        | cons f rest => exact absurd h1 hS.cursor_ne_root
      · right
        have := hS.color_ptr hsb
        rw [h2] at this
        exact (Option.some.inj this).symm
    obtain ⟨t', -, -, es, S', hn', -, hs'⟩ := (fixDelete_ustop 0 hI hstop).2.2.2.2 t hS hsb
    refine ⟨t', es, ?_, fun n => ?_⟩
    · have := (show Shape t' (plug X.blacken ctx) from S').color_ptr hs'
      rw [Tree.blacken_ptr, Tree.blacken_rootColor, hn'] at this
      exact this
    · obtain ⟨t'', e'', -, es'', -⟩ := (fixDelete_ustop n hI hstop).2.2.2.2 t hS hsb
      rw [e'', ← es'', es]
  · intro hx hc
    cases ctx with
    | nil => exact absurd hS.root.symm hx
    | cons f rest =>
      have hXb : X.rootColor = BLACK_NODE := by
        have := hS.color_ptr hsb
        rw [hc] at this
        exact (Option.some.inj this).symm
      have hxp := hxpar f rest rfl
      obtain ⟨X1, ctx1, up, hI1, hn1, hX1, hup, hdown, hall⟩ := fixDeleteBody_ustep hXb hI
      obtain ⟨t1, e1, -, S1, M1, s, sc, w, a, b, ca, cb, hsib, hsc, hsc', hwl, hwr, hca, hcb,
        hiff⟩ := hall t hS hsb hxp
      refine ⟨f.addr, s, sc, w, a, b, ca, cb, t1, X1.ptr t.null, rest.length, hxp, hsib, hsc,
        hwl, hwr, hca, hcb, e1, ?_, ?_, fun m hm => hS.depth_cursor hxp m hm, ?_, ?_⟩
      · intro n
        simp only [RBT.fixDelete, ne_eq, hS.cursor_ne_root, not_false_eq_true, if_true,
          hS.color_ptr hsb, hXb, Exec.some_bind, e1]
      · exact ⟨M1.sentinelBlack hsb, X1, ctx1, S1, hI1, by rw [M1.null],
          fun h => absurd h hX1⟩
      · intro hbb
        obtain ⟨hptr, hk⟩ := hup (hiff.2 hbb)
        obtain ⟨c1, l1, kv1, r1, rfl⟩ := Tree.node_of_ptr hptr
        refine ⟨rfl, ?_, ?_⟩
        · intro hb
          rcases hk with ⟨-, rfl⟩ | ⟨hr, -⟩
          · exact fun m hm => S1.depth_eq _ m hm
          · rw [hsc', hb] at hr
            cases hr
        · intro hr
          rcases hk with ⟨hbk, -⟩ | ⟨-, hred, g, rfl⟩
          · rw [hsc', hr] at hbk
            cases hbk
          · simp only [Tree.rootColor_node] at hred
            subst hred
            exact ⟨fun m hm => S1.depth_eq _ m (by simpa using hm), S1.color_eq,
              S1.focus_ne_root⟩
      · intro hnb
        have hu : up = false := by
          cases up with
          | false => rfl
          | true => exact absurd (hiff.1 rfl) hnb
        have hc1 := hdown hu
        subst hc1
        have := (show Shape t1 X1 from S1).root
        rw [this, M1.null]

end FtContainers

namespace FtContainers

open Color Tree

variable {K V : Type}

/-! ## A RED sibling on a concrete tree -/

theorem fanState_tree : fanState.tree = some fanTree := by decide

theorem fanState_wf : fanState.WF := by
  refine ⟨⟨by decide, ?_⟩, ⟨fanTree, fanState_tree, by decide⟩,
    ⟨fanTree, fanState_tree, by decide, by decide, by decide, ⟨_, rfl, rfl⟩⟩⟩
  intro T hT
  rw [fanState_tree] at hT
  cases hT
  decide

theorem fanState_shape : Shape fanState fanTree :=
  Shape.of_tree fanState_tree (by decide)

/-- The relinking step of `deleteNode(10)` on `fanState`: the cursor is the
sentinel, a left child of the root 20, whose sibling 40 is RED. -/
theorem fanSpliced_shape :
    fanState.deleteSplice (some 1) = some (fanSpliced, some 0, BLACK_NODE) ∧
    Shape fanSpliced (plug nil [Frame.L 2 BLACK_NODE (20, 0)
      (node 4 RED_NODE (node 3 BLACK_NODE nil (30, 0) nil) (40, 0)
        (node 5 BLACK_NODE nil (50, 0) nil))]) ∧
    fanSpliced.null = 0 ∧ fanSpliced.sentinelBlack ∧
    fanSpliced.parent (some 0) = some (some 2) := by
  have hS : Shape fanState (plug (node 1 BLACK_NODE nil (10, 0) nil)
      [Frame.L 2 BLACK_NODE (20, 0) (node 4 RED_NODE (node 3 BLACK_NODE nil (30, 0) nil) (40, 0)
        (node 5 BLACK_NODE nil (50, 0) nil))]) := fanState_shape
  obtain ⟨t0, e, S0, hnull, hnext, hcol, hpar⟩ := deleteSplice_right hS ⟨_, rfl⟩
  have h0 : fanSpliced = t0 := by
    simp only [fanSpliced, e]
  rw [h0]
  have hn0 : t0.null = 0 := hnull
  refine ⟨e, S0, hn0, ?_, ?_⟩
  · apply sentinelBlack_of_color
    rw [hn0]
    exact hcol.trans rfl
  · exact hpar rfl

theorem fanSpliced_inv : fanSpliced.FixDeleteInv (some 0) := by
  obtain ⟨-, S0, hn0, hs0, hp0⟩ := fanSpliced_shape
  refine ⟨hs0, nil, _, S0, ⟨?_, ?_, ?_, ?_, ?_⟩, by rw [hn0]; rfl, fun _ _ => by rw [hn0]; exact hp0⟩ <;>
  simp [Tree.noRedRed, Tree.balanced, ctxNRR, ctxBal, Tree.bh, Tree.rootColor, Tree.blacken]

/-- C24, as stated, fails: an iteration of `fixDelete` that moves the cursor
to its parent need not decrease the depth of the cursor.  `deleteNode(10)` on
the well-formed tree `fanState` calls `fixDelete` with the sentinel as the
cursor, at depth 1 below the root 20; the sibling 40 is RED, so the iteration
rotates at 20, finds the new sibling 30 with two BLACK children and moves the
cursor to its parent 20, which is then at depth 1 below the new root 40. -/
theorem fixDelete_depth_not_decreasing :
    fanState.WF ∧ fanState.searchTree (10, 0) = some (some 1) ∧
    fanState.deleteSplice (some 1) = some (fanSpliced, some 0, BLACK_NODE) ∧
    fanSpliced.FixDeleteInv (some 0) ∧ some 0 ≠ fanSpliced.root ∧
    fanSpliced.color (some 0) = some BLACK_NODE ∧
    ∃ t1, fanSpliced.fixDeleteBody (some 0) = some (t1, some 2) ∧
      fanSpliced.parent (some 0) = some (some 2) ∧
      fanSpliced.depth 6 (some 0) = some 1 ∧ t1.depth 6 (some 2) = some 1 := by
  obtain ⟨e, S0, hn0, hs0, hp0⟩ := fanSpliced_shape
  have hxp : fanSpliced.parent ((nil : Tree Nat Nat).ptr fanSpliced.null) = some (some 2) := by
    rw [Tree.ptr_nil, hn0]
    exact hp0
  obtain ⟨t', hbody, S', M'⟩ := fixDeleteBody_L_red S0 hxp
  have hxp' := cursor_parent M' S' rfl hxp
  simp only [ctxPar_cons, Frame.addr_L] at hxp'
  rw [← M'.null] at hxp'
  obtain ⟨t1, e1, S1, M1⟩ := fixDeleteLeft_case2 S' (M'.sentinelBlack hs0) hxp' rfl rfl
  have hd0 := S0.depth_cursor hxp 6 (by decide)
  have hS1 : Shape t1 (plug (node 2 RED_NODE nil (20, 0) (node 3 RED_NODE nil (30, 0) nil))
      [Frame.L 4 BLACK_NODE (40, 0) (node 5 BLACK_NODE nil (50, 0) nil)]) := S1
  have hd1 := hS1.depth_eq _ 6 (by decide)
  have hroot := S0.root
  have hcol := S0.color_ptr hs0
  simp only [Tree.ptr_nil, Tree.ptr_node, hn0, M'.null, List.length_nil, List.length_cons,
    Tree.rootColor_nil] at hbody e1 hd0 hd1 hcol
  refine ⟨fanState_wf, ?_, e, fanSpliced_inv, ?_, hcol, t1, hbody.trans e1, hp0, hd0, hd1⟩
  · have := searchTree_eq (10, 0) fanState_tree (by decide)
    rw [this]
    rfl
  · rw [hroot]
    intro h
    cases h

theorem fixDelete_terminates_witness :
    fanSpliced.FixDeleteInv (some 0) ∧
    ∃ N t', (some 0 ≠ fanSpliced.root → ∀ m, N < m → fanSpliced.depth m (some 0) = some N) ∧
      ∀ n, N < n → RBT.fixDelete n fanSpliced (some 0) = some t' :=
  ⟨fanSpliced_inv, (fixDelete_terminates fanSpliced (some 0) fanSpliced_inv).1⟩

end FtContainers

namespace FtContainers

open Color Tree

variable {K V : Type}

/-! ## `deleteNode`, for every state that holds the tree -/

/-- The end of `deleteNodeHelper`: the tree it ends with depends on the tree
after the relinking step only. -/
theorem delete_ufinish {X : Tree K V} {ctx1 : List (Frame K V)} {c : Color} (nx : Nat)
    (hfuel : ctx1.length + 1 ≤ nx)
    (hinv : (c = BLACK_NODE → DelInv X ctx1) ∧
      (c = RED_NODE → (plug X ctx1).rootColor = BLACK_NODE ∧ (plug X ctx1).noRedRed ∧
        (plug X ctx1).balanced)) :
    ∃ T' : Tree K V, T'.nodes = (plug X ctx1).nodes ∧ T'.rootColor = BLACK_NODE ∧
      T'.noRedRed ∧ T'.balanced ∧
      ∀ (t t1 : RBT K V), Shape t1 (plug X ctx1) → t1.null = t.null → t1.next = t.next →
        t.next = nx → t1.color (some t.null) = t.color (some t.null) → t.sentinelBlack →
        (X = nil → t1.parent (some t.null) = some (ctxPar ctx1)) →
        ∃ t', ((if c = BLACK_NODE then RBT.fixDelete t1.next t1 (X.ptr t.null) else pure t1 :
            Exec (RBT K V)) = some t') ∧
          ((if c = BLACK_NODE then RBT.fixDeleteChecked t1.next t1 (X.ptr t.null) else pure t1 :
            Exec (RBT K V)) = some t') ∧
          Shape t' T' ∧ t'.null = t.null ∧ t'.next = t.next ∧ t'.sentinelBlack := by
  cases c with
  | BLACK_NODE =>
    obtain ⟨n, rfl⟩ : ∃ n, nx = n + 1 := ⟨nx - 1, by omega⟩
    obtain ⟨T', h1, h2, h3, h4, hall⟩ := fixDelete_uniform n X ctx1 (by omega) (hinv.1 rfl)
    refine ⟨T', h1, h2, h3, h4, fun t t1 hS1 hnl hnx hn hcol hsb hpar => ?_⟩
    have hs1 : t1.sentinelBlack := by
      apply sentinelBlack_of_color
      rw [hnl, hcol]
      exact sentinel_color hsb
    obtain ⟨t2, e2, e2C, S2, r1, r2, r3⟩ := hall t1 hS1 hs1
      (fun hX _ => by rw [hnl]; exact hpar hX)
    rw [hnl] at e2 e2C
    refine ⟨t2, ?_, ?_, S2, r1.trans hnl, r2.trans hnx, r3⟩
    · rw [hnx, hn]
      simpa using e2
    · rw [hnx, hn]
      simpa using e2C
  | RED_NODE =>
    obtain ⟨h5, h6, h7⟩ := hinv.2 rfl
    refine ⟨_, rfl, h5, h6, h7, fun t t1 hS1 hnl hnx hn hcol hsb hpar => ?_⟩
    have hs1 : t1.sentinelBlack := by
      apply sentinelBlack_of_color
      rw [hnl, hcol]
      exact sentinel_color hsb
    exact ⟨t1, by simp, by simp, hS1, hnl, hnx, hs1⟩

variable [LinearOrder K]

/-- The relinking step and the repair of `deleteNodeHelper` for the node `z`
found by the lookup: the tree they end with depends on the tree only. -/
theorem delete_ucore {z : Nat} {cz : Color} {L R : Tree K V} {kz : K × V}
    {ctx : List (Frame K V)} (nx : Nat)
    (hh : (plug (node z cz L kz R) ctx).height < nx)
    (hrc : (plug (node z cz L kz R) ctx).rootColor = BLACK_NODE)
    (hnr : (plug (node z cz L kz R) ctx).noRedRed)
    (hbl : (plug (node z cz L kz R) ctx).balanced) :
    ∃ T' : Tree K V,
      (∃ pre post, (plug (node z cz L kz R) ctx).nodes = pre ++ (z, kz) :: post ∧
        T'.nodes = pre ++ post) ∧
      T'.rootColor = BLACK_NODE ∧ T'.noRedRed ∧ T'.balanced ∧
      ∀ t : RBT K V, Shape t (plug (node z cz L kz R) ctx) → t.sentinelBlack → t.next = nx →
        ∃ t', ((do
            let r ← t.deleteSplice (some z)
            if r.2.2 = BLACK_NODE then RBT.fixDelete r.1.next r.1 r.2.1 else pure r.1) :
              Exec (RBT K V)) = some t' ∧
          ((do
            let r ← t.deleteSplice (some z)
            if r.2.2 = BLACK_NODE then RBT.fixDeleteChecked r.1.next r.1 r.2.1 else pure r.1) :
              Exec (RBT K V)) = some t' ∧
          Shape t' T' ∧ t'.null = t.null ∧ t'.next = t.next ∧ t'.sentinelBlack := by
  have hlen := length_le_height (node z cz L kz R) ctx
  simp only [Tree.height] at hlen
  cases L with
  | nil =>
    obtain ⟨T', h4, h5, h6, h7, hall⟩ := @delete_ufinish K V R ctx cz nx (by omega)
      (splice_inv (Or.inl ⟨rfl, rfl⟩) hrc hnr hbl)
    refine ⟨T', ⟨ctxPreN ctx, R.nodes ++ ctxPostN ctx, ?_, ?_⟩, h5, h6, h7,
      fun t hS hsb hnx => ?_⟩
    · simp [nodes_plug, Tree.nodes]
    · rw [h4]
      simp [nodes_plug]
    · obtain ⟨t1, e1, S1, hn1, hx1, hc1, hp1⟩ :=
        deleteSplice_right hS (sentinelBlack.has_cell hsb)
      obtain ⟨t2, e2, e2C, r⟩ := hall t t1 S1 hn1 hx1 hnx hc1 hsb hp1
      refine ⟨t2, ?_, ?_, r⟩
      · simp only [e1, Exec.some_bind]
        exact e2
      · simp only [e1, Exec.some_bind]
        exact e2C
  | node l cl Ll kl Lr =>
    cases R with
    | nil =>
      obtain ⟨T', h4, h5, h6, h7, hall⟩ := @delete_ufinish K V (node l cl Ll kl Lr) ctx cz nx
        (by omega) (splice_inv (Or.inr ⟨rfl, rfl⟩) hrc hnr hbl)
      refine ⟨T', ⟨ctxPreN ctx ++ (node l cl Ll kl Lr).nodes, ctxPostN ctx, ?_, ?_⟩, h5, h6, h7,
        fun t hS hsb hnx => ?_⟩
      · simp [nodes_plug, Tree.nodes]
      · rw [h4]
        simp [nodes_plug]
      · obtain ⟨t1, e1, S1, hn1, hx1, hc1⟩ :=
          deleteSplice_left hS (sentinelBlack.has_cell hsb)
        obtain ⟨t2, e2, e2C, r⟩ := hall t t1 S1 hn1 hx1 hnx hc1 hsb (fun h => by cases h)
        refine ⟨t2, ?_, ?_, r⟩
        · simp only [e1, Exec.some_bind]
          exact e2
        · simp only [e1, Exec.some_bind]
          exact e2C
    | node r cr Rl kr Rr =>
      obtain ⟨y, cy, ky, Ry, hy⟩ := minPath_node r cr Rl kr Rr []
      have hpl := minPath_plug (node r cr Rl kr Rr) []
      rw [hy, plug_nil] at hpl
      have hpre := minPath_pre (node r cr Rl kr Rr)
      obtain ⟨c1, hc1def⟩ : ∃ c1, c1 = ((node r cr Rl kr Rr).minPath []).2 := ⟨_, rfl⟩
      rw [← hc1def] at hpl hpre
      have hmp : (node r cr Rl kr Rr).minPath [] = (node y cy nil ky Ry, c1) :=
        Prod.ext hy hc1def.symm
      have hT : plug (node z cz (node l cl Ll kl Lr) kz (node r cr Rl kr Rr)) ctx =
          plug (node y cy nil ky Ry) (c1 ++ Frame.R z cz (node l cl Ll kl Lr) kz :: ctx) := by
        rw [plug_append, hpl]
        rfl
      have hlenY := length_le_height (node y cy nil ky Ry)
        (c1 ++ Frame.R z cz (node l cl Ll kl Lr) kz :: ctx)
      rw [← hT] at hlenY
      simp only [Tree.height, List.length_append, List.length_cons] at hlenY
      obtain ⟨hnodes1, hnodes2⟩ := @splice_nodes_succ K V z y cz cy kz ky (node l cl Ll kl Lr) Ry
        c1 ctx hpre
      rw [← hT] at hnodes1
      have hrc' := hrc
      have hnr' := hnr
      have hbl' := hbl
      rw [hT] at hrc' hnr' hbl'
      have hinv := splice_inv_succ hrc' hnr' hbl'
      obtain ⟨T', h4, h5, h6, h7, hall⟩ := @delete_ufinish K V Ry
        (c1 ++ Frame.R y cz (node l cl Ll kl Lr) ky :: ctx) cy nx
        (by simp only [List.length_append, List.length_cons, Tree.height] at hlenY hh ⊢
            omega) hinv
      refine ⟨T', ⟨_, _, hnodes1, by rw [h4]; exact hnodes2⟩, h5, h6, h7,
        fun t hS hsb hnx => ?_⟩
      obtain ⟨y', cy', ky', Ry', c1', t1, hmp', -, -, -, e1, S1, hn1, hx1, hcc1, hp1⟩ :=
        deleteSplice_succ hS (sentinelBlack.has_cell hsb) (by rw [hnx]; exact hh)
      rw [hmp] at hmp'
      cases hmp'
      obtain ⟨t2, e2, e2C, r⟩ := hall t t1 S1 hn1 hx1 hnx hcc1 hsb hp1
      refine ⟨t2, ?_, ?_, r⟩
      · simp only [e1, Exec.some_bind]
        exact e2
      · simp only [e1, Exec.some_bind]
        exact e2C

/-- Function `deleteNode` on a state that holds a well-formed tree: the tree
it ends with depends on the tree and the key only.  In every such state
`deleteNode` returns a state that holds it, and `deleteNodeChecked` returns
the same state. -/
theorem delete_uniform {T : Tree K V} (kv : K × V) (nx : Nat) (hb : T.BST)
    (hrc : T.rootColor = BLACK_NODE) (hnr : T.noRedRed) (hbl : T.balanced)
    (hh : T.height < nx) (hlt : ∀ a ∈ T.addrs, a < nx) :
    ∃ T' : Tree K V, (∀ a ∈ T'.addrs, a < nx) ∧ T'.BST ∧ T'.rootColor = BLACK_NODE ∧
      T'.noRedRed ∧ T'.balanced ∧
      ∀ t : RBT K V, Shape t T → t.next = nx → t.null < nx → t.sentinelBlack →
        ∃ t', t.deleteNode kv = some t' ∧ t.deleteNodeChecked kv = some t' ∧
          Shape t' T' ∧ t'.null = t.null ∧ t'.next = nx ∧ t'.sentinelBlack := by
  have hloop : ∀ t : RBT K V, Shape t T → t.next = nx →
      t.deleteLoop kv t.next t.root (some t.null) =
        some (match (T.find kv.1 []).1 with
          | nil => some t.null
          | node a _ _ _ _ => some a) := by
    intro t hS hnx
    have := @deleteLoop_eq _ _ _ t kv T [] t.next (some t.null) (by simpa using hS)
      (by simpa using hb) (by rw [hnx]; exact hh)
    rw [hS.root]
    exact this
  by_cases hk : kv.1 ∈ T.keys
  · have hfind : (T.find kv.1 []).1 ≠ nil := fun e => (find_nil_iff kv.1 T hb).1 e hk
    have hp := find_plug kv.1 T []
    rcases find_cases kv.1 T [] with e | ⟨z, c, l, v, r, e⟩
    · exact absurd e hfind
    · rw [e] at hp
      rw [plug_nil] at hp
      obtain ⟨ctx, hctx⟩ : ∃ ctx, ctx = (T.find kv.1 []).2 := ⟨_, rfl⟩
      rw [← hctx] at hp
      have hfz : ∀ t : RBT K V, Shape t T → t.next = nx →
          t.deleteLoop kv t.next t.root (some t.null) = some (some z) := by
        intro t hS hnx
        have := hloop t hS hnx
        rw [e] at this
        exact this
      clear hloop e hctx hfind
      subst hp
      obtain ⟨T', ⟨pre, post, hn1, hn2⟩, hrc', hnr', hbl', hall⟩ := delete_ucore nx hh hrc hnr hbl
      have hsub : T'.nodes.Sublist (plug (node z c l (kv.1, v) r) ctx).nodes := by
        rw [hn1, hn2]
        exact sublist_middle pre post _
      have hbst : T'.BST := by
        unfold Tree.BST at hb ⊢
        rw [Tree.keys_eq_nodes] at hb ⊢
        exact hb.sublist (hsub.map _)
      refine ⟨T', ?_, hbst, hrc', hnr', hbl', fun t hS hnx hn hsb => ?_⟩
      · intro a ha
        apply hlt
        rw [Tree.addrs_eq_nodes] at ha ⊢
        exact (hsub.map _).subset ha
      · have hz : z ≠ t.null := hS.focus_ne_null
        obtain ⟨t', e1, e1C, S1, hnl, hnx', hsb'⟩ := hall t hS hsb hnx
        have hne : ¬ ((some z : Ptr) = some t.null) := fun e => hz (Option.some.inj e)
        refine ⟨t', ?_, ?_, S1, hnl, hnx'.trans hnx, hsb'⟩
        · unfold RBT.deleteNode
          rw [deleteNodeHelper_eq, hfz t hS hnx]
          simp only [Exec.some_bind, hne, if_false]
          exact e1
        · unfold RBT.deleteNodeChecked
          rw [hfz t hS hnx]
          simp only [Exec.some_bind, hne, if_false]
          exact e1C
  · have e := (find_nil_iff kv.1 T hb).2 hk
    refine ⟨T, hlt, hb, hrc, hnr, hbl, fun t hS hnx hn hsb => ?_⟩
    have h1 := hloop t hS hnx
    rw [e] at h1
    simp only at h1
    refine ⟨t, ?_, ?_, hS, rfl, hnx, hsb⟩
    · unfold RBT.deleteNode
      rw [deleteNodeHelper_eq, h1]
      simp
    · unfold RBT.deleteNodeChecked
      rw [h1]
      simp

end FtContainers

namespace FtContainers

open Color Tree

variable {K V : Type}

variable [LinearOrder K]

/-- C26: `deleteNode` never follows a null link on a well-formed tree.  For
every well-formed tree and every key (present or not), `deleteNode` returns,
and `deleteNodeChecked` returns the same state.  `deleteNodeChecked` is
`deleteNode` with an assertion at each place the claim names: in every
iteration of `fixDelete` the parent `x->parent` of the cursor is a real node
(not `ft_nullptr`, not the sentinel, allocated), the sibling `s` is a real
node where its colour and its links are read, also after the rotation that
follows a RED sibling and after the rotation at the sibling, and the child
that a rotation promotes is a real node.  A failed assertion would make
`deleteNodeChecked` undefined. -/
theorem deleteNode_derefs_real_nodes (t : RBT K V) (h : t.WF) (key : K × V) :
    ∃ t', t.deleteNode key = some t' ∧ t.deleteNodeChecked key = some t' := by
  obtain ⟨T, ht, hS, hb, hlt, hn, hsb, hrc, hnr, hbl⟩ := h.unpack
  obtain ⟨T', -, -, -, -, -, hall⟩ :=
    delete_uniform key t.next hb hrc hnr hbl (tree_height_lt ht) hlt
  obtain ⟨t', e1, e2, -⟩ := hall t hS rfl hn hsb
  exact ⟨t', e1, e2⟩

theorem deleteNode_derefs_real_nodes_witness :
    fanState.WF ∧ ∃ t', fanState.deleteNode (10, 0) = some t' ∧
      fanState.deleteNodeChecked (10, 0) = some t' :=
  ⟨fanState_wf, deleteNode_derefs_real_nodes fanState fanState_wf (10, 0)⟩

/-- A state that differs from a well-formed one in the links of the sentinel
only holds the same tree. -/
theorem RBT.SameButSentinelLinks.shape {t u : RBT K V} {T : Tree K V}
    (hu : t.SameButSentinelLinks u) (hS : Shape t T) (hsb : t.sentinelBlack) :
    Shape u T ∧ u.sentinelBlack := by
  obtain ⟨hr, hnl, hnx, hcells, n, m, hn0, hm0, hmc, hmv⟩ := hu
  refine ⟨⟨by rw [hr, hnl]; exact hS.root, ?_, hS.nodup⟩, ?_⟩
  · rw [hnl]
    exact (Repr_congr (fun a ha => hcells a (fun e => hS.repr.ne_null (e ▸ ha)))).2 hS.repr
  · obtain ⟨n', hn', hc'⟩ := hsb
    have : n' = n := Option.some.inj (hn'.symm.trans hn0)
    subst this
    exact ⟨m, by rw [hnl]; exact hm0, hmc.trans hc'⟩

/-- C22: only the colour of the sentinel is load-bearing.  Let `t` be a
well-formed tree and `u` the same state except for the left, right and parent
link of the sentinel, which hold any values.  Then `u` is well-formed and
holds the same tree, and for every key: `searchTree` returns the same node on
both; `insert` returns the same node and the same flag on both, and the two
states it leaves hold the same tree `T'`, with the same root pointer and, for
every node of `T'`, the same cell (key, value, colour, parent, left and right
link); and so does `deleteNode`. -/
theorem sentinel_links_irrelevant (t u : RBT K V) (h : t.WF) (hu : t.SameButSentinelLinks u)
    (key : K × V) :
    u.WF ∧ u.tree = t.tree ∧
    (∃ z, t.searchTree key = some z ∧ u.searchTree key = some z) ∧
    (∃ T' y b t' u', t.insert key = some (t', y, b) ∧ u.insert key = some (u', y, b) ∧
      t'.tree = some T' ∧ u'.tree = some T' ∧ u'.root = t'.root ∧
      ∀ a ∈ T'.addrs, u'.heap a = t'.heap a) ∧
    (∃ T' t' u', t.deleteNode key = some t' ∧ u.deleteNode key = some u' ∧
      t'.tree = some T' ∧ u'.tree = some T' ∧ u'.root = t'.root ∧
      ∀ a ∈ T'.addrs, u'.heap a = t'.heap a) := by
  obtain ⟨T, ht, hS, hb, hlt, hn, hsb, hrc, hnr, hbl⟩ := h.unpack
  obtain ⟨hSu, hsbu⟩ := hu.shape hS hsb
  obtain ⟨hr, hnl, hnx, -⟩ := hu
  have hltu : ∀ a ∈ T.addrs, a < u.next := by
    rw [hnx]
    exact hlt
  have hnu : u.null < u.next := by
    rw [hnl, hnx]
    exact hn
  obtain ⟨htu, hwu⟩ := RBT.WF.pack hSu hb hltu hnu hsbu hrc hnr hbl
  refine ⟨hwu, htu.trans ht.symm, ?_, ?_, ?_⟩
  · refine ⟨_, searchTree_eq key ht hb, ?_⟩
    rw [searchTree_eq key htu hb, hnl]
  · obtain ⟨T', y, b, hlt', hall⟩ :=
      insert_uniform key t.next hb hrc hnr hbl (tree_height_lt ht) hlt
    obtain ⟨t', e1, -, S1, n1, x1, -⟩ := hall t hS rfl hn hsb
    obtain ⟨u', e2, -, S2, n2, x2, -⟩ := hall u hSu hnx (by rw [hnl]; exact hn) hsbu
    have hh := Shape.heap_eq S1 S2 (by rw [n2, n1, hnl])
    refine ⟨T', y, b, t', u', e1, e2, ?_, ?_, hh.1, hh.2⟩
    · exact S1.tree_eq (by rw [x1]; exact hlt') (by rw [n1, x1]; omega)
    · exact S2.tree_eq (by rw [x2]; exact hlt') (by rw [n2, x2, hnl]; omega)
  · obtain ⟨T', hlt', -, -, -, -, hall⟩ :=
      delete_uniform key t.next hb hrc hnr hbl (tree_height_lt ht) hlt
    obtain ⟨t', e1, -, S1, n1, x1, -⟩ := hall t hS rfl hn hsb
    obtain ⟨u', e2, -, S2, n2, x2, -⟩ := hall u hSu hnx (by rw [hnl]; exact hn) hsbu
    have hh := Shape.heap_eq S1 S2 (by rw [n2, n1, hnl])
    refine ⟨T', t', u', e1, e2, ?_, ?_, hh.1, hh.2⟩
    · exact S1.tree_eq (by rw [x1]; exact hlt') (by rw [n1, x1]; exact hn)
    · exact S2.tree_eq (by rw [x2]; exact hlt') (by rw [n2, x2, hnl]; exact hn)

theorem demoDirty_same : demo.SameButSentinelLinks demoDirty := by
  refine ⟨rfl, rfl, rfl, ?_, _, _, rfl, rfl, rfl, rfl⟩
  intro a ha
  have ha' : a ≠ 0 := ha
  simp only [demo, demoDirty, ha', if_false]

theorem sentinel_links_irrelevant_witness :
    demo.WF ∧ demo.SameButSentinelLinks demoDirty ∧
    demoDirty.WF ∧ demoDirty.tree = demo.tree ∧
    (∃ z, demo.searchTree (20, 0) = some z ∧ demoDirty.searchTree (20, 0) = some z) ∧
    (∃ T' y b t' u', demo.insert (20, 0) = some (t', y, b) ∧
      demoDirty.insert (20, 0) = some (u', y, b) ∧
      t'.tree = some T' ∧ u'.tree = some T' ∧ u'.root = t'.root ∧
      ∀ a ∈ T'.addrs, u'.heap a = t'.heap a) ∧
    (∃ T' t' u', demo.deleteNode (20, 0) = some t' ∧ demoDirty.deleteNode (20, 0) = some u' ∧
      t'.tree = some T' ∧ u'.tree = some T' ∧ u'.root = t'.root ∧
      ∀ a ∈ T'.addrs, u'.heap a = t'.heap a) :=
  ⟨demo_wf, demoDirty_same, sentinel_links_irrelevant demo demoDirty demo_wf demoDirty_same (20, 0)⟩

end FtContainers

namespace FtContainers

open Color Tree

variable {K V : Type}

variable [LinearOrder K]

/-! ## The states in which the repair loops are entered -/

/-- The state in which `insert` calls `fixInsert`.  On a well-formed tree and
for an absent key whose attach parent has a parent (the descent for the key
ends below a path `ctx` of at least two nodes), `insert` is `fixInsert` on a
state `ta` that holds the old tree with the new node, RED, attached below
the attach parent; the cursor is the new node and the invariant of the loop
holds there. -/
theorem insert_enters_fixInsert (t : RBT K V) (h : t.WF) (kv : K × V) (hk : kv.1 ∉ t.keys) :
    ∃ (T : Tree K V) (ctx : List (Frame K V)), t.tree = some T ∧
      T.find kv.1 [] = (nil, ctx) ∧ plug nil ctx = T ∧
      ∀ f f2 rest, ctx = f :: f2 :: rest →
        ∃ ta : RBT K V, ta.FixInsertInv (some t.next) ∧
          Shape ta (plug (node t.next RED_NODE nil kv nil) ctx) ∧
          ta.parent (some t.next) = some (some f.addr) ∧
          ta.parent (some f.addr) = some (some f2.addr) ∧
          t.insert kv =
            (do let t' ← RBT.fixInsert ta.next ta (some t.next)
                pure (t', some f.addr, true) : Exec (RBT K V × Ptr × Bool)) := by
  obtain ⟨T, ht, hS, hb, hlt, hn, hsb, hrc, hnr, hbl⟩ := h.unpack
  rw [RBT.keys_of_tree ht] at hk
  have e := (find_nil_iff kv.1 T hb).2 hk
  have hp := find_plug kv.1 T []
  have hbd := find_bounded kv.1 T [] hb (ctxBounded_nil kv.1)
  have hh := tree_height_lt ht
  rcases hfr : T.find kv.1 [] with ⟨S', ctx⟩
  rw [hfr] at e hp hbd
  simp only at e hp hbd
  subst e
  simp only [plug_nil] at hp
  refine ⟨T, ctx, ht, hfr, hp, ?_⟩
  subst hp
  intro f f2 rest hc
  subst hc
  have hfresh : t.next ∉ (plug (nil : Tree K V) (f :: f2 :: rest)).addrs :=
    fun hm => Nat.lt_irrefl _ (hlt _ hm)
  have hS0 : Shape (t.allocate ⟨kv, RED_NODE, none, some t.null, some t.null⟩).1
      (plug (plug nil (f :: f2 :: rest)) []) := hS.setCell_fresh hfresh _ _ rfl _
  have hkey : (t.allocate ⟨kv, RED_NODE, none, some t.null, some t.null⟩).1.key
      (some t.next) = some kv.1 := by
    simp [RBT.allocate, RBT.key]
  have hloop := insertLoop_eq hkey (plug nil (f :: f2 :: rest)) [] (t.next + 1) hS0
    (Nat.lt_succ_of_lt hh)
  rw [hfr] at hloop
  simp only [ctxPar_nil] at hloop
  have hroot : (t.allocate ⟨kv, RED_NODE, none, some t.null, some t.null⟩).1.root =
      t.root := rfl
  have hnull : (t.allocate ⟨kv, RED_NODE, none, some t.null, some t.null⟩).1.null =
      t.null := rfl
  rw [hnull, ← hS.root, ← hroot] at hloop
  obtain ⟨ta, Sa, ha1, ha2, ha3, ei, -⟩ := insert_attach hS (Nat.ne_of_gt hn) hfresh hloop hbd
  have hne : ¬ ((f2 :: rest).length = 0) := by simp
  simp only [hne, if_false] at ei
  have hsa : ta.sentinelBlack := by
    obtain ⟨n0, h3, h4⟩ := hsb
    exact ⟨n0, by rw [ha1, ha3]; exact h3, h4⟩
  exact ⟨ta, ⟨hsa, _, _, Sa, attach_inv hrc hnr hbl, rfl⟩, Sa, Sa.parent_eq, Sa.frame_parent, ei⟩

/-- The state in which `deleteNode` calls `fixDelete`.  On a well-formed tree
and for a present key, the relinking step for the node `z` that the lookup
finds returns a state `t1`, the node `x` that took the place of the removed
node and the colour `c` that was removed; `deleteNode` is `fixDelete` on
`(t1, x)` when `c` is BLACK, and the invariant of the loop holds there. -/
theorem deleteNode_enters_fixDelete (t : RBT K V) (h : t.WF) (kv : K × V)
    (hk : kv.1 ∈ t.keys) :
    ∃ (z : Nat) (t1 : RBT K V) (x : Ptr) (c : Color),
      t.searchTree kv = some (some z) ∧ z ≠ t.null ∧
      t.deleteSplice (some z) = some (t1, x, c) ∧
      (c = BLACK_NODE → t1.FixDeleteInv x) ∧
      t.deleteNode kv =
        (if c = BLACK_NODE then RBT.fixDelete t1.next t1 x else pure t1 : Exec (RBT K V)) := by
  obtain ⟨T, ht, hS, hb, hlt, hn, hsb, hrc, hnr, hbl⟩ := h.unpack
  rw [RBT.keys_of_tree ht] at hk
  have hfind : (T.find kv.1 []).1 ≠ nil := fun e => (find_nil_iff kv.1 T hb).1 e hk
  have hloop := @deleteLoop_eq _ _ _ t kv T [] t.next (some t.null) (by simpa using hS)
    (by simpa using hb) (tree_height_lt ht)
  have hsearch := searchTree_eq kv ht hb
  have hp := find_plug kv.1 T []
  have hh := tree_height_lt ht
  rcases find_cases kv.1 T [] with e | ⟨z, c, l, v, r, e⟩
  · exact absurd e hfind
  rw [e] at hp hloop hsearch
  rw [plug_nil] at hp
  simp only at hloop
  obtain ⟨ctx, hctx⟩ : ∃ ctx, ctx = (T.find kv.1 []).2 := ⟨_, rfl⟩
  rw [← hctx] at hp
  clear hctx e hfind
  subst hp
  have hz : z ≠ t.null := hS.focus_ne_null
  have hne : ¬ ((some z : Ptr) = some t.null) := fun e => hz (Option.some.inj e)
  have hdel : ∀ r, t.deleteSplice (some z) = some r →
      t.deleteNode kv =
        (if r.2.2 = BLACK_NODE then RBT.fixDelete r.1.next r.1 r.2.1 else pure r.1 :
          Exec (RBT K V)) := by
    intro r hr
    unfold RBT.deleteNode
    rw [deleteNodeHelper_eq, hS.root]
    simp only [ptr_plug, plug_nil] at hloop ⊢
    rw [hloop]
    simp only [Exec.some_bind, hne, if_false, hr]
  have hs1 : ∀ t1 : RBT K V, t1.null = t.null →
      t1.color (some t.null) = t.color (some t.null) → t1.sentinelBlack := by
    intro t1 hnl hcol
    apply sentinelBlack_of_color
    rw [hnl, hcol]
    exact sentinel_color hsb
  cases l with
  | nil =>
    obtain ⟨t1, e1, S1, hn1, hx1, hc1, hp1⟩ := deleteSplice_right hS (sentinelBlack.has_cell hsb)
    have hinv := @splice_inv K V z c (kv.1, v) nil r r ctx (Or.inl ⟨rfl, rfl⟩) hrc hnr hbl
    refine ⟨z, t1, _, _, hsearch, hz, e1, fun hc => ?_, hdel _ e1⟩
    exact ⟨hs1 t1 hn1 hc1, r, ctx, S1, hinv.1 hc, by rw [hn1],
      fun hX _ => by rw [hn1]; exact hp1 hX⟩
  | node l' cl Ll kl Lr =>
    cases r with
    | nil =>
      obtain ⟨t1, e1, S1, hn1, hx1, hc1⟩ := deleteSplice_left hS (sentinelBlack.has_cell hsb)
      have hinv := @splice_inv K V z c (kv.1, v) (node l' cl Ll kl Lr) nil (node l' cl Ll kl Lr)
        ctx (Or.inr ⟨rfl, rfl⟩) hrc hnr hbl
      refine ⟨z, t1, _, _, hsearch, hz, e1, fun hc => ?_, hdel _ e1⟩
      exact ⟨hs1 t1 hn1 hc1, _, ctx, S1, hinv.1 hc, rfl, fun hX _ => by cases hX⟩
    | node r' cr Rl kr Rr =>
      obtain ⟨y, cy, ky, Ry, c1, t1, hmp, hpl, hpre, -, e1, S1, hn1, hx1, hcc1, hp1⟩ :=
        deleteSplice_succ hS (sentinelBlack.has_cell hsb) hh
      have hT : plug (node z c (node l' cl Ll kl Lr) (kv.1, v) (node r' cr Rl kr Rr)) ctx =
          plug (node y cy nil ky Ry)
            (c1 ++ Frame.R z c (node l' cl Ll kl Lr) (kv.1, v) :: ctx) := by
        rw [plug_append, hpl]
        rfl
      rw [hT] at hrc hnr hbl
      have hinv := splice_inv_succ hrc hnr hbl
      refine ⟨z, t1, _, _, hsearch, hz, e1, fun hc => ?_, hdel _ e1⟩
      exact ⟨hs1 t1 hn1 hcc1, Ry, _, S1, hinv.1 hc, by rw [hn1],
        fun hX _ => by rw [hn1]; exact hp1 hX⟩

end FtContainers

namespace FtContainers

open Color Tree

variable {K V : Type}

/-! ## Links to the node that `deleteNode` destroys -/

theorem Frame.addr_mem_ctxAddrs (f : Frame K V) (rest : List (Frame K V)) :
    f.addr ∈ ctxAddrs (f :: rest) := by
  cases f <;> simp [ctxAddrs]

/-- In a state that holds a tree, neither `_root` nor a link of a node of the
tree designates a cell that is neither the sentinel nor a node of the tree. -/
theorem Shape.no_link_to {t : RBT K V} {T : Tree K V} (hS : Shape t T) {z : Nat}
    (hz : z ≠ t.null) (hm : z ∉ T.addrs) :
    t.root ≠ some z ∧
    ∀ a ∈ T.addrs, ∃ n, t.heap a = some n ∧ n.left ≠ some z ∧ n.right ≠ some z ∧
      n.parent ≠ some z := by
  refine ⟨fun e => hm (Tree.ptr_mem (hS.root.symm.trans e) hz), fun a ha => ?_⟩
  obtain ⟨c, l, kv, r, ctx, e⟩ := Tree.focus_of_addr T [] ha
  rw [plug_nil] at e
  subst e
  refine ⟨_, hS.cell, ?_, ?_, ?_⟩
  · intro e
    apply hm
    rw [mem_addrs_plug]
    left
    have := Tree.ptr_mem e hz
    simp only [Tree.addrs, List.mem_append, List.mem_cons]
    exact Or.inl this
  · intro e
    apply hm
    rw [mem_addrs_plug]
    left
    have := Tree.ptr_mem e hz
    simp only [Tree.addrs, List.mem_append, List.mem_cons]
    exact Or.inr (Or.inr this)
  · intro e
    apply hm
    rw [mem_addrs_plug]
    right
    cases ctx with
    | nil => cases e
    | cons f rest =>
      simp only [ctxPar_cons, Option.some.injEq] at e
      rw [← e]
      exact Frame.addr_mem_ctxAddrs f rest

variable [LinearOrder K]

/-- C14, as stated, fails for the parent link of the sentinel.  After
`insert` of 10, 20 and 5 into the freshly constructed tree and
`deleteNode(20)`, the tree `t` is well-formed, and `rbTransplant` has left the
node 10 (cell 1) in the parent link of the sentinel.  `deleteNode(10)` then
destroys the node 10: its cell is released, the new root 5 (cell 3) has the
sentinel as its left and right link, and the parent link of the sentinel still
designates the destroyed node. -/
theorem sentinel_parent_dangles :
    ∃ t t' : RBT Nat Nat,
      (RBT.new : RBT Nat Nat).run
        [Op.ins (10, 0), Op.ins (20, 0), Op.ins (5, 0), Op.del (20, 0)] = some t ∧
      t.WF ∧ t.searchTree (10, 0) = some (some 1) ∧ t.deleteNode (10, 0) = some t' ∧
      t'.heap 1 = none ∧ t'.root = some 3 ∧ t'.null = 0 ∧
      t'.left (some 3) = some (some 0) ∧ t'.right (some 3) = some (some 0) ∧
      t'.parent (some 0) = some (some 1) := by
  obtain ⟨t, e, hw⟩ := run_wf
    [Op.ins (10, 0), Op.ins (20, 0), Op.ins (5, 0), Op.del (20, 0)] (RBT.new : RBT Nat Nat)
    (@new_wf Nat Nat _ _ _).2
  have hev : ((RBT.new : RBT Nat Nat).run
      [Op.ins (10, 0), Op.ins (20, 0), Op.ins (5, 0), Op.del (20, 0)]).bind
      (fun t => (t.deleteNode (10, 0)).map fun t' =>
        (t.searchTree (10, 0), (t'.heap 1).isNone, t'.root, t'.null, t'.left (some 3),
          t'.right (some 3), t'.parent (some 0))) =
      some (some (some 1), true, some 3, 0, some (some 0), some (some 0), some (some 1)) := rfl
  rw [e] at hev
  dsimp only [Option.bind] at hev
  cases hd : t.deleteNode (10, 0) with
  | none =>
    rw [hd] at hev
    cases hev
  | some t' =>
    rw [hd] at hev
    simp only [Option.map_some', Option.some.injEq, Prod.mk.injEq, Option.isNone_iff_eq_none]
      at hev
    obtain ⟨h1, h2, h3, h4, h5, h6, h7⟩ := hev
    exact ⟨t, t', e, hw, h1, hd, h2, h3, h4, h5, h6, h7⟩

/-- C14, amended: the links of the nodes stay self-consistent.  The freshly
constructed tree has consistent links, and on every well-formed tree and for
every key `insert` and `deleteNode` return and leave consistent links: every
node reachable from `_root` has as left and right link the sentinel or a
reachable node whose parent link points back to it, and no node is reached
along two different paths.  After `deleteNode` the cell of the node found for
the key, which is the one destroyed, is released; that node is not reachable,
`_root` does not designate it, and no left, right or parent link of a
reachable node designates it.  The parent link of the sentinel is not covered
(`sentinel_parent_dangles`). -/
theorem node_links_consistent [Inhabited K] [Inhabited V] (t : RBT K V) (key : K × V)
    (h : t.WF) :
    (RBT.new : RBT K V).LinksConsistent ∧
    (∃ r, t.insert key = some r ∧ r.1.LinksConsistent) ∧
    (∃ t', t.deleteNode key = some t' ∧ t'.LinksConsistent ∧
      ∀ z, t.searchTree key = some (some z) → z ≠ t.null →
        t'.heap z = none ∧ ¬ t'.Reach z ∧ t'.root ≠ some z ∧
        ∀ a, t'.Reach a → ∃ n, t'.heap a = some n ∧ n.left ≠ some z ∧ n.right ≠ some z ∧
          n.parent ≠ some z) := by
  obtain ⟨T, ht, hS, hb, -⟩ := h.unpack
  refine ⟨(@new_wf K V _ _ _).2.links, ?_, ?_⟩
  · by_cases hk : key.1 ∈ T.keys
    · obtain ⟨t', a, e, -, -, -, -, -, -, -, hw⟩ := insert_present ht h hk
      exact ⟨_, e, hw.links⟩
    · obtain ⟨t', y, T', e, hw, -⟩ := insert_absent ht h hk
      exact ⟨_, e, hw.links⟩
  · by_cases hk : key.1 ∈ T.keys
    · obtain ⟨t', T', z, v, pre, post, e, hw, ht', hs, hn1, hn2, hnl, -⟩ :=
        delete_present ht h hk
      refine ⟨t', e, hw.links, fun z' hz' hzn => ?_⟩
      have hzz : z' = z := Option.some.inj (Option.some.inj (hz'.symm.trans hs))
      subst hzz
      obtain ⟨T1, ht1, hS1, -⟩ := hw.unpack
      have : T1 = T' := Option.some.inj (ht1.symm.trans ht')
      subst this
      have hzm : z' ∉ T1.addrs := by
        intro hm
        have hnd := hS.nodup
        rw [Tree.addrs_eq_nodes, hn1] at hnd
        rw [Tree.addrs_eq_nodes, hn2] at hm
        simp only [List.map_append, List.map_cons, List.nodup_append, List.nodup_cons,
          List.mem_append, List.disjoint_cons_right] at hnd hm
        rcases hm with hm | hm
        · exact hnd.2.2.1 hm
        · exact hnd.2.1.1 hm
      have hloop := @deleteLoop_eq _ _ _ t key T [] t.next (some t.null) (by simpa using hS)
        (by simpa using hb) (tree_height_lt ht)
      have hsearch := searchTree_eq key ht hb
      have hloop' : t.deleteLoop key t.next t.root (some t.null) = some (some z') := by
        rw [hS.root]
        simp only [plug_nil] at hloop
        rw [hloop]
        rw [hz'] at hsearch
        rcases find_cases key.1 T [] with e0 | ⟨z0, c, L, v0, R, e0⟩
        · rw [e0] at hsearch
          exact absurd (Option.some.inj (Option.some.inj hsearch)) hzn
        · rw [e0] at hsearch ⊢
          exact hsearch.symm
      obtain ⟨hfree, -⟩ := RBT.deleteNode_vals e hloop' hzn
      obtain ⟨hroot, hall⟩ := hS1.no_link_to (by rw [hnl]; exact hzn) hzm
      exact ⟨hfree, fun hr => hzm (hS1.reach_mem hr), hroot,
        fun a ha => hall a (hS1.reach_mem ha)⟩
    · refine ⟨t, delete_absent ht hb hk, h.links, fun z hz hzn => ?_⟩
      rw [search_absent ht hb hk] at hz
      exact absurd (Option.some.inj (Option.some.inj hz)).symm hzn

theorem node_links_consistent_witness :
    demo.WF ∧ (RBT.new : RBT Nat Nat).LinksConsistent ∧
      (∃ r, demo.insert (25, 7) = some r ∧ r.1.LinksConsistent) ∧
      (∃ t', demo.deleteNode (20, 0) = some t' ∧ t'.LinksConsistent ∧
        ∀ z, demo.searchTree (20, 0) = some (some z) → z ≠ demo.null →
          t'.heap z = none ∧ ¬ t'.Reach z ∧ t'.root ≠ some z ∧
          ∀ a, t'.Reach a → ∃ n, t'.heap a = some n ∧ n.left ≠ some z ∧ n.right ≠ some z ∧
            n.parent ≠ some z) :=
  ⟨demo_wf, (node_links_consistent demo (25, 7) demo_wf).1,
    (node_links_consistent demo (25, 7) demo_wf).2.1,
    (node_links_consistent demo (20, 0) demo_wf).2.2⟩

end FtContainers
